import Mathlib

/-! Whitespace alignment of the Tally clang-format fork.

A shallow embedding of `clang/lib/Format/WhitespaceManager.cpp`: the change
ledger, the two overloads of `AlignTokenSequence` and `AlignTokens`, the
comment and escaped-newline passes, the patch emitter, and the properties of
the alignment passes; and of the functions `MissingNotBraces`, `format` and
`outputReplacementXML` of `clang/tools/clang-format/ClangFormat.cpp`.

Conventions of the embedding.

* `unsigned` values are natural numbers below `2^32`; every unsigned
  operation that can leave that range is reduced modulo `2^32`
  (`toUnsigned`).  `int` values are mathematical integers; a conversion from
  `unsigned` to `int` is the two's complement reading (`toInt`).
* The ledger `Changes` is a list of records; a token pointer is an index into
  a token table.
* `assert` does not stop the run (a release build): a failed assertion is
  recorded in the flag `AssertsHeld` that every aligner returns next to the
  ledger.
* A loop whose end is not structural takes a bound on its iterations; that
  the bound given suffices is proved for each such loop.
-/

set_option autoImplicit false

namespace ClangFormat

/-! ## Machine integers -/

/-- The largest value of the C++ type unsigned. -/
def UINT_MAX : Nat := 4294967295

/-- Conversion of an integer to the C++ type unsigned: reduction modulo 2^32. -/
def toUnsigned (z : Int) : Nat := (z % 4294967296).toNat

/-- Conversion of an unsigned value to the C++ type int: two's complement. -/
def toInt (n : Nat) : Int :=
  if n % 4294967296 < 2147483648 then ((n % 4294967296 : Nat) : Int)
  else ((n % 4294967296 : Nat) : Int) - 4294967296

/-! ## Tokens -/

/-- The token kinds (tok::TokenKind) that the whitespace passes test for. -/
inductive TokenKind where
  | unknown | eof | comment | identifier | comma | coloncolon | l_square
  | r_square | less | greater | l_brace | r_brace | l_paren | r_paren
  | equal | colon | question | semi | amp | ampamp | star | ellipsis
  | kw_switch | kw_case | kw_const | kw_static | kw_virtual | kw_inline
  | kw_friend | kw_extern | kw_mutable | kw_volatile | kw_explicit
  | kw_register | kw_constexpr | kw_thread_local | kw_alignas | kw_template
  | kw_typename | kw_class | kw_using | kw_operator | pp_define
  deriving DecidableEq, Repr

/-- The token types (TokenType, the TT_ constants) that the passes test for. -/
inductive TokenType where
  | TT_Unknown | TT_FunctionDeclarationName | TT_ConditionalExpr
  | TT_BitFieldColon | TT_LineComment | TT_StartOfName
  deriving DecidableEq, Repr

/-- Operator precedence of a fake parenthesis; only prec::Conditional is
tested by the passes. -/
inductive Prec where
  | Conditional | Other
  deriving DecidableEq, Repr

/-- The members of FormatToken that WhitespaceManager.cpp reads or writes.
FormatToken.h is not among the sources: the data members are taken as given,
and so is the result of each member function that the passes call (the
fields from PreviousNonComment on).  A pointer to a token is an index into
the token table, a pointer to a line an index into the line table, none the
null pointer. -/
structure FormatToken where
  Kind : TokenKind := TokenKind.unknown
  TokType : TokenType := TokenType.TT_Unknown
  TokenText : List Char := []
  IndentLevel : Nat := 0
  NestingLevel : Nat := 0
  LparenCount : Nat := 0
  LbraceCount : Nat := 0
  LArrowCount : Nat := 0
  NewlinesBefore : Nat := 0
  SpacesRequiredBefore : Nat := 0
  ColumnWidth : Nat := 0
  MustBreakAlignBefore : Bool := false
  Previous : Option Nat := none
  Next : Option Nat := none
  MyLine : Option Nat := none
  FakeLParens : List Prec := []
  FakeRParens : Nat := 0
  IsClassScope : Bool := false
  IsStructScope : Bool := false
  IsEnumScope : Bool := false
  IsUnionScope : Bool := false
  IsInFunctionDefinitionScope : Bool := false
  HasSemiColonInLine : Bool := false
  IsDatatype : Bool := false
  IsInterimBeforeName : Bool := false
  PrevTokenSizeForColumnarization : Nat := 0
  PreviousNonComment : Option Nat := none
  NextNonComment : Option Nat := none
  NextNonCommentNonConst : Option Nat := none
  walkTemplateBlockInClassDecl : Option Nat := none
  isScopedVarNameInDecl : Bool := false
  isVarNameInDecl : Bool := false
  isLBraceOfConstexprOrVarDelcOrDef : Bool := false
  isPrevBeforeInterimsVarWithoutDatatype : Bool := false
  isAfterNoDiscardOrNoReturnOrTemplate : Bool := false
  isNoDiscardOrNoReturnOrTemplate : Bool := false
  isDeclSpecStaticOrVirtual : Bool := false
  isDeclSpecInlineOrExtern : Bool := false
  isDeclarationSpecifier : Bool := false
  isFunctionNameAfterInterims : Bool := false
  isMemberVariableNameAfterInterims : Bool := false
  isMaybeUnused : Bool := false
  isFunctionAndNextLeftParen : Bool := false
  isMemberVarNameInDecl : Bool := false
  isDatatype : Bool := false
  isFunctionNameAndPrevIsPointerOrRefOrDatatype : Bool := false
  isConstructor : Bool := false
  isDestructor : Bool := false
  isFunctionOrCtorOrPrevIsDtor : Bool := false
  deriving DecidableEq, Repr

/-- The members of AnnotatedLine (TokenAnnotator.h) that the passes read or
write; EndsWithSemi is the result of endsWith(tok::semi). -/
structure AnnotatedLine where
  First : Option Nat := none
  MightBeFunctionDecl : Bool := false
  EndsWithSemi : Bool := false
  LastSpecifierPadding : Nat := 0
  LastSpecifierTabs : Nat := 0
  deriving DecidableEq, Repr

/-- Test of the token kind, FormatToken::is(tok::TokenKind). -/
def FormatToken.is (t : FormatToken) (k : TokenKind) : Bool := decide (t.Kind = k)

/-- Test of the token type, FormatToken::is(TokenType). -/
def FormatToken.isType (t : FormatToken) (k : TokenType) : Bool := decide (t.TokType = k)

/-- The token table: the tokens of the formatting run, addressed by index. -/
abbrev TokenTable := List FormatToken

/-- Dereference of a token pointer. -/
def TokenTable.at (T : TokenTable) (p : Nat) : FormatToken := T.getD p {}

/-! ## The change ledger -/

/-- One change record (WhitespaceManager::Change).  The source range
OriginalWhitespaceRange is given by the file offsets of its two ends; the
pointer StartOfBlockComment is an index into the ledger. -/
structure Change where
  Tok : Nat := 0
  CreateReplacement : Bool := true
  OriginalWhitespaceBegin : Nat := 0
  OriginalWhitespaceEnd : Nat := 0
  StartOfTokenColumn : Nat := 0
  NewlinesBefore : Nat := 0
  PreviousLinePostfixText : List Char := []
  CurrentLinePrefixText : List Char := []
  IsAligned : Bool := false
  ContinuesPPDirective : Bool := false
  Spaces : Int := 0
  IsInsideToken : Bool := false
  IsTrailingComment : Bool := false
  TokenLength : Nat := 0
  PreviousEndOfTokenColumn : Nat := 0
  EscapedNewlineColumn : Nat := 0
  StartOfBlockComment : Option Nat := none
  IndentationOffset : Int := 0
  ConditionalsLevel : Nat := 0
  deriving DecidableEq, Repr

/-- The value of std::tuple<unsigned, unsigned, unsigned> returned by
indentAndNestingLevel. -/
abbrev Level := Nat × Nat × Nat

/-- Lexicographic comparison of two levels, operator< of std::tuple. -/
def Level.lt (a b : Level) : Bool :=
  decide (a.1 < b.1) || (decide (a.1 = b.1) &&
    (decide (a.2.1 < b.2.1) || (decide (a.2.1 = b.2.1) && decide (a.2.2 < b.2.2))))

/-- Modelled from the spec: Change::indentAndNestingLevel is declared in
WhitespaceManager.h, which is not among the sources.  The level of a record
is the tuple of the indent level and the nesting level of its token and of
the record's conditional nesting level. -/
def indentAndNestingLevel (T : TokenTable) (c : Change) : Level :=
  ((T.at c.Tok).IndentLevel, (T.at c.Tok).NestingLevel, c.ConditionalsLevel)

/-- The ledger, SmallVector<WhitespaceManager::Change, 16>. -/
abbrev Changes := List Change

/-- Read of Changes[i]. -/
def Changes.at (cs : Changes) (i : Nat) : Change := cs.getD i {}

/-- The campaign predicate F of AlignTokens.  The C++ predicates receive a
reference into the ledger and read the record, its token and the neighbouring
records; the embedding passes the ledger and the index. -/
abbrev Predicate := Changes → Nat → Bool

/-! ## AlignTokenSequence -/

/-- The local variables of the loop of AlignTokenSequence, with the ledger
and the record of the assertions.  The back of the C++ ScopeStack is the head
of the list. -/
structure SeqState where
  Changes : Changes
  FoundMatchOnLine : Bool := false
  Shift : Int := 0
  ScopeStack : List Nat := []
  AssertsHeld : Bool := true
  deriving DecidableEq, Repr

/-- The loop that moves PreviousNonComment down over comment records: while
PreviousNonComment > Start and the record is a comment, decrement. -/
def previousNonComment (T : TokenTable) (cs : Changes) (Start : Nat) : Nat → Nat
  | 0 => 0
  | p + 1 =>
    if decide (p + 1 > Start) && (T.at (cs.at (p + 1)).Tok).is TokenKind.comment then
      previousNonComment T cs Start p
    else p + 1

/-- The scope stack after the pop and the push at the head of the loop body
of AlignTokenSequence (the stock overload, and the Tally overload with
IgnoreScope false).  AlignTokenSequence is entered with 0 < Start only, so
that i - 1 does not wrap. -/
def scopeStackAt (T : TokenTable) (cs : Changes) (Start i : Nat) (stack : List Nat) : List Nat :=
  let stack1 :=
    if decide (stack.length ≠ 0) &&
        Level.lt (indentAndNestingLevel T (cs.at i)) (indentAndNestingLevel T (cs.at stack.headI)) then
      stack.tail
    else stack
  let PreviousNonComment := previousNonComment T cs Start (i - 1)
  if decide (i ≠ Start) &&
      Level.lt (indentAndNestingLevel T (cs.at PreviousNonComment)) (indentAndNestingLevel T (cs.at i)) then
    i :: stack1
  else stack1

/-- The statement `Changes[i].Spaces += Shift`. -/
def addSpaces (cs : Changes) (i : Nat) (Shift : Int) : Changes :=
  cs.set i { cs.at i with Spaces := (cs.at i).Spaces + Shift }

/-- The statement `Changes[i].StartOfTokenColumn += Shift`. -/
def addStartOfTokenColumn (cs : Changes) (i : Nat) (Shift : Int) : Changes :=
  cs.set i { cs.at i with
    StartOfTokenColumn := toUnsigned (((cs.at i).StartOfTokenColumn : Int) + Shift) }

/-- The statement `Changes[i].PreviousEndOfTokenColumn += Shift`. -/
def addPreviousEndOfTokenColumn (cs : Changes) (i : Nat) (Shift : Int) : Changes :=
  cs.set i { cs.at i with
    PreviousEndOfTokenColumn := toUnsigned (((cs.at i).PreviousEndOfTokenColumn : Int) + Shift) }

/-- The tail of the loop body of both overloads, after assert(Shift >= 0):
the shift of StartOfTokenColumn of record i and, unless i is the last index,
of PreviousEndOfTokenColumn of record i + 1. -/
def shiftColumns (cs : Changes) (i : Nat) (Shift : Int) : Changes :=
  let cs1 : Changes := addStartOfTokenColumn cs i Shift
  if i + 1 ≠ cs1.length then addPreviousEndOfTokenColumn cs1 (i + 1) Shift else cs1

/-- The test under which the loop body of AlignTokenSequence resets Shift
and FoundMatchOnLine: the record starts a line and is not in a nested scope
(or IgnoreScope is set; the stock overload has IgnoreScope = false). -/
def lineReset (cs : Changes) (i : Nat) (stack : List Nat) (IgnoreScope : Bool) : Bool :=
  decide ((cs.at i).NewlinesBefore > 0) && (!decide (stack.length ≠ 0) || IgnoreScope)

/-- The test `Changes[ScopeStart - 1].Tok->is(TT_FunctionDeclarationName) ||
(ScopeStart > Start + 1 && Changes[ScopeStart - 2].Tok->is(
TT_FunctionDeclarationName))` on the start of the innermost scope. -/
def afterFunctionDeclarationName (T : TokenTable) (cs : Changes) (Start : Nat)
    (stack : List Nat) : Bool :=
  (T.at (cs.at (stack.headI - 1)).Tok).isType TokenType.TT_FunctionDeclarationName ||
    (decide (stack.headI > Start + 1) &&
      (T.at (cs.at (stack.headI - 2)).Tok).isType TokenType.TT_FunctionDeclarationName)

namespace Stock

/-- Whether record i is taken as the match of its line (line 379). -/
def takesMatch (Matches : Predicate) (s : SeqState) (i : Nat) (stack : List Nat) : Bool :=
  !(if lineReset s.Changes i stack false then false else s.FoundMatchOnLine) &&
    !decide (stack.length ≠ 0) && Matches s.Changes i

/-- Whether record i, inside a nested scope, is shifted with the sequence
(lines 387 to 395). -/
def continuation (T : TokenTable) (Start : Nat) (cs : Changes) (i : Nat) (stack : List Nat) :
    Bool :=
  decide (stack.length ≠ 0) && decide ((cs.at i).NewlinesBefore > 0) &&
    (afterFunctionDeclarationName T cs Start stack ||
      (T.at (cs.at i).Tok).isType TokenType.TT_ConditionalExpr ||
      (match (T.at (cs.at i).Tok).Previous with
       | some p => (T.at p).isType TokenType.TT_ConditionalExpr
       | none => false))

/-- One iteration of the loop of the stock AlignTokenSequence
(WhitespaceManager.cpp, lines 353 to 402). -/
def sequenceStep (T : TokenTable) (Matches : Predicate) (Start Column : Nat)
    (s : SeqState) (i : Nat) : SeqState :=
  let ScopeStack := scopeStackAt T s.Changes Start i s.ScopeStack
  let take := takesMatch Matches s i ScopeStack
  let Shift : Int :=
    if take then toInt (toUnsigned ((Column : Int) - (s.Changes.at i).StartOfTokenColumn))
    else if lineReset s.Changes i ScopeStack false then 0
    else s.Shift
  let cs1 : Changes := if take then addSpaces s.Changes i Shift else s.Changes
  let cs2 : Changes := if continuation T Start cs1 i ScopeStack then addSpaces cs1 i Shift else cs1
  { Changes := shiftColumns cs2 i Shift
    FoundMatchOnLine :=
      take || (if lineReset s.Changes i ScopeStack false then false else s.FoundMatchOnLine)
    Shift := Shift
    ScopeStack := ScopeStack
    AssertsHeld := s.AssertsHeld && decide (Shift ≥ 0) }

/-- The stock AlignTokenSequence: the loop for i from Start up to End.  It
is called with Start < End only. -/
def AlignTokenSequence (T : TokenTable) (Start End Column : Nat) (Matches : Predicate)
    (cs : Changes) : SeqState :=
  (List.range' Start (End - Start)).foldl (sequenceStep T Matches Start Column) { Changes := cs }

end Stock

namespace Tally

/-- The test that the Tally overload adds before a record is taken as a
match (lines 595 to 597): the token is not an identifier directly after
`::`, `[` or `<`, and is outside parentheses. -/
def matchAllowed (T : TokenTable) (cs : Changes) (i : Nat) : Bool :=
  !((T.at (cs.at i).Tok).is TokenKind.identifier && decide (i > 0) &&
      ((T.at (cs.at (i - 1)).Tok).is TokenKind.coloncolon ||
       (T.at (cs.at (i - 1)).Tok).is TokenKind.l_square ||
       (T.at (cs.at (i - 1)).Tok).is TokenKind.less)) &&
    decide ((T.at (cs.at i).Tok).LparenCount = 0)

/-- Whether record i is taken as the match of its line (lines 593 to
597). -/
def takesMatch (T : TokenTable) (Matches : Predicate) (IgnoreScope : Bool) (s : SeqState)
    (i : Nat) (stack : List Nat) : Bool :=
  (!(if lineReset s.Changes i stack IgnoreScope then false else s.FoundMatchOnLine) &&
    (IgnoreScope || !decide (stack.length ≠ 0)) && Matches s.Changes i) &&
  matchAllowed T s.Changes i

/-- Whether record i, inside a nested scope, is shifted with the sequence
(lines 607 to 613). -/
def continuation (T : TokenTable) (Start : Nat) (cs : Changes) (i : Nat) (stack : List Nat) :
    Bool :=
  decide (stack.length ≠ 0) && decide ((cs.at i).NewlinesBefore > 0) &&
    afterFunctionDeclarationName T cs Start stack

/-- One iteration of the loop of the Tally AlignTokenSequence
(WhitespaceManager.cpp, lines 569 to 619).  IgnoreCommas is not read by the
function. -/
def sequenceStep (T : TokenTable) (Matches : Predicate) (IgnoreScope : Bool)
    (Start Column : Nat) (s : SeqState) (i : Nat) : SeqState :=
  let ScopeStack := if IgnoreScope then s.ScopeStack else scopeStackAt T s.Changes Start i s.ScopeStack
  let take := takesMatch T Matches IgnoreScope s i ScopeStack
  let Shift : Int :=
    if take then toInt (toUnsigned ((Column : Int) - (s.Changes.at i).StartOfTokenColumn))
    else if lineReset s.Changes i ScopeStack IgnoreScope then 0
    else s.Shift
  let cs1 : Changes := if take then addSpaces s.Changes i Shift else s.Changes
  let cs2 : Changes := if continuation T Start cs1 i ScopeStack then addSpaces cs1 i Shift else cs1
  { Changes := shiftColumns cs2 i Shift
    FoundMatchOnLine :=
      take || (if lineReset s.Changes i ScopeStack IgnoreScope then false else s.FoundMatchOnLine)
    Shift := Shift
    ScopeStack := ScopeStack
    AssertsHeld := s.AssertsHeld && decide (Shift ≥ 0) }

/-- The Tally AlignTokenSequence: the loop for i from Start up to End.  It
is called with Start < End only. -/
def AlignTokenSequence (T : TokenTable) (Start End Column : Nat) (Matches : Predicate)
    (cs : Changes) (IgnoreScope : Bool) (_IgnoreCommas : Bool) : SeqState :=
  (List.range' Start (End - Start)).foldl (sequenceStep T Matches IgnoreScope Start Column)
    { Changes := cs }

end Tally

/-! ## AlignTokens -/

/-- The values of FormatStyle::EscapedNewlineAlignmentStyle. -/
inductive EscapedNewlineAlignmentStyle where
  | ENAS_DontAlign | ENAS_Left | ENAS_Right
  deriving DecidableEq, Repr

/-- The values of FormatStyle::UseTabStyle. -/
inductive UseTabStyle where
  | UT_Never | UT_ForIndentation | UT_ForContinuationAndIndentation | UT_AlignWithSpaces
  | UT_Always
  deriving DecidableEq, Repr

/-- The members of FormatStyle that the whitespace passes read. -/
structure FormatStyle where
  ColumnLimit : Nat := 80
  ColumnLimitExtended : Nat := 80
  IndentWidth : Nat := 4
  TabWidth : Nat := 4
  AlignConsecutiveAssignments : Bool := false
  AlignConsecutiveDeclarations : Bool := false
  AlignConsecutiveBitFields : Bool := false
  AlignConsecutiveMacros : Bool := false
  AlignTrailingComments : Bool := false
  AlignEscapedNewlines : EscapedNewlineAlignmentStyle := EscapedNewlineAlignmentStyle.ENAS_DontAlign
  BreakBeforeTernaryOperators : Bool := true
  UseTab : UseTabStyle := UseTabStyle.UT_Never
  deriving DecidableEq, Repr

/-- The local variables of AlignTokens, with the ledger and the record of the
assertions of the AlignTokenSequence calls made so far. -/
structure AlignState where
  Changes : Changes
  MinColumn : Nat := 0
  MaxColumn : Nat := UINT_MAX
  StartOfSequence : Nat := 0
  EndOfSequence : Nat := 0
  CommasBeforeLastMatch : Nat := 0
  CommasBeforeMatch : Nat := 0
  FoundMatchOnLine : Bool := false
  AssertsHeld : Bool := true
  deriving DecidableEq, Repr

/-- What a call of AlignTokens leaves: the ledger, whether every assertion
held, and the returned index. -/
structure AlignResult where
  Changes : Changes
  AssertsHeld : Bool
  StoppedAt : Nat
  deriving DecidableEq, Repr

/-- The parts in which the two overloads of AlignTokens differ: the handling
of a record that starts a line, whether a deeper record is delegated to a
recursive call, the handling of a matching record, the lambda
AlignCurrentSequence, and the predicate. -/
structure Overload where
  lineStart : AlignState → Nat → AlignState
  descend : Bool
  matchStep : AlignState → Nat → AlignState
  flush : AlignState → AlignState
  Matches : Predicate

/-- The head of the loop body of AlignTokens: the statements under
`if (Changes[i].NewlinesBefore != 0)`. -/
def scanHead (O : Overload) (s : AlignState) (i : Nat) : AlignState :=
  if (s.Changes.at i).NewlinesBefore ≠ 0 then O.lineStart s i else s

/-- The statement `if (Changes[i].Tok->is(tok::comma)) ++CommasBeforeMatch;`. -/
def countComma (T : TokenTable) (s : AlignState) (i : Nat) : AlignState :=
  if (T.at (s.Changes.at i).Tok).is TokenKind.comma then
    { s with CommasBeforeMatch := s.CommasBeforeMatch + 1 }
  else s

/-- The loop body of AlignTokens after its head, at a record that is not
delegated to a recursive call: the count of a comma, then, if the record
matches, the statements for a matching record. -/
def scanTail (T : TokenTable) (O : Overload) (s : AlignState) (i : Nat) : AlignState :=
  if O.Matches (countComma T s i).Changes i then O.matchStep (countComma T s i) i
  else countComma T s i

/-- Whether the record i is delegated to a recursive call: it is not a
comma, the overload descends, and the record lies deeper than the anchor. -/
def delegated (T : TokenTable) (O : Overload) (anchor : Level) (cs : Changes) (i : Nat) : Bool :=
  !(T.at (cs.at i).Tok).is TokenKind.comma && O.descend &&
    Level.lt anchor (indentAndNestingLevel T (cs.at i))

/-- The for loop of AlignTokens, from index i on, in state s.  The first
argument bounds the number of iterations; recCall is the recursive call of
AlignTokens.  The loop ends at i = e or at the break; `i = StoppedAt - 1;
continue` followed by `++i` resumes at StoppedAt. -/
def scanLoop (T : TokenTable) (O : Overload) (recCall : Changes → Nat → Option AlignResult)
    (anchor : Level) : Nat → AlignState → Nat → Option (AlignState × Nat)
  | 0, _, _ => none
  | fuel + 1, s, i =>
    if i = s.Changes.length then some (s, i)
    else if Level.lt (indentAndNestingLevel T (s.Changes.at i)) anchor then some (s, i)
    else if delegated T O anchor (scanHead O s i).Changes i then
      match recCall (scanHead O s i).Changes i with
      | none => none
      | some r =>
        scanLoop T O recCall anchor fuel
          { scanHead O s i with
            Changes := r.Changes
            AssertsHeld := (scanHead O s i).AssertsHeld && r.AssertsHeld } r.StoppedAt
    else scanLoop T O recCall anchor fuel (scanTail T O (scanHead O s i) i) (i + 1)

/-- The body of AlignTokens around its loop: the anchor level of
Changes[StartAt], the loop, then `EndOfSequence = i; AlignCurrentSequence();
return i`.  The first argument bounds the depth of the recursion. -/
def alignTokensAux (T : TokenTable) (O : Overload) : Nat → Changes → Nat → Option AlignResult
  | 0 => fun _ _ => none
  | depth + 1 => fun cs StartAt =>
    let anchor : Level :=
      if StartAt < cs.length then indentAndNestingLevel T (cs.at StartAt) else (0, 0, 0)
    match scanLoop T O (alignTokensAux T O depth) anchor (cs.length + 1) { Changes := cs } StartAt with
    | none => none
    | some (s, i) =>
      let s1 := O.flush { s with EndOfSequence := i }
      some { Changes := s1.Changes, AssertsHeld := s1.AssertsHeld, StoppedAt := i }

/-- The records from index i to the end of the line of record i: the range
of `for (j = i; j != e && Changes[j].NewlinesBefore == 0; ++j)`. -/
def restOfLine (cs : Changes) (i : Nat) : List Change :=
  (cs.drop i).takeWhile (fun c => decide (c.NewlinesBefore = 0))

/-- The statements `CommasBeforeLastMatch = CommasBeforeMatch;
FoundMatchOnLine = true; if (StartOfSequence == 0) StartOfSequence = i;` of
both overloads. -/
def noteMatch (s : AlignState) (i : Nat) : AlignState :=
  { s with
    CommasBeforeLastMatch := s.CommasBeforeMatch
    FoundMatchOnLine := true
    StartOfSequence := if s.StartOfSequence = 0 then i else s.StartOfSequence }

/-- The statements `MinColumn = std::max(MinColumn, ChangeMinColumn);
MaxColumn = std::min(MaxColumn, ChangeMaxColumn);` of both overloads. -/
def widen (s : AlignState) (ChangeMinColumn ChangeMaxColumn : Nat) : AlignState :=
  { s with
    MinColumn := max s.MinColumn ChangeMinColumn
    MaxColumn := min s.MaxColumn ChangeMaxColumn }

namespace Stock

/-- The lambda AlignCurrentSequence of the stock AlignTokens (lines 465 to
473). -/
def AlignCurrentSequence (T : TokenTable) (Matches : Predicate) (s : AlignState) : AlignState :=
  let r : SeqState :=
    if decide (s.StartOfSequence > 0) && decide (s.StartOfSequence < s.EndOfSequence) then
      AlignTokenSequence T s.StartOfSequence s.EndOfSequence s.MinColumn Matches s.Changes
    else { Changes := s.Changes }
  { s with
    Changes := r.Changes
    AssertsHeld := s.AssertsHeld && r.AssertsHeld
    MinColumn := 0
    MaxColumn := UINT_MAX
    StartOfSequence := 0
    EndOfSequence := 0 }

/-- The stock AlignTokens at a record with NewlinesBefore != 0 (lines 480
to 491). -/
def lineStart (T : TokenTable) (Matches : Predicate) (s : AlignState) (i : Nat) : AlignState :=
  let s1 : AlignState := { s with CommasBeforeMatch := 0, EndOfSequence := i }
  let s2 : AlignState :=
    if decide ((s1.Changes.at i).NewlinesBefore > 1) ||
        (T.at (s1.Changes.at i).Tok).MustBreakAlignBefore || !s1.FoundMatchOnLine then
      AlignCurrentSequence T Matches s1
    else s1
  { s2 with FoundMatchOnLine := false }

/-- The end of the sequence at a second match on the line or at a changed
number of commas (lines 507 and 508). -/
def matchFlush (T : TokenTable) (Matches : Predicate) (s : AlignState) : AlignState :=
  if s.FoundMatchOnLine || decide (s.CommasBeforeMatch ≠ s.CommasBeforeLastMatch) then
    AlignCurrentSequence T Matches s
  else s

/-- The value of LineLengthAfter in the stock AlignTokens (lines 517 to
527). -/
def lineLengthAfter (cs : Changes) (i : Nat) : Int :=
  ((cs.at i).TokenLength : Int) +
    ((restOfLine cs (i + 1)).map
      (fun c => c.Spaces + (if c.IsInsideToken then 0 else (c.TokenLength : Int)))).sum

/-- The value of ChangeMaxColumn in the stock AlignTokens (line 528). -/
def ChangeMaxColumn (Style : FormatStyle) (cs : Changes) (i : Nat) : Nat :=
  toUnsigned ((Style.ColumnLimit : Int) - lineLengthAfter cs i)

/-- The end of the sequence at a match outside the column window (lines 530
to 535). -/
def restrict (T : TokenTable) (Style : FormatStyle) (Matches : Predicate) (s : AlignState)
    (i : Nat) : AlignState :=
  if decide ((s.Changes.at i).StartOfTokenColumn > s.MaxColumn) ||
      decide (ChangeMaxColumn Style s.Changes i < s.MinColumn) ||
      decide (s.CommasBeforeLastMatch ≠ s.CommasBeforeMatch) then
    { AlignCurrentSequence T Matches s with StartOfSequence := i }
  else s

/-- The stock AlignTokens at a matching record (lines 505 to 538). -/
def matchStep (T : TokenTable) (Style : FormatStyle) (Matches : Predicate)
    (s : AlignState) (i : Nat) : AlignState :=
  let s1 := noteMatch (matchFlush T Matches s) i
  let ChangeMinColumn := (s1.Changes.at i).StartOfTokenColumn
  let ChangeMaxColumn := ChangeMaxColumn Style s1.Changes i
  widen (restrict T Style Matches s1 i) ChangeMinColumn ChangeMaxColumn

/-- The stock overload as an instance of the shared loop. -/
def overload (T : TokenTable) (Style : FormatStyle) (Matches : Predicate) : Overload where
  lineStart := lineStart T Matches
  descend := true
  matchStep := matchStep T Style Matches
  flush := AlignCurrentSequence T Matches
  Matches := Matches

/-- The stock AlignTokens (lines 432 to 544).  The recursion is at most as
deep as the ledger is long. -/
def AlignTokens (T : TokenTable) (Style : FormatStyle) (Matches : Predicate) (cs : Changes)
    (StartAt : Nat) : Option AlignResult :=
  alignTokensAux T (overload T Style Matches) (cs.length + 1) cs StartAt

end Stock

namespace Tally

/-- The policy arguments of the Tally overload of AlignTokens. -/
structure Policy where
  IgnoreScope : Bool := false
  IgnoreCommas : Bool := false
  MaxNewlinesBeforeSectionBreak : Nat := 2
  NonMatchingLineBreaksSection : Bool := false
  AllowBeyondColumnLimitForAlignment : Bool := true
  MaxLeadingSpacesForAlignment : Nat := UINT_MAX
  ForceAlignToFourSpaces : Bool := false
  deriving DecidableEq, Repr

/-- The lambda AlignCurrentSequence of the Tally AlignTokens (lines 693 to
701). -/
def AlignCurrentSequence (T : TokenTable) (P : Policy) (Matches : Predicate)
    (s : AlignState) : AlignState :=
  let r : SeqState :=
    if decide (s.StartOfSequence > 0) && decide (s.StartOfSequence < s.EndOfSequence) then
      AlignTokenSequence T s.StartOfSequence s.EndOfSequence s.MinColumn Matches s.Changes
        P.IgnoreScope P.IgnoreCommas
    else { Changes := s.Changes }
  { s with
    Changes := r.Changes
    AssertsHeld := s.AssertsHeld && r.AssertsHeld
    MinColumn := 0
    MaxColumn := UINT_MAX
    StartOfSequence := 0
    EndOfSequence := 0 }

/-- The Tally AlignTokens at a record with NewlinesBefore != 0 (lines 708
to 717). -/
def lineStart (T : TokenTable) (P : Policy) (Matches : Predicate) (s : AlignState) (i : Nat) :
    AlignState :=
  let s1 : AlignState := { s with CommasBeforeMatch := 0, EndOfSequence := i }
  let s2 : AlignState :=
    if decide ((s1.Changes.at i).NewlinesBefore > P.MaxNewlinesBeforeSectionBreak) ||
        (P.NonMatchingLineBreaksSection && !s1.FoundMatchOnLine) then
      AlignCurrentSequence T P Matches s1
    else s1
  { s2 with FoundMatchOnLine := false }

/-- The end of the sequence at a second match on the line or, unless
IgnoreCommas, at a changed number of commas (lines 737 to 739). -/
def matchFlush (T : TokenTable) (P : Policy) (Matches : Predicate) (s : AlignState) :
    AlignState :=
  if s.FoundMatchOnLine ||
      (!P.IgnoreCommas && decide (s.CommasBeforeMatch ≠ s.CommasBeforeLastMatch)) then
    AlignCurrentSequence T P Matches s
  else s

/-- The value of LineLengthAfter in the Tally AlignTokens (lines 748 to
750): minus the Spaces of record i, plus Spaces and TokenLength of the
records from i on up to the next record that starts a line. -/
def lineLengthAfter (cs : Changes) (i : Nat) : Int :=
  -(cs.at i).Spaces + ((restOfLine cs i).map (fun c => c.Spaces + (c.TokenLength : Int))).sum

/-- The column limit in effect (line 662). -/
def ColumnLimitInEffect (Style : FormatStyle) (P : Policy) : Nat :=
  if P.AllowBeyondColumnLimitForAlignment then Style.ColumnLimitExtended else Style.ColumnLimit

/-- The value of ChangeMaxColumn in the Tally AlignTokens (line 751). -/
def ChangeMaxColumn (Style : FormatStyle) (P : Policy) (cs : Changes) (i : Nat) : Nat :=
  toUnsigned ((ColumnLimitInEffect Style P : Int) - lineLengthAfter cs i)

/-- The value of leadingSpacesReqd made non-negative (lines 753 to 756). -/
def leadingSpacesReqd (ChangeMinColumn MinColumn : Nat) : Int :=
  let d := toInt (toUnsigned ((ChangeMinColumn : Int) - MinColumn))
  if d < 0 then d * -1 else d

/-- The end of the sequence at a match outside the leading-space limit or
outside the column window (lines 757 to 766). -/
def restrict (T : TokenTable) (Style : FormatStyle) (P : Policy) (Matches : Predicate)
    (s : AlignState) (i : Nat) : AlignState :=
  if decide (toUnsigned (leadingSpacesReqd (s.Changes.at i).StartOfTokenColumn s.MinColumn) >
        P.MaxLeadingSpacesForAlignment) ||
      decide ((s.Changes.at i).StartOfTokenColumn > s.MaxColumn) ||
      decide (ChangeMaxColumn Style P s.Changes i < s.MinColumn) ||
      (!P.IgnoreCommas && decide (s.CommasBeforeLastMatch ≠ s.CommasBeforeMatch)) then
    { AlignCurrentSequence T P Matches s with StartOfSequence := i }
  else s

/-- The rounding of MinColumn up to a multiple of four, with MaxColumn moved
by the same amount (lines 771 to 778). -/
def forceFour (P : Policy) (s : AlignState) : AlignState :=
  if P.ForceAlignToFourSpaces && decide (s.MinColumn % 4 ≠ 0) then
    { s with
      MinColumn := toUnsigned ((s.MinColumn : Int) + ((4 - s.MinColumn % 4 : Nat) : Int))
      MaxColumn := toUnsigned ((s.MaxColumn : Int) + ((4 - s.MinColumn % 4 : Nat) : Int)) }
  else s

/-- The Tally AlignTokens at a matching record (lines 735 to 778). -/
def matchStep (T : TokenTable) (Style : FormatStyle) (P : Policy) (Matches : Predicate)
    (s : AlignState) (i : Nat) : AlignState :=
  let s1 := noteMatch (matchFlush T P Matches s) i
  let ChangeMinColumn := (s1.Changes.at i).StartOfTokenColumn
  let ChangeMaxColumn := ChangeMaxColumn Style P s1.Changes i
  forceFour P (widen (restrict T Style P Matches s1 i) ChangeMinColumn ChangeMaxColumn)

/-- The state of the Tally AlignTokens at a matching record before the
rounding (lines 735 to 769): after the checks that end a sequence and the
update of MinColumn and MaxColumn. -/
def beforeRounding (T : TokenTable) (Style : FormatStyle) (P : Policy) (Matches : Predicate)
    (s : AlignState) (i : Nat) : AlignState :=
  let s1 := noteMatch (matchFlush T P Matches s) i
  let ChangeMinColumn := (s1.Changes.at i).StartOfTokenColumn
  let ChangeMaxColumn := ChangeMaxColumn Style P s1.Changes i
  widen (restrict T Style P Matches s1 i) ChangeMinColumn ChangeMaxColumn

/-- The Tally overload as an instance of the shared loop. -/
def overload (T : TokenTable) (Style : FormatStyle) (P : Policy) (Matches : Predicate) :
    Overload where
  lineStart := lineStart T P Matches
  descend := !P.IgnoreScope
  matchStep := matchStep T Style P Matches
  flush := AlignCurrentSequence T P Matches
  Matches := Matches

/-- The Tally AlignTokens (lines 649 to 784).  The recursion is at most as
deep as the ledger is long. -/
def AlignTokens (T : TokenTable) (Style : FormatStyle) (Matches : Predicate) (cs : Changes)
    (P : Policy) (StartAt : Nat) : Option AlignResult :=
  alignTokensAux T (overload T Style P Matches) (cs.length + 1) cs StartAt

end Tally

/-! ## The frame of a record -/

/-- The record with the four fields cleared that an alignment pass may
write: Spaces, StartOfTokenColumn, PreviousEndOfTokenColumn and
EscapedNewlineColumn. -/
def Change.frame (c : Change) : Change :=
  { c with Spaces := 0, StartOfTokenColumn := 0, PreviousEndOfTokenColumn := 0,
           EscapedNewlineColumn := 0 }

/-- Two ledgers have the same frame: the same number of records, in the same
order, equal in every field other than the four that an alignment pass may
write. -/
def SameFrame (a b : Changes) : Prop := a.map Change.frame = b.map Change.frame

/-- A predicate that reads nothing an alignment pass writes: it gives the
same answer on two ledgers with the same frame. -/
def Predicate.Stable (M : Predicate) : Prop :=
  ∀ (a b : Changes) (i : Nat), SameFrame a b → M a i = M b i

/-- An overload whose three state transformers keep the frame of the
ledger. -/
structure Overload.KeepsFrame (O : Overload) : Prop where
  lineStart : ∀ s i, SameFrame (O.lineStart s i).Changes s.Changes
  matchStep : ∀ s i, SameFrame (O.matchStep s i).Changes s.Changes
  flush : ∀ s, SameFrame (O.flush s).Changes s.Changes

/-! ## Notions used in the statements -/

/-- The scope stack of AlignTokenSequence after the records from Start up
to i (exclusive) have been treated. -/
def scopeStackBefore (T : TokenTable) (cs : Changes) (Start i : Nat) : List Nat :=
  (List.range' Start (i - Start)).foldl (fun stack j => scopeStackAt T cs Start j stack) []

/-- The scope stack with which AlignTokenSequence treats record i: the
record lies in a nested scope when it is not empty, and its head is the first
record of that scope. -/
def scopeStackOf (T : TokenTable) (cs : Changes) (Start i : Nat) : List Nat :=
  scopeStackAt T cs Start i (scopeStackBefore T cs Start i)

/-- No stale column at record i: a record that does not start a line stands
Spaces after the end of the record before it, and that end is the start of
the record before it plus its token length. -/
def freshColumnAt (cs : Changes) (i : Nat) : Bool :=
  decide ((cs.at i).NewlinesBefore ≠ 0) ||
    (decide (((cs.at i).StartOfTokenColumn : Int) =
        (cs.at i).PreviousEndOfTokenColumn + (cs.at i).Spaces) &&
     decide ((cs.at i).PreviousEndOfTokenColumn =
        (cs.at (i - 1)).StartOfTokenColumn + (cs.at (i - 1)).TokenLength))

/-- No stale column in the ledger: freshColumnAt holds at every record but
the first. -/
def freshColumns (cs : Changes) : Bool :=
  (List.range' 1 (cs.length - 1)).all (freshColumnAt cs)

end ClangFormat

namespace ClangFormat

/-! ## The whitespace manager and calculateLineBreakInformation -/

/-- A text replacement, tooling::Replacement as the passes build it: the file
offset and the length of the replaced range, and the text put in its place. -/
structure Replacement where
  Offset : Nat := 0
  Length : Nat := 0
  ReplacementText : List Char := []
  deriving DecidableEq, Repr

/-- The state of a WhitespaceManager: the ledger, the tokens and lines that
the ledger points to, the style, the text of the source buffer (the part of
SourceManager that is read), the replacements registered so far, the Tally
accumulators carried from pass to pass, and two flags: AssertsHeld is cleared
when an assertion fails, Faulted is set when a null pointer is
dereferenced. -/
structure WhitespaceManager where
  Changes : Changes := []
  Replaces : List Replacement := []
  Toks : TokenTable := []
  Lines : List AnnotatedLine := []
  Style : FormatStyle := {}
  SourceText : List Char := []
  UseCRLF : Bool := false
  MaxSpecifierTabs : Nat := 0
  MaxDatatypeLen : Nat := 0
  MaxMemberNameLen : Nat := 0
  MaxGlobalVarNameLen : Nat := 0
  AssertsHeld : Bool := true
  Faulted : Bool := false
  deriving DecidableEq, Repr

/-- The token of a record, `C.Tok` dereferenced. -/
def WhitespaceManager.tok (W : WhitespaceManager) (c : Change) : FormatToken := W.Toks.at c.Tok

/-- Dereference of a token pointer that may be null; the null pointer gives
none. -/
def TokenTable.deref (T : TokenTable) (p : Option Nat) : Option FormatToken :=
  match p with
  | some q => some (T.at q)
  | none => none

/-- The position of the first line feed, StringRef::find_first_of, none for
npos. -/
def findNewline : List Char → Option Nat
  | [] => none
  | c :: rest =>
    if c = '\n' then some 0
    else match findNewline rest with
      | some p => some (p + 1)
      | none => none

/-- The source text from offset b up to offset e. -/
def textBetween (src : List Char) (b e : Nat) : List Char := (src.drop b).take (e - b)

/-- The first loop of calculateLineBreakInformation at index i (lines 149
to 243); the second component is the index that LastOutsideTokenChange
points to, the third whether the assertion held. -/
def lineBreakStep (T : TokenTable) (src : List Char) (st : Changes × Nat × Bool) (i : Nat) :
    Changes × Nat × Bool :=
  let cs := st.1
  let OriginalWhitespaceStartOffset := (cs.at i).OriginalWhitespaceBegin
  let PreviousOriginalWhitespaceEndOffset := (cs.at (i - 1)).OriginalWhitespaceEnd
  let ok := st.2.2 && decide (PreviousOriginalWhitespaceEndOffset ≤ OriginalWhitespaceStartOffset)
  let NewlinePos :=
    findNewline (textBetween src PreviousOriginalWhitespaceEndOffset OriginalWhitespaceStartOffset)
  let len : Nat :=
    match NewlinePos with
    | none =>
      toUnsigned ((OriginalWhitespaceStartOffset : Int) - PreviousOriginalWhitespaceEndOffset +
        (cs.at i).PreviousLinePostfixText.length + (cs.at (i - 1)).CurrentLinePrefixText.length)
    | some p => toUnsigned ((p : Int) + (cs.at (i - 1)).CurrentLinePrefixText.length)
  let cs1 : Changes := cs.set (i - 1) { cs.at (i - 1) with TokenLength := len }
  let inside := (cs1.at (i - 1)).IsInsideToken && decide ((cs1.at (i - 1)).NewlinesBefore = 0)
  let cs2 : Changes :=
    if inside then
      cs1.set st.2.1 { cs1.at st.2.1 with
        TokenLength := toUnsigned (((cs1.at st.2.1).TokenLength : Int) +
          ((cs1.at (i - 1)).TokenLength + (cs1.at (i - 1)).Spaces)) }
    else cs1
  let last := if inside then st.2.1 else i - 1
  let cs3 : Changes := cs2.set i { cs2.at i with
    PreviousEndOfTokenColumn :=
      toUnsigned (((cs2.at (i - 1)).StartOfTokenColumn : Int) + (cs2.at (i - 1)).TokenLength) }
  let cs4 : Changes := cs3.set (i - 1) { cs3.at (i - 1) with
    IsTrailingComment :=
      (decide ((cs3.at i).NewlinesBefore > 0) || (T.at (cs3.at i).Tok).is TokenKind.eof ||
        ((cs3.at i).IsInsideToken && (T.at (cs3.at i).Tok).is TokenKind.comment)) &&
      (T.at (cs3.at (i - 1)).Tok).is TokenKind.comment &&
      decide (OriginalWhitespaceStartOffset ≠ PreviousOriginalWhitespaceEndOffset) }
  (cs4, last, ok)

/-- The locals of the second loop of calculateLineBreakInformation (lines
249 to 298). -/
structure CommentState where
  Changes : Changes
  LastBlockComment : Option Nat := none
  PrevIdentifierTknStartOfTokenCntValue : Int := 0
  PrevIdentifierTknSpacesValue : Int := 0
  FirstCommnetWhiteSpaces : Int := 0
  Faulted : Bool := false
  deriving DecidableEq, Repr

/-- The second loop of calculateLineBreakInformation at index i (lines 254
to 298).  StartOfBlockComment has just been set to the null pointer when it
is compared with LastBlockComment; if both are null the null pointer is
dereferenced, which is recorded in Faulted, the column read being taken as
0. -/
def commentStep (T : TokenTable) (s : CommentState) (i : Nat) : CommentState :=
  let c := s.Changes.at i
  let t := T.at c.Tok
  let prevIsLBrace :=
    match T.deref t.Previous with
    | some p => p.is TokenKind.l_brace
    | none => false
  let nextIsComma :=
    match T.deref t.Next with
    | some n => n.is TokenKind.comma
    | none => false
  let first := prevIsLBrace && t.is TokenKind.identifier &&
    !(t.IsClassScope || t.IsStructScope || t.IsEnumScope || t.IsUnionScope)
  let second := !first && (decide (s.PrevIdentifierTknStartOfTokenCntValue ≠ 0) &&
    decide (c.Spaces = 0) && t.is TokenKind.identifier && t.Previous.isNone && nextIsComma &&
    decide (t.LbraceCount ≠ 0) && decide (t.NewlinesBefore ≠ 0) && decide (t.LparenCount = 0))
  let PrevStart := if first then toInt c.StartOfTokenColumn else s.PrevIdentifierTknStartOfTokenCntValue
  let PrevSpaces := if first then c.Spaces else s.PrevIdentifierTknSpacesValue
  let c1 : Change :=
    if second then
      { c with Spaces := s.PrevIdentifierTknSpacesValue
               StartOfTokenColumn := toUnsigned s.PrevIdentifierTknStartOfTokenCntValue }
    else c
  let c2 : Change :=
    if c1.IsInsideToken && decide (c1.NewlinesBefore = 0) then { c1 with IsTrailingComment := false }
    else c1
  let c3 : Change := { c2 with StartOfBlockComment := none, IndentationOffset := 0 }
  if t.is TokenKind.comment then
    let keep := t.isType TokenType.TT_LineComment || !c3.IsInsideToken
    let deref := !keep && s.LastBlockComment.isNone
    let c4 : Change :=
      if deref then { c3 with IndentationOffset := toInt (toUnsigned ((c3.StartOfTokenColumn : Int) - 0)) }
      else c3
    let takeFirst := decide (s.FirstCommnetWhiteSpaces = 0) && decide (c4.Spaces ≠ 0) &&
      decide (t.LbraceCount ≠ 0)
    let prevNotComment :=
      match T.deref t.Previous with
      | some p => !p.is TokenKind.comment
      | none => false
    let c5 : Change :=
      if !takeFirst && (decide (c4.Spaces ≠ 0) && decide (t.LbraceCount ≠ 0) &&
          decide (PrevSpaces ≠ 0)) && prevNotComment then
        { c4 with Spaces := c4.Spaces - PrevSpaces }
      else c4
    { Changes := s.Changes.set i c5
      LastBlockComment := if keep then some i else s.LastBlockComment
      PrevIdentifierTknStartOfTokenCntValue := PrevStart
      PrevIdentifierTknSpacesValue := PrevSpaces
      FirstCommnetWhiteSpaces := if takeFirst then c4.Spaces else s.FirstCommnetWhiteSpaces
      Faulted := s.Faulted || deref }
  else
    { Changes := s.Changes.set i c3
      LastBlockComment := none
      PrevIdentifierTknStartOfTokenCntValue := PrevStart
      PrevIdentifierTknSpacesValue := PrevSpaces
      FirstCommnetWhiteSpaces := s.FirstCommnetWhiteSpaces
      Faulted := s.Faulted }

/-- The inner loop over FakeLParens of the third loop (lines 310 to 319):
the list is walked from its back, i counts from 0. -/
def openFakeParens (prevIsConditionalColon : Bool) :
    List Prec → Nat → List Bool × Int → List Bool × Int
  | [], _, st => st
  | p :: rest, i, st =>
    let isNestedConditional := decide (p = Prec.Conditional) &&
      !(decide (i = 0) && prevIsConditionalColon)
    openFakeParens prevIsConditionalColon rest (i + 1)
      (isNestedConditional :: st.1, if isNestedConditional then st.2 + 1 else st.2)

/-- The inner loop over FakeRParens of the third loop (lines 323 to 327):
it stops when the count is used up or the ScopeStack is empty. -/
def closeFakeParens : Nat → List Bool × Int → List Bool × Int
  | 0, st => st
  | n + 1, st =>
    match st.1 with
    | [] => st
    | b :: rest => closeFakeParens n (rest, if b then st.2 - 1 else st.2)

/-- The third loop of calculateLineBreakInformation at index i (lines 309 to
328); the state is the ledger, the ScopeStack (its back is the head of the
list) and the local ConditionalsLevel, an int. -/
def conditionalStep (T : TokenTable) (st : Changes × List Bool × Int) (i : Nat) :
    Changes × List Bool × Int :=
  let c := st.1.at i
  let t := T.at c.Tok
  let prevIsConditionalColon :=
    match T.deref t.Previous with
    | some p => p.isType TokenType.TT_ConditionalExpr && p.is TokenKind.colon
    | none => false
  let opened := openFakeParens prevIsConditionalColon t.FakeLParens.reverse 0 st.2
  let cs1 : Changes := st.1.set i { c with ConditionalsLevel := toUnsigned opened.2 }
  let closed := closeFakeParens t.FakeRParens opened
  (cs1, closed)

/-- The function calculateLineBreakInformation (lines 145 to 329).  It is
called on a ledger that is not empty. -/
def calculateLineBreakInformation (W : WhitespaceManager) : WhitespaceManager :=
  let cs0 : Changes := W.Changes.set 0 { W.Changes.at 0 with PreviousEndOfTokenColumn := 0 }
  let r1 := (List.range' 1 (cs0.length - 1)).foldl (lineBreakStep W.Toks W.SourceText)
    (cs0, 0, true)
  let last := r1.1.length - 1
  let cs1 : Changes := r1.1.set last { r1.1.at last with
    TokenLength := 0
    IsTrailingComment := (W.Toks.at (r1.1.at last).Tok).is TokenKind.comment }
  let r2 := (List.range cs1.length).foldl (commentStep W.Toks) { Changes := cs1 }
  let r3 := (List.range r2.Changes.length).foldl (conditionalStep W.Toks) (r2.Changes, [], 0)
  { W with
    Changes := r3.1
    AssertsHeld := W.AssertsHeld && r1.2.2
    Faulted := W.Faulted || r2.Faulted }

end ClangFormat

namespace ClangFormat

/-! ## The alignment campaigns -/

/-- The test `&C != &Changes.back() && (&C + 1)->NewlinesBefore > 0` of the
campaign predicates: the record is not the last one and the next record
starts a line. -/
def lastOnLine (cs : Changes) (i : Nat) : Bool :=
  decide (i + 1 ≠ cs.length) && decide ((cs.at (i + 1)).NewlinesBefore > 0)

namespace Tally

/-- The state of the manager after a call of the Tally AlignTokens from
index 0 with the given predicate and policy.  AlignTokens returns on every
ledger, so the second alternative is not taken. -/
def campaign (W : WhitespaceManager) (Matches : Predicate) (P : Policy) : WhitespaceManager :=
  match AlignTokens W.Toks W.Style Matches W.Changes P 0 with
  | some r => { W with Changes := r.Changes, AssertsHeld := W.AssertsHeld && r.AssertsHeld }
  | none => W

end Tally

namespace Stock

/-- The state of the manager after a call of the stock AlignTokens from
index 0 with the given predicate.  AlignTokens returns on every ledger, so
the second alternative is not taken. -/
def campaign (W : WhitespaceManager) (Matches : Predicate) : WhitespaceManager :=
  match AlignTokens W.Toks W.Style Matches W.Changes 0 with
  | some r => { W with Changes := r.Changes, AssertsHeld := W.AssertsHeld && r.AssertsHeld }
  | none => W

end Stock

/-- The function alignConsecutiveAssignmentsOnScopedVarName (lines 787 to
804). -/
def alignConsecutiveAssignmentsOnScopedVarName (W : WhitespaceManager) : WhitespaceManager :=
  if !W.Style.AlignConsecutiveAssignments then W
  else
    Tally.campaign W
      (fun cs i => (W.Toks.at (cs.at i).Tok).isScopedVarNameInDecl &&
        (W.Toks.at (cs.at i).Tok).HasSemiColonInLine)
      { IgnoreScope := false, IgnoreCommas := false, MaxNewlinesBeforeSectionBreak := 2,
        NonMatchingLineBreaksSection := true, AllowBeyondColumnLimitForAlignment := true,
        MaxLeadingSpacesForAlignment := UINT_MAX, ForceAlignToFourSpaces := false }

/-- The function alignConsecutiveLBraceOfVarDeclOrDef (lines 807 to 820). -/
def alignConsecutiveLBraceOfVarDeclOrDef (W : WhitespaceManager) : WhitespaceManager :=
  if !W.Style.AlignConsecutiveAssignments then W
  else
    Tally.campaign W
      (fun cs i => (W.Toks.at (cs.at i).Tok).isLBraceOfConstexprOrVarDelcOrDef &&
        (W.Toks.at (cs.at i).Tok).HasSemiColonInLine)
      { IgnoreScope := false, IgnoreCommas := false, MaxNewlinesBeforeSectionBreak := 2,
        NonMatchingLineBreaksSection := true, AllowBeyondColumnLimitForAlignment := true,
        MaxLeadingSpacesForAlignment := UINT_MAX, ForceAlignToFourSpaces := true }

/-- The predicate of alignConsecutiveAssignementsOnUsing (lines 828 to
832): the token is the `=` two tokens after the `using` that starts its
line. -/
def usingMatches (T : TokenTable) (L : List AnnotatedLine) : Predicate := fun cs i =>
  let t := T.at (cs.at i).Tok
  match t.MyLine with
  | none => false
  | some l =>
    match (L.getD l {}).First with
    | none => false
    | some f =>
      (T.at f).is TokenKind.kw_using && t.HasSemiColonInLine &&
      (match t.Previous with
       | none => false
       | some p =>
         match (T.at p).Previous with
         | none => false
         | some pp => decide (pp = f)) &&
      t.is TokenKind.equal

/-- The function alignConsecutiveAssignementsOnUsing (lines 822 to 840). -/
def alignConsecutiveAssignementsOnUsing (W : WhitespaceManager) : WhitespaceManager :=
  if !W.Style.AlignConsecutiveAssignments then W
  else
    Tally.campaign W (usingMatches W.Toks W.Lines)
      { IgnoreScope := false, IgnoreCommas := false, MaxNewlinesBeforeSectionBreak := 2,
        NonMatchingLineBreaksSection := true, AllowBeyondColumnLimitForAlignment := true,
        MaxLeadingSpacesForAlignment := UINT_MAX, ForceAlignToFourSpaces := true }

/-- The function alignConsecutiveAssignmentsOnVarNameAcrossSections (lines
844 to 861). -/
def alignConsecutiveAssignmentsOnVarNameAcrossSections (W : WhitespaceManager) :
    WhitespaceManager :=
  if !W.Style.AlignConsecutiveAssignments then W
  else
    Tally.campaign W
      (fun cs i =>
        let t := W.Toks.at (cs.at i).Tok
        t.isVarNameInDecl && t.HasSemiColonInLine && decide (t.LbraceCount > 0) && t.IsClassScope)
      { IgnoreScope := false, IgnoreCommas := false, MaxNewlinesBeforeSectionBreak := 2,
        NonMatchingLineBreaksSection := false, AllowBeyondColumnLimitForAlignment := true,
        MaxLeadingSpacesForAlignment := UINT_MAX, ForceAlignToFourSpaces := false }

/-- The function alignConsecutiveAssignmentsOnVarNameWithinSection (lines
865 to 883). -/
def alignConsecutiveAssignmentsOnVarNameWithinSection (W : WhitespaceManager) :
    WhitespaceManager :=
  if !W.Style.AlignConsecutiveAssignments then W
  else
    Tally.campaign W
      (fun cs i =>
        let t := W.Toks.at (cs.at i).Tok
        t.isVarNameInDecl && t.HasSemiColonInLine && !t.IsClassScope)
      { IgnoreScope := false, IgnoreCommas := false, MaxNewlinesBeforeSectionBreak := 2,
        NonMatchingLineBreaksSection := false, AllowBeyondColumnLimitForAlignment := true,
        MaxLeadingSpacesForAlignment := UINT_MAX, ForceAlignToFourSpaces := true }

/-- The predicate of alignConsecutiveVarBitFields (lines 889 to 899). -/
def bitFieldMatches (T : TokenTable) : Predicate := fun cs i =>
  if (cs.at i).NewlinesBefore > 0 then false
  else if lastOnLine cs i then false
  else (T.at (cs.at i).Tok).isType TokenType.TT_BitFieldColon

/-- The function alignConsecutiveVarBitFields (lines 886 to 912); it tests
no switch of the style. -/
def alignConsecutiveVarBitFields (W : WhitespaceManager) : WhitespaceManager :=
  Tally.campaign W (bitFieldMatches W.Toks)
    { IgnoreScope := false, IgnoreCommas := false, MaxNewlinesBeforeSectionBreak := 2,
      NonMatchingLineBreaksSection := false, AllowBeyondColumnLimitForAlignment := true,
      MaxLeadingSpacesForAlignment := UINT_MAX, ForceAlignToFourSpaces := false }

/-- The function alignConsecutiveBitFields (lines 1729 to 1747): the stock
campaign on bit-field colons, behind the switch AlignConsecutiveBitFields.
generateReplacements does not call it (line 108). -/
def alignConsecutiveBitFields (W : WhitespaceManager) : WhitespaceManager :=
  if !W.Style.AlignConsecutiveBitFields then W
  else Stock.campaign W (bitFieldMatches W.Toks)

/-- The predicate of alignConsecutiveAssignmentsOnEqualsAcrossSections
(lines 921 to 935). -/
def equalsAcrossSectionsMatches (T : TokenTable) : Predicate := fun cs i =>
  if (cs.at i).NewlinesBefore > 0 then false
  else if lastOnLine cs i then false
  else
    let t := T.at (cs.at i).Tok
    t.is TokenKind.equal && t.HasSemiColonInLine &&
      (match T.deref t.PreviousNonComment with
       | some p => p.isVarNameInDecl
       | none => false)

/-- The policy of alignConsecutiveAssignmentsOnEqualsAcrossSections (lines
936 to 939). -/
def equalsAcrossSectionsPolicy : Tally.Policy :=
  { IgnoreScope := false, IgnoreCommas := false, MaxNewlinesBeforeSectionBreak := 2,
    NonMatchingLineBreaksSection := false, AllowBeyondColumnLimitForAlignment := true,
    MaxLeadingSpacesForAlignment := 16, ForceAlignToFourSpaces := false }

/-- The function alignConsecutiveAssignmentsOnEqualsAcrossSections (lines 916
to 940). -/
def alignConsecutiveAssignmentsOnEqualsAcrossSections (W : WhitespaceManager) :
    WhitespaceManager :=
  if !W.Style.AlignConsecutiveAssignments then W
  else Tally.campaign W (equalsAcrossSectionsMatches W.Toks) equalsAcrossSectionsPolicy

/-- The predicate of alignConsecutiveAssignmentsOnEqualsWithinSection (lines
949 to 962). -/
def equalsWithinSectionMatches (T : TokenTable) : Predicate := fun cs i =>
  if (cs.at i).NewlinesBefore > 0 then false
  else if lastOnLine cs i then false
  else
    let t := T.at (cs.at i).Tok
    t.is TokenKind.equal && t.HasSemiColonInLine && t.isPrevBeforeInterimsVarWithoutDatatype

/-- The policy of alignConsecutiveAssignmentsOnEqualsWithinSection (lines
963 to 966). -/
def equalsWithinSectionPolicy : Tally.Policy :=
  { IgnoreScope := false, IgnoreCommas := false, MaxNewlinesBeforeSectionBreak := 1,
    NonMatchingLineBreaksSection := true, AllowBeyondColumnLimitForAlignment := true,
    MaxLeadingSpacesForAlignment := 12, ForceAlignToFourSpaces := false }

/-- The function alignConsecutiveAssignmentsOnEqualsWithinSection (lines 944
to 967). -/
def alignConsecutiveAssignmentsOnEqualsWithinSection (W : WhitespaceManager) :
    WhitespaceManager :=
  if !W.Style.AlignConsecutiveAssignments then W
  else Tally.campaign W (equalsWithinSectionMatches W.Toks) equalsWithinSectionPolicy

/-! ## alignChainedConditionals -/

/-- The test that FakeLParens is empty or its back is not prec::Conditional. -/
def noConditionalFakeParen (t : FormatToken) : Bool :=
  match t.FakeLParens.getLast? with
  | none => true
  | some p => decide (p ≠ Prec.Conditional)

/-- The predicate of alignChainedConditionals when the operators are broken
before (lines 1787 to 1794). -/
def questionAndColonMatches (T : TokenTable) : Predicate := fun cs i =>
  let t := T.at (cs.at i).Tok
  t.isType TokenType.TT_ConditionalExpr &&
    ((t.is TokenKind.question && decide ((cs.at i).NewlinesBefore = 0)) ||
     (t.is TokenKind.colon &&
       (match T.deref t.Next with
        | some n => noConditionalFakeParen n
        | none => false)))

/-- The lambda AlignWrappedOperand (lines 1797 to 1804). -/
def AlignWrappedOperand (T : TokenTable) (c : Change) : Bool :=
  let t := T.at c.Tok
  decide (c.NewlinesBefore ≠ 0) &&
    (match T.deref t.PreviousNonComment with
     | none => false
     | some p =>
       p.isType TokenType.TT_ConditionalExpr &&
         (p.is TokenKind.question || (p.is TokenKind.colon && noConditionalFakeParen t)))

/-- The predicate of alignChainedConditionals when the operators are not
broken before (lines 1814 to 1822). -/
def wrappedOperandMatches (T : TokenTable) : Predicate := fun cs i =>
  let t := T.at (cs.at i).Tok
  (t.isType TokenType.TT_ConditionalExpr && t.is TokenKind.question &&
    decide (i + 1 ≠ cs.length) && decide ((cs.at (i + 1)).NewlinesBefore = 0) &&
    !(cs.at (i + 1)).IsTrailingComment) ||
  AlignWrappedOperand T (cs.at i)

/-- The function alignChainedConditionals (lines 1783 to 1825). -/
def alignChainedConditionals (W : WhitespaceManager) : WhitespaceManager :=
  if W.Style.BreakBeforeTernaryOperators then
    Stock.campaign W (questionAndColonMatches W.Toks)
  else
    let cs : Changes := W.Changes.map (fun c =>
      if AlignWrappedOperand W.Toks c then
        { c with StartOfTokenColumn := toUnsigned ((c.StartOfTokenColumn : Int) - 2) }
      else c)
    Stock.campaign { W with Changes := cs } (wrappedOperandMatches W.Toks)

end ClangFormat

namespace ClangFormat

/-! ## alignTrailingComments and alignEscapedNewlines -/

/-- The column number, counted from 1, of a file offset:
SourceManager::getSpellingColumnNumber on the source buffer. -/
def getSpellingColumnNumber (src : List Char) (offset : Nat) : Nat :=
  ((src.take offset).reverse.takeWhile (fun c => decide (c ≠ '\n'))).length + 1

/-- The value of Shift in the loop of alignTrailingComments(Start, End,
Column) at index i (lines 1914 to 1922). -/
def commentShift (Column : Nat) (cs : Changes) (i : Nat) : Int :=
  match (cs.at i).StartOfBlockComment with
  | some b =>
    toInt (toUnsigned ((cs.at i).IndentationOffset + (cs.at b).StartOfTokenColumn -
      (cs.at i).StartOfTokenColumn))
  | none =>
    if (cs.at i).IsTrailingComment then
      toInt (toUnsigned ((Column : Int) - (cs.at i).StartOfTokenColumn))
    else 0

/-- The three updates by Shift at index i (lines 1924 to 1927). -/
def applyCommentShift (cs : Changes) (i : Nat) (Shift : Int) : Changes :=
  let cs1 := addSpaces cs i Shift
  let cs2 := if i + 1 ≠ cs1.length then addPreviousEndOfTokenColumn cs1 (i + 1) Shift else cs1
  addStartOfTokenColumn cs2 i Shift

/-- The body of the loop of alignTrailingComments(Start, End, Column) at
index i (lines 1913 to 1928); the second component records the assertion. -/
def trailingCommentShift (Column : Nat) (st : Changes × Bool) (i : Nat) : Changes × Bool :=
  (applyCommentShift st.1 i (commentShift Column st.1 i),
   st.2 && decide (commentShift Column st.1 i ≥ 0))

/-- The function alignTrailingComments(Start, End, Column) (lines 1911 to
1929); it is called with Start <= End. -/
def alignTrailingCommentsRange (cs : Changes) (Start End Column : Nat) : Changes × Bool :=
  (List.range' Start (End - Start)).foldl (trailingCommentShift Column) (cs, true)

/-- The locals of alignTrailingComments() with the ledger and the record of
the assertions. -/
structure TrailingState where
  Changes : Changes
  MinColumn : Nat := 0
  MaxColumn : Nat := UINT_MAX
  StartOfSequence : Nat := 0
  BreakBeforeNext : Bool := false
  Newlines : Nat := 0
  AssertsHeld : Bool := true
  deriving DecidableEq, Repr

/-- The value of WasAlignedWithStartOfNextLine (lines 1864 to 1881): the
records from j on are searched for the first one that is not a comment. -/
def wasAlignedWithStartOfNextLine (T : TokenTable) (Style : FormatStyle) (src : List Char)
    (CommentColumn : Nat) : List Change → Bool
  | [] => false
  | c :: rest =>
    if (T.at c.Tok).is TokenKind.comment then
      wasAlignedWithStartOfNextLine T Style src CommentColumn rest
    else
      let NextColumn := getSpellingColumnNumber src c.OriginalWhitespaceEnd
      decide (CommentColumn = NextColumn) || decide (CommentColumn = NextColumn + Style.IndentWidth)

/-- The end of a sequence of trailing comments: the call
alignTrailingComments(StartOfSequence, i, MinColumn), and the three
assignments that follow it. -/
def flushTrailing (s : TrailingState) (i MinColumn MaxColumn : Nat) : TrailingState :=
  let r := alignTrailingCommentsRange s.Changes s.StartOfSequence i s.MinColumn
  { s with
    Changes := r.1
    AssertsHeld := s.AssertsHeld && r.2
    MinColumn := MinColumn
    MaxColumn := MaxColumn
    StartOfSequence := i }

/-- The value of ChangeMaxColumn for the trailing comment at index i (lines
1843 to 1858). -/
def commentMaxColumn (Style : FormatStyle) (cs : Changes) (i : Nat) : Nat :=
  let c := cs.at i
  let ChangeMinColumn := c.StartOfTokenColumn
  let ChangeMaxColumn0 : Nat :=
    if Style.ColumnLimit = 0 then UINT_MAX
    else if Style.ColumnLimit ≥ c.TokenLength then Style.ColumnLimit - c.TokenLength
    else ChangeMinColumn
  let ChangeMaxColumn1 : Nat := if !c.CreateReplacement then ChangeMinColumn else ChangeMaxColumn0
  if decide (i + 1 ≠ cs.length) && (cs.at (i + 1)).ContinuesPPDirective then
    toUnsigned ((ChangeMaxColumn1 : Int) - 2)
  else ChangeMaxColumn1

/-- The value of FollowsRBraceInColumn0 (lines 1861 to 1863). -/
def followsRBraceInColumn0 (T : TokenTable) (cs : Changes) (i : Nat) : Bool :=
  decide (i > 0) && decide ((cs.at i).NewlinesBefore = 0) &&
    (T.at (cs.at (i - 1)).Tok).is TokenKind.r_brace &&
    decide ((cs.at (i - 1)).StartOfTokenColumn = 0)

/-- The value of WasAlignedWithStartOfNextLine at index i (lines 1864 to
1881). -/
def wasAligned (T : TokenTable) (Style : FormatStyle) (src : List Char) (cs : Changes)
    (i : Nat) : Bool :=
  if (cs.at i).NewlinesBefore = 1 then
    wasAlignedWithStartOfNextLine T Style src
      (getSpellingColumnNumber src (cs.at i).OriginalWhitespaceEnd) (cs.drop (i + 1))
  else false

/-- The decision at a trailing comment (lines 1882 to 1901): the sequence
ends here at the comment's own column, or ends here with the comment's
window, or goes on with the window narrowed. -/
def trailingDecision (T : TokenTable) (Style : FormatStyle) (src : List Char)
    (s : TrailingState) (i : Nat) : TrailingState :=
  let ChangeMinColumn := (s.Changes.at i).StartOfTokenColumn
  let ChangeMaxColumn := commentMaxColumn Style s.Changes i
  if !Style.AlignTrailingComments || followsRBraceInColumn0 T s.Changes i then
    flushTrailing s i ChangeMinColumn ChangeMinColumn
  else if s.BreakBeforeNext || decide (s.Newlines > 1) ||
      (decide (ChangeMinColumn > s.MaxColumn) || decide (ChangeMaxColumn < s.MinColumn)) ||
      (decide ((s.Changes.at i).NewlinesBefore = 1) && decide (i > 0) &&
        !(s.Changes.at (i - 1)).IsTrailingComment) ||
      wasAligned T Style src s.Changes i then
    flushTrailing s i ChangeMinColumn ChangeMaxColumn
  else
    { s with
      MinColumn := max s.MinColumn ChangeMinColumn
      MaxColumn := min s.MaxColumn ChangeMaxColumn }

/-- The statements before the test of IsTrailingComment (lines 1836 to
1838). -/
def countNewlines (T : TokenTable) (s : TrailingState) (i : Nat) : TrailingState :=
  { s with
    Newlines := toUnsigned ((s.Newlines : Int) + (s.Changes.at i).NewlinesBefore)
    BreakBeforeNext := s.BreakBeforeNext || (T.at (s.Changes.at i).Tok).MustBreakAlignBefore }

/-- The two assignments at the end of the loop body (lines 1902 to 1906).
NewlinesBefore is read from the record after the decision; no campaign
writes it. -/
def closeIteration (s : TrailingState) (i : Nat) : TrailingState :=
  { s with
    BreakBeforeNext := decide (i = 0) || decide ((s.Changes.at i).NewlinesBefore > 1) ||
      (decide ((s.Changes.at i).NewlinesBefore = 1) && decide (s.StartOfSequence = i))
    Newlines := 0 }

/-- The body of the loop of alignTrailingComments() at index i (lines 1834
to 1906). -/
def trailingCommentStep (T : TokenTable) (Style : FormatStyle) (src : List Char)
    (s : TrailingState) (i : Nat) : TrailingState :=
  if (s.Changes.at i).StartOfBlockComment.isSome then s
  else if !(s.Changes.at i).IsTrailingComment then countNewlines T s i
  else closeIteration (trailingDecision T Style src (countNewlines T s i) i) i

/-- The function alignTrailingComments() on a ledger (lines 1827 to 1909):
the resulting ledger and whether every assertion held. -/
def alignTrailingCommentsOn (T : TokenTable) (Style : FormatStyle) (src : List Char)
    (cs : Changes) : Changes × Bool :=
  let s := (List.range cs.length).foldl (trailingCommentStep T Style src) { Changes := cs }
  let r := alignTrailingCommentsRange s.Changes s.StartOfSequence s.Changes.length s.MinColumn
  (r.1, s.AssertsHeld && r.2)

/-- The function alignTrailingComments() as a state change of the manager. -/
def alignTrailingComments (W : WhitespaceManager) : WhitespaceManager :=
  let r := alignTrailingCommentsOn W.Toks W.Style W.SourceText W.Changes
  { W with Changes := r.1, AssertsHeld := W.AssertsHeld && r.2 }

/-- The body of the loop of alignEscapedNewlines(Start, End, Column) at
index i (lines 1956 to 1963); the second component records the
assertion. -/
def escapedNewlineSet (Column : Nat) (st : Changes × Bool) (i : Nat) : Changes × Bool :=
  let c := st.1.at i
  if c.NewlinesBefore > 0 then
    (st.1.set i { c with
      EscapedNewlineColumn :=
        if toUnsigned ((c.PreviousEndOfTokenColumn : Int) + 1) > Column then 0 else Column },
     st.2 && c.ContinuesPPDirective)
  else st

/-- The function alignEscapedNewlines(Start, End, Column) (lines 1953 to
1965): the loop runs while i < End. -/
def alignEscapedNewlinesRange (st : Changes × Bool) (Start End Column : Nat) : Changes × Bool :=
  (List.range' Start (End - Start)).foldl (escapedNewlineSet Column) st

/-- The locals of alignEscapedNewlines() with the ledger and the record of
the assertions. -/
structure EscapedState where
  Changes : Changes
  MaxEndOfLine : Nat
  StartOfMacro : Nat := 0
  AssertsHeld : Bool := true
  deriving DecidableEq, Repr

/-- The body of the loop of alignEscapedNewlines() at index i (lines 1939 to
1948). -/
def escapedNewlineStep (Style : FormatStyle) (s : EscapedState) (i : Nat) : EscapedState :=
  let c := s.Changes.at i
  if c.NewlinesBefore > 0 then
    if c.ContinuesPPDirective then
      { s with MaxEndOfLine := max (toUnsigned ((c.PreviousEndOfTokenColumn : Int) + 2)) s.MaxEndOfLine }
    else
      let r := alignEscapedNewlinesRange (s.Changes, s.AssertsHeld) (s.StartOfMacro + 1) i
        s.MaxEndOfLine
      { Changes := r.1
        AssertsHeld := r.2
        MaxEndOfLine :=
          if Style.AlignEscapedNewlines = EscapedNewlineAlignmentStyle.ENAS_Left then 0
          else Style.ColumnLimit
        StartOfMacro := i }
  else s

/-- The function alignEscapedNewlines() on a ledger (lines 1931 to 1951). -/
def alignEscapedNewlinesOn (Style : FormatStyle) (cs : Changes) : Changes × Bool :=
  if Style.AlignEscapedNewlines = EscapedNewlineAlignmentStyle.ENAS_DontAlign then (cs, true)
  else
    let s := (List.range' 1 (cs.length - 1)).foldl (escapedNewlineStep Style)
      { Changes := cs
        MaxEndOfLine :=
          if Style.AlignEscapedNewlines = EscapedNewlineAlignmentStyle.ENAS_Left then 0
          else Style.ColumnLimit }
    alignEscapedNewlinesRange (s.Changes, s.AssertsHeld) (s.StartOfMacro + 1) s.Changes.length
      s.MaxEndOfLine

/-- The function alignEscapedNewlines() as a state change of the manager. -/
def alignEscapedNewlines (W : WhitespaceManager) : WhitespaceManager :=
  let r := alignEscapedNewlinesOn W.Style W.Changes
  { W with Changes := r.1, AssertsHeld := W.AssertsHeld && r.2 }

end ClangFormat

namespace ClangFormat

/-! ## The columnarize passes

The passes follow token pointers that may be null.  Where the source
dereferences a pointer without a test, the embedding sets Faulted when the
pointer is null and goes on with the default token or line. -/

/-- The update of record i of the ledger. -/
def WhitespaceManager.setChange (W : WhitespaceManager) (i : Nat) (f : Change → Change) :
    WhitespaceManager :=
  { W with Changes := W.Changes.set i (f (W.Changes.at i)) }

/-- The update of the token that p points to. -/
def WhitespaceManager.setTok (W : WhitespaceManager) (p : Nat) (f : FormatToken → FormatToken) :
    WhitespaceManager :=
  { W with Toks := W.Toks.set p (f (W.Toks.at p)) }

/-- The line that l points to. -/
def WhitespaceManager.line (W : WhitespaceManager) (l : Option Nat) : AnnotatedLine :=
  match l with
  | some q => W.Lines.getD q {}
  | none => {}

/-- The update of the line that l points to; a null pointer is a fault. -/
def WhitespaceManager.setLine (W : WhitespaceManager) (l : Option Nat)
    (f : AnnotatedLine → AnnotatedLine) : WhitespaceManager :=
  match l with
  | some q => { W with Lines := W.Lines.set q (f (W.Lines.getD q {})) }
  | none => { W with Faulted := true }

/-- The loop `while (toPad % Style.TabWidth != 0) { toPad++; pad++; }`: the
number of increments made from toPad on, added to n.  The first argument
bounds the number of iterations. -/
def padLoop (TabWidth : Nat) : Nat → Nat → Nat → Nat
  | 0, _, n => n
  | fuel + 1, toPad, n =>
    if toPad % TabWidth ≠ 0 then padLoop TabWidth fuel (toPad + 1) (n + 1) else n

/-- The number of increments that the loop
`while (toPad % Style.TabWidth != 0) { toPad++; pad++; }` makes.  It ends
within TabWidth iterations when TabWidth is positive; against TabWidth = 0
the source divides by zero, and the embedding makes no increment. -/
def padIncrements (TabWidth toPad : Nat) : Nat := padLoop TabWidth TabWidth toPad 0

/-- The function columnarizeKeywords at index i (lines 1055 to 1074); the
second component is spacebefswitch. -/
def keywordStep (T : TokenTable) (st : Changes × Int) (i : Nat) : Changes × Int :=
  let MyTok := T.at (st.1.at i).Tok
  if MyTok.IsInFunctionDefinitionScope then
    if MyTok.is TokenKind.kw_switch then (st.1, (st.1.at i).Spaces)
    else if MyTok.is TokenKind.kw_case then
      (st.1.set i { st.1.at i with
        Spaces := st.2 + 4
        StartOfTokenColumn := toUnsigned (st.2 + 4) }, st.2)
    else st
  else st

/-- The function columnarizeKeywords (lines 1048 to 1075). -/
def columnarizeKeywords (W : WhitespaceManager) : WhitespaceManager :=
  if !W.Style.AlignConsecutiveDeclarations then W
  else { W with Changes := ((List.range W.Changes.length).foldl (keywordStep W.Toks) (W.Changes, 0)).1 }

/-- The test at the head of the loops of three columnarize passes: the
token is not in a class or struct, or not inside braces, or inside
parentheses. -/
def outsideClassBody (t : FormatToken) : Bool :=
  !(t.IsClassScope || t.IsStructScope) || decide (t.LbraceCount = 0) || decide (t.LparenCount > 0)

/-- The walk over the tokens after `alignas` up to the closing parenthesis
(lines 1180 to 1185): the size summed so far and the token reached. -/
def alignasWalk (T : TokenTable) : Nat → Option Nat → Nat → Nat × Option Nat
  | 0, p, size => (size, p)
  | fuel + 1, p, size =>
    match p with
    | none => (size, none)
    | some q =>
      if (T.at q).is TokenKind.r_paren then (size, some q)
      else alignasWalk T fuel (T.at q).NextNonComment
        (size + (T.at q).SpacesRequiredBefore + (T.at q).TokenText.length)

/-- The update of LastSpecifierPadding and LastSpecifierTabs of the line
for a declaration specifier, and the extra Spaces and column of a leading
const or constexpr (lines 1138 to 1195): the new padding, the increment of
the tabs, and whether the extra applies. -/
def specifierPadding (T : TokenTable) (Style : FormatStyle) (MyTok : FormatToken)
    (MyLine : AnnotatedLine) (PrevTokNull : Bool) : Nat × Nat × Bool :=
  let extra := PrevTokNull && (MyLine.MightBeFunctionDecl || MyTok.IsStructScope)
  if MyTok.is TokenKind.kw_const then (3, 2, extra)
  else if MyTok.is TokenKind.kw_inline || MyTok.is TokenKind.kw_friend ||
      MyTok.is TokenKind.kw_extern then (2, 2, false)
  else if MyTok.is TokenKind.kw_mutable then (1, 2, false)
  else if MyTok.is TokenKind.kw_volatile || MyTok.is TokenKind.kw_explicit ||
      MyTok.is TokenKind.kw_register then (4, 3, false)
  else if MyTok.is TokenKind.kw_constexpr then (3, 3, extra)
  else if MyTok.is TokenKind.kw_thread_local then (4, 4, false)
  else if MyTok.is TokenKind.kw_alignas then
    let w := alignasWalk T (T.length + 1) MyTok.NextNonComment 0
    match w.2 with
    | some q =>
      if (T.at q).is TokenKind.r_paren then
        let interimSize := w.1 + (T.at q).SpacesRequiredBefore + 1
        let toPad := 7 + interimSize + padIncrements Style.TabWidth (7 + interimSize)
        (toPad - (7 + interimSize), toPad / 4, false)
      else (MyLine.LastSpecifierPadding, 0, false)
    | none => (MyLine.LastSpecifierPadding, 0, false)
  else (MyLine.LastSpecifierPadding, 0, false)

/-- The function columnarizeDeclarationSpecifierTokens at index i (lines
1089 to 1197). -/
def declarationSpecifierStep (W : WhitespaceManager) (i : Nat) : WhitespaceManager :=
  let MyTok := W.Toks.at (W.Changes.at i).Tok
  if outsideClassBody MyTok then W
  else
    let PrevTok0 := MyTok.PreviousNonComment
    let PrevTok : Option Nat :=
      match PrevTok0 with
      | some p => if (W.Toks.at p).isAfterNoDiscardOrNoReturnOrTemplate then none else some p
      | none => none
    let prevIsRParen :=
      match PrevTok with
      | some p => (W.Toks.at p).is TokenKind.r_paren
      | none => false
    if MyTok.is TokenKind.kw_const && prevIsRParen then W
    else if MyTok.isAfterNoDiscardOrNoReturnOrTemplate then W
    else
      let MyLine := W.line MyTok.MyLine
      let nextIsStaticOrVirtual :=
        match MyTok.NextNonComment with
        | some n => (W.Toks.at n).isDeclSpecStaticOrVirtual
        | none => false
      let first := MyTok.isDeclSpecStaticOrVirtual && PrevTok.isNone
      let W0 : WhitespaceManager :=
        if !first && MyTok.isDeclSpecInlineOrExtern && MyTok.NextNonComment.isNone then
          { W with Faulted := true }
        else W
      if first || (MyTok.isDeclSpecInlineOrExtern && nextIsStaticOrVirtual) then
        let W1 := W0.setChange i (fun c => { c with StartOfTokenColumn := 0, Spaces := 0 })
        let tabs := MyLine.LastSpecifierTabs + 2
        let W2 := W1.setLine MyTok.MyLine (fun l => { l with
          LastSpecifierPadding := if MyTok.is TokenKind.kw_static then 2 else 1
          LastSpecifierTabs := tabs })
        { W2 with MaxSpecifierTabs := if W2.MaxSpecifierTabs < tabs then tabs else W2.MaxSpecifierTabs }
      else if MyTok.isDeclarationSpecifier then
        let prevIsStaticOrVirtual :=
          match PrevTok with
          | some p => (W.Toks.at p).isDeclSpecStaticOrVirtual
          | none => false
        let tabs0 := if !prevIsStaticOrVirtual && MyLine.LastSpecifierTabs = 0 then 2
          else MyLine.LastSpecifierTabs
        let Spaces0 : Int :=
          if prevIsStaticOrVirtual then MyLine.LastSpecifierPadding
          else if MyLine.LastSpecifierTabs = 0 then
            (if MyTok.is TokenKind.kw_friend then
              (if MyTok.NewlinesBefore ≠ 0 then ((tabs0 * W.Style.TabWidth : Nat) : Int) else 1)
             else (W.Changes.at i).Spaces)
          else MyLine.LastSpecifierPadding
        let Start0 := tabs0 * W.Style.TabWidth
        let pad := specifierPadding W.Toks W.Style MyTok MyLine PrevTok.isNone
        let W1 := W0.setChange i (fun c => { c with
          Spaces := if pad.2.2 then Spaces0 + (pad.1 + 1 : Nat) else Spaces0
          StartOfTokenColumn := if pad.2.2 then toUnsigned ((Start0 : Int) + 4) else Start0 })
        let tabs := tabs0 + pad.2.1
        let W2 := W1.setLine MyTok.MyLine (fun l => { l with
          LastSpecifierPadding := pad.1
          LastSpecifierTabs := tabs })
        { W2 with MaxSpecifierTabs := if W2.MaxSpecifierTabs < tabs then tabs else W2.MaxSpecifierTabs }
      else W0

/-- The function columnarizeDeclarationSpecifierTokens (lines 1081 to
1199). -/
def columnarizeDeclarationSpecifierTokens (W : WhitespaceManager) : WhitespaceManager :=
  if !W.Style.AlignConsecutiveDeclarations then W
  else (List.range W.Changes.length).foldl declarationSpecifierStep W

/-- The walk over the interim tokens before a name (lines 1251 to 1256):
the size summed so far and the token reached. -/
def interimWalk (T : TokenTable) : Nat → Option Nat → Nat → Nat × Option Nat
  | 0, p, size => (size, p)
  | fuel + 1, p, size =>
    match p with
    | none => (size, none)
    | some q =>
      if (T.at q).IsInterimBeforeName then
        interimWalk T fuel (T.at q).NextNonCommentNonConst
          (size + (T.at q).SpacesRequiredBefore + (T.at q).TokenText.length)
      else (size, some q)

/-- The body of `if (MyTok->IsDatatype)` of columnarizeDatatypeTokens at
index i (lines 1235 to 1296). -/
def datatypeBody (W : WhitespaceManager) (i : Nat) (MyTok : FormatToken) : WhitespaceManager :=
  let MyLine := W.line MyTok.MyLine
  let functionNameAfterInterims := MyTok.isFunctionNameAfterInterims
  let memVarNameAfterInterims := MyTok.isMemberVariableNameAfterInterims
  let prevPrev : Option Nat :=
    match MyTok.Previous with
    | some p => (W.Toks.at p).Previous
    | none => none
  let ismaybeunused :=
    match prevPrev with
    | some pp => (W.Toks.at pp).isMaybeUnused && decide (MyLine.First = some pp)
    | none => false
  if !(functionNameAfterInterims || memVarNameAfterInterims || ismaybeunused) then W
  else
    let j := if ismaybeunused then i - 2 else i
    let tokSize0 := MyTok.TokenText.length
    let walk := interimWalk W.Toks (W.Toks.length + 1) MyTok.NextNonCommentNonConst 0
    let interimSize := walk.1
    let r : WhitespaceManager × Option Nat :=
      if ismaybeunused then
        match walk.2 with
        | none => ({ W with Faulted := true }, none)
        | some n =>
          match (W.Toks.at n).NextNonCommentNonConst with
          | none => (W, none)
          | some n1 =>
            match (W.Toks.at n1).NextNonCommentNonConst with
            | none => ({ W with Faulted := true }, none)
            | some n2 =>
              (W.setTok n2 (fun t => { t with
                PrevTokenSizeForColumnarization := tokSize0, IsDatatype := true }), some n2)
      else (W, walk.2)
    let W1 := r.1
    let NextTok := r.2
    let tokSize := if ismaybeunused then 4 + tokSize0 else interimSize + tokSize0
    let W2 : WhitespaceManager :=
      match NextTok with
      | some n =>
        if (functionNameAfterInterims && (W1.Toks.at n).isFunctionAndNextLeftParen) ||
            (memVarNameAfterInterims && (W1.Toks.at n).isMemberVarNameInDecl) then
          W1.setTok n (fun t => { t with PrevTokenSizeForColumnarization := tokSize })
        else W1
      | none => W1
    let W3 : WhitespaceManager :=
      { W2 with MaxDatatypeLen := if W2.MaxDatatypeLen < tokSize then tokSize else W2.MaxDatatypeLen }
    let firstIsMaybeUnused :=
      match MyLine.First with
      | some f => (W3.Toks.at f).isMaybeUnused
      | none => false
    let W4 : WhitespaceManager :=
      if MyLine.LastSpecifierTabs = 0 || firstIsMaybeUnused then
        (W3.setChange j (fun c => { c with
          Spaces := ((W3.MaxSpecifierTabs * W3.Style.TabWidth : Nat) : Int) })).setLine MyTok.MyLine
          (fun l => { l with LastSpecifierTabs := W3.MaxSpecifierTabs })
      else if MyLine.LastSpecifierTabs < W3.MaxSpecifierTabs then
        (W3.setChange j (fun c => { c with
          Spaces := (((W3.MaxSpecifierTabs - MyLine.LastSpecifierTabs) * W3.Style.TabWidth +
            MyLine.LastSpecifierPadding : Nat) : Int) })).setLine MyTok.MyLine
          (fun l => { l with LastSpecifierTabs := W3.MaxSpecifierTabs })
      else if MyLine.LastSpecifierTabs = W3.MaxSpecifierTabs then
        W3.setChange j (fun c => { c with Spaces := (MyLine.LastSpecifierPadding : Int) })
      else W3
    let W5 : WhitespaceManager :=
      if MyTok.MyLine.isNone || (MyLine.LastSpecifierTabs ≠ 0 && MyLine.First.isNone) then
        { W4 with Faulted := true }
      else W4
    W5.setChange j (fun c => { c with
      StartOfTokenColumn := toUnsigned ((W5.MaxSpecifierTabs * W5.Style.TabWidth : Nat) : Int) })

/-- The function columnarizeDatatypeTokens at index i (lines 1215 to 1297);
the second component is bracecount. -/
def datatypeStep (st : WhitespaceManager × Int) (i : Nat) : WhitespaceManager × Int :=
  let W := st.1
  let MyTok := W.Toks.at (W.Changes.at i).Tok
  if outsideClassBody MyTok then st
  else
    let prevIsTemplate :=
      match MyTok.Previous with
      | some p => (W.Toks.at p).is TokenKind.kw_template
      | none => false
    let W0 : WhitespaceManager :=
      if MyTok.is TokenKind.less && MyTok.Previous.isNone then { W with Faulted := true } else W
    if MyTok.is TokenKind.less && prevIsTemplate then (W0, st.2 + 1)
    else if st.2 ≠ 0 then (W0, if MyTok.is TokenKind.greater then st.2 - 1 else st.2)
    else if MyTok.IsDatatype then (datatypeBody W0 i MyTok, st.2)
    else (W0, st.2)

/-- The function columnarizeDatatypeTokens (lines 1204 to 1299). -/
def columnarizeDatatypeTokens (W : WhitespaceManager) : WhitespaceManager :=
  if !W.Style.AlignConsecutiveDeclarations then W
  else
    let W1 : WhitespaceManager :=
      if W.MaxSpecifierTabs < 4 then { W with MaxSpecifierTabs := 4 } else W
    ((List.range W1.Changes.length).foldl datatypeStep (W1, 0)).1

/-- Whether p points to a token of one of the given kinds; false for the
null pointer. -/
def TokenTable.isOneOf (T : TokenTable) (p : Option Nat) (ks : List TokenKind) : Bool :=
  match p with
  | some q => ks.contains (T.at q).Kind
  | none => false

/-- The attribute block `[[nodiscard]]` or `[[noreturn]]` (lines 1334 to
1371): the records of the five tokens are written one after the other; the
result is the manager and the index i reached. -/
def attributeBlock (W : WhitespaceManager) (i : Nat) (MyTok : FormatToken) :
    WhitespaceManager × Nat :=
  let col : Int := ((W.MaxSpecifierTabs * W.Style.TabWidth : Nat) : Int)
  let add : Change → Change := fun c =>
    { c with StartOfTokenColumn := toUnsigned ((c.StartOfTokenColumn : Int) + col), Spaces := 0 }
  let W1 := W.setChange i (fun c => { c with StartOfTokenColumn := toUnsigned col, Spaces := col })
  let next1 := MyTok.NextNonComment
  if !W.Toks.isOneOf next1 [TokenKind.l_square] then (W1, i)
  else
    let W2 := W1.setChange (i + 1) (fun c => { c with StartOfTokenColumn := toUnsigned col, Spaces := 0 })
    let next2 := (W.Toks.deref next1).bind (fun t => t.NextNonComment)
    let named :=
      match W.Toks.deref next2 with
      | some t => "nodiscard".toList.isPrefixOf t.TokenText || "noreturn".toList.isPrefixOf t.TokenText
      | none => false
    if !named then (W2, i + 1)
    else
      let W3 := W2.setChange (i + 2) add
      let next3 := (W.Toks.deref next2).bind (fun t => t.NextNonComment)
      if !W.Toks.isOneOf next3 [TokenKind.r_square] then (W3, i + 2)
      else
        let W4 := W3.setChange (i + 3) add
        let next4 := (W.Toks.deref next3).bind (fun t => t.NextNonComment)
        if !W.Toks.isOneOf next4 [TokenKind.r_square] then (W4, i + 3)
        else (W4.setChange (i + 4) add, i + 4)

/-- The locals of the walk over a template parameter list. -/
structure TemplateWalk where
  W : WhitespaceManager
  i : Nat
  curr : Option Nat
  spacecount : Int := 0
  bracecount : Int := 0

/-- The loop `while (bracecount)` over a template parameter list (lines 1398
to 1437).  When the tokens end before the list is closed the source goes on
to `while (bracecount != 0);`, which does not end: this is recorded in
Faulted. -/
def templateWalk : Nat → TemplateWalk → TemplateWalk
  | 0, s => s
  | fuel + 1, s =>
    if s.bracecount = 0 then s
    else
      let curr := (s.W.Toks.deref s.curr).bind (fun t => t.NextNonComment)
      let i := s.i + 1
      match curr with
      | none => { s with W := { s.W with Faulted := true }, i := i, curr := none, bracecount := 0 }
      | some q =>
        let t := s.W.Toks.at q
        let sc1 : Int := if t.is TokenKind.less then 0 else s.spacecount
        let bc1 : Int := if t.is TokenKind.less then s.bracecount + 1 else s.bracecount
        let sc2 : Int := if t.is TokenKind.greater then 0 else sc1
        let bc2 : Int := if t.is TokenKind.greater then bc1 - 1 else bc1
        let sc3 : Int := if t.is TokenKind.comma || t.is TokenKind.ellipsis then 0 else sc2
        let sc4 : Int :=
          if t.is TokenKind.kw_template || t.is TokenKind.kw_typename || t.is TokenKind.kw_class ||
              t.isDatatype then
            (if s.W.Toks.isOneOf t.Previous
                [TokenKind.ellipsis, TokenKind.less, TokenKind.coloncolon] then 0 else 1)
          else sc3
        let sc5 : Int :=
          if t.is TokenKind.identifier then
            (if s.W.Toks.isOneOf t.Previous [TokenKind.less, TokenKind.coloncolon] then 0 else 1)
          else sc4
        let W1 := s.W.setChange i (fun c => { c with
          StartOfTokenColumn := toUnsigned ((c.StartOfTokenColumn : Int) +
            ((s.W.MaxSpecifierTabs * s.W.Style.TabWidth : Nat) : Int))
          Spaces := sc5 })
        templateWalk fuel { W := W1, i := i, curr := some q, spacecount := sc5, bracecount := bc2 }

/-- The body of the loop of columnarizeNoDiscardOrNoReturnOrTemplate at
index i (lines 1314 to 1439): the manager and the index at which the loop
goes on after its `++i`. -/
def noDiscardStep (W : WhitespaceManager) (i : Nat) : WhitespaceManager × Nat :=
  let MyTok := W.Toks.at (W.Changes.at i).Tok
  let prevNullOrComment :=
    match W.Toks.deref MyTok.Previous with
    | none => true
    | some p => p.is TokenKind.comment
  let prevPrevIsIdentifier :=
    match W.Toks.deref MyTok.Previous with
    | none => false
    | some p => W.Toks.isOneOf p.Previous [TokenKind.identifier]
  let W1 : WhitespaceManager :=
    if MyTok.is TokenKind.l_square && W.Toks.isOneOf MyTok.Next [TokenKind.l_square] &&
        decide (MyTok.LparenCount ≠ 0) && prevNullOrComment then
      W.setChange i (fun c => { c with Spaces := 1 })
    else if MyTok.is TokenKind.identifier &&
        W.Toks.isOneOf MyTok.Previous [TokenKind.amp, TokenKind.ampamp, TokenKind.star] &&
        prevPrevIsIdentifier && decide (MyTok.LparenCount ≠ 0) then
      W.setChange i (fun c => { c with Spaces := 1 })
    else W
  if outsideClassBody MyTok then (W1, i + 1)
  else if !MyTok.isNoDiscardOrNoReturnOrTemplate then (W1, i + 1)
  else
    let r1 := if MyTok.is TokenKind.l_square then attributeBlock W1 i MyTok else (W1, i)
    let W2 := r1.1
    let i2 := r1.2
    let isfrienddecl :=
      match W2.Toks.deref MyTok.walkTemplateBlockInClassDecl with
      | some t => t.is TokenKind.kw_friend
      | none => false
    let MyLine := W2.line MyTok.MyLine
    if MyTok.is TokenKind.kw_template && MyTok.MyLine.isSome &&
        (MyLine.MightBeFunctionDecl || isfrienddecl) && MyLine.EndsWithSemi &&
        decide (MyTok.LbraceCount > 0) && decide (MyTok.LparenCount = 0) &&
        decide (MyTok.LArrowCount = 0) then
      let col : Int := if isfrienddecl then 8 else ((W2.MaxSpecifierTabs * W2.Style.TabWidth : Nat) : Int)
      let W3 := W2.setChange i2 (fun c => { c with StartOfTokenColumn := toUnsigned col, Spaces := col })
      let W4 : WhitespaceManager := if MyTok.Next.isNone then { W3 with Faulted := true } else W3
      let w := templateWalk (W4.Toks.length + 1)
        { W := W4, i := i2 + 1, curr := MyTok.Next, spacecount := 0,
          bracecount := if W4.Toks.isOneOf MyTok.Next [TokenKind.less] then 1 else 0 }
      (w.W, w.i + 1)
    else (W2, i2 + 1)

/-- The for loop of columnarizeNoDiscardOrNoReturnOrTemplate: the body
moves the index itself; the first argument bounds the number of
iterations. -/
def noDiscardLoop : Nat → WhitespaceManager → Nat → WhitespaceManager
  | 0, W, _ => W
  | fuel + 1, W, i =>
    if i < W.Changes.length then
      let r := noDiscardStep W i
      noDiscardLoop fuel r.1 r.2
    else W

/-- The function columnarizeNoDiscardOrNoReturnOrTemplate (lines 1302 to
1441). -/
def columnarizeNoDiscardOrNoReturnOrTemplate (W : WhitespaceManager) : WhitespaceManager :=
  if !W.Style.AlignConsecutiveDeclarations then W
  else
    let W1 : WhitespaceManager :=
      if W.MaxSpecifierTabs < 4 then { W with MaxSpecifierTabs := 4 } else W
    noDiscardLoop W1.Changes.length W1 0

/-- The loop `while (j < Changes.size() && Changes[j].NewlinesBefore == 0)`
that adds lenDiff to the columns of the rest of the line (lines 1482 to
1485 and 1495 to 1498). -/
def shiftRestOfLine (lenDiff : Int) : Nat → Changes → Nat → Changes
  | 0, cs, _ => cs
  | fuel + 1, cs, j =>
    if decide (j < cs.length) && decide ((cs.at j).NewlinesBefore = 0) then
      shiftRestOfLine lenDiff fuel
        (cs.set j { cs.at j with
          StartOfTokenColumn := toUnsigned (((cs.at j).StartOfTokenColumn : Int) + lenDiff) })
        (j + 1)
    else cs

/-- The maximum kept in an accumulator: `Max = Max < x ? x : Max`. -/
def keepMax (m x : Nat) : Nat := if m < x then x else m

/-- The statement `Changes[i].Spaces = v`. -/
def WhitespaceManager.setSpaces (W : WhitespaceManager) (i : Nat) (v : Int) :
    WhitespaceManager :=
  W.setChange i (fun c => { c with Spaces := v })

/-- The statement `Tok->PrevTokenSizeForColumnarization = v` behind the test
of the pointer: nothing is written through the null pointer. -/
def WhitespaceManager.setPrevTokenSize (W : WhitespaceManager) (p : Option Nat) (v : Nat) :
    WhitespaceManager :=
  match p with
  | some n => W.setTok n (fun t => { t with PrevTokenSizeForColumnarization := v })
  | none => W

/-- The loop `while (j < Changes.size() && Changes[j].NewlinesBefore == 0)`
from j = i + 1 on the ledger of the manager. -/
def WhitespaceManager.shiftRest (W : WhitespaceManager) (lenDiff : Int) (i : Nat) :
    WhitespaceManager :=
  { W with Changes := shiftRestOfLine lenDiff W.Changes.length W.Changes (i + 1) }

/-- The statement `MaxMemberNameLen = MaxMemberNameLen < tokSize ? tokSize :
MaxMemberNameLen`. -/
def WhitespaceManager.noteMemberName (W : WhitespaceManager) (tokSize : Nat) :
    WhitespaceManager :=
  { W with MaxMemberNameLen := keepMax W.MaxMemberNameLen tokSize }

/-- The test `MyTok->Previous && MyTok->Previous->is(tok::l_brace) &&
MyTok->Next && !MyTok->Next->is(tok::comment)` (line 1474). -/
def afterLeftBrace (T : TokenTable) (MyTok : FormatToken) : Bool :=
  T.isOneOf MyTok.Previous [TokenKind.l_brace] &&
    (match T.deref MyTok.Next with
     | some n => !n.is TokenKind.comment
     | none => false)

/-- The two tests at the head of the loop of columnarizeIdentifierTokens
under which the record is passed over (lines 1462 to 1467): the token is
neither in a class nor in a struct and is outside braces or inside
parentheses, or it follows a bit-field colon. -/
def passedOver (T : TokenTable) (MyTok : FormatToken) : Bool :=
  (!(MyTok.IsClassScope || MyTok.IsStructScope) &&
      (decide (MyTok.LbraceCount = 0) || decide (MyTok.LparenCount > 0))) ||
    (match T.deref MyTok.Previous with
     | some p => p.isType TokenType.TT_BitFieldColon
     | none => false)

/-- The function columnarizeIdentifierTokens at index i (lines 1458 to
1534); pad is the value computed before the loop. -/
def identifierStep (pad : Nat) (W : WhitespaceManager) (i : Nat) : WhitespaceManager :=
  let MyTok := W.Toks.at (W.Changes.at i).Tok
  if passedOver W.Toks MyTok then W
  else
    let NextTok := MyTok.NextNonCommentNonConst
    let lenDiff : Int := (W.MaxDatatypeLen : Int) - MyTok.PrevTokenSizeForColumnarization
    let wide : Int := toInt (toUnsigned
      ((W.MaxSpecifierTabs * W.Style.TabWidth + W.MaxDatatypeLen + pad : Nat) : Int))
    if MyTok.isMemberVarNameInDecl then
      (W.setSpaces i
        (if afterLeftBrace W.Toks MyTok then 0
         else toInt (toUnsigned ((pad : Int) + lenDiff)))).shiftRest lenDiff i
    else if MyTok.isFunctionNameAndPrevIsPointerOrRefOrDatatype &&
        !MyTok.IsInFunctionDefinitionScope then
      ((((W.setSpaces i (toInt (toUnsigned ((pad : Int) + lenDiff)))).noteMemberName
        MyTok.TokenText.length).shiftRest lenDiff i).setPrevTokenSize NextTok
          MyTok.TokenText.length)
    else if MyTok.isConstructor then
      (((W.setSpaces i wide).noteMemberName MyTok.TokenText.length).setPrevTokenSize NextTok
        MyTok.TokenText.length)
    else if MyTok.isDestructor then
      let W1 := W.setSpaces i (if wide > 1 then wide - 1 else wide)
      match NextTok with
      | some n =>
        (W1.noteMemberName (W1.Toks.at n).TokenText.length).setPrevTokenSize
          (W1.Toks.at n).NextNonCommentNonConst (W1.Toks.at n).TokenText.length
      | none => W1
    else if MyTok.is TokenKind.l_brace && W.Toks.isOneOf MyTok.Previous [TokenKind.identifier] &&
        W.Toks.isOneOf ((W.Toks.deref MyTok.Previous).bind (fun t => t.Previous))
          [TokenKind.star] then
      match W.Toks.deref MyTok.Previous with
      | some p => { W with MaxGlobalVarNameLen := keepMax W.MaxGlobalVarNameLen p.ColumnWidth }
      | none => W
    else W

/-- The function columnarizeIdentifierTokens (lines 1444 to 1536). -/
def columnarizeIdentifierTokens (W : WhitespaceManager) : WhitespaceManager :=
  if !W.Style.AlignConsecutiveDeclarations then W
  else
    let pad := 1 + padIncrements W.Style.TabWidth (W.MaxDatatypeLen + 1)
    (List.range W.Changes.length).foldl (identifierStep pad) W

/-- The function columnarizeLParenTokensAndSplitArgs at index i (lines 1556
to 1582); the state carries insideargs and newlineargssize. -/
def lParenStep (toPad pad : Nat) (st : WhitespaceManager × Bool × Int) (i : Nat) :
    WhitespaceManager × Bool × Int :=
  let W := st.1
  let MyTok := W.Toks.at (W.Changes.at i).Tok
  if !(MyTok.IsClassScope || MyTok.IsStructScope) && decide (MyTok.LbraceCount = 0) then st
  else
    let PrevTok := W.Toks.deref MyTok.PreviousNonComment
    let prevPrev := (W.Toks.deref MyTok.Previous).bind (fun t => t.Previous)
    let isCall := MyTok.is TokenKind.l_paren && !MyTok.IsInFunctionDefinitionScope &&
      (match PrevTok with
       | some p => p.isFunctionOrCtorOrPrevIsDtor
       | none => false)
    let isInit := !isCall && MyTok.is TokenKind.l_brace &&
      (match PrevTok with
       | some p => p.is TokenKind.identifier
       | none => false) && W.Toks.isOneOf prevPrev [TokenKind.star]
    let W0 : WhitespaceManager :=
      if !isCall && MyTok.is TokenKind.l_brace &&
          (match PrevTok with
           | some p => p.is TokenKind.identifier
           | none => false) && MyTok.Previous.isNone then
        { W with Faulted := true }
      else W
    let W1 : WhitespaceManager :=
      if isCall then
        W0.setChange i (fun c => { c with
          Spaces := toInt (toUnsigned ((pad : Int) + W.MaxMemberNameLen -
            MyTok.PrevTokenSizeForColumnarization)) })
      else if isInit then
        W0.setChange i (fun c => { c with
          Spaces := toInt (toUnsigned ((1 : Int) + W.MaxGlobalVarNameLen -
            (match PrevTok with
             | some p => (p.ColumnWidth : Int)
             | none => 0))) })
      else W0
    let newlineargssize : Int :=
      if isCall then
        toInt (toUnsigned ((toPad + W.MaxSpecifierTabs * W.Style.TabWidth + W.MaxDatatypeLen +
          pad + 2 : Nat) : Int))
      else st.2.2
    let insideargs0 := if isCall then true else if isInit then false else st.2.1
    let insideargs := if insideargs0 && MyTok.is TokenKind.r_paren then false else insideargs0
    let W2 : WhitespaceManager :=
      if insideargs && decide (MyTok.NewlinesBefore > 0) then
        W1.setChange i (fun c => { c with Spaces := newlineargssize })
      else W1
    (W2, insideargs, newlineargssize)

/-- The function columnarizeLParenTokensAndSplitArgs (lines 1539 to 1583). -/
def columnarizeLParenTokensAndSplitArgs (W : WhitespaceManager) : WhitespaceManager :=
  if !W.Style.AlignConsecutiveDeclarations then W
  else
    let inc := padIncrements W.Style.TabWidth (W.MaxMemberNameLen + 1)
    ((List.range W.Changes.length).foldl (lParenStep (W.MaxMemberNameLen + 1 + inc) (1 + inc))
      (W, false, 0)).1

end ClangFormat

namespace ClangFormat

/-! ## The pass pipeline of generateReplacements -/

/-- Insertion of a record into a ledger sorted by the start of the original
whitespace range. -/
def insertByRange (c : Change) : Changes → Changes
  | [] => [c]
  | d :: rest =>
    if c.OriginalWhitespaceBegin ≤ d.OriginalWhitespaceBegin then c :: d :: rest
    else d :: insertByRange c rest

/-- The call `llvm::sort(Changes, Change::IsBeforeInFile(SourceMgr))`: the
ledger ordered by the start of the original whitespace range.  The order of
two records with the same start is not fixed by the source; the embedding
keeps them in their order. -/
def sortChanges (cs : Changes) : Changes := cs.foldr insertByRange []

/-- The passes of generateReplacements, in their order (lines 92 to 118):
everything that generateReplacements does to the ledger before
generateChanges writes the replacements. -/
def passPipeline (W : WhitespaceManager) : WhitespaceManager :=
  if W.Changes.isEmpty then W
  else
    let W1 := calculateLineBreakInformation { W with Changes := sortChanges W.Changes }
    let W2 := columnarizeKeywords W1
    let W3 := columnarizeDeclarationSpecifierTokens W2
    let W4 := columnarizeDatatypeTokens W3
    let W5 := columnarizeNoDiscardOrNoReturnOrTemplate W4
    let W6 := columnarizeIdentifierTokens W5
    let W7 := columnarizeLParenTokensAndSplitArgs W6
    let W8 := alignConsecutiveAssignmentsOnScopedVarName W7
    let W9 := alignConsecutiveAssignmentsOnVarNameAcrossSections W8
    let W10 := alignConsecutiveAssignmentsOnVarNameWithinSection W9
    let W11 := alignConsecutiveVarBitFields W10
    let W12 := alignConsecutiveAssignmentsOnEqualsAcrossSections W11
    let W13 := alignConsecutiveAssignmentsOnEqualsWithinSection W12
    let W14 := alignConsecutiveLBraceOfVarDeclOrDef W13
    let W15 := alignConsecutiveAssignementsOnUsing W14
    let W16 := alignChainedConditionals W15
    let W17 := alignTrailingComments W16
    alignEscapedNewlines W17

end ClangFormat

namespace ClangFormat

/-! ## The patch emitter: generateChanges and the functions it calls -/

/-- The call `Text.append(n, c)` of std::string. -/
def appendChars (Text : List Char) (n : Nat) (c : Char) : List Char :=
  Text ++ List.replicate n c

/-- The line break that the emitter writes: CR LF or LF. -/
def WhitespaceManager.lineBreak (W : WhitespaceManager) : List Char :=
  if W.UseCRLF then ['\r', '\n'] else ['\n']

/-- The function appendNewlineText (lines 2009 to 2013). -/
def appendNewlineText (W : WhitespaceManager) (Text : List Char) (Newlines : Nat) : List Char :=
  (List.range Newlines).foldl (fun t _ => t ++ W.lineBreak) Text

/-- The function appendEscapedNewlineText (lines 2015 to 2027).  The state
of the loop is the text and the local Spaces; the arguments of std::max<int>
are converted to int. -/
def appendEscapedNewlineText (W : WhitespaceManager) (Text : List Char)
    (Newlines PreviousEndOfTokenColumn EscapedNewlineColumn : Nat) : List Char :=
  if Newlines > 0 then
    let Spaces : Nat := toUnsigned (max 1
      (toInt (toUnsigned ((EscapedNewlineColumn : Int) - PreviousEndOfTokenColumn - 1))))
    ((List.range Newlines).foldl
      (fun (st : List Char × Nat) _ =>
        (appendChars st.1 st.2 ' ' ++ ('\\' :: W.lineBreak),
          toUnsigned (max 0 (toInt (toUnsigned ((EscapedNewlineColumn : Int) - 1))))))
      (Text, Spaces)).1
  else Text

/-- The function appendTabIndent (lines 2080 to 2092): the text and the
returned number of spaces that are left. -/
def appendTabIndent (W : WhitespaceManager) (Text : List Char) (Spaces Indentation : Nat) :
    List Char × Nat :=
  let Indentation := if Indentation > Spaces then Spaces else Indentation
  if W.Style.TabWidth ≠ 0 then
    let Tabs := Indentation / W.Style.TabWidth
    (appendChars Text Tabs '\t',
      toUnsigned ((Spaces : Int) - toUnsigned ((Tabs : Int) * W.Style.TabWidth)))
  else (Text, Spaces)

/-- The function appendIndentText (lines 2029 to 2078). -/
def appendIndentText (W : WhitespaceManager) (Text : List Char)
    (IndentLevel Spaces WhitespaceStartColumn : Nat) (IsAligned : Bool) : List Char :=
  match W.Style.UseTab with
  | UseTabStyle.UT_Never => appendChars Text Spaces ' '
  | UseTabStyle.UT_Always =>
    if W.Style.TabWidth ≠ 0 then
      let FirstTabWidth : Nat :=
        toUnsigned ((W.Style.TabWidth : Int) - (WhitespaceStartColumn % W.Style.TabWidth : Nat))
      if Spaces < FirstTabWidth ∨ Spaces = 1 then appendChars Text Spaces ' '
      else
        let Spaces1 : Nat := toUnsigned ((Spaces : Int) - FirstTabWidth)
        let Text1 := Text ++ ['\t']
        let Text2 := appendChars Text1 (Spaces1 / W.Style.TabWidth) '\t'
        appendChars Text2 (Spaces1 % W.Style.TabWidth) ' '
    else if Spaces = 1 then appendChars Text Spaces ' '
    else Text
  | UseTabStyle.UT_ForIndentation =>
    if WhitespaceStartColumn = 0 then
      let Indentation : Nat := toUnsigned ((IndentLevel : Int) * W.Style.IndentWidth)
      let r := appendTabIndent W Text Spaces Indentation
      appendChars r.1 r.2 ' '
    else appendChars Text Spaces ' '
  | UseTabStyle.UT_ForContinuationAndIndentation =>
    if WhitespaceStartColumn = 0 then
      let r := appendTabIndent W Text Spaces Spaces
      appendChars r.1 r.2 ' '
    else appendChars Text Spaces ' '
  | UseTabStyle.UT_AlignWithSpaces =>
    if WhitespaceStartColumn = 0 then
      let Indentation : Nat :=
        if IsAligned then toUnsigned ((IndentLevel : Int) * W.Style.IndentWidth) else Spaces
      let r := appendTabIndent W Text Spaces Indentation
      appendChars r.1 r.2 ' '
    else appendChars Text Spaces ' '

/-- Whether the ranges of two replacements overlap; two replacements at the
same offset are at the same location. -/
def Replacement.overlaps (a b : Replacement) : Bool :=
  (decide (a.Offset < b.Offset + b.Length) && decide (b.Offset < a.Offset + a.Length)) ||
    decide (a.Offset = b.Offset)

/-- Insertion into the replacements in the order of their offsets. -/
def insertReplacement (r : Replacement) : List Replacement → List Replacement
  | [] => [r]
  | q :: rest => if r.Offset < q.Offset then r :: q :: rest else q :: insertReplacement r rest

/-- Modelled from the spec: tooling::Replacements::add is not among the
sources.  The registered replacements are an ordered set of pairs of a
source range and a text whose ranges are sorted and disjoint; a replacement
whose range overlaps a registered one is an error, reported by none, and is
not registered. -/
def Replacements.add (R : List Replacement) (r : Replacement) : Option (List Replacement) :=
  if R.any (fun q => q.overlaps r) then none else some (insertReplacement r R)

/-- The characters of the source buffer that a range covers: the data at the
start of the range, WhitespaceLength characters long. -/
def originalText (src : List Char) (b len : Nat) : List Char := (src.drop b).take len

/-- The function storeReplacement (lines 1992 to 2007); the range is given
by the file offsets of its ends.  An error of Replaces.add reaches
`assert(false)`. -/
def storeReplacement (W : WhitespaceManager) (RangeBegin RangeEnd : Nat) (Text : List Char) :
    WhitespaceManager :=
  let WhitespaceLength : Nat := toUnsigned ((RangeEnd : Int) - RangeBegin)
  if originalText W.SourceText RangeBegin WhitespaceLength = Text then W
  else
    match Replacements.add W.Replaces
        { Offset := RangeBegin, Length := WhitespaceLength, ReplacementText := Text } with
    | some R => { W with Replaces := R }
    | none => { W with AssertsHeld := false }

/-- The value of the local ReplacementText of generateChanges when
storeReplacement is called (lines 1976 to 1986). -/
def replacementText (W : WhitespaceManager) (C : Change) : List Char :=
  let ReplacementText := C.PreviousLinePostfixText
  let t1 :=
    if C.ContinuesPPDirective then
      appendEscapedNewlineText W ReplacementText C.NewlinesBefore C.PreviousEndOfTokenColumn
        C.EscapedNewlineColumn
    else appendNewlineText W ReplacementText C.NewlinesBefore
  let t2 := appendIndentText W t1 (W.tok C).IndentLevel (toUnsigned (max 0 C.Spaces))
    (toUnsigned ((C.StartOfTokenColumn : Int) - max 0 C.Spaces)) C.IsAligned
  t2 ++ C.CurrentLinePrefixText

/-- The body of the loop of generateChanges at index i (lines 1968 to
1988). -/
def generateStep (W : WhitespaceManager) (i : Nat) : WhitespaceManager :=
  let C := W.Changes.at i
  let W1 : WhitespaceManager :=
    if i > 0 ∧ (W.Changes.at (i - 1)).OriginalWhitespaceBegin = C.OriginalWhitespaceBegin then
      { W with AssertsHeld := false }
    else W
  if C.CreateReplacement then
    storeReplacement W1 C.OriginalWhitespaceBegin C.OriginalWhitespaceEnd (replacementText W1 C)
  else W1

/-- The function generateChanges (lines 1967 to 1990). -/
def generateChanges (W : WhitespaceManager) : WhitespaceManager :=
  (List.range W.Changes.length).foldl generateStep W

/-- The function generateReplacements (lines 91 to 123). -/
def generateReplacements (W : WhitespaceManager) : WhitespaceManager :=
  if W.Changes.isEmpty then W else generateChanges (passPipeline W)

end ClangFormat

namespace ClangFormat

/-! ## Notions used in the statements about single matches and the snapping rule -/

/-- The only record of the ledger that matches the predicate, if any does,
is record m. -/
def singleMatch (Matches : Predicate) (cs : Changes) (m : Nat) : Bool :=
  (List.range cs.length).all (fun i => !Matches cs i || decide (i = m))

/-- The least multiple of w that is not below n; n itself for w = 0. -/
def roundUpTo (w n : Nat) : Nat := if n % w ≠ 0 then n + (w - n % w) else n

/-! ## Notions used in the statements about calculateLineBreakInformation -/

/-- An inside-token change that does not start a line: the test
`IsInsideToken && NewlinesBefore == 0`. -/
def insideLine (c : Change) : Bool := c.IsInsideToken && decide (c.NewlinesBefore = 0)

/-- The token length of a record as the specification words it: if the
source text between the end of the whitespace of the record and the start of
the whitespace of the next record holds no line feed, the difference of the
two file offsets plus the length of the PreviousLinePostfix of the next
record plus the length of the CurrentLinePrefix of the record; otherwise the
position of the first line feed in that text plus the length of the
CurrentLinePrefix of the record. -/
def tokenLengthTo (src : List Char) (c next : Change) : Int :=
  match findNewline (textBetween src c.OriginalWhitespaceEnd next.OriginalWhitespaceBegin) with
  | none =>
    (next.OriginalWhitespaceBegin : Int) - c.OriginalWhitespaceEnd +
      next.PreviousLinePostfixText.length + c.CurrentLinePrefixText.length
  | some p => (p : Int) + c.CurrentLinePrefixText.length

/-- What follows record i, as the specification words the second condition
of a trailing comment: the following record starts a new line, or there is
no following token other than the end of the stream, or the following record
is an inside-token change of a comment. -/
def followedByBreak (T : TokenTable) (cs : Changes) (i : Nat) : Bool :=
  if i + 1 < cs.length then
    decide ((cs.at (i + 1)).NewlinesBefore > 0) || (T.at (cs.at (i + 1)).Tok).is TokenKind.eof ||
      ((cs.at (i + 1)).IsInsideToken && (T.at (cs.at (i + 1)).Tok).is TokenKind.comment)
  else true

/-- The classification of record i as a trailing comment as the
specification words it: the token is a comment and what follows is a
break. -/
def trailingAsStated (T : TokenTable) (cs : Changes) (i : Nat) : Bool :=
  (T.at (cs.at i).Tok).is TokenKind.comment && followedByBreak T cs i

/-- The whitespace of the next record starts where the whitespace of record
i ends: the case that the first loop of calculateLineBreakInformation
excludes. -/
def nextStartsAtEnd (cs : Changes) (i : Nat) : Bool :=
  decide (i + 1 < cs.length) &&
    decide ((cs.at (i + 1)).OriginalWhitespaceBegin = (cs.at i).OriginalWhitespaceEnd)

/-- The classification with the two further conditions of the code: the
whitespace of the next record does not start where that of the record ends,
and the record is not an inside-token change that does not start a line. -/
def trailingAsComputed (T : TokenTable) (cs : Changes) (i : Nat) : Bool :=
  trailingAsStated T cs i && !nextStartsAtEnd cs i && !insideLine (cs.at i)

/-! ## Notions used in the statement about the conditional nesting level -/

/-- A fake parenthesis as the specification sees it: its precedence, whether
it is the outermost one that its token opens, and whether its token is
directly preceded by the colon of a conditional expression. -/
structure FakeParen where
  Precedence : Prec
  Outermost : Bool
  AfterColon : Bool
  deriving DecidableEq, Repr

/-- A fake parenthesis that counts for the conditional nesting level: it has
the precedence of a conditional and is not the outermost one of a token
directly preceded by the colon of a conditional expression. -/
def FakeParen.counted (p : FakeParen) : Bool :=
  decide (p.Precedence = Prec.Conditional) && !(p.Outermost && p.AfterColon)

/-- The token is directly preceded by the colon of a conditional
expression. -/
def afterConditionalColon (T : TokenTable) (t : FormatToken) : Bool :=
  match T.deref t.Previous with
  | some p => p.isType TokenType.TT_ConditionalExpr && p.is TokenKind.colon
  | none => false

/-- The fake parentheses that a token opens, the outermost first; FakeLParens
holds them with the innermost first. -/
def fakeParensOf (T : TokenTable) (t : FormatToken) : List FakeParen :=
  (List.enumFrom 0 t.FakeLParens.reverse).map
    (fun kp => { Precedence := kp.2, Outermost := decide (kp.1 = 0),
                 AfterColon := afterConditionalColon T t })

/-- The fake parentheses that are open at record i, the innermost first:
those opened by the token of record i or of an earlier record and not closed
by the FakeRParens of an earlier record.  A closing fake parenthesis closes
the innermost open one. -/
def fakeParensOpenAt (T : TokenTable) (cs : Changes) : Nat → List FakeParen
  | 0 => (fakeParensOf T (T.at (cs.at 0).Tok)).reverse
  | i + 1 =>
    (fakeParensOf T (T.at (cs.at (i + 1)).Tok)).reverse ++
      (fakeParensOpenAt T cs i).drop (T.at (cs.at i).Tok).FakeRParens

/-- The fake parentheses that are still open after the first n records. -/
def fakeParensOpenAfter (T : TokenTable) (cs : Changes) : Nat → List FakeParen
  | 0 => []
  | n + 1 => (fakeParensOpenAt T cs n).drop (T.at (cs.at n).Tok).FakeRParens

/-- The number of open fake parentheses at record i that count for the
conditional nesting level. -/
def conditionalsOpenAt (T : TokenTable) (cs : Changes) (i : Nat) : Nat :=
  ((fakeParensOpenAt T cs i).filter FakeParen.counted).length

/-- The number of fake parentheses still open after the first n records that
count for the conditional nesting level. -/
def conditionalsOpenAfter (T : TokenTable) (cs : Changes) (n : Nat) : Nat :=
  ((fakeParensOpenAfter T cs n).filter FakeParen.counted).length

/-! ## Notions used in the statements about the patch emitter -/

/-- The line breaks of a record: NewlinesBefore times the line break of the
manager. -/
def newlineText (W : WhitespaceManager) (Newlines : Nat) : List Char :=
  (List.replicate Newlines W.lineBreak).flatten

/-- The indentation text of a record: what appendIndentText appends for the
indent level of the token, the Spaces of the record, negative Spaces counting
as 0, and the column at which the whitespace starts. -/
def indentText (W : WhitespaceManager) (C : Change) : List Char :=
  appendIndentText W [] (W.tok C).IndentLevel (toUnsigned (max 0 C.Spaces))
    (toUnsigned ((C.StartOfTokenColumn : Int) - max 0 C.Spaces)) C.IsAligned

/-- The escaped line breaks of a record that continues a preprocessor
directive: what appendEscapedNewlineText appends. -/
def escapedNewlineText (W : WhitespaceManager) (C : Change) : List Char :=
  appendEscapedNewlineText W [] C.NewlinesBefore C.PreviousEndOfTokenColumn C.EscapedNewlineColumn

/-- The replacement text of a record as the specification words it: between
PreviousLinePostfix and CurrentLinePrefix, the escaped line breaks if the
record continues a line continuation, and otherwise the line breaks followed
by the indentation text. -/
def replacementTextAsStated (W : WhitespaceManager) (C : Change) : List Char :=
  C.PreviousLinePostfixText ++
    (if C.ContinuesPPDirective then escapedNewlineText W C
     else newlineText W C.NewlinesBefore ++ indentText W C) ++
    C.CurrentLinePrefixText

/-- The replacement text of a record in its parts: between
PreviousLinePostfix and CurrentLinePrefix, the escaped line breaks if the
record continues a line continuation and otherwise the line breaks, in both
cases followed by the indentation text. -/
def replacementTextInParts (W : WhitespaceManager) (C : Change) : List Char :=
  C.PreviousLinePostfixText ++
    (if C.ContinuesPPDirective then escapedNewlineText W C else newlineText W C.NewlinesBefore) ++
    indentText W C ++ C.CurrentLinePrefixText

/-- The replacement that a record stands for, if any: the record has
CreateReplacement set and its replacement text differs from the source text
of its whitespace range. -/
def expectedReplacement (W : WhitespaceManager) (C : Change) : Option Replacement :=
  if C.CreateReplacement ∧
      replacementTextInParts W C ≠ originalText W.SourceText C.OriginalWhitespaceBegin
        (C.OriginalWhitespaceEnd - C.OriginalWhitespaceBegin) then
    some { Offset := C.OriginalWhitespaceBegin
           Length := C.OriginalWhitespaceEnd - C.OriginalWhitespaceBegin
           ReplacementText := replacementTextInParts W C }
  else none

/-- The replacements that the records of the ledger stand for, in the order
of the ledger. -/
def expectedReplacements (W : WhitespaceManager) : List Replacement :=
  W.Changes.filterMap (expectedReplacement W)

/-- The whitespace ranges of the ledger are ranges of file offsets that are
values of `unsigned`, and each range ends before or where every later range
starts, no two starting at the same offset. -/
def rangesInOrder (cs : Changes) : Bool :=
  (List.range cs.length).all (fun i =>
    decide ((cs.at i).OriginalWhitespaceBegin ≤ (cs.at i).OriginalWhitespaceEnd) &&
    decide ((cs.at i).OriginalWhitespaceEnd < 4294967296) &&
    (List.range i).all (fun j =>
      decide ((cs.at j).OriginalWhitespaceEnd ≤ (cs.at i).OriginalWhitespaceBegin) &&
      decide ((cs.at j).OriginalWhitespaceBegin < (cs.at i).OriginalWhitespaceBegin)))

end ClangFormat

namespace ClangFormat

/-! ## Notions used in the statements about Spaces -/

/-- Spaces of no record is smaller in the ledger b than in the ledger a. -/
def SpacesGrow (a b : Changes) : Prop := ∀ j, (Changes.at a j).Spaces ≤ (Changes.at b j).Spaces

/-- The state b comes after the state a in a run in which, if every
assertion has held up to b, every assertion had held up to a and Spaces of no
record has become smaller. -/
def AlignState.Grows (a b : AlignState) : Prop :=
  b.AssertsHeld = true → a.AssertsHeld = true ∧ SpacesGrow a.Changes b.Changes

/-- Every part of the overload takes a state to one that comes after it in
the sense of Grows. -/
structure Overload.Grows (O : Overload) : Prop where
  lineStart : ∀ s i, AlignState.Grows s (O.lineStart s i)
  matchStep : ∀ s i, AlignState.Grows s (O.matchStep s i)
  flush : ∀ s, AlignState.Grows s (O.flush s)

/-- Every column of the ledger is a value of the C++ type `unsigned`. -/
def columnsInRange (cs : Changes) : Bool :=
  cs.all (fun c => decide (c.StartOfTokenColumn < 4294967296) &&
    decide (c.PreviousEndOfTokenColumn < 4294967296))

/-! ## Notions used in the statements about one run of lines -/

/-- The number of matching records on the line of record i - 1, up to that
record; 0 for i = 0. -/
def matchesSeen (M : Predicate) (cs : Changes) : Nat → Nat
  | 0 => 0
  | i + 1 =>
    (if (Changes.at cs i).NewlinesBefore ≠ 0 then 0 else matchesSeen M cs i) +
      (if M cs i then 1 else 0)

/-- The number of commas on the line of record i - 1, up to that record; 0
for i = 0. -/
def commasSeen (T : TokenTable) (cs : Changes) : Nat → Nat
  | 0 => 0
  | i + 1 =>
    (if (Changes.at cs i).NewlinesBefore ≠ 0 then 0 else commasSeen T cs i) +
      (if (T.at (Changes.at cs i).Tok).is TokenKind.comma then 1 else 0)

/-- The index of the first matching record below i, or 0 if there is
none. -/
def firstMatchBelow (M : Predicate) (cs : Changes) : Nat → Nat
  | 0 => 0
  | i + 1 => if firstMatchBelow M cs i = 0 ∧ M cs i = true then i else firstMatchBelow M cs i

/-- The maximum of StartOfTokenColumn over the matching records below i, or
0 if there is none. -/
def maxMatchColumnBelow (M : Predicate) (cs : Changes) : Nat → Nat
  | 0 => 0
  | i + 1 =>
    if M cs i then max (maxMatchColumnBelow M cs i) (Changes.at cs i).StartOfTokenColumn
    else maxMatchColumnBelow M cs i

/-- The minimum of ChangeMaxColumn, the last column at which the match may
stand for its line to fit the column limit in effect, over the matching
records below i, or UINT_MAX if there is none. -/
def minChangeMaxBelow (Style : FormatStyle) (P : Tally.Policy) (M : Predicate) (cs : Changes) :
    Nat → Nat
  | 0 => UINT_MAX
  | i + 1 =>
    if M cs i then min (minChangeMaxBelow Style P M cs i) (Tally.ChangeMaxColumn Style P cs i)
    else minChangeMaxBelow Style P M cs i

/-- All records of the ledger lie at the level of the first one. -/
def flatLedger (T : TokenTable) (cs : Changes) : Bool :=
  (List.range cs.length).all (fun i =>
    decide (indentAndNestingLevel T (Changes.at cs i) = indentAndNestingLevel T (Changes.at cs 0)))

/-- Every line that is followed by another line has exactly one matching
record, and the last line has at most one. -/
def oneMatchPerLine (M : Predicate) (cs : Changes) : Bool :=
  (List.range cs.length).all (fun e =>
    if e + 1 = cs.length then decide (matchesSeen M cs (e + 1) ≤ 1)
    else if (Changes.at cs (e + 1)).NewlinesBefore ≠ 0 then decide (matchesSeen M cs (e + 1) = 1)
    else true)

/-- No record is preceded by a section break. -/
def noSectionBreak (P : Tally.Policy) (cs : Changes) : Bool :=
  cs.all (fun c => decide (c.NewlinesBefore ≤ P.MaxNewlinesBeforeSectionBreak))

/-- Commas are ignored, or every matching record has K commas before it on
its line. -/
def commaCountsAgree (T : TokenTable) (P : Tally.Policy) (M : Predicate) (cs : Changes)
    (K : Nat) : Bool :=
  P.IgnoreCommas ||
    (List.range cs.length).all (fun i => !M cs i || decide (commasSeen T cs (i + 1) = K))

/-- Every matching record but the first stands within the column window of
the matching records before it, and within the limit of leading spaces of
their maximum column. -/
def withinWindow (Style : FormatStyle) (P : Tally.Policy) (M : Predicate) (cs : Changes) :
    Bool :=
  (List.range cs.length).all (fun i =>
    !M cs i || decide (firstMatchBelow M cs i = 0) ||
      (decide ((Changes.at cs i).StartOfTokenColumn ≤ minChangeMaxBelow Style P M cs i) &&
       decide (maxMatchColumnBelow M cs i ≤ Tally.ChangeMaxColumn Style P cs i) &&
       decide (toUnsigned (Tally.leadingSpacesReqd (Changes.at cs i).StartOfTokenColumn
          (maxMatchColumnBelow M cs i)) ≤ P.MaxLeadingSpacesForAlignment)))

/-- Every matching record passes the test that AlignTokenSequence adds: it
is outside parentheses and is not an identifier directly after `::`, `[` or
`<`. -/
def matchesAllowed (T : TokenTable) (M : Predicate) (cs : Changes) : Bool :=
  (List.range cs.length).all (fun i => !M cs i || Tally.matchAllowed T cs i)

/-- Every StartOfTokenColumn of the ledger is below 2^31, so that a
difference of two of them is a value of `int`. -/
def columnsSmall (cs : Changes) : Bool :=
  cs.all (fun c => decide (c.StartOfTokenColumn < 2147483648))

/-! ## Notions used in the statements about the column limit -/

/-- The remaining length of the line from record i on: the TokenLength of
record i plus Spaces and TokenLength of every later record on the line. -/
def remainingLength (cs : Changes) (i : Nat) : Int :=
  ((Changes.at cs i).TokenLength : Int) +
    ((restOfLine cs (i + 1)).map (fun c => c.Spaces + (c.TokenLength : Int))).sum

/-- Every matching record is the first matching record on its line and does
not start the line. -/
def matchesApart (M : Predicate) (cs : Changes) : Bool :=
  (List.range cs.length).all (fun k =>
    !M cs k || (decide ((Changes.at cs k).NewlinesBefore = 0) && decide (matchesSeen M cs k = 0)))

/-- Every line with a matching record fits the column limit in effect: the
column of the matching record plus the remaining length of the line is at
most the limit. -/
def linesFit (Style : FormatStyle) (P : Tally.Policy) (M : Predicate) (cs : Changes) : Bool :=
  (List.range cs.length).all (fun k =>
    !M cs k || decide (((Changes.at cs k).StartOfTokenColumn : Int) + remainingLength cs k ≤
      Tally.ColumnLimitInEffect Style P))

/-- Every record has Spaces >= 0. -/
def spacesNonneg (cs : Changes) : Bool := cs.all (fun c => decide (0 ≤ c.Spaces))

end ClangFormat

namespace ClangFormat

/-! ## Example ledgers -/

/-- A record of an example ledger: token, column, line breaks before,
spaces, token length and previous end column. -/
def mkChange (Tok StartOfTokenColumn NewlinesBefore : Nat) (Spaces : Int)
    (TokenLength PreviousEndOfTokenColumn : Nat) : Change :=
  { Tok := Tok, StartOfTokenColumn := StartOfTokenColumn, NewlinesBefore := NewlinesBefore,
    Spaces := Spaces, TokenLength := TokenLength,
    PreviousEndOfTokenColumn := PreviousEndOfTokenColumn }

/-- A token of an example: kind and nesting level. -/
def mkToken (Kind : TokenKind) (NestingLevel : Nat) : FormatToken :=
  { Kind := Kind, NestingLevel := NestingLevel }

/-- The name of a declared variable in an example. -/
def varToken (NestingLevel : Nat) : FormatToken :=
  { Kind := TokenKind.identifier, NestingLevel := NestingLevel, isVarNameInDecl := true,
    HasSemiColonInLine := true }

/-- The `=` of an assignment to the variable that p points to. -/
def equalToken (NestingLevel p : Nat) : FormatToken :=
  { Kind := TokenKind.equal, NestingLevel := NestingLevel, HasSemiColonInLine := true,
    PreviousNonComment := some p, Previous := some p }

/-- The tokens of
    a = {c ? 1 : 2,
         bbbbbbbb = 3};
    d = 4;
The tokens between the braces have nesting level 1. -/
def nestedTokens : TokenTable :=
  [varToken 0, equalToken 0 0, mkToken TokenKind.l_brace 0,
   mkToken TokenKind.identifier 1,
   { Kind := TokenKind.question, NestingLevel := 1, TokType := TokenType.TT_ConditionalExpr },
   mkToken TokenKind.unknown 1,
   { Kind := TokenKind.colon, NestingLevel := 1, TokType := TokenType.TT_ConditionalExpr },
   mkToken TokenKind.unknown 1, mkToken TokenKind.comma 1,
   varToken 1, equalToken 1 9, mkToken TokenKind.unknown 1, mkToken TokenKind.r_brace 1,
   mkToken TokenKind.semi 0,
   varToken 0, equalToken 0 14, mkToken TokenKind.unknown 0, mkToken TokenKind.semi 0]

/-- The ledger of the three lines above, as the line breaker lays them out:
the records of `c ? 1 : 2` have ConditionalsLevel 1, `bbbbbbbb` starts the
second line in column 5, `d` the third line in column 0. -/
def nestedChanges : Changes :=
  [mkChange 0 0 1 0 1 0, mkChange 1 2 0 1 1 1, mkChange 2 4 0 1 1 3,
   { mkChange 3 5 0 0 1 5 with ConditionalsLevel := 1 },
   { mkChange 4 7 0 1 1 6 with ConditionalsLevel := 1 },
   { mkChange 5 9 0 1 1 8 with ConditionalsLevel := 1 },
   { mkChange 6 11 0 1 1 10 with ConditionalsLevel := 1 },
   { mkChange 7 13 0 1 1 12 with ConditionalsLevel := 1 },
   mkChange 8 14 0 0 1 14,
   mkChange 9 5 1 5 8 15, mkChange 10 14 0 1 1 13, mkChange 11 16 0 1 1 15,
   mkChange 12 17 0 0 1 17, mkChange 13 18 0 0 1 18,
   mkChange 14 0 1 0 1 19, mkChange 15 2 0 1 1 1, mkChange 16 4 0 1 1 3, mkChange 17 5 0 0 1 5]

/-- The manager holding the ledger above, with assignment alignment on. -/
def nestedManager : WhitespaceManager :=
  { Changes := nestedChanges, Toks := nestedTokens,
    Style := { AlignConsecutiveAssignments := true } }

/-- The tokens of
    S a = {xxx = 1,
           y = 2};
The tokens between the braces have nesting level 1. -/
def initTokens : TokenTable :=
  [mkToken TokenKind.identifier 0, varToken 0, equalToken 0 1, mkToken TokenKind.l_brace 0,
   varToken 1, equalToken 1 4, mkToken TokenKind.unknown 1, mkToken TokenKind.comma 1,
   varToken 1, equalToken 1 8, mkToken TokenKind.unknown 1, mkToken TokenKind.r_brace 1,
   mkToken TokenKind.semi 0]

/-- The ledger of the two lines above: `y` starts the second line in column
7; every record that does not start a line stands Spaces after the end of
the record before it. -/
def initChanges : Changes :=
  [mkChange 0 0 1 0 1 0, mkChange 1 2 0 1 1 1, mkChange 2 4 0 1 1 3, mkChange 3 6 0 1 1 5,
   mkChange 4 7 0 0 3 7, mkChange 5 11 0 1 1 10, mkChange 6 13 0 1 1 12, mkChange 7 14 0 0 1 14,
   mkChange 8 7 1 7 1 15, mkChange 9 9 0 1 1 8, mkChange 10 11 0 1 1 10, mkChange 11 12 0 0 1 12,
   mkChange 12 13 0 0 1 13]

/-- The tokens of the three lines `a = 1;`, an empty line, `bbb = 2;`. -/
def blankLineTokens : TokenTable :=
  [varToken 0, equalToken 0 0, mkToken TokenKind.unknown 0, mkToken TokenKind.semi 0,
   varToken 0, equalToken 0 4, mkToken TokenKind.unknown 0, mkToken TokenKind.semi 0]

/-- The ledger of `a = 1;`, an empty line, `bbb = 2;`: the record of `bbb`
has NewlinesBefore = 2. -/
def blankLineChanges : Changes :=
  [mkChange 0 0 1 0 1 0, mkChange 1 2 0 1 1 1, mkChange 2 4 0 1 1 3, mkChange 3 5 0 0 1 5,
   mkChange 4 0 2 0 3 6, mkChange 5 4 0 1 1 3, mkChange 6 6 0 1 1 5, mkChange 7 7 0 0 1 7]

/-- The manager holding the ledger above, with assignment alignment on. -/
def blankLineManager : WhitespaceManager :=
  { Changes := blankLineChanges, Toks := blankLineTokens,
    Style := { AlignConsecutiveAssignments := true } }

/-- The tokens of
    int x;
    void foo(int a,
             int b);
`foo` is the name of a function declaration; the tokens between the
parentheses have nesting level 1. -/
def declTokens : TokenTable :=
  [mkToken TokenKind.unknown 0, varToken 0, mkToken TokenKind.semi 0,
   mkToken TokenKind.unknown 0,
   { Kind := TokenKind.identifier, TokType := TokenType.TT_FunctionDeclarationName },
   mkToken TokenKind.l_paren 0,
   mkToken TokenKind.unknown 1, mkToken TokenKind.identifier 1, mkToken TokenKind.comma 1,
   mkToken TokenKind.unknown 1, mkToken TokenKind.identifier 1,
   mkToken TokenKind.r_paren 0, mkToken TokenKind.semi 0, mkToken TokenKind.eof 0]

/-- The ledger of the three lines above: `foo` stands in column 5 and the
second parameter starts its line in column 9. -/
def declChanges : Changes :=
  [mkChange 0 0 0 0 3 0, mkChange 1 4 0 1 1 3, mkChange 2 5 0 0 1 5,
   mkChange 3 0 1 0 4 6, mkChange 4 5 0 1 3 4, mkChange 5 8 0 0 1 8,
   mkChange 6 9 0 0 3 9, mkChange 7 13 0 1 1 12, mkChange 8 14 0 0 1 14,
   mkChange 9 9 1 9 3 15, mkChange 10 13 0 1 1 12,
   mkChange 11 14 0 0 1 14, mkChange 12 15 0 0 1 15, mkChange 13 0 1 0 0 16]

/-- The predicate that matches the name of a function declaration. -/
def declNameMatches : Predicate :=
  fun cs i => (declTokens.at (cs.at i).Tok).isType TokenType.TT_FunctionDeclarationName

/-- A record of an example ledger as it is created: token, original
whitespace range, column, line breaks before and spaces. -/
def mkSourceChange (Tok OriginalWhitespaceBegin OriginalWhitespaceEnd StartOfTokenColumn
    NewlinesBefore : Nat) (Spaces : Int) : Change :=
  { Tok := Tok, OriginalWhitespaceBegin := OriginalWhitespaceBegin,
    OriginalWhitespaceEnd := OriginalWhitespaceEnd, StartOfTokenColumn := StartOfTokenColumn,
    NewlinesBefore := NewlinesBefore, Spaces := Spaces }

/-- The source text
    int a[] = {
        aaa, // c1
        bbb, // c2
    };
-/
def commentedSource : List Char :=
  "int a[] = \x7b\n    aaa, // c1\n    bbb, // c2\n\x7d;\n".toList

/-- The tokens of the source text above, one unwrapped line: each token
points to the one before it and the one after it, the tokens from `{` to `}`
have LbraceCount 1, the tokens between the braces nesting level 1. -/
def commentedTokens : TokenTable :=
  [{ Kind := TokenKind.unknown, Next := some 1 },
   { Kind := TokenKind.identifier, Previous := some 0, Next := some 2 },
   { Kind := TokenKind.l_square, Previous := some 1, Next := some 3 },
   { Kind := TokenKind.r_square, Previous := some 2, Next := some 4 },
   { Kind := TokenKind.equal, Previous := some 3, Next := some 5 },
   { Kind := TokenKind.l_brace, Previous := some 4, Next := some 6, LbraceCount := 1 },
   { Kind := TokenKind.identifier, Previous := some 5, Next := some 7, LbraceCount := 1,
     NestingLevel := 1, NewlinesBefore := 1 },
   { Kind := TokenKind.comma, Previous := some 6, Next := some 8, LbraceCount := 1,
     NestingLevel := 1 },
   { Kind := TokenKind.comment, TokType := TokenType.TT_LineComment, Previous := some 7,
     Next := some 9, LbraceCount := 1, NestingLevel := 1 },
   { Kind := TokenKind.identifier, Previous := some 8, Next := some 10, LbraceCount := 1,
     NestingLevel := 1, NewlinesBefore := 1 },
   { Kind := TokenKind.comma, Previous := some 9, Next := some 11, LbraceCount := 1,
     NestingLevel := 1 },
   { Kind := TokenKind.comment, TokType := TokenType.TT_LineComment, Previous := some 10,
     Next := some 12, LbraceCount := 1, NestingLevel := 1 },
   { Kind := TokenKind.r_brace, Previous := some 11, Next := some 13, LbraceCount := 1,
     NewlinesBefore := 1 },
   { Kind := TokenKind.semi, Previous := some 12 },
   { Kind := TokenKind.eof, NewlinesBefore := 1 }]

/-- The ledger of the source text above as it is created, the text being
laid out already: every record keeps the whitespace before its token, so that
Spaces is the number of blanks before the token on its line. -/
def commentedChanges : Changes :=
  [mkSourceChange 0 0 0 0 0 0, mkSourceChange 1 3 4 4 0 1, mkSourceChange 2 5 5 5 0 0,
   mkSourceChange 3 6 6 6 0 0, mkSourceChange 4 7 8 8 0 1, mkSourceChange 5 9 10 10 0 1,
   mkSourceChange 6 11 16 4 1 4, mkSourceChange 7 19 19 7 0 0, mkSourceChange 8 20 21 9 0 1,
   mkSourceChange 9 26 31 4 1 4, mkSourceChange 10 34 34 7 0 0, mkSourceChange 11 35 36 9 0 1,
   mkSourceChange 12 41 42 0 1 0, mkSourceChange 13 43 43 1 0 0, mkSourceChange 14 44 45 0 1 0]

/-- The manager holding the ledger above, with the default style. -/
def commentedManager : WhitespaceManager :=
  { Changes := commentedChanges, Toks := commentedTokens, SourceText := commentedSource }

/-- The tokens of the three lines `int a = 1;`, `double bb = 2;`,
`char* ccc = 3;` and the end of the file. -/
def threeLineTokens : TokenTable :=
  [mkToken TokenKind.unknown 0, varToken 0, equalToken 0 1, mkToken TokenKind.unknown 0,
   mkToken TokenKind.semi 0,
   mkToken TokenKind.unknown 0, varToken 0, equalToken 0 6, mkToken TokenKind.unknown 0,
   mkToken TokenKind.semi 0,
   mkToken TokenKind.unknown 0, mkToken TokenKind.star 0, varToken 0, equalToken 0 12,
   mkToken TokenKind.unknown 0, mkToken TokenKind.semi 0,
   mkToken TokenKind.eof 0]

/-- The ledger of the three lines above: the three `=` stand in columns 6,
10 and 10. -/
def threeLineChanges : Changes :=
  [mkChange 0 0 0 0 3 0, mkChange 1 4 0 1 1 3, mkChange 2 6 0 1 1 5, mkChange 3 8 0 1 1 7,
   mkChange 4 9 0 0 1 9,
   mkChange 5 0 1 0 6 10, mkChange 6 7 0 1 2 6, mkChange 7 10 0 1 1 9, mkChange 8 12 0 1 1 11,
   mkChange 9 13 0 0 1 13,
   mkChange 10 0 1 0 4 14, mkChange 11 4 0 0 1 4, mkChange 12 6 0 1 3 5, mkChange 13 10 0 1 1 9,
   mkChange 14 12 0 1 1 11, mkChange 15 13 0 0 1 13,
   mkChange 16 0 1 0 0 14]

/-- The tokens of the line `char a = "...";`, the string literal being 70
columns wide, and the end of the file. -/
def wideTokens : TokenTable :=
  [mkToken TokenKind.unknown 0, varToken 0, mkToken TokenKind.equal 0,
   mkToken TokenKind.unknown 0, mkToken TokenKind.semi 0, mkToken TokenKind.eof 0]

/-- The ledger of the line above: `a` stands in column 5 and the line ends
in column 80. -/
def wideChanges : Changes :=
  [mkChange 0 0 0 0 4 0, mkChange 1 5 0 1 1 4, mkChange 2 7 0 1 1 6, mkChange 3 9 0 1 70 8,
   mkChange 4 79 0 0 1 79, mkChange 5 0 1 0 0 80]

/-- The manager holding the ledger above, with assignment alignment on and
both column limits at 80. -/
def wideManager : WhitespaceManager :=
  { Changes := wideChanges, Toks := wideTokens,
    Style := { AlignConsecutiveAssignments := true } }

/-- The tokens of
    int z, a = f(1,
                 2), b = 3;
    int q, ccc = 4;
and the end of the file.  The tokens between the parentheses, and the closing
parenthesis, have nesting level 1 and LparenCount 1. -/
def wrappedTokens : TokenTable :=
  [mkToken TokenKind.unknown 0, varToken 0, mkToken TokenKind.comma 0, varToken 0,
   equalToken 0 3, mkToken TokenKind.identifier 0, mkToken TokenKind.l_paren 0,
   { Kind := TokenKind.unknown, NestingLevel := 1, LparenCount := 1 },
   { Kind := TokenKind.comma, NestingLevel := 1, LparenCount := 1 },
   { Kind := TokenKind.unknown, NestingLevel := 1, LparenCount := 1 },
   { Kind := TokenKind.r_paren, NestingLevel := 1, LparenCount := 1 },
   mkToken TokenKind.comma 0, varToken 0, equalToken 0 12, mkToken TokenKind.unknown 0,
   mkToken TokenKind.semi 0,
   mkToken TokenKind.unknown 0, varToken 0, mkToken TokenKind.comma 0, varToken 0,
   equalToken 0 19, mkToken TokenKind.unknown 0, mkToken TokenKind.semi 0,
   mkToken TokenKind.eof 0]

/-- The ledger of the three lines above: the second line starts with the
argument `2` in column 13, and the three `=` stand in columns 9, 19 and
11. -/
def wrappedChanges : Changes :=
  [mkChange 0 0 0 0 3 0, mkChange 1 4 0 1 1 3, mkChange 2 5 0 0 1 5, mkChange 3 7 0 1 1 6,
   mkChange 4 9 0 1 1 8, mkChange 5 11 0 1 1 10, mkChange 6 12 0 0 1 12, mkChange 7 13 0 0 1 13,
   mkChange 8 14 0 0 1 14,
   mkChange 9 13 1 13 1 15, mkChange 10 14 0 0 1 14, mkChange 11 15 0 0 1 15,
   mkChange 12 17 0 1 1 16, mkChange 13 19 0 1 1 18, mkChange 14 21 0 1 1 20,
   mkChange 15 22 0 0 1 22,
   mkChange 16 0 1 0 3 23, mkChange 17 4 0 1 1 3, mkChange 18 5 0 0 1 5, mkChange 19 7 0 1 3 6,
   mkChange 20 11 0 1 1 10, mkChange 21 13 0 1 1 12, mkChange 22 14 0 0 1 14,
   mkChange 23 0 1 0 0 15]

/-- The tokens of the line `int x {1};` and the end of the file; the `1`
and the closing brace have nesting level 1. -/
def braceInitTokens : TokenTable :=
  [mkToken TokenKind.unknown 0, varToken 0,
   { Kind := TokenKind.l_brace, HasSemiColonInLine := true,
     isLBraceOfConstexprOrVarDelcOrDef := true, Previous := some 1, PreviousNonComment := some 1 },
   mkToken TokenKind.unknown 1, mkToken TokenKind.r_brace 1, mkToken TokenKind.semi 0,
   mkToken TokenKind.eof 0]

/-- The ledger of the line above: the opening brace stands in column 6. -/
def braceInitChanges : Changes :=
  [mkChange 0 0 0 0 3 0, mkChange 1 4 0 1 1 3, mkChange 2 6 0 1 1 5, mkChange 3 7 0 0 1 7,
   mkChange 4 8 0 0 1 8, mkChange 5 9 0 0 1 9, mkChange 6 0 1 0 0 10]

/-- The manager holding the ledger above, with assignment alignment on. -/
def braceInitManager : WhitespaceManager :=
  { Changes := braceInitChanges, Toks := braceInitTokens,
    Style := { AlignConsecutiveAssignments := true } }

/-- The tokens of the line `using Ab = int;` and the end of the file. -/
def usingTokens : TokenTable :=
  [{ Kind := TokenKind.kw_using, MyLine := some 0 },
   { Kind := TokenKind.identifier, MyLine := some 0, Previous := some 0,
     PreviousNonComment := some 0 },
   { Kind := TokenKind.equal, MyLine := some 0, Previous := some 1, PreviousNonComment := some 1,
     HasSemiColonInLine := true },
   { Kind := TokenKind.unknown, MyLine := some 0, Previous := some 2,
     PreviousNonComment := some 2 },
   { Kind := TokenKind.semi, MyLine := some 0, Previous := some 3, PreviousNonComment := some 3 },
   mkToken TokenKind.eof 0]

/-- The ledger of the line above: the `=` stands in column 9. -/
def usingChanges : Changes :=
  [mkChange 0 0 0 0 5 0, mkChange 1 6 0 1 2 5, mkChange 2 9 0 1 1 8, mkChange 3 11 0 1 3 10,
   mkChange 4 14 0 0 1 14, mkChange 5 0 1 0 0 15]

/-- The manager holding the ledger above, with assignment alignment on and
an indent width of 8. -/
def usingManager : WhitespaceManager :=
  { Changes := usingChanges, Toks := usingTokens, Lines := [{ First := some 0 }],
    Style := { AlignConsecutiveAssignments := true, IndentWidth := 8 } }

/-- The source text of two line comments,
    // line 1
    // line 2
-/
def reflowSource : List Char := "// line 1\n// line 2\n".toList

/-- The tokens of the source text above: the two comments and the end of the
file. -/
def reflowTokens : TokenTable :=
  [{ Kind := TokenKind.comment, TokType := TokenType.TT_LineComment, Next := some 1 },
   { Kind := TokenKind.comment, TokType := TokenType.TT_LineComment, Previous := some 0,
     Next := some 2 },
   { Kind := TokenKind.eof, Previous := some 1, NewlinesBefore := 1 }]

/-- The ledger after the second comment was reflowed up into the line of the
first, `// line 1(\n)[// ]line 2` in the notation of the source: the record of
the first comment, the record of the whitespace between the two comments,
which now holds no line break, the inside-token record that replaces the
`// ` of the second comment by one blank, and the record of the end of the
file. -/
def reflowChanges : Changes :=
  [mkSourceChange 0 0 0 0 0 0,
   mkSourceChange 1 9 10 9 0 0,
   { mkSourceChange 1 10 13 1 0 1 with IsInsideToken := true, IsAligned := true },
   mkSourceChange 2 19 20 0 1 0]

/-- The manager holding the ledger above. -/
def reflowManager : WhitespaceManager :=
  { Changes := reflowChanges, Toks := reflowTokens, SourceText := reflowSource }

/-- The tokens of `a = c ? 1 : d ? 2 : 3;` and the end of the file.  The
assignment opens a fake parenthesis at `a`, the outer conditional one at `c`,
the chained conditional one at `d`, directly after the colon of the outer
conditional; the three are closed at `3`. -/
def chainedTokens : TokenTable :=
  [{ Kind := TokenKind.identifier, Next := some 1, FakeLParens := [Prec.Other] },
   { Kind := TokenKind.equal, Previous := some 0, Next := some 2 },
   { Kind := TokenKind.identifier, Previous := some 1, Next := some 3,
     FakeLParens := [Prec.Conditional] },
   { Kind := TokenKind.question, TokType := TokenType.TT_ConditionalExpr, Previous := some 2,
     Next := some 4 },
   { Kind := TokenKind.unknown, Previous := some 3, Next := some 5 },
   { Kind := TokenKind.colon, TokType := TokenType.TT_ConditionalExpr, Previous := some 4,
     Next := some 6 },
   { Kind := TokenKind.identifier, Previous := some 5, Next := some 7,
     FakeLParens := [Prec.Conditional] },
   { Kind := TokenKind.question, TokType := TokenType.TT_ConditionalExpr, Previous := some 6,
     Next := some 8 },
   { Kind := TokenKind.unknown, Previous := some 7, Next := some 9 },
   { Kind := TokenKind.colon, TokType := TokenType.TT_ConditionalExpr, Previous := some 8,
     Next := some 10 },
   { Kind := TokenKind.unknown, Previous := some 9, Next := some 11, FakeRParens := 3 },
   { Kind := TokenKind.semi, Previous := some 10 },
   { Kind := TokenKind.eof, NewlinesBefore := 1 }]

/-- The ledger of the line above as it is created. -/
def chainedChanges : Changes :=
  [mkSourceChange 0 0 0 0 0 0, mkSourceChange 1 1 2 2 0 1, mkSourceChange 2 3 4 4 0 1,
   mkSourceChange 3 5 6 6 0 1, mkSourceChange 4 7 8 8 0 1, mkSourceChange 5 9 10 10 0 1,
   mkSourceChange 6 11 12 12 0 1, mkSourceChange 7 13 14 14 0 1, mkSourceChange 8 15 16 16 0 1,
   mkSourceChange 9 17 18 18 0 1, mkSourceChange 10 19 20 20 0 1, mkSourceChange 11 21 21 21 0 0,
   mkSourceChange 12 22 23 0 1 0]

/-- The manager holding the ledger above. -/
def chainedManager : WhitespaceManager :=
  { Changes := chainedChanges, Toks := chainedTokens,
    SourceText := "a = c ? 1 : d ? 2 : 3;\n".toList }

/-- The source text of a macro whose body is continued on a second line,
    #define F \
        x
-/
def macroSource : List Char := "#define F \\\n    x\n".toList

/-- The tokens of the source text above and the end of the file. -/
def macroTokens : TokenTable :=
  [{ Kind := TokenKind.unknown, Next := some 1 },
   { Kind := TokenKind.pp_define, Previous := some 0, Next := some 2 },
   { Kind := TokenKind.identifier, Previous := some 1, Next := some 3 },
   { Kind := TokenKind.identifier, Previous := some 2, NewlinesBefore := 1 },
   { Kind := TokenKind.eof, NewlinesBefore := 1 }]

/-- The ledger of the source text above after the passes: the record of `x`
continues the directive, starts a line with 4 spaces, follows a token that
ends in column 9, and has its backslash aligned for column 12. -/
def macroChanges : Changes :=
  [mkSourceChange 0 0 0 0 0 0,
   { mkSourceChange 1 1 1 1 0 0 with ContinuesPPDirective := true, PreviousEndOfTokenColumn := 1 },
   { mkSourceChange 2 7 8 8 0 1 with ContinuesPPDirective := true, PreviousEndOfTokenColumn := 7 },
   { mkSourceChange 3 9 16 4 1 4 with
     ContinuesPPDirective := true, PreviousEndOfTokenColumn := 9, EscapedNewlineColumn := 12 },
   { mkSourceChange 4 17 18 0 1 0 with PreviousEndOfTokenColumn := 5 }]

/-- The manager holding the ledger above. -/
def macroManager : WhitespaceManager :=
  { Changes := macroChanges, Toks := macroTokens, SourceText := macroSource }

/-- The tokens of the two lines `using Ab = int;` and `using Abcd = long;`
and the end of the file. -/
def usingPairTokens : TokenTable :=
  [{ Kind := TokenKind.kw_using, MyLine := some 0 },
   { Kind := TokenKind.identifier, MyLine := some 0, Previous := some 0,
     PreviousNonComment := some 0 },
   { Kind := TokenKind.equal, MyLine := some 0, Previous := some 1, PreviousNonComment := some 1,
     HasSemiColonInLine := true },
   { Kind := TokenKind.unknown, MyLine := some 0, Previous := some 2,
     PreviousNonComment := some 2 },
   { Kind := TokenKind.semi, MyLine := some 0, Previous := some 3, PreviousNonComment := some 3 },
   { Kind := TokenKind.kw_using, MyLine := some 1 },
   { Kind := TokenKind.identifier, MyLine := some 1, Previous := some 5,
     PreviousNonComment := some 5 },
   { Kind := TokenKind.equal, MyLine := some 1, Previous := some 6, PreviousNonComment := some 6,
     HasSemiColonInLine := true },
   { Kind := TokenKind.unknown, MyLine := some 1, Previous := some 7,
     PreviousNonComment := some 7 },
   { Kind := TokenKind.semi, MyLine := some 1, Previous := some 8, PreviousNonComment := some 8 },
   mkToken TokenKind.eof 0]

/-- The annotated lines of the two lines above. -/
def usingPairLines : List AnnotatedLine := [{ First := some 0 }, { First := some 5 }]

/-- The ledger of the two lines above: the two `=` stand in columns 9 and
11. -/
def usingPairChanges : Changes :=
  [mkChange 0 0 0 0 5 0, mkChange 1 6 0 1 2 5, mkChange 2 9 0 1 1 8, mkChange 3 11 0 1 3 10,
   mkChange 4 14 0 0 1 14,
   mkChange 5 0 1 0 5 15, mkChange 6 6 0 1 4 5, mkChange 7 11 0 1 1 10, mkChange 8 13 0 1 4 12,
   mkChange 9 17 0 0 1 17,
   mkChange 10 0 1 0 0 18]

/-- The policy of the campaign alignConsecutiveAssignementsOnUsing (lines 834
to 839). -/
def usingPolicy : Tally.Policy :=
  { IgnoreScope := false, IgnoreCommas := false, MaxNewlinesBeforeSectionBreak := 2,
    NonMatchingLineBreaksSection := true, AllowBeyondColumnLimitForAlignment := true,
    MaxLeadingSpacesForAlignment := UINT_MAX, ForceAlignToFourSpaces := true }

end ClangFormat

namespace ClangFormat

/-! ## MissingNotBraces (clang/tools/clang-format/ClangFormat.cpp)

The function scans a buffer that ends in the terminator '\0'.  A read of
`data[idx]` before the buffer or after the terminator lies outside the
buffer; the embedding stops there with the outcome `outside`. -/

/-- The terminator of the buffer. -/
def nulChar : Char := Char.ofNat 0

/-- The constant doustr, the double quote. -/
def doustr : Char := Char.ofNat 34

/-- The constant sinstr, the single quote. -/
def sinstr : Char := Char.ofNat 39

/-- The value of a character of the buffer in the C++ type char, which is
signed on the platforms of the tool: the codes from 128 on are negative. -/
def charValue (c : Char) : Int :=
  if c.toNat % 256 < 128 then ((c.toNat % 256 : Nat) : Int)
  else ((c.toNat % 256 : Nat) : Int) - 256

/-- Read of `data[idx]`: the characters of the buffer are followed by the
terminator; an index before the buffer or after the terminator gives none. -/
def readData (data : List Char) (idx : Int) : Option Char :=
  if idx < 0 then none
  else if idx.toNat < data.length then some (data.getD idx.toNat nulChar)
  else if idx.toNat = data.length then some nulChar
  else none

/-- The loop in which the scan stands: the loop over the buffer (line 429),
the loop that skips a `//` comment (line 438), or the loop that skips a
block comment (line 445). -/
inductive ScanLoop where
  | main | lineComment | blockComment
  deriving DecidableEq, Repr

/-- The local variables of MissingNotBraces; the top of the stack braces is
the head of the list. -/
structure BraceScan where
  loop : ScanLoop := ScanLoop.main
  idx : Nat := 0
  instr : Bool := false
  dblstrcnt : Int := 0
  sglstrcnt : Int := 0
  braces : List Char := []
  deriving DecidableEq, Repr

/-- What one iteration of a loop of MissingNotBraces leads to: the next
iteration, a return, or a read outside the buffer. -/
inductive ScanStep where
  | goOn (s : BraceScan)
  | returned (b : Bool)
  | outside
  deriving DecidableEq, Repr

/-- The outcome of MissingNotBraces: the value returned, a read outside the
buffer, or a scan that the bound on the iterations has cut off. -/
inductive ScanResult where
  | returned (b : Bool)
  | outside
  | unfinished
  deriving DecidableEq, Repr

/-- The three tests `(ch == r_curly) && (val == l_curly)`, `(ch == r_square)
&& (val == l_square)`, `(ch == r_curve) && (val == l_curve)` (lines 529 to
534). -/
def closesBrace (ch val : Char) : Bool :=
  (decide (ch = '}') && decide (val = '{')) || (decide (ch = ']') && decide (val = '[')) ||
    (decide (ch = ')') && decide (val = '('))

/-- The test before a single quote (lines 478 and 479),
`pidx && (data[pidx] >= '0' && data[pidx] <= '9') || ((data[pidx] >= 'A' ||
data[pidx] >= 'a') && (data[pidx] <= 'F' || data[pidx] >= 'f'))`, for the
value v of data[pidx]. -/
def afterDigit (pidx v : Int) : Bool :=
  (decide (pidx ≠ 0) && (decide (v ≥ 48) && decide (v ≤ 57))) ||
    ((decide (v ≥ 65) || decide (v ≥ 97)) && (decide (v ≤ 70) || decide (v ≥ 102)))

/-- The statements of the main loop from the test of the quotes on (lines
460 to 538), for the character ch at index s.idx. -/
def scanCharacter (data : List Char) (s : BraceScan) (ch : Char) : ScanStep :=
  if ch = doustr ∨ ch = sinstr then
    if ch = doustr then
      let s1 : BraceScan :=
        if s.dblstrcnt = 0 then
          if s.sglstrcnt = 0 then { s with dblstrcnt := s.dblstrcnt + 1, instr := !s.instr }
          else s
        else { s with dblstrcnt := s.dblstrcnt - 1, instr := !s.instr }
      ScanStep.goOn { s1 with idx := s1.idx + 1 }
    else
      match readData data ((s.idx : Int) - 1) with
      | none => ScanStep.outside
      | some p =>
        if afterDigit ((s.idx : Int) - 1) (charValue p) then
          ScanStep.goOn { s with idx := s.idx + 1 }
        else
          let s1 : BraceScan :=
            if s.dblstrcnt = 0 then
              if s.sglstrcnt = 0 then { s with sglstrcnt := s.sglstrcnt + 1, instr := !s.instr }
              else { s with sglstrcnt := s.sglstrcnt - 1, instr := !s.instr }
            else s
          ScanStep.goOn { s1 with idx := s1.idx + 1 }
  else if s.instr then ScanStep.goOn { s with idx := s.idx + 1 }
  else if ch = '{' ∨ ch = '[' ∨ ch = '(' then
    ScanStep.goOn { s with braces := ch :: s.braces, idx := s.idx + 1 }
  else if ch = '}' ∨ ch = ']' ∨ ch = ')' then
    match s.braces with
    | [] => ScanStep.returned false
    | val :: rest =>
      if closesBrace ch val then ScanStep.goOn { s with braces := rest, idx := s.idx + 1 }
      else ScanStep.returned false
  else ScanStep.goOn { s with idx := s.idx + 1 }

/-- One iteration of the loop `while (data[idx] != '\0')` (lines 429 to
539).  When the test of the loop fails, the function returns whether braces
is empty (lines 541 to 544). -/
def mainStep (data : List Char) (s : BraceScan) : ScanStep :=
  match readData data s.idx with
  | none => ScanStep.outside
  | some c0 =>
    if c0 = nulChar then ScanStep.returned s.braces.isEmpty
    else if !s.instr && decide (c0 = '/') then
      match readData data ((s.idx : Int) + 1) with
      | none => ScanStep.outside
      | some c1 =>
        if c1 = '/' then ScanStep.goOn { s with loop := ScanLoop.lineComment, idx := s.idx + 1 }
        else if c1 = '*' then
          ScanStep.goOn { s with loop := ScanLoop.blockComment, idx := s.idx + 2 }
        else scanCharacter data { s with idx := s.idx + 1 } c1
    else scanCharacter data s c0

/-- One iteration of the loop `while (data[++idx] != '\n' && data[idx] !=
'\0')` (line 438); when its test fails, the main loop continues at the index
reached. -/
def lineCommentStep (data : List Char) (s : BraceScan) : ScanStep :=
  match readData data ((s.idx : Int) + 1) with
  | none => ScanStep.outside
  | some c =>
    if c ≠ '\n' ∧ c ≠ nulChar then ScanStep.goOn { s with idx := s.idx + 1 }
    else ScanStep.goOn { s with loop := ScanLoop.main, idx := s.idx + 1 }

/-- One iteration of the loop over a block comment (lines 445 to 450).  At
the terminator the loop ends and the main loop is left (lines 451 and 452),
so the function returns whether braces is empty; at `*` the next character
is read and the index moves on by two, into the main loop if that character
is `/` (lines 446 to 449, 454 and 455). -/
def blockCommentStep (data : List Char) (s : BraceScan) : ScanStep :=
  match readData data s.idx with
  | none => ScanStep.outside
  | some c =>
    if c = nulChar then ScanStep.returned s.braces.isEmpty
    else if c = '*' then
      match readData data ((s.idx : Int) + 1) with
      | none => ScanStep.outside
      | some d =>
        if d = '/' then ScanStep.goOn { s with loop := ScanLoop.main, idx := s.idx + 2 }
        else ScanStep.goOn { s with idx := s.idx + 2 }
    else ScanStep.goOn { s with idx := s.idx + 1 }

/-- One iteration of the loop in which the scan stands. -/
def scanStep (data : List Char) (s : BraceScan) : ScanStep :=
  match s.loop with
  | ScanLoop.main => mainStep data s
  | ScanLoop.lineComment => lineCommentStep data s
  | ScanLoop.blockComment => blockCommentStep data s

/-- The iterations of the loops of MissingNotBraces, at most as many as the
first argument says. -/
def scanBraces (data : List Char) : Nat → BraceScan → ScanResult
  | 0, _ => ScanResult.unfinished
  | fuel + 1, s =>
    match scanStep data s with
    | ScanStep.goOn s1 => scanBraces data fuel s1
    | ScanStep.returned b => ScanResult.returned b
    | ScanStep.outside => ScanResult.outside

/-- The function MissingNotBraces (lines 406 to 545) on the characters of
the buffer.  Every iteration moves the index on, so the scan ends within
size + 2 iterations. -/
def MissingNotBraces (BufStr : List Char) : ScanResult :=
  scanBraces BufStr (BufStr.length + 2) {}

end ClangFormat

namespace ClangFormat

/-! ## Notions used in the statements about the comment and newline passes -/

/-- The text of escaped line breaks as the specification words it: nothing
for no line break; for the first line break max(1, EscapedNewlineColumn -
PreviousEndOfTokenColumn - 1) spaces, a backslash and a line break; for each
further line break max(0, EscapedNewlineColumn - 1) spaces, a backslash and a
line break. -/
def escapedNewlinesAsStated (W : WhitespaceManager)
    (Newlines PreviousEndOfTokenColumn EscapedNewlineColumn : Nat) : List Char :=
  if Newlines = 0 then []
  else
    List.replicate (max 1 ((EscapedNewlineColumn : Int) - PreviousEndOfTokenColumn - 1)).toNat ' ' ++
      ('\\' :: W.lineBreak) ++
      (List.replicate (Newlines - 1)
        (List.replicate (max 0 ((EscapedNewlineColumn : Int) - 1)).toNat ' ' ++
          ('\\' :: W.lineBreak))).flatten

/-- A record that starts a line and does not continue a preprocessor
directive: the loop of alignEscapedNewlines() ends a macro at such a record
(lines 1941 to 1946). -/
def endsMacro (cs : Changes) (i : Nat) : Bool :=
  decide ((Changes.at cs i).NewlinesBefore > 0) && !(Changes.at cs i).ContinuesPPDirective

/-- The records strictly between a and e are one macro: a maximal run of
records in which every line-starting record continues the preprocessor
directive.  The run begins after record 0 or after a line-starting record
that continues no directive, and it ends at the end of the ledger or before
the next such record. -/
structure IsMacro (cs : Changes) (a e : Nat) : Prop where
  lt : a < e
  le : e ≤ cs.length
  first : a = 0 ∨ endsMacro cs a = true
  last : e = cs.length ∨ endsMacro cs e = true
  inner : ∀ j, a < j → j < e → endsMacro cs j = false

/-- The largest PreviousEndOfTokenColumn + 2 among the line-starting records
strictly between a and e that continue a preprocessor directive; 0 if there
is none. -/
def largestEndOfLine (cs : Changes) (a e : Nat) : Nat :=
  (List.range' (a + 1) (e - (a + 1))).foldl
    (fun m k =>
      if decide ((Changes.at cs k).NewlinesBefore > 0) && (Changes.at cs k).ContinuesPPDirective
      then max ((Changes.at cs k).PreviousEndOfTokenColumn + 2) m else m) 0

/-- The column of the escaped newlines of a macro as the specification
states it: with left alignment the largest PreviousEndOfTokenColumn + 2 among
the line-starting records of the macro, with right alignment the larger of
that value and Style.ColumnLimit. -/
def macroColumn (Style : FormatStyle) (cs : Changes) (a e : Nat) : Nat :=
  if Style.AlignEscapedNewlines = EscapedNewlineAlignmentStyle.ENAS_Left then
    largestEndOfLine cs a e
  else max (largestEndOfLine cs a e) Style.ColumnLimit

/-- Every PreviousEndOfTokenColumn + 2 of the ledger is a value of the type
unsigned. -/
def endColumnsFit (cs : Changes) : Bool :=
  cs.all (fun c => decide (c.PreviousEndOfTokenColumn + 2 < 4294967296))

/-- The value that alignEscapedNewlines(Start, End, Column) writes to the
EscapedNewlineColumn of a line-starting record (lines 1959 to 1962). -/
def escapedColumnOf (Column : Nat) (c : Change) : Nat :=
  if toUnsigned ((c.PreviousEndOfTokenColumn : Int) + 1) > Column then 0 else Column

/-- The state of the loop of alignEscapedNewlines() on entry to index i:
the records keep their line breaks and end columns, no assertion has failed,
no macro ends between StartOfMacro and i, MaxEndOfLine is the column of the
records seen since StartOfMacro, and the macros that ended before have their
columns. -/
structure EscapedAt (Style : FormatStyle) (cs : Changes) (s : EscapedState) (i : Nat) : Prop where
  length : s.Changes.length = cs.length
  newlines : ∀ k, (Changes.at s.Changes k).NewlinesBefore = (Changes.at cs k).NewlinesBefore
  continues : ∀ k, (Changes.at s.Changes k).ContinuesPPDirective =
    (Changes.at cs k).ContinuesPPDirective
  previous : ∀ k, (Changes.at s.Changes k).PreviousEndOfTokenColumn =
    (Changes.at cs k).PreviousEndOfTokenColumn
  asserts : s.AssertsHeld = true
  start : s.StartOfMacro < i
  first : s.StartOfMacro = 0 ∨ endsMacro cs s.StartOfMacro = true
  inner : ∀ j, s.StartOfMacro < j → j < i → endsMacro cs j = false
  maxEnd : s.MaxEndOfLine = max (largestEndOfLine cs s.StartOfMacro i)
    (if Style.AlignEscapedNewlines = EscapedNewlineAlignmentStyle.ENAS_Left then 0
     else Style.ColumnLimit)
  finished : ∀ a e, IsMacro cs a e → e ≤ s.StartOfMacro → ∀ k, a < k → k < e →
    (Changes.at cs k).NewlinesBefore > 0 →
    (Changes.at s.Changes k).EscapedNewlineColumn = macroColumn Style cs a e

/-- No record of the ledger has a block-comment start. -/
def noBlockCommentStart (cs : Changes) : Bool :=
  cs.all (fun c => decide (c.StartOfBlockComment = none))

/-- The state of the loop of alignTrailingComments() at index i when
AlignTrailingComments is off: nothing has been written, and a trailing
comment of the pending range stands in the column MinColumn. -/
structure TrailingOffAt (cs : Changes) (s : TrailingState) (i : Nat) : Prop where
  changes : s.Changes = cs
  asserts : s.AssertsHeld = true
  only : ∀ k, s.StartOfSequence ≤ k → k < i → (Changes.at cs k).IsTrailingComment = true →
    s.MinColumn = (Changes.at cs k).StartOfTokenColumn

/-! ## Notions used in the statements about the columnarize passes -/

/-- The token with the recorded size cleared: the only member of a token
that columnarizeIdentifierTokens writes. -/
def FormatToken.sizeless (t : FormatToken) : FormatToken :=
  { t with PrevTokenSizeForColumnarization := 0 }

/-- The manager W1 differs from W at most in what the loop of
columnarizeIdentifierTokens writes: Spaces and StartOfTokenColumn of records,
the recorded sizes of tokens, and the accumulators other than
MaxDatatypeLen. -/
structure IdentifierFrame (W W1 : WhitespaceManager) : Prop where
  length : W1.Changes.length = W.Changes.length
  tok : ∀ k, (Changes.at W1.Changes k).Tok = (Changes.at W.Changes k).Tok
  toks : ∀ p, (W1.Toks.at p).sizeless = (W.Toks.at p).sizeless
  style : W1.Style = W.Style
  maxDatatypeLen : W1.MaxDatatypeLen = W.MaxDatatypeLen

/-- The manager when the loop of columnarizeIdentifierTokens reaches index
i. -/
def identifierStateAt (W : WhitespaceManager) (i : Nat) : WhitespaceManager :=
  (List.range i).foldl
    (identifierStep (1 + padIncrements W.Style.TabWidth (W.MaxDatatypeLen + 1))) W

/-- The record of the token p is given pad + lenDiff spaces by the loop of
columnarizeIdentifierTokens (lines 1462 to 1479): the token is not passed
over, it is the name of a member variable, and it does not stand directly
after a left brace with a next token that is no comment. -/
def padsMemberName (T : TokenTable) (p : Nat) : Bool :=
  !passedOver T (T.at p) && (T.at p).isMemberVarNameInDecl && !afterLeftBrace T (T.at p)

/-! ## Notions used in the statements about lines without a match -/

/-- Every matching record that does not start a line is the first matching
record of its line. -/
def matchesFirstOnLine (M : Predicate) (cs : Changes) : Bool :=
  (List.range cs.length).all (fun i =>
    !M cs i || decide ((Changes.at cs i).NewlinesBefore ≠ 0) || decide (matchesSeen M cs i = 0))

/-! ## Notions used in the statements about MissingNotBraces -/

/-- The lexical place of a character of a source text: in code, after a `/`
in code, in a `//` comment, in a block comment, after a `*` in a block
comment, in a string literal or after a backslash in it, in a character
literal or after a backslash in it. -/
inductive Lexical where
  | code | slash | lineComment | blockComment | blockStar
  | stringLiteral | stringEscape | charLiteral | charEscape
  deriving DecidableEq, Repr

/-- The characters of a source text that lie outside `//` comments, `/* */`
comments, string literals and character literals, in their order; inside a
literal a backslash takes the next character with it. -/
def outsideCommentsAndLiterals : Lexical → List Char → List Char
  | Lexical.slash, [] => ['/']
  | _, [] => []
  | Lexical.code, c :: rest =>
    if c = '/' then outsideCommentsAndLiterals Lexical.slash rest
    else if c = doustr then outsideCommentsAndLiterals Lexical.stringLiteral rest
    else if c = sinstr then outsideCommentsAndLiterals Lexical.charLiteral rest
    else c :: outsideCommentsAndLiterals Lexical.code rest
  | Lexical.slash, c :: rest =>
    if c = '/' then outsideCommentsAndLiterals Lexical.lineComment rest
    else if c = '*' then outsideCommentsAndLiterals Lexical.blockComment rest
    else if c = doustr then '/' :: outsideCommentsAndLiterals Lexical.stringLiteral rest
    else if c = sinstr then '/' :: outsideCommentsAndLiterals Lexical.charLiteral rest
    else '/' :: c :: outsideCommentsAndLiterals Lexical.code rest
  | Lexical.lineComment, c :: rest =>
    if c = '\n' then c :: outsideCommentsAndLiterals Lexical.code rest
    else outsideCommentsAndLiterals Lexical.lineComment rest
  | Lexical.blockComment, c :: rest =>
    if c = '*' then outsideCommentsAndLiterals Lexical.blockStar rest
    else outsideCommentsAndLiterals Lexical.blockComment rest
  | Lexical.blockStar, c :: rest =>
    if c = '/' then outsideCommentsAndLiterals Lexical.code rest
    else if c = '*' then outsideCommentsAndLiterals Lexical.blockStar rest
    else outsideCommentsAndLiterals Lexical.blockComment rest
  | Lexical.stringLiteral, c :: rest =>
    if c = '\\' then outsideCommentsAndLiterals Lexical.stringEscape rest
    else if c = doustr then outsideCommentsAndLiterals Lexical.code rest
    else outsideCommentsAndLiterals Lexical.stringLiteral rest
  | Lexical.stringEscape, _ :: rest => outsideCommentsAndLiterals Lexical.stringLiteral rest
  | Lexical.charLiteral, c :: rest =>
    if c = '\\' then outsideCommentsAndLiterals Lexical.charEscape rest
    else if c = sinstr then outsideCommentsAndLiterals Lexical.code rest
    else outsideCommentsAndLiterals Lexical.charLiteral rest
  | Lexical.charEscape, _ :: rest => outsideCommentsAndLiterals Lexical.charLiteral rest

/-- The curly, round and square brackets of a text are balanced and properly
nested: every closing bracket matches the most recent unclosed opening
bracket of the same kind, and none is left open at the end.  The first
argument holds the unclosed opening brackets, the most recent one first. -/
def bracketsNested : List Char → List Char → Bool
  | stack, [] => stack.isEmpty
  | stack, c :: rest =>
    if c = '{' ∨ c = '[' ∨ c = '(' then bracketsNested (c :: stack) rest
    else if c = '}' ∨ c = ']' ∨ c = ')' then
      match stack with
      | o :: below => closesBrace c o && bracketsNested below rest
      | [] => false
    else bracketsNested stack rest

/-- A character that is no slash, no quote and not the terminator. -/
def plainChar (c : Char) : Bool :=
  decide (c ≠ '/') && decide (c ≠ doustr) && decide (c ≠ sinstr) && decide (c ≠ nulChar)

/-- The property that the specification states for MissingNotBraces: the
brackets of the buffer outside comments and literals are balanced and
properly nested. -/
def balancedOutsideCommentsAndLiterals (BufStr : List Char) : Bool :=
  bracketsNested [] (outsideCommentsAndLiterals Lexical.code BufStr)

end ClangFormat

namespace ClangFormat

/-! ## Example ledgers for the passes behind switches -/

/-- The tokens of the two lines `int a : 1;` and `int bbb : 2;`. -/
def bitFieldTokens : TokenTable :=
  [ mkToken TokenKind.identifier 0, mkToken TokenKind.identifier 0,
    { Kind := TokenKind.colon, TokType := TokenType.TT_BitFieldColon },
    mkToken TokenKind.unknown 0, mkToken TokenKind.semi 0,
    mkToken TokenKind.identifier 0, mkToken TokenKind.identifier 0,
    { Kind := TokenKind.colon, TokType := TokenType.TT_BitFieldColon },
    mkToken TokenKind.unknown 0, mkToken TokenKind.semi 0 ]

/-- The ledger of the two lines `int a : 1;` and `int bbb : 2;`: the colons
are the records 2 and 7, in columns 6 and 8. -/
def bitFieldChanges : Changes :=
  [mkChange 0 0 0 0 3 0, mkChange 1 4 0 1 1 3, mkChange 2 6 0 1 1 5, mkChange 3 8 0 1 1 7,
   mkChange 4 9 0 0 1 9,
   mkChange 5 0 1 0 3 10, mkChange 6 4 0 1 3 3, mkChange 7 8 0 1 1 7, mkChange 8 10 0 1 1 9,
   mkChange 9 11 0 0 1 11]

/-- The manager holding the ledger above, with the style in which every
alignment switch is off. -/
def bitFieldManager : WhitespaceManager :=
  { Changes := bitFieldChanges, Toks := bitFieldTokens }

/-- The ledger of
    #define A x \
        yy \
        z
    int q;
the records of `yy` and `z` start a line and continue the directive; the
line of `#define A x` ends in column 11, the line of `yy` in column 6. -/
def escapedChanges : Changes :=
  [mkChange 0 0 0 0 1 0, mkChange 1 1 0 0 6 1, mkChange 2 8 0 1 1 7, mkChange 3 10 0 1 1 9,
   { mkChange 4 4 1 4 2 11 with ContinuesPPDirective := true },
   { mkChange 5 4 1 4 1 6 with ContinuesPPDirective := true },
   mkChange 6 0 1 0 3 5, mkChange 7 4 0 1 1 3, mkChange 8 5 0 0 1 5]

/-- The manager holding the ledger above, with escaped newlines aligned to
the left. -/
def escapedManager : WhitespaceManager :=
  { Changes := escapedChanges
    Style := { AlignEscapedNewlines := EscapedNewlineAlignmentStyle.ENAS_Left } }

/-- The ledger of the two lines `a; // x` and `bbb; // y`: the trailing
comments are the records 2 and 5, in columns 3 and 5. -/
def trailingChanges : Changes :=
  [mkChange 0 0 0 0 1 0, mkChange 1 1 0 0 1 1,
   { mkChange 2 3 0 1 4 2 with IsTrailingComment := true },
   mkChange 3 0 1 0 3 7, mkChange 4 3 0 0 1 3,
   { mkChange 5 5 0 1 4 4 with IsTrailingComment := true }]

/-- The tokens of the two lines `a; // x` and `bbb; // y`. -/
def trailingTokens : TokenTable :=
  [mkToken TokenKind.identifier 0, mkToken TokenKind.semi 0, mkToken TokenKind.comment 0,
   mkToken TokenKind.identifier 0, mkToken TokenKind.semi 0, mkToken TokenKind.comment 0]

/-- The manager holding the ledger above, with AlignTrailingComments off. -/
def trailingManager : WhitespaceManager :=
  { Changes := trailingChanges, Toks := trailingTokens }

/-! ## Example ledgers for the Tally AlignTokens -/

/-- The ledger of the two lines `int x;` and `    yyy = 1;`: record 3, the
name `yyy`, starts its line with 4 spaces; the rest of its line, the name
included, is 8 columns long. -/
def lineStartChanges : Changes :=
  [mkChange 0 0 0 0 3 0, mkChange 1 4 0 1 1 3, mkChange 2 5 0 0 1 5,
   mkChange 3 4 1 4 3 6, mkChange 4 8 0 1 1 7, mkChange 5 10 0 1 1 9, mkChange 6 11 0 0 1 11]

/-- The tokens of the two lines `int x;` and `    yyy = 1;`; the name `yyy`
is a scoped variable name of a declaration that ends in a semicolon. -/
def lineStartTokens : TokenTable :=
  [mkToken TokenKind.identifier 0, mkToken TokenKind.identifier 0, mkToken TokenKind.semi 0,
   { Kind := TokenKind.identifier, isScopedVarNameInDecl := true, HasSemiColonInLine := true },
   mkToken TokenKind.equal 0, mkToken TokenKind.unknown 0, mkToken TokenKind.semi 0]

/-- The `=` of an assignment to a variable without datatype, in a line that
ends in a semicolon. -/
def plainEqualToken : FormatToken :=
  { Kind := TokenKind.equal, HasSemiColonInLine := true,
    isPrevBeforeInterimsVarWithoutDatatype := true }

/-- The tokens of the three lines `a = 1;`, `bbbbbbbbbbb = 2;` and
`ccccccccccccccccccccc = 3;`. -/
def stepwiseTokens : TokenTable :=
  [mkToken TokenKind.identifier 0, plainEqualToken, mkToken TokenKind.unknown 0,
   mkToken TokenKind.semi 0,
   mkToken TokenKind.identifier 0, plainEqualToken, mkToken TokenKind.unknown 0,
   mkToken TokenKind.semi 0,
   mkToken TokenKind.identifier 0, plainEqualToken, mkToken TokenKind.unknown 0,
   mkToken TokenKind.semi 0]

/-- The ledger of the three lines `a = 1;`, `bbbbbbbbbbb = 2;` and
`ccccccccccccccccccccc = 3;`: the `=` are the records 1, 5 and 9, in columns
2, 12 and 22. -/
def stepwiseChanges : Changes :=
  [mkChange 0 0 0 0 1 0, mkChange 1 2 0 1 1 1, mkChange 2 4 0 1 1 3, mkChange 3 5 0 0 1 5,
   mkChange 4 0 1 0 11 6, mkChange 5 12 0 1 1 11, mkChange 6 14 0 1 1 13,
   mkChange 7 15 0 0 1 15,
   mkChange 8 0 1 0 21 16, mkChange 9 22 0 1 1 21, mkChange 10 24 0 1 1 23,
   mkChange 11 25 0 0 1 25]

/-- The manager holding the ledger above, with assignment alignment on. -/
def stepwiseManager : WhitespaceManager :=
  { Changes := stepwiseChanges, Toks := stepwiseTokens,
    Style := { AlignConsecutiveAssignments := true } }

/-- The policy of the campaign on `=` across sections with
NonMatchingLineBreaksSection set. -/
def breakingPolicy : Tally.Policy :=
  { equalsAcrossSectionsPolicy with NonMatchingLineBreaksSection := true }

/-- The state of the loop of AlignTokens when it reaches index i of a
ledger in which no record lies deeper than the first: the loop body run for
the indices below i. -/
def loopStateAt (T : TokenTable) (O : Overload) (cs : Changes) (i : Nat) : AlignState :=
  (List.range i).foldl (fun s k => scanTail T O (scanHead O s k) k) { Changes := cs }

/-- The state of the campaign on `=` within a section when it reaches the
second `=` of the ledger of `a = 1;`, `bbbbbbbbbbb = 2;`,
`ccccccccccccccccccccc = 3;`: the pending column is 2. -/
def stepwisePending : AlignState :=
  loopStateAt stepwiseTokens
    (Tally.overload stepwiseTokens {} equalsWithinSectionPolicy
      (equalsWithinSectionMatches stepwiseTokens)) stepwiseChanges 5

/-! ## Example buffers for MissingNotBraces -/

/-- The buffer of a blank, the character literal of x and a closing
parenthesis. -/
def strayParenBuffer : List Char := [' ', sinstr, 'x', sinstr, ')']

/-- The buffer of a pair of braces around the character literal of x, with a
blank on either side of the literal. -/
def bracedLiteralBuffer : List Char := ['{', ' ', sinstr, 'x', sinstr, ' ', '}']

/-- The buffer of the block comment of one star followed by an opening
parenthesis: slash, star, star, star, slash, parenthesis. -/
def starCommentBuffer : List Char := ['/', '*', '*', '*', '/', '(']

/-- The buffer of a call with an index between braces, followed by a `//`
comment that holds a closing parenthesis. -/
def balancedBuffer : List Char :=
  ['{', ' ', 'f', '(', 'a', '[', '1', ']', ')', ';', ' ', '}', ' ', '/', '/', ' ', ')']

/-- The buffer of the nested brackets `{[()]}`. -/
def nestedBuffer : List Char := ['{', '[', '(', ')', ']', '}']

/-! ## Example for the columnarize passes -/

/-- The tokens of the two member declarations `int a;` and `double bb;` of a
class: the names are the tokens 1 and 4, with the recorded datatype sizes 3
and 6. -/
def memberTokens : TokenTable :=
  [{ Kind := TokenKind.identifier, IsClassScope := true, LbraceCount := 1, Next := some 1 },
   { Kind := TokenKind.identifier, IsClassScope := true, LbraceCount := 1, Previous := some 0,
     Next := some 2, isMemberVarNameInDecl := true, PrevTokenSizeForColumnarization := 3 },
   { Kind := TokenKind.semi, IsClassScope := true, LbraceCount := 1, Previous := some 1,
     Next := some 3 },
   { Kind := TokenKind.identifier, IsClassScope := true, LbraceCount := 1, Previous := some 2,
     Next := some 4 },
   { Kind := TokenKind.identifier, IsClassScope := true, LbraceCount := 1, Previous := some 3,
     Next := some 5, isMemberVarNameInDecl := true, PrevTokenSizeForColumnarization := 6 },
   { Kind := TokenKind.semi, IsClassScope := true, LbraceCount := 1, Previous := some 4 }]

/-- The ledger of the two member declarations `int a;` and `double bb;`. -/
def memberChanges : Changes :=
  [mkChange 0 4 1 4 3 0, mkChange 1 8 0 1 1 7, mkChange 2 9 0 0 1 9,
   mkChange 3 4 1 4 6 10, mkChange 4 11 0 1 2 10, mkChange 5 13 0 0 1 13]

/-- The manager holding the ledger above after columnarizeDatatypeTokens:
declaration alignment is on, the tab width is 4 and MaxDatatypeLen is 6. -/
def memberManager : WhitespaceManager :=
  { Changes := memberChanges, Toks := memberTokens, MaxDatatypeLen := 6, MaxSpecifierTabs := 4,
    Style := { AlignConsecutiveDeclarations := true } }

end ClangFormat

namespace ClangFormat

/-! ## format and outputReplacementXML (clang/tools/clang-format/ClangFormat.cpp) -/

/-- What a call of format reads besides the buffer: the options OutputXML
and Inplace, the file name, the outcome of reading the file (none when
CodeOrErr holds an error), whether ContentCache::getInvalidBOM finds an
unsupported byte order mark, and the value returned by the rest of the
function from fillRanges on (lines 586 to 644), which is computed by
libraries outside the tool. -/
structure FormatCall where
  OutputXML : Bool := false
  Inplace : Bool := false
  FileName : List Char := []
  Code : Option (List Char) := none
  InvalidBOM : Bool := false
  Remainder : Bool := false
  deriving DecidableEq, Repr

/-- The function format (lines 547 to 645): the value returned, none when
the scan of MissingNotBraces reads outside the buffer.  Before each `return
false` of lines 551 and 583 the function writes a line starting with
`error:` to errs(). -/
def format (c : FormatCall) : Option Bool :=
  if !c.OutputXML && c.Inplace && decide (c.FileName = ['-']) then some false
  else
    match c.Code with
    | none => some true
    | some BufStr =>
      if BufStr.length = 0 then some false
      else if c.InvalidBOM then some true
      else
        match MissingNotBraces BufStr with
        | ScanResult.returned true => some c.Remainder
        | ScanResult.returned false => some false
        | ScanResult.outside => none
        | ScanResult.unfinished => none

/-- The position of the first character of Chars in a text, none if there is
none. -/
def firstOf (Chars : List Char) : List Char → Option Nat
  | [] => none
  | c :: rest =>
    if Chars.contains c then some 0
    else
      match firstOf Chars rest with
      | some p => some (p + 1)
      | none => none

/-- The call Text.find_first_of(Chars, From) of StringRef: the least index
from From on at which Text has a character of Chars, none for npos. -/
def find_first_of (Text Chars : List Char) (From : Nat) : Option Nat :=
  match firstOf Chars (Text.drop From) with
  | some p => some (From + p)
  | none => none

/-- The call Text.substr(From, N) of StringRef. -/
def substr (Text : List Char) (From N : Nat) : List Char := (Text.drop From).take N

/-- The switch of outputReplacementXML (lines 264 to 279): the text written
for the character found, none for the default case, which is marked
unreachable. -/
def replacementEntity (c : Char) : Option (List Char) :=
  if c = '\n' then some ['&', '#', '1', '0', ';']
  else if c = '\r' then some ['&', '#', '1', '3', ';']
  else if c = '<' then some ['&', 'l', 't', ';']
  else if c = '&' then some ['&', 'a', 'm', 'p', ';']
  else none

/-- The loop of outputReplacementXML (lines 262 to 282) with the statement
after it, from the index From on, Out being the text written to outs() so
far.  The first argument bounds the number of iterations. -/
def outputLoop (Text : List Char) : Nat → Nat → List Char → Option (List Char)
  | 0, _, _ => none
  | fuel + 1, From, Out =>
    match find_first_of Text ['\n', '\r', '<', '&'] From with
    | some Index =>
      match replacementEntity (Text.getD Index nulChar) with
      | some e => outputLoop Text fuel (Index + 1) (Out ++ substr Text From (Index - From) ++ e)
      | none => none
    | none => some (Out ++ Text.drop From)

/-- The function outputReplacementXML (lines 258 to 284): the text written
to outs().  Every iteration moves From on, so the loop ends within size + 1
iterations. -/
def outputReplacementXML (Text : List Char) : Option (List Char) :=
  outputLoop Text (Text.length + 1) 0 []

end ClangFormat

namespace ClangFormat

/-! ## Notions used in the statements about outputReplacementXML -/

/-- One of the four characters that outputReplacementXML replaces: line
feed, carriage return, `<` and `&`. -/
def specialCharacter (c : Char) : Bool := ['\n', '\r', '<', '&'].contains c

/-- What the specification states for one character: a line feed, a
carriage return, `<` and `&` are written as `&#10;`, `&#13;`, `&lt;` and
`&amp;`, any other character as itself. -/
def escapedCharacter (c : Char) : List Char :=
  if c = '\n' then ['&', '#', '1', '0', ';']
  else if c = '\r' then ['&', '#', '1', '3', ';']
  else if c = '<' then ['&', 'l', 't', ';']
  else if c = '&' then ['&', 'a', 'm', 'p', ';']
  else [c]

/-- What the specification states for a text: every character replaced as
escapedCharacter says, in order. -/
def escapedText (Text : List Char) : List Char := Text.flatMap escapedCharacter

/-- The decoding of the four entities `&#10;`, `&#13;`, `&lt;` and `&amp;`
to the characters they stand for, every other character being kept. -/
def decodedText : List Char → List Char
  | '&' :: '#' :: '1' :: '0' :: ';' :: rest => '\n' :: decodedText rest
  | '&' :: '#' :: '1' :: '3' :: ';' :: rest => '\r' :: decodedText rest
  | '&' :: 'l' :: 't' :: ';' :: rest => '<' :: decodedText rest
  | '&' :: 'a' :: 'm' :: 'p' :: ';' :: rest => '&' :: decodedText rest
  | c :: rest => c :: decodedText rest
  | [] => []

/-! ## Notions used in the statements about appendIndentText -/

/-- The column reached when a text of tabs and spaces is written from a
column on, the tab stops standing every TabWidth columns: a tab leads to the
next tab stop, any other character to the next column. -/
def renderedColumn (TabWidth : Nat) (Column : Nat) (Text : List Char) : Nat :=
  Text.foldl (fun col c => if c = '\t' then col + (TabWidth - col % TabWidth) else col + 1) Column

/-! ## Notions used in the statements about AlignTokenSequence -/

/-- The record i is barred from being a match in the Tally
AlignTokenSequence: its token has a LparenCount other than 0, or it is an
identifier and the record before it in the ledger is a `::`, a `[` or a
`<`. -/
def matchBarred (T : TokenTable) (cs : Changes) (i : Nat) : Bool :=
  decide ((T.at (Changes.at cs i).Tok).LparenCount ≠ 0) ||
    ((T.at (Changes.at cs i).Tok).is TokenKind.identifier && decide (0 < i) &&
      ((T.at (Changes.at cs (i - 1)).Tok).is TokenKind.coloncolon ||
        (T.at (Changes.at cs (i - 1)).Tok).is TokenKind.l_square ||
        (T.at (Changes.at cs (i - 1)).Tok).is TokenKind.less))

/-- The predicate of alignConsecutiveAssignmentsOnScopedVarName (lines 792
to 799): the token is a scoped variable name of a declaration on a line with
a semicolon. -/
def scopedVarNameMatches (T : TokenTable) : Predicate := fun cs i =>
  (T.at (Changes.at cs i).Tok).isScopedVarNameInDecl &&
    (T.at (Changes.at cs i).Tok).HasSemiColonInLine

/-! ## Notions used in the statements about alignTrailingComments -/

/-- The value of Shift in alignTrailingComments(Start, End, Column) for a
record that has no block-comment start (lines 1914 to 1917). -/
def trailingShift (Column : Nat) (c : Change) : Int :=
  if c.IsTrailingComment then toInt (toUnsigned ((Column : Int) - c.StartOfTokenColumn)) else 0

/-- The last column that the decision at the trailing comment k allows for
it (lines 1882 to 1896): its own column if AlignTrailingComments is off or
the comment follows a closing brace in column 0, else its
ChangeMaxColumn. -/
def commentWindowEnd (T : TokenTable) (Style : FormatStyle) (cs : Changes) (k : Nat) : Nat :=
  if !Style.AlignTrailingComments || followsRBraceInColumn0 T cs k then
    (Changes.at cs k).StartOfTokenColumn
  else commentMaxColumn Style cs k

/-- What alignTrailingComments has made of the record k of the ledger cs
when c is the record after the call: the column has not decreased, Spaces has
grown by the same amount, a column that has grown lies within the window of
the comment, and a record that is no trailing comment stands where it
stood. -/
structure CommentSettled (T : TokenTable) (Style : FormatStyle) (cs : Changes) (k : Nat)
    (c : Change) : Prop where
  grows : (Changes.at cs k).StartOfTokenColumn ≤ c.StartOfTokenColumn
  spaces : c.Spaces = (Changes.at cs k).Spaces +
    ((c.StartOfTokenColumn : Int) - (Changes.at cs k).StartOfTokenColumn)
  window : c.StartOfTokenColumn = (Changes.at cs k).StartOfTokenColumn ∨
    c.StartOfTokenColumn ≤ commentWindowEnd T Style cs k
  plain : (Changes.at cs k).IsTrailingComment = false →
    c.StartOfTokenColumn = (Changes.at cs k).StartOfTokenColumn

/-- The state s of the loop of alignTrailingComments() on entry to index j,
the loop having been entered on the ledger cs: no assertion has failed, the
records from StartOfSequence on have their Spaces and columns of cs, the
records before it are settled, and every trailing comment of the pending
range stands at or left of MinColumn, which is its own column or lies within
its window, as MaxColumn does. -/
structure TrailingAt (T : TokenTable) (Style : FormatStyle) (cs : Changes) (s : TrailingState)
    (j : Nat) : Prop where
  frame : SameFrame s.Changes cs
  seq : s.StartOfSequence ≤ j - 1
  asserts : s.AssertsHeld = true
  small : s.MinColumn < 2147483648
  pending : ∀ k, s.StartOfSequence ≤ k →
    (Changes.at s.Changes k).Spaces = (Changes.at cs k).Spaces ∧
    (Changes.at s.Changes k).StartOfTokenColumn = (Changes.at cs k).StartOfTokenColumn
  settled : ∀ k, k < s.StartOfSequence → CommentSettled T Style cs k (Changes.at s.Changes k)
  member : ∀ k, s.StartOfSequence ≤ k → k < j → (Changes.at cs k).IsTrailingComment = true →
    (Changes.at cs k).StartOfTokenColumn ≤ s.MinColumn ∧
    (s.MinColumn = (Changes.at cs k).StartOfTokenColumn ∨
      s.MinColumn ≤ commentWindowEnd T Style cs k) ∧
    (s.MaxColumn ≤ (Changes.at cs k).StartOfTokenColumn ∨
      s.MaxColumn ≤ commentWindowEnd T Style cs k)


/-- The state of the loop of alignTrailingComments() on entry to index n. -/
def trailingStateAt (T : TokenTable) (Style : FormatStyle) (src : List Char) (cs : Changes)
    (n : Nat) : TrailingState :=
  (List.range n).foldl (trailingCommentStep T Style src) { Changes := cs }

/-- The value of ChangeMaxColumn for the trailing comment at index i before
the deduction for a preprocessor directive (lines 1843 to 1855). -/
def commentMaxBeforeDirective (Style : FormatStyle) (cs : Changes) (i : Nat) : Nat :=
  let c := Changes.at cs i
  let ChangeMaxColumn0 : Nat :=
    if Style.ColumnLimit = 0 then UINT_MAX
    else if Style.ColumnLimit ≥ c.TokenLength then Style.ColumnLimit - c.TokenLength
    else c.StartOfTokenColumn
  if !c.CreateReplacement then c.StartOfTokenColumn else ChangeMaxColumn0

/-- The record after the record i continues a preprocessor directive, the
test of line 1857. -/
def beforeDirectiveLine (cs : Changes) (i : Nat) : Bool :=
  decide (i + 1 ≠ cs.length) && (Changes.at cs (i + 1)).ContinuesPPDirective

end ClangFormat

namespace ClangFormat

/-! ## Example ledgers for AlignTokenSequence and AlignTokens -/

/-- The tokens of the lines `int a;` and `N::v w;`: the names a, v and w are
scoped variable names of a declaration on a line with a semicolon. -/
def scopedNameTokens : TokenTable :=
  [ { Kind := TokenKind.identifier },
    { Kind := TokenKind.identifier, isScopedVarNameInDecl := true, HasSemiColonInLine := true },
    { Kind := TokenKind.semi },
    { Kind := TokenKind.identifier },
    { Kind := TokenKind.coloncolon },
    { Kind := TokenKind.identifier, isScopedVarNameInDecl := true, HasSemiColonInLine := true },
    { Kind := TokenKind.identifier, isScopedVarNameInDecl := true, HasSemiColonInLine := true },
    { Kind := TokenKind.semi } ]

/-- The ledger of the lines `int a;` and `N::v w;`. -/
def scopedNameChanges : Changes :=
  [ { Tok := 0, StartOfTokenColumn := 0, TokenLength := 3 },
    { Tok := 1, Spaces := 1, StartOfTokenColumn := 4, PreviousEndOfTokenColumn := 3, TokenLength := 1 },
    { Tok := 2, StartOfTokenColumn := 5, PreviousEndOfTokenColumn := 5, TokenLength := 1 },
    { Tok := 3, NewlinesBefore := 1, StartOfTokenColumn := 0, TokenLength := 1 },
    { Tok := 4, StartOfTokenColumn := 1, PreviousEndOfTokenColumn := 1, TokenLength := 2 },
    { Tok := 5, StartOfTokenColumn := 3, PreviousEndOfTokenColumn := 3, TokenLength := 1 },
    { Tok := 6, Spaces := 1, StartOfTokenColumn := 5, PreviousEndOfTokenColumn := 4, TokenLength := 1 },
    { Tok := 7, StartOfTokenColumn := 6, PreviousEndOfTokenColumn := 6, TokenLength := 0 } ]

/-- The tokens of the lines `v;`, `int a;` and `double bb;`: the names v, a
and bb are scoped variable names of a declaration on a line with a
semicolon. -/
def firstRecordTokens : TokenTable :=
  [ { Kind := TokenKind.identifier, isScopedVarNameInDecl := true, HasSemiColonInLine := true },
    { Kind := TokenKind.semi },
    { Kind := TokenKind.identifier },
    { Kind := TokenKind.identifier, isScopedVarNameInDecl := true, HasSemiColonInLine := true },
    { Kind := TokenKind.semi },
    { Kind := TokenKind.identifier },
    { Kind := TokenKind.identifier, isScopedVarNameInDecl := true, HasSemiColonInLine := true },
    { Kind := TokenKind.semi } ]

/-- The ledger of the lines `v;`, `int a;` and `double bb;`, the first one
indented by the given number of columns. -/
def firstRecordChanges (indent : Nat) : Changes :=
  [ { Tok := 0, Spaces := indent, StartOfTokenColumn := indent, TokenLength := 1 },
    { Tok := 1, StartOfTokenColumn := indent + 1, PreviousEndOfTokenColumn := indent + 1,
      TokenLength := 1 },
    { Tok := 2, NewlinesBefore := 1, StartOfTokenColumn := 0, TokenLength := 3 },
    { Tok := 3, Spaces := 1, StartOfTokenColumn := 4, PreviousEndOfTokenColumn := 3, TokenLength := 1 },
    { Tok := 4, StartOfTokenColumn := 5, PreviousEndOfTokenColumn := 5, TokenLength := 1 },
    { Tok := 5, NewlinesBefore := 1, StartOfTokenColumn := 0, TokenLength := 6 },
    { Tok := 6, Spaces := 1, StartOfTokenColumn := 7, PreviousEndOfTokenColumn := 6, TokenLength := 2 },
    { Tok := 7, StartOfTokenColumn := 9, PreviousEndOfTokenColumn := 9, TokenLength := 0 } ]

/-- The manager holding the ledger above, with AlignConsecutiveAssignments
on. -/
def firstRecordManager (indent : Nat) : WhitespaceManager :=
  { Changes := firstRecordChanges indent, Toks := firstRecordTokens,
    Style := { AlignConsecutiveAssignments := true } }


/-! ## Example ledgers for alignTrailingComments -/

/-- The tokens of the lines `x; // a`, `} // n` and `y; // b`: names,
semicolons, a closing brace and three comments. -/
def braceCommentTokens : TokenTable :=
  [mkToken TokenKind.identifier 0, mkToken TokenKind.semi 0, mkToken TokenKind.comment 0,
   mkToken TokenKind.r_brace 0, mkToken TokenKind.comment 0,
   mkToken TokenKind.identifier 0, mkToken TokenKind.semi 0, mkToken TokenKind.comment 0]

/-- The ledger of the lines `x;        // a`, `} // n` and `y;// b`: the
trailing comments are the records 2, 4 and 7, in columns 10, 2 and 2; the
closing brace, record 3, stands in column 0. -/
def braceCommentChanges : Changes :=
  [mkChange 0 0 0 0 1 0, mkChange 1 1 0 0 1 1,
   { mkChange 2 10 0 8 4 2 with IsTrailingComment := true },
   mkChange 3 0 1 0 1 14,
   { mkChange 4 2 0 1 4 1 with IsTrailingComment := true },
   mkChange 5 0 1 0 1 6, mkChange 6 1 0 0 1 1,
   { mkChange 7 2 0 0 4 2 with IsTrailingComment := true }]

/-- The source text of the macro body `a    /* c1 */ \`, ` /* c2 */ \`,
`   b`. -/
def immovableSource : List Char := "a    /* c1 */ \\\n /* c2 */ \\\n   b\n".toList

/-- The tokens of the macro body above. -/
def immovableTokens : TokenTable :=
  [mkToken TokenKind.identifier 0, mkToken TokenKind.comment 0, mkToken TokenKind.comment 0,
   mkToken TokenKind.identifier 0]

/-- The ledger of the macro body above: the comment c1, record 1, stands in
column 5; the comment c2, record 2, starts the next line in column 1 and has
CreateReplacement false; the record after it continues the preprocessor
directive. -/
def immovableChanges : Changes :=
  [mkChange 0 0 0 0 1 0,
   { mkChange 1 5 0 4 8 1 with IsTrailingComment := true },
   { Tok := 2, StartOfTokenColumn := 1, NewlinesBefore := 1, Spaces := 1, TokenLength := 8,
     IsTrailingComment := true, CreateReplacement := false, ContinuesPPDirective := true,
     OriginalWhitespaceBegin := 15, OriginalWhitespaceEnd := 17 },
   { Tok := 3, StartOfTokenColumn := 3, NewlinesBefore := 1, Spaces := 3, TokenLength := 1,
     ContinuesPPDirective := true, OriginalWhitespaceBegin := 27, OriginalWhitespaceEnd := 31 }]

/-- The source text of the macro body `a   /* c1 */ \`, `/* 0123456789abc */\`,
`   b`. -/
def longCommentSource : List Char :=
  "a   /* c1 */ \\\n/* 0123456789abc */\\\n   b\n".toList

/-- The tokens of the macro body above. -/
def longCommentTokens : TokenTable :=
  [mkToken TokenKind.identifier 0, mkToken TokenKind.comment 0, mkToken TokenKind.comment 0,
   mkToken TokenKind.identifier 0]

/-- The ledger of the macro body above: the comment c1, record 1, stands in
column 4; the long comment, record 2, is 19 columns long and starts the next
line in column 0; the record after it continues the preprocessor
directive. -/
def longCommentChanges : Changes :=
  [mkChange 0 0 0 0 1 0,
   { mkChange 1 4 0 3 8 1 with IsTrailingComment := true },
   { Tok := 2, StartOfTokenColumn := 0, NewlinesBefore := 1, Spaces := 0, TokenLength := 19,
     IsTrailingComment := true, ContinuesPPDirective := true,
     OriginalWhitespaceBegin := 14, OriginalWhitespaceEnd := 15 },
   { Tok := 3, StartOfTokenColumn := 3, NewlinesBefore := 1, Spaces := 3, TokenLength := 1,
     ContinuesPPDirective := true, OriginalWhitespaceBegin := 35, OriginalWhitespaceEnd := 39 }]

/-- The style with AlignTrailingComments on and the column limit 80. -/
def trailingOnStyle : FormatStyle := { AlignTrailingComments := true }

/-- The style with AlignTrailingComments on and the column limit 20. -/
def narrowStyle : FormatStyle := { AlignTrailingComments := true, ColumnLimit := 20 }

/-! ## Example buffers and calls of the tool -/

/-- The buffer of the character literal of a. -/
def quotedBuffer : List Char := [sinstr, 'a', sinstr]

/-- The buffer of an assignment followed by a slash. -/
def trailingSlashBuffer : List Char := "x = 1; /".toList

/-- The buffer of a block comment that is not closed and ends in a star. -/
def openCommentBuffer : List Char := "/* a *".toList

/-- The buffer of a closing parenthesis without an opening one. -/
def unopenedParenBuffer : List Char := [')']

/-- A call of format on a file that is read without error, holds a closing
parenthesis only and has no unsupported byte order mark; the rest of the
function would return false. -/
def unopenedParenCall : FormatCall :=
  { FileName := "a.cpp".toList, Code := some unopenedParenBuffer }

/-- The text of a line with the four special characters, ended by a carriage
return and a line feed. -/
def markupText : List Char := "if (a < b && c)\r\n".toList

end ClangFormat

namespace ClangFormat

/-! ## Notions used in the statements about ledgers with nested scopes -/

/-- Record j lies in the scope of a deeper record: some earlier record d that
is no comma lies deeper than the first record, and no record from d up to j
lies below the level of d.  The loop of the call of AlignTokens from record 0
leaves such a record to a recursive call. -/
def coveredAt (T : TokenTable) (cs : Changes) (j : Nat) : Bool :=
  (List.range j).any (fun d =>
    !(T.at (Changes.at cs d).Tok).is TokenKind.comma &&
    Level.lt (indentAndNestingLevel T (Changes.at cs 0))
      (indentAndNestingLevel T (Changes.at cs d)) &&
    (List.range' (d + 1) (j - d)).all (fun k =>
      !Level.lt (indentAndNestingLevel T (Changes.at cs k))
        (indentAndNestingLevel T (Changes.at cs d))))

/-- Record i is a comma that the loop of the call from record 0 counts: a
comma that is not left to a recursive call. -/
def countedComma (T : TokenTable) (P : Tally.Policy) (cs : Changes) (i : Nat) : Bool :=
  (T.at (Changes.at cs i).Tok).is TokenKind.comma && (P.IgnoreScope || !coveredAt T cs i)

/-- The loop of the call of AlignTokens from record 0 comes to index i: no
record before i lies below the level of record 0.  A record below that level
ends the loop (line 705). -/
def loopReaches (T : TokenTable) (cs : Changes) : Nat → Bool
  | 0 => true
  | i + 1 =>
    loopReaches T cs i &&
      !Level.lt (indentAndNestingLevel T (Changes.at cs i))
        (indentAndNestingLevel T (Changes.at cs 0))

/-- The loop of the call of AlignTokens from record 0 ends at index f: it
comes to f, and f is the end of the ledger or a record below the level of
record 0. -/
def loopEndsAt (T : TokenTable) (cs : Changes) (f : Nat) : Bool :=
  decide (f ≤ cs.length) && loopReaches T cs f &&
    (decide (f = cs.length) ||
      Level.lt (indentAndNestingLevel T (Changes.at cs f))
        (indentAndNestingLevel T (Changes.at cs 0)))

/-- Unless IgnoreScope is set, no record that starts a line or matches the
predicate, among the records that the loop of the call from record 0 comes
to or leaves to a recursive call, lies deeper than the first record: the
lines of the ledger start at the anchor level of the call, and its matching
records lie at that level. -/
def anchoredLedger (T : TokenTable) (P : Tally.Policy) (M : Predicate) (cs : Changes) : Bool :=
  P.IgnoreScope ||
    (List.range cs.length).all (fun i =>
      !loopReaches T cs (i + 1) || !(decide ((Changes.at cs i).NewlinesBefore ≠ 0) || M cs i) ||
        !Level.lt (indentAndNestingLevel T (Changes.at cs 0))
          (indentAndNestingLevel T (Changes.at cs i)))

/-- Unless IgnoreScope is set: whenever AlignTokenSequence, entered at a
matching record Start, comes to a later record that starts a line or matches
the predicate, its scope stack is empty, that is, every scope opened since
Start has been closed. -/
def scopesClose (T : TokenTable) (P : Tally.Policy) (M : Predicate) (cs : Changes) : Bool :=
  P.IgnoreScope ||
    (List.range cs.length).all (fun Start => !M cs Start ||
      (List.range' (Start + 1) (cs.length - (Start + 1))).all (fun i =>
        !(decide ((Changes.at cs i).NewlinesBefore ≠ 0) || M cs i) ||
          (scopeStackOf T cs Start i).isEmpty))

/-- Every StartOfTokenColumn of the ledger is below 2^31, and below 2^31 - 4
when ForceAlignToFourSpaces is set, so that a pending column and its
difference to the column of a record are values of `int`. -/
def columnsSmallFor (P : Tally.Policy) (cs : Changes) : Bool :=
  cs.all (fun c => decide (c.StartOfTokenColumn <
    (if P.ForceAlignToFourSpaces then 2147483644 else 2147483648)))

/-! ## The local variables of the Tally AlignTokens as the ledger determines them -/

/-- The local variables of the loop of the Tally AlignTokens (lines 666 to
690). -/
structure Pending where
  MinColumn : Nat := 0
  MaxColumn : Nat := UINT_MAX
  StartOfSequence : Nat := 0
  EndOfSequence : Nat := 0
  CommasBeforeLastMatch : Nat := 0
  CommasBeforeMatch : Nat := 0
  FoundMatchOnLine : Bool := false
  deriving DecidableEq, Repr

/-- The local variables of a state of the loop. -/
def AlignState.locals (s : AlignState) : Pending :=
  { MinColumn := s.MinColumn, MaxColumn := s.MaxColumn, StartOfSequence := s.StartOfSequence,
    EndOfSequence := s.EndOfSequence, CommasBeforeLastMatch := s.CommasBeforeLastMatch,
    CommasBeforeMatch := s.CommasBeforeMatch, FoundMatchOnLine := s.FoundMatchOnLine }

/-- What AlignCurrentSequence leaves in the local variables (lines 697 to
700). -/
def Pending.reset (q : Pending) : Pending :=
  { q with MinColumn := 0, MaxColumn := UINT_MAX, StartOfSequence := 0, EndOfSequence := 0 }

/-- The test of line 713 at a record that starts a line: the record follows
a section break, or lines without a match end a sequence and the line before
had no match. -/
def Pending.breaksLine (P : Tally.Policy) (cs : Changes) (q : Pending) (i : Nat) : Bool :=
  decide ((Changes.at cs i).NewlinesBefore > P.MaxNewlinesBeforeSectionBreak) ||
    (P.NonMatchingLineBreaksSection && !q.FoundMatchOnLine)

/-- The local variables after the statements for a record that starts a line
(lines 708 to 717). -/
def Pending.atLineStart (P : Tally.Policy) (cs : Changes) (q : Pending) (i : Nat) : Pending :=
  { (if q.breaksLine P cs i then
      ({ q with CommasBeforeMatch := 0, EndOfSequence := i } : Pending).reset
     else { q with CommasBeforeMatch := 0, EndOfSequence := i }) with
    FoundMatchOnLine := false }

/-- The local variables after the head of the loop body. -/
def Pending.head (P : Tally.Policy) (cs : Changes) (q : Pending) (i : Nat) : Pending :=
  if (Changes.at cs i).NewlinesBefore ≠ 0 then q.atLineStart P cs i else q

/-- The local variables after the count of a comma (lines 719 to 721). -/
def Pending.comma (T : TokenTable) (P : Tally.Policy) (cs : Changes) (q : Pending) (i : Nat) :
    Pending :=
  if countedComma T P cs i then { q with CommasBeforeMatch := q.CommasBeforeMatch + 1 } else q

/-- The test of lines 737 and 738 at a matching record: a match has been
found on the line, or commas count and their number differs from the number
before the last match. -/
def Pending.breaksAtMatch (P : Tally.Policy) (q : Pending) : Bool :=
  q.FoundMatchOnLine ||
    (!P.IgnoreCommas && decide (q.CommasBeforeMatch ≠ q.CommasBeforeLastMatch))

/-- The local variables after lines 741 to 745. -/
def Pending.note (q : Pending) (i : Nat) : Pending :=
  { q with
    CommasBeforeLastMatch := q.CommasBeforeMatch
    FoundMatchOnLine := true
    StartOfSequence := if q.StartOfSequence = 0 then i else q.StartOfSequence }

/-- The test of lines 757 to 762 at a matching record: the record is outside
the limit of leading spaces or outside the column window of the pending
sequence. -/
def Pending.leavesWindow (Style : FormatStyle) (P : Tally.Policy) (cs : Changes) (q : Pending)
    (i : Nat) : Bool :=
  decide (toUnsigned (Tally.leadingSpacesReqd (Changes.at cs i).StartOfTokenColumn q.MinColumn) >
      P.MaxLeadingSpacesForAlignment) ||
    decide ((Changes.at cs i).StartOfTokenColumn > q.MaxColumn) ||
    decide (Tally.ChangeMaxColumn Style P cs i < q.MinColumn) ||
    (!P.IgnoreCommas && decide (q.CommasBeforeLastMatch ≠ q.CommasBeforeMatch))

/-- The local variables after the update of the column window (lines 768 and
769). -/
def Pending.widen (Style : FormatStyle) (P : Tally.Policy) (cs : Changes) (q : Pending)
    (i : Nat) : Pending :=
  { q with
    MinColumn := max q.MinColumn (Changes.at cs i).StartOfTokenColumn
    MaxColumn := min q.MaxColumn (Tally.ChangeMaxColumn Style P cs i) }

/-- The local variables after the rounding of lines 771 to 778. -/
def Pending.forceFour (P : Tally.Policy) (q : Pending) : Pending :=
  if P.ForceAlignToFourSpaces && decide (q.MinColumn % 4 ≠ 0) then
    { q with
      MinColumn := toUnsigned ((q.MinColumn : Int) + ((4 - q.MinColumn % 4 : Nat) : Int))
      MaxColumn := toUnsigned ((q.MaxColumn : Int) + ((4 - q.MinColumn % 4 : Nat) : Int)) }
  else q

/-- The local variables after the first check at a matching record and the
note of the match (lines 737 to 745). -/
def Pending.noted (P : Tally.Policy) (q : Pending) (i : Nat) : Pending :=
  (if q.breaksAtMatch P then q.reset else q).note i

/-- The local variables after the statements for a matching record (lines
735 to 778). -/
def Pending.atMatch (Style : FormatStyle) (P : Tally.Policy) (cs : Changes) (q : Pending)
    (i : Nat) : Pending :=
  Pending.forceFour P
    (Pending.widen Style P cs
      (if (q.noted P i).leavesWindow Style P cs i then
        { (q.noted P i).reset with StartOfSequence := i }
       else q.noted P i) i)

/-- The local variables after the loop body at a record that the loop treats
itself. -/
def Pending.step (T : TokenTable) (Style : FormatStyle) (P : Tally.Policy) (M : Predicate)
    (cs : Changes) (q : Pending) (i : Nat) : Pending :=
  if M cs i then ((q.head P cs i).comma T P cs i).atMatch Style P cs i
  else (q.head P cs i).comma T P cs i

/-- The local variables with which the loop of the call from record 0 comes
to record i, as the ledger before the call determines them: the end of a
sequence resets them, and what it writes to the ledger is not read again. -/
def pendingAt (T : TokenTable) (Style : FormatStyle) (P : Tally.Policy) (M : Predicate)
    (cs : Changes) : Nat → Pending
  | 0 => {}
  | i + 1 => (pendingAt T Style P M cs i).step T Style P M cs i

/-- The loop ends the pending sequence at record i: at the head of the loop
body, the record starting a line, or at one of the two checks for a matching
record. -/
def flushesAt (T : TokenTable) (Style : FormatStyle) (P : Tally.Policy) (M : Predicate)
    (cs : Changes) (i : Nat) : Bool :=
  (decide ((Changes.at cs i).NewlinesBefore ≠ 0) &&
    (pendingAt T Style P M cs i).breaksLine P cs i) ||
  (M cs i &&
    ((((pendingAt T Style P M cs i).head P cs i).comma T P cs i).breaksAtMatch P ||
     ((((pendingAt T Style P M cs i).head P cs i).comma T P cs i).noted P i).leavesWindow
        Style P cs i))

/-- The sequence of which the matching record j is a part ends at f: f is
the first index after j at which the loop ends the pending sequence, or the
index at which the loop ends if there is none. -/
def sequenceEndsAt (T : TokenTable) (Style : FormatStyle) (P : Tally.Policy) (M : Predicate)
    (cs : Changes) (j f : Nat) : Bool :=
  decide (j < f) && loopReaches T cs f && decide (f ≤ cs.length) &&
    (loopEndsAt T cs f || flushesAt T Style P M cs f) &&
    (List.range' (j + 1) (f - (j + 1))).all (fun k => !flushesAt T Style P M cs k)

/-- The maximum of StartOfTokenColumn over the matching records from a up to
b (exclusive), or 0 if there is none. -/
def maxMatchColumnIn (M : Predicate) (cs : Changes) (a b : Nat) : Nat :=
  (List.range' a (b - a)).foldl
    (fun m k => if M cs k then max m (Changes.at cs k).StartOfTokenColumn else m) 0

/-- The state t of the loop of AlignTokenSequence on entry to index i, the
loop having been entered at Start on the ledger a with the column Column:
what has been written so far. -/
structure SequenceUpTo (T : TokenTable) (M : Predicate) (ig : Bool) (a : Changes)
    (Start Column : Nat) (t : SeqState) (i : Nat) : Prop where
  frame : SameFrame t.Changes a
  asserts : t.AssertsHeld = true
  stack : t.ScopeStack = if ig then [] else scopeStackBefore T a Start i
  shift : 0 ≤ t.Shift
  found : t.FoundMatchOnLine = true → 1 ≤ matchesSeen M a i
  moving : t.Shift ≠ 0 → 1 ≤ matchesSeen M a i
  ahead : ∀ j, (j < Start ∨ i ≤ j) →
    (Changes.at t.Changes j).Spaces = (Changes.at a j).Spaces ∧
    (Changes.at t.Changes j).StartOfTokenColumn = (Changes.at a j).StartOfTokenColumn
  taken : ∀ j, Start ≤ j → j < i → M a j = true → Tally.matchAllowed T a j = true →
    (Changes.at t.Changes j).StartOfTokenColumn = Column ∧
    (Changes.at t.Changes j).Spaces =
      (Changes.at a j).Spaces + ((Column : Int) - (Changes.at a j).StartOfTokenColumn)
  passed : ∀ j, Start ≤ j → j < i → ¬ (M a j = true ∧ Tally.matchAllowed T a j = true) →
    (Changes.at t.Changes j).Spaces = (Changes.at a j).Spaces ∧
    (M a j = true →
      (Changes.at t.Changes j).StartOfTokenColumn = (Changes.at a j).StartOfTokenColumn)

end ClangFormat

namespace ClangFormat

/-! ## The loop of the Tally AlignTokens and its ledger -/

/-- The hypotheses on a ledger under which the local variables of the loop
of the Tally AlignTokens are those that the ledger before the call
determines: the predicate reads the frame only, and the lines start and the
matching records lie at the anchor level, so that the recursive calls find
nothing to align. -/
structure Scanned (T : TokenTable) (P : Tally.Policy) (M : Predicate) (cs : Changes) :
    Prop where
  stable : Predicate.Stable M
  anchored : anchoredLedger T P M cs = true

/-- The hypotheses on a ledger under which the loop of the Tally AlignTokens
and AlignTokenSequence agree on the sequences: those of Scanned, the scopes
opened since the start of a sequence are closed at every record that starts a
line or matches, every matching record that does not start a line is the
first matching record of its line, and the columns are small. -/
structure Sequenced (T : TokenTable) (P : Tally.Policy) (M : Predicate) (cs : Changes) :
    Prop where
  stable : Predicate.Stable M
  anchored : anchoredLedger T P M cs = true
  closes : scopesClose T P M cs = true
  first : matchesFirstOnLine M cs = true
  small : columnsSmallFor P cs = true

/-- What the call has made of a matching record j whose sequence ended at f:
if the record passes the test of AlignTokenSequence it stands in the column
that was pending at f and its Spaces has grown by its column increase;
otherwise it is as it was. -/
def FlushedAt (T : TokenTable) (Style : FormatStyle) (P : Tally.Policy) (M : Predicate)
    (cs a : Changes) (j f : Nat) : Prop :=
  (Tally.matchAllowed T cs j = true →
    (Changes.at a j).StartOfTokenColumn = (pendingAt T Style P M cs f).MinColumn ∧
    (Changes.at a j).Spaces =
      (Changes.at cs j).Spaces +
        (((pendingAt T Style P M cs f).MinColumn : Int) - (Changes.at cs j).StartOfTokenColumn)) ∧
  (Tally.matchAllowed T cs j = false →
    (Changes.at a j).StartOfTokenColumn = (Changes.at cs j).StartOfTokenColumn ∧
    (Changes.at a j).Spaces = (Changes.at cs j).Spaces)

/-- The matching records of the sequence that ends at f stand in the column
pending at f already, as far as they pass the test of AlignTokenSequence. -/
def SettledSequence (T : TokenTable) (Style : FormatStyle) (P : Tally.Policy) (M : Predicate)
    (cs : Changes) (f : Nat) : Prop :=
  ∀ m, M cs m = true → 1 ≤ m → m < f →
    (∀ k, m < k → k < f → flushesAt T Style P M cs k = false) →
    Tally.matchAllowed T cs m = true →
    (Changes.at cs m).StartOfTokenColumn = (pendingAt T Style P M cs f).MinColumn

/-- The ledger a of the loop of the Tally AlignTokens on the ledger cs: it
has the frame of cs, its columns are values of `unsigned` if those of cs
are, and record 0 and the records from u on are as before the call. -/
structure Core (cs a : Changes) (u : Nat) : Prop where
  frame : SameFrame a cs
  range : columnsInRange cs = true → columnsInRange a = true
  ahead : ∀ j, u ≤ j →
    (Changes.at a j).Spaces = (Changes.at cs j).Spaces ∧
    (Changes.at a j).StartOfTokenColumn = (Changes.at cs j).StartOfTokenColumn
  zero : (Changes.at a 0).Spaces = (Changes.at cs 0).Spaces ∧
    (Changes.at a 0).StartOfTokenColumn = (Changes.at cs 0).StartOfTokenColumn

/-- The ledger a of the loop of the Tally AlignTokens on the ledger cs when
the sequences that ended below b have been written and the records from u on
are as before the call. -/
structure Settled (T : TokenTable) (Style : FormatStyle) (P : Tally.Policy) (M : Predicate)
    (cs a : Changes) (u b : Nat) : Prop where
  frame : SameFrame a cs
  ahead : ∀ j, u ≤ j →
    (Changes.at a j).Spaces = (Changes.at cs j).Spaces ∧
    (Changes.at a j).StartOfTokenColumn = (Changes.at cs j).StartOfTokenColumn
  kept : ∀ j, M cs j = false → (Changes.at a j).Spaces = (Changes.at cs j).Spaces
  zero : (Changes.at a 0).Spaces = (Changes.at cs 0).Spaces ∧
    (Changes.at a 0).StartOfTokenColumn = (Changes.at cs 0).StartOfTokenColumn
  done : ∀ j f, M cs j = true → 1 ≤ j → j < f → f < b → flushesAt T Style P M cs f = true →
    (∀ k, j < k → k < f → flushesAt T Style P M cs k = false) →
    FlushedAt T Style P M cs a j f

/-- The ledger a of the loop of the Tally AlignTokens on the ledger cs is
still the ledger cs, and no assertion has failed (held), if the columns of cs
are values of `unsigned` and every sequence that has ended below b was
settled. -/
def Unmoved (T : TokenTable) (Style : FormatStyle) (P : Tally.Policy) (M : Predicate)
    (cs a : Changes) (held : Bool) (b : Nat) : Prop :=
  columnsInRange cs = true →
  (∀ f, f < b → flushesAt T Style P M cs f = true → SettledSequence T Style P M cs f) →
  a = cs ∧ held = true

/-- In the ledger a of the loop of the Tally AlignTokens on the ledger cs,
whose columns are values of `unsigned`, the matching records of every settled
sequence that has ended below b are as before the call. -/
def Kept (T : TokenTable) (Style : FormatStyle) (P : Tally.Policy) (M : Predicate)
    (cs a : Changes) (b : Nat) : Prop :=
  columnsInRange cs = true →
  ∀ j f, M cs j = true → 1 ≤ j → j < f → f < b → flushesAt T Style P M cs f = true →
    (∀ k, j < k → k < f → flushesAt T Style P M cs k = false) →
    SettledSequence T Style P M cs f →
    (Changes.at a j).Spaces = (Changes.at cs j).Spaces ∧
    (Changes.at a j).StartOfTokenColumn = (Changes.at cs j).StartOfTokenColumn

/-- The state s of the loop of the Tally AlignTokens at index i of the
ledger cs: the local variables are those that the ledger determines, and the
ledger is settled up to i. -/
structure SequencedAt (T : TokenTable) (Style : FormatStyle) (P : Tally.Policy) (M : Predicate)
    (cs : Changes) (s : AlignState) (i : Nat) : Prop where
  core : Core cs s.Changes (if s.StartOfSequence = 0 then i else s.StartOfSequence)
  settled : Sequenced T P M cs →
    Settled T Style P M cs s.Changes (if s.StartOfSequence = 0 then i else s.StartOfSequence) i ∧
    s.AssertsHeld = true
  unmoved : Unmoved T Style P M cs s.Changes s.AssertsHeld i
  kept : Kept T Style P M cs s.Changes i
  locals : s.locals = pendingAt T Style P M cs i
  bound : i ≤ cs.length
  reaches : loopReaches T cs i = true
  reached : P.IgnoreScope = false → i < cs.length → coveredAt T cs i = false

/-- The state s of the loop inside the loop body at index i, flushed telling
whether the pending sequence has been ended at this index already. -/
structure MidAt (T : TokenTable) (Style : FormatStyle) (P : Tally.Policy) (M : Predicate)
    (cs : Changes) (s : AlignState) (i : Nat) (flushed : Bool) : Prop where
  core : Core cs s.Changes
    (if flushed = true then i
     else if (pendingAt T Style P M cs i).StartOfSequence = 0 then i
     else (pendingAt T Style P M cs i).StartOfSequence)
  settled : Sequenced T P M cs →
    Settled T Style P M cs s.Changes
      (if flushed = true then i
       else if (pendingAt T Style P M cs i).StartOfSequence = 0 then i
       else (pendingAt T Style P M cs i).StartOfSequence)
      (if flushed = true then i + 1 else i) ∧
    s.AssertsHeld = true
  unmoved : Unmoved T Style P M cs s.Changes s.AssertsHeld
    (if flushed = true then i + 1 else i)
  kept : Kept T Style P M cs s.Changes (if flushed = true then i + 1 else i)

end ClangFormat

namespace ClangFormat

/-! ## Example ledgers with nested scopes and with several sequences -/

/-- The tokens of the two lines `a = f(1);` and `bbb = 2;`.  The argument
and the closing parenthesis have nesting level 1. -/
def callTokens : TokenTable :=
  [varToken 0, equalToken 0 0, mkToken TokenKind.identifier 0, mkToken TokenKind.l_paren 0,
   { Kind := TokenKind.unknown, NestingLevel := 1, LparenCount := 1 },
   { Kind := TokenKind.r_paren, NestingLevel := 1, LparenCount := 1 },
   mkToken TokenKind.semi 0,
   varToken 0, equalToken 0 7, mkToken TokenKind.unknown 0, mkToken TokenKind.semi 0]

/-- The ledger of the two lines `a = f(1);` and `bbb = 2;`: the `=` are the
records 1 and 8, in columns 2 and 4. -/
def callChanges : Changes :=
  [mkChange 0 0 0 0 1 0, mkChange 1 2 0 1 1 1, mkChange 2 4 0 1 1 3, mkChange 3 5 0 0 1 5,
   mkChange 4 6 0 0 1 6, mkChange 5 7 0 0 1 7, mkChange 6 8 0 0 1 8,
   mkChange 7 0 1 0 3 9, mkChange 8 4 0 1 1 3, mkChange 9 6 0 1 1 5, mkChange 10 7 0 0 1 7]

/-- The tokens of the three lines `a = f(1);`, `foo;` and `bbb = 2;`. -/
def callSkipTokens : TokenTable :=
  [varToken 0, equalToken 0 0, mkToken TokenKind.identifier 0, mkToken TokenKind.l_paren 0,
   { Kind := TokenKind.unknown, NestingLevel := 1, LparenCount := 1 },
   { Kind := TokenKind.r_paren, NestingLevel := 1, LparenCount := 1 },
   mkToken TokenKind.semi 0,
   mkToken TokenKind.identifier 0, mkToken TokenKind.semi 0,
   varToken 0, equalToken 0 9, mkToken TokenKind.unknown 0, mkToken TokenKind.semi 0]

/-- The ledger of the three lines `a = f(1);`, `foo;` and `bbb = 2;`: the `=`
are the records 1 and 10, in columns 2 and 4; the second line has no `=`. -/
def callSkipChanges : Changes :=
  [mkChange 0 0 0 0 1 0, mkChange 1 2 0 1 1 1, mkChange 2 4 0 1 1 3, mkChange 3 5 0 0 1 5,
   mkChange 4 6 0 0 1 6, mkChange 5 7 0 0 1 7, mkChange 6 8 0 0 1 8,
   mkChange 7 0 1 0 3 9, mkChange 8 3 0 0 1 3,
   mkChange 9 0 1 0 3 4, mkChange 10 4 0 1 1 3, mkChange 11 6 0 1 1 5, mkChange 12 7 0 0 1 7]

/-- The tokens of the lines `a = 1;`, `bbb = 2;`, two empty lines,
`cccccc = 3;`, `d = 4;`. -/
def twoSectionTokens : TokenTable :=
  [varToken 0, equalToken 0 0, mkToken TokenKind.unknown 0, mkToken TokenKind.semi 0,
   varToken 0, equalToken 0 4, mkToken TokenKind.unknown 0, mkToken TokenKind.semi 0,
   varToken 0, equalToken 0 8, mkToken TokenKind.unknown 0, mkToken TokenKind.semi 0,
   varToken 0, equalToken 0 12, mkToken TokenKind.unknown 0, mkToken TokenKind.semi 0]

/-- The ledger of the lines `a = 1;`, `bbb = 2;`, two empty lines,
`cccccc = 3;`, `d = 4;`: the `=` are the records 1, 5, 9 and 13, in columns
2, 4, 7 and 2; the record of `cccccc` has NewlinesBefore = 3. -/
def twoSectionChanges : Changes :=
  [mkChange 0 0 0 0 1 0, mkChange 1 2 0 1 1 1, mkChange 2 4 0 1 1 3, mkChange 3 5 0 0 1 5,
   mkChange 4 0 1 0 3 6, mkChange 5 4 0 1 1 3, mkChange 6 6 0 1 1 5, mkChange 7 7 0 0 1 7,
   mkChange 8 0 3 0 6 8, mkChange 9 7 0 1 1 6, mkChange 10 9 0 1 1 8, mkChange 11 10 0 0 1 10,
   mkChange 12 0 1 0 1 11, mkChange 13 2 0 1 1 1, mkChange 14 4 0 1 1 3, mkChange 15 5 0 0 1 5]

/-- The ledger of the lines `a = 1;`, two empty lines, `bbb = 2;`: the
record of `bbb` has NewlinesBefore = 3. -/
def farApartChanges : Changes :=
  [mkChange 0 0 0 0 1 0, mkChange 1 2 0 1 1 1, mkChange 2 4 0 1 1 3, mkChange 3 5 0 0 1 5,
   mkChange 4 0 3 0 3 6, mkChange 5 4 0 1 1 3, mkChange 6 6 0 1 1 5, mkChange 7 7 0 0 1 7]


/-! ## The two ways in which the loop ends a sequence -/

/-- The loop ends the pending sequence at the head of the loop body at
record i: the record starts a line and the test of line 713 holds. -/
def lineEndsSequenceAt (T : TokenTable) (Style : FormatStyle) (P : Tally.Policy) (M : Predicate)
    (cs : Changes) (i : Nat) : Bool :=
  decide ((Changes.at cs i).NewlinesBefore ≠ 0) && (pendingAt T Style P M cs i).breaksLine P cs i

/-- The loop ends the pending sequence at one of the two checks for the
matching record i (lines 737 and 757). -/
def matchEndsSequenceAt (T : TokenTable) (Style : FormatStyle) (P : Tally.Policy) (M : Predicate)
    (cs : Changes) (i : Nat) : Bool :=
  M cs i &&
    ((((pendingAt T Style P M cs i).head P cs i).comma T P cs i).breaksAtMatch P ||
     ((((pendingAt T Style P M cs i).head P cs i).comma T P cs i).noted P i).leavesWindow
        Style P cs i)

end ClangFormat

namespace ClangFormat

/-! ## Example ledgers on which the loop and the lines disagree -/

/-- The tokens of the two lines `int a = 1;` and `int bbbbbb = 2, c = 3;`. -/
def twoOnLineTokens : TokenTable :=
  [mkToken TokenKind.unknown 0, varToken 0, equalToken 0 1, mkToken TokenKind.unknown 0,
   mkToken TokenKind.semi 0,
   mkToken TokenKind.unknown 0, varToken 0, equalToken 0 6, mkToken TokenKind.unknown 0,
   mkToken TokenKind.comma 0, varToken 0, equalToken 0 10, mkToken TokenKind.unknown 0,
   mkToken TokenKind.semi 0]

/-- The ledger of the two lines `int a = 1;` and `int bbbbbb = 2, c = 3;`:
the `=` are the records 2, 7 and 11, in columns 6, 11 and 18. -/
def twoOnLineChanges : Changes :=
  [mkChange 0 0 0 0 3 0, mkChange 1 4 0 1 1 3, mkChange 2 6 0 1 1 5, mkChange 3 8 0 1 1 7,
   mkChange 4 9 0 0 1 9,
   mkChange 5 0 1 0 3 10, mkChange 6 4 0 1 6 3, mkChange 7 11 0 1 1 10, mkChange 8 13 0 1 1 12,
   mkChange 9 14 0 0 1 14, mkChange 10 16 0 1 1 15, mkChange 11 18 0 1 1 17,
   mkChange 12 20 0 1 1 19, mkChange 13 21 0 0 1 21]

/-- The tokens of three lines `a = p q`, `bbb = 2;` and `c = 3;` in which p
has nesting level 1 and q nesting level 2, so that the level drops by two
from q to the record that starts the second line. -/
def dropTokens : TokenTable :=
  [varToken 0, equalToken 0 0, mkToken TokenKind.unknown 1, mkToken TokenKind.unknown 2,
   varToken 0, equalToken 0 4, mkToken TokenKind.unknown 0, mkToken TokenKind.semi 0,
   varToken 0, equalToken 0 8, mkToken TokenKind.unknown 0, mkToken TokenKind.semi 0]

/-- The ledger of the three lines above: the `=` are the records 1, 5 and 9,
in columns 2, 4 and 2. -/
def dropChanges : Changes :=
  [mkChange 0 0 0 0 1 0, mkChange 1 2 0 1 1 1, mkChange 2 4 0 1 1 3, mkChange 3 6 0 1 1 5,
   mkChange 4 0 1 0 3 7, mkChange 5 4 0 1 1 3, mkChange 6 6 0 1 1 5, mkChange 7 7 0 0 1 7,
   mkChange 8 0 1 0 1 8, mkChange 9 2 0 1 1 1, mkChange 10 4 0 1 1 3, mkChange 11 5 0 0 1 5]

/-- The tokens of the two lines `aaa = 1;` and `b = {c = 2};`.  The tokens
between the braces, and the closing brace, have nesting level 1. -/
def innerMatchTokens : TokenTable :=
  [varToken 0, equalToken 0 0, mkToken TokenKind.unknown 0, mkToken TokenKind.semi 0,
   varToken 0, equalToken 0 4, mkToken TokenKind.l_brace 0,
   varToken 1, equalToken 1 7, mkToken TokenKind.unknown 1, mkToken TokenKind.r_brace 1,
   mkToken TokenKind.semi 0]

/-- The ledger of the two lines above: the `=` are the records 1, 5 and 8,
in columns 4, 2 and 7. -/
def innerMatchChanges : Changes :=
  [mkChange 0 0 0 0 3 0, mkChange 1 4 0 1 1 3, mkChange 2 6 0 1 1 5, mkChange 3 7 0 0 1 7,
   mkChange 4 0 1 0 1 8, mkChange 5 2 0 1 1 1, mkChange 6 4 0 1 1 3,
   mkChange 7 5 0 0 1 5, mkChange 8 7 0 1 1 6, mkChange 9 9 0 1 1 8, mkChange 10 10 0 0 1 10,
   mkChange 11 11 0 0 1 11]

/-- The policy of the campaign on `=` across sections with
ForceAlignToFourSpaces set. -/
def snappingPolicy : Tally.Policy :=
  { equalsAcrossSectionsPolicy with ForceAlignToFourSpaces := true }

/-- The tokens of the three lines `int x, y(1,`, `2), a = 1;` and
`int q, bbb = 2;`.  The tokens between the parentheses, and the closing
parenthesis, have nesting level 1 and LparenCount 1. -/
def wrappedBeforeTokens : TokenTable :=
  [mkToken TokenKind.unknown 0, varToken 0, mkToken TokenKind.comma 0, varToken 0,
   mkToken TokenKind.l_paren 0,
   { Kind := TokenKind.unknown, NestingLevel := 1, LparenCount := 1 },
   { Kind := TokenKind.comma, NestingLevel := 1, LparenCount := 1 },
   { Kind := TokenKind.unknown, NestingLevel := 1, LparenCount := 1 },
   { Kind := TokenKind.r_paren, NestingLevel := 1, LparenCount := 1 },
   mkToken TokenKind.comma 0, varToken 0, equalToken 0 10, mkToken TokenKind.unknown 0,
   mkToken TokenKind.semi 0,
   mkToken TokenKind.unknown 0, varToken 0, mkToken TokenKind.comma 0, varToken 0,
   equalToken 0 17, mkToken TokenKind.unknown 0, mkToken TokenKind.semi 0]

/-- The ledger of the three lines above: record 7, the argument `2`, starts
the second line; the `=` are the records 11 and 18, in columns 7 and 11. -/
def wrappedBeforeChanges : Changes :=
  [mkChange 0 0 0 0 3 0, mkChange 1 4 0 1 1 3, mkChange 2 5 0 0 1 5, mkChange 3 7 0 1 1 6,
   mkChange 4 8 0 0 1 8, mkChange 5 9 0 0 1 9, mkChange 6 10 0 0 1 10,
   mkChange 7 9 1 9 1 11, mkChange 8 10 0 0 1 10, mkChange 9 11 0 0 1 11,
   mkChange 10 13 0 1 1 12, mkChange 11 15 0 1 1 14, mkChange 12 17 0 1 1 16,
   mkChange 13 18 0 0 1 18,
   mkChange 14 0 1 0 3 19, mkChange 15 4 0 1 1 3, mkChange 16 5 0 0 1 5, mkChange 17 7 0 1 3 6,
   mkChange 18 11 0 1 1 10, mkChange 19 13 0 1 1 12, mkChange 20 14 0 0 1 14]

/-- The tokens of the lines `a = f(1,`, two empty lines, `2);` and
`bbb = 3;`.  The tokens between the parentheses, and the closing
parenthesis, have nesting level 1 and LparenCount 1. -/
def gapInCallTokens : TokenTable :=
  [varToken 0, equalToken 0 0, mkToken TokenKind.identifier 0, mkToken TokenKind.l_paren 0,
   { Kind := TokenKind.unknown, NestingLevel := 1, LparenCount := 1 },
   { Kind := TokenKind.comma, NestingLevel := 1, LparenCount := 1 },
   { Kind := TokenKind.unknown, NestingLevel := 1, LparenCount := 1 },
   { Kind := TokenKind.r_paren, NestingLevel := 1, LparenCount := 1 },
   mkToken TokenKind.semi 0,
   varToken 0, equalToken 0 9, mkToken TokenKind.unknown 0, mkToken TokenKind.semi 0]

/-- The ledger of the lines above: record 6, the argument `2`, starts a line
after two empty lines (NewlinesBefore = 3); the `=` are the records 1 and 10,
in columns 2 and 4. -/
def gapInCallChanges : Changes :=
  [mkChange 0 0 0 0 1 0, mkChange 1 2 0 1 1 1, mkChange 2 4 0 1 1 3, mkChange 3 5 0 0 1 5,
   mkChange 4 6 0 0 1 6, mkChange 5 7 0 0 1 7,
   mkChange 6 6 3 6 1 8, mkChange 7 7 0 0 1 7, mkChange 8 8 0 0 1 8,
   mkChange 9 0 1 0 3 9, mkChange 10 4 0 1 1 3, mkChange 11 6 0 1 1 5, mkChange 12 7 0 0 1 7]

/-- The ledger of the two lines `v;` and `int a;`, the first one indented by
12 columns: the first five records of the ledger of `v;`, `int a;`,
`double bb;`. -/
def firstPairChanges : Changes := (firstRecordChanges 12).take 5

/-- The policy of the campaign on scoped variable names. -/
def scopedVarNamePolicy : Tally.Policy :=
  { IgnoreScope := false, IgnoreCommas := false, MaxNewlinesBeforeSectionBreak := 2,
    NonMatchingLineBreaksSection := true, AllowBeyondColumnLimitForAlignment := true,
    MaxLeadingSpacesForAlignment := UINT_MAX, ForceAlignToFourSpaces := false }


/-- The tokens of the three lines `int aaaaaaaaaaaaaaaaaa = 1;`, `int b = 2;`
and `int cccccccccc = 3;`. -/
def farTokens : TokenTable :=
  [mkToken TokenKind.unknown 0, varToken 0, equalToken 0 1, mkToken TokenKind.unknown 0,
   mkToken TokenKind.semi 0,
   mkToken TokenKind.unknown 0, varToken 0, equalToken 0 6, mkToken TokenKind.unknown 0,
   mkToken TokenKind.semi 0,
   mkToken TokenKind.unknown 0, varToken 0, equalToken 0 11, mkToken TokenKind.unknown 0,
   mkToken TokenKind.semi 0]

/-- The ledger of the three lines above: the `=` are the records 2, 7 and
12, in columns 23, 6 and 15. -/
def farChanges : Changes :=
  [mkChange 0 0 0 0 3 0, mkChange 1 4 0 1 18 3, mkChange 2 23 0 1 1 22, mkChange 3 25 0 1 1 24,
   mkChange 4 26 0 0 1 26,
   mkChange 5 0 1 0 3 27, mkChange 6 4 0 1 1 3, mkChange 7 6 0 1 1 5, mkChange 8 8 0 1 1 7,
   mkChange 9 9 0 0 1 9,
   mkChange 10 0 1 0 3 10, mkChange 11 4 0 1 10 3, mkChange 12 15 0 1 1 14,
   mkChange 13 17 0 1 1 16, mkChange 14 18 0 0 1 18]

/-- The manager holding the ledger above, with assignment alignment on. -/
def farManager : WhitespaceManager :=
  { Changes := farChanges, Toks := farTokens, Style := { AlignConsecutiveAssignments := true } }

/-! ## Ledgers that are aligned already -/

/-- Every sequence of the ledger is settled: each matching record after
record 0 that passes the test of AlignTokenSequence stands in the column that
is pending at the index at which the loop ends its sequence, that is, in the
column with which the loop flushes the sequence. -/
def sequencesSettled (T : TokenTable) (Style : FormatStyle) (P : Tally.Policy) (M : Predicate)
    (cs : Changes) : Bool :=
  (List.range cs.length).all (fun j =>
    !M cs j || decide (j = 0) || !Tally.matchAllowed T cs j ||
      (List.range (cs.length + 1)).all (fun f =>
        !sequenceEndsAt T Style P M cs j f ||
          decide ((Changes.at cs j).StartOfTokenColumn = (pendingAt T Style P M cs f).MinColumn)))


/-! ## Commas before a matching record -/

/-- The commas that the loop of the call from record 0 counts on a line:
countedCommasSeen T P cs (i + 1) is the number of commas, not left to a
recursive call, among the records of the line of record i up to and
including record i; 0 for the index 0. -/
def countedCommasSeen (T : TokenTable) (P : Tally.Policy) (cs : Changes) : Nat → Nat
  | 0 => 0
  | i + 1 =>
    (if (Changes.at cs i).NewlinesBefore ≠ 0 then 0 else countedCommasSeen T P cs i) +
      (if countedComma T P cs i then 1 else 0)

/-- Record i is within the limit of leading spaces and within the column
window of the sequence that is pending when the loop comes to i (the tests of
lines 757 to 761 without the comma count). -/
def withinPendingWindow (T : TokenTable) (Style : FormatStyle) (P : Tally.Policy) (M : Predicate)
    (cs : Changes) (i : Nat) : Bool :=
  decide (toUnsigned (Tally.leadingSpacesReqd (Changes.at cs i).StartOfTokenColumn
      (pendingAt T Style P M cs i).MinColumn) ≤ P.MaxLeadingSpacesForAlignment) &&
    decide ((Changes.at cs i).StartOfTokenColumn ≤ (pendingAt T Style P M cs i).MaxColumn) &&
    decide ((pendingAt T Style P M cs i).MinColumn ≤ Tally.ChangeMaxColumn Style P cs i)

/-- The tokens of the three lines `int a = 1;`, `int bbb = 2;` and
`int q, cc = 3;`. -/
def commaTokens : TokenTable :=
  [mkToken TokenKind.unknown 0, varToken 0, equalToken 0 1, mkToken TokenKind.unknown 0,
   mkToken TokenKind.semi 0,
   mkToken TokenKind.unknown 0, varToken 0, equalToken 0 6, mkToken TokenKind.unknown 0,
   mkToken TokenKind.semi 0,
   mkToken TokenKind.unknown 0, varToken 0, mkToken TokenKind.comma 0, varToken 0,
   equalToken 0 13, mkToken TokenKind.unknown 0, mkToken TokenKind.semi 0]

/-- The ledger of the three lines above: the `=` are the records 2, 7 and
14, in columns 6, 8 and 10; record 12 is the comma. -/
def commaChanges : Changes :=
  [mkChange 0 0 0 0 3 0, mkChange 1 4 0 1 1 3, mkChange 2 6 0 1 1 5, mkChange 3 8 0 1 1 7,
   mkChange 4 9 0 0 1 9,
   mkChange 5 0 1 0 3 10, mkChange 6 4 0 1 3 3, mkChange 7 8 0 1 1 7, mkChange 8 10 0 1 1 9,
   mkChange 9 11 0 0 1 11,
   mkChange 10 0 1 0 3 12, mkChange 11 4 0 1 1 3, mkChange 12 5 0 0 1 5, mkChange 13 7 0 1 2 6,
   mkChange 14 10 0 1 1 9, mkChange 15 12 0 1 1 11, mkChange 16 13 0 0 1 13]

/-- The tokens of the two lines `int x(1, 2), a = 1;` and `int q, bbb = 2;`.
The tokens between the parentheses, and the closing parenthesis, have nesting
level 1 and LparenCount 1. -/
def innerCommaTokens : TokenTable :=
  [mkToken TokenKind.unknown 0, varToken 0, mkToken TokenKind.l_paren 0,
   { Kind := TokenKind.unknown, NestingLevel := 1, LparenCount := 1 },
   { Kind := TokenKind.comma, NestingLevel := 1, LparenCount := 1 },
   { Kind := TokenKind.unknown, NestingLevel := 1, LparenCount := 1 },
   { Kind := TokenKind.r_paren, NestingLevel := 1, LparenCount := 1 },
   mkToken TokenKind.comma 0, varToken 0, equalToken 0 8, mkToken TokenKind.unknown 0,
   mkToken TokenKind.semi 0,
   mkToken TokenKind.unknown 0, varToken 0, mkToken TokenKind.comma 0, varToken 0,
   equalToken 0 15, mkToken TokenKind.unknown 0, mkToken TokenKind.semi 0]

/-- The ledger of the two lines above: the `=` are the records 9 and 16, in
columns 15 and 11; the commas are the records 4, between the parentheses, 7
and 14. -/
def innerCommaChanges : Changes :=
  [mkChange 0 0 0 0 3 0, mkChange 1 4 0 1 1 3, mkChange 2 5 0 0 1 5, mkChange 3 6 0 0 1 6,
   mkChange 4 7 0 0 1 7, mkChange 5 9 0 1 1 8, mkChange 6 10 0 0 1 10, mkChange 7 11 0 0 1 11,
   mkChange 8 13 0 1 1 12, mkChange 9 15 0 1 1 14, mkChange 10 17 0 1 1 16,
   mkChange 11 18 0 0 1 18,
   mkChange 12 0 1 0 3 19, mkChange 13 4 0 1 1 3, mkChange 14 5 0 0 1 5, mkChange 15 7 0 1 3 6,
   mkChange 16 11 0 1 1 10, mkChange 17 13 0 1 1 12, mkChange 18 14 0 0 1 14]

/-- The policy of the campaign on `=` across sections with IgnoreCommas
set. -/
def commaBlindPolicy : Tally.Policy :=
  { equalsAcrossSectionsPolicy with IgnoreCommas := true }

/-- The ledger of the two lines `aa = f(1);` and `bbbb = 2;`, with the tokens
of `a = f(1);` and `bbb = 2;`: the `=` are the records 1 and 8, in columns 3
and 5. -/
def callWideChanges : Changes :=
  [mkChange 0 0 0 0 2 0, mkChange 1 3 0 1 1 2, mkChange 2 5 0 1 1 4, mkChange 3 6 0 0 1 6,
   mkChange 4 7 0 0 1 7, mkChange 5 8 0 0 1 8, mkChange 6 9 0 0 1 9,
   mkChange 7 0 1 0 4 10, mkChange 8 5 0 1 1 4, mkChange 9 7 0 1 1 6, mkChange 10 8 0 0 1 8]

end ClangFormat

namespace ClangFormat

/-! ## The pass pipeline around the Tally campaigns -/

/-- The passes of generateReplacements before the Tally campaigns (lines 95
to 105): the sort, calculateLineBreakInformation and the six columnarize
passes. -/
def passesBeforeCampaigns (W : WhitespaceManager) : WhitespaceManager :=
  columnarizeLParenTokensAndSplitArgs
    (columnarizeIdentifierTokens
      (columnarizeNoDiscardOrNoReturnOrTemplate
        (columnarizeDatatypeTokens
          (columnarizeDeclarationSpecifierTokens
            (columnarizeKeywords
              (calculateLineBreakInformation { W with Changes := sortChanges W.Changes }))))))

/-- The eight Tally campaigns of generateReplacements in their order (lines
107 to 114). -/
def tallyCampaigns (W : WhitespaceManager) : WhitespaceManager :=
  alignConsecutiveAssignementsOnUsing
    (alignConsecutiveLBraceOfVarDeclOrDef
      (alignConsecutiveAssignmentsOnEqualsWithinSection
        (alignConsecutiveAssignmentsOnEqualsAcrossSections
          (alignConsecutiveVarBitFields
            (alignConsecutiveAssignmentsOnVarNameWithinSection
              (alignConsecutiveAssignmentsOnVarNameAcrossSections
                (alignConsecutiveAssignmentsOnScopedVarName W)))))))

/-- The passes of generateReplacements after the Tally campaigns (lines 116
to 118). -/
def passesAfterCampaigns (W : WhitespaceManager) : WhitespaceManager :=
  alignEscapedNewlines (alignTrailingComments (alignChainedConditionals W))

/-- The predicate of alignConsecutiveLBraceOfVarDeclOrDef (lines 812 to
815). -/
def lbraceMatches (T : TokenTable) : Predicate := fun cs i =>
  (T.at (Changes.at cs i).Tok).isLBraceOfConstexprOrVarDelcOrDef &&
    (T.at (Changes.at cs i).Tok).HasSemiColonInLine

/-- The predicate of alignConsecutiveAssignmentsOnVarNameAcrossSections
(lines 849 to 856). -/
def varNameAcrossSectionsMatches (T : TokenTable) : Predicate := fun cs i =>
  let t := T.at (Changes.at cs i).Tok
  t.isVarNameInDecl && t.HasSemiColonInLine && decide (t.LbraceCount > 0) && t.IsClassScope

/-- The policy of alignConsecutiveAssignmentsOnVarNameAcrossSections (lines
857 to 860); the campaign on bit-field colons has the same policy (lines 908
to 911). -/
def varNameAcrossSectionsPolicy : Tally.Policy :=
  { IgnoreScope := false, IgnoreCommas := false, MaxNewlinesBeforeSectionBreak := 2,
    NonMatchingLineBreaksSection := false, AllowBeyondColumnLimitForAlignment := true,
    MaxLeadingSpacesForAlignment := UINT_MAX, ForceAlignToFourSpaces := false }

/-- The predicate of alignConsecutiveAssignmentsOnVarNameWithinSection
(lines 870 to 877). -/
def varNameWithinSectionMatches (T : TokenTable) : Predicate := fun cs i =>
  let t := T.at (Changes.at cs i).Tok
  t.isVarNameInDecl && t.HasSemiColonInLine && !t.IsClassScope

/-- The policy of alignConsecutiveAssignmentsOnVarNameWithinSection (lines
878 to 882). -/
def varNameWithinSectionPolicy : Tally.Policy :=
  { IgnoreScope := false, IgnoreCommas := false, MaxNewlinesBeforeSectionBreak := 2,
    NonMatchingLineBreaksSection := false, AllowBeyondColumnLimitForAlignment := true,
    MaxLeadingSpacesForAlignment := UINT_MAX, ForceAlignToFourSpaces := true }

/-- The ledger of the manager is anchored at its first record and every
sequence is settled for the predicate and the policy of a campaign. -/
def settledFor (W : WhitespaceManager) (M : Predicate) (P : Tally.Policy) : Bool :=
  anchoredLedger W.Toks P M W.Changes && sequencesSettled W.Toks W.Style P M W.Changes

/-- The ledger of the manager is settled for every Tally campaign of
generateReplacements that runs on it: for the campaign on bit-field colons,
which tests no switch, and, if AlignConsecutiveAssignments is on, for the
seven other campaigns. -/
def campaignsSettled (W : WhitespaceManager) : Bool :=
  settledFor W (bitFieldMatches W.Toks) varNameAcrossSectionsPolicy &&
  (!W.Style.AlignConsecutiveAssignments ||
    (settledFor W (scopedVarNameMatches W.Toks) scopedVarNamePolicy &&
     settledFor W (varNameAcrossSectionsMatches W.Toks) varNameAcrossSectionsPolicy &&
     settledFor W (varNameWithinSectionMatches W.Toks) varNameWithinSectionPolicy &&
     settledFor W (equalsAcrossSectionsMatches W.Toks) equalsAcrossSectionsPolicy &&
     settledFor W (equalsWithinSectionMatches W.Toks) equalsWithinSectionPolicy &&
     settledFor W (lbraceMatches W.Toks) usingPolicy &&
     settledFor W (usingMatches W.Toks W.Lines) usingPolicy))

/-! ## A source text of two sections -/

/-- The source text of the lines `a = 1;`, `bbb = 2;`, two empty lines,
`cccccc = 3;`, `d = 4;`. -/
def sectionsSource : List Char := "a = 1;\nbbb = 2;\n\n\ncccccc = 3;\nd = 4;\n".toList

/-- The tokens of the source text above and the end of the file. -/
def sectionsTokens : TokenTable := twoSectionTokens ++ [mkToken TokenKind.eof 0]

/-- The ledger of the source text above as it is created: every record keeps
the whitespace before its token. -/
def sectionsChanges : Changes :=
  [mkSourceChange 0 0 0 0 0 0, mkSourceChange 1 1 2 2 0 1, mkSourceChange 2 3 4 4 0 1,
   mkSourceChange 3 5 5 5 0 0,
   mkSourceChange 4 6 7 0 1 0, mkSourceChange 5 10 11 4 0 1, mkSourceChange 6 12 13 6 0 1,
   mkSourceChange 7 14 14 7 0 0,
   mkSourceChange 8 15 18 0 3 0, mkSourceChange 9 24 25 7 0 1, mkSourceChange 10 26 27 9 0 1,
   mkSourceChange 11 28 28 10 0 0,
   mkSourceChange 12 29 30 0 1 0, mkSourceChange 13 31 32 2 0 1, mkSourceChange 14 33 34 4 0 1,
   mkSourceChange 15 35 35 5 0 0,
   mkSourceChange 16 36 37 0 1 0]

/-- The manager holding the ledger above, with assignment alignment on. -/
def sectionsManager : WhitespaceManager :=
  { Changes := sectionsChanges, Toks := sectionsTokens, SourceText := sectionsSource,
    Style := { AlignConsecutiveAssignments := true } }

/-- A record of a ledger that the passes have laid out: token, original
whitespace range, column, line breaks before, spaces, token length and
previous end column. -/
def mkLaidChange (Tok OriginalWhitespaceBegin OriginalWhitespaceEnd StartOfTokenColumn
    NewlinesBefore : Nat) (Spaces : Int) (TokenLength PreviousEndOfTokenColumn : Nat) : Change :=
  { Tok := Tok, OriginalWhitespaceBegin := OriginalWhitespaceBegin,
    OriginalWhitespaceEnd := OriginalWhitespaceEnd, StartOfTokenColumn := StartOfTokenColumn,
    NewlinesBefore := NewlinesBefore, Spaces := Spaces, TokenLength := TokenLength,
    PreviousEndOfTokenColumn := PreviousEndOfTokenColumn }

/-- The manager that the pass pipeline makes of the manager above: the `=`
stand in columns 4, 4, 7 and 7. -/
def sectionsAligned : WhitespaceManager :=
  { sectionsManager with Changes :=
    [mkLaidChange 0 0 0 0 0 0 1 0, mkLaidChange 1 1 2 4 0 3 1 1, mkLaidChange 2 3 4 6 0 1 1 5,
     mkLaidChange 3 5 5 7 0 0 1 7,
     mkLaidChange 4 6 7 0 1 0 3 8, mkLaidChange 5 10 11 4 0 1 1 3,
     mkLaidChange 6 12 13 6 0 1 1 5, mkLaidChange 7 14 14 7 0 0 1 7,
     mkLaidChange 8 15 18 0 3 0 6 8, mkLaidChange 9 24 25 7 0 1 1 6,
     mkLaidChange 10 26 27 9 0 1 1 8, mkLaidChange 11 28 28 10 0 0 1 10,
     mkLaidChange 12 29 30 0 1 0 1 11, mkLaidChange 13 31 32 7 0 6 1 1,
     mkLaidChange 14 33 34 9 0 1 1 8, mkLaidChange 15 35 35 10 0 0 1 10,
     mkLaidChange 16 36 37 0 1 0 0 11] }

/-! ## A source text whose first `=` stands far to the right -/

/-- The source text of the three lines `int aaaaaaaaaaaaaaaaaa = 1;`,
`int b = 2;` and `int cccccccccc = 3;`. -/
def farSource : List Char :=
  "int aaaaaaaaaaaaaaaaaa = 1;\nint b = 2;\nint cccccccccc = 3;\n".toList

/-- The ledger of the source text above as it is created; the last record is
that of the end of the file. -/
def farSourceChanges : Changes :=
  [mkSourceChange 0 0 0 0 0 0, mkSourceChange 1 3 4 4 0 1, mkSourceChange 2 22 23 23 0 1,
   mkSourceChange 3 24 25 25 0 1, mkSourceChange 4 26 26 26 0 0,
   mkSourceChange 5 27 28 0 1 0, mkSourceChange 6 31 32 4 0 1, mkSourceChange 7 33 34 6 0 1,
   mkSourceChange 8 35 36 8 0 1, mkSourceChange 9 37 37 9 0 0,
   mkSourceChange 10 38 39 0 1 0, mkSourceChange 11 42 43 4 0 1, mkSourceChange 12 53 54 15 0 1,
   mkSourceChange 13 55 56 17 0 1, mkSourceChange 14 57 57 18 0 0,
   mkSourceChange 15 58 59 0 1 0]

/-- The manager holding the ledger above, with assignment alignment on. -/
def farSourceManager : WhitespaceManager :=
  { Changes := farSourceChanges, Toks := farTokens ++ [mkToken TokenKind.eof 0],
    SourceText := farSource, Style := { AlignConsecutiveAssignments := true } }

/-- The manager that the pass pipeline makes of the manager above: the `=`
stand in columns 23, 15 and 15. -/
def farAligned : WhitespaceManager :=
  { farSourceManager with Changes :=
    [mkLaidChange 0 0 0 0 0 0 3 0, mkLaidChange 1 3 4 4 0 1 18 3,
     mkLaidChange 2 22 23 23 0 1 1 22, mkLaidChange 3 24 25 25 0 1 1 24,
     mkLaidChange 4 26 26 26 0 0 1 26,
     mkLaidChange 5 27 28 0 1 0 3 27, mkLaidChange 6 31 32 4 0 1 1 3,
     mkLaidChange 7 33 34 15 0 10 1 5, mkLaidChange 8 35 36 17 0 1 1 16,
     mkLaidChange 9 37 37 18 0 0 1 18,
     mkLaidChange 10 38 39 0 1 0 3 19, mkLaidChange 11 42 43 4 0 1 10 3,
     mkLaidChange 12 53 54 15 0 1 1 14, mkLaidChange 13 55 56 17 0 1 1 16,
     mkLaidChange 14 57 57 18 0 0 1 18,
     mkLaidChange 15 58 59 0 1 0 0 19] }

end ClangFormat

namespace ClangFormat

/-! ## Properties: reading and writing the ledger -/

theorem Changes.at_eq_getElem (cs : Changes) (i : Nat) (h : i < cs.length) :
    Changes.at cs i = cs[i] := by
  simp [Changes.at, List.getD_eq_getElem?_getD, List.getElem?_eq_getElem h]

theorem Changes.at_of_le (cs : Changes) (i : Nat) (h : cs.length ≤ i) :
    Changes.at cs i = {} := by
  simp [Changes.at, List.getD_eq_getElem?_getD, List.getElem?_eq_none h]

theorem Changes.at_set_self (cs : Changes) (i : Nat) (c : Change) (h : i < cs.length) :
    Changes.at (cs.set i c) i = c := by
  simp [Changes.at, List.getD_eq_getElem?_getD, List.getElem?_set, h]

theorem Changes.at_set_ne (cs : Changes) (i j : Nat) (c : Change) (h : i ≠ j) :
    Changes.at (cs.set i c) j = Changes.at cs j := by
  simp [Changes.at, List.getD_eq_getElem?_getD, List.getElem?_set, h]

theorem Changes.at_set (cs : Changes) (i j : Nat) (c : Change) :
    Changes.at (cs.set i c) j = if i = j ∧ i < cs.length then c else Changes.at cs j := by
  by_cases h : i = j
  · subst h
    by_cases hl : i < cs.length
    · simp [hl, Changes.at_set_self]
    · have : cs.set i c = cs := by
        apply List.set_eq_of_length_le
        omega
      simp [hl, this]
  · simp [h, Changes.at_set_ne]

theorem Changes.ext_at (a b : Changes) (hl : a.length = b.length)
    (h : ∀ i, i < a.length → Changes.at a i = Changes.at b i) : a = b := by
  apply List.ext_getElem hl
  intro i h1 h2
  have := h i h1
  rwa [Changes.at_eq_getElem a i h1, Changes.at_eq_getElem b i h2] at this

/-! ## Machine integers -/

theorem toUnsigned_of_range (z : Int) (h0 : 0 ≤ z) (h1 : z < 4294967296) :
    (toUnsigned z : Int) = z := by
  unfold toUnsigned
  omega

theorem toUnsigned_lt (z : Int) : toUnsigned z < 4294967296 := by
  unfold toUnsigned
  omega

theorem toInt_toUnsigned (z : Int) (h0 : -2147483648 ≤ z) (h1 : z < 2147483648) :
    toInt (toUnsigned z) = z := by
  unfold toInt toUnsigned
  split <;> omega

/-! ## Frames -/

theorem SameFrame.refl (a : Changes) : SameFrame a a := rfl

theorem SameFrame.symm {a b : Changes} (h : SameFrame a b) : SameFrame b a := Eq.symm h

theorem SameFrame.trans {a b c : Changes} (h1 : SameFrame a b) (h2 : SameFrame b c) :
    SameFrame a c := Eq.trans h1 h2

theorem SameFrame.length_eq {a b : Changes} (h : SameFrame a b) : a.length = b.length := by
  have := congrArg List.length h
  simpa using this

theorem Change.frame_default : Change.frame {} = {} := rfl

theorem SameFrame.frame_at {a b : Changes} (h : SameFrame a b) (i : Nat) :
    (Changes.at a i).frame = (Changes.at b i).frame := by
  have hl := h.length_eq
  by_cases hi : i < a.length
  · have hb : i < b.length := by omega
    rw [Changes.at_eq_getElem a i hi, Changes.at_eq_getElem b i hb]
    have h1 : (a.map Change.frame)[i]? = (b.map Change.frame)[i]? := by
      unfold SameFrame at h
      rw [h]
    simpa [List.getElem?_map, List.getElem?_eq_getElem hi, List.getElem?_eq_getElem hb] using h1
  · rw [Changes.at_of_le a i (by omega), Changes.at_of_le b i (by omega)]

theorem SameFrame.of_frame_at {a b : Changes} (hl : a.length = b.length)
    (h : ∀ i, i < a.length → (Changes.at a i).frame = (Changes.at b i).frame) :
    SameFrame a b := by
  unfold SameFrame
  apply List.ext_getElem (by simpa using hl)
  intro i h1 h2
  have h1' : i < a.length := by simpa using h1
  have h2' : i < b.length := by simpa using h2
  have := h i h1'
  rw [Changes.at_eq_getElem a i h1', Changes.at_eq_getElem b i h2'] at this
  simpa using this

theorem SameFrame.set {cs : Changes} (i : Nat) (c : Change)
    (h : c.frame = (Changes.at cs i).frame) : SameFrame (cs.set i c) cs := by
  apply SameFrame.of_frame_at (by simp)
  intro j _
  rw [Changes.at_set]
  split
  · rename_i hj
    rw [← hj.1]
    exact h
  · rfl

theorem SameFrame.tok {a b : Changes} (h : SameFrame a b) (i : Nat) :
    (Changes.at a i).Tok = (Changes.at b i).Tok :=
  by
  have h1 : (Changes.at a i).frame.Tok = (Changes.at b i).frame.Tok := by rw [h.frame_at i]
  exact h1

theorem SameFrame.newlinesBefore {a b : Changes} (h : SameFrame a b) (i : Nat) :
    (Changes.at a i).NewlinesBefore = (Changes.at b i).NewlinesBefore :=
  by
  have h1 : (Changes.at a i).frame.NewlinesBefore = (Changes.at b i).frame.NewlinesBefore := by rw [h.frame_at i]
  exact h1

theorem SameFrame.tokenLength {a b : Changes} (h : SameFrame a b) (i : Nat) :
    (Changes.at a i).TokenLength = (Changes.at b i).TokenLength :=
  by
  have h1 : (Changes.at a i).frame.TokenLength = (Changes.at b i).frame.TokenLength := by rw [h.frame_at i]
  exact h1

theorem SameFrame.level {a b : Changes} (T : TokenTable) (h : SameFrame a b) (i : Nat) :
    indentAndNestingLevel T (Changes.at a i) = indentAndNestingLevel T (Changes.at b i) := by
  have h1 := h.tok i
  have h2 : (Changes.at a i).ConditionalsLevel = (Changes.at b i).ConditionalsLevel := by
    have h3 : (Changes.at a i).frame.ConditionalsLevel = (Changes.at b i).frame.ConditionalsLevel := by
      rw [h.frame_at i]
    exact h3
  unfold indentAndNestingLevel
  rw [h1, h2]

end ClangFormat

namespace ClangFormat

/-! ## The aligners keep the frame -/

theorem addSpaces_sameFrame (cs : Changes) (i : Nat) (z : Int) :
    SameFrame (addSpaces cs i z) cs :=
  SameFrame.set i _ rfl

theorem addStartOfTokenColumn_sameFrame (cs : Changes) (i : Nat) (z : Int) :
    SameFrame (addStartOfTokenColumn cs i z) cs :=
  SameFrame.set i _ rfl

theorem addPreviousEndOfTokenColumn_sameFrame (cs : Changes) (i : Nat) (z : Int) :
    SameFrame (addPreviousEndOfTokenColumn cs i z) cs :=
  SameFrame.set i _ rfl

theorem shiftColumns_sameFrame (cs : Changes) (i : Nat) (Shift : Int) :
    SameFrame (shiftColumns cs i Shift) cs := by
  unfold shiftColumns
  simp only []
  split
  · exact SameFrame.trans (addPreviousEndOfTokenColumn_sameFrame _ _ _)
      (addStartOfTokenColumn_sameFrame _ _ _)
  · exact addStartOfTokenColumn_sameFrame _ _ _

theorem stock_sequenceStep_sameFrame (T : TokenTable) (M : Predicate) (Start Column : Nat)
    (s : SeqState) (i : Nat) :
    SameFrame (Stock.sequenceStep T M Start Column s i).Changes s.Changes := by
  unfold Stock.sequenceStep
  simp only []
  refine SameFrame.trans (shiftColumns_sameFrame _ _ _) ?_
  repeat' first
    | exact SameFrame.refl _
    | exact addSpaces_sameFrame _ _ _
    | exact SameFrame.trans (addSpaces_sameFrame _ _ _) (addSpaces_sameFrame _ _ _)
    | split

theorem tally_sequenceStep_sameFrame (T : TokenTable) (M : Predicate) (IgnoreScope : Bool)
    (Start Column : Nat) (s : SeqState) (i : Nat) :
    SameFrame (Tally.sequenceStep T M IgnoreScope Start Column s i).Changes s.Changes := by
  unfold Tally.sequenceStep
  simp only []
  refine SameFrame.trans (shiftColumns_sameFrame _ _ _) ?_
  repeat' first
    | exact SameFrame.refl _
    | exact addSpaces_sameFrame _ _ _
    | exact SameFrame.trans (addSpaces_sameFrame _ _ _) (addSpaces_sameFrame _ _ _)
    | split

theorem foldl_sameFrame (step : SeqState → Nat → SeqState)
    (h : ∀ s i, SameFrame (step s i).Changes s.Changes) (l : List Nat) (s : SeqState) :
    SameFrame (l.foldl step s).Changes s.Changes := by
  induction l generalizing s with
  | nil => exact SameFrame.refl _
  | cons a l ih => exact SameFrame.trans (ih (step s a)) (h s a)

theorem stock_AlignTokenSequence_sameFrame (T : TokenTable) (Start End Column : Nat)
    (M : Predicate) (cs : Changes) :
    SameFrame (Stock.AlignTokenSequence T Start End Column M cs).Changes cs :=
  foldl_sameFrame _ (stock_sequenceStep_sameFrame T M Start Column) _ _

theorem tally_AlignTokenSequence_sameFrame (T : TokenTable) (Start End Column : Nat)
    (M : Predicate) (cs : Changes) (IgnoreScope IgnoreCommas : Bool) :
    SameFrame (Tally.AlignTokenSequence T Start End Column M cs IgnoreScope IgnoreCommas).Changes cs :=
  foldl_sameFrame _ (tally_sequenceStep_sameFrame T M IgnoreScope Start Column) _ _

theorem stock_AlignCurrentSequence_sameFrame (T : TokenTable) (M : Predicate) (s : AlignState) :
    SameFrame (Stock.AlignCurrentSequence T M s).Changes s.Changes := by
  unfold Stock.AlignCurrentSequence
  simp only []
  split
  · exact stock_AlignTokenSequence_sameFrame _ _ _ _ _ _
  · exact SameFrame.refl _

theorem tally_AlignCurrentSequence_sameFrame (T : TokenTable) (P : Tally.Policy) (M : Predicate)
    (s : AlignState) : SameFrame (Tally.AlignCurrentSequence T P M s).Changes s.Changes := by
  unfold Tally.AlignCurrentSequence
  simp only []
  split
  · exact tally_AlignTokenSequence_sameFrame _ _ _ _ _ _ _ _
  · exact SameFrame.refl _

@[simp] theorem noteMatch_changes (s : AlignState) (i : Nat) :
    (noteMatch s i).Changes = s.Changes := rfl

@[simp] theorem widen_changes (s : AlignState) (a b : Nat) :
    (widen s a b).Changes = s.Changes := rfl

theorem stock_lineStart_sameFrame (T : TokenTable) (M : Predicate) (s : AlignState) (i : Nat) :
    SameFrame (Stock.lineStart T M s i).Changes s.Changes := by
  unfold Stock.lineStart
  simp only []
  split
  · exact stock_AlignCurrentSequence_sameFrame _ _ _
  · exact SameFrame.refl _

theorem stock_matchFlush_sameFrame (T : TokenTable) (M : Predicate) (s : AlignState) :
    SameFrame (Stock.matchFlush T M s).Changes s.Changes := by
  unfold Stock.matchFlush
  split
  · exact stock_AlignCurrentSequence_sameFrame _ _ _
  · exact SameFrame.refl _

theorem stock_restrict_sameFrame (T : TokenTable) (Style : FormatStyle) (M : Predicate)
    (s : AlignState) (i : Nat) :
    SameFrame (Stock.restrict T Style M s i).Changes s.Changes := by
  unfold Stock.restrict
  split
  · exact stock_AlignCurrentSequence_sameFrame _ _ _
  · exact SameFrame.refl _

theorem stock_matchStep_sameFrame (T : TokenTable) (Style : FormatStyle) (M : Predicate)
    (s : AlignState) (i : Nat) :
    SameFrame (Stock.matchStep T Style M s i).Changes s.Changes := by
  unfold Stock.matchStep
  simp only [widen_changes]
  exact SameFrame.trans (stock_restrict_sameFrame _ _ _ _ _) (stock_matchFlush_sameFrame _ _ _)

theorem stock_overload_keepsFrame (T : TokenTable) (Style : FormatStyle) (M : Predicate) :
    (Stock.overload T Style M).KeepsFrame where
  lineStart := stock_lineStart_sameFrame T M
  matchStep := stock_matchStep_sameFrame T Style M
  flush := stock_AlignCurrentSequence_sameFrame T M

theorem tally_lineStart_sameFrame (T : TokenTable) (P : Tally.Policy) (M : Predicate)
    (s : AlignState) (i : Nat) :
    SameFrame (Tally.lineStart T P M s i).Changes s.Changes := by
  unfold Tally.lineStart
  simp only []
  split
  · exact tally_AlignCurrentSequence_sameFrame _ _ _ _
  · exact SameFrame.refl _

theorem tally_matchFlush_sameFrame (T : TokenTable) (P : Tally.Policy) (M : Predicate)
    (s : AlignState) : SameFrame (Tally.matchFlush T P M s).Changes s.Changes := by
  unfold Tally.matchFlush
  split
  · exact tally_AlignCurrentSequence_sameFrame _ _ _ _
  · exact SameFrame.refl _

theorem tally_restrict_sameFrame (T : TokenTable) (Style : FormatStyle) (P : Tally.Policy)
    (M : Predicate) (s : AlignState) (i : Nat) :
    SameFrame (Tally.restrict T Style P M s i).Changes s.Changes := by
  unfold Tally.restrict
  split
  · exact tally_AlignCurrentSequence_sameFrame _ _ _ _
  · exact SameFrame.refl _

@[simp] theorem tally_forceFour_changes (P : Tally.Policy) (s : AlignState) :
    (Tally.forceFour P s).Changes = s.Changes := by
  unfold Tally.forceFour
  split <;> rfl

theorem tally_matchStep_sameFrame (T : TokenTable) (Style : FormatStyle) (P : Tally.Policy)
    (M : Predicate) (s : AlignState) (i : Nat) :
    SameFrame (Tally.matchStep T Style P M s i).Changes s.Changes := by
  unfold Tally.matchStep
  simp only [widen_changes, tally_forceFour_changes]
  exact SameFrame.trans (tally_restrict_sameFrame _ _ _ _ _ _) (tally_matchFlush_sameFrame _ _ _ _)

theorem tally_overload_keepsFrame (T : TokenTable) (Style : FormatStyle) (P : Tally.Policy)
    (M : Predicate) : (Tally.overload T Style P M).KeepsFrame where
  lineStart := tally_lineStart_sameFrame T P M
  matchStep := tally_matchStep_sameFrame T Style P M
  flush := tally_AlignCurrentSequence_sameFrame T P M

end ClangFormat

namespace ClangFormat

/-! ## AlignTokens returns, and where it stops -/

theorem Level.lt_irrefl (a : Level) : Level.lt a a = false := by
  unfold Level.lt
  simp

theorem Level.lt_trans {a b c : Level} (h1 : Level.lt a b = true) (h2 : Level.lt b c = true) :
    Level.lt a c = true := by
  unfold Level.lt at *
  simp only [Bool.or_eq_true, Bool.and_eq_true, decide_eq_true_eq] at *
  omega

theorem Level.lt_asymm {a b : Level} (h1 : Level.lt a b = true) : Level.lt b a = false := by
  cases h : Level.lt b a
  · rfl
  · have := Level.lt_trans h1 h
    rw [Level.lt_irrefl] at this
    exact absurd this (by simp)

@[simp] theorem countComma_changes (T : TokenTable) (s : AlignState) (i : Nat) :
    (countComma T s i).Changes = s.Changes := by
  unfold countComma
  split <;> rfl

theorem scanHead_sameFrame (O : Overload) (hO : O.KeepsFrame) (s : AlignState) (i : Nat) :
    SameFrame (scanHead O s i).Changes s.Changes := by
  unfold scanHead
  split
  · exact hO.lineStart s i
  · exact SameFrame.refl _

theorem scanTail_sameFrame (T : TokenTable) (O : Overload) (hO : O.KeepsFrame) (s : AlignState)
    (i : Nat) : SameFrame (scanTail T O s i).Changes s.Changes := by
  unfold scanTail
  split
  · have := hO.matchStep (countComma T s i) i
    rwa [countComma_changes] at this
  · rw [countComma_changes]
    exact SameFrame.refl _

/-- What the loop of AlignTokens needs of a recursive call started at a
record j: it returns, keeps the frame, and stops beyond j at the end of the
ledger or at a record below the level of j, having passed no such record. -/
theorem scanLoop_spec (T : TokenTable) (O : Overload) (hO : O.KeepsFrame)
    (recCall : Changes → Nat → Option AlignResult) (anchor : Level) (cs : Changes) (d : Nat)
    (hrec : ∀ cs' j, SameFrame cs' cs → j < cs.length → cs.length - j ≤ d →
      ∃ r, recCall cs' j = some r ∧ SameFrame r.Changes cs' ∧ j < r.StoppedAt ∧
        r.StoppedAt ≤ cs.length ∧
        (r.StoppedAt = cs.length ∨
          Level.lt (indentAndNestingLevel T (cs.at r.StoppedAt))
            (indentAndNestingLevel T (cs.at j)) = true) ∧
        ∀ k, j ≤ k → k < r.StoppedAt →
          Level.lt (indentAndNestingLevel T (cs.at k)) (indentAndNestingLevel T (cs.at j)) = false) :
    ∀ (fuel i : Nat) (s : AlignState), SameFrame s.Changes cs → i ≤ cs.length →
      cs.length - i < fuel →
      (cs.length - i ≤ d ∨ (cs.length - i ≤ d + 1 ∧
        Level.lt anchor (indentAndNestingLevel T (cs.at i)) = false)) →
      ∃ s' r, scanLoop T O recCall anchor fuel s i = some (s', r) ∧ SameFrame s'.Changes cs ∧
        i ≤ r ∧ r ≤ cs.length ∧
        (i < cs.length → Level.lt (indentAndNestingLevel T (cs.at i)) anchor = false → i < r) ∧
        (r = cs.length ∨ Level.lt (indentAndNestingLevel T (cs.at r)) anchor = true) ∧
        ∀ k, i ≤ k → k < r → Level.lt (indentAndNestingLevel T (cs.at k)) anchor = false := by
  intro fuel
  induction fuel with
  | zero => intro i s _ _ h; omega
  | succ fuel ih =>
    intro i s hs hi hfuel hd
    have hlen : s.Changes.length = cs.length := hs.length_eq
    rw [scanLoop]
    by_cases h1 : i = cs.length
    · rw [if_pos (by omega)]
      exact ⟨s, i, rfl, hs, le_refl _, hi, fun h => by omega, Or.inl h1, fun k a b => by omega⟩
    · rw [if_neg (by omega)]
      have hi' : i < cs.length := by omega
      have hlv : indentAndNestingLevel T (s.Changes.at i) = indentAndNestingLevel T (cs.at i) :=
        hs.level T i
      rw [hlv]
      by_cases h2' : Level.lt (indentAndNestingLevel T (cs.at i)) anchor = true
      swap
      · rw [if_neg h2']
        have h2 : Level.lt (indentAndNestingLevel T (cs.at i)) anchor = false := by
          simpa using h2'
        have hs1 : SameFrame (scanHead O s i).Changes cs :=
          SameFrame.trans (scanHead_sameFrame O hO s i) hs
        have hnext : ∀ s2 : AlignState, SameFrame s2.Changes cs →
            ∃ s' r, scanLoop T O recCall anchor fuel s2 (i + 1) = some (s', r) ∧
              SameFrame s'.Changes cs ∧ i ≤ r ∧ r ≤ cs.length ∧
              (i < cs.length → Level.lt (indentAndNestingLevel T (cs.at i)) anchor = false → i < r) ∧
              (r = cs.length ∨ Level.lt (indentAndNestingLevel T (cs.at r)) anchor = true) ∧
              ∀ k, i ≤ k → k < r → Level.lt (indentAndNestingLevel T (cs.at k)) anchor = false := by
          intro s2 hs2
          obtain ⟨s', r, e, f, g1, g2, _, g4, g5⟩ :=
            ih (i + 1) s2 hs2 (by omega) (by omega) (Or.inl (by omega))
          refine ⟨s', r, e, f, by omega, g2, fun _ _ => by omega, g4, ?_⟩
          intro k hk1 hk2
          by_cases hk : k = i
          · rw [hk]; exact h2
          · exact g5 k (by omega) hk2
        have hm : SameFrame (scanTail T O (scanHead O s i) i).Changes cs :=
          SameFrame.trans (scanTail_sameFrame T O hO _ i) hs1
        split
        · rename_i hdel
          unfold delegated at hdel
          rw [hs1.level T i] at hdel
          simp only [Bool.and_eq_true] at hdel
          have hdi : cs.length - i ≤ d := by
            rcases hd with hd | hd
            · exact hd
            · rw [hd.2] at hdel
              exact absurd hdel.2 (by simp)
          obtain ⟨r, e, f, g1, g2, g3, g4⟩ := hrec (scanHead O s i).Changes i hs1 hi' hdi
          rw [e]
          simp only []
          obtain ⟨s', r', e', f', q1, q2, _, q4, q5⟩ :=
            ih r.StoppedAt { scanHead O s i with
                Changes := r.Changes
                AssertsHeld := (scanHead O s i).AssertsHeld && r.AssertsHeld }
              (SameFrame.trans f hs1) g2 (by omega) (Or.inl (by omega))
          refine ⟨s', r', e', f', by omega, q2, fun _ _ => by omega, q4, ?_⟩
          intro k hk1 hk2
          by_cases hk : k < r.StoppedAt
          · have h5 := g4 k hk1 hk
            cases h6 : Level.lt (indentAndNestingLevel T (cs.at k)) anchor
            · rfl
            · have := Level.lt_trans h6 hdel.2
              rw [h5] at this
              exact absurd this (by simp)
          · exact q5 k (by omega) hk2
        · exact hnext _ hm
      · rw [if_pos h2']
        exact ⟨s, i, rfl, hs, le_refl _, hi, fun _ h => by rw [h2'] at h; exact absurd h (by simp),
          Or.inr h2', fun k a b => by omega⟩

theorem alignTokensAux_spec (T : TokenTable) (O : Overload) (hO : O.KeepsFrame) :
    ∀ (depth : Nat) (cs : Changes) (StartAt : Nat), StartAt ≤ cs.length →
      cs.length - StartAt ≤ depth →
      ∃ r, alignTokensAux T O (depth + 1) cs StartAt = some r ∧ SameFrame r.Changes cs ∧
        StartAt ≤ r.StoppedAt ∧ r.StoppedAt ≤ cs.length ∧
        (StartAt < cs.length → StartAt < r.StoppedAt) ∧
        (r.StoppedAt = cs.length ∨
          Level.lt (indentAndNestingLevel T (cs.at r.StoppedAt))
            (indentAndNestingLevel T (cs.at StartAt)) = true) ∧
        ∀ k, StartAt ≤ k → k < r.StoppedAt →
          Level.lt (indentAndNestingLevel T (cs.at k))
            (indentAndNestingLevel T (cs.at StartAt)) = false := by
  intro depth
  induction depth with
  | zero =>
    intro cs StartAt h1 h2
    have hS : StartAt = cs.length := by omega
    rw [alignTokensAux]
    simp only []
    rw [if_neg (by omega)]
    rw [scanLoop, if_pos hS]
    simp only []
    refine ⟨_, rfl, hO.flush _, le_refl _, ?_, ?_, Or.inl hS, ?_⟩
    · show StartAt ≤ cs.length
      omega
    · intro h
      omega
    · intro k a b
      have b' : k < StartAt := b
      omega
  | succ depth ih =>
    intro cs StartAt h1 h2
    rw [alignTokensAux]
    simp only []
    by_cases hS : StartAt = cs.length
    · rw [if_neg (by omega)]
      rw [scanLoop, if_pos hS]
      simp only []
      refine ⟨_, rfl, hO.flush _, le_refl _, ?_, ?_, Or.inl hS, ?_⟩
      · show StartAt ≤ cs.length
        omega
      · intro h
        omega
      · intro k a b
        have b' : k < StartAt := b
        omega
    · rw [if_pos (by omega)]
      have hrec : ∀ cs' j, SameFrame cs' cs → j < cs.length → cs.length - j ≤ depth →
          ∃ r, alignTokensAux T O (depth + 1) cs' j = some r ∧ SameFrame r.Changes cs' ∧
            j < r.StoppedAt ∧ r.StoppedAt ≤ cs.length ∧
            (r.StoppedAt = cs.length ∨
              Level.lt (indentAndNestingLevel T (cs.at r.StoppedAt))
                (indentAndNestingLevel T (cs.at j)) = true) ∧
            ∀ k, j ≤ k → k < r.StoppedAt →
              Level.lt (indentAndNestingLevel T (cs.at k))
                (indentAndNestingLevel T (cs.at j)) = false := by
        intro cs' j hf hj hdj
        have hl := hf.length_eq
        obtain ⟨r, e, f, g1, g2, g3, g4, g5⟩ := ih cs' j (by omega) (by omega)
        refine ⟨r, e, f, g3 (by omega), by omega, ?_, ?_⟩
        · rcases g4 with g4 | g4
          · exact Or.inl (by omega)
          · rw [hf.level T, hf.level T] at g4
            exact Or.inr g4
        · intro k hk1 hk2
          have := g5 k hk1 hk2
          rwa [hf.level T, hf.level T] at this
      obtain ⟨s', r, e, f, q1, q2, q3, q4, q5⟩ :=
        scanLoop_spec T O hO (alignTokensAux T O (depth + 1))
          (indentAndNestingLevel T (cs.at StartAt)) cs depth hrec (cs.length + 1) StartAt
          { Changes := cs } (SameFrame.refl _) h1 (by omega)
          (Or.inr ⟨by omega, Level.lt_irrefl _⟩)
      rw [e]
      simp only []
      refine ⟨_, rfl, SameFrame.trans (hO.flush _) f, q1, q2, ?_, q4, q5⟩
      intro h
      exact q3 h (Level.lt_irrefl _)

end ClangFormat

namespace ClangFormat

/-! ## Invariants of the loop of AlignTokens -/

theorem scanLoop_inv (T : TokenTable) (O : Overload)
    (recCall : Changes → Nat → Option AlignResult) (anchor : Level) (Inv : AlignState → Prop)
    (hhead : ∀ s i, Inv s → Inv (scanHead O s i))
    (htail : ∀ s i, Inv s → Inv (scanTail T O s i))
    (hrec : ∀ s i r, Inv s → recCall s.Changes i = some r →
      Inv { s with Changes := r.Changes, AssertsHeld := s.AssertsHeld && r.AssertsHeld }) :
    ∀ (fuel : Nat) (s : AlignState) (i : Nat) (s' : AlignState) (r : Nat), Inv s →
      scanLoop T O recCall anchor fuel s i = some (s', r) → Inv s' := by
  intro fuel
  induction fuel with
  | zero =>
    intro s i s' r _ h
    rw [scanLoop] at h
    exact absurd h (by simp)
  | succ fuel ih =>
    intro s i s' r hs h
    rw [scanLoop] at h
    split at h
    · simp only [Option.some.injEq, Prod.mk.injEq] at h
      rw [← h.1]
      exact hs
    · split at h
      · simp only [Option.some.injEq, Prod.mk.injEq] at h
        rw [← h.1]
        exact hs
      · split at h
        · split at h
          · exact absurd h (by simp)
          · rename_i r1 hr1
            exact ih _ _ _ _ (hrec _ i r1 (hhead s i hs) hr1) h
        · exact ih _ _ _ _ (htail _ i (hhead s i hs)) h

/-- An invariant of the loop that every part of the loop body keeps, and
that a recursive call keeps through its postcondition, gives the
postcondition of AlignTokens whenever it returns. -/
theorem alignTokensAux_inv (T : TokenTable) (O : Overload)
    (Inv : Changes → AlignState → Prop) (Post : Changes → AlignResult → Prop)
    (hinit : ∀ cs, Inv cs { Changes := cs })
    (hhead : ∀ cs s i, Inv cs s → Inv cs (scanHead O s i))
    (htail : ∀ cs s i, Inv cs s → Inv cs (scanTail T O s i))
    (hrec : ∀ cs s r, Inv cs s → Post s.Changes r →
      Inv cs { s with Changes := r.Changes, AssertsHeld := s.AssertsHeld && r.AssertsHeld })
    (hfin : ∀ cs s i, Inv cs s →
      Post cs { Changes := (O.flush { s with EndOfSequence := i }).Changes
                AssertsHeld := (O.flush { s with EndOfSequence := i }).AssertsHeld
                StoppedAt := i }) :
    ∀ (depth : Nat) (cs : Changes) (StartAt : Nat) (r : AlignResult),
      alignTokensAux T O depth cs StartAt = some r → Post cs r := by
  intro depth
  induction depth with
  | zero =>
    intro cs StartAt r h
    rw [alignTokensAux] at h
    exact absurd h (by simp)
  | succ depth ih =>
    intro cs StartAt r h
    rw [alignTokensAux] at h
    simp only [] at h
    split at h
    · exact absurd h (by simp)
    · rename_i s i hloop
      simp only [Option.some.injEq] at h
      rw [← h]
      apply hfin
      exact scanLoop_inv T O _ _ (Inv cs) (hhead cs) (htail cs)
        (fun s i r hs hr => hrec cs s r hs (ih _ _ _ hr)) _ _ _ _ _ (hinit cs) hloop

end ClangFormat

namespace ClangFormat

/-! ## The comment and escaped-newline passes keep the frame -/

theorem foldl_frame {σ : Type} (proj : σ → Changes) (step : σ → Nat → σ)
    (h : ∀ s i, SameFrame (proj (step s i)) (proj s)) (l : List Nat) (s : σ) :
    SameFrame (proj (l.foldl step s)) (proj s) := by
  induction l generalizing s with
  | nil => exact SameFrame.refl _
  | cons a l ih => exact SameFrame.trans (ih (step s a)) (h s a)

theorem applyCommentShift_sameFrame (cs : Changes) (i : Nat) (Shift : Int) :
    SameFrame (applyCommentShift cs i Shift) cs := by
  unfold applyCommentShift
  simp only []
  refine SameFrame.trans (addStartOfTokenColumn_sameFrame _ _ _) ?_
  split
  · exact SameFrame.trans (addPreviousEndOfTokenColumn_sameFrame _ _ _) (addSpaces_sameFrame _ _ _)
  · exact addSpaces_sameFrame _ _ _

theorem trailingCommentShift_sameFrame (Column : Nat) (st : Changes × Bool) (i : Nat) :
    SameFrame (trailingCommentShift Column st i).1 st.1 :=
  applyCommentShift_sameFrame _ _ _

theorem alignTrailingCommentsRange_sameFrame (cs : Changes) (Start End Column : Nat) :
    SameFrame (alignTrailingCommentsRange cs Start End Column).1 cs :=
  foldl_frame (fun st : Changes × Bool => st.1) _ (trailingCommentShift_sameFrame Column) _ _

theorem flushTrailing_sameFrame (s : TrailingState) (i a b : Nat) :
    SameFrame (flushTrailing s i a b).Changes s.Changes :=
  alignTrailingCommentsRange_sameFrame _ _ _ _

theorem trailingDecision_sameFrame (T : TokenTable) (Style : FormatStyle) (src : List Char)
    (s : TrailingState) (i : Nat) :
    SameFrame (trailingDecision T Style src s i).Changes s.Changes := by
  unfold trailingDecision
  simp only []
  split
  · exact flushTrailing_sameFrame _ _ _ _
  · split
    · exact flushTrailing_sameFrame _ _ _ _
    · exact SameFrame.refl _

theorem trailingCommentStep_sameFrame (T : TokenTable) (Style : FormatStyle) (src : List Char)
    (s : TrailingState) (i : Nat) :
    SameFrame (trailingCommentStep T Style src s i).Changes s.Changes := by
  unfold trailingCommentStep
  split
  · exact SameFrame.refl _
  · split
    · exact SameFrame.refl _
    · exact trailingDecision_sameFrame T Style src (countNewlines T s i) i

theorem alignTrailingCommentsOn_sameFrame (T : TokenTable) (Style : FormatStyle)
    (src : List Char) (cs : Changes) :
    SameFrame (alignTrailingCommentsOn T Style src cs).1 cs := by
  unfold alignTrailingCommentsOn
  simp only []
  exact SameFrame.trans (alignTrailingCommentsRange_sameFrame _ _ _ _)
    (foldl_frame (fun s : TrailingState => s.Changes) _ (trailingCommentStep_sameFrame T Style src) _ _)

theorem escapedNewlineSet_sameFrame (Column : Nat) (st : Changes × Bool) (i : Nat) :
    SameFrame (escapedNewlineSet Column st i).1 st.1 := by
  unfold escapedNewlineSet
  simp only []
  split
  · exact SameFrame.set i _ rfl
  · exact SameFrame.refl _

theorem alignEscapedNewlinesRange_sameFrame (st : Changes × Bool) (Start End Column : Nat) :
    SameFrame (alignEscapedNewlinesRange st Start End Column).1 st.1 :=
  foldl_frame (fun st : Changes × Bool => st.1) _ (escapedNewlineSet_sameFrame Column) _ _

theorem escapedNewlineStep_sameFrame (Style : FormatStyle) (s : EscapedState) (i : Nat) :
    SameFrame (escapedNewlineStep Style s i).Changes s.Changes := by
  unfold escapedNewlineStep
  simp only []
  split
  · split
    · exact SameFrame.refl _
    · exact alignEscapedNewlinesRange_sameFrame _ _ _ _
  · exact SameFrame.refl _

theorem alignEscapedNewlinesOn_sameFrame (Style : FormatStyle) (cs : Changes) :
    SameFrame (alignEscapedNewlinesOn Style cs).1 cs := by
  unfold alignEscapedNewlinesOn
  split
  · exact SameFrame.refl _
  · simp only []
    exact SameFrame.trans (alignEscapedNewlinesRange_sameFrame _ _ _ _)
      (foldl_frame (fun s : EscapedState => s.Changes) _ (escapedNewlineStep_sameFrame Style) _ _)

theorem tally_AlignTokens_returns (T : TokenTable) (Style : FormatStyle) (M : Predicate)
    (cs : Changes) (P : Tally.Policy) (StartAt : Nat) (h : StartAt ≤ cs.length) :
    ∃ r, Tally.AlignTokens T Style M cs P StartAt = some r ∧ SameFrame r.Changes cs ∧
      StartAt ≤ r.StoppedAt ∧ r.StoppedAt ≤ cs.length := by
  obtain ⟨r, e, f, g1, g2, _⟩ :=
    alignTokensAux_spec T (Tally.overload T Style P M) (tally_overload_keepsFrame T Style P M)
      cs.length cs StartAt h (by omega)
  exact ⟨r, e, f, g1, g2⟩

theorem stock_AlignTokens_returns (T : TokenTable) (Style : FormatStyle) (M : Predicate)
    (cs : Changes) (StartAt : Nat) (h : StartAt ≤ cs.length) :
    ∃ r, Stock.AlignTokens T Style M cs StartAt = some r ∧ SameFrame r.Changes cs ∧
      StartAt ≤ r.StoppedAt ∧ r.StoppedAt ≤ cs.length := by
  obtain ⟨r, e, f, g1, g2, _⟩ :=
    alignTokensAux_spec T (Stock.overload T Style M) (stock_overload_keepsFrame T Style M)
      cs.length cs StartAt h (by omega)
  exact ⟨r, e, f, g1, g2⟩

end ClangFormat

namespace ClangFormat

/-! ## The fields written by the statements of AlignTokenSequence -/

@[simp] theorem addSpaces_length (cs : Changes) (i : Nat) (z : Int) :
    (addSpaces cs i z).length = cs.length := by
  simp [addSpaces]

@[simp] theorem addStartOfTokenColumn_length (cs : Changes) (i : Nat) (z : Int) :
    (addStartOfTokenColumn cs i z).length = cs.length := by
  simp [addStartOfTokenColumn]

@[simp] theorem addPreviousEndOfTokenColumn_length (cs : Changes) (i : Nat) (z : Int) :
    (addPreviousEndOfTokenColumn cs i z).length = cs.length := by
  simp [addPreviousEndOfTokenColumn]

@[simp] theorem shiftColumns_length (cs : Changes) (i : Nat) (z : Int) :
    (shiftColumns cs i z).length = cs.length := by
  unfold shiftColumns
  simp only []
  split <;> simp

theorem addSpaces_spaces (cs : Changes) (i : Nat) (z : Int) (j : Nat) :
    (Changes.at (addSpaces cs i z) j).Spaces =
      if i = j ∧ i < cs.length then (Changes.at cs j).Spaces + z else (Changes.at cs j).Spaces := by
  unfold addSpaces
  rw [Changes.at_set]
  split
  · rename_i h
    rw [h.1]
  · rfl

theorem addSpaces_start (cs : Changes) (i : Nat) (z : Int) (j : Nat) :
    (Changes.at (addSpaces cs i z) j).StartOfTokenColumn = (Changes.at cs j).StartOfTokenColumn := by
  unfold addSpaces
  rw [Changes.at_set]
  split
  · rename_i h
    rw [h.1]
  · rfl

theorem addSpaces_prevEnd (cs : Changes) (i : Nat) (z : Int) (j : Nat) :
    (Changes.at (addSpaces cs i z) j).PreviousEndOfTokenColumn =
      (Changes.at cs j).PreviousEndOfTokenColumn := by
  unfold addSpaces
  rw [Changes.at_set]
  split
  · rename_i h
    rw [h.1]
  · rfl

theorem addStartOfTokenColumn_spaces (cs : Changes) (i : Nat) (z : Int) (j : Nat) :
    (Changes.at (addStartOfTokenColumn cs i z) j).Spaces = (Changes.at cs j).Spaces := by
  unfold addStartOfTokenColumn
  rw [Changes.at_set]
  split
  · rename_i h
    rw [h.1]
  · rfl

theorem addStartOfTokenColumn_start (cs : Changes) (i : Nat) (z : Int) (j : Nat) :
    (Changes.at (addStartOfTokenColumn cs i z) j).StartOfTokenColumn =
      if i = j ∧ i < cs.length then toUnsigned (((Changes.at cs j).StartOfTokenColumn : Int) + z)
      else (Changes.at cs j).StartOfTokenColumn := by
  unfold addStartOfTokenColumn
  rw [Changes.at_set]
  split
  · rename_i h
    rw [h.1]
  · rfl

theorem addStartOfTokenColumn_prevEnd (cs : Changes) (i : Nat) (z : Int) (j : Nat) :
    (Changes.at (addStartOfTokenColumn cs i z) j).PreviousEndOfTokenColumn =
      (Changes.at cs j).PreviousEndOfTokenColumn := by
  unfold addStartOfTokenColumn
  rw [Changes.at_set]
  split
  · rename_i h
    rw [h.1]
  · rfl

theorem addPreviousEndOfTokenColumn_spaces (cs : Changes) (i : Nat) (z : Int) (j : Nat) :
    (Changes.at (addPreviousEndOfTokenColumn cs i z) j).Spaces = (Changes.at cs j).Spaces := by
  unfold addPreviousEndOfTokenColumn
  rw [Changes.at_set]
  split
  · rename_i h
    rw [h.1]
  · rfl

theorem addPreviousEndOfTokenColumn_start (cs : Changes) (i : Nat) (z : Int) (j : Nat) :
    (Changes.at (addPreviousEndOfTokenColumn cs i z) j).StartOfTokenColumn =
      (Changes.at cs j).StartOfTokenColumn := by
  unfold addPreviousEndOfTokenColumn
  rw [Changes.at_set]
  split
  · rename_i h
    rw [h.1]
  · rfl

theorem addPreviousEndOfTokenColumn_prevEnd (cs : Changes) (i : Nat) (z : Int) (j : Nat) :
    (Changes.at (addPreviousEndOfTokenColumn cs i z) j).PreviousEndOfTokenColumn =
      if i = j ∧ i < cs.length then
        toUnsigned (((Changes.at cs j).PreviousEndOfTokenColumn : Int) + z)
      else (Changes.at cs j).PreviousEndOfTokenColumn := by
  unfold addPreviousEndOfTokenColumn
  rw [Changes.at_set]
  split
  · rename_i h
    rw [h.1]
  · rfl

theorem shiftColumns_spaces (cs : Changes) (i : Nat) (z : Int) (j : Nat) :
    (Changes.at (shiftColumns cs i z) j).Spaces = (Changes.at cs j).Spaces := by
  unfold shiftColumns
  simp only []
  split
  · rw [addPreviousEndOfTokenColumn_spaces, addStartOfTokenColumn_spaces]
  · rw [addStartOfTokenColumn_spaces]

theorem shiftColumns_start (cs : Changes) (i : Nat) (z : Int) (j : Nat) :
    (Changes.at (shiftColumns cs i z) j).StartOfTokenColumn =
      if i = j ∧ i < cs.length then toUnsigned (((Changes.at cs j).StartOfTokenColumn : Int) + z)
      else (Changes.at cs j).StartOfTokenColumn := by
  unfold shiftColumns
  simp only []
  split
  · rw [addPreviousEndOfTokenColumn_start, addStartOfTokenColumn_start]
  · rw [addStartOfTokenColumn_start]

theorem shiftColumns_prevEnd (cs : Changes) (i : Nat) (z : Int) (j : Nat) :
    (Changes.at (shiftColumns cs i z) j).PreviousEndOfTokenColumn =
      if i + 1 = j ∧ i + 1 < cs.length then
        toUnsigned (((Changes.at cs j).PreviousEndOfTokenColumn : Int) + z)
      else (Changes.at cs j).PreviousEndOfTokenColumn := by
  unfold shiftColumns
  simp only []
  split
  · rw [addPreviousEndOfTokenColumn_prevEnd, addStartOfTokenColumn_prevEnd]
    simp
  · rename_i h
    rw [addStartOfTokenColumn_prevEnd]
    simp only [addStartOfTokenColumn_length, ne_eq, not_not] at h
    rw [if_neg]
    omega

/-! ## The scope stack reads the frame only -/

theorem previousNonComment_frame (T : TokenTable) {a b : Changes} (h : SameFrame a b)
    (Start p : Nat) : previousNonComment T a Start p = previousNonComment T b Start p := by
  induction p with
  | zero => rfl
  | succ p ih =>
    unfold previousNonComment
    rw [h.tok (p + 1), ih]

theorem scopeStackAt_frame (T : TokenTable) {a b : Changes} (h : SameFrame a b)
    (Start i : Nat) (stack : List Nat) :
    scopeStackAt T a Start i stack = scopeStackAt T b Start i stack := by
  unfold scopeStackAt
  simp only [previousNonComment_frame T h, SameFrame.level T h]

theorem afterFunctionDeclarationName_frame (T : TokenTable) {a b : Changes} (h : SameFrame a b)
    (Start : Nat) (stack : List Nat) :
    afterFunctionDeclarationName T a Start stack = afterFunctionDeclarationName T b Start stack := by
  unfold afterFunctionDeclarationName
  simp only [h.tok]

theorem scopeStackBefore_succ (T : TokenTable) (cs : Changes) (Start k : Nat) :
    scopeStackBefore T cs Start (Start + (k + 1)) = scopeStackOf T cs Start (Start + k) := by
  unfold scopeStackOf scopeStackBefore
  have e1 : Start + (k + 1) - Start = k + 1 := by omega
  have e2 : Start + k - Start = k := by omega
  rw [e1, e2, List.range'_concat, List.foldl_append]
  simp only [one_mul, List.foldl_cons, List.foldl_nil]

end ClangFormat

namespace ClangFormat

/-! ## Spaces under one iteration of the Tally AlignTokenSequence -/

theorem tally_sequenceStep_scopeStack (T : TokenTable) (M : Predicate) (Start Column : Nat)
    (s : SeqState) (i : Nat) :
    (Tally.sequenceStep T M false Start Column s i).ScopeStack =
      scopeStackAt T s.Changes Start i s.ScopeStack := rfl

theorem tally_sequenceStep_spaces_ne (T : TokenTable) (M : Predicate) (ig : Bool)
    (Start Column : Nat) (s : SeqState) (i j : Nat) (h : i ≠ j) :
    (Changes.at (Tally.sequenceStep T M ig Start Column s i).Changes j).Spaces =
      (Changes.at s.Changes j).Spaces := by
  unfold Tally.sequenceStep
  simp only []
  rw [shiftColumns_spaces]
  have hn : ∀ (c : Changes) (z : Int), (Changes.at (addSpaces c i z) j).Spaces = (Changes.at c j).Spaces := by
    intro c z
    rw [addSpaces_spaces, if_neg]
    intro hh
    exact h hh.1
  repeat' split
  all_goals first
    | rfl
    | simp only [hn]

theorem tally_takesMatch_nested (T : TokenTable) (M : Predicate) (s : SeqState) (i : Nat)
    (stack : List Nat) (h : stack ≠ []) : Tally.takesMatch T M false s i stack = false := by
  unfold Tally.takesMatch
  have : stack.length ≠ 0 := by
    intro h0
    exact h (List.length_eq_zero.mp h0)
  simp [this]

theorem tally_sequenceStep_spaces_nested (T : TokenTable) (M : Predicate) (Start Column : Nat)
    (s : SeqState) (i : Nat) (hn : scopeStackAt T s.Changes Start i s.ScopeStack ≠ [])
    (hc : (Changes.at (Tally.sequenceStep T M false Start Column s i).Changes i).Spaces ≠
      (Changes.at s.Changes i).Spaces) :
    Tally.continuation T Start s.Changes i (scopeStackAt T s.Changes Start i s.ScopeStack) = true := by
  by_contra hcont
  apply hc
  unfold Tally.sequenceStep
  simp only [Bool.false_eq_true, if_false]
  rw [shiftColumns_spaces, tally_takesMatch_nested T M s i _ hn]
  simp only [Bool.false_eq_true, if_false]
  rw [if_neg hcont]

theorem tally_sequence_scope_inv (T : TokenTable) (M : Predicate) (Start Column : Nat)
    (cs : Changes) (k : Nat) :
    ((List.range' Start k).foldl (Tally.sequenceStep T M false Start Column)
        { Changes := cs }).ScopeStack = scopeStackBefore T cs Start (Start + k) ∧
    (∀ j, (j < Start ∨ Start + k ≤ j) →
      (Changes.at ((List.range' Start k).foldl (Tally.sequenceStep T M false Start Column)
        { Changes := cs }).Changes j).Spaces = (Changes.at cs j).Spaces) ∧
    (∀ j, scopeStackOf T cs Start j ≠ [] →
      (Changes.at ((List.range' Start k).foldl (Tally.sequenceStep T M false Start Column)
        { Changes := cs }).Changes j).Spaces ≠ (Changes.at cs j).Spaces →
      (Changes.at cs j).NewlinesBefore > 0 ∧
        afterFunctionDeclarationName T cs Start (scopeStackOf T cs Start j) = true) := by
  induction k with
  | zero =>
    refine ⟨?_, ?_, ?_⟩
    · simp [scopeStackBefore]
    · intro j _
      rfl
    · intro j _ h
      exact absurd rfl h
  | succ k ih =>
    obtain ⟨ih1, ih2, ih3⟩ := ih
    have hfr : SameFrame ((List.range' Start k).foldl (Tally.sequenceStep T M false Start Column)
        { Changes := cs }).Changes cs :=
      foldl_sameFrame _ (tally_sequenceStep_sameFrame T M false Start Column) _ _
    rw [List.range'_concat, List.foldl_append]
    simp only [one_mul, List.foldl_cons, List.foldl_nil]
    generalize (List.range' Start k).foldl (Tally.sequenceStep T M false Start Column)
        { Changes := cs } = s at ih1 ih2 ih3 hfr
    have hst : scopeStackAt T s.Changes Start (Start + k) s.ScopeStack =
        scopeStackOf T cs Start (Start + k) := by
      rw [scopeStackAt_frame T hfr, ih1]
      rfl
    refine ⟨?_, ?_, ?_⟩
    · rw [tally_sequenceStep_scopeStack, hst, scopeStackBefore_succ]
    · intro j hj
      rw [tally_sequenceStep_spaces_ne _ _ _ _ _ _ _ _ (by omega)]
      exact ih2 j (by omega)
    · intro j hn hc
      by_cases hj : Start + k = j
      · subst hj
        have hs := ih2 (Start + k) (Or.inr (Nat.le_refl _))
        rw [← hs] at hc
        rw [← hst] at hn
        have hcont := tally_sequenceStep_spaces_nested T M Start Column s (Start + k) hn hc
        rw [hst] at hcont
        unfold Tally.continuation at hcont
        simp only [Bool.and_eq_true, decide_eq_true_eq] at hcont
        rw [hfr.newlinesBefore, afterFunctionDeclarationName_frame T hfr] at hcont
        exact ⟨hcont.1.2, hcont.2⟩
      · rw [tally_sequenceStep_spaces_ne _ _ _ _ _ _ _ _ hj] at hc
        exact ih3 j hn hc

end ClangFormat

namespace ClangFormat

/-! ## Spaces does not shrink while the assertions hold -/

theorem spacesGrow_refl (a : Changes) : SpacesGrow a a := fun _ => Int.le_refl _

theorem spacesGrow_trans {a b c : Changes} (h1 : SpacesGrow a b) (h2 : SpacesGrow b c) :
    SpacesGrow a c := fun j => Int.le_trans (h1 j) (h2 j)

theorem grows_refl (a : AlignState) : AlignState.Grows a a :=
  fun h => ⟨h, spacesGrow_refl _⟩

theorem grows_trans {a b c : AlignState} (h1 : AlignState.Grows a b)
    (h2 : AlignState.Grows b c) : AlignState.Grows a c := fun h =>
  ⟨(h1 (h2 h).1).1, spacesGrow_trans (h1 (h2 h).1).2 (h2 h).2⟩

theorem grows_of_eq {a b : AlignState} (h1 : b.Changes = a.Changes)
    (h2 : b.AssertsHeld = a.AssertsHeld) : AlignState.Grows a b := by
  intro h
  rw [h2] at h
  refine ⟨h, ?_⟩
  rw [h1]
  exact spacesGrow_refl _

theorem addSpaces_grow (cs : Changes) (i : Nat) (z : Int) (hz : 0 ≤ z) :
    SpacesGrow cs (addSpaces cs i z) := by
  intro j
  rw [addSpaces_spaces]
  split <;> omega

theorem shiftColumns_grow (cs : Changes) (i : Nat) (z : Int) :
    SpacesGrow cs (shiftColumns cs i z) := by
  intro j
  rw [shiftColumns_spaces]

theorem tally_sequenceStep_grows (T : TokenTable) (M : Predicate) (ig : Bool)
    (Start Column : Nat) (s : SeqState) (i : Nat)
    (h : (Tally.sequenceStep T M ig Start Column s i).AssertsHeld = true) :
    s.AssertsHeld = true ∧
      SpacesGrow s.Changes (Tally.sequenceStep T M ig Start Column s i).Changes := by
  unfold Tally.sequenceStep at h ⊢
  simp only [Bool.and_eq_true, decide_eq_true_eq] at h ⊢
  obtain ⟨h1, h2⟩ := h
  refine ⟨h1, spacesGrow_trans ?_ (shiftColumns_grow _ _ _)⟩
  revert h2
  generalize (if Tally.takesMatch T M ig s i
      (if ig = true then s.ScopeStack else scopeStackAt T s.Changes Start i s.ScopeStack) = true then
      toInt (toUnsigned ((Column : Int) - (Changes.at s.Changes i).StartOfTokenColumn))
    else if lineReset s.Changes i
      (if ig = true then s.ScopeStack else scopeStackAt T s.Changes Start i s.ScopeStack) ig = true
      then 0 else s.Shift) = z
  intro hz
  repeat' split
  all_goals first
    | exact spacesGrow_refl _
    | exact addSpaces_grow _ _ _ hz
    | exact spacesGrow_trans (addSpaces_grow _ _ _ hz) (addSpaces_grow _ _ _ hz)

theorem stock_sequenceStep_grows (T : TokenTable) (M : Predicate)
    (Start Column : Nat) (s : SeqState) (i : Nat)
    (h : (Stock.sequenceStep T M Start Column s i).AssertsHeld = true) :
    s.AssertsHeld = true ∧
      SpacesGrow s.Changes (Stock.sequenceStep T M Start Column s i).Changes := by
  unfold Stock.sequenceStep at h ⊢
  simp only [Bool.and_eq_true, decide_eq_true_eq] at h ⊢
  obtain ⟨h1, h2⟩ := h
  refine ⟨h1, spacesGrow_trans ?_ (shiftColumns_grow _ _ _)⟩
  revert h2
  generalize (if Stock.takesMatch M s i (scopeStackAt T s.Changes Start i s.ScopeStack) = true then
      toInt (toUnsigned ((Column : Int) - (Changes.at s.Changes i).StartOfTokenColumn))
    else if lineReset s.Changes i (scopeStackAt T s.Changes Start i s.ScopeStack) false = true
      then 0 else s.Shift) = z
  intro hz
  repeat' split
  all_goals first
    | exact spacesGrow_refl _
    | exact addSpaces_grow _ _ _ hz
    | exact spacesGrow_trans (addSpaces_grow _ _ _ hz) (addSpaces_grow _ _ _ hz)

theorem foldl_grows (step : SeqState → Nat → SeqState)
    (hstep : ∀ s i, (step s i).AssertsHeld = true →
      s.AssertsHeld = true ∧ SpacesGrow s.Changes (step s i).Changes)
    (l : List Nat) (s : SeqState) (h : (l.foldl step s).AssertsHeld = true) :
    s.AssertsHeld = true ∧ SpacesGrow s.Changes (l.foldl step s).Changes := by
  induction l generalizing s with
  | nil => exact ⟨h, spacesGrow_refl _⟩
  | cons a l ih =>
    have h1 := ih (step s a) h
    have h2 := hstep s a h1.1
    exact ⟨h2.1, spacesGrow_trans h2.2 h1.2⟩

theorem spaces_nonneg_of_all (cs : Changes)
    (h : cs.all (fun c => decide (0 ≤ c.Spaces)) = true) (j : Nat) :
    0 ≤ (Changes.at cs j).Spaces := by
  by_cases hj : j < cs.length
  · rw [Changes.at_eq_getElem cs j hj]
    rw [List.all_eq_true] at h
    have := h cs[j] (List.getElem_mem hj)
    simpa using this
  · rw [Changes.at_of_le cs j (by omega)]

end ClangFormat

namespace ClangFormat

/-! ## Spaces does not shrink in AlignTokens while the assertions hold -/

theorem tally_AlignCurrentSequence_grows (T : TokenTable) (P : Tally.Policy) (M : Predicate)
    (s : AlignState) : AlignState.Grows s (Tally.AlignCurrentSequence T P M s) := by
  intro h
  unfold Tally.AlignCurrentSequence at h ⊢
  simp only [Bool.and_eq_true] at h ⊢
  refine ⟨h.1, ?_⟩
  split
  · rename_i hc
    rw [if_pos hc] at h
    exact (foldl_grows _ (tally_sequenceStep_grows T M _ _ _) _ _ h.2).2
  · exact spacesGrow_refl _

theorem stock_AlignCurrentSequence_grows (T : TokenTable) (M : Predicate)
    (s : AlignState) : AlignState.Grows s (Stock.AlignCurrentSequence T M s) := by
  intro h
  unfold Stock.AlignCurrentSequence at h ⊢
  simp only [Bool.and_eq_true] at h ⊢
  refine ⟨h.1, ?_⟩
  split
  · rename_i hc
    rw [if_pos hc] at h
    exact (foldl_grows _ (stock_sequenceStep_grows T M _ _) _ _ h.2).2
  · exact spacesGrow_refl _

theorem tally_lineStart_grows (T : TokenTable) (P : Tally.Policy) (M : Predicate)
    (s : AlignState) (i : Nat) : AlignState.Grows s (Tally.lineStart T P M s i) := by
  unfold Tally.lineStart
  simp only []
  split
  · exact tally_AlignCurrentSequence_grows T P M { s with CommasBeforeMatch := 0, EndOfSequence := i }
  · exact grows_refl s

theorem stock_lineStart_grows (T : TokenTable) (M : Predicate)
    (s : AlignState) (i : Nat) : AlignState.Grows s (Stock.lineStart T M s i) := by
  unfold Stock.lineStart
  simp only []
  split
  · exact stock_AlignCurrentSequence_grows T M { s with CommasBeforeMatch := 0, EndOfSequence := i }
  · exact grows_refl s

theorem tally_matchFlush_grows (T : TokenTable) (P : Tally.Policy) (M : Predicate)
    (s : AlignState) : AlignState.Grows s (Tally.matchFlush T P M s) := by
  unfold Tally.matchFlush
  split
  · exact tally_AlignCurrentSequence_grows T P M s
  · exact grows_refl s

theorem stock_matchFlush_grows (T : TokenTable) (M : Predicate)
    (s : AlignState) : AlignState.Grows s (Stock.matchFlush T M s) := by
  unfold Stock.matchFlush
  split
  · exact stock_AlignCurrentSequence_grows T M s
  · exact grows_refl s

theorem tally_restrict_grows (T : TokenTable) (Style : FormatStyle) (P : Tally.Policy)
    (M : Predicate) (s : AlignState) (i : Nat) :
    AlignState.Grows s (Tally.restrict T Style P M s i) := by
  unfold Tally.restrict
  split
  · exact tally_AlignCurrentSequence_grows T P M s
  · exact grows_refl s

theorem stock_restrict_grows (T : TokenTable) (Style : FormatStyle)
    (M : Predicate) (s : AlignState) (i : Nat) :
    AlignState.Grows s (Stock.restrict T Style M s i) := by
  unfold Stock.restrict
  split
  · exact stock_AlignCurrentSequence_grows T M s
  · exact grows_refl s

theorem tally_forceFour_grows (P : Tally.Policy) (s : AlignState) :
    AlignState.Grows s (Tally.forceFour P s) := by
  unfold Tally.forceFour
  split
  · exact grows_of_eq rfl rfl
  · exact grows_refl s

theorem tally_matchStep_grows (T : TokenTable) (Style : FormatStyle) (P : Tally.Policy)
    (M : Predicate) (s : AlignState) (i : Nat) :
    AlignState.Grows s (Tally.matchStep T Style P M s i) := by
  unfold Tally.matchStep
  simp only []
  refine grows_trans ?_ (tally_forceFour_grows P _)
  refine grows_trans ?_ (grows_of_eq (a := Tally.restrict T Style P M
    (noteMatch (Tally.matchFlush T P M s) i) i) rfl rfl)
  refine grows_trans ?_ (tally_restrict_grows T Style P M _ i)
  exact grows_trans (tally_matchFlush_grows T P M s) (grows_of_eq rfl rfl)

theorem stock_matchStep_grows (T : TokenTable) (Style : FormatStyle)
    (M : Predicate) (s : AlignState) (i : Nat) :
    AlignState.Grows s (Stock.matchStep T Style M s i) := by
  unfold Stock.matchStep
  simp only []
  refine grows_trans ?_ (grows_of_eq (a := Stock.restrict T Style M
    (noteMatch (Stock.matchFlush T M s) i) i) rfl rfl)
  refine grows_trans ?_ (stock_restrict_grows T Style M _ i)
  exact grows_trans (stock_matchFlush_grows T M s) (grows_of_eq rfl rfl)

theorem tally_overload_grows (T : TokenTable) (Style : FormatStyle) (P : Tally.Policy)
    (M : Predicate) : (Tally.overload T Style P M).Grows :=
  ⟨tally_lineStart_grows T P M, tally_matchStep_grows T Style P M,
   tally_AlignCurrentSequence_grows T P M⟩

theorem stock_overload_grows (T : TokenTable) (Style : FormatStyle)
    (M : Predicate) : (Stock.overload T Style M).Grows :=
  ⟨stock_lineStart_grows T M, stock_matchStep_grows T Style M,
   stock_AlignCurrentSequence_grows T M⟩

theorem scanHead_grows (O : Overload) (hO : O.Grows) (s : AlignState) (i : Nat) :
    AlignState.Grows s (scanHead O s i) := by
  unfold scanHead
  split
  · exact hO.lineStart s i
  · exact grows_refl s

theorem scanTail_grows (T : TokenTable) (O : Overload) (hO : O.Grows) (s : AlignState) (i : Nat) :
    AlignState.Grows s (scanTail T O s i) := by
  have hc : AlignState.Grows s (countComma T s i) := by
    unfold countComma
    split
    · exact grows_of_eq rfl rfl
    · exact grows_refl s
  unfold scanTail
  split
  · exact grows_trans hc (hO.matchStep _ i)
  · exact hc

/-- While no assertion fails, a call of AlignTokens makes Spaces of no record
smaller. -/
theorem alignTokensAux_grows (T : TokenTable) (O : Overload) (hO : O.Grows) (depth : Nat)
    (cs : Changes) (StartAt : Nat) (r : AlignResult)
    (h : alignTokensAux T O depth cs StartAt = some r) (ha : r.AssertsHeld = true) :
    SpacesGrow cs r.Changes := by
  have key := alignTokensAux_inv T O
    (fun cs s => s.AssertsHeld = true → SpacesGrow cs s.Changes)
    (fun cs r => r.AssertsHeld = true → SpacesGrow cs r.Changes)
    (fun cs _ => spacesGrow_refl cs)
    (fun cs s i hs h1 =>
      spacesGrow_trans (hs (scanHead_grows O hO s i h1).1) (scanHead_grows O hO s i h1).2)
    (fun cs s i hs h1 =>
      spacesGrow_trans (hs (scanTail_grows T O hO s i h1).1) (scanTail_grows T O hO s i h1).2)
    (fun cs s r hs hr h1 => by
      simp only [Bool.and_eq_true] at h1
      exact spacesGrow_trans (hs h1.1) (hr h1.2))
    (fun cs s i hs h1 => by
      have h2 := hO.flush { s with EndOfSequence := i } h1
      exact spacesGrow_trans (hs h2.1) h2.2)
    depth cs StartAt r h
  exact key ha

end ClangFormat

namespace ClangFormat

/-! ## Invariants of the loop of AlignTokens that depend on the index -/

theorem scanLoop_inv_at (T : TokenTable) (O : Overload)
    (recCall : Changes → Nat → Option AlignResult) (anchor : Level)
    (Inv : AlignState → Nat → Prop) (PostRec : Changes → Nat → AlignResult → Prop)
    (hcall : ∀ cs i r, recCall cs i = some r → PostRec cs i r)
    (hstep : ∀ s i, Inv s i → i ≠ s.Changes.length →
      ¬ Level.lt (indentAndNestingLevel T (Changes.at s.Changes i)) anchor = true →
      delegated T O anchor (scanHead O s i).Changes i = false →
      Inv (scanTail T O (scanHead O s i) i) (i + 1))
    (hrec : ∀ s i r, Inv s i → i ≠ s.Changes.length →
      ¬ Level.lt (indentAndNestingLevel T (Changes.at s.Changes i)) anchor = true →
      delegated T O anchor (scanHead O s i).Changes i = true →
      PostRec (scanHead O s i).Changes i r →
      Inv { scanHead O s i with
            Changes := r.Changes
            AssertsHeld := (scanHead O s i).AssertsHeld && r.AssertsHeld } r.StoppedAt) :
    ∀ (fuel : Nat) (s : AlignState) (i : Nat) (s' : AlignState) (r : Nat), Inv s i →
      scanLoop T O recCall anchor fuel s i = some (s', r) →
      Inv s' r ∧ (r = s'.Changes.length ∨
        Level.lt (indentAndNestingLevel T (Changes.at s'.Changes r)) anchor = true) := by
  intro fuel
  induction fuel with
  | zero =>
    intro s i s' r _ h
    rw [scanLoop] at h
    exact absurd h (by simp)
  | succ fuel ih =>
    intro s i s' r hs h
    rw [scanLoop] at h
    split at h
    · rename_i hlen
      simp only [Option.some.injEq, Prod.mk.injEq] at h
      obtain ⟨h1, h2⟩ := h
      subst h1
      subst h2
      exact ⟨hs, Or.inl hlen⟩
    · rename_i hlen
      split at h
      · rename_i hlt
        simp only [Option.some.injEq, Prod.mk.injEq] at h
        obtain ⟨h1, h2⟩ := h
        subst h1
        subst h2
        exact ⟨hs, Or.inr hlt⟩
      · rename_i hlt
        split at h
        · rename_i hd
          split at h
          · exact absurd h (by simp)
          · rename_i r1 hr1
            exact ih _ _ _ _ (hrec s i r1 hs hlen hlt hd (hcall _ _ _ hr1)) h
        · rename_i hd
          have hd' : delegated T O anchor (scanHead O s i).Changes i = false := by
            simpa using hd
          exact ih _ _ _ _ (hstep s i hs hlen hlt hd') h

/-- An invariant of the loop of AlignTokens that may mention the index at
which the loop stands and the index at which the call started: if the loop
body keeps it, and a recursive call keeps it through its postcondition, the
postcondition holds whenever AlignTokens returns. -/
theorem alignTokensAux_inv_at (T : TokenTable) (O : Overload)
    (Inv : Changes → Nat → AlignState → Nat → Prop)
    (Post : Changes → Nat → AlignResult → Prop)
    (hinit : ∀ cs StartAt, Inv cs StartAt { Changes := cs } StartAt)
    (hstep : ∀ cs StartAt s i, Inv cs StartAt s i → i ≠ s.Changes.length →
      ¬ Level.lt (indentAndNestingLevel T (Changes.at s.Changes i))
        (if StartAt < cs.length then indentAndNestingLevel T (Changes.at cs StartAt)
         else (0, 0, 0)) = true →
      delegated T O (if StartAt < cs.length then indentAndNestingLevel T (Changes.at cs StartAt)
         else (0, 0, 0)) (scanHead O s i).Changes i = false →
      Inv cs StartAt (scanTail T O (scanHead O s i) i) (i + 1))
    (hrec : ∀ cs StartAt s i r, Inv cs StartAt s i → i ≠ s.Changes.length →
      ¬ Level.lt (indentAndNestingLevel T (Changes.at s.Changes i))
        (if StartAt < cs.length then indentAndNestingLevel T (Changes.at cs StartAt)
         else (0, 0, 0)) = true →
      delegated T O (if StartAt < cs.length then indentAndNestingLevel T (Changes.at cs StartAt)
         else (0, 0, 0)) (scanHead O s i).Changes i = true →
      Post (scanHead O s i).Changes i r →
      Inv cs StartAt { scanHead O s i with
            Changes := r.Changes
            AssertsHeld := (scanHead O s i).AssertsHeld && r.AssertsHeld } r.StoppedAt)
    (hfin : ∀ cs StartAt s i, Inv cs StartAt s i →
      (i = s.Changes.length ∨ Level.lt (indentAndNestingLevel T (Changes.at s.Changes i))
        (if StartAt < cs.length then indentAndNestingLevel T (Changes.at cs StartAt)
         else (0, 0, 0)) = true) →
      Post cs StartAt { Changes := (O.flush { s with EndOfSequence := i }).Changes
                        AssertsHeld := (O.flush { s with EndOfSequence := i }).AssertsHeld
                        StoppedAt := i }) :
    ∀ (depth : Nat) (cs : Changes) (StartAt : Nat) (r : AlignResult),
      alignTokensAux T O depth cs StartAt = some r → Post cs StartAt r := by
  intro depth
  induction depth with
  | zero =>
    intro cs StartAt r h
    rw [alignTokensAux] at h
    exact absurd h (by simp)
  | succ depth ih =>
    intro cs StartAt r h
    rw [alignTokensAux] at h
    simp only [] at h
    split at h
    · exact absurd h (by simp)
    · rename_i s i hloop
      simp only [Option.some.injEq] at h
      rw [← h]
      have hl := scanLoop_inv_at T O _ _ (Inv cs StartAt) Post (fun cs i r hr => ih cs i r hr)
        (hstep cs StartAt) (hrec cs StartAt) _ _ _ _ _ (hinit cs StartAt) hloop
      exact hfin cs StartAt s i hl.1 hl.2

end ClangFormat

namespace ClangFormat

/-! ## A sequence that is flushed at the column of its matches -/

theorem columnsInRange_at (cs : Changes) (h : columnsInRange cs = true) (i : Nat) :
    (Changes.at cs i).StartOfTokenColumn < 4294967296 ∧
      (Changes.at cs i).PreviousEndOfTokenColumn < 4294967296 := by
  by_cases hi : i < cs.length
  · rw [Changes.at_eq_getElem cs i hi]
    unfold columnsInRange at h
    rw [List.all_eq_true] at h
    have := h cs[i] (List.getElem_mem hi)
    simpa using this
  · rw [Changes.at_of_le cs i (by omega)]
    exact ⟨by decide, by decide⟩

theorem addSpaces_zero (cs : Changes) (i : Nat) : addSpaces cs i 0 = cs := by
  apply Changes.ext_at _ _ (by simp)
  intro j _
  unfold addSpaces
  rw [Changes.at_set]
  split
  · rename_i h
    rw [h.1]
    simp
  · rfl

theorem addStartOfTokenColumn_zero (cs : Changes) (i : Nat)
    (h : (Changes.at cs i).StartOfTokenColumn < 4294967296) :
    addStartOfTokenColumn cs i 0 = cs := by
  apply Changes.ext_at _ _ (by simp)
  intro j _
  unfold addStartOfTokenColumn
  rw [Changes.at_set]
  split
  · rename_i hj
    have e : toUnsigned (((Changes.at cs i).StartOfTokenColumn : Int) + 0) =
        (Changes.at cs i).StartOfTokenColumn := by
      unfold toUnsigned
      omega
    rw [e, hj.1]
  · rfl

theorem addPreviousEndOfTokenColumn_zero (cs : Changes) (i : Nat)
    (h : (Changes.at cs i).PreviousEndOfTokenColumn < 4294967296) :
    addPreviousEndOfTokenColumn cs i 0 = cs := by
  apply Changes.ext_at _ _ (by simp)
  intro j _
  unfold addPreviousEndOfTokenColumn
  rw [Changes.at_set]
  split
  · rename_i hj
    have e : toUnsigned (((Changes.at cs i).PreviousEndOfTokenColumn : Int) + 0) =
        (Changes.at cs i).PreviousEndOfTokenColumn := by
      unfold toUnsigned
      omega
    rw [e, hj.1]
  · rfl

theorem shiftColumns_zero (cs : Changes) (i : Nat) (h : columnsInRange cs = true) :
    shiftColumns cs i 0 = cs := by
  unfold shiftColumns
  simp only []
  rw [addStartOfTokenColumn_zero cs i (columnsInRange_at cs h i).1]
  split
  · exact addPreviousEndOfTokenColumn_zero cs (i + 1) (columnsInRange_at cs h (i + 1)).2
  · rfl

theorem tally_takesMatch_matches (T : TokenTable) (M : Predicate) (ig : Bool) (s : SeqState)
    (i : Nat) (stack : List Nat) (h : Tally.takesMatch T M ig s i stack = true) :
    M s.Changes i = true := by
  unfold Tally.takesMatch at h
  simp only [Bool.and_eq_true] at h
  exact h.1.2

theorem toInt_toUnsigned_self (c : Nat) : toInt (toUnsigned ((c : Int) - c)) = 0 := by
  rw [Int.sub_self]
  rfl

end ClangFormat

namespace ClangFormat

/-! ## Matching records on a line -/

theorem columnsSmall_at (cs : Changes) (h : columnsSmall cs = true) (i : Nat) :
    (Changes.at cs i).StartOfTokenColumn < 2147483648 := by
  by_cases hi : i < cs.length
  · rw [Changes.at_eq_getElem cs i hi]
    unfold columnsSmall at h
    rw [List.all_eq_true] at h
    have := h cs[i] (List.getElem_mem hi)
    simpa using this
  · rw [Changes.at_of_le cs i (by omega)]
    decide

theorem matchesSeen_succ (M : Predicate) (cs : Changes) (i : Nat) :
    matchesSeen M cs (i + 1) =
      (if (Changes.at cs i).NewlinesBefore ≠ 0 then 0 else matchesSeen M cs i) +
        (if M cs i then 1 else 0) := rfl

theorem matchesFirstOnLine_at (M : Predicate) (cs : Changes)
    (h : matchesFirstOnLine M cs = true) (i : Nat) (hi : i < cs.length) (hm : M cs i = true)
    (hn : (Changes.at cs i).NewlinesBefore = 0) : matchesSeen M cs i = 0 := by
  unfold matchesFirstOnLine at h
  rw [List.all_eq_true] at h
  have := h i (List.mem_range.mpr hi)
  simpa [hm, hn] using this

end ClangFormat

namespace ClangFormat

/-! ## AlignTokenSequence on a flat ledger -/

theorem tally_step_stack_eq (T : TokenTable) (M : Predicate) (ig : Bool) (Start Column : Nat)
    (s : SeqState) (i : Nat) :
    (Tally.sequenceStep T M ig Start Column s i).ScopeStack =
      if ig then s.ScopeStack else scopeStackAt T s.Changes Start i s.ScopeStack := rfl

theorem tally_step_shift_eq (T : TokenTable) (M : Predicate) (ig : Bool) (Start Column : Nat)
    (s : SeqState) (i : Nat) :
    (Tally.sequenceStep T M ig Start Column s i).Shift =
      if Tally.takesMatch T M ig s i (Tally.sequenceStep T M ig Start Column s i).ScopeStack
      then toInt (toUnsigned ((Column : Int) - (Changes.at s.Changes i).StartOfTokenColumn))
      else if lineReset s.Changes i (Tally.sequenceStep T M ig Start Column s i).ScopeStack ig
      then 0 else s.Shift := rfl

theorem tally_step_found_eq (T : TokenTable) (M : Predicate) (ig : Bool) (Start Column : Nat)
    (s : SeqState) (i : Nat) :
    (Tally.sequenceStep T M ig Start Column s i).FoundMatchOnLine =
      (Tally.takesMatch T M ig s i (Tally.sequenceStep T M ig Start Column s i).ScopeStack ||
        (if lineReset s.Changes i (Tally.sequenceStep T M ig Start Column s i).ScopeStack ig
         then false else s.FoundMatchOnLine)) := rfl

theorem tally_step_asserts_eq (T : TokenTable) (M : Predicate) (ig : Bool) (Start Column : Nat)
    (s : SeqState) (i : Nat) :
    (Tally.sequenceStep T M ig Start Column s i).AssertsHeld =
      (s.AssertsHeld && decide ((Tally.sequenceStep T M ig Start Column s i).Shift ≥ 0)) := rfl

theorem tally_step_changes_flat (T : TokenTable) (M : Predicate) (ig : Bool)
    (Start Column : Nat) (s : SeqState) (i : Nat)
    (h : (Tally.sequenceStep T M ig Start Column s i).ScopeStack = []) :
    (Tally.sequenceStep T M ig Start Column s i).Changes =
      shiftColumns
        (if Tally.takesMatch T M ig s i [] then
          addSpaces s.Changes i (Tally.sequenceStep T M ig Start Column s i).Shift
         else s.Changes) i (Tally.sequenceStep T M ig Start Column s i).Shift := by
  have e : (Tally.sequenceStep T M ig Start Column s i).Changes =
      shiftColumns
        (if Tally.continuation T Start
            (if Tally.takesMatch T M ig s i (Tally.sequenceStep T M ig Start Column s i).ScopeStack
              then addSpaces s.Changes i (Tally.sequenceStep T M ig Start Column s i).Shift
              else s.Changes) i (Tally.sequenceStep T M ig Start Column s i).ScopeStack
          then addSpaces
            (if Tally.takesMatch T M ig s i (Tally.sequenceStep T M ig Start Column s i).ScopeStack
              then addSpaces s.Changes i (Tally.sequenceStep T M ig Start Column s i).Shift
              else s.Changes) i (Tally.sequenceStep T M ig Start Column s i).Shift
          else (if Tally.takesMatch T M ig s i (Tally.sequenceStep T M ig Start Column s i).ScopeStack
              then addSpaces s.Changes i (Tally.sequenceStep T M ig Start Column s i).Shift
              else s.Changes)) i (Tally.sequenceStep T M ig Start Column s i).Shift := rfl
  rw [e, h]
  have hc : ∀ c : Changes, Tally.continuation T Start c i [] = false := by
    intro c
    simp [Tally.continuation]
  simp only [hc, Bool.false_eq_true, if_false]

theorem lineReset_flat (cs : Changes) (i : Nat) (ig : Bool) :
    lineReset cs i [] ig = decide ((Changes.at cs i).NewlinesBefore > 0) := by
  simp [lineReset]

theorem tally_takesMatch_flat_true (T : TokenTable) (M : Predicate) (ig : Bool) (s : SeqState)
    (i : Nat)
    (hf : (if decide ((Changes.at s.Changes i).NewlinesBefore > 0) then false
      else s.FoundMatchOnLine) = false)
    (hm : M s.Changes i = true) (ha : Tally.matchAllowed T s.Changes i = true) :
    Tally.takesMatch T M ig s i [] = true := by
  unfold Tally.takesMatch
  rw [lineReset_flat, hf, hm, ha]
  simp

theorem tally_takesMatch_allowed (T : TokenTable) (M : Predicate) (ig : Bool) (s : SeqState)
    (i : Nat) (stack : List Nat) (h : Tally.takesMatch T M ig s i stack = true) :
    Tally.matchAllowed T s.Changes i = true := by
  unfold Tally.takesMatch at h
  simp only [Bool.and_eq_true] at h
  exact h.2

theorem matchAllowed_frame (T : TokenTable) {a b : Changes} (h : SameFrame a b) (i : Nat) :
    Tally.matchAllowed T a i = Tally.matchAllowed T b i := by
  unfold Tally.matchAllowed
  simp only [h.tok]

end ClangFormat

namespace ClangFormat

/-! ## One iteration of AlignTokenSequence on a flat ledger -/

theorem tally_step_shift_flat (T : TokenTable) (M : Predicate) (ig : Bool)
    (Start Column : Nat) (s : SeqState) (i : Nat)
    (h : (Tally.sequenceStep T M ig Start Column s i).ScopeStack = []) :
    (Tally.sequenceStep T M ig Start Column s i).Shift =
      if Tally.takesMatch T M ig s i [] = true
      then toInt (toUnsigned ((Column : Int) - (Changes.at s.Changes i).StartOfTokenColumn))
      else if (Changes.at s.Changes i).NewlinesBefore > 0 then 0 else s.Shift := by
  rw [tally_step_shift_eq, h, lineReset_flat]
  simp only [decide_eq_true_eq]

theorem tally_step_found_flat (T : TokenTable) (M : Predicate) (ig : Bool)
    (Start Column : Nat) (s : SeqState) (i : Nat)
    (h : (Tally.sequenceStep T M ig Start Column s i).ScopeStack = []) :
    (Tally.sequenceStep T M ig Start Column s i).FoundMatchOnLine =
      (Tally.takesMatch T M ig s i [] ||
        (if (Changes.at s.Changes i).NewlinesBefore > 0 then false else s.FoundMatchOnLine)) := by
  rw [tally_step_found_eq, h, lineReset_flat]
  simp only [decide_eq_true_eq]

end ClangFormat

namespace ClangFormat

/-! ## A flush with nothing pending -/

theorem tally_flush_idle (T : TokenTable) (P : Tally.Policy) (M : Predicate) (s : AlignState)
    (h : s.StartOfSequence = 0 ∨ s.EndOfSequence ≤ s.StartOfSequence) :
    (Tally.AlignCurrentSequence T P M s).Changes = s.Changes ∧
    (Tally.AlignCurrentSequence T P M s).AssertsHeld = s.AssertsHeld := by
  unfold Tally.AlignCurrentSequence
  simp only []
  rw [if_neg]
  · simp
  · simp only [Bool.and_eq_true, decide_eq_true_eq]
    omega

end ClangFormat

namespace ClangFormat

/-! ## The campaign predicates read the frame only -/

theorem lastOnLine_frame {a b : Changes} (h : SameFrame a b) (i : Nat) :
    lastOnLine a i = lastOnLine b i := by
  unfold lastOnLine
  rw [h.length_eq, h.newlinesBefore (i + 1)]

theorem equalsAcrossSectionsMatches_stable (T : TokenTable) :
    Predicate.Stable (equalsAcrossSectionsMatches T) := by
  intro a b i h
  unfold equalsAcrossSectionsMatches
  rw [h.newlinesBefore i, lastOnLine_frame h i, h.tok i]

theorem equalsWithinSectionMatches_stable (T : TokenTable) :
    Predicate.Stable (equalsWithinSectionMatches T) := by
  intro a b i h
  unfold equalsWithinSectionMatches
  rw [h.newlinesBefore i, lastOnLine_frame h i, h.tok i]

theorem usingMatches_stable (T : TokenTable) (L : List AnnotatedLine) :
    Predicate.Stable (usingMatches T L) := by
  intro a b i h
  unfold usingMatches
  rw [h.tok i]

end ClangFormat

namespace ClangFormat

/-! ## The remaining length of a line -/

theorem restOfLine_cons (cs : Changes) (i : Nat) (hi : i < cs.length)
    (hn : (Changes.at cs i).NewlinesBefore = 0) :
    restOfLine cs i = Changes.at cs i :: restOfLine cs (i + 1) := by
  unfold restOfLine
  rw [List.drop_eq_getElem_cons hi, List.takeWhile_cons, ← Changes.at_eq_getElem cs i hi]
  simp [hn]

theorem restOfLine_nil (cs : Changes) (i : Nat)
    (h : cs.length ≤ i ∨ (Changes.at cs i).NewlinesBefore ≠ 0) : restOfLine cs i = [] := by
  unfold restOfLine
  by_cases hi : i < cs.length
  · have hn := h.resolve_left (by omega)
    rw [List.drop_eq_getElem_cons hi, List.takeWhile_cons, ← Changes.at_eq_getElem cs i hi]
    simp [hn]
  · rw [List.drop_eq_nil_of_le (by omega)]
    rfl

theorem matchesApart_at (M : Predicate) (cs : Changes) (h : matchesApart M cs = true) (k : Nat)
    (hk : k < cs.length) (hm : M cs k = true) :
    (Changes.at cs k).NewlinesBefore = 0 ∧ matchesSeen M cs k = 0 := by
  unfold matchesApart at h
  rw [List.all_eq_true] at h
  have := h k (List.mem_range.mpr hk)
  simpa [hm] using this

theorem linesFit_at (Style : FormatStyle) (P : Tally.Policy) (M : Predicate) (cs : Changes)
    (h : linesFit Style P M cs = true) (k : Nat) (hk : k < cs.length) (hm : M cs k = true) :
    ((Changes.at cs k).StartOfTokenColumn : Int) + remainingLength cs k ≤
      Tally.ColumnLimitInEffect Style P := by
  unfold linesFit at h
  rw [List.all_eq_true] at h
  have := h k (List.mem_range.mpr hk)
  simpa [hm] using this

theorem spacesNonneg_at (cs : Changes) (h : spacesNonneg cs = true) (j : Nat) :
    0 ≤ (Changes.at cs j).Spaces :=
  spaces_nonneg_of_all cs h j

/-- The sum over the rest of a line does not change when Spaces is kept in
the records of that line. -/
theorem restOfLine_sum_congr (a b : Changes) (hfr : SameFrame a b) :
    ∀ (n i : Nat), a.length - i ≤ n →
      (∀ j, i ≤ j → j < a.length → (∀ k, i ≤ k → k ≤ j → (Changes.at b k).NewlinesBefore = 0) →
        (Changes.at a j).Spaces = (Changes.at b j).Spaces) →
      ((restOfLine a i).map (fun c => c.Spaces + (c.TokenLength : Int))).sum =
        ((restOfLine b i).map (fun c => c.Spaces + (c.TokenLength : Int))).sum := by
  intro n
  induction n with
  | zero =>
    intro i hn _
    rw [restOfLine_nil a i (Or.inl (by omega)),
      restOfLine_nil b i (Or.inl (by rw [← hfr.length_eq]; omega))]
  | succ n ih =>
    intro i hn h
    by_cases hi : i < a.length
    · by_cases hnl : (Changes.at b i).NewlinesBefore = 0
      · have hnl' : (Changes.at a i).NewlinesBefore = 0 := by
          rw [hfr.newlinesBefore i]
          exact hnl
        rw [restOfLine_cons a i hi hnl', restOfLine_cons b i (by rw [← hfr.length_eq]; exact hi) hnl]
        simp only [List.map_cons, List.sum_cons]
        rw [ih (i + 1) (by omega) (fun j h1 h2 h3 => h j (by omega) h2 (fun k k1 k2 => by
          by_cases hk : k = i
          · rw [hk]
            exact hnl
          · exact h3 k (by omega) k2)),
          h i (Nat.le_refl i) hi (fun k k1 k2 => by
            have : k = i := by omega
            rw [this]
            exact hnl),
          hfr.tokenLength i]
      · have hnl' : (Changes.at a i).NewlinesBefore ≠ 0 := by
          rw [hfr.newlinesBefore i]
          exact hnl
        rw [restOfLine_nil a i (Or.inr hnl'), restOfLine_nil b i (Or.inr hnl)]
    · rw [restOfLine_nil a i (Or.inl (by omega)),
        restOfLine_nil b i (Or.inl (by rw [← hfr.length_eq]; omega))]

theorem restOfLine_sum_nonneg (cs : Changes) (h : spacesNonneg cs = true) :
    ∀ (n i : Nat), cs.length - i ≤ n →
      0 ≤ ((restOfLine cs i).map (fun c => c.Spaces + (c.TokenLength : Int))).sum := by
  intro n
  induction n with
  | zero =>
    intro i hn
    rw [restOfLine_nil cs i (Or.inl (by omega))]
    exact Int.le_refl 0
  | succ n ih =>
    intro i hn
    by_cases hi : i < cs.length
    · by_cases hnl : (Changes.at cs i).NewlinesBefore = 0
      · rw [restOfLine_cons cs i hi hnl]
        simp only [List.map_cons, List.sum_cons]
        have h1 := ih (i + 1) (by omega)
        have h2 := spacesNonneg_at cs h i
        omega
      · rw [restOfLine_nil cs i (Or.inr hnl)]
        exact Int.le_refl 0
    · rw [restOfLine_nil cs i (Or.inl (by omega))]
      exact Int.le_refl 0

theorem remainingLength_nonneg (cs : Changes) (h : spacesNonneg cs = true) (i : Nat) :
    0 ≤ remainingLength cs i := by
  unfold remainingLength
  have := restOfLine_sum_nonneg cs h (cs.length - (i + 1)) (i + 1) (Nat.le_refl _)
  omega

/-- The value LineLengthAfter of the Tally AlignTokens at a record that does
not start a line is the remaining length of the line. -/
theorem tally_lineLengthAfter_eq (cs : Changes) (i : Nat) (hi : i < cs.length)
    (hn : (Changes.at cs i).NewlinesBefore = 0) :
    Tally.lineLengthAfter cs i = remainingLength cs i := by
  unfold Tally.lineLengthAfter remainingLength
  rw [restOfLine_cons cs i hi hn]
  simp only [List.map_cons, List.sum_cons]
  omega

end ClangFormat

namespace ClangFormat

/-! ## Lines that fit the column limit -/

theorem matchesSeen_frame (M : Predicate) (hst : Predicate.Stable M) {a b : Changes}
    (h : SameFrame a b) : ∀ k, matchesSeen M a k = matchesSeen M b k := by
  intro k
  induction k with
  | zero => rfl
  | succ k ih => rw [matchesSeen_succ, matchesSeen_succ, ih, h.newlinesBefore k, hst a b k h]

/-- A record after a matching record on its line sees that match. -/
theorem matchesSeen_sameLine (M : Predicate) (cs : Changes) (m : Nat) (hm : M cs m = true) :
    ∀ j, m < j → (∀ k, m < k → k < j → (Changes.at cs k).NewlinesBefore = 0) →
      1 ≤ matchesSeen M cs j := by
  intro j
  induction j with
  | zero =>
    intro h _
    omega
  | succ j ih =>
    intro hj hk
    rw [matchesSeen_succ]
    by_cases hmj : m = j
    · subst hmj
      rw [if_pos hm]
      omega
    · have h1 := ih (by omega) (fun k k1 k2 => hk k k1 (by omega))
      have h2 := hk j (by omega) (by omega)
      rw [if_neg (by omega)]
      omega

/-- A record after a matching record on its line does not match. -/
theorem matchesApart_later (M : Predicate) (cs : Changes) (h : matchesApart M cs = true)
    (m j : Nat) (hm : M cs m = true) (hmj : m < j) (hj : j < cs.length)
    (hline : ∀ k, m < k → k ≤ j → (Changes.at cs k).NewlinesBefore = 0) : M cs j = false := by
  by_contra hM
  have hM' : M cs j = true := by simpa using hM
  have h1 := (matchesApart_at M cs h j hj hM').2
  have h2 := matchesSeen_sameLine M cs m hm j hmj (fun k k1 k2 => hline k k1 (by omega))
  omega

theorem remainingLength_eq (M : Predicate) (a cs : Changes) (hfr : SameFrame a cs)
    (hkept : ∀ j, M cs j = false → (Changes.at a j).Spaces = (Changes.at cs j).Spaces)
    (hap : matchesApart M cs = true) (m : Nat) (hM : M cs m = true) :
    remainingLength a m = remainingLength cs m := by
  unfold remainingLength
  rw [hfr.tokenLength m, restOfLine_sum_congr a cs hfr (a.length - (m + 1)) (m + 1)
    (Nat.le_refl _) (fun j h1 h2 h3 => hkept j (matchesApart_later M cs hap m j hM (by omega)
      (by rw [← hfr.length_eq]; exact h2) (fun k k1 k2 => h3 k (by omega) k2)))]

end ClangFormat

namespace ClangFormat

/-! ## The bound on the depth of the recursion does not matter once it is large enough -/

theorem scanLoop_mono (T : TokenTable) (O : Overload)
    (rec1 rec2 : Changes → Nat → Option AlignResult) (anchor : Level)
    (h : ∀ cs i r, rec1 cs i = some r → rec2 cs i = some r) :
    ∀ (fuel : Nat) (s : AlignState) (i : Nat) (x : AlignState × Nat),
      scanLoop T O rec1 anchor fuel s i = some x → scanLoop T O rec2 anchor fuel s i = some x := by
  intro fuel
  induction fuel with
  | zero =>
    intro s i x hx
    rw [scanLoop] at hx
    exact absurd hx (by simp)
  | succ fuel ih =>
    intro s i x hx
    rw [scanLoop] at hx ⊢
    by_cases h1 : i = s.Changes.length
    · rw [if_pos h1] at hx ⊢
      exact hx
    · rw [if_neg h1] at hx ⊢
      by_cases h2 : Level.lt (indentAndNestingLevel T (s.Changes.at i)) anchor = true
      · rw [if_pos h2] at hx ⊢
        exact hx
      · rw [if_neg h2] at hx ⊢
        by_cases h3 : delegated T O anchor (scanHead O s i).Changes i = true
        · rw [if_pos h3] at hx ⊢
          cases hr : rec1 (scanHead O s i).Changes i with
          | none =>
            rw [hr] at hx
            exact absurd hx (by simp)
          | some r =>
            rw [hr] at hx
            rw [h _ _ _ hr]
            exact ih _ _ _ hx
        · rw [if_neg h3] at hx ⊢
          exact ih _ _ _ hx

theorem alignTokensAux_mono (T : TokenTable) (O : Overload) :
    ∀ (depth : Nat) (cs : Changes) (StartAt : Nat) (r : AlignResult),
      alignTokensAux T O depth cs StartAt = some r →
      alignTokensAux T O (depth + 1) cs StartAt = some r := by
  intro depth
  induction depth with
  | zero =>
    intro cs StartAt r h
    rw [alignTokensAux] at h
    exact absurd h (by simp)
  | succ depth ih =>
    intro cs StartAt r h
    rw [alignTokensAux] at h ⊢
    simp only [] at h ⊢
    cases hx : scanLoop T O (alignTokensAux T O depth)
        (if StartAt < cs.length then indentAndNestingLevel T (cs.at StartAt) else (0, 0, 0))
        (cs.length + 1) { Changes := cs } StartAt with
    | none =>
      rw [hx] at h
      exact absurd h (by simp)
    | some x =>
      rw [hx] at h
      rw [scanLoop_mono T O _ _ _ ih _ _ _ _ hx]
      exact h

theorem alignTokensAux_mono_le (T : TokenTable) (O : Overload) (cs : Changes) (StartAt : Nat)
    (r : AlignResult) (d : Nat) (h : alignTokensAux T O d cs StartAt = some r) :
    ∀ k, alignTokensAux T O (d + k) cs StartAt = some r := by
  intro k
  induction k with
  | zero => exact h
  | succ k ih => exact alignTokensAux_mono T O _ cs StartAt r ih

/-- The result of alignTokensAux is the same for every bound on the depth
that is larger than the number of records from StartAt on. -/
theorem alignTokensAux_enough (T : TokenTable) (O : Overload) (hO : O.KeepsFrame)
    (cs : Changes) (StartAt : Nat) (h : StartAt ≤ cs.length) :
    ∃ r, (∀ depth, cs.length - StartAt ≤ depth →
        alignTokensAux T O (depth + 1) cs StartAt = some r) ∧
      (StartAt < cs.length → StartAt < r.StoppedAt) ∧ r.StoppedAt ≤ cs.length := by
  obtain ⟨r, e, _, _, g2, g3, _⟩ :=
    alignTokensAux_spec T O hO (cs.length - StartAt) cs StartAt h (Nat.le_refl _)
  refine ⟨r, ?_, g3, g2⟩
  intro depth hd
  have := alignTokensAux_mono_le T O cs StartAt r _ e (depth - (cs.length - StartAt))
  have e2 : cs.length - StartAt + 1 + (depth - (cs.length - StartAt)) = depth + 1 := by omega
  rw [e2] at this
  exact this

/-- The index that alignTokensAux returns, with the levels read in the
returned ledger. -/
theorem alignTokensAux_contract (T : TokenTable) (O : Overload) (hO : O.KeepsFrame)
    (cs : Changes) (StartAt : Nat) (h : StartAt ≤ cs.length) :
    ∃ r, alignTokensAux T O (cs.length + 1) cs StartAt = some r ∧
      r.Changes.length = cs.length ∧
      (∀ k, indentAndNestingLevel T (Changes.at r.Changes k) =
        indentAndNestingLevel T (Changes.at cs k)) ∧
      StartAt ≤ r.StoppedAt ∧ r.StoppedAt ≤ cs.length ∧
      (StartAt < cs.length → StartAt < r.StoppedAt) ∧
      (r.StoppedAt = cs.length ∨
        Level.lt (indentAndNestingLevel T (Changes.at r.Changes r.StoppedAt))
          (indentAndNestingLevel T (Changes.at r.Changes StartAt)) = true) ∧
      ∀ k, StartAt ≤ k → k < r.StoppedAt →
        Level.lt (indentAndNestingLevel T (Changes.at r.Changes k))
          (indentAndNestingLevel T (Changes.at r.Changes StartAt)) = false := by
  obtain ⟨r, e, f, g1, g2, g3, g4, g5⟩ :=
    alignTokensAux_spec T O hO cs.length cs StartAt h (by omega)
  refine ⟨r, e, f.length_eq, fun k => f.level T k, g1, g2, g3, ?_, ?_⟩
  · rw [f.level T, f.level T]
    exact g4
  · intro k a b
    rw [f.level T, f.level T]
    exact g5 k a b

end ClangFormat

namespace ClangFormat

/-! ## A single match, and the rounding to a multiple of four -/

theorem roundUpTo_four (n : Nat) :
    roundUpTo 4 n % 4 = 0 ∧ n ≤ roundUpTo 4 n ∧ roundUpTo 4 n < n + 4 := by
  unfold roundUpTo
  split <;> omega

theorem roundUpTo_four_max (a b : Nat) :
    roundUpTo 4 (max (roundUpTo 4 a) b) = roundUpTo 4 (max a b) := by
  simp only [roundUpTo, Nat.max_def]
  split_ifs <;> omega

end ClangFormat

namespace ClangFormat

/-! ## The first loop of calculateLineBreakInformation -/

theorem Changes.at_set_proj {α : Type} (g : Change → α) (cs : Changes) (k : Nat) (c : Change)
    (j : Nat) (h : g c = g (Changes.at cs k)) :
    g (Changes.at (cs.set k c) j) = g (Changes.at cs j) := by
  rw [Changes.at_set]
  split
  · rename_i hk
    rw [h, hk.1]
  · rfl

theorem lineBreakStep_length (T : TokenTable) (src : List Char) (st : Changes × Nat × Bool)
    (i : Nat) : (lineBreakStep T src st i).1.length = st.1.length := by
  unfold lineBreakStep
  simp only []
  split <;> simp

/-- A field that the three assignments of the first loop do not write is
the same after a step. -/
theorem lineBreakStep_proj {α : Type} (g : Change → α)
    (h1 : ∀ (c : Change) (v : Nat), g { c with TokenLength := v } = g c)
    (h2 : ∀ (c : Change) (v : Nat), g { c with PreviousEndOfTokenColumn := v } = g c)
    (h3 : ∀ (c : Change) (v : Bool), g { c with IsTrailingComment := v } = g c)
    (T : TokenTable) (src : List Char) (st : Changes × Nat × Bool) (i j : Nat) :
    g (Changes.at (lineBreakStep T src st i).1 j) = g (Changes.at st.1 j) := by
  unfold lineBreakStep
  simp only []
  rw [Changes.at_set_proj g _ _ _ _ (h3 _ _), Changes.at_set_proj g _ _ _ _ (h2 _ _)]
  split
  · rw [Changes.at_set_proj g _ _ _ _ (h1 _ _), Changes.at_set_proj g _ _ _ _ (h1 _ _)]
  · rw [Changes.at_set_proj g _ _ _ _ (h1 _ _)]

theorem at_setTrailing_tokenLength (cs : Changes) (k j : Nat) (v : Bool) :
    (Changes.at (cs.set k { Changes.at cs k with IsTrailingComment := v }) j).TokenLength =
      (Changes.at cs j).TokenLength :=
  Changes.at_set_proj Change.TokenLength _ _ _ _ rfl

theorem at_setPrevEnd_tokenLength (cs : Changes) (k j : Nat) (v : Nat) :
    (Changes.at (cs.set k { Changes.at cs k with PreviousEndOfTokenColumn := v }) j).TokenLength =
      (Changes.at cs j).TokenLength :=
  Changes.at_set_proj Change.TokenLength _ _ _ _ rfl

theorem at_setPrevEnd_trailing (cs : Changes) (k j : Nat) (v : Nat) :
    (Changes.at (cs.set k { Changes.at cs k with PreviousEndOfTokenColumn := v })
      j).IsTrailingComment = (Changes.at cs j).IsTrailingComment :=
  Changes.at_set_proj Change.IsTrailingComment _ _ _ _ rfl

theorem at_setTokenLength_trailing (cs : Changes) (k j : Nat) (v : Nat) :
    (Changes.at (cs.set k { Changes.at cs k with TokenLength := v })
      j).IsTrailingComment = (Changes.at cs j).IsTrailingComment :=
  Changes.at_set_proj Change.IsTrailingComment _ _ _ _ rfl

theorem lineBreakStep_last (T : TokenTable) (src : List Char) (st : Changes × Nat × Bool)
    (i : Nat) :
    (lineBreakStep T src st i).2.1 = if insideLine (Changes.at st.1 (i - 1)) then st.2.1 else i - 1 := by
  have e1 : ∀ v, (Changes.at (st.1.set (i - 1) { Changes.at st.1 (i - 1) with TokenLength := v })
      (i - 1)).IsInsideToken = (Changes.at st.1 (i - 1)).IsInsideToken :=
    fun v => Changes.at_set_proj Change.IsInsideToken _ _ _ _ rfl
  have e2 : ∀ v, (Changes.at (st.1.set (i - 1) { Changes.at st.1 (i - 1) with TokenLength := v })
      (i - 1)).NewlinesBefore = (Changes.at st.1 (i - 1)).NewlinesBefore :=
    fun v => Changes.at_set_proj Change.NewlinesBefore _ _ _ _ rfl
  unfold lineBreakStep insideLine
  simp only [e1, e2]

/-- The token length that step i of the first loop computes for record
i - 1. -/
theorem lineBreakStep_tokenLength_set (T : TokenTable) (src : List Char)
    (st : Changes × Nat × Bool) (i : Nat) (hi : i - 1 < st.1.length)
    (h : insideLine (Changes.at st.1 (i - 1)) = false ∨ st.2.1 ≠ i - 1) :
    (Changes.at (lineBreakStep T src st i).1 (i - 1)).TokenLength =
      toUnsigned (tokenLengthTo src (Changes.at st.1 (i - 1)) (Changes.at st.1 i)) := by
  have e1 : ∀ v, (Changes.at (st.1.set (i - 1) { Changes.at st.1 (i - 1) with TokenLength := v })
      (i - 1)).IsInsideToken = (Changes.at st.1 (i - 1)).IsInsideToken :=
    fun v => Changes.at_set_proj Change.IsInsideToken _ _ _ _ rfl
  have e2 : ∀ v, (Changes.at (st.1.set (i - 1) { Changes.at st.1 (i - 1) with TokenLength := v })
      (i - 1)).NewlinesBefore = (Changes.at st.1 (i - 1)).NewlinesBefore :=
    fun v => Changes.at_set_proj Change.NewlinesBefore _ _ _ _ rfl
  have e3 : (match findNewline (textBetween src (Changes.at st.1 (i - 1)).OriginalWhitespaceEnd
        (Changes.at st.1 i).OriginalWhitespaceBegin) with
      | none =>
        toUnsigned (((Changes.at st.1 i).OriginalWhitespaceBegin : Int) -
          (Changes.at st.1 (i - 1)).OriginalWhitespaceEnd +
          (Changes.at st.1 i).PreviousLinePostfixText.length +
          (Changes.at st.1 (i - 1)).CurrentLinePrefixText.length)
      | some p => toUnsigned ((p : Int) + (Changes.at st.1 (i - 1)).CurrentLinePrefixText.length)) =
      toUnsigned (tokenLengthTo src (Changes.at st.1 (i - 1)) (Changes.at st.1 i)) := by
    unfold tokenLengthTo
    generalize findNewline (textBetween src (Changes.at st.1 (i - 1)).OriginalWhitespaceEnd
        (Changes.at st.1 i).OriginalWhitespaceBegin) = o
    cases o <;> rfl
  unfold lineBreakStep
  simp only [e1, e2, e3]
  rw [at_setTrailing_tokenLength, at_setPrevEnd_tokenLength]
  unfold insideLine at h
  split
  · rename_i hin
    rcases h with h | h
    · rw [h] at hin
      exact absurd hin (by simp)
    · rw [Changes.at_set_ne _ _ _ _ h, Changes.at_set_self _ _ _ hi]
      all_goals exact e3
  · rw [Changes.at_set_self _ _ _ hi]
    all_goals exact e3

/-- The token length of a record that step i neither measures nor adds
to. -/
theorem lineBreakStep_tokenLength_other (T : TokenTable) (src : List Char)
    (st : Changes × Nat × Bool) (i j : Nat) (hj : i - 1 ≠ j)
    (h : insideLine (Changes.at st.1 (i - 1)) = false ∨ st.2.1 ≠ j) :
    (Changes.at (lineBreakStep T src st i).1 j).TokenLength = (Changes.at st.1 j).TokenLength := by
  have e1 : ∀ v, (Changes.at (st.1.set (i - 1) { Changes.at st.1 (i - 1) with TokenLength := v })
      (i - 1)).IsInsideToken = (Changes.at st.1 (i - 1)).IsInsideToken :=
    fun v => Changes.at_set_proj Change.IsInsideToken _ _ _ _ rfl
  have e2 : ∀ v, (Changes.at (st.1.set (i - 1) { Changes.at st.1 (i - 1) with TokenLength := v })
      (i - 1)).NewlinesBefore = (Changes.at st.1 (i - 1)).NewlinesBefore :=
    fun v => Changes.at_set_proj Change.NewlinesBefore _ _ _ _ rfl
  unfold lineBreakStep
  simp only [e1, e2]
  rw [at_setTrailing_tokenLength, at_setPrevEnd_tokenLength]
  unfold insideLine at h
  split
  · rename_i hin
    rcases h with h | h
    · rw [h] at hin
      exact absurd hin (by simp)
    · rw [Changes.at_set_ne _ _ _ _ h, Changes.at_set_ne _ _ _ _ hj]
  · rw [Changes.at_set_ne _ _ _ _ hj]

/-- The ledger of step i of the first loop before its last assignment, and
the last assignment. -/
theorem lineBreakStep_eq (T : TokenTable) (src : List Char) (st : Changes × Nat × Bool)
    (i : Nat) :
    ∃ cs3 : Changes, cs3.length = st.1.length ∧
      (∀ (α : Type) (g : Change → α),
        (∀ (c : Change) (v : Nat), g { c with TokenLength := v } = g c) →
        (∀ (c : Change) (v : Nat), g { c with PreviousEndOfTokenColumn := v } = g c) →
        ∀ j, g (Changes.at cs3 j) = g (Changes.at st.1 j)) ∧
      (lineBreakStep T src st i).1 = cs3.set (i - 1) { Changes.at cs3 (i - 1) with
        IsTrailingComment :=
          (decide ((Changes.at cs3 i).NewlinesBefore > 0) ||
            (T.at (Changes.at cs3 i).Tok).is TokenKind.eof ||
            ((Changes.at cs3 i).IsInsideToken &&
              (T.at (Changes.at cs3 i).Tok).is TokenKind.comment)) &&
          (T.at (Changes.at cs3 (i - 1)).Tok).is TokenKind.comment &&
          decide ((Changes.at st.1 i).OriginalWhitespaceBegin ≠
            (Changes.at st.1 (i - 1)).OriginalWhitespaceEnd) } := by
  refine ⟨_, ?_, ?_, rfl⟩
  · simp only []
    split <;> simp
  · intro α g h1 h2 j
    simp only []
    rw [Changes.at_set_proj g _ _ _ _ (h2 _ _)]
    split
    · rw [Changes.at_set_proj g _ _ _ _ (h1 _ _), Changes.at_set_proj g _ _ _ _ (h1 _ _)]
    · rw [Changes.at_set_proj g _ _ _ _ (h1 _ _)]

/-- The flag IsTrailingComment after step i of the first loop: the step
writes the flag of record i - 1. -/
theorem lineBreakStep_trailing (T : TokenTable) (src : List Char)
    (st : Changes × Nat × Bool) (i j : Nat) :
    (Changes.at (lineBreakStep T src st i).1 j).IsTrailingComment =
      if i - 1 = j ∧ i - 1 < st.1.length then
        (decide ((Changes.at st.1 i).NewlinesBefore > 0) ||
            (T.at (Changes.at st.1 i).Tok).is TokenKind.eof ||
            ((Changes.at st.1 i).IsInsideToken &&
              (T.at (Changes.at st.1 i).Tok).is TokenKind.comment)) &&
          (T.at (Changes.at st.1 (i - 1)).Tok).is TokenKind.comment &&
          decide ((Changes.at st.1 i).OriginalWhitespaceBegin ≠
            (Changes.at st.1 (i - 1)).OriginalWhitespaceEnd)
      else (Changes.at st.1 j).IsTrailingComment := by
  obtain ⟨cs3, hl, hp, h⟩ := lineBreakStep_eq T src st i
  rw [h, Changes.at_set, hl]
  have p1 := hp Nat Change.NewlinesBefore (fun _ _ => rfl) (fun _ _ => rfl)
  have p2 := hp Nat Change.Tok (fun _ _ => rfl) (fun _ _ => rfl)
  have p3 := hp Bool Change.IsInsideToken (fun _ _ => rfl) (fun _ _ => rfl)
  have p4 := hp Bool Change.IsTrailingComment (fun _ _ => rfl) (fun _ _ => rfl)
  split
  · show ((decide ((Changes.at cs3 i).NewlinesBefore > 0) ||
            (T.at (Changes.at cs3 i).Tok).is TokenKind.eof ||
            ((Changes.at cs3 i).IsInsideToken &&
              (T.at (Changes.at cs3 i).Tok).is TokenKind.comment)) &&
          (T.at (Changes.at cs3 (i - 1)).Tok).is TokenKind.comment &&
          decide ((Changes.at st.1 i).OriginalWhitespaceBegin ≠
            (Changes.at st.1 (i - 1)).OriginalWhitespaceEnd)) = _
    rw [p1, p2, p3, p2]
  · exact p4 j

theorem foldl_range'_one_succ {σ : Type} (f : σ → Nat → σ) (s : σ) (k : Nat) :
    (List.range' 1 (k + 1)).foldl f s = f ((List.range' 1 k).foldl f s) (k + 1) := by
  rw [List.range'_concat, List.foldl_append]
  simp only [one_mul, List.foldl_cons, List.foldl_nil]
  rw [Nat.add_comm 1 k]

theorem lineBreak_fold_length (T : TokenTable) (src : List Char) (cs0 : Changes) (k : Nat) :
    ((List.range' 1 k).foldl (lineBreakStep T src) (cs0, 0, true)).1.length = cs0.length := by
  induction k with
  | zero => rfl
  | succ k ih => rw [foldl_range'_one_succ, lineBreakStep_length, ih]

theorem lineBreak_fold_proj {α : Type} (g : Change → α)
    (h1 : ∀ (c : Change) (v : Nat), g { c with TokenLength := v } = g c)
    (h2 : ∀ (c : Change) (v : Nat), g { c with PreviousEndOfTokenColumn := v } = g c)
    (h3 : ∀ (c : Change) (v : Bool), g { c with IsTrailingComment := v } = g c)
    (T : TokenTable) (src : List Char) (cs0 : Changes) (k j : Nat) :
    g (Changes.at ((List.range' 1 k).foldl (lineBreakStep T src) (cs0, 0, true)).1 j) =
      g (Changes.at cs0 j) := by
  induction k with
  | zero => rfl
  | succ k ih => rw [foldl_range'_one_succ, lineBreakStep_proj g h1 h2 h3, ih]

theorem lineBreak_fold_last (T : TokenTable) (src : List Char) (cs0 : Changes) (k : Nat) :
    ((List.range' 1 k).foldl (lineBreakStep T src) (cs0, 0, true)).2.1 ≤ k - 1 := by
  induction k with
  | zero => exact Nat.le_refl _
  | succ k ih =>
    rw [foldl_range'_one_succ, lineBreakStep_last]
    split
    · omega
    · omega

/-- The token length of record j after the first loop has passed it, if the
next record is not an inside-token change on the line. -/
theorem lineBreak_fold_tokenLength (T : TokenTable) (src : List Char) (cs0 : Changes) (j : Nat)
    (hnext : insideLine (Changes.at cs0 (j + 1)) = false)
    (hfirst : j = 0 → insideLine (Changes.at cs0 0) = false) (k : Nat)
    (hk : k + 1 ≤ cs0.length) (hjk : j + 1 ≤ k) :
    (Changes.at ((List.range' 1 k).foldl (lineBreakStep T src) (cs0, 0, true)).1 j).TokenLength =
        toUnsigned (tokenLengthTo src (Changes.at cs0 j) (Changes.at cs0 (j + 1))) ∧
      (j + 2 ≤ k →
        j + 1 ≤ ((List.range' 1 k).foldl (lineBreakStep T src) (cs0, 0, true)).2.1) := by
  induction k with
  | zero => omega
  | succ k ih =>
    have hlen := lineBreak_fold_length T src cs0 k
    have hlast := lineBreak_fold_last T src cs0 k
    have hin : ∀ m, insideLine (Changes.at ((List.range' 1 k).foldl (lineBreakStep T src)
        (cs0, 0, true)).1 m) = insideLine (Changes.at cs0 m) :=
      fun m => lineBreak_fold_proj insideLine (fun _ _ => rfl) (fun _ _ => rfl) (fun _ _ => rfl)
        T src cs0 k m
    have htl : ∀ m n, tokenLengthTo src (Changes.at ((List.range' 1 k).foldl (lineBreakStep T src)
        (cs0, 0, true)).1 m) (Changes.at ((List.range' 1 k).foldl (lineBreakStep T src)
        (cs0, 0, true)).1 n) = tokenLengthTo src (Changes.at cs0 m) (Changes.at cs0 n) := by
      intro m n
      rw [lineBreak_fold_proj (fun c => tokenLengthTo src c (Changes.at
          ((List.range' 1 k).foldl (lineBreakStep T src) (cs0, 0, true)).1 n))
        (fun _ _ => rfl) (fun _ _ => rfl) (fun _ _ => rfl) T src cs0 k m]
      exact lineBreak_fold_proj (fun c => tokenLengthTo src (Changes.at cs0 m) c)
        (fun _ _ => rfl) (fun _ _ => rfl) (fun _ _ => rfl) T src cs0 k n
    rw [foldl_range'_one_succ]
    generalize (List.range' 1 k).foldl (lineBreakStep T src) (cs0, 0, true) = st
      at ih hlen hlast hin htl
    have e : k + 1 - 1 = k := by omega
    by_cases hkj : k = j
    · subst hkj
      constructor
      · have := lineBreakStep_tokenLength_set T src st (k + 1) (by rw [e, hlen]; omega)
          (by
            rw [e, hin]
            by_cases h0 : k = 0
            · exact Or.inl (by rw [h0]; exact hfirst h0)
            · exact Or.inr (by omega))
        rw [e] at this
        rw [this, htl]
      · intro h
        omega
    · have ih' := ih (by omega) (by omega)
      constructor
      · rw [lineBreakStep_tokenLength_other T src st (k + 1) j (by omega)
          (by
            rw [e, hin]
            by_cases h1 : k = j + 1
            · exact Or.inl (by rw [h1]; exact hnext)
            · exact Or.inr (by have := ih'.2 (by omega); omega))]
        exact ih'.1
      · intro _
        rw [lineBreakStep_last, e, hin]
        split
        · rename_i hi
          by_cases h1 : k = j + 1
          · rw [h1, hnext] at hi
            exact absurd hi (by simp)
          · exact ih'.2 (by omega)
        · omega

/-- The flag IsTrailingComment of record j after k steps of the first
loop. -/
theorem lineBreak_fold_trailing (T : TokenTable) (src : List Char) (cs0 : Changes) (j k : Nat)
    (hk : k + 1 ≤ cs0.length) :
    (Changes.at ((List.range' 1 k).foldl (lineBreakStep T src) (cs0, 0, true)).1
        j).IsTrailingComment =
      if j + 1 ≤ k then
        (decide ((Changes.at cs0 (j + 1)).NewlinesBefore > 0) ||
            (T.at (Changes.at cs0 (j + 1)).Tok).is TokenKind.eof ||
            ((Changes.at cs0 (j + 1)).IsInsideToken &&
              (T.at (Changes.at cs0 (j + 1)).Tok).is TokenKind.comment)) &&
          (T.at (Changes.at cs0 j).Tok).is TokenKind.comment &&
          decide ((Changes.at cs0 (j + 1)).OriginalWhitespaceBegin ≠
            (Changes.at cs0 j).OriginalWhitespaceEnd)
      else (Changes.at cs0 j).IsTrailingComment := by
  induction k with
  | zero => rfl
  | succ k ih =>
    have ih' := ih (by omega)
    have hlen := lineBreak_fold_length T src cs0 k
    have p1 := lineBreak_fold_proj Change.NewlinesBefore (fun _ _ => rfl) (fun _ _ => rfl)
      (fun _ _ => rfl) T src cs0 k
    have p2 := lineBreak_fold_proj Change.Tok (fun _ _ => rfl) (fun _ _ => rfl)
      (fun _ _ => rfl) T src cs0 k
    have p3 := lineBreak_fold_proj Change.IsInsideToken (fun _ _ => rfl) (fun _ _ => rfl)
      (fun _ _ => rfl) T src cs0 k
    have p4 := lineBreak_fold_proj Change.OriginalWhitespaceBegin (fun _ _ => rfl)
      (fun _ _ => rfl) (fun _ _ => rfl) T src cs0 k
    have p5 := lineBreak_fold_proj Change.OriginalWhitespaceEnd (fun _ _ => rfl)
      (fun _ _ => rfl) (fun _ _ => rfl) T src cs0 k
    rw [foldl_range'_one_succ, lineBreakStep_trailing, hlen, p1, p2, p3, p4, p5, p2]
    have e : k + 1 - 1 = k := by omega
    rw [e]
    by_cases hkj : k = j
    · subst hkj
      rw [if_pos ⟨rfl, by omega⟩, if_pos (by omega)]
    · rw [if_neg (fun h => hkj h.1), ih']
      by_cases h1 : j + 1 ≤ k
      · rw [if_pos h1, if_pos (by omega)]
      · rw [if_neg h1, if_neg (by omega)]

/-! ## The second and the third loop of calculateLineBreakInformation -/

theorem commentStep_length (T : TokenTable) (s : CommentState) (i : Nat) :
    (commentStep T s i).Changes.length = s.Changes.length := by
  unfold commentStep
  simp only []
  split <;> simp

theorem commentStep_at_ne (T : TokenTable) (s : CommentState) (i j : Nat) (h : i ≠ j) :
    Changes.at (commentStep T s i).Changes j = Changes.at s.Changes j := by
  unfold commentStep
  simp only []
  split <;> exact Changes.at_set_ne _ _ _ _ h

theorem commentStep_proj {α : Type} (g : Change → α)
    (h1 : ∀ (c : Change) (v : Int), g { c with Spaces := v } = g c)
    (h2 : ∀ (c : Change) (v : Nat), g { c with StartOfTokenColumn := v } = g c)
    (h3 : ∀ (c : Change) (v : Bool), g { c with IsTrailingComment := v } = g c)
    (h4 : ∀ (c : Change) (v : Option Nat), g { c with StartOfBlockComment := v } = g c)
    (h5 : ∀ (c : Change) (v : Int), g { c with IndentationOffset := v } = g c)
    (T : TokenTable) (s : CommentState) (i j : Nat) :
    g (Changes.at (commentStep T s i).Changes j) = g (Changes.at s.Changes j) := by
  have k1 : ∀ (c : Change) (v : Int) (w : Nat),
      g { c with Spaces := v, StartOfTokenColumn := w } = g c := by
    intro c v w
    exact (h2 { c with Spaces := v } w).trans (h1 c v)
  have k2 : ∀ (c : Change) (v : Option Nat) (w : Int),
      g { c with StartOfBlockComment := v, IndentationOffset := w } = g c := by
    intro c v w
    exact (h5 { c with StartOfBlockComment := v } w).trans (h4 c v)
  have a1 : ∀ (p : Prop) [Decidable p] (c : Change) (v : Int) (w : Nat),
      g (if p then { c with Spaces := v, StartOfTokenColumn := w } else c) = g c := by
    intro p _ c v w
    split
    · exact k1 c v w
    · rfl
  have a2 : ∀ (p : Prop) [Decidable p] (c : Change) (v : Bool),
      g (if p then { c with IsTrailingComment := v } else c) = g c := by
    intro p _ c v
    split
    · exact h3 c v
    · rfl
  have a3 : ∀ (p : Prop) [Decidable p] (c : Change) (v : Int),
      g (if p then { c with IndentationOffset := v } else c) = g c := by
    intro p _ c v
    split
    · exact h5 c v
    · rfl
  have a4 : ∀ (p : Prop) [Decidable p] (c : Change) (v : Int),
      g (if p then { c with Spaces := v } else c) = g c := by
    intro p _ c v
    split
    · exact h1 c v
    · rfl
  unfold commentStep
  lift_lets
  extract_lets c t prevIsLBrace nextIsComma first second PrevStart PrevSpaces c1 c2 c3 keep deref c4 takeFirst prevNotComment c5
  have e1 : g c1 = g c := a1 _ _ _ _
  have e2 : g c2 = g c1 := a2 _ _ _
  have e3 : g c3 = g c2 := k2 _ _ _
  have e4 : g c4 = g c3 := a3 _ _ _
  have e5 : g c5 = g c4 := a4 _ _ _
  split
  · apply Changes.at_set_proj g
    rw [e5, e4, e3, e2, e1]
  · apply Changes.at_set_proj g
    rw [e3, e2, e1]


/-- The flag IsTrailingComment of record i after step i of the second loop:
it is cleared for an inside-token change that does not start a line. -/
theorem commentStep_trailing (T : TokenTable) (s : CommentState) (i : Nat)
    (hi : i < s.Changes.length) :
    (Changes.at (commentStep T s i).Changes i).IsTrailingComment =
      ((Changes.at s.Changes i).IsTrailingComment && !insideLine (Changes.at s.Changes i)) := by
  unfold commentStep
  lift_lets
  extract_lets c t prevIsLBrace nextIsComma first second PrevStart PrevSpaces c1 c2 c3 keep deref c4 takeFirst prevNotComment c5
  have a1 : c1.IsTrailingComment = c.IsTrailingComment ∧ c1.IsInsideToken = c.IsInsideToken ∧
      c1.NewlinesBefore = c.NewlinesBefore := by
    show (if second then _ else c).IsTrailingComment = _ ∧ (if second then _ else c).IsInsideToken = _ ∧
      (if second then _ else c).NewlinesBefore = _
    split <;> exact ⟨rfl, rfl, rfl⟩
  have a2 : c2.IsTrailingComment = (c.IsTrailingComment && !insideLine c) := by
    show (if c1.IsInsideToken && decide (c1.NewlinesBefore = 0) then _ else c1).IsTrailingComment = _
    unfold insideLine
    rw [a1.2.1, a1.2.2]
    split
    · rename_i h
      rw [h]
      simp
    · rename_i h
      rw [a1.1]
      simp only [Bool.not_eq_true] at h
      rw [h]
      simp
  have a3 : c3.IsTrailingComment = c2.IsTrailingComment := rfl
  have a4 : c4.IsTrailingComment = c3.IsTrailingComment := by
    show (if deref then _ else c3).IsTrailingComment = _
    split <;> rfl
  have a5 : c5.IsTrailingComment = c4.IsTrailingComment := by
    show (if _ then _ else c4).IsTrailingComment = _
    split <;> rfl
  split
  · show (Changes.at (s.Changes.set i c5) i).IsTrailingComment = _
    rw [Changes.at_set_self _ _ _ hi, a5, a4, a3, a2]
  · show (Changes.at (s.Changes.set i c3) i).IsTrailingComment = _
    rw [Changes.at_set_self _ _ _ hi, a3, a2]

theorem comment_fold_length (T : TokenTable) (s : CommentState) (n : Nat) :
    ((List.range n).foldl (commentStep T) s).Changes.length = s.Changes.length := by
  induction n with
  | zero => rfl
  | succ n ih => rw [List.range_succ, List.foldl_append, List.foldl_cons, List.foldl_nil,
      commentStep_length, ih]

theorem comment_fold_proj {α : Type} (g : Change → α)
    (h1 : ∀ (c : Change) (v : Int), g { c with Spaces := v } = g c)
    (h2 : ∀ (c : Change) (v : Nat), g { c with StartOfTokenColumn := v } = g c)
    (h3 : ∀ (c : Change) (v : Bool), g { c with IsTrailingComment := v } = g c)
    (h4 : ∀ (c : Change) (v : Option Nat), g { c with StartOfBlockComment := v } = g c)
    (h5 : ∀ (c : Change) (v : Int), g { c with IndentationOffset := v } = g c)
    (T : TokenTable) (s : CommentState) (n j : Nat) :
    g (Changes.at ((List.range n).foldl (commentStep T) s).Changes j) =
      g (Changes.at s.Changes j) := by
  induction n with
  | zero => rfl
  | succ n ih => rw [List.range_succ, List.foldl_append, List.foldl_cons, List.foldl_nil,
      commentStep_proj g h1 h2 h3 h4 h5, ih]

/-- The flag IsTrailingComment of record j after n steps of the second
loop. -/
theorem comment_fold_trailing (T : TokenTable) (s : CommentState) (n j : Nat)
    (hn : n ≤ s.Changes.length) :
    (Changes.at ((List.range n).foldl (commentStep T) s).Changes j).IsTrailingComment =
      if j < n then ((Changes.at s.Changes j).IsTrailingComment && !insideLine (Changes.at s.Changes j))
      else (Changes.at s.Changes j).IsTrailingComment := by
  induction n with
  | zero => rfl
  | succ n ih =>
    have ih' := ih (by omega)
    have hlen := comment_fold_length T s n
    have hin := comment_fold_proj insideLine (fun _ _ => rfl) (fun _ _ => rfl) (fun _ _ => rfl)
      (fun _ _ => rfl) (fun _ _ => rfl) T s n
    rw [List.range_succ, List.foldl_append, List.foldl_cons, List.foldl_nil]
    by_cases hj : n = j
    · subst hj
      rw [commentStep_trailing T _ n (by rw [hlen]; omega), ih', hin, if_neg (by omega),
        if_pos (by omega)]
    · rw [commentStep_at_ne T _ n j hj, ih']
      by_cases h1 : j < n
      · rw [if_pos h1, if_pos (by omega)]
      · rw [if_neg h1, if_neg (by omega)]

theorem conditionalStep_length (T : TokenTable) (st : Changes × List Bool × Int) (i : Nat) :
    (conditionalStep T st i).1.length = st.1.length := by
  unfold conditionalStep
  simp

theorem conditionalStep_proj {α : Type} (g : Change → α)
    (h : ∀ (c : Change) (v : Nat), g { c with ConditionalsLevel := v } = g c)
    (T : TokenTable) (st : Changes × List Bool × Int) (i j : Nat) :
    g (Changes.at (conditionalStep T st i).1 j) = g (Changes.at st.1 j) := by
  unfold conditionalStep
  simp only []
  exact Changes.at_set_proj g _ _ _ _ (h _ _)

theorem conditional_fold_length (T : TokenTable) (st : Changes × List Bool × Int) (n : Nat) :
    ((List.range n).foldl (conditionalStep T) st).1.length = st.1.length := by
  induction n with
  | zero => rfl
  | succ n ih => rw [List.range_succ, List.foldl_append, List.foldl_cons, List.foldl_nil,
      conditionalStep_length, ih]

theorem conditional_fold_proj {α : Type} (g : Change → α)
    (h : ∀ (c : Change) (v : Nat), g { c with ConditionalsLevel := v } = g c)
    (T : TokenTable) (st : Changes × List Bool × Int) (n j : Nat) :
    g (Changes.at ((List.range n).foldl (conditionalStep T) st).1 j) = g (Changes.at st.1 j) := by
  induction n with
  | zero => rfl
  | succ n ih => rw [List.range_succ, List.foldl_append, List.foldl_cons, List.foldl_nil,
      conditionalStep_proj g h, ih]

end ClangFormat

namespace ClangFormat

/-! ## What calculateLineBreakInformation leaves in a record -/

theorem calculateLineBreakInformation_length (W : WhitespaceManager) :
    (calculateLineBreakInformation W).Changes.length = W.Changes.length := by
  unfold calculateLineBreakInformation
  lift_lets
  extract_lets c0 cs0 r1 last cl cs1 r2 r3
  show r3.1.length = _
  have h3 : r3.1.length = r2.Changes.length := conditional_fold_length _ _ _
  have h2 : r2.Changes.length = cs1.length := comment_fold_length _ _ _
  have h1 : cs1.length = r1.1.length := List.length_set _ _ _
  have h0 : r1.1.length = cs0.length := lineBreak_fold_length _ _ _ _
  have hc : cs0.length = W.Changes.length := List.length_set _ _ _
  rw [h3, h2, h1, h0, hc]

/-- A field that no loop of calculateLineBreakInformation writes is as in
the given ledger. -/
theorem calculateLineBreakInformation_proj {α : Type} (g : Change → α)
    (h1 : ∀ (c : Change) (v : Nat), g { c with TokenLength := v } = g c)
    (h2 : ∀ (c : Change) (v : Nat), g { c with PreviousEndOfTokenColumn := v } = g c)
    (h3 : ∀ (c : Change) (v : Bool), g { c with IsTrailingComment := v } = g c)
    (h4 : ∀ (c : Change) (v : Int), g { c with Spaces := v } = g c)
    (h5 : ∀ (c : Change) (v : Nat), g { c with StartOfTokenColumn := v } = g c)
    (h6 : ∀ (c : Change) (v : Option Nat), g { c with StartOfBlockComment := v } = g c)
    (h7 : ∀ (c : Change) (v : Int), g { c with IndentationOffset := v } = g c)
    (h8 : ∀ (c : Change) (v : Nat), g { c with ConditionalsLevel := v } = g c)
    (W : WhitespaceManager) (j : Nat) :
    g (Changes.at (calculateLineBreakInformation W).Changes j) = g (Changes.at W.Changes j) := by
  unfold calculateLineBreakInformation
  lift_lets
  extract_lets c0 cs0 r1 last cl cs1 r2 r3
  show g (Changes.at r3.1 j) = _
  have e3 : g (Changes.at r3.1 j) = g (Changes.at r2.Changes j) :=
    conditional_fold_proj g h8 _ _ _ _
  have e2 : g (Changes.at r2.Changes j) = g (Changes.at cs1 j) :=
    comment_fold_proj g h4 h5 h3 h6 h7 _ _ _ _
  have e1 : g (Changes.at cs1 j) = g (Changes.at r1.1 j) :=
    Changes.at_set_proj g _ _ _ _
      ((h3 { Changes.at r1.1 last with TokenLength := 0 } _).trans (h1 _ _))
  have e0 : g (Changes.at r1.1 j) = g (Changes.at cs0 j) :=
    lineBreak_fold_proj g h1 h2 h3 _ _ _ _ _
  have ec : g (Changes.at cs0 j) = g (Changes.at W.Changes j) :=
    Changes.at_set_proj g _ _ _ _ (h2 _ _)
  rw [e3, e2, e1, e0, ec]

/-- The token length that calculateLineBreakInformation leaves in a record
that is not the last and is not followed by an inside-token change on its
line. -/
theorem calculateLineBreakInformation_tokenLength (W : WhitespaceManager) (i : Nat)
    (hi : i + 1 < W.Changes.length)
    (hnext : insideLine (Changes.at W.Changes (i + 1)) = false)
    (hfirst : i = 0 → insideLine (Changes.at W.Changes 0) = false) :
    (Changes.at (calculateLineBreakInformation W).Changes i).TokenLength =
      toUnsigned (tokenLengthTo W.SourceText (Changes.at W.Changes i)
        (Changes.at W.Changes (i + 1))) := by
  unfold calculateLineBreakInformation
  lift_lets
  extract_lets c0 cs0 r1 last cl cs1 r2 r3
  show (Changes.at r3.1 i).TokenLength = _
  have hc : cs0.length = W.Changes.length := List.length_set _ _ _
  have h0 : r1.1.length = cs0.length := lineBreak_fold_length _ _ _ _
  have pin : ∀ m, insideLine (Changes.at cs0 m) = insideLine (Changes.at W.Changes m) :=
    fun m => Changes.at_set_proj insideLine _ _ _ _ rfl
  have ptl : ∀ m n, tokenLengthTo W.SourceText (Changes.at cs0 m) (Changes.at cs0 n) =
      tokenLengthTo W.SourceText (Changes.at W.Changes m) (Changes.at W.Changes n) := by
    intro m n
    have a : tokenLengthTo W.SourceText (Changes.at cs0 m) (Changes.at cs0 n) =
        tokenLengthTo W.SourceText (Changes.at W.Changes m) (Changes.at cs0 n) :=
      Changes.at_set_proj (fun c => tokenLengthTo W.SourceText c (Changes.at cs0 n)) _ _ _ _ rfl
    have b : tokenLengthTo W.SourceText (Changes.at W.Changes m) (Changes.at cs0 n) =
        tokenLengthTo W.SourceText (Changes.at W.Changes m) (Changes.at W.Changes n) :=
      Changes.at_set_proj (fun c => tokenLengthTo W.SourceText (Changes.at W.Changes m) c)
        _ _ _ _ rfl
    exact a.trans b
  have e3 : (Changes.at r3.1 i).TokenLength = (Changes.at r2.Changes i).TokenLength :=
    conditional_fold_proj Change.TokenLength (fun _ _ => rfl) _ _ _ _
  have e2 : (Changes.at r2.Changes i).TokenLength = (Changes.at cs1 i).TokenLength :=
    comment_fold_proj Change.TokenLength (fun _ _ => rfl) (fun _ _ => rfl) (fun _ _ => rfl)
      (fun _ _ => rfl) (fun _ _ => rfl) _ _ _ _
  have e1 : (Changes.at cs1 i).TokenLength = (Changes.at r1.1 i).TokenLength := by
    show (Changes.at (r1.1.set last _) i).TokenLength = _
    rw [Changes.at_set_ne _ _ _ _ (by show r1.1.length - 1 ≠ i; omega)]
  have e0 := (lineBreak_fold_tokenLength W.Toks W.SourceText cs0 i (by rw [pin]; exact hnext)
    (fun h => by rw [pin]; exact hfirst h) (cs0.length - 1) (by omega) (by omega)).1
  rw [e3, e2, e1]
  rw [ptl] at e0
  exact e0

/-- The token length of the last record is 0. -/
theorem calculateLineBreakInformation_tokenLength_last (W : WhitespaceManager)
    (h : 0 < W.Changes.length) :
    (Changes.at (calculateLineBreakInformation W).Changes (W.Changes.length - 1)).TokenLength =
      0 := by
  unfold calculateLineBreakInformation
  lift_lets
  extract_lets c0 cs0 r1 last cl cs1 r2 r3
  show (Changes.at r3.1 _).TokenLength = _
  have hc : cs0.length = W.Changes.length := List.length_set _ _ _
  have h0 : r1.1.length = cs0.length := lineBreak_fold_length _ _ _ _
  have e3 : ∀ j, (Changes.at r3.1 j).TokenLength = (Changes.at r2.Changes j).TokenLength :=
    conditional_fold_proj Change.TokenLength (fun _ _ => rfl) _ _ _
  have e2 : ∀ j, (Changes.at r2.Changes j).TokenLength = (Changes.at cs1 j).TokenLength :=
    comment_fold_proj Change.TokenLength (fun _ _ => rfl) (fun _ _ => rfl) (fun _ _ => rfl)
      (fun _ _ => rfl) (fun _ _ => rfl) _ _ _
  have hl : last = W.Changes.length - 1 := by
    show r1.1.length - 1 = _
    rw [h0, hc]
  rw [e3, e2, ← hl]
  show (Changes.at (r1.1.set last _) last).TokenLength = _
  rw [Changes.at_set_self _ _ _ (by rw [hl, h0, hc]; omega)]

/-- The flag IsTrailingComment that calculateLineBreakInformation leaves in
a record. -/
theorem calculateLineBreakInformation_trailing (W : WhitespaceManager) (i : Nat)
    (hi : i < W.Changes.length) :
    (Changes.at (calculateLineBreakInformation W).Changes i).IsTrailingComment =
      trailingAsComputed W.Toks W.Changes i := by
  unfold calculateLineBreakInformation
  lift_lets
  extract_lets c0 cs0 r1 last cl cs1 r2 r3
  show (Changes.at r3.1 i).IsTrailingComment = _
  have hc : cs0.length = W.Changes.length := List.length_set _ _ _
  have h0 : r1.1.length = cs0.length := lineBreak_fold_length _ _ _ _
  have h1 : cs1.length = r1.1.length := List.length_set _ _ _
  have hl : last = W.Changes.length - 1 := by
    show r1.1.length - 1 = _
    rw [h0, hc]
  have q0 : ∀ {α : Type} (g : Change → α),
      (∀ (c : Change) (v : Nat), g { c with TokenLength := v } = g c) →
      (∀ (c : Change) (v : Nat), g { c with PreviousEndOfTokenColumn := v } = g c) →
      (∀ (c : Change) (v : Bool), g { c with IsTrailingComment := v } = g c) →
      ∀ m, g (Changes.at r1.1 m) = g (Changes.at W.Changes m) := by
    intro α g a1 a2 a3 m
    have e0 : g (Changes.at r1.1 m) = g (Changes.at cs0 m) :=
      lineBreak_fold_proj g a1 a2 a3 _ _ _ _ _
    have ec : g (Changes.at cs0 m) = g (Changes.at W.Changes m) :=
      Changes.at_set_proj g _ _ _ _ (a2 _ _)
    rw [e0, ec]
  have q1 : ∀ {α : Type} (g : Change → α),
      (∀ (c : Change) (v : Nat), g { c with PreviousEndOfTokenColumn := v } = g c) →
      ∀ m, g (Changes.at cs0 m) = g (Changes.at W.Changes m) :=
    fun g a2 m => Changes.at_set_proj g _ _ _ _ (a2 _ _)
  have e3 : (Changes.at r3.1 i).IsTrailingComment = (Changes.at r2.Changes i).IsTrailingComment :=
    conditional_fold_proj Change.IsTrailingComment (fun _ _ => rfl) _ _ _ _
  have e2 : (Changes.at r2.Changes i).IsTrailingComment =
      ((Changes.at cs1 i).IsTrailingComment && !insideLine (Changes.at cs1 i)) := by
    have := comment_fold_trailing W.Toks { Changes := cs1 } cs1.length i (Nat.le_refl _)
    rw [if_pos (by show i < cs1.length; rw [h1, h0, hc]; exact hi)] at this
    exact this
  have ein : insideLine (Changes.at cs1 i) = insideLine (Changes.at W.Changes i) := by
    have a : insideLine (Changes.at cs1 i) = insideLine (Changes.at r1.1 i) :=
      Changes.at_set_proj insideLine _ _ _ _ rfl
    rw [a]
    exact q0 insideLine (fun _ _ => rfl) (fun _ _ => rfl) (fun _ _ => rfl) i
  rw [e3, e2, ein]
  unfold trailingAsComputed trailingAsStated followedByBreak nextStartsAtEnd
  by_cases hlast : i = last
  · have e1 : (Changes.at cs1 i).IsTrailingComment =
        (W.Toks.at (Changes.at W.Changes i).Tok).is TokenKind.comment := by
      show (Changes.at (r1.1.set last _) i).IsTrailingComment = _
      rw [hlast, Changes.at_set_self _ _ _ (by rw [hl, h0, hc]; omega)]
      show (W.Toks.at (Changes.at r1.1 last).Tok).is TokenKind.comment = _
      rw [q0 Change.Tok (fun _ _ => rfl) (fun _ _ => rfl) (fun _ _ => rfl)]
    have hn : ¬ (i + 1 < W.Changes.length) := by omega
    rw [e1, if_neg hn]
    simp [hn]
  · have hn : i + 1 < W.Changes.length := by omega
    have e1 : (Changes.at cs1 i).IsTrailingComment = (Changes.at r1.1 i).IsTrailingComment := by
      show (Changes.at (r1.1.set last _) i).IsTrailingComment = _
      rw [Changes.at_set_ne _ _ _ _ (Ne.symm hlast)]
    have e0 := lineBreak_fold_trailing W.Toks W.SourceText cs0 i (cs0.length - 1) (by omega)
    rw [if_pos (by omega)] at e0
    rw [q1 Change.NewlinesBefore (fun _ _ => rfl), q1 Change.Tok (fun _ _ => rfl),
      q1 Change.IsInsideToken (fun _ _ => rfl), q1 Change.OriginalWhitespaceBegin (fun _ _ => rfl),
      q1 Change.OriginalWhitespaceEnd (fun _ _ => rfl), q1 Change.Tok (fun _ _ => rfl)] at e0
    rw [e1]
    have e0' : (Changes.at r1.1 i).IsTrailingComment = _ := e0
    rw [e0', if_pos hn]
    generalize decide ((Changes.at W.Changes (i + 1)).NewlinesBefore > 0) = b1
    generalize (W.Toks.at (Changes.at W.Changes (i + 1)).Tok).is TokenKind.eof = b2
    generalize ((Changes.at W.Changes (i + 1)).IsInsideToken &&
      (W.Toks.at (Changes.at W.Changes (i + 1)).Tok).is TokenKind.comment) = b3
    generalize (W.Toks.at (Changes.at W.Changes i).Tok).is TokenKind.comment = b4
    generalize insideLine (Changes.at W.Changes i) = b5
    by_cases hq : (Changes.at W.Changes (i + 1)).OriginalWhitespaceBegin =
        (Changes.at W.Changes i).OriginalWhitespaceEnd
    · simp [hq, hn]
    · simp only [hq, hn, ne_eq, not_false_eq_true, decide_True, decide_False, Bool.and_true,
        Bool.and_false, Bool.not_false, Bool.true_and]
      cases b1 <;> cases b2 <;> cases b3 <;> cases b4 <;> cases b5 <;> rfl

theorem tokenLengthTo_nonneg (src : List Char) (c next : Change)
    (h : c.OriginalWhitespaceEnd ≤ next.OriginalWhitespaceBegin) :
    0 ≤ tokenLengthTo src c next := by
  unfold tokenLengthTo
  split <;> omega

end ClangFormat

namespace ClangFormat

/-! ## The third loop of calculateLineBreakInformation and the open fake parentheses -/

theorem openFakeParens_spec (b : Bool) :
    ∀ (l : List Prec) (k : Nat) (S : List FakeParen),
      openFakeParens b l k (S.map FakeParen.counted, ((S.filter FakeParen.counted).length : Int)) =
        ((((List.enumFrom k l).map
            (fun kp => FakeParen.mk kp.2 (decide (kp.1 = 0)) b)).reverse ++ S).map FakeParen.counted,
          (((((List.enumFrom k l).map
            (fun kp => FakeParen.mk kp.2 (decide (kp.1 = 0)) b)).reverse ++ S).filter
              FakeParen.counted).length : Int)) := by
  intro l
  induction l with
  | nil =>
    intro k S
    rfl
  | cons p rest ih =>
    intro k S
    rw [openFakeParens]
    have e : (decide (p = Prec.Conditional) && !(decide (k = 0) && b)) =
        FakeParen.counted (FakeParen.mk p (decide (k = 0)) b) := rfl
    simp only [e]
    have h := ih (k + 1) (FakeParen.mk p (decide (k = 0)) b :: S)
    have e2 : (if FakeParen.counted (FakeParen.mk p (decide (k = 0)) b) = true then
          ((S.filter FakeParen.counted).length : Int) + 1
        else ((S.filter FakeParen.counted).length : Int)) =
        (((FakeParen.mk p (decide (k = 0)) b :: S).filter FakeParen.counted).length : Int) := by
      rw [List.filter_cons]
      split
      · simp
      · rfl
    rw [e2]
    rw [List.map_cons] at h
    rw [h]
    simp only [List.enumFrom_cons, List.map_cons, List.reverse_cons, List.append_assoc,
      List.singleton_append]

theorem closeFakeParens_spec :
    ∀ (n : Nat) (S : List FakeParen),
      closeFakeParens n (S.map FakeParen.counted, ((S.filter FakeParen.counted).length : Int)) =
        ((S.drop n).map FakeParen.counted, (((S.drop n).filter FakeParen.counted).length : Int)) := by
  intro n
  induction n with
  | zero =>
    intro S
    rfl
  | succ n ih =>
    intro S
    cases S with
    | nil => rfl
    | cons p rest =>
      rw [closeFakeParens]
      simp only [List.map_cons, List.drop_succ_cons]
      rw [← ih rest]
      congr 2
      rw [List.filter_cons]
      split
      · simp
      · rfl

theorem fakeParensOpenAt_eq (T : TokenTable) (cs : Changes) (n : Nat) :
    fakeParensOpenAt T cs n =
      (fakeParensOf T (T.at (Changes.at cs n).Tok)).reverse ++ fakeParensOpenAfter T cs n := by
  cases n with
  | zero => simp [fakeParensOpenAt, fakeParensOpenAfter]
  | succ n => rfl

/-- The state of the third loop after the fake parentheses of record i were
opened, when the state before is that of the open fake parentheses. -/
theorem conditionalStep_opened (T : TokenTable) (cs0 : Changes) (i : Nat) :
    openFakeParens (afterConditionalColon T (T.at (Changes.at cs0 i).Tok))
        (T.at (Changes.at cs0 i).Tok).FakeLParens.reverse 0
        ((fakeParensOpenAfter T cs0 i).map FakeParen.counted,
          (conditionalsOpenAfter T cs0 i : Int)) =
      ((fakeParensOpenAt T cs0 i).map FakeParen.counted, (conditionalsOpenAt T cs0 i : Int)) := by
  unfold conditionalsOpenAfter conditionalsOpenAt
  rw [openFakeParens_spec, fakeParensOpenAt_eq]
  rfl

/-- One step of the third loop, from the state of the open fake
parentheses. -/
theorem conditionalStep_spec (T : TokenTable) (cs0 : Changes) (cs : Changes) (i : Nat)
    (htok : (Changes.at cs i).Tok = (Changes.at cs0 i).Tok) :
    conditionalStep T (cs, (fakeParensOpenAfter T cs0 i).map FakeParen.counted,
        (conditionalsOpenAfter T cs0 i : Int)) i =
      (cs.set i { Changes.at cs i with
          ConditionalsLevel := toUnsigned (conditionalsOpenAt T cs0 i : Int) },
        (fakeParensOpenAfter T cs0 (i + 1)).map FakeParen.counted,
        (conditionalsOpenAfter T cs0 (i + 1) : Int)) := by
  have h := conditionalStep_opened T cs0 i
  rw [← htok] at h
  unfold conditionalStep
  lift_lets
  extract_lets c t prev opened cs1 closed
  have ho : opened = ((fakeParensOpenAt T cs0 i).map FakeParen.counted,
      (conditionalsOpenAt T cs0 i : Int)) := h
  have hc : closed = ((fakeParensOpenAfter T cs0 (i + 1)).map FakeParen.counted,
      (conditionalsOpenAfter T cs0 (i + 1) : Int)) := by
    show closeFakeParens t.FakeRParens opened = _
    rw [ho]
    unfold conditionalsOpenAt
    rw [closeFakeParens_spec]
    have ht : t = T.at (Changes.at cs0 i).Tok := by
      show T.at (Changes.at cs i).Tok = _
      rw [htok]
    rw [ht]
    rfl
  show (cs.set i { c with ConditionalsLevel := toUnsigned opened.2 }, closed) = _
  rw [hc, ho]

/-- The state of the third loop after n records. -/
theorem conditional_fold_spec (T : TokenTable) (cs0 cs : Changes)
    (htok : ∀ j, (Changes.at cs j).Tok = (Changes.at cs0 j).Tok) (n : Nat) :
    ((List.range n).foldl (conditionalStep T) (cs, [], 0)).2 =
        ((fakeParensOpenAfter T cs0 n).map FakeParen.counted,
          (conditionalsOpenAfter T cs0 n : Int)) ∧
      (∀ j, j < n → j < cs.length →
        (Changes.at ((List.range n).foldl (conditionalStep T) (cs, [], 0)).1 j).ConditionalsLevel =
          toUnsigned (conditionalsOpenAt T cs0 j : Int)) := by
  induction n with
  | zero =>
    refine ⟨rfl, ?_⟩
    intro j hj
    omega
  | succ n ih =>
    obtain ⟨ih1, ih2⟩ := ih
    have hlen := conditional_fold_length T (cs, [], 0) n
    have ht : ∀ j, (Changes.at ((List.range n).foldl (conditionalStep T) (cs, [], 0)).1 j).Tok =
        (Changes.at cs0 j).Tok := by
      intro j
      rw [conditional_fold_proj Change.Tok (fun _ _ => rfl)]
      exact htok j
    rw [List.range_succ, List.foldl_append, List.foldl_cons, List.foldl_nil]
    generalize (List.range n).foldl (conditionalStep T) (cs, [], 0) = st at ih1 ih2 hlen ht
    obtain ⟨c, stack⟩ := st
    simp only at ih1 ih2 hlen ht
    subst ih1
    rw [conditionalStep_spec T cs0 c n (ht n)]
    refine ⟨rfl, ?_⟩
    intro j hj hjl
    simp only []
    by_cases hjn : n = j
    · subst hjn
      rw [Changes.at_set_self _ _ _ (by rw [hlen]; exact hjl)]
    · rw [Changes.at_set_ne _ _ _ _ hjn]
      exact ih2 j (by omega) hjl

theorem toUnsigned_natCast (n : Nat) : toUnsigned (n : Int) = n % 4294967296 := by
  unfold toUnsigned
  omega

/-- The conditional nesting level that calculateLineBreakInformation leaves
in a record. -/
theorem calculateLineBreakInformation_conditionalsLevel (W : WhitespaceManager) (i : Nat)
    (hi : i < W.Changes.length) :
    (Changes.at (calculateLineBreakInformation W).Changes i).ConditionalsLevel =
      conditionalsOpenAt W.Toks W.Changes i % 4294967296 := by
  unfold calculateLineBreakInformation
  lift_lets
  extract_lets c0 cs0 r1 last cl cs1 r2 r3
  show (Changes.at r3.1 i).ConditionalsLevel = _
  have hc : cs0.length = W.Changes.length := List.length_set _ _ _
  have h0 : r1.1.length = cs0.length := lineBreak_fold_length _ _ _ _
  have h1 : cs1.length = r1.1.length := List.length_set _ _ _
  have h2 : r2.Changes.length = cs1.length := comment_fold_length _ _ _
  have htok : ∀ j, (Changes.at r2.Changes j).Tok = (Changes.at W.Changes j).Tok := by
    intro j
    have e2 : (Changes.at r2.Changes j).Tok = (Changes.at cs1 j).Tok :=
      comment_fold_proj Change.Tok (fun _ _ => rfl) (fun _ _ => rfl) (fun _ _ => rfl)
        (fun _ _ => rfl) (fun _ _ => rfl) _ _ _ _
    have e1 : (Changes.at cs1 j).Tok = (Changes.at r1.1 j).Tok :=
      Changes.at_set_proj Change.Tok _ _ _ _ rfl
    have e0 : (Changes.at r1.1 j).Tok = (Changes.at cs0 j).Tok :=
      lineBreak_fold_proj Change.Tok (fun _ _ => rfl) (fun _ _ => rfl) (fun _ _ => rfl) _ _ _ _ _
    have ec : (Changes.at cs0 j).Tok = (Changes.at W.Changes j).Tok :=
      Changes.at_set_proj Change.Tok _ _ _ _ rfl
    rw [e2, e1, e0, ec]
  have h := (conditional_fold_spec W.Toks W.Changes r2.Changes htok r2.Changes.length).2 i
    (by rw [h2, h1, h0, hc]; exact hi) (by rw [h2, h1, h0, hc]; exact hi)
  rw [toUnsigned_natCast] at h
  exact h

/-- The running level of the third loop at every point of the loop over the
closing fake parentheses of record n. -/
theorem conditional_closing_spec (T : TokenTable) (cs : Changes) (n m : Nat) :
    (closeFakeParens m
      (openFakeParens (afterConditionalColon T (T.at (Changes.at cs n).Tok))
        (T.at (Changes.at cs n).Tok).FakeLParens.reverse 0
        ((List.range n).foldl (conditionalStep T) (cs, [], 0)).2)).2 =
      ((((fakeParensOpenAt T cs n).drop m).filter FakeParen.counted).length : Int) := by
  rw [(conditional_fold_spec T cs cs (fun _ => rfl) n).1, conditionalStep_opened]
  unfold conditionalsOpenAt
  rw [closeFakeParens_spec]

end ClangFormat

namespace ClangFormat

/-! ## The text that the patch emitter builds -/

theorem foldl_append_const (x : List Char) :
    ∀ (l : List Nat) (Text : List Char),
      l.foldl (fun t _ => t ++ x) Text = Text ++ (List.replicate l.length x).flatten := by
  intro l
  induction l with
  | nil =>
    intro Text
    simp
  | cons a rest ih =>
    intro Text
    rw [List.foldl_cons, ih]
    simp [List.replicate_succ, List.append_assoc]

theorem appendNewlineText_eq (W : WhitespaceManager) (Text : List Char) (Newlines : Nat) :
    appendNewlineText W Text Newlines = Text ++ newlineText W Newlines := by
  unfold appendNewlineText newlineText
  rw [foldl_append_const, List.length_range]

theorem foldl_escaped (x : List Char) (s' : Nat) :
    ∀ (l : List Nat) (Text : List Char) (s : Nat),
      (l.foldl (fun (st : List Char × Nat) _ => (appendChars st.1 st.2 ' ' ++ x, s')) (Text, s)).1 =
        Text ++ (l.foldl (fun (st : List Char × Nat) _ => (appendChars st.1 st.2 ' ' ++ x, s'))
          ([], s)).1 := by
  intro l
  induction l with
  | nil =>
    intro Text s
    simp
  | cons a rest ih =>
    intro Text s
    rw [List.foldl_cons, List.foldl_cons, ih, ih (appendChars [] s ' ' ++ x)]
    simp [appendChars, List.append_assoc]

theorem appendEscapedNewlineText_eq (W : WhitespaceManager) (Text : List Char)
    (Newlines PreviousEndOfTokenColumn EscapedNewlineColumn : Nat) :
    appendEscapedNewlineText W Text Newlines PreviousEndOfTokenColumn EscapedNewlineColumn =
      Text ++ appendEscapedNewlineText W [] Newlines PreviousEndOfTokenColumn
        EscapedNewlineColumn := by
  unfold appendEscapedNewlineText
  split
  · simp only []
    rw [foldl_escaped]
  · simp

theorem appendIndentText_eq (W : WhitespaceManager) (Text : List Char)
    (IndentLevel Spaces WhitespaceStartColumn : Nat) (IsAligned : Bool) :
    appendIndentText W Text IndentLevel Spaces WhitespaceStartColumn IsAligned =
      Text ++ appendIndentText W [] IndentLevel Spaces WhitespaceStartColumn IsAligned := by
  unfold appendIndentText appendTabIndent appendChars
  split
  all_goals repeat' split
  all_goals simp only [List.append_assoc, List.nil_append, List.append_nil, List.singleton_append]
  all_goals first
    | rfl
    | (split <;> rfl)

/-- The text that generateChanges builds for a record is the concatenation
of its parts. -/
theorem replacementText_eq (W : WhitespaceManager) (C : Change) :
    replacementText W C = replacementTextInParts W C := by
  unfold replacementText replacementTextInParts indentText escapedNewlineText
  simp only []
  rw [appendIndentText_eq]
  split
  · rw [appendEscapedNewlineText_eq]
  · rw [appendNewlineText_eq]

/-! ## The replacements that the patch emitter registers -/

theorem insertReplacement_length (r : Replacement) (R : List Replacement) :
    (insertReplacement r R).length = R.length + 1 := by
  induction R with
  | nil => rfl
  | cons q rest ih =>
    rw [insertReplacement]
    split
    · rfl
    · rw [List.length_cons, ih, List.length_cons]

theorem insertReplacement_mem (r : Replacement) (R : List Replacement) (q : Replacement) :
    q ∈ insertReplacement r R ↔ q = r ∨ q ∈ R := by
  induction R with
  | nil => simp [insertReplacement]
  | cons p rest ih =>
    rw [insertReplacement]
    split
    · simp
    · rw [List.mem_cons, ih, List.mem_cons]
      constructor
      · rintro (h | h | h)
        · exact Or.inr (Or.inl h)
        · exact Or.inl h
        · exact Or.inr (Or.inr h)
      · rintro (h | h | h)
        · exact Or.inr (Or.inl h)
        · exact Or.inl h
        · exact Or.inr (Or.inr h)

theorem insertReplacement_last (r : Replacement) (R : List Replacement)
    (h : ∀ q, q ∈ R → ¬ r.Offset < q.Offset) : insertReplacement r R = R ++ [r] := by
  induction R with
  | nil => rfl
  | cons q rest ih =>
    rw [insertReplacement, if_neg (h q (List.mem_cons_self _ _)),
      ih (fun p hp => h p (List.mem_cons_of_mem _ hp))]
    rfl

theorem storeReplacement_same (W : WhitespaceManager) (b e : Nat) (Text : List Char)
    (h : Text = originalText W.SourceText b (toUnsigned ((e : Int) - b))) :
    storeReplacement W b e Text = W := by
  unfold storeReplacement
  simp only []
  rw [if_pos h.symm]

theorem storeReplacement_new (W : WhitespaceManager) (b e : Nat) (Text : List Char)
    (h : Text ≠ originalText W.SourceText b (toUnsigned ((e : Int) - b)))
    (hfree : W.Replaces.any (fun q => q.overlaps
      { Offset := b, Length := toUnsigned ((e : Int) - b), ReplacementText := Text }) = false) :
    storeReplacement W b e Text =
      { W with Replaces := (insertReplacement ⟨b, toUnsigned ((e : Int) - b), Text⟩ W.Replaces) } := by
  unfold storeReplacement Replacements.add
  simp only []
  rw [if_neg (fun h' => h h'.symm), hfree]
  rfl

theorem storeReplacement_conflict (W : WhitespaceManager) (b e : Nat) (Text : List Char)
    (h : Text ≠ originalText W.SourceText b (toUnsigned ((e : Int) - b)))
    (hover : W.Replaces.any (fun q => q.overlaps
      { Offset := b, Length := toUnsigned ((e : Int) - b), ReplacementText := Text }) = true) :
    storeReplacement W b e Text = { W with AssertsHeld := false } := by
  unfold storeReplacement Replacements.add
  simp only []
  rw [if_neg (fun h' => h h'.symm), hover]
  rfl

theorem rangesInOrder_at (cs : Changes) (h : rangesInOrder cs = true) (i : Nat)
    (hi : i < cs.length) :
    (Changes.at cs i).OriginalWhitespaceBegin ≤ (Changes.at cs i).OriginalWhitespaceEnd ∧
      (Changes.at cs i).OriginalWhitespaceEnd < 4294967296 ∧
      ∀ j, j < i →
        (Changes.at cs j).OriginalWhitespaceEnd ≤ (Changes.at cs i).OriginalWhitespaceBegin ∧
        (Changes.at cs j).OriginalWhitespaceBegin < (Changes.at cs i).OriginalWhitespaceBegin := by
  unfold rangesInOrder at h
  rw [List.all_eq_true] at h
  have h1 := h i (List.mem_range.mpr hi)
  simp only [Bool.and_eq_true, decide_eq_true_eq, List.all_eq_true, List.mem_range] at h1
  exact ⟨h1.1.1, h1.1.2, fun j hj => h1.2 j hj⟩

theorem expectedReplacement_offset (W : WhitespaceManager) (C : Change) (q : Replacement)
    (h : expectedReplacement W C = some q) :
    q.Offset = C.OriginalWhitespaceBegin ∧
      q.Length = C.OriginalWhitespaceEnd - C.OriginalWhitespaceBegin := by
  unfold expectedReplacement at h
  split at h
  · simp only [Option.some.injEq] at h
    rw [← h]
    exact ⟨rfl, rfl⟩
  · exact absurd h (by simp)

/-- One step of generateChanges on a ledger whose ranges are in order, when
the replacements registered so far are those of the records before. -/
theorem generateStep_spec (W : WhitespaceManager) (hr : rangesInOrder W.Changes = true) (n : Nat)
    (hn : n < W.Changes.length) :
    generateStep { W with Replaces := ((List.range n).filterMap (fun i => expectedReplacement W (Changes.at W.Changes i))) } n =
      { W with Replaces := ((List.range (n + 1)).filterMap (fun i => expectedReplacement W (Changes.at W.Changes i))) } := by
  obtain ⟨h1, h2, h3⟩ := rangesInOrder_at W.Changes hr n hn
  have hlen : toUnsigned (((Changes.at W.Changes n).OriginalWhitespaceEnd : Int) -
      (Changes.at W.Changes n).OriginalWhitespaceBegin) =
      (Changes.at W.Changes n).OriginalWhitespaceEnd -
        (Changes.at W.Changes n).OriginalWhitespaceBegin := by
    unfold toUnsigned
    omega
  rw [List.range_succ, List.filterMap_append]
  generalize hR : (List.range n).filterMap
    (fun i => expectedReplacement W (Changes.at W.Changes i)) = R
  have hRmem : ∀ q, q ∈ R → ∃ j, j < n ∧
      q.Offset = (Changes.at W.Changes j).OriginalWhitespaceBegin ∧
      q.Length = (Changes.at W.Changes j).OriginalWhitespaceEnd -
        (Changes.at W.Changes j).OriginalWhitespaceBegin := by
    intro q hq
    rw [← hR, List.mem_filterMap] at hq
    obtain ⟨j, hj, hq⟩ := hq
    exact ⟨j, List.mem_range.mp hj, expectedReplacement_offset W _ q hq⟩
  unfold generateStep
  simp only []
  have hassert : ¬ (n > 0 ∧ (Changes.at W.Changes (n - 1)).OriginalWhitespaceBegin =
      (Changes.at W.Changes n).OriginalWhitespaceBegin) := by
    intro h
    have := (h3 (n - 1) (by omega)).2
    omega
  rw [if_neg hassert]
  have htext : replacementText { W with Replaces := R } (Changes.at W.Changes n) =
      replacementTextInParts W (Changes.at W.Changes n) := by
    rw [← replacementText_eq]
    rfl
  by_cases hc : (Changes.at W.Changes n).CreateReplacement = true
  · rw [if_pos hc, htext]
    by_cases ht : replacementTextInParts W (Changes.at W.Changes n) =
        originalText W.SourceText (Changes.at W.Changes n).OriginalWhitespaceBegin
          ((Changes.at W.Changes n).OriginalWhitespaceEnd -
            (Changes.at W.Changes n).OriginalWhitespaceBegin)
    · rw [storeReplacement_same _ _ _ _ (by rw [hlen]; exact ht)]
      have : expectedReplacement W (Changes.at W.Changes n) = none := by
        unfold expectedReplacement
        rw [if_neg (fun h => h.2 ht)]
      simp [this]
    · have hfree : ∀ q, q ∈ R → q.overlaps
          { Offset := (Changes.at W.Changes n).OriginalWhitespaceBegin
            Length := toUnsigned (((Changes.at W.Changes n).OriginalWhitespaceEnd : Int) -
              (Changes.at W.Changes n).OriginalWhitespaceBegin)
            ReplacementText := replacementTextInParts W (Changes.at W.Changes n) } = false := by
        intro q hq
        obtain ⟨j, hj, ho, hl⟩ := hRmem q hq
        obtain ⟨a1, _, _⟩ := rangesInOrder_at W.Changes hr j (by omega)
        obtain ⟨b1, b2⟩ := h3 j hj
        unfold Replacement.overlaps
        simp only [ho, hl, hlen, Bool.or_eq_false_iff, Bool.and_eq_false_iff, decide_eq_false_iff_not]
        constructor
        · right
          omega
        · omega
      rw [storeReplacement_new _ _ _ _ (by rw [hlen]; exact ht)
        (by
          rw [List.any_eq_false]
          intro q hq
          rw [hfree q hq]
          simp)]
      have : expectedReplacement W (Changes.at W.Changes n) =
          some { Offset := (Changes.at W.Changes n).OriginalWhitespaceBegin
                 Length := (Changes.at W.Changes n).OriginalWhitespaceEnd -
                   (Changes.at W.Changes n).OriginalWhitespaceBegin
                 ReplacementText := replacementTextInParts W (Changes.at W.Changes n) } := by
        unfold expectedReplacement
        rw [if_pos ⟨hc, ht⟩]
      simp only [List.filterMap_cons, List.filterMap_nil, this]
      rw [hlen]
      show { W with Replaces := insertReplacement _ R } = _
      rw [insertReplacement_last _ R (by
        intro q hq
        obtain ⟨j, hj, ho, _⟩ := hRmem q hq
        have := (h3 j hj).2
        show ¬ (Changes.at W.Changes n).OriginalWhitespaceBegin < q.Offset
        omega)]
  · rw [if_neg hc]
    have : expectedReplacement W (Changes.at W.Changes n) = none := by
      unfold expectedReplacement
      rw [if_neg (fun h => hc h.1)]
    simp [this]

/-- The replacements that generateChanges registers on a ledger whose ranges
are in order, when none is registered before. -/
theorem generateChanges_spec (W : WhitespaceManager) (hr : rangesInOrder W.Changes = true)
    (h0 : W.Replaces = []) :
    generateChanges W = { W with Replaces := expectedReplacements W } := by
  have key : ∀ n, n ≤ W.Changes.length →
      (List.range n).foldl generateStep W =
        { W with Replaces := ((List.range n).filterMap (fun i => expectedReplacement W (Changes.at W.Changes i))) } := by
    intro n
    induction n with
    | zero =>
      intro _
      show W = { W with Replaces := [] }
      rw [← h0]
    | succ n ih =>
      intro hn
      rw [List.range_succ, List.foldl_append, List.foldl_cons, List.foldl_nil, ih (by omega),
        generateStep_spec W hr n (by omega), List.range_succ]
  unfold generateChanges
  rw [key _ (Nat.le_refl _)]
  have e : (List.range W.Changes.length).filterMap
      (fun i => expectedReplacement W (Changes.at W.Changes i)) = expectedReplacements W := by
    unfold expectedReplacements
    have hm : (List.range W.Changes.length).map (fun i => Changes.at W.Changes i) = W.Changes := by
      apply List.ext_getElem (by simp)
      intro i h1 h2
      simp only [List.getElem_map, List.getElem_range]
      exact Changes.at_eq_getElem _ _ h2
    conv_rhs => rw [← hm]
    rw [List.filterMap_map]
    rfl
  rw [e]

end ClangFormat

namespace ClangFormat

/-! ## The text of escaped line breaks -/

theorem foldl_escaped_const (x : List Char) (s : Nat) :
    ∀ (l : List Nat) (Text : List Char),
      (l.foldl (fun (st : List Char × Nat) _ => (appendChars st.1 st.2 ' ' ++ x, s)) (Text, s)).1 =
        Text ++ (List.replicate l.length (List.replicate s ' ' ++ x)).flatten := by
  intro l
  induction l with
  | nil =>
    intro Text
    simp
  | cons a rest ih =>
    intro Text
    rw [List.foldl_cons, ih]
    simp [appendChars, List.replicate_succ, List.append_assoc]

theorem foldl_escaped_first (x : List Char) (s' : Nat) (a : Nat) (rest : List Nat)
    (Text : List Char) (s : Nat) :
    ((a :: rest).foldl (fun (st : List Char × Nat) _ => (appendChars st.1 st.2 ' ' ++ x, s'))
        (Text, s)).1 =
      Text ++ (List.replicate s ' ' ++ x ++
        (List.replicate rest.length (List.replicate s' ' ' ++ x)).flatten) := by
  rw [List.foldl_cons, foldl_escaped_const]
  simp [appendChars, List.append_assoc]

end ClangFormat

namespace ClangFormat

/-! ## alignTrailingComments with the switch off -/

theorem noBlockCommentStart_at (cs : Changes) (h : noBlockCommentStart cs = true) (i : Nat) :
    (Changes.at cs i).StartOfBlockComment = none := by
  by_cases hi : i < cs.length
  · rw [Changes.at_eq_getElem cs i hi]
    unfold noBlockCommentStart at h
    rw [List.all_eq_true] at h
    have := h cs[i] (List.getElem_mem hi)
    simpa using this
  · rw [Changes.at_of_le cs i (by omega)]

/-- A fold whose every step keeps the state returns the state. -/
theorem foldl_keeps {σ : Type} (f : σ → Nat → σ) (a : σ) :
    ∀ (l : List Nat), (∀ i, i ∈ l → f a i = a) → l.foldl f a = a := by
  intro l
  induction l with
  | nil =>
    intro _
    rfl
  | cons x rest ih =>
    intro h
    rw [List.foldl_cons, h x (List.mem_cons_self _ _)]
    exact ih (fun i hi => h i (List.mem_cons_of_mem _ hi))

theorem applyCommentShift_zero (cs : Changes) (i : Nat) (h : columnsInRange cs = true) :
    applyCommentShift cs i 0 = cs := by
  unfold applyCommentShift
  simp only []
  rw [addSpaces_zero]
  split
  · rw [addPreviousEndOfTokenColumn_zero cs (i + 1) (columnsInRange_at cs h (i + 1)).2,
      addStartOfTokenColumn_zero cs i (columnsInRange_at cs h i).1]
  · rw [addStartOfTokenColumn_zero cs i (columnsInRange_at cs h i).1]

/-- A call of alignTrailingComments(Start, End, Column) in whose range every
shift is 0 changes nothing. -/
theorem alignTrailingCommentsRange_fixed (cs : Changes) (Start End Column : Nat)
    (hr : columnsInRange cs = true)
    (hz : ∀ i, Start ≤ i → i < End → commentShift Column cs i = 0) :
    alignTrailingCommentsRange cs Start End Column = (cs, true) := by
  unfold alignTrailingCommentsRange
  apply foldl_keeps
  intro i hi
  rw [List.mem_range'_1] at hi
  unfold trailingCommentShift
  simp only []
  rw [hz i hi.1 (by omega), applyCommentShift_zero cs i hr]
  rfl

theorem trailingOffAt_shift (cs : Changes) (s : TrailingState) (i : Nat)
    (hnone : ∀ k, (Changes.at cs k).StartOfBlockComment = none)
    (h : TrailingOffAt cs s i) (k : Nat) (h1 : s.StartOfSequence ≤ k) (h2 : k < i) :
    commentShift s.MinColumn cs k = 0 := by
  unfold commentShift
  rw [hnone k]
  simp only []
  split
  · rename_i ht
    rw [h.only k h1 h2 ht]
    exact toInt_toUnsigned_self _
  · rfl

theorem trailingOffAt_step (T : TokenTable) (Style : FormatStyle) (src : List Char)
    (cs : Changes) (hoff : Style.AlignTrailingComments = false)
    (hnone : ∀ k, (Changes.at cs k).StartOfBlockComment = none)
    (hr : columnsInRange cs = true) (s : TrailingState) (i : Nat)
    (h : TrailingOffAt cs s i) :
    TrailingOffAt cs (trailingCommentStep T Style src s i) (i + 1) := by
  unfold trailingCommentStep
  rw [h.changes, hnone i]
  simp only [Option.isSome_none, Bool.false_eq_true, if_false]
  by_cases ht : (Changes.at cs i).IsTrailingComment = true
  · rw [if_neg (by simp [ht])]
    unfold closeIteration trailingDecision
    simp only []
    rw [if_pos (by simp [hoff])]
    unfold flushTrailing countNewlines
    simp only []
    rw [h.changes, alignTrailingCommentsRange_fixed cs s.StartOfSequence i s.MinColumn hr
      (fun k h1 h2 => trailingOffAt_shift cs s i hnone h k h1 h2)]
    refine ⟨rfl, ?_, ?_⟩
    · show (s.AssertsHeld && true) = true
      rw [h.asserts]
      rfl
    · intro k h1 h2 _
      have hk : k = i := by
        have h1' : i ≤ k := h1
        omega
      rw [hk]
  · rw [if_pos (by simp [ht])]
    unfold countNewlines
    refine ⟨h.changes, h.asserts, ?_⟩
    intro k h1 h2 hk
    by_cases hki : k = i
    · rw [hki] at hk
      exact absurd hk ht
    · exact h.only k h1 (by omega) hk

theorem trailingOffAt_fold (T : TokenTable) (Style : FormatStyle) (src : List Char)
    (cs : Changes) (hoff : Style.AlignTrailingComments = false)
    (hnone : ∀ k, (Changes.at cs k).StartOfBlockComment = none)
    (hr : columnsInRange cs = true) :
    ∀ n, TrailingOffAt cs
      ((List.range n).foldl (trailingCommentStep T Style src) { Changes := cs }) n := by
  intro n
  induction n with
  | zero => exact ⟨rfl, rfl, fun k _ h2 _ => absurd h2 (by omega)⟩
  | succ n ih =>
    rw [List.range_succ, List.foldl_append]
    exact trailingOffAt_step T Style src cs hoff hnone hr _ n ih

/-- With AlignTrailingComments off, alignTrailingComments() writes nothing
to a ledger without block-comment starts. -/
theorem alignTrailingCommentsOn_off (T : TokenTable) (Style : FormatStyle) (src : List Char)
    (cs : Changes) (hoff : Style.AlignTrailingComments = false)
    (hnone : ∀ k, (Changes.at cs k).StartOfBlockComment = none)
    (hr : columnsInRange cs = true) :
    alignTrailingCommentsOn T Style src cs = (cs, true) := by
  have h := trailingOffAt_fold T Style src cs hoff hnone hr cs.length
  unfold alignTrailingCommentsOn
  simp only []
  generalize (List.range cs.length).foldl (trailingCommentStep T Style src) { Changes := cs } = s
    at h
  rw [h.changes, h.asserts, alignTrailingCommentsRange_fixed cs s.StartOfSequence cs.length
    s.MinColumn hr (fun k h1 h2 => trailingOffAt_shift cs s cs.length hnone h k h1 h2)]
  rfl

end ClangFormat

namespace ClangFormat

/-! ## Macros and their columns -/

theorem endColumnsFit_at (cs : Changes) (h : endColumnsFit cs = true) (i : Nat) :
    (Changes.at cs i).PreviousEndOfTokenColumn + 2 < 4294967296 := by
  by_cases hi : i < cs.length
  · rw [Changes.at_eq_getElem cs i hi]
    unfold endColumnsFit at h
    rw [List.all_eq_true] at h
    have := h cs[i] (List.getElem_mem hi)
    simpa using this
  · rw [Changes.at_of_le cs i (by omega)]
    decide

theorem largestEndOfLine_self (cs : Changes) (a : Nat) : largestEndOfLine cs a (a + 1) = 0 := by
  unfold largestEndOfLine
  rw [Nat.sub_self]
  rfl

theorem largestEndOfLine_succ (cs : Changes) (a i : Nat) (h : a < i) :
    largestEndOfLine cs a (i + 1) =
      if decide ((Changes.at cs i).NewlinesBefore > 0) && (Changes.at cs i).ContinuesPPDirective
      then max ((Changes.at cs i).PreviousEndOfTokenColumn + 2) (largestEndOfLine cs a i)
      else largestEndOfLine cs a i := by
  unfold largestEndOfLine
  have e1 : i + 1 - (a + 1) = (i - (a + 1)) + 1 := by omega
  rw [e1, List.range'_concat, List.foldl_append]
  simp only [one_mul, List.foldl_cons, List.foldl_nil]
  have e2 : a + 1 + (i - (a + 1)) = i := by omega
  rw [e2]

/-- The value largestEndOfLine bounds every line-starting record of the
range that continues a directive. -/
theorem largestEndOfLine_ge (cs : Changes) (a : Nat) :
    ∀ d e, e = a + 1 + d → ∀ k, a < k → k < e → (Changes.at cs k).NewlinesBefore > 0 →
      (Changes.at cs k).ContinuesPPDirective = true →
      (Changes.at cs k).PreviousEndOfTokenColumn + 2 ≤ largestEndOfLine cs a e := by
  intro d
  induction d with
  | zero =>
    intro e he k h1 h2 _ _
    omega
  | succ d ih =>
    intro e he k h1 h2 hn hp
    have he' : e = (a + 1 + d) + 1 := by omega
    rw [he', largestEndOfLine_succ cs a (a + 1 + d) (by omega)]
    by_cases hk : k = a + 1 + d
    · rw [← hk, if_pos (by simp [hn, hp])]
      exact Nat.le_max_left _ _
    · have := ih (a + 1 + d) rfl k h1 (by omega) hn hp
      split
      · exact Nat.le_trans this (Nat.le_max_right _ _)
      · exact this

/-- The value largestEndOfLine is 0 or is taken by a line-starting record of
the range that continues a directive. -/
theorem largestEndOfLine_attained (cs : Changes) (a : Nat) :
    ∀ d e, e = a + 1 + d → largestEndOfLine cs a e = 0 ∨
      ∃ k, a < k ∧ k < e ∧ (Changes.at cs k).NewlinesBefore > 0 ∧
        (Changes.at cs k).ContinuesPPDirective = true ∧
        (Changes.at cs k).PreviousEndOfTokenColumn + 2 = largestEndOfLine cs a e := by
  intro d
  induction d with
  | zero =>
    intro e he
    left
    rw [he]
    exact largestEndOfLine_self cs a
  | succ d ih =>
    intro e he
    have he' : e = (a + 1 + d) + 1 := by omega
    rw [he', largestEndOfLine_succ cs a (a + 1 + d) (by omega)]
    have hprev := ih (a + 1 + d) rfl
    split
    · rename_i hc
      simp only [Bool.and_eq_true, decide_eq_true_eq] at hc
      right
      by_cases hm : largestEndOfLine cs a (a + 1 + d) ≤
          (Changes.at cs (a + 1 + d)).PreviousEndOfTokenColumn + 2
      · exact ⟨a + 1 + d, by omega, by omega, hc.1, hc.2, by rw [Nat.max_eq_left hm]⟩
      · rw [Nat.max_eq_right (by omega)]
        rcases hprev with h0 | ⟨k, k1, k2, k3, k4, k5⟩
        · omega
        · exact ⟨k, k1, by omega, k3, k4, k5⟩
    · rcases hprev with h0 | ⟨k, k1, k2, k3, k4, k5⟩
      · left
        exact h0
      · right
        exact ⟨k, k1, by omega, k3, k4, k5⟩

/-- Every record but the first that does not end a macro lies in a macro. -/
theorem isMacro_exists (cs : Changes) (k : Nat) (h0 : 0 < k) (hk : k < cs.length)
    (hc : endsMacro cs k = false) : ∃ a e, IsMacro cs a e ∧ a < k ∧ k < e := by
  have hstart : ∀ m, ∃ a, a ≤ m ∧ (a = 0 ∨ endsMacro cs a = true) ∧
      ∀ j, a < j → j ≤ m → endsMacro cs j = false := by
    intro m
    induction m with
    | zero => exact ⟨0, Nat.le_refl 0, Or.inl rfl, fun j h1 h2 => absurd h1 (by omega)⟩
    | succ m ih =>
      by_cases hm : endsMacro cs (m + 1) = true
      · exact ⟨m + 1, Nat.le_refl _, Or.inr hm, fun j h1 h2 => absurd h1 (by omega)⟩
      · obtain ⟨a, a1, a2, a3⟩ := ih
        refine ⟨a, by omega, a2, ?_⟩
        intro j h1 h2
        by_cases hj : j = m + 1
        · rw [hj]
          simpa using hm
        · exact a3 j h1 (by omega)
  have hend : ∀ d m, m + d = cs.length → ∃ e, m ≤ e ∧ e ≤ cs.length ∧
      (e = cs.length ∨ endsMacro cs e = true) ∧
      ∀ j, m ≤ j → j < e → endsMacro cs j = false := by
    intro d
    induction d with
    | zero =>
      intro m hm
      exact ⟨m, Nat.le_refl m, by omega, Or.inl (by omega), fun j h1 h2 => absurd h1 (by omega)⟩
    | succ d ih =>
      intro m hm
      by_cases hmm : endsMacro cs m = true
      · exact ⟨m, Nat.le_refl m, by omega, Or.inr hmm, fun j h1 h2 => absurd h1 (by omega)⟩
      · obtain ⟨e, e1, e2, e3, e4⟩ := ih (m + 1) (by omega)
        refine ⟨e, by omega, e2, e3, ?_⟩
        intro j h1 h2
        by_cases hj : j = m
        · rw [hj]
          simpa using hmm
        · exact e4 j (by omega) h2
  obtain ⟨a, a1, a2, a3⟩ := hstart k
  obtain ⟨e, e1, e2, e3, e4⟩ := hend (cs.length - (k + 1)) (k + 1) (by omega)
  have hak : a < k := by
    rcases Nat.lt_or_ge a k with h | h
    · exact h
    · have hak : a = k := by omega
      rcases a2 with h | h
      · omega
      · rw [hak, hc] at h
        exact absurd h (by simp)
  refine ⟨a, e, ⟨by omega, e2, a2, e3, ?_⟩, hak, by omega⟩
  intro j h1 h2
  rcases Nat.lt_or_ge k j with h | h
  · exact e4 j (by omega) h2
  · exact a3 j h1 h

/-- Two macros that share a record are the same macro. -/
theorem isMacro_unique (cs : Changes) (a e a' e' : Nat) (h : IsMacro cs a e)
    (h' : IsMacro cs a' e') (k : Nat) (h1 : a < k) (h2 : k < e) (h3 : a' < k) (h4 : k < e') :
    a = a' ∧ e = e' := by
  have ha : a = a' := by
    rcases Nat.lt_trichotomy a a' with hlt | heq | hgt
    · rcases h'.first with h0 | hb
      · omega
      · have := h.inner a' hlt (by omega)
        rw [hb] at this
        exact absurd this (by simp)
    · exact heq
    · rcases h.first with h0 | hb
      · omega
      · have := h'.inner a hgt (by omega)
        rw [hb] at this
        exact absurd this (by simp)
  have he : e = e' := by
    rcases Nat.lt_trichotomy e e' with hlt | heq | hgt
    · rcases h.last with h0 | hb
      · have := h'.le
        omega
      · have := h'.inner e (by omega) hlt
        rw [hb] at this
        exact absurd this (by simp)
    · exact heq
    · rcases h'.last with h0 | hb
      · have := h.le
        omega
      · have := h.inner e' (by omega) hgt
        rw [hb] at this
        exact absurd this (by simp)
  exact ⟨ha, he⟩

end ClangFormat

namespace ClangFormat

/-! ## alignEscapedNewlines(Start, End, Column) -/

theorem escapedNewlineSet_at (Column : Nat) (st : Changes × Bool) (i k : Nat) :
    Changes.at (escapedNewlineSet Column st i).1 k =
      if i = k ∧ (Changes.at st.1 i).NewlinesBefore > 0 then
        { Changes.at st.1 i with
          EscapedNewlineColumn := escapedColumnOf Column (Changes.at st.1 i) }
      else Changes.at st.1 k := by
  unfold escapedNewlineSet
  simp only []
  have hv : (if toUnsigned (((Changes.at st.1 i).PreviousEndOfTokenColumn : Int) + 1) > Column
      then 0 else Column) = escapedColumnOf Column (Changes.at st.1 i) := rfl
  rw [hv]
  generalize escapedColumnOf Column (Changes.at st.1 i) = v
  by_cases hn : (Changes.at st.1 i).NewlinesBefore > 0
  · rw [if_pos hn, Changes.at_set]
    by_cases hik : i = k
    · by_cases hl : i < st.1.length
      · rw [if_pos ⟨hik, hl⟩, if_pos ⟨hik, hn⟩]
      · rw [Changes.at_of_le st.1 i (by omega)] at hn
        exact absurd hn (by decide)
    · rw [if_neg (fun h => hik h.1), if_neg (fun h => hik h.1)]
  · rw [if_neg hn, if_neg (fun h => hn h.2)]

theorem escapedNewlineSet_length (Column : Nat) (st : Changes × Bool) (i : Nat) :
    (escapedNewlineSet Column st i).1.length = st.1.length := by
  unfold escapedNewlineSet
  simp only []
  split
  · simp
  · rfl

theorem escapedNewlineSet_asserts (Column : Nat) (st : Changes × Bool) (i : Nat) :
    (escapedNewlineSet Column st i).2 =
      (st.2 && (decide ((Changes.at st.1 i).NewlinesBefore = 0) ||
        (Changes.at st.1 i).ContinuesPPDirective)) := by
  unfold escapedNewlineSet
  simp only []
  by_cases hn : (Changes.at st.1 i).NewlinesBefore > 0
  · rw [if_pos hn]
    have : decide ((Changes.at st.1 i).NewlinesBefore = 0) = false := by
      simp
      omega
    rw [this]
    simp
  · rw [if_neg hn]
    have : decide ((Changes.at st.1 i).NewlinesBefore = 0) = true := by
      simp
      omega
    rw [this]
    simp

/-- The effect of alignEscapedNewlines(Start, End, Column) with End = Start +
m: the line-starting records of the range get their column, every other
record is kept, and the assertion holds if every line-starting record of the
range continues a directive. -/
theorem alignEscapedNewlinesRange_spec (Column : Nat) (st : Changes × Bool) (Start : Nat) :
    ∀ m,
      ((List.range' Start m).foldl (escapedNewlineSet Column) st).1.length = st.1.length ∧
      (∀ k, Changes.at ((List.range' Start m).foldl (escapedNewlineSet Column) st).1 k =
        if Start ≤ k ∧ k < Start + m ∧ (Changes.at st.1 k).NewlinesBefore > 0 then
          { Changes.at st.1 k with
            EscapedNewlineColumn := escapedColumnOf Column (Changes.at st.1 k) }
        else Changes.at st.1 k) ∧
      (st.2 = true →
        (∀ k, Start ≤ k → k < Start + m → (Changes.at st.1 k).NewlinesBefore > 0 →
          (Changes.at st.1 k).ContinuesPPDirective = true) →
        ((List.range' Start m).foldl (escapedNewlineSet Column) st).2 = true) := by
  intro m
  induction m with
  | zero =>
    refine ⟨rfl, ?_, ?_⟩
    · intro k
      rw [if_neg (by omega)]
      rfl
    · intro h _
      exact h
  | succ m ih =>
    obtain ⟨ih1, ih2, ih3⟩ := ih
    rw [List.range'_concat, List.foldl_append]
    simp only [one_mul, List.foldl_cons, List.foldl_nil]
    generalize (List.range' Start m).foldl (escapedNewlineSet Column) st = R at ih1 ih2 ih3
    have hsame : Changes.at R.1 (Start + m) = Changes.at st.1 (Start + m) := by
      rw [ih2, if_neg (by omega)]
    refine ⟨by rw [escapedNewlineSet_length, ih1], ?_, ?_⟩
    · intro k
      rw [escapedNewlineSet_at, hsame]
      by_cases hk : Start + m = k
      · by_cases hn : (Changes.at st.1 (Start + m)).NewlinesBefore > 0
        · rw [if_pos ⟨hk, hn⟩, if_pos ⟨by omega, by omega, by rw [← hk]; exact hn⟩, ← hk]
        · rw [if_neg (fun h => hn h.2), ih2, if_neg (by omega),
            if_neg (fun h => hn (by rw [hk]; exact h.2.2))]
      · rw [if_neg (fun h => hk h.1), ih2]
        by_cases hc : Start ≤ k ∧ k < Start + m ∧ (Changes.at st.1 k).NewlinesBefore > 0
        · rw [if_pos hc, if_pos ⟨hc.1, by omega, hc.2.2⟩]
        · rw [if_neg hc, if_neg (fun h => hc ⟨h.1, by omega, h.2.2⟩)]
    · intro h hall
      rw [escapedNewlineSet_asserts, hsame, ih3 h (fun k k1 k2 k3 => hall k k1 (by omega) k3)]
      by_cases hn : (Changes.at st.1 (Start + m)).NewlinesBefore > 0
      · rw [hall (Start + m) (by omega) (by omega) hn]
        simp
      · have : decide ((Changes.at st.1 (Start + m)).NewlinesBefore = 0) = true := by
          simp
          omega
        rw [this]
        rfl

theorem macroColumn_eq (Style : FormatStyle) (cs : Changes) (a e : Nat) :
    macroColumn Style cs a e = max (largestEndOfLine cs a e)
      (if Style.AlignEscapedNewlines = EscapedNewlineAlignmentStyle.ENAS_Left then 0
       else Style.ColumnLimit) := by
  unfold macroColumn
  split
  · simp
  · rfl

/-- A call of alignEscapedNewlines(StartOfMacro + 1, e, MaxEndOfLine) at the
end e of the pending macro gives its line-starting records the column of the
macro and fails no assertion. -/
theorem escapedAt_flush (Style : FormatStyle) (cs : Changes) (hs : endColumnsFit cs = true)
    (s : EscapedState) (i e : Nat) (h : EscapedAt Style cs s i) (hie : e ≤ i)
    (hse : s.StartOfMacro < e)
    (hmax : s.MaxEndOfLine = macroColumn Style cs s.StartOfMacro e)
    (hlast : e = cs.length ∨ endsMacro cs e = true) (hle : e ≤ cs.length) :
    (alignEscapedNewlinesRange (s.Changes, s.AssertsHeld) (s.StartOfMacro + 1) e
      s.MaxEndOfLine).2 = true ∧
    (alignEscapedNewlinesRange (s.Changes, s.AssertsHeld) (s.StartOfMacro + 1) e
      s.MaxEndOfLine).1.length = cs.length ∧
    (∀ k, (Changes.at (alignEscapedNewlinesRange (s.Changes, s.AssertsHeld) (s.StartOfMacro + 1)
      e s.MaxEndOfLine).1 k).NewlinesBefore = (Changes.at cs k).NewlinesBefore) ∧
    (∀ k, (Changes.at (alignEscapedNewlinesRange (s.Changes, s.AssertsHeld) (s.StartOfMacro + 1)
      e s.MaxEndOfLine).1 k).ContinuesPPDirective = (Changes.at cs k).ContinuesPPDirective) ∧
    (∀ k, (Changes.at (alignEscapedNewlinesRange (s.Changes, s.AssertsHeld) (s.StartOfMacro + 1)
      e s.MaxEndOfLine).1 k).PreviousEndOfTokenColumn =
        (Changes.at cs k).PreviousEndOfTokenColumn) ∧
    (∀ a' e', IsMacro cs a' e' → e' ≤ e → ∀ k, a' < k → k < e' →
      (Changes.at cs k).NewlinesBefore > 0 →
      (Changes.at (alignEscapedNewlinesRange (s.Changes, s.AssertsHeld) (s.StartOfMacro + 1)
        e s.MaxEndOfLine).1 k).EscapedNewlineColumn = macroColumn Style cs a' e') := by
  have hspec := alignEscapedNewlinesRange_spec s.MaxEndOfLine (s.Changes, s.AssertsHeld)
    (s.StartOfMacro + 1) (e - (s.StartOfMacro + 1))
  obtain ⟨h1, h2, h3⟩ := hspec
  have hend : s.StartOfMacro + 1 + (e - (s.StartOfMacro + 1)) = e := by omega
  rw [hend] at h2 h3
  have hM : IsMacro cs s.StartOfMacro e :=
    ⟨hse, hle, h.first, hlast, fun j j1 j2 => h.inner j j1 (by omega)⟩
  unfold alignEscapedNewlinesRange
  refine ⟨?_, ?_, ?_, ?_, ?_, ?_⟩
  · apply h3 h.asserts
    intro k k1 k2 k3
    have hk := h.inner k (by omega) (by omega)
    unfold endsMacro at hk
    rw [← h.newlines k, ← h.continues k] at hk
    simp only [Bool.and_eq_false_iff, decide_eq_false_iff_not, Bool.not_eq_false'] at hk
    rcases hk with hk | hk
    · exact absurd k3 hk
    · exact hk
  · rw [h1]
    exact h.length
  · intro k
    rw [h2]
    split
    · exact h.newlines k
    · exact h.newlines k
  · intro k
    rw [h2]
    split
    · exact h.continues k
    · exact h.continues k
  · intro k
    rw [h2]
    split
    · exact h.previous k
    · exact h.previous k
  · intro a' e' hM' he' k k1 k2 k3
    rw [h2]
    by_cases hin : s.StartOfMacro < k
    · have hu := isMacro_unique cs a' e' s.StartOfMacro e hM' hM k k1 k2 hin (by omega)
      have hnk : (Changes.at s.Changes k).NewlinesBefore > 0 := by
        rw [h.newlines k]
        exact k3
      rw [if_pos ⟨by omega, by omega, hnk⟩]
      show escapedColumnOf s.MaxEndOfLine (Changes.at s.Changes k) = _
      unfold escapedColumnOf
      rw [h.previous k, hu.1, hu.2, hmax]
      have hpp : (Changes.at cs k).ContinuesPPDirective = true := by
        have hk := h.inner k hin (by omega)
        unfold endsMacro at hk
        simp only [Bool.and_eq_false_iff, decide_eq_false_iff_not, Bool.not_eq_false'] at hk
        rcases hk with hk | hk
        · exact absurd k3 hk
        · exact hk
      have hge := largestEndOfLine_ge cs s.StartOfMacro (e - (s.StartOfMacro + 1)) e (by omega)
        k hin (by omega) k3 hpp
      have hfit := endColumnsFit_at cs hs k
      have hcol : largestEndOfLine cs s.StartOfMacro e ≤ macroColumn Style cs s.StartOfMacro e := by
        rw [macroColumn_eq]
        exact Nat.le_max_left _ _
      rw [if_neg]
      unfold toUnsigned
      omega
    · have hke : e' ≤ s.StartOfMacro := by
        rcases Nat.lt_or_ge s.StartOfMacro e' with hlt | hge
        · rcases h.first with h0 | hb
          · omega
          · by_cases hak : a' < s.StartOfMacro
            · have := hM'.inner s.StartOfMacro hak hlt
              rw [hb] at this
              exact absurd this (by simp)
            · omega
        · exact hge
      rw [if_neg (by omega)]
      exact h.finished a' e' hM' hke k k1 k2 k3

end ClangFormat

namespace ClangFormat

/-! ## The loop of alignEscapedNewlines() -/

theorem endsMacro_of_continues (cs : Changes) (i : Nat)
    (h : (Changes.at cs i).NewlinesBefore = 0 ∨ (Changes.at cs i).ContinuesPPDirective = true) :
    endsMacro cs i = false := by
  unfold endsMacro
  rcases h with h | h
  · simp [h]
  · simp [h]

theorem escapedAt_step (Style : FormatStyle) (cs : Changes) (hs : endColumnsFit cs = true)
    (s : EscapedState) (i : Nat) (hi : i < cs.length) (h : EscapedAt Style cs s i) :
    EscapedAt Style cs (escapedNewlineStep Style s i) (i + 1) := by
  have hstart := h.start
  unfold escapedNewlineStep
  simp only []
  rw [h.newlines i, h.continues i, h.previous i]
  by_cases hn : (Changes.at cs i).NewlinesBefore > 0
  · rw [if_pos hn]
    by_cases hp : (Changes.at cs i).ContinuesPPDirective = true
    · rw [if_pos hp]
      refine ⟨h.length, h.newlines, h.continues, h.previous, h.asserts, by
        show s.StartOfMacro < i + 1
        omega, h.first, ?_, ?_, h.finished⟩
      · intro j j1 j2
        by_cases hj : j = i
        · rw [hj]
          exact endsMacro_of_continues cs i (Or.inr hp)
        · exact h.inner j j1 (by
            have : j < i + 1 := j2
            omega)
      · show max (toUnsigned (((Changes.at cs i).PreviousEndOfTokenColumn : Int) + 2))
          s.MaxEndOfLine = max (largestEndOfLine cs s.StartOfMacro (i + 1)) _
        rw [largestEndOfLine_succ cs s.StartOfMacro i hstart, if_pos (by simp [hn, hp]),
          h.maxEnd]
        have hfit := endColumnsFit_at cs hs i
        have e : toUnsigned (((Changes.at cs i).PreviousEndOfTokenColumn : Int) + 2) =
            (Changes.at cs i).PreviousEndOfTokenColumn + 2 := by
          unfold toUnsigned
          omega
        rw [e, Nat.max_assoc]
    · rw [if_neg hp]
      have hends : endsMacro cs i = true := by
        unfold endsMacro
        simp [hn, hp]
      have hf := escapedAt_flush Style cs hs s i i h (Nat.le_refl i) hstart
        (by rw [h.maxEnd, macroColumn_eq]) (Or.inr hends) (by omega)
      obtain ⟨f1, f2, f3, f4, f5, f6⟩ := hf
      refine ⟨f2, f3, f4, f5, f1, by
        show i < i + 1
        omega, Or.inr hends, ?_, ?_, ?_⟩
      · intro j j1 j2
        have j1' : i < j := j1
        omega
      · show (if Style.AlignEscapedNewlines = EscapedNewlineAlignmentStyle.ENAS_Left then 0
          else Style.ColumnLimit) = max (largestEndOfLine cs i (i + 1)) _
        rw [largestEndOfLine_self]
        simp
      · intro a e hM he k k1 k2 k3
        exact f6 a e hM he k k1 k2 k3
  · rw [if_neg hn]
    refine ⟨h.length, h.newlines, h.continues, h.previous, h.asserts, by omega, h.first,
      ?_, ?_, h.finished⟩
    · intro j j1 j2
      by_cases hj : j = i
      · rw [hj]
        exact endsMacro_of_continues cs i (Or.inl (by omega))
      · exact h.inner j j1 (by omega)
    · rw [largestEndOfLine_succ cs s.StartOfMacro i hstart, if_neg (by simp; omega)]
      exact h.maxEnd

theorem escapedAt_fold (Style : FormatStyle) (cs : Changes) (hs : endColumnsFit cs = true) :
    ∀ m, m + 1 ≤ cs.length →
      EscapedAt Style cs ((List.range' 1 m).foldl (escapedNewlineStep Style)
        { Changes := cs
          MaxEndOfLine :=
            if Style.AlignEscapedNewlines = EscapedNewlineAlignmentStyle.ENAS_Left then 0
            else Style.ColumnLimit }) (m + 1) := by
  intro m
  induction m with
  | zero =>
    intro _
    refine ⟨rfl, fun _ => rfl, fun _ => rfl, fun _ => rfl, rfl, by
      show 0 < 0 + 1
      omega, Or.inl rfl, ?_, ?_, ?_⟩
    · intro j j1 j2
      have j1' : 0 < j := j1
      omega
    · show (if Style.AlignEscapedNewlines = EscapedNewlineAlignmentStyle.ENAS_Left then 0
        else Style.ColumnLimit) = max (largestEndOfLine cs 0 (0 + 1)) _
      rw [largestEndOfLine_self]
      simp
    · intro a e hM he
      have := hM.lt
      have he' : e ≤ 0 := he
      omega
  | succ m ih =>
    intro hm
    rw [foldl_range'_one_succ]
    exact escapedAt_step Style cs hs _ (m + 1) (by omega) (ih (by omega))

/-- The result of alignEscapedNewlines() when it is not disabled: no
assertion fails, and every line-starting record of a macro has the column of
the macro. -/
theorem alignEscapedNewlinesOn_spec (Style : FormatStyle) (cs : Changes)
    (hon : Style.AlignEscapedNewlines ≠ EscapedNewlineAlignmentStyle.ENAS_DontAlign)
    (hs : endColumnsFit cs = true) :
    (alignEscapedNewlinesOn Style cs).2 = true ∧
    ∀ a e, IsMacro cs a e → ∀ k, a < k → k < e → (Changes.at cs k).NewlinesBefore > 0 →
      (Changes.at (alignEscapedNewlinesOn Style cs).1 k).EscapedNewlineColumn =
        macroColumn Style cs a e := by
  unfold alignEscapedNewlinesOn
  rw [if_neg hon]
  simp only []
  by_cases hn : cs.length = 0
  · have hnil : cs = [] := List.length_eq_zero.mp hn
    subst hnil
    refine ⟨rfl, ?_⟩
    intro a e hM
    have := hM.lt
    have := hM.le
    simp at this
    omega
  · have h := escapedAt_fold Style cs hs (cs.length - 1) (by omega)
    have e1 : cs.length - 1 + 1 = cs.length := by omega
    rw [e1] at h
    generalize (List.range' 1 (cs.length - 1)).foldl (escapedNewlineStep Style)
      { Changes := cs
        MaxEndOfLine :=
          if Style.AlignEscapedNewlines = EscapedNewlineAlignmentStyle.ENAS_Left then 0
          else Style.ColumnLimit } = s at h
    rw [h.length]
    have hf := escapedAt_flush Style cs hs s cs.length cs.length h (Nat.le_refl _) h.start
      (by rw [h.maxEnd, macroColumn_eq]) (Or.inl rfl) (Nat.le_refl _)
    exact ⟨hf.1, fun a e hM k k1 k2 k3 => hf.2.2.2.2.2 a e hM hM.le k k1 k2 k3⟩

end ClangFormat

namespace ClangFormat

/-! ## The limit of leading spaces -/

theorem tally_leadingSpacesReqd_small (a b : Nat) (ha : a < 2147483648) (hb : b < 2147483648) :
    (toUnsigned (Tally.leadingSpacesReqd a b) : Int) = |(a : Int) - b| := by
  unfold Tally.leadingSpacesReqd
  simp only []
  rw [toInt_toUnsigned _ (by omega) (by omega)]
  split
  · rename_i h
    rw [abs_of_neg h]
    have := toUnsigned_of_range (((a : Int) - b) * -1) (by omega) (by omega)
    omega
  · rename_i h
    rw [abs_of_nonneg (by omega)]
    exact toUnsigned_of_range ((a : Int) - b) (by omega) (by omega)

end ClangFormat

namespace ClangFormat

/-! ## What the loop of columnarizeIdentifierTokens writes -/

theorem shiftRestOfLine_length (lenDiff : Int) :
    ∀ (fuel : Nat) (cs : Changes) (j : Nat),
      (shiftRestOfLine lenDiff fuel cs j).length = cs.length := by
  intro fuel
  induction fuel with
  | zero =>
    intro cs j
    rfl
  | succ fuel ih =>
    intro cs j
    rw [shiftRestOfLine]
    split
    · rw [ih]
      simp
    · rfl

theorem shiftRestOfLine_proj {α : Type} (g : Change → α)
    (hg : ∀ (c : Change) (v : Nat), g { c with StartOfTokenColumn := v } = g c) (lenDiff : Int) :
    ∀ (fuel : Nat) (cs : Changes) (j k : Nat),
      g (Changes.at (shiftRestOfLine lenDiff fuel cs j) k) = g (Changes.at cs k) := by
  intro fuel
  induction fuel with
  | zero =>
    intro cs j k
    rfl
  | succ fuel ih =>
    intro cs j k
    rw [shiftRestOfLine]
    split
    · rw [ih, Changes.at_set]
      split
      · rename_i h
        rw [hg, h.1]
      · rfl
    · rfl

theorem identifierFrame_refl (W : WhitespaceManager) : IdentifierFrame W W :=
  ⟨rfl, fun _ => rfl, fun _ => rfl, rfl, rfl⟩

theorem identifierFrame_trans {W W1 W2 : WhitespaceManager} (h1 : IdentifierFrame W W1)
    (h2 : IdentifierFrame W1 W2) : IdentifierFrame W W2 :=
  ⟨h2.length.trans h1.length, fun k => (h2.tok k).trans (h1.tok k),
    fun p => (h2.toks p).trans (h1.toks p), h2.style.trans h1.style,
    h2.maxDatatypeLen.trans h1.maxDatatypeLen⟩

theorem setSpaces_at (W : WhitespaceManager) (i : Nat) (v : Int) (k : Nat) :
    Changes.at (W.setSpaces i v).Changes k =
      if i = k ∧ i < W.Changes.length then { Changes.at W.Changes i with Spaces := v }
      else Changes.at W.Changes k := by
  unfold WhitespaceManager.setSpaces WhitespaceManager.setChange
  exact Changes.at_set _ _ _ _

theorem setSpaces_frame (W : WhitespaceManager) (i : Nat) (v : Int) :
    IdentifierFrame W (W.setSpaces i v) := by
  refine ⟨?_, ?_, fun _ => rfl, rfl, rfl⟩
  · unfold WhitespaceManager.setSpaces WhitespaceManager.setChange
    simp
  · intro k
    rw [setSpaces_at]
    split
    · rename_i h
      rw [h.1]
    · rfl

theorem shiftRest_frame (W : WhitespaceManager) (lenDiff : Int) (i : Nat) :
    IdentifierFrame W (W.shiftRest lenDiff i) := by
  refine ⟨?_, ?_, fun _ => rfl, rfl, rfl⟩
  · exact shiftRestOfLine_length lenDiff _ _ _
  · intro k
    exact shiftRestOfLine_proj (fun c => c.Tok) (fun _ _ => rfl) lenDiff _ _ _ k

theorem shiftRest_spaces (W : WhitespaceManager) (lenDiff : Int) (i k : Nat) :
    (Changes.at (W.shiftRest lenDiff i).Changes k).Spaces = (Changes.at W.Changes k).Spaces :=
  shiftRestOfLine_proj (fun c => c.Spaces) (fun _ _ => rfl) lenDiff _ _ _ k

theorem noteMemberName_frame (W : WhitespaceManager) (n : Nat) :
    IdentifierFrame W (W.noteMemberName n) :=
  ⟨rfl, fun _ => rfl, fun _ => rfl, rfl, rfl⟩

theorem tokenTable_at_set (T : TokenTable) (n p : Nat) (t : FormatToken) :
    TokenTable.at (T.set n t) p = if n = p ∧ n < T.length then t else TokenTable.at T p := by
  unfold TokenTable.at
  by_cases h : n = p
  · subst h
    by_cases hl : n < T.length
    · simp [hl]
    · rw [List.set_eq_of_length_le (by omega)]
      simp [hl]
  · simp [h, List.getD_eq_getElem?_getD, List.getElem?_set_ne h]

theorem setPrevTokenSize_frame (W : WhitespaceManager) (q : Option Nat) (v : Nat) :
    IdentifierFrame W (W.setPrevTokenSize q v) := by
  unfold WhitespaceManager.setPrevTokenSize
  cases q with
  | none => exact identifierFrame_refl W
  | some n =>
    refine ⟨rfl, fun _ => rfl, ?_, rfl, rfl⟩
    intro p
    show FormatToken.sizeless (TokenTable.at (W.Toks.set n _) p) = _
    rw [tokenTable_at_set]
    split
    · rename_i h
      rw [← h.1]
      rfl
    · rfl

theorem setPrevTokenSize_changes (W : WhitespaceManager) (q : Option Nat) (v : Nat) :
    (W.setPrevTokenSize q v).Changes = W.Changes := by
  unfold WhitespaceManager.setPrevTokenSize
  cases q <;> rfl

/-- One iteration of the loop of columnarizeIdentifierTokens writes only
what IdentifierFrame leaves open. -/
theorem identifierStep_frame (pad : Nat) (W : WhitespaceManager) (i : Nat) :
    IdentifierFrame W (identifierStep pad W i) := by
  unfold identifierStep
  lift_lets
  extract_lets MyTok NextTok lenDiff wide W1
  split
  · exact identifierFrame_refl W
  · split
    · exact identifierFrame_trans (setSpaces_frame W i _) (shiftRest_frame _ lenDiff i)
    · split
      · exact identifierFrame_trans
          (identifierFrame_trans
            (identifierFrame_trans (setSpaces_frame W i _) (noteMemberName_frame _ _))
            (shiftRest_frame _ lenDiff i))
          (setPrevTokenSize_frame _ _ _)
      · split
        · exact identifierFrame_trans
            (identifierFrame_trans (setSpaces_frame W i _) (noteMemberName_frame _ _))
            (setPrevTokenSize_frame _ _ _)
        · split
          · clear_value NextTok
            cases NextTok with
            | some n =>
              exact identifierFrame_trans
                (identifierFrame_trans (setSpaces_frame W i _) (noteMemberName_frame _ _))
                (setPrevTokenSize_frame _ _ _)
            | none => exact setSpaces_frame W i _
          · split
            · generalize W.Toks.deref MyTok.Previous = o
              cases o with
              | some p => exact ⟨rfl, fun _ => rfl, fun _ => rfl, rfl, rfl⟩
              | none => exact identifierFrame_refl W
            · exact identifierFrame_refl W

end ClangFormat

namespace ClangFormat

/-! ## One iteration of the loop of columnarizeIdentifierTokens -/

theorem setSpaces_spaces_ne (W : WhitespaceManager) (i : Nat) (v : Int) (k : Nat) (h : k ≠ i) :
    (Changes.at (W.setSpaces i v).Changes k).Spaces = (Changes.at W.Changes k).Spaces := by
  rw [setSpaces_at, if_neg (fun hh => h hh.1.symm)]

/-- One iteration of the loop of columnarizeIdentifierTokens at index i
leaves Spaces of every other record as it is. -/
theorem identifierStep_spaces (pad : Nat) (W : WhitespaceManager) (i k : Nat) (h : k ≠ i) :
    (Changes.at (identifierStep pad W i).Changes k).Spaces = (Changes.at W.Changes k).Spaces := by
  unfold identifierStep
  lift_lets
  extract_lets MyTok NextTok lenDiff wide W1
  split
  · rfl
  · split
    · rw [shiftRest_spaces, setSpaces_spaces_ne W i _ k h]
    · split
      · rw [setPrevTokenSize_changes, shiftRest_spaces]
        exact setSpaces_spaces_ne W i _ k h
      · split
        · rw [setPrevTokenSize_changes]
          exact setSpaces_spaces_ne W i _ k h
        · split
          · clear_value NextTok
            cases NextTok with
            | some n =>
              show (Changes.at ((W1.noteMemberName _).setPrevTokenSize _ _).Changes k).Spaces = _
              rw [setPrevTokenSize_changes]
              exact setSpaces_spaces_ne W i _ k h
            | none => exact setSpaces_spaces_ne W i _ k h
          · split
            · generalize W.Toks.deref MyTok.Previous = o
              cases o <;> rfl
            · rfl

/-- The record of a member variable name that the loop of
columnarizeIdentifierTokens does not pass over and that does not stand
directly after a left brace gets pad + lenDiff spaces. -/
theorem identifierStep_member (pad : Nat) (W : WhitespaceManager) (i : Nat)
    (hi : i < W.Changes.length)
    (h : padsMemberName W.Toks (Changes.at W.Changes i).Tok = true) :
    (Changes.at (identifierStep pad W i).Changes i).Spaces =
      toInt (toUnsigned ((pad : Int) + ((W.MaxDatatypeLen : Int) -
        (W.Toks.at (Changes.at W.Changes i).Tok).PrevTokenSizeForColumnarization))) := by
  unfold padsMemberName at h
  simp only [Bool.and_eq_true, Bool.not_eq_true'] at h
  obtain ⟨⟨h1, h2⟩, h3⟩ := h
  unfold identifierStep
  lift_lets
  extract_lets MyTok NextTok lenDiff wide W1
  rw [if_neg (by
    show ¬ passedOver W.Toks (W.Toks.at (Changes.at W.Changes i).Tok) = true
    rw [h1]
    simp), if_pos (by exact h2), shiftRest_spaces, setSpaces_at, if_pos ⟨rfl, hi⟩]
  show (if afterLeftBrace W.Toks (W.Toks.at (Changes.at W.Changes i).Tok) = true then (0 : Int)
    else _) = _
  rw [if_neg (by rw [h3]; simp)]

theorem sizeless_fields (t1 t : FormatToken) (h : t1.sizeless = t.sizeless) :
    t1.IsClassScope = t.IsClassScope ∧ t1.IsStructScope = t.IsStructScope ∧
    t1.LbraceCount = t.LbraceCount ∧ t1.LparenCount = t.LparenCount ∧
    t1.Previous = t.Previous ∧ t1.Next = t.Next ∧
    t1.isMemberVarNameInDecl = t.isMemberVarNameInDecl ∧ t1.Kind = t.Kind ∧
    t1.TokType = t.TokType :=
  ⟨congrArg (fun x => x.IsClassScope) h, congrArg (fun x => x.IsStructScope) h,
    congrArg (fun x => x.LbraceCount) h, congrArg (fun x => x.LparenCount) h,
    congrArg (fun x => x.Previous) h, congrArg (fun x => x.Next) h,
    congrArg (fun x => x.isMemberVarNameInDecl) h, congrArg (fun x => x.Kind) h,
    congrArg (fun x => x.TokType) h⟩

/-- The test padsMemberName does not read the recorded sizes. -/
theorem padsMemberName_congr (T1 T : TokenTable)
    (h : ∀ p, (T1.at p).sizeless = (T.at p).sizeless) (p : Nat) :
    padsMemberName T1 p = padsMemberName T p := by
  have hp := sizeless_fields _ _ (h p)
  obtain ⟨e1, e2, e3, e4, e5, e6, e7, _, _⟩ := hp
  unfold padsMemberName passedOver afterLeftBrace TokenTable.isOneOf TokenTable.deref
  rw [e1, e2, e3, e4, e5, e6, e7]
  have hk : ∀ q, (T1.at q).Kind = (T.at q).Kind :=
    fun q => (sizeless_fields _ _ (h q)).2.2.2.2.2.2.2.1
  have ht : ∀ q, (T1.at q).TokType = (T.at q).TokType :=
    fun q => (sizeless_fields _ _ (h q)).2.2.2.2.2.2.2.2
  cases (T.at p).Previous <;> cases (T.at p).Next <;>
    simp only [FormatToken.isType, FormatToken.is, hk, ht]

end ClangFormat

namespace ClangFormat

/-! ## The padding to the next tab stop -/

theorem pad_distance_succ (w t : Nat) (hw : 0 < w) (h : t % w ≠ 0) :
    (w - (t + 1) % w) % w + 1 = (w - t % w) % w := by
  have hm := Nat.mod_lt t hw
  have h2 : 2 ≤ w := by omega
  have e1 : (t + 1) % w = (t % w + 1) % w := by
    rw [Nat.add_mod, Nat.mod_eq_of_lt (by omega : 1 < w)]
  rw [e1]
  by_cases hlt : t % w + 1 < w
  · rw [Nat.mod_eq_of_lt hlt, Nat.mod_eq_of_lt (by omega : w - (t % w + 1) < w),
      Nat.mod_eq_of_lt (by omega : w - t % w < w)]
    omega
  · have heq : t % w + 1 = w := by omega
    rw [heq, Nat.mod_self, Nat.sub_zero, Nat.mod_self, Nat.mod_eq_of_lt (by omega : w - t % w < w)]
    omega

/-- The loop of the padding ends within the iterations allowed to it, with
the distance of toPad to the next multiple of the tab width added. -/
theorem padLoop_spec (w : Nat) (hw : 0 < w) :
    ∀ (fuel t n : Nat), (w - t % w) % w ≤ fuel → padLoop w fuel t n = n + (w - t % w) % w := by
  intro fuel
  induction fuel with
  | zero =>
    intro t n h
    rw [padLoop]
    omega
  | succ fuel ih =>
    intro t n h
    rw [padLoop]
    by_cases hz : t % w ≠ 0
    · rw [if_pos hz]
      have hs := pad_distance_succ w t hw hz
      rw [ih (t + 1) (n + 1) (by omega)]
      omega
    · rw [if_neg hz]
      have hz' : t % w = 0 := by omega
      rw [hz', Nat.sub_zero, Nat.mod_self]
      rfl

theorem padIncrements_eq (w t : Nat) (hw : 0 < w) : padIncrements w t = (w - t % w) % w := by
  unfold padIncrements
  rw [padLoop_spec w hw w t 0 (Nat.le_of_lt (Nat.mod_lt _ hw)), Nat.zero_add]

/-- The value pad of the columnarize passes: it lies between 1 and the tab
width, the length plus pad is a multiple of the tab width, and no other value
in that range makes it one. -/
theorem pad_spec (w len : Nat) (hw : 0 < w) :
    1 ≤ 1 + padIncrements w (len + 1) ∧ 1 + padIncrements w (len + 1) ≤ w ∧
    (len + (1 + padIncrements w (len + 1))) % w = 0 ∧
    ∀ q, 1 ≤ q → q ≤ w → (len + q) % w = 0 → q = 1 + padIncrements w (len + 1) := by
  rw [padIncrements_eq w (len + 1) hw]
  have hr : (w - (len + 1) % w) % w < w := Nat.mod_lt _ hw
  have hm := Nat.mod_lt (len + 1) hw
  have hzero : (len + (1 + (w - (len + 1) % w) % w)) % w = 0 := by
    by_cases h0 : (len + 1) % w = 0
    · rw [h0, Nat.sub_zero, Nat.mod_self, Nat.add_zero]
      exact h0
    · rw [Nat.mod_eq_of_lt (by omega : w - (len + 1) % w < w)]
      have hd := Nat.div_add_mod (len + 1) w
      have e : len + (1 + (w - (len + 1) % w)) = w * ((len + 1) / w + 1) := by
        rw [Nat.mul_add, Nat.mul_one]
        omega
      rw [e, Nat.mul_mod_right]
  refine ⟨by omega, by omega, hzero, ?_⟩
  intro q q1 q2 hq
  rcases Nat.le_total q (1 + (w - (len + 1) % w) % w) with hle | hle
  · have hsub := Nat.sub_mod_eq_zero_of_mod_eq (hzero.trans hq.symm)
    have e : len + (1 + (w - (len + 1) % w) % w) - (len + q) =
        1 + (w - (len + 1) % w) % w - q := by omega
    rw [e, Nat.mod_eq_of_lt (by omega)] at hsub
    omega
  · have hsub := Nat.sub_mod_eq_zero_of_mod_eq (hq.trans hzero.symm)
    have e : len + q - (len + (1 + (w - (len + 1) % w) % w)) =
        q - (1 + (w - (len + 1) % w) % w) := by omega
    rw [e, Nat.mod_eq_of_lt (by omega)] at hsub
    omega

theorem identifierStateAt_succ (W : WhitespaceManager) (n : Nat) :
    identifierStateAt W (n + 1) =
      identifierStep (1 + padIncrements W.Style.TabWidth (W.MaxDatatypeLen + 1))
        (identifierStateAt W n) n := by
  unfold identifierStateAt
  rw [List.range_succ, List.foldl_append]
  rfl

theorem identifierStateAt_frame (W : WhitespaceManager) :
    ∀ n, IdentifierFrame W (identifierStateAt W n) := by
  intro n
  induction n with
  | zero => exact identifierFrame_refl W
  | succ n ih =>
    rw [identifierStateAt_succ]
    exact identifierFrame_trans ih (identifierStep_frame _ _ n)

theorem identifierStateAt_spaces (W : WhitespaceManager) (i : Nat) :
    ∀ d, (Changes.at (identifierStateAt W (i + 1 + d)).Changes i).Spaces =
      (Changes.at (identifierStateAt W (i + 1)).Changes i).Spaces := by
  intro d
  induction d with
  | zero => rfl
  | succ d ih =>
    rw [← Nat.add_assoc, identifierStateAt_succ, identifierStep_spaces _ _ _ _ (by omega), ih]

theorem columnarizeIdentifierTokens_eq (W : WhitespaceManager)
    (hon : W.Style.AlignConsecutiveDeclarations = true) :
    columnarizeIdentifierTokens W = identifierStateAt W W.Changes.length := by
  unfold columnarizeIdentifierTokens identifierStateAt
  rw [if_neg (by simp [hon])]

end ClangFormat

namespace ClangFormat

/-! ## The scan of MissingNotBraces -/

theorem readData_some (data : List Char) (z : Int) (c : Char) (h : readData data z = some c) :
    0 ≤ z ∧ z ≤ data.length := by
  unfold readData at h
  split at h
  · exact absurd h (by simp)
  · split at h
    · omega
    · split at h
      · omega
      · exact absurd h (by simp)

theorem scanCharacter_goOn (data : List Char) (s s1 : BraceScan) (ch : Char)
    (h : scanCharacter data s ch = ScanStep.goOn s1) : s1.idx = s.idx + 1 := by
  unfold scanCharacter at h
  split at h
  · split at h
    · simp only [ScanStep.goOn.injEq] at h
      rw [← h]
      show (if s.dblstrcnt = 0 then if s.sglstrcnt = 0 then _ else s else _ : BraceScan).idx + 1 = _
      split
      · split <;> rfl
      · rfl
    · split at h
      · exact absurd h (by simp)
      · split at h
        · simp only [ScanStep.goOn.injEq] at h
          rw [← h]
        · simp only [ScanStep.goOn.injEq] at h
          rw [← h]
          show (if s.dblstrcnt = 0 then if s.sglstrcnt = 0 then _ else _ else s : BraceScan).idx
            + 1 = _
          split
          · split <;> rfl
          · rfl
  · split at h
    · simp only [ScanStep.goOn.injEq] at h
      rw [← h]
    · split at h
      · simp only [ScanStep.goOn.injEq] at h
        rw [← h]
      · split at h
        · split at h
          · exact absurd h (by simp)
          · split at h
            · simp only [ScanStep.goOn.injEq] at h
              rw [← h]
            · exact absurd h (by simp)
        · simp only [ScanStep.goOn.injEq] at h
          rw [← h]

/-- An iteration that leads to a next iteration was made inside the buffer
and moves the index on. -/
theorem scanStep_goOn (data : List Char) (s s1 : BraceScan)
    (h : scanStep data s = ScanStep.goOn s1) : s.idx ≤ data.length ∧ s.idx < s1.idx := by
  unfold scanStep at h
  split at h
  · unfold mainStep at h
    split at h
    · exact absurd h (by simp)
    · rename_i c0 hr
      have h0 := (readData_some data _ c0 hr).2
      split at h
      · exact absurd h (by simp)
      · split at h
        · split at h
          · exact absurd h (by simp)
          · split at h
            · simp only [ScanStep.goOn.injEq] at h
              rw [← h]
              exact ⟨by omega, by show s.idx < s.idx + 1; omega⟩
            · split at h
              · simp only [ScanStep.goOn.injEq] at h
                rw [← h]
                exact ⟨by omega, by show s.idx < s.idx + 2; omega⟩
              · have := scanCharacter_goOn data _ s1 _ h
                exact ⟨by omega, by
                  have e : s1.idx = s.idx + 1 + 1 := this
                  omega⟩
        · have := scanCharacter_goOn data _ s1 _ h
          exact ⟨by omega, by omega⟩
  · unfold lineCommentStep at h
    split at h
    · exact absurd h (by simp)
    · rename_i c hr
      have h0 := (readData_some data _ c hr).2
      split at h
      · simp only [ScanStep.goOn.injEq] at h
        rw [← h]
        exact ⟨by omega, by show s.idx < s.idx + 1; omega⟩
      · simp only [ScanStep.goOn.injEq] at h
        rw [← h]
        exact ⟨by omega, by show s.idx < s.idx + 1; omega⟩
  · unfold blockCommentStep at h
    split at h
    · exact absurd h (by simp)
    · rename_i c hr
      have h0 := (readData_some data _ c hr).2
      split at h
      · exact absurd h (by simp)
      · split at h
        · split at h
          · exact absurd h (by simp)
          · split at h
            · simp only [ScanStep.goOn.injEq] at h
              rw [← h]
              exact ⟨by omega, by show s.idx < s.idx + 2; omega⟩
            · simp only [ScanStep.goOn.injEq] at h
              rw [← h]
              exact ⟨by omega, by show s.idx < s.idx + 2; omega⟩
        · simp only [ScanStep.goOn.injEq] at h
          rw [← h]
          exact ⟨by omega, by show s.idx < s.idx + 1; omega⟩

/-- With enough iterations allowed, the scan ends: it returns or reads
outside the buffer. -/
theorem scanBraces_finishes (data : List Char) :
    ∀ (fuel : Nat) (s : BraceScan), 1 ≤ fuel → data.length + 2 ≤ fuel + s.idx →
      scanBraces data fuel s ≠ ScanResult.unfinished := by
  intro fuel
  induction fuel with
  | zero =>
    intro s h1 _
    omega
  | succ fuel ih =>
    intro s _ h2
    rw [scanBraces]
    cases hstep : scanStep data s with
    | goOn s1 =>
      have hg := scanStep_goOn data s s1 hstep
      exact ih s1 (by omega) (by omega)
    | returned b => simp
    | outside => simp

/-- The function MissingNotBraces ends on every buffer: the bound on the
iterations is never reached. -/
theorem MissingNotBraces_finishes (BufStr : List Char) :
    MissingNotBraces BufStr ≠ ScanResult.unfinished := by
  unfold MissingNotBraces
  exact scanBraces_finishes BufStr (BufStr.length + 2) {} (by omega) (by omega)

theorem readData_append (pre rest : List Char) :
    readData (pre ++ rest) (pre.length : Int) =
      match rest with
      | [] => some nulChar
      | c :: _ => some c := by
  unfold readData
  rw [if_neg (by omega)]
  simp only [Int.toNat_ofNat, List.length_append]
  cases rest with
  | nil =>
    rw [if_neg (by simp), if_pos (by simp)]
  | cons c rest =>
    rw [if_pos (by simp)]
    have e : (pre ++ c :: rest).getD pre.length nulChar = c := by
      rw [List.getD_eq_getElem?_getD, List.getElem?_append_right (Nat.le_refl _), Nat.sub_self]
      simp
    rw [e]

theorem outsideCommentsAndLiterals_plain :
    ∀ (rest : List Char), rest.all plainChar = true →
      outsideCommentsAndLiterals Lexical.code rest = rest := by
  intro rest
  induction rest with
  | nil =>
    intro _
    rfl
  | cons c rest ih =>
    intro h
    simp only [List.all_cons, Bool.and_eq_true] at h
    have hc := h.1
    unfold plainChar at hc
    simp only [Bool.and_eq_true, decide_eq_true_eq] at hc
    rw [outsideCommentsAndLiterals, if_neg hc.1.1.1, if_neg hc.1.1.2, if_neg hc.1.2, ih h.2]

theorem bracketsNested_cons (stack : List Char) (c : Char) (rest : List Char) :
    bracketsNested stack (c :: rest) =
      if c = '{' ∨ c = '[' ∨ c = '(' then bracketsNested (c :: stack) rest
      else if c = '}' ∨ c = ']' ∨ c = ')' then
        match stack with
        | o :: below => closesBrace c o && bracketsNested below rest
        | [] => false
      else bracketsNested stack rest := by
  cases stack <;> rfl

/-- On a buffer without slashes, quotes and terminators inside, the scan
from the end of a prefix with the stack of brackets open so far returns
whether the rest closes them properly. -/
theorem scanBraces_plain (data : List Char) :
    ∀ (rest pre stack : List Char) (fuel : Nat), data = pre ++ rest →
      rest.all plainChar = true → rest.length + 1 ≤ fuel →
      scanBraces data fuel { idx := pre.length, braces := stack } =
        ScanResult.returned (bracketsNested stack rest) := by
  intro rest
  induction rest with
  | nil =>
    intro pre stack fuel hd _ hf
    obtain ⟨f, rfl⟩ : ∃ f, fuel = f + 1 := ⟨fuel - 1, by simp at hf; omega⟩
    rw [scanBraces]
    have hr := readData_append pre []
    rw [← hd] at hr
    simp only [scanStep, mainStep, hr]
    simp [bracketsNested]
  | cons c rest ih =>
    intro pre stack fuel hd hp hf
    obtain ⟨f, rfl⟩ : ∃ f, fuel = f + 1 := ⟨fuel - 1, by simp at hf; omega⟩
    simp only [List.all_cons, Bool.and_eq_true] at hp
    have hc := hp.1
    unfold plainChar at hc
    simp only [Bool.and_eq_true, decide_eq_true_eq] at hc
    obtain ⟨⟨⟨h1, h2⟩, h3⟩, h4⟩ := hc
    have hr := readData_append pre (c :: rest)
    rw [← hd] at hr
    have hd' : data = (pre ++ [c]) ++ rest := by
      rw [hd]
      simp
    have hlen : (pre ++ [c]).length = pre.length + 1 := by simp
    have hf' : rest.length + 1 ≤ f := by
      simp at hf
      omega
    rw [scanBraces]
    simp only [scanStep, mainStep, hr]
    rw [if_neg h4]
    have hslash : (!false && decide (c = '/')) = false := by simp [h1]
    simp only [hslash, Bool.false_eq_true, if_false]
    unfold scanCharacter
    rw [if_neg (by
      intro h
      rcases h with h | h
      · exact h2 h
      · exact h3 h)]
    simp only [Bool.false_eq_true, if_false]
    rw [bracketsNested_cons]
    by_cases ho : c = '{' ∨ c = '[' ∨ c = '('
    · rw [if_pos ho, if_pos ho]
      simp only []
      rw [← hlen]
      exact ih (pre ++ [c]) (c :: stack) f hd' hp.2 hf'
    · rw [if_neg ho, if_neg ho]
      by_cases hcl : c = '}' ∨ c = ']' ∨ c = ')'
      · rw [if_pos hcl, if_pos hcl]
        cases stack with
        | nil => rfl
        | cons val below =>
          simp only []
          by_cases hm : closesBrace c val = true
          · rw [if_pos hm, hm, Bool.true_and, ← hlen]
            exact ih (pre ++ [c]) below f hd' hp.2 hf'
          · rw [if_neg hm]
            have hm' : closesBrace c val = false := by simpa using hm
            rw [hm']
            rfl
      · rw [if_neg hcl, if_neg hcl]
        simp only []
        rw [← hlen]
        exact ih (pre ++ [c]) stack f hd' hp.2 hf'

/-- On a buffer without slashes, quotes and terminators inside,
MissingNotBraces returns what the specification states. -/
theorem MissingNotBraces_plain (BufStr : List Char) (h : BufStr.all plainChar = true) :
    MissingNotBraces BufStr = ScanResult.returned (balancedOutsideCommentsAndLiterals BufStr) := by
  unfold MissingNotBraces balancedOutsideCommentsAndLiterals
  rw [outsideCommentsAndLiterals_plain BufStr h]
  exact scanBraces_plain BufStr BufStr [] [] (BufStr.length + 2) rfl h (by omega)

end ClangFormat

namespace ClangFormat

/-! ## The loop of outputReplacementXML -/

theorem decodedText_other (c : Char) (rest : List Char) (h : c ≠ '&') :
    decodedText (c :: rest) = c :: decodedText rest := by
  rw [decodedText]
  all_goals (intros; simp_all)

theorem specialCharacter_iff (c : Char) :
    specialCharacter c = true ↔ (c = '\n' ∨ c = '\r' ∨ c = '<' ∨ c = '&') := by
  unfold specialCharacter
  simp

theorem escapedCharacter_plain (c : Char) (h : specialCharacter c = false) :
    escapedCharacter c = [c] := by
  have h' : ¬ (c = '\n' ∨ c = '\r' ∨ c = '<' ∨ c = '&') := by
    rw [← specialCharacter_iff, h]
    simp
  unfold escapedCharacter
  rw [if_neg (fun e => h' (Or.inl e)), if_neg (fun e => h' (Or.inr (Or.inl e))),
    if_neg (fun e => h' (Or.inr (Or.inr (Or.inl e)))),
    if_neg (fun e => h' (Or.inr (Or.inr (Or.inr e))))]

theorem replacementEntity_special (c : Char) (h : specialCharacter c = true) :
    replacementEntity c = some (escapedCharacter c) := by
  rw [specialCharacter_iff] at h
  unfold replacementEntity escapedCharacter
  rcases h with h | h | h | h <;> subst h <;> rfl

theorem escapedText_cons (c : Char) (l : List Char) :
    escapedText (c :: l) = escapedCharacter c ++ escapedText l := by
  unfold escapedText
  simp [List.flatMap]

theorem escapedText_append (a b : List Char) :
    escapedText (a ++ b) = escapedText a ++ escapedText b := by
  unfold escapedText
  simp [List.flatMap]

theorem escapedText_plain :
    ∀ l : List Char, (∀ c, c ∈ l → specialCharacter c = false) → escapedText l = l := by
  intro l
  induction l with
  | nil =>
    intro _
    rfl
  | cons c l ih =>
    intro h
    rw [escapedText_cons, escapedCharacter_plain c (h c (List.mem_cons_self _ _)),
      ih (fun x hx => h x (List.mem_cons_of_mem _ hx))]
    rfl

theorem firstOf_none :
    ∀ l : List Char, firstOf ['\n', '\r', '<', '&'] l = none →
      ∀ c, c ∈ l → specialCharacter c = false := by
  intro l
  induction l with
  | nil =>
    intro _ c hc
    exact absurd hc (List.not_mem_nil c)
  | cons x l ih =>
    intro h c hc
    rw [firstOf] at h
    by_cases hx : (['\n', '\r', '<', '&'].contains x) = true
    · rw [if_pos hx] at h
      exact absurd h (by simp)
    · rw [if_neg hx] at h
      cases hf : firstOf ['\n', '\r', '<', '&'] l with
      | some p =>
        rw [hf] at h
        exact absurd h (by simp)
      | none =>
        rcases List.mem_cons.mp hc with e | e
        · rw [e]
          simpa [specialCharacter] using hx
        · exact ih hf c e

theorem firstOf_some :
    ∀ (l : List Char) (p : Nat), firstOf ['\n', '\r', '<', '&'] l = some p →
      ∃ pre c rest, l = pre ++ c :: rest ∧ pre.length = p ∧
        (∀ x, x ∈ pre → specialCharacter x = false) ∧ specialCharacter c = true := by
  intro l
  induction l with
  | nil =>
    intro p h
    rw [firstOf] at h
    exact absurd h (by simp)
  | cons x l ih =>
    intro p h
    rw [firstOf] at h
    by_cases hx : (['\n', '\r', '<', '&'].contains x) = true
    · rw [if_pos hx] at h
      simp only [Option.some.injEq] at h
      exact ⟨[], x, l, rfl, h, fun y hy => absurd hy (List.not_mem_nil y), hx⟩
    · rw [if_neg hx] at h
      cases hf : firstOf ['\n', '\r', '<', '&'] l with
      | none =>
        rw [hf] at h
        exact absurd h (by simp)
      | some q =>
        rw [hf] at h
        simp only [Option.some.injEq] at h
        obtain ⟨pre, c, rest, hl, hp, hpre, hc⟩ := ih q hf
        refine ⟨x :: pre, c, rest, by rw [hl]; rfl, by rw [← h, ← hp]; rfl, ?_, hc⟩
        intro y hy
        rcases List.mem_cons.mp hy with e | e
        · rw [e]
          simpa [specialCharacter] using hx
        · exact hpre y e

theorem outputLoop_spec (Text : List Char) :
    ∀ (fuel : Nat) (done l Out : List Char), Text = done ++ l → l.length < fuel →
      outputLoop Text fuel done.length Out = some (Out ++ escapedText l) := by
  intro fuel
  induction fuel with
  | zero =>
    intro done l Out _ h
    exact absurd h (by omega)
  | succ fuel ih =>
    intro done l Out hT hl
    have hdrop : Text.drop done.length = l := by
      rw [hT]
      simp
    rw [outputLoop]
    unfold find_first_of
    rw [hdrop]
    cases hf : firstOf ['\n', '\r', '<', '&'] l with
    | none =>
      simp only []
      rw [escapedText_plain l (firstOf_none l hf)]
    | some p =>
      obtain ⟨pre, c, rest, hl', hp, hpre, hc⟩ := firstOf_some l p hf
      simp only []
      have hget : Text.getD (done.length + p) nulChar = c := by
        rw [hT, hl', ← hp, ← List.append_assoc, ← List.length_append,
          List.getD_eq_getElem?_getD, List.getElem?_append_right (Nat.le_refl _), Nat.sub_self]
        simp
      have hsub : substr Text done.length (done.length + p - done.length) = pre := by
        unfold substr
        rw [hdrop, Nat.add_sub_cancel_left, hl', ← hp]
        simp
      rw [hget, replacementEntity_special c hc]
      simp only []
      rw [hsub]
      have hT' : Text = (done ++ pre ++ [c]) ++ rest := by
        rw [hT, hl']
        simp
      have hlen : (done ++ pre ++ [c]).length = done.length + p + 1 := by
        rw [← hp]
        simp
        omega
      have hr : rest.length < fuel := by
        rw [hl'] at hl
        simp at hl
        omega
      rw [← hlen, ih (done ++ pre ++ [c]) rest _ hT' hr, hl', escapedText_append,
        escapedText_cons, escapedText_plain pre hpre]
      simp

theorem outputReplacementXML_eq (Text : List Char) :
    outputReplacementXML Text = some (escapedText Text) := by
  unfold outputReplacementXML
  have h := outputLoop_spec Text (Text.length + 1) [] Text [] rfl (by omega)
  simpa using h

theorem escapedText_raw (Text : List Char) :
    ∀ c, c ∈ escapedText Text → c ≠ '\n' ∧ c ≠ '\r' ∧ c ≠ '<' := by
  induction Text with
  | nil =>
    intro c hc
    exact absurd hc (List.not_mem_nil c)
  | cons x l ih =>
    intro c hc
    rw [escapedText_cons, List.mem_append] at hc
    rcases hc with hc | hc
    · unfold escapedCharacter at hc
      split at hc
      · simp at hc
        rcases hc with h | h | h | h | h <;> subst h <;> decide
      · split at hc
        · simp at hc
          rcases hc with h | h | h | h | h <;> subst h <;> decide
        · split at hc
          · simp at hc
            rcases hc with h | h | h | h <;> subst h <;> decide
          · split at hc
            · simp at hc
              rcases hc with h | h | h | h | h <;> subst h <;> decide
            · simp at hc
              subst hc
              rename_i h1 h2 h3 _
              exact ⟨h1, h2, h3⟩
    · exact ih c hc

theorem decodedText_escapedText (Text : List Char) : decodedText (escapedText Text) = Text := by
  induction Text with
  | nil => rfl
  | cons x l ih =>
    rw [escapedText_cons]
    unfold escapedCharacter
    split
    · rename_i h
      subst h
      show decodedText ('&' :: '#' :: '1' :: '0' :: ';' :: escapedText l) = _
      rw [decodedText, ih]
    · split
      · rename_i h
        subst h
        show decodedText ('&' :: '#' :: '1' :: '3' :: ';' :: escapedText l) = _
        rw [decodedText, ih]
      · split
        · rename_i h
          subst h
          show decodedText ('&' :: 'l' :: 't' :: ';' :: escapedText l) = _
          rw [decodedText, ih]
        · split
          · rename_i h
            subst h
            show decodedText ('&' :: 'a' :: 'm' :: 'p' :: ';' :: escapedText l) = _
            rw [decodedText, ih]
          · rename_i h
            show decodedText (x :: escapedText l) = _
            rw [decodedText_other x _ h, ih]

end ClangFormat

namespace ClangFormat

/-! ## The text of appendIndentText -/

theorem renderedColumn_append (w col : Nat) (a b : List Char) :
    renderedColumn w col (a ++ b) = renderedColumn w (renderedColumn w col a) b := by
  unfold renderedColumn
  rw [List.foldl_append]

theorem renderedColumn_spaces (w : Nat) : ∀ (n col : Nat),
    renderedColumn w col (List.replicate n ' ') = col + n := by
  intro n
  induction n with
  | zero =>
    intro col
    rfl
  | succ n ih =>
    intro col
    rw [List.replicate_succ]
    show renderedColumn w (if ' ' = '\t' then col + (w - col % w) else col + 1) _ = _
    rw [if_neg (by decide), ih]
    omega

theorem renderedColumn_tab (w col : Nat) :
    renderedColumn w col ['\t'] = col + (w - col % w) := by
  show (if '\t' = '\t' then col + (w - col % w) else col + 1) = _
  rw [if_pos rfl]

theorem renderedColumn_tabs (w : Nat) : ∀ (n col : Nat), col % w = 0 →
    renderedColumn w col (List.replicate n '\t') = col + n * w := by
  intro n
  induction n with
  | zero =>
    intro col _
    show col = col + 0 * w
    omega
  | succ n ih =>
    intro col h
    rw [List.replicate_succ]
    show renderedColumn w (if '\t' = '\t' then col + (w - col % w) else col + 1) _ = _
    rw [if_pos rfl, h, Nat.sub_zero, ih (col + w) (by rw [Nat.add_mod_right]; exact h),
      Nat.succ_mul]
    omega

theorem tabOrSpace_replicate (n : Nat) (c : Char) (h : c = '\t' ∨ c = ' ') :
    ∀ x, x ∈ List.replicate n c → x = '\t' ∨ x = ' ' := by
  intro x hx
  rw [List.eq_of_mem_replicate hx]
  exact h

theorem toUnsigned_eq (z : Int) (n : Nat) (h : z = (n : Int)) (hn : n < 4294967296) :
    toUnsigned z = n := by
  subst h
  unfold toUnsigned
  omega

theorem appendTabIndent_spec (W : WhitespaceManager) (Spaces Indentation : Nat)
    (hw : 0 < W.Style.TabWidth) (hs : Spaces < 4294967296) :
    ∃ tabs, (appendTabIndent W [] Spaces Indentation).1 = List.replicate tabs '\t' ∧
      (appendTabIndent W [] Spaces Indentation).2 + tabs * W.Style.TabWidth = Spaces := by
  unfold appendTabIndent appendChars
  simp only []
  rw [if_pos (by omega)]
  simp only [List.nil_append]
  generalize hI : (if Indentation > Spaces then Spaces else Indentation) = I
  have hIle : I ≤ Spaces := by
    rw [← hI]
    split <;> omega
  refine ⟨I / W.Style.TabWidth, rfl, ?_⟩
  have h1 : I / W.Style.TabWidth * W.Style.TabWidth ≤ I := Nat.div_mul_le_self _ _
  have e0 : ((I / W.Style.TabWidth : Nat) : Int) * (W.Style.TabWidth : Int) =
      ((I / W.Style.TabWidth * W.Style.TabWidth : Nat) : Int) := by
    push_cast
    rfl
  rw [e0]
  generalize I / W.Style.TabWidth * W.Style.TabWidth = m at h1 ⊢
  rw [toUnsigned_eq (m : Int) m rfl (by omega),
    toUnsigned_eq ((Spaces : Int) - (m : Int)) (Spaces - m) (by omega) (by omega)]
  omega

theorem appendIndentText_spec (W : WhitespaceManager)
    (IndentLevel Spaces WhitespaceStartColumn : Nat) (IsAligned : Bool)
    (hw : 0 < W.Style.TabWidth) (hw2 : W.Style.TabWidth < 4294967296)
    (hs : Spaces < 4294967296) :
    (∀ c, c ∈ appendIndentText W [] IndentLevel Spaces WhitespaceStartColumn IsAligned →
      c = '\t' ∨ c = ' ') ∧
    renderedColumn W.Style.TabWidth WhitespaceStartColumn
      (appendIndentText W [] IndentLevel Spaces WhitespaceStartColumn IsAligned) =
        WhitespaceStartColumn + Spaces := by
  have hspaces : (∀ c, c ∈ appendChars [] Spaces ' ' → c = '\t' ∨ c = ' ') ∧
      renderedColumn W.Style.TabWidth WhitespaceStartColumn (appendChars [] Spaces ' ') =
        WhitespaceStartColumn + Spaces := by
    unfold appendChars
    rw [List.nil_append]
    exact ⟨tabOrSpace_replicate Spaces ' ' (Or.inr rfl), renderedColumn_spaces _ _ _⟩
  have htab : ∀ Indentation, WhitespaceStartColumn = 0 →
      (∀ c, c ∈ appendChars (appendTabIndent W [] Spaces Indentation).1
        (appendTabIndent W [] Spaces Indentation).2 ' ' → c = '\t' ∨ c = ' ') ∧
      renderedColumn W.Style.TabWidth WhitespaceStartColumn
        (appendChars (appendTabIndent W [] Spaces Indentation).1
          (appendTabIndent W [] Spaces Indentation).2 ' ') = WhitespaceStartColumn + Spaces := by
    intro Indentation h0
    obtain ⟨tabs, e1, e2⟩ := appendTabIndent_spec W Spaces Indentation hw hs
    unfold appendChars
    rw [e1, h0]
    refine ⟨?_, ?_⟩
    · intro c hc
      rcases List.mem_append.mp hc with h | h
      · exact tabOrSpace_replicate _ _ (Or.inl rfl) c h
      · exact tabOrSpace_replicate _ _ (Or.inr rfl) c h
    · rw [renderedColumn_append, renderedColumn_tabs _ _ _ (Nat.zero_mod _),
        renderedColumn_spaces]
      omega
  unfold appendIndentText
  split
  · exact hspaces
  · rw [if_pos (by omega)]
    simp only []
    have hm : WhitespaceStartColumn % W.Style.TabWidth < W.Style.TabWidth := Nat.mod_lt _ hw
    generalize hr : WhitespaceStartColumn % W.Style.TabWidth = r at hm
    rw [toUnsigned_eq ((W.Style.TabWidth : Int) - (r : Int)) (W.Style.TabWidth - r) (by omega)
      (by omega)]
    split
    · exact hspaces
    · rename_i hns
      have hge : W.Style.TabWidth - r ≤ Spaces := by omega
      rw [toUnsigned_eq ((Spaces : Int) - ((W.Style.TabWidth - r : Nat) : Int))
        (Spaces - (W.Style.TabWidth - r)) (by omega) (by omega)]
      generalize hS : Spaces - (W.Style.TabWidth - r) = S
      unfold appendChars
      refine ⟨?_, ?_⟩
      · intro c hc
        rcases List.mem_append.mp hc with h | h
        · rcases List.mem_append.mp h with h | h
          · left
            simpa using h
          · exact tabOrSpace_replicate _ _ (Or.inl rfl) c h
        · exact tabOrSpace_replicate _ _ (Or.inr rfl) c h
      · rw [renderedColumn_append, renderedColumn_append, List.nil_append, renderedColumn_tab,
          hr, renderedColumn_tabs _ _ _ (by
            have : (WhitespaceStartColumn + (W.Style.TabWidth - r)) =
                (WhitespaceStartColumn - r) + W.Style.TabWidth := by
              have := Nat.mod_le WhitespaceStartColumn W.Style.TabWidth
              omega
            rw [this, Nat.add_mod_right]
            have hd := Nat.div_add_mod WhitespaceStartColumn W.Style.TabWidth
            rw [hr] at hd
            have : WhitespaceStartColumn - r =
                W.Style.TabWidth * (WhitespaceStartColumn / W.Style.TabWidth) := by omega
            rw [this, Nat.mul_mod_right]),
          renderedColumn_spaces]
        have hd := Nat.div_add_mod S W.Style.TabWidth
        have hc : W.Style.TabWidth * (S / W.Style.TabWidth) =
            S / W.Style.TabWidth * W.Style.TabWidth := Nat.mul_comm _ _
        omega
  · split
    · rename_i h0
      exact htab _ h0
    · exact hspaces
  · split
    · rename_i h0
      exact htab _ h0
    · exact hspaces
  · split
    · rename_i h0
      exact htab _ h0
    · exact hspaces

end ClangFormat

namespace ClangFormat

/-! ## The record at index 0 in the Tally AlignTokens -/

theorem addSpaces_at_ne (cs : Changes) (i k : Nat) (z : Int) (h : i ≠ k) :
    Changes.at (addSpaces cs i z) k = Changes.at cs k := by
  unfold addSpaces
  exact Changes.at_set_ne cs i k _ h

theorem addStartOfTokenColumn_at_ne (cs : Changes) (i k : Nat) (z : Int) (h : i ≠ k) :
    Changes.at (addStartOfTokenColumn cs i z) k = Changes.at cs k := by
  unfold addStartOfTokenColumn
  exact Changes.at_set_ne cs i k _ h

theorem addPreviousEndOfTokenColumn_at_ne (cs : Changes) (i k : Nat) (z : Int) (h : i ≠ k) :
    Changes.at (addPreviousEndOfTokenColumn cs i z) k = Changes.at cs k := by
  unfold addPreviousEndOfTokenColumn
  exact Changes.at_set_ne cs i k _ h

theorem shiftColumns_at_lt (cs : Changes) (i k : Nat) (z : Int) (h : k < i) :
    Changes.at (shiftColumns cs i z) k = Changes.at cs k := by
  unfold shiftColumns
  simp only []
  split
  · rw [addPreviousEndOfTokenColumn_at_ne _ _ _ _ (by omega),
      addStartOfTokenColumn_at_ne _ _ _ _ (by omega)]
  · rw [addStartOfTokenColumn_at_ne _ _ _ _ (by omega)]

theorem tally_sequenceStep_at_lt (T : TokenTable) (M : Predicate) (ig : Bool)
    (Start Column : Nat) (s : SeqState) (i k : Nat) (h : k < i) :
    Changes.at (Tally.sequenceStep T M ig Start Column s i).Changes k = Changes.at s.Changes k := by
  unfold Tally.sequenceStep
  simp only []
  rw [shiftColumns_at_lt _ _ _ _ h]
  have hne : i ≠ k := by omega
  repeat' first
    | rfl
    | rw [addSpaces_at_ne _ i k _ hne]
    | split

theorem tally_AlignTokenSequence_at_lt (T : TokenTable) (M : Predicate) (ig : Bool)
    (Column : Nat) (k : Nat) :
    ∀ (n Start : Nat) (s : SeqState) (Start0 : Nat), k < Start →
      Changes.at ((List.range' Start n).foldl (Tally.sequenceStep T M ig Start0 Column) s).Changes k
        = Changes.at s.Changes k := by
  intro n
  induction n with
  | zero =>
    intro Start s Start0 _
    rfl
  | succ n ih =>
    intro Start s Start0 h
    rw [List.range'_succ, List.foldl_cons, ih (Start + 1) _ Start0 (by omega),
      tally_sequenceStep_at_lt _ _ _ _ _ _ _ _ h]

theorem tally_AlignCurrentSequence_first (T : TokenTable) (P : Tally.Policy) (M : Predicate)
    (s : AlignState) :
    Changes.at (Tally.AlignCurrentSequence T P M s).Changes 0 = Changes.at s.Changes 0 := by
  unfold Tally.AlignCurrentSequence
  simp only []
  split
  · rename_i h
    simp only [Bool.and_eq_true, decide_eq_true_eq] at h
    unfold Tally.AlignTokenSequence
    exact tally_AlignTokenSequence_at_lt T M _ _ 0 _ _ _ _ h.1
  · rfl

theorem tally_lineStart_first (T : TokenTable) (P : Tally.Policy) (M : Predicate)
    (s : AlignState) (i : Nat) :
    Changes.at (Tally.lineStart T P M s i).Changes 0 = Changes.at s.Changes 0 := by
  unfold Tally.lineStart
  simp only []
  split
  · exact tally_AlignCurrentSequence_first T P M _
  · rfl

theorem tally_matchFlush_first (T : TokenTable) (P : Tally.Policy) (M : Predicate)
    (s : AlignState) :
    Changes.at (Tally.matchFlush T P M s).Changes 0 = Changes.at s.Changes 0 := by
  unfold Tally.matchFlush
  split
  · exact tally_AlignCurrentSequence_first T P M _
  · rfl

theorem tally_restrict_first (T : TokenTable) (Style : FormatStyle) (P : Tally.Policy)
    (M : Predicate) (s : AlignState) (i : Nat) :
    Changes.at (Tally.restrict T Style P M s i).Changes 0 = Changes.at s.Changes 0 := by
  unfold Tally.restrict
  split
  · exact tally_AlignCurrentSequence_first T P M _
  · rfl

theorem tally_matchStep_first (T : TokenTable) (Style : FormatStyle) (P : Tally.Policy)
    (M : Predicate) (s : AlignState) (i : Nat) :
    Changes.at (Tally.matchStep T Style P M s i).Changes 0 = Changes.at s.Changes 0 := by
  unfold Tally.matchStep
  simp only [widen_changes, tally_forceFour_changes]
  rw [tally_restrict_first, noteMatch_changes, tally_matchFlush_first]

/-- The Tally AlignTokens leaves the record at index 0 as it was. -/
theorem tally_alignTokensAux_first (T : TokenTable) (Style : FormatStyle) (P : Tally.Policy)
    (M : Predicate) :
    ∀ (depth : Nat) (cs : Changes) (StartAt : Nat) (r : AlignResult),
      alignTokensAux T (Tally.overload T Style P M) depth cs StartAt = some r →
      Changes.at r.Changes 0 = Changes.at cs 0 := by
  apply alignTokensAux_inv T (Tally.overload T Style P M)
    (fun cs s => Changes.at s.Changes 0 = Changes.at cs 0)
    (fun cs r => Changes.at r.Changes 0 = Changes.at cs 0)
  · intro cs
    rfl
  · intro cs s i h
    unfold scanHead
    split
    · exact (tally_lineStart_first T P M s i).trans h
    · exact h
  · intro cs s i h
    unfold scanTail
    have hc : (countComma T s i).Changes = s.Changes := by
      unfold countComma
      split <;> rfl
    split
    · exact (tally_matchStep_first T Style P M _ i).trans (by rw [hc]; exact h)
    · rw [hc]
      exact h
  · intro cs s r h hr
    exact hr.trans h
  · intro cs s i h
    exact (tally_AlignCurrentSequence_first T P M _).trans h

theorem tally_flush_reset (T : TokenTable) (P : Tally.Policy) (M : Predicate) (s : AlignState)
    (h : s.StartOfSequence = 0) :
    (Tally.AlignCurrentSequence T P M s).Changes = s.Changes ∧
    (Tally.AlignCurrentSequence T P M s).StartOfSequence = 0 ∧
    (Tally.AlignCurrentSequence T P M s).MinColumn = 0 :=
  ⟨(tally_flush_idle T P M s (Or.inl h)).1, rfl, rfl⟩

theorem tally_scanHead_first (T : TokenTable) (Style : FormatStyle) (P : Tally.Policy)
    (M : Predicate) (cs : Changes) :
    (scanHead (Tally.overload T Style P M) { Changes := cs } 0).Changes = cs ∧
    (scanHead (Tally.overload T Style P M) { Changes := cs } 0).StartOfSequence = 0 ∧
    (scanHead (Tally.overload T Style P M) { Changes := cs } 0).MinColumn = 0 := by
  unfold scanHead
  split
  · show (Tally.lineStart T P M { Changes := cs } 0).Changes = cs ∧
      (Tally.lineStart T P M { Changes := cs } 0).StartOfSequence = 0 ∧
      (Tally.lineStart T P M { Changes := cs } 0).MinColumn = 0
    unfold Tally.lineStart
    simp only []
    split
    · exact tally_flush_reset T P M { Changes := cs } rfl
    · exact ⟨rfl, rfl, rfl⟩
  · exact ⟨rfl, rfl, rfl⟩

theorem tally_matchStep_idle (T : TokenTable) (Style : FormatStyle) (P : Tally.Policy)
    (M : Predicate) (s : AlignState) (h1 : s.StartOfSequence = 0) (h2 : s.MinColumn = 0) :
    (Tally.matchStep T Style P M s 0).Changes = s.Changes ∧
    (Tally.matchStep T Style P M s 0).StartOfSequence = 0 ∧
    (Tally.matchStep T Style P M s 0).MinColumn =
      (Tally.forceFour P
        { Changes := s.Changes, MinColumn := (Changes.at s.Changes 0).StartOfTokenColumn }).MinColumn := by
  have hf : (Tally.matchFlush T P M s).Changes = s.Changes ∧
      (Tally.matchFlush T P M s).StartOfSequence = 0 ∧ (Tally.matchFlush T P M s).MinColumn = 0 := by
    unfold Tally.matchFlush
    split
    · exact tally_flush_reset T P M s h1
    · exact ⟨rfl, h1, h2⟩
  unfold Tally.matchStep
  simp only []
  generalize Tally.matchFlush T P M s = s1 at hf ⊢
  obtain ⟨f1, f2, f3⟩ := hf
  have hn : (noteMatch s1 0).Changes = s.Changes ∧ (noteMatch s1 0).StartOfSequence = 0 ∧
      (noteMatch s1 0).MinColumn = 0 := by
    refine ⟨f1, ?_, f3⟩
    show (if s1.StartOfSequence = 0 then 0 else s1.StartOfSequence) = 0
    rw [if_pos f2]
  have hr : (Tally.restrict T Style P M (noteMatch s1 0) 0).Changes = s.Changes ∧
      (Tally.restrict T Style P M (noteMatch s1 0) 0).StartOfSequence = 0 ∧
      (Tally.restrict T Style P M (noteMatch s1 0) 0).MinColumn = 0 := by
    unfold Tally.restrict
    split
    · have := tally_flush_reset T P M (noteMatch s1 0) hn.2.1
      exact ⟨this.1.trans hn.1, rfl, this.2.2⟩
    · exact hn
  have hnc : (noteMatch s1 0).Changes = s.Changes := f1
  rw [hnc]
  generalize Tally.restrict T Style P M (noteMatch s1 0) 0 = s2 at hr ⊢
  obtain ⟨r1, r2, r3⟩ := hr
  generalize Tally.ChangeMaxColumn Style P s.Changes 0 = cmax
  unfold Tally.forceFour widen
  simp only [r3, Nat.zero_max]
  split <;> simp [r1, r2]

theorem tally_scanTail_first (T : TokenTable) (Style : FormatStyle) (P : Tally.Policy)
    (M : Predicate) (cs : Changes) (hm : M cs 0 = true) :
    (scanTail T (Tally.overload T Style P M)
      (scanHead (Tally.overload T Style P M) { Changes := cs } 0) 0).Changes = cs ∧
    (scanTail T (Tally.overload T Style P M)
      (scanHead (Tally.overload T Style P M) { Changes := cs } 0) 0).StartOfSequence = 0 ∧
    (scanTail T (Tally.overload T Style P M)
      (scanHead (Tally.overload T Style P M) { Changes := cs } 0) 0).MinColumn =
      (Tally.forceFour P
        { Changes := cs, MinColumn := (Changes.at cs 0).StartOfTokenColumn }).MinColumn := by
  have hh := tally_scanHead_first T Style P M cs
  generalize scanHead (Tally.overload T Style P M) { Changes := cs } 0 = s at hh
  obtain ⟨h1, h2, h3⟩ := hh
  have hc : (countComma T s 0).Changes = cs ∧ (countComma T s 0).StartOfSequence = 0 ∧
      (countComma T s 0).MinColumn = 0 := by
    unfold countComma
    split
    · exact ⟨h1, h2, h3⟩
    · exact ⟨h1, h2, h3⟩
  unfold scanTail
  generalize countComma T s 0 = s1 at hc
  obtain ⟨c1, c2, c3⟩ := hc
  have hM : (Tally.overload T Style P M).Matches s1.Changes 0 = true := by
    rw [c1]
    exact hm
  rw [if_pos hM]
  have := tally_matchStep_idle T Style P M s1 c2 c3
  rw [c1] at this
  exact this

theorem tally_scanLoop_first (T : TokenTable) (Style : FormatStyle) (P : Tally.Policy)
    (M : Predicate) (recCall : Changes → Nat → Option AlignResult) (cs : Changes) (fuel : Nat)
    (h0 : 0 < cs.length) :
    scanLoop T (Tally.overload T Style P M) recCall (indentAndNestingLevel T (Changes.at cs 0))
        (fuel + 1) { Changes := cs } 0 =
      scanLoop T (Tally.overload T Style P M) recCall (indentAndNestingLevel T (Changes.at cs 0))
        fuel (scanTail T (Tally.overload T Style P M)
          (scanHead (Tally.overload T Style P M) { Changes := cs } 0) 0) 1 := by
  rw [scanLoop]
  rw [if_neg (by
    show ¬ 0 = cs.length
    omega)]
  rw [if_neg (by
    show ¬ Level.lt (indentAndNestingLevel T (Changes.at cs 0)) _ = true
    rw [Level.lt_irrefl]
    simp)]
  rw [if_neg (by
    unfold delegated
    rw [(tally_scanHead_first T Style P M cs).1, Level.lt_irrefl]
    simp)]

end ClangFormat

namespace ClangFormat

/-! ## Records barred from being a match in the Tally AlignTokenSequence -/

theorem matchAllowed_barred (T : TokenTable) (cs : Changes) (i : Nat) :
    Tally.matchAllowed T cs i = !matchBarred T cs i := by
  unfold Tally.matchAllowed matchBarred
  cases (T.at (Changes.at cs i).Tok).is TokenKind.identifier <;>
    cases decide (0 < i) <;>
    cases (T.at (Changes.at cs (i - 1)).Tok).is TokenKind.coloncolon <;>
    cases (T.at (Changes.at cs (i - 1)).Tok).is TokenKind.l_square <;>
    cases (T.at (Changes.at cs (i - 1)).Tok).is TokenKind.less <;>
    by_cases h : (T.at (Changes.at cs i).Tok).LparenCount = 0 <;>
    simp [h]

theorem tally_takesMatch_barred (T : TokenTable) (M : Predicate) (ig : Bool) (s : SeqState)
    (i : Nat) (stack : List Nat) (h : matchBarred T s.Changes i = true) :
    Tally.takesMatch T M ig s i stack = false := by
  unfold Tally.takesMatch
  rw [matchAllowed_barred, h]
  simp

/-- At a barred record the loop body of the Tally AlignTokenSequence does
what it does at a record that the predicate does not match. -/
theorem tally_sequenceStep_barred (T : TokenTable) (M : Predicate) (ig : Bool)
    (Start Column : Nat) (s : SeqState) (i : Nat) (h : matchBarred T s.Changes i = true) :
    Tally.sequenceStep T M ig Start Column s i =
      Tally.sequenceStep T (fun _ _ => false) ig Start Column s i := by
  unfold Tally.sequenceStep
  simp only [tally_takesMatch_barred T M ig s i _ h,
    tally_takesMatch_barred T (fun _ _ => false) ig s i _ h]

end ClangFormat

namespace ClangFormat

/-! ## The calls of alignTrailingComments(Start, End, Column) -/

theorem SameFrame.proj {α : Type} (g : Change → α) (hg : ∀ c : Change, g c = g c.frame)
    {a b : Changes} (h : SameFrame a b) (i : Nat) :
    g (Changes.at a i) = g (Changes.at b i) := by
  rw [hg (Changes.at a i), hg (Changes.at b i), h.frame_at i]

theorem SameFrame.isTrailingComment {a b : Changes} (h : SameFrame a b) (i : Nat) :
    (Changes.at a i).IsTrailingComment = (Changes.at b i).IsTrailingComment :=
  SameFrame.proj (fun c => c.IsTrailingComment) (fun _ => rfl) h i

theorem SameFrame.startOfBlockComment {a b : Changes} (h : SameFrame a b) (i : Nat) :
    (Changes.at a i).StartOfBlockComment = (Changes.at b i).StartOfBlockComment :=
  SameFrame.proj (fun c => c.StartOfBlockComment) (fun _ => rfl) h i

theorem SameFrame.createReplacement {a b : Changes} (h : SameFrame a b) (i : Nat) :
    (Changes.at a i).CreateReplacement = (Changes.at b i).CreateReplacement :=
  SameFrame.proj (fun c => c.CreateReplacement) (fun _ => rfl) h i

theorem SameFrame.continuesPPDirective {a b : Changes} (h : SameFrame a b) (i : Nat) :
    (Changes.at a i).ContinuesPPDirective = (Changes.at b i).ContinuesPPDirective :=
  SameFrame.proj (fun c => c.ContinuesPPDirective) (fun _ => rfl) h i

theorem commentShift_plain (Column : Nat) (cs : Changes) (i : Nat)
    (h : (Changes.at cs i).StartOfBlockComment = none) :
    commentShift Column cs i = trailingShift Column (Changes.at cs i) := by
  unfold commentShift trailingShift
  rw [h]

theorem applyCommentShift_spaces (cs : Changes) (i : Nat) (z : Int) (k : Nat) :
    (Changes.at (applyCommentShift cs i z) k).Spaces =
      if i = k ∧ i < cs.length then (Changes.at cs k).Spaces + z else (Changes.at cs k).Spaces := by
  unfold applyCommentShift
  simp only []
  rw [addStartOfTokenColumn_spaces]
  split
  · rw [addPreviousEndOfTokenColumn_spaces, addSpaces_spaces]
  · rw [addSpaces_spaces]

theorem applyCommentShift_start (cs : Changes) (i : Nat) (z : Int) (k : Nat) :
    (Changes.at (applyCommentShift cs i z) k).StartOfTokenColumn =
      if i = k ∧ i < cs.length then toUnsigned (((Changes.at cs k).StartOfTokenColumn : Int) + z)
      else (Changes.at cs k).StartOfTokenColumn := by
  unfold applyCommentShift
  simp only []
  rw [addStartOfTokenColumn_start]
  split
  · simp only [addPreviousEndOfTokenColumn_length, addSpaces_length,
      addPreviousEndOfTokenColumn_start, addSpaces_start]
  · simp only [addSpaces_length, addSpaces_start]

theorem trailingShift_congr (Column : Nat) (c d : Change)
    (h1 : c.IsTrailingComment = d.IsTrailingComment)
    (h2 : c.StartOfTokenColumn = d.StartOfTokenColumn) :
    trailingShift Column c = trailingShift Column d := by
  unfold trailingShift
  rw [h1, h2]

/-- What alignTrailingComments(Start, End, Column) leaves of a ledger in
which no record of the range has a block-comment start. -/
theorem trailingRange_fold (Column : Nat) :
    ∀ (n S : Nat) (st : Changes × Bool),
      (∀ k, (Changes.at st.1 k).StartOfBlockComment = none) → S + n ≤ st.1.length →
      SameFrame ((List.range' S n).foldl (trailingCommentShift Column) st).1 st.1 ∧
      (∀ k, (Changes.at ((List.range' S n).foldl (trailingCommentShift Column) st).1 k).Spaces =
        if S ≤ k ∧ k < S + n then
          (Changes.at st.1 k).Spaces + trailingShift Column (Changes.at st.1 k)
        else (Changes.at st.1 k).Spaces) ∧
      (∀ k, (Changes.at
          ((List.range' S n).foldl (trailingCommentShift Column) st).1 k).StartOfTokenColumn =
        if S ≤ k ∧ k < S + n then
          toUnsigned (((Changes.at st.1 k).StartOfTokenColumn : Int) +
            trailingShift Column (Changes.at st.1 k))
        else (Changes.at st.1 k).StartOfTokenColumn) ∧
      (st.2 = true → (∀ k, S ≤ k → k < S + n → 0 ≤ trailingShift Column (Changes.at st.1 k)) →
        ((List.range' S n).foldl (trailingCommentShift Column) st).2 = true) := by
  intro n
  induction n with
  | zero =>
    intro S st _ _
    refine ⟨SameFrame.refl _, ?_, ?_, ?_⟩
    · intro k
      rw [if_neg (by omega)]
      rfl
    · intro k
      rw [if_neg (by omega)]
      rfl
    · intro h _
      exact h
  | succ n ih =>
    intro S st hnone hlen
    rw [List.range'_succ, List.foldl_cons]
    have hfr : SameFrame (trailingCommentShift Column st S).1 st.1 :=
      trailingCommentShift_sameFrame Column st S
    have hnone' : ∀ k, (Changes.at (trailingCommentShift Column st S).1 k).StartOfBlockComment
        = none := by
      intro k
      rw [hfr.startOfBlockComment k]
      exact hnone k
    have hlen' : S + 1 + n ≤ (trailingCommentShift Column st S).1.length := by
      rw [hfr.length_eq]
      omega
    obtain ⟨i1, i2, i3, i4⟩ := ih (S + 1) (trailingCommentShift Column st S) hnone' hlen'
    have hsh : commentShift Column st.1 S = trailingShift Column (Changes.at st.1 S) :=
      commentShift_plain Column st.1 S (hnone S)
    have hsp : ∀ k, (Changes.at (trailingCommentShift Column st S).1 k).Spaces =
        if S = k ∧ S < st.1.length then
          (Changes.at st.1 k).Spaces + trailingShift Column (Changes.at st.1 S)
        else (Changes.at st.1 k).Spaces := by
      intro k
      show (Changes.at (applyCommentShift st.1 S (commentShift Column st.1 S)) k).Spaces = _
      rw [applyCommentShift_spaces, hsh]
    have hst : ∀ k, (Changes.at (trailingCommentShift Column st S).1 k).StartOfTokenColumn =
        if S = k ∧ S < st.1.length then
          toUnsigned (((Changes.at st.1 k).StartOfTokenColumn : Int) +
            trailingShift Column (Changes.at st.1 S))
        else (Changes.at st.1 k).StartOfTokenColumn := by
      intro k
      show (Changes.at (applyCommentShift st.1 S (commentShift Column st.1 S))
        k).StartOfTokenColumn = _
      rw [applyCommentShift_start, hsh]
    have hcong : ∀ k, S ≠ k →
        trailingShift Column (Changes.at (trailingCommentShift Column st S).1 k) =
          trailingShift Column (Changes.at st.1 k) := by
      intro k hk
      apply trailingShift_congr
      · exact hfr.isTrailingComment k
      · rw [hst k, if_neg (fun h => hk h.1)]
    refine ⟨SameFrame.trans i1 hfr, ?_, ?_, ?_⟩
    · intro k
      rw [i2 k]
      by_cases hk : S = k
      · subst hk
        rw [if_neg (by omega), if_pos (by omega), hsp S, if_pos ⟨rfl, by omega⟩]
      · have e1 : (Changes.at (trailingCommentShift Column st S).1 k).Spaces =
            (Changes.at st.1 k).Spaces := by
          rw [hsp k, if_neg (fun h => hk h.1)]
        rw [e1, hcong k hk]
        by_cases hr : S + 1 ≤ k ∧ k < S + 1 + n
        · rw [if_pos hr, if_pos (by omega)]
        · rw [if_neg hr, if_neg (by omega)]
    · intro k
      rw [i3 k]
      by_cases hk : S = k
      · subst hk
        rw [if_neg (by omega), if_pos (by omega), hst S, if_pos ⟨rfl, by omega⟩]
      · have e1 : (Changes.at (trailingCommentShift Column st S).1 k).StartOfTokenColumn =
            (Changes.at st.1 k).StartOfTokenColumn := by
          rw [hst k, if_neg (fun h => hk h.1)]
        rw [e1, hcong k hk]
        by_cases hr : S + 1 ≤ k ∧ k < S + 1 + n
        · rw [if_pos hr, if_pos (by omega)]
        · rw [if_neg hr, if_neg (by omega)]
    · intro h2 hall
      apply i4
      · show (st.2 && decide (commentShift Column st.1 S ≥ 0)) = true
        rw [h2, hsh]
        simpa using hall S (Nat.le_refl _) (by omega)
      · intro k h1 h3
        rw [hcong k (by omega)]
        exact hall k (by omega) (by omega)

theorem trailingShift_member (Column : Nat) (c : Change) (hc : Column < 2147483648)
    (hle : c.StartOfTokenColumn ≤ Column) (ht : c.IsTrailingComment = true) :
    trailingShift Column c = (Column : Int) - c.StartOfTokenColumn := by
  unfold trailingShift
  rw [if_pos ht, toInt_toUnsigned _ (by omega) (by omega)]

theorem trailingShift_plain (Column : Nat) (c : Change) (ht : c.IsTrailingComment = false) :
    trailingShift Column c = 0 := by
  unfold trailingShift
  rw [if_neg (by simp [ht])]

/-- A call of alignTrailingComments(StartOfSequence, j, MinColumn) from the
state of the loop at index j settles the records below j and keeps the
others. -/
theorem trailingAt_flush (T : TokenTable) (Style : FormatStyle) (cs : Changes)
    (hnone : ∀ k, (Changes.at cs k).StartOfBlockComment = none)
    (hsmall : columnsSmall cs = true) (s : TrailingState) (j : Nat)
    (h : TrailingAt T Style cs s j) (hj : j ≤ cs.length) :
    (alignTrailingCommentsRange s.Changes s.StartOfSequence j s.MinColumn).2 = true ∧
    SameFrame (alignTrailingCommentsRange s.Changes s.StartOfSequence j s.MinColumn).1 cs ∧
    (∀ k, j ≤ k →
      (Changes.at (alignTrailingCommentsRange s.Changes s.StartOfSequence j s.MinColumn).1
        k).Spaces = (Changes.at cs k).Spaces ∧
      (Changes.at (alignTrailingCommentsRange s.Changes s.StartOfSequence j s.MinColumn).1
        k).StartOfTokenColumn = (Changes.at cs k).StartOfTokenColumn) ∧
    (∀ k, k < j → CommentSettled T Style cs k
      (Changes.at (alignTrailingCommentsRange s.Changes s.StartOfSequence j s.MinColumn).1 k)) := by
  have hS : s.StartOfSequence + (j - s.StartOfSequence) = j := by
    have := h.seq
    omega
  have hnone' : ∀ k, (Changes.at s.Changes k).StartOfBlockComment = none := by
    intro k
    rw [h.frame.startOfBlockComment k]
    exact hnone k
  have hlen : s.StartOfSequence + (j - s.StartOfSequence) ≤ s.Changes.length := by
    rw [hS, h.frame.length_eq]
    exact hj
  obtain ⟨f1, f2, f3, f4⟩ := trailingRange_fold s.MinColumn (j - s.StartOfSequence)
    s.StartOfSequence (s.Changes, true) hnone' hlen
  rw [hS] at f2 f3 f4
  have hshift : ∀ k, s.StartOfSequence ≤ k → k < j →
      trailingShift s.MinColumn (Changes.at s.Changes k) =
        if (Changes.at cs k).IsTrailingComment then
          (s.MinColumn : Int) - (Changes.at cs k).StartOfTokenColumn
        else 0 := by
    intro k h1 h2
    by_cases ht : (Changes.at cs k).IsTrailingComment = true
    · rw [if_pos ht, trailingShift_member s.MinColumn _ h.small
        (by rw [(h.pending k h1).2]; exact (h.member k h1 h2 ht).1)
        (by rw [h.frame.isTrailingComment k]; exact ht), (h.pending k h1).2]
    · rw [if_neg ht, trailingShift_plain s.MinColumn _
        (by rw [h.frame.isTrailingComment k]; simpa using ht)]
  unfold alignTrailingCommentsRange
  refine ⟨?_, SameFrame.trans f1 h.frame, ?_, ?_⟩
  · apply f4 rfl
    intro k h1 h2
    rw [hshift k h1 h2]
    split
    · rename_i ht
      have := (h.member k h1 h2 ht).1
      omega
    · exact Int.le_refl 0
  · intro k hk
    have hp := h.pending k (by have := h.seq; omega)
    rw [f2 k, f3 k, if_neg (by omega), if_neg (by omega)]
    exact hp
  · intro k hk
    by_cases h1 : s.StartOfSequence ≤ k
    · have hp := h.pending k h1
      have hc := columnsSmall_at cs hsmall k
      rw [Changes.at] at hc
      have e2 := f2 k
      have e3 := f3 k
      rw [if_pos ⟨h1, hk⟩, hshift k h1 hk, hp.1] at e2
      rw [if_pos ⟨h1, hk⟩, hshift k h1 hk, hp.2] at e3
      by_cases ht : (Changes.at cs k).IsTrailingComment = true
      · rw [if_pos ht] at e2 e3
        obtain ⟨m1, m2, _⟩ := h.member k h1 hk ht
        have hsm := h.small
        have e3' : (Changes.at ((List.range' s.StartOfSequence (j - s.StartOfSequence)).foldl
            (trailingCommentShift s.MinColumn) (s.Changes, true)).1 k).StartOfTokenColumn =
            s.MinColumn := by
          rw [e3]
          exact toUnsigned_eq _ _ (by omega) (by omega)
        refine ⟨?_, ?_, ?_, ?_⟩
        · rw [e3']
          exact m1
        · rw [e2, e3']
        · rw [e3']
          exact m2
        · intro hf
          rw [ht] at hf
          exact absurd hf (by simp)
      · rw [if_neg ht] at e2 e3
        have e3' : (Changes.at ((List.range' s.StartOfSequence (j - s.StartOfSequence)).foldl
            (trailingCommentShift s.MinColumn) (s.Changes, true)).1 k).StartOfTokenColumn =
            (Changes.at cs k).StartOfTokenColumn := by
          rw [e3]
          exact toUnsigned_eq _ _ (by omega) (by
            show (Changes.at cs k).StartOfTokenColumn < 4294967296
            have := columnsSmall_at cs hsmall k
            omega)
        refine ⟨?_, ?_, ?_, ?_⟩
        · rw [e3']
        · rw [e2, e3']
          omega
        · left
          exact e3'
        · intro _
          exact e3'
    · have hlt : k < s.StartOfSequence := by omega
      have hs := h.settled k hlt
      have e2 := f2 k
      have e3 := f3 k
      rw [if_neg (by omega)] at e2 e3
      exact ⟨by rw [e3]; exact hs.grows, by rw [e2, e3]; exact hs.spaces,
        by rw [e3]; exact hs.window, by rw [e3]; exact hs.plain⟩

end ClangFormat

namespace ClangFormat

/-! ## The loop of alignTrailingComments() -/

theorem trailingAt_congr (T : TokenTable) (Style : FormatStyle) (cs : Changes)
    (s s1 : TrailingState) (j : Nat) (h : TrailingAt T Style cs s j)
    (e1 : s1.Changes = s.Changes) (e2 : s1.MinColumn = s.MinColumn)
    (e3 : s1.MaxColumn = s.MaxColumn) (e4 : s1.StartOfSequence = s.StartOfSequence)
    (e5 : s1.AssertsHeld = s.AssertsHeld) : TrailingAt T Style cs s1 j := by
  refine ⟨?_, ?_, ?_, ?_, ?_, ?_, ?_⟩
  · rw [e1]
    exact h.frame
  · rw [e4]
    exact h.seq
  · rw [e5]
    exact h.asserts
  · rw [e2]
    exact h.small
  · rw [e1, e4]
    exact h.pending
  · rw [e1, e4]
    exact h.settled
  · rw [e2, e3, e4]
    exact h.member

theorem trailingAt_follows (T : TokenTable) (Style : FormatStyle) (cs : Changes)
    (s : TrailingState) (j : Nat) (h : TrailingAt T Style cs s j) :
    followsRBraceInColumn0 T s.Changes j = followsRBraceInColumn0 T cs j := by
  unfold followsRBraceInColumn0
  rw [h.frame.newlinesBefore j, h.frame.tok (j - 1), (h.pending (j - 1) h.seq).2]

theorem trailingAt_maxColumn (T : TokenTable) (Style : FormatStyle) (cs : Changes)
    (s : TrailingState) (j : Nat) (h : TrailingAt T Style cs s j) :
    commentMaxColumn Style s.Changes j = commentMaxColumn Style cs j := by
  have hs : s.StartOfSequence ≤ j := by
    have := h.seq
    omega
  unfold commentMaxColumn
  simp only []
  rw [(h.pending j hs).2, h.frame.tokenLength j, h.frame.createReplacement j,
    h.frame.length_eq, h.frame.continuesPPDirective (j + 1)]

/-- The end of a sequence at the trailing comment j: the pending range is
settled and the comment starts the next one. -/
theorem trailingAt_flushTrailing (T : TokenTable) (Style : FormatStyle) (cs : Changes)
    (hnone : ∀ k, (Changes.at cs k).StartOfBlockComment = none)
    (hsmall : columnsSmall cs = true) (s : TrailingState) (j : Nat)
    (h : TrailingAt T Style cs s j) (hj : j < cs.length) (MaxColumn : Nat)
    (hmax : MaxColumn ≤ (Changes.at cs j).StartOfTokenColumn ∨
      MaxColumn ≤ commentWindowEnd T Style cs j) :
    TrailingAt T Style cs
      (flushTrailing s j (Changes.at cs j).StartOfTokenColumn MaxColumn) (j + 1) := by
  obtain ⟨f1, f2, f3, f4⟩ := trailingAt_flush T Style cs hnone hsmall s j h (by omega)
  unfold flushTrailing
  simp only []
  refine ⟨f2, ?_, ?_, ?_, ?_, ?_, ?_⟩
  · show j ≤ j + 1 - 1
    omega
  · show (s.AssertsHeld && _) = true
    rw [h.asserts, f1]
    rfl
  · exact columnsSmall_at cs hsmall j
  · intro k hk
    exact f3 k hk
  · intro k hk
    exact f4 k hk
  · intro k h1 h2 _
    have hk : k = j := by
      have h1' : j ≤ k := h1
      omega
    subst hk
    exact ⟨Nat.le_refl _, Or.inl rfl, hmax⟩

/-- The comment j joins the pending sequence. -/
theorem trailingAt_join (T : TokenTable) (Style : FormatStyle) (cs : Changes)
    (hsmall : columnsSmall cs = true) (s : TrailingState) (j : Nat)
    (h : TrailingAt T Style cs s j)
    (h1 : ¬ (Changes.at cs j).StartOfTokenColumn > s.MaxColumn)
    (h2 : ¬ commentWindowEnd T Style cs j < s.MinColumn) :
    TrailingAt T Style cs
      { s with
        MinColumn := max s.MinColumn (Changes.at cs j).StartOfTokenColumn
        MaxColumn := min s.MaxColumn (commentWindowEnd T Style cs j) } (j + 1) := by
  have hc := columnsSmall_at cs hsmall j
  refine ⟨h.frame, ?_, h.asserts, ?_, h.pending, h.settled, ?_⟩
  · show s.StartOfSequence ≤ j + 1 - 1
    have := h.seq
    omega
  · show max s.MinColumn (Changes.at cs j).StartOfTokenColumn < 2147483648
    have := h.small
    omega
  · intro k k1 k2 kt
    show (Changes.at cs k).StartOfTokenColumn ≤ max s.MinColumn (Changes.at cs j).StartOfTokenColumn ∧
      (max s.MinColumn (Changes.at cs j).StartOfTokenColumn = (Changes.at cs k).StartOfTokenColumn ∨
        max s.MinColumn (Changes.at cs j).StartOfTokenColumn ≤ commentWindowEnd T Style cs k) ∧
      (min s.MaxColumn (commentWindowEnd T Style cs j) ≤ (Changes.at cs k).StartOfTokenColumn ∨
        min s.MaxColumn (commentWindowEnd T Style cs j) ≤ commentWindowEnd T Style cs k)
    by_cases hk : k = j
    · subst hk
      refine ⟨by omega, ?_, by omega⟩
      by_cases hm : s.MinColumn ≤ (Changes.at cs k).StartOfTokenColumn
      · left
        omega
      · right
        omega
    · obtain ⟨m1, m2, m3⟩ := h.member k k1 (by omega) kt
      refine ⟨by omega, ?_, ?_⟩
      · rcases m2 with m2 | m2 <;> rcases m3 with m3 | m3 <;> omega
      · rcases m3 with m3 | m3
        · left
          omega
        · right
          omega

theorem trailingAt_step (T : TokenTable) (Style : FormatStyle) (src : List Char) (cs : Changes)
    (hnone : ∀ k, (Changes.at cs k).StartOfBlockComment = none)
    (hsmall : columnsSmall cs = true) (s : TrailingState) (j : Nat)
    (h : TrailingAt T Style cs s j) (hj : j < cs.length) :
    TrailingAt T Style cs (trailingCommentStep T Style src s j) (j + 1) := by
  have hskip : ∀ s1 : TrailingState, TrailingAt T Style cs s1 j →
      (Changes.at cs j).IsTrailingComment = false → TrailingAt T Style cs s1 (j + 1) := by
    intro s1 h1 hn
    refine ⟨h1.frame, ?_, h1.asserts, h1.small, h1.pending, h1.settled, ?_⟩
    · have := h1.seq
      omega
    · intro k k1 k2 kt
      by_cases hk : k = j
      · subst hk
        rw [hn] at kt
        exact absurd kt (by simp)
      · exact h1.member k k1 (by omega) kt
  have hcount : TrailingAt T Style cs (countNewlines T s j) j :=
    trailingAt_congr T Style cs s _ j h rfl rfl rfl rfl rfl
  unfold trailingCommentStep
  rw [h.frame.startOfBlockComment j, hnone j, h.frame.isTrailingComment j]
  simp only [Option.isSome_none, Bool.false_eq_true, if_false]
  by_cases ht : (Changes.at cs j).IsTrailingComment = true
  · rw [if_neg (by simp [ht])]
    refine trailingAt_congr T Style cs (trailingDecision T Style src (countNewlines T s j) j) _
      (j + 1) ?_ rfl rfl rfl rfl rfl
    generalize countNewlines T s j = s1 at hcount
    have hstart : (Changes.at s1.Changes j).StartOfTokenColumn =
        (Changes.at cs j).StartOfTokenColumn :=
      (hcount.pending j (by have := hcount.seq; omega)).2
    unfold trailingDecision
    simp only []
    rw [trailingAt_follows T Style cs s1 j hcount, trailingAt_maxColumn T Style cs s1 j hcount,
      hstart]
    by_cases hb : (!Style.AlignTrailingComments || followsRBraceInColumn0 T cs j) = true
    · rw [if_pos hb]
      exact trailingAt_flushTrailing T Style cs hnone hsmall s1 j hcount hj _
        (Or.inl (Nat.le_refl _))
    · rw [if_neg hb]
      have hw : commentWindowEnd T Style cs j = commentMaxColumn Style cs j := by
        unfold commentWindowEnd
        rw [if_neg hb]
      split
      · exact trailingAt_flushTrailing T Style cs hnone hsmall s1 j hcount hj _
          (Or.inr (Nat.le_of_eq hw.symm))
      · rename_i hno
        simp only [Bool.or_eq_true, decide_eq_true_eq, not_or] at hno
        rw [← hw]
        exact trailingAt_join T Style cs hsmall s1 j hcount hno.1.1.2.1 (by
          rw [hw]
          exact hno.1.1.2.2)
  · have hf : (Changes.at cs j).IsTrailingComment = false := by simpa using ht
    rw [if_pos (by simp [hf])]
    exact hskip _ hcount hf

theorem trailingAt_fold (T : TokenTable) (Style : FormatStyle) (src : List Char) (cs : Changes)
    (hnone : ∀ k, (Changes.at cs k).StartOfBlockComment = none)
    (hsmall : columnsSmall cs = true) :
    ∀ n, n ≤ cs.length → TrailingAt T Style cs
      ((List.range n).foldl (trailingCommentStep T Style src) { Changes := cs }) n := by
  intro n
  induction n with
  | zero =>
    intro _
    refine ⟨SameFrame.refl _, Nat.le_refl _, rfl, ?_, fun k _ => ⟨rfl, rfl⟩, ?_, ?_⟩
    · show (0 : Nat) < 2147483648
      omega
    · intro k hk
      exact absurd hk (by
        show ¬ k < 0
        omega)
    · intro k _ hk
      exact absurd hk (by omega)
  | succ n ih =>
    intro hn
    rw [List.range_succ, List.foldl_append]
    exact trailingAt_step T Style src cs hnone hsmall _ n (ih (by omega)) (by omega)

/-- On a ledger without block-comment starts and with columns below 2^31,
alignTrailingComments() fails no assertion, keeps the frame and settles every
record. -/
theorem alignTrailingCommentsOn_settled (T : TokenTable) (Style : FormatStyle)
    (src : List Char) (cs : Changes)
    (hnone : ∀ k, (Changes.at cs k).StartOfBlockComment = none)
    (hsmall : columnsSmall cs = true) :
    (alignTrailingCommentsOn T Style src cs).2 = true ∧
    ∀ k, k < cs.length →
      CommentSettled T Style cs k (Changes.at (alignTrailingCommentsOn T Style src cs).1 k) := by
  have h := trailingAt_fold T Style src cs hnone hsmall cs.length (Nat.le_refl _)
  unfold alignTrailingCommentsOn
  simp only []
  generalize (List.range cs.length).foldl (trailingCommentStep T Style src) { Changes := cs } = s
    at h
  have hl : s.Changes.length = cs.length := h.frame.length_eq
  rw [hl]
  obtain ⟨f1, _, _, f4⟩ := trailingAt_flush T Style cs hnone hsmall s cs.length h (Nat.le_refl _)
  refine ⟨?_, f4⟩
  rw [h.asserts, f1]
  rfl

end ClangFormat

namespace ClangFormat

/-! ## Block-comment starts after calculateLineBreakInformation -/

/-- The second loop of calculateLineBreakInformation leaves no block-comment
start in the record it treats: the pointer is set to null and afterwards
only compared. -/
theorem commentStep_blockStart (T : TokenTable) (s : CommentState) (i : Nat) :
    (Changes.at (commentStep T s i).Changes i).StartOfBlockComment = none := by
  by_cases hi : i < s.Changes.length
  · unfold commentStep
    lift_lets
    extract_lets c t prevIsLBrace nextIsComma first second PrevStart PrevSpaces c1 c2 c3 keep deref c4 takeFirst prevNotComment c5
    have a3 : c3.StartOfBlockComment = none := rfl
    have a4 : c4.StartOfBlockComment = c3.StartOfBlockComment := by
      show (if deref then _ else c3).StartOfBlockComment = _
      split <;> rfl
    have a5 : c5.StartOfBlockComment = c4.StartOfBlockComment := by
      show (if _ then _ else c4).StartOfBlockComment = _
      split <;> rfl
    split
    · show (Changes.at (s.Changes.set i c5) i).StartOfBlockComment = _
      rw [Changes.at_set_self _ _ _ hi, a5, a4, a3]
    · show (Changes.at (s.Changes.set i c3) i).StartOfBlockComment = _
      rw [Changes.at_set_self _ _ _ hi, a3]
  · rw [Changes.at_of_le _ i (by rw [commentStep_length]; omega)]

theorem comment_fold_blockStart (T : TokenTable) (s : CommentState) (n j : Nat) (hj : j < n) :
    (Changes.at ((List.range n).foldl (commentStep T) s).Changes j).StartOfBlockComment = none := by
  induction n with
  | zero => exact absurd hj (by omega)
  | succ n ih =>
    rw [List.range_succ, List.foldl_append, List.foldl_cons, List.foldl_nil]
    by_cases h : n = j
    · subst h
      exact commentStep_blockStart T _ n
    · rw [commentStep_at_ne T _ n j h]
      exact ih (by omega)

/-- After calculateLineBreakInformation no record has a block-comment
start. -/
theorem calculateLineBreakInformation_blockStart (W : WhitespaceManager) (j : Nat) :
    (Changes.at (calculateLineBreakInformation W).Changes j).StartOfBlockComment = none := by
  by_cases hj : j < W.Changes.length
  · unfold calculateLineBreakInformation
    lift_lets
    extract_lets c0 cs0 r1 last cl cs1 r2 r3
    show (Changes.at r3.1 j).StartOfBlockComment = none
    have e3 : (Changes.at r3.1 j).StartOfBlockComment = (Changes.at r2.Changes j).StartOfBlockComment :=
      conditional_fold_proj (fun c => c.StartOfBlockComment) (fun _ _ => rfl) _ _ _ _
    have h1 : cs1.length = r1.1.length := List.length_set _ _ _
    have h0 : r1.1.length = cs0.length := lineBreak_fold_length _ _ _ _
    have hc : cs0.length = W.Changes.length := List.length_set _ _ _
    rw [e3]
    exact comment_fold_blockStart _ _ _ _ (by rw [h1, h0, hc]; exact hj)
  · rw [Changes.at_of_le _ j (by rw [calculateLineBreakInformation_length]; omega)]

theorem calculateLineBreakInformation_noBlockCommentStart (W : WhitespaceManager) :
    noBlockCommentStart (calculateLineBreakInformation W).Changes = true := by
  unfold noBlockCommentStart
  rw [List.all_eq_true]
  intro c hc
  obtain ⟨i, hi, rfl⟩ := List.getElem_of_mem hc
  have := calculateLineBreakInformation_blockStart W i
  rw [Changes.at_eq_getElem _ i hi] at this
  simpa using this

end ClangFormat

namespace ClangFormat

/-! ## The scan of MissingNotBraces at a leading quote -/

theorem scanStep_quote_first (rest : List Char) :
    scanStep (sinstr :: rest) {} = ScanStep.outside := by
  have h0 : readData (sinstr :: rest) ((0 : Nat) : Int) = some sinstr := by
    unfold readData
    simp
  have h1 : readData (sinstr :: rest) (((0 : Nat) : Int) - 1) = none := by
    unfold readData
    simp
  show mainStep (sinstr :: rest) {} = ScanStep.outside
  unfold mainStep
  simp only []
  rw [h0]
  simp only []
  rw [if_neg (by decide), if_neg (by decide)]
  unfold scanCharacter
  rw [if_pos (Or.inr rfl), if_neg (by decide)]
  simp only []
  rw [h1]

theorem MissingNotBraces_quote_first (rest : List Char) : MissingNotBraces (sinstr :: rest) = ScanResult.outside := by
  unfold MissingNotBraces
  rw [List.length_cons, scanBraces, scanStep_quote_first]

end ClangFormat

namespace ClangFormat

/-! ## The window of a trailing comment -/

theorem alignTrailingCommentsOn_settled_all (T : TokenTable) (Style : FormatStyle)
    (src : List Char) (cs : Changes)
    (hnone : noBlockCommentStart cs = true) (hsmall : columnsSmall cs = true) (k : Nat) :
    CommentSettled T Style cs k (Changes.at (alignTrailingCommentsOn T Style src cs).1 k) := by
  by_cases hk : k < cs.length
  · exact (alignTrailingCommentsOn_settled T Style src cs (noBlockCommentStart_at cs hnone)
      hsmall).2 k hk
  · have hl := (alignTrailingCommentsOn_sameFrame T Style src cs).length_eq
    rw [Changes.at_of_le _ k (by omega)]
    have e : Changes.at cs k = {} := Changes.at_of_le cs k (by omega)
    refine ⟨?_, ?_, ?_, ?_⟩
    · rw [e]
    · rw [e]
      rfl
    · left
      rw [e]
    · intro _
      rw [e]

/-- A settled record whose window ends at its own column, or left of it,
has kept its column and its Spaces. -/
theorem commentSettled_kept (T : TokenTable) (Style : FormatStyle) (cs : Changes) (k : Nat)
    (c : Change) (h : CommentSettled T Style cs k c)
    (hw : commentWindowEnd T Style cs k ≤ (Changes.at cs k).StartOfTokenColumn) :
    c.Spaces = (Changes.at cs k).Spaces ∧
    c.StartOfTokenColumn = (Changes.at cs k).StartOfTokenColumn := by
  have hs : c.StartOfTokenColumn = (Changes.at cs k).StartOfTokenColumn := by
    rcases h.window with e | e
    · exact e
    · have := h.grows
      omega
  refine ⟨?_, hs⟩
  rw [h.spaces, hs]
  omega

theorem commentMaxColumn_eq (Style : FormatStyle) (cs : Changes) (i : Nat) :
    commentMaxColumn Style cs i =
      if beforeDirectiveLine cs i then
        toUnsigned ((commentMaxBeforeDirective Style cs i : Int) - 2)
      else commentMaxBeforeDirective Style cs i := rfl

theorem toUnsigned_sub_le (n : Nat) (h : 2 ≤ n) : toUnsigned ((n : Int) - 2) ≤ n - 2 := by
  unfold toUnsigned
  omega

/-- The window of a record with CreateReplacement false ends at its own
column or left of it, unless the deduction for a preprocessor directive
wraps around. -/
theorem commentWindowEnd_immovable (T : TokenTable) (Style : FormatStyle) (cs : Changes)
    (k : Nat) (hc : (Changes.at cs k).CreateReplacement = false)
    (hfit : beforeDirectiveLine cs k = true → 2 ≤ (Changes.at cs k).StartOfTokenColumn) :
    commentWindowEnd T Style cs k ≤ (Changes.at cs k).StartOfTokenColumn := by
  have hb : commentMaxBeforeDirective Style cs k = (Changes.at cs k).StartOfTokenColumn := by
    unfold commentMaxBeforeDirective
    simp only []
    rw [hc]
    rfl
  unfold commentWindowEnd
  split
  · exact Nat.le_refl _
  · rw [commentMaxColumn_eq, hb]
    split
    · rename_i hp
      have := toUnsigned_sub_le _ (hfit hp)
      omega
    · exact Nat.le_refl _

/-- A settled trailing comment that has moved ends within the column limit,
unless the deduction for a preprocessor directive wraps around. -/
theorem commentSettled_within (T : TokenTable) (Style : FormatStyle) (cs : Changes) (k : Nat)
    (c : Change) (h : CommentSettled T Style cs k c) (hlimit : 0 < Style.ColumnLimit)
    (hfit : beforeDirectiveLine cs k = true → 2 ≤ commentMaxBeforeDirective Style cs k)
    (hmoved : (Changes.at cs k).StartOfTokenColumn < c.StartOfTokenColumn) :
    c.StartOfTokenColumn + (Changes.at cs k).TokenLength ≤ Style.ColumnLimit ∧
    (beforeDirectiveLine cs k = true →
      c.StartOfTokenColumn + (Changes.at cs k).TokenLength + 2 ≤ Style.ColumnLimit) := by
  have hgrow := h.grows
  have hwin : c.StartOfTokenColumn ≤ commentWindowEnd T Style cs k := by
    rcases h.window with e | e
    · omega
    · exact e
  unfold commentWindowEnd at hwin
  split at hwin
  · omega
  · rw [commentMaxColumn_eq] at hwin
    have hbefore : commentMaxBeforeDirective Style cs k = (Changes.at cs k).StartOfTokenColumn ∨
        ((Changes.at cs k).TokenLength ≤ Style.ColumnLimit ∧
          commentMaxBeforeDirective Style cs k =
            Style.ColumnLimit - (Changes.at cs k).TokenLength) := by
      unfold commentMaxBeforeDirective
      simp only []
      split
      · left
        rfl
      · rw [if_neg (by omega)]
        split
        · rename_i hge
          right
          exact ⟨hge, rfl⟩
        · left
          rfl
    split at hwin
    · rename_i hp
      have h2 := hfit hp
      have := toUnsigned_sub_le _ h2
      rcases hbefore with e | ⟨e1, e2⟩
      · omega
      · refine ⟨by omega, fun _ => by omega⟩
    · rename_i hp
      rcases hbefore with e | ⟨e1, e2⟩
      · omega
      · refine ⟨by omega, fun hq => absurd hq hp⟩

/-- In the state of the loop on entry to index n, every trailing comment of
the pending range stands at or left of MinColumn, in the column it had. -/
theorem trailingStateAt_member (T : TokenTable) (Style : FormatStyle) (src : List Char)
    (cs : Changes) (hnone : noBlockCommentStart cs = true) (hsmall : columnsSmall cs = true)
    (n : Nat) (hn : n ≤ cs.length) (k : Nat)
    (h1 : (trailingStateAt T Style src cs n).StartOfSequence ≤ k) (h2 : k < n)
    (ht : (Changes.at (trailingStateAt T Style src cs n).Changes k).IsTrailingComment = true) :
    (Changes.at (trailingStateAt T Style src cs n).Changes k).StartOfTokenColumn ≤
      (trailingStateAt T Style src cs n).MinColumn := by
  have h := trailingAt_fold T Style src cs (noBlockCommentStart_at cs hnone) hsmall n hn
  unfold trailingStateAt at h1 ht ⊢
  rw [(h.pending k h1).2]
  rw [h.frame.isTrailingComment k] at ht
  exact (h.member k h1 h2 ht).1

end ClangFormat

namespace ClangFormat

/-! ## One iteration of AlignTokenSequence on a ledger with nested scopes -/

theorem scopeStackOf_start (T : TokenTable) (cs : Changes) (Start : Nat) :
    scopeStackOf T cs Start Start = [] := by
  unfold scopeStackOf scopeStackBefore scopeStackAt
  simp

theorem tally_takesMatch_unmatched (T : TokenTable) (M : Predicate) (ig : Bool) (s : SeqState)
    (i : Nat) (stack : List Nat) (hm : M s.Changes i = false) :
    Tally.takesMatch T M ig s i stack = false := by
  unfold Tally.takesMatch
  rw [hm]
  simp

theorem lineReset_inLine (cs : Changes) (i : Nat) (stack : List Nat) (ig : Bool)
    (hn : (Changes.at cs i).NewlinesBefore = 0) : lineReset cs i stack ig = false := by
  unfold lineReset
  simp [hn]

theorem tally_continuation_inLine (T : TokenTable) (Start : Nat) (cs : Changes) (i : Nat)
    (stack : List Nat) (hn : (Changes.at cs i).NewlinesBefore = 0) :
    Tally.continuation T Start cs i stack = false := by
  unfold Tally.continuation
  simp [hn]

theorem tally_step_changes_closed (T : TokenTable) (M : Predicate) (ig : Bool)
    (Start Column : Nat) (s : SeqState) (i : Nat) (h : (Tally.sequenceStep T M ig Start Column s i).ScopeStack = [] ∨
      ((Changes.at s.Changes i).NewlinesBefore = 0 ∧ M s.Changes i = false)) :
    (Tally.sequenceStep T M ig Start Column s i).Changes =
      shiftColumns
        (if Tally.takesMatch T M ig s i [] then
          addSpaces s.Changes i (Tally.sequenceStep T M ig Start Column s i).Shift
         else s.Changes) i (Tally.sequenceStep T M ig Start Column s i).Shift := by
  rcases h with h | ⟨hn, hm⟩
  · exact tally_step_changes_flat T M ig Start Column s i h
  · have e : (Tally.sequenceStep T M ig Start Column s i).Changes =
        shiftColumns
          (if Tally.continuation T Start
              (if Tally.takesMatch T M ig s i (Tally.sequenceStep T M ig Start Column s i).ScopeStack
                then addSpaces s.Changes i (Tally.sequenceStep T M ig Start Column s i).Shift
                else s.Changes) i (Tally.sequenceStep T M ig Start Column s i).ScopeStack
            then addSpaces
              (if Tally.takesMatch T M ig s i (Tally.sequenceStep T M ig Start Column s i).ScopeStack
                then addSpaces s.Changes i (Tally.sequenceStep T M ig Start Column s i).Shift
                else s.Changes) i (Tally.sequenceStep T M ig Start Column s i).Shift
            else (if Tally.takesMatch T M ig s i (Tally.sequenceStep T M ig Start Column s i).ScopeStack
                then addSpaces s.Changes i (Tally.sequenceStep T M ig Start Column s i).Shift
                else s.Changes)) i (Tally.sequenceStep T M ig Start Column s i).Shift := rfl
    rw [e, tally_takesMatch_unmatched T M ig s i _ hm, tally_takesMatch_unmatched T M ig s i _ hm]
    simp only [Bool.false_eq_true, if_false]
    rw [tally_continuation_inLine T Start s.Changes i _ hn]
    simp only [Bool.false_eq_true, if_false]

theorem tally_step_spaces_closed (T : TokenTable) (M : Predicate) (ig : Bool)
    (Start Column : Nat) (s : SeqState) (i j : Nat) (h : (Tally.sequenceStep T M ig Start Column s i).ScopeStack = [] ∨
      ((Changes.at s.Changes i).NewlinesBefore = 0 ∧ M s.Changes i = false)) :
    (Changes.at (Tally.sequenceStep T M ig Start Column s i).Changes j).Spaces =
      if Tally.takesMatch T M ig s i [] = true ∧ i = j ∧ i < s.Changes.length then
        (Changes.at s.Changes j).Spaces + (Tally.sequenceStep T M ig Start Column s i).Shift
      else (Changes.at s.Changes j).Spaces := by
  rw [tally_step_changes_closed T M ig Start Column s i h, shiftColumns_spaces]
  by_cases ht : Tally.takesMatch T M ig s i [] = true
  · rw [if_pos ht, addSpaces_spaces]
    simp only [ht, true_and]
  · rw [if_neg ht, if_neg]
    intro hh
    exact ht hh.1

theorem tally_step_start_closed (T : TokenTable) (M : Predicate) (ig : Bool)
    (Start Column : Nat) (s : SeqState) (i j : Nat) (h : (Tally.sequenceStep T M ig Start Column s i).ScopeStack = [] ∨
      ((Changes.at s.Changes i).NewlinesBefore = 0 ∧ M s.Changes i = false)) :
    (Changes.at (Tally.sequenceStep T M ig Start Column s i).Changes j).StartOfTokenColumn =
      if i = j ∧ i < s.Changes.length then
        toUnsigned (((Changes.at s.Changes j).StartOfTokenColumn : Int) +
          (Tally.sequenceStep T M ig Start Column s i).Shift)
      else (Changes.at s.Changes j).StartOfTokenColumn := by
  rw [tally_step_changes_closed T M ig Start Column s i h, shiftColumns_start]
  by_cases ht : Tally.takesMatch T M ig s i [] = true
  · rw [if_pos ht]
    simp only [addSpaces_start, addSpaces_length]
  · rw [if_neg ht]

theorem tally_step_shift_closed (T : TokenTable) (M : Predicate) (ig : Bool)
    (Start Column : Nat) (s : SeqState) (i : Nat) (h : (Tally.sequenceStep T M ig Start Column s i).ScopeStack = [] ∨
      ((Changes.at s.Changes i).NewlinesBefore = 0 ∧ M s.Changes i = false)) :
    (Tally.sequenceStep T M ig Start Column s i).Shift =
      if Tally.takesMatch T M ig s i [] = true
      then toInt (toUnsigned ((Column : Int) - (Changes.at s.Changes i).StartOfTokenColumn))
      else if (Changes.at s.Changes i).NewlinesBefore > 0 then 0 else s.Shift := by
  rcases h with h | ⟨hn, hm⟩
  · exact tally_step_shift_flat T M ig Start Column s i h
  · rw [tally_step_shift_eq, tally_takesMatch_unmatched T M ig s i _ hm,
      tally_takesMatch_unmatched T M ig s i _ hm, lineReset_inLine s.Changes i _ ig hn]
    simp [hn]

theorem tally_step_found_closed (T : TokenTable) (M : Predicate) (ig : Bool)
    (Start Column : Nat) (s : SeqState) (i : Nat) (h : (Tally.sequenceStep T M ig Start Column s i).ScopeStack = [] ∨
      ((Changes.at s.Changes i).NewlinesBefore = 0 ∧ M s.Changes i = false)) :
    (Tally.sequenceStep T M ig Start Column s i).FoundMatchOnLine =
      (Tally.takesMatch T M ig s i [] ||
        (if (Changes.at s.Changes i).NewlinesBefore > 0 then false else s.FoundMatchOnLine)) := by
  rcases h with h | ⟨hn, hm⟩
  · exact tally_step_found_flat T M ig Start Column s i h
  · rw [tally_step_found_eq, tally_takesMatch_unmatched T M ig s i _ hm,
      tally_takesMatch_unmatched T M ig s i _ hm, lineReset_inLine s.Changes i _ ig hn]
    simp [hn]

end ClangFormat

namespace ClangFormat

/-! ## The loop of AlignTokenSequence on a ledger with nested scopes -/

theorem sequenceUpTo_step (T : TokenTable) (M : Predicate) (ig : Bool) (a : Changes)
    (Start Column : Nat) (t : SeqState) (i : Nat)
    (hclose : ig = true ∨ ∀ k, Start ≤ k → k < a.length →
      ((Changes.at a k).NewlinesBefore ≠ 0 ∨ M a k = true) → scopeStackOf T a Start k = [])
    (hst : Predicate.Stable M)
    (hfirst : ∀ k, k < a.length → M a k = true → (Changes.at a k).NewlinesBefore = 0 →
      matchesSeen M a k = 0)
    (hsm : ∀ j, Start ≤ j → (Changes.at a j).StartOfTokenColumn < 2147483648) (hC : Column < 2147483648) (hi : i < a.length)
    (hS : Start ≤ i)
    (hcol : M a i = true → Tally.matchAllowed T a i = true →
      (Changes.at a i).StartOfTokenColumn ≤ Column)
    (h : SequenceUpTo T M ig a Start Column t i) :
    SequenceUpTo T M ig a Start Column (Tally.sequenceStep T M ig Start Column t i) (i + 1) := by
  have hlen : t.Changes.length = a.length := h.frame.length_eq
  have hstk : (Tally.sequenceStep T M ig Start Column t i).ScopeStack =
      if ig then [] else scopeStackOf T a Start i := by
    rw [tally_step_stack_eq, h.stack]
    cases ig
    · simp only [Bool.false_eq_true, if_false]
      rw [scopeStackAt_frame T h.frame]
      rfl
    · rfl
  have hnext : (Tally.sequenceStep T M ig Start Column t i).ScopeStack =
      if ig then [] else scopeStackBefore T a Start (i + 1) := by
    rw [hstk]
    cases ig
    · simp only [Bool.false_eq_true, if_false]
      obtain ⟨k, rfl⟩ : ∃ k, i = Start + k := ⟨i - Start, by omega⟩
      exact (scopeStackBefore_succ T a Start k).symm
    · rfl
  have hM : M t.Changes i = M a i := hst _ _ i h.frame
  have hA : Tally.matchAllowed T t.Changes i = Tally.matchAllowed T a i :=
    matchAllowed_frame T h.frame i
  have hNL : (Changes.at t.Changes i).NewlinesBefore = (Changes.at a i).NewlinesBefore :=
    h.frame.newlinesBefore i
  have hSp := (h.ahead i (Or.inr (Nat.le_refl i))).1
  have hSt := (h.ahead i (Or.inr (Nat.le_refl i))).2
  have hsmall := hsm i hS
  have hms := matchesSeen_succ M a i
  -- the flag of the line is clear at a matching record
  have hclear : M a i = true →
      (if decide ((Changes.at t.Changes i).NewlinesBefore > 0) then false
        else t.FoundMatchOnLine) = false := by
    intro hm
    by_cases hn : (Changes.at a i).NewlinesBefore > 0
    · rw [hNL]
      simp [hn]
    · have h0 := hfirst i hi hm (by omega)
      rw [hNL]
      simp only [hn, decide_False, Bool.false_eq_true, if_false]
      by_contra hf
      have := h.found (by simpa using hf)
      omega
  have htake : Tally.takesMatch T M ig t i [] = true ↔
      (M a i = true ∧ Tally.matchAllowed T a i = true) := by
    constructor
    · intro ht
      exact ⟨hM ▸ tally_takesMatch_matches T M ig t i [] ht,
        hA ▸ tally_takesMatch_allowed T M ig t i [] ht⟩
    · intro hh
      exact tally_takesMatch_flat_true T M ig t i (hclear hh.1) (hM ▸ hh.1) (hA ▸ hh.2)
  have hstack : (Tally.sequenceStep T M ig Start Column t i).ScopeStack = [] ∨
      ((Changes.at t.Changes i).NewlinesBefore = 0 ∧ M t.Changes i = false) := by
    by_cases hsp : (Changes.at a i).NewlinesBefore ≠ 0 ∨ M a i = true
    · left
      rw [hstk]
      rcases hclose with hig | hcl
      · rw [hig]
        rfl
      · cases ig
        · exact hcl i hS hi hsp
        · rfl
    · right
      rw [hNL, hM]
      constructor
      · by_contra hne
        exact hsp (Or.inl hne)
      · cases hmv : M a i
        · rfl
        · exact absurd (Or.inr hmv) hsp
  have hshift := tally_step_shift_closed T M ig Start Column t i hstack
  have hspaces := fun j => tally_step_spaces_closed T M ig Start Column t i j hstack
  have hstart := fun j => tally_step_start_closed T M ig Start Column t i j hstack
  have hfound := tally_step_found_closed T M ig Start Column t i hstack
  by_cases ht : Tally.takesMatch T M ig t i [] = true
  · -- the record is taken as the match of its line
    obtain ⟨hm, ha⟩ := htake.mp ht
    have hle := hcol hm ha
    have hsh : (Tally.sequenceStep T M ig Start Column t i).Shift =
        (Column : Int) - (Changes.at a i).StartOfTokenColumn := by
      rw [hshift, if_pos ht, hSt]
      exact toInt_toUnsigned _ (by omega) (by omega)
    have hms1 : 1 ≤ matchesSeen M a (i + 1) := by
      rw [hms, if_pos hm]
      omega
    refine ⟨SameFrame.trans (tally_sequenceStep_sameFrame T M ig Start Column t i) h.frame,
      ?_, hnext, ?_, fun _ => hms1, fun _ => hms1, ?_, ?_, ?_⟩
    · rw [tally_step_asserts_eq, h.asserts, hsh]
      simp only [Bool.true_and, decide_eq_true_eq]
      omega
    · rw [hsh]
      omega
    · intro j hj
      have hne : ¬ (i = j ∧ i < t.Changes.length) := by omega
      rw [hspaces j, hstart j, if_neg hne, if_neg (fun hh => hne hh.2)]
      exact h.ahead j (by omega)
    · intro j hj1 hj2 hmj haj
      by_cases hji : i = j
      · subst hji
        refine ⟨?_, ?_⟩
        · rw [hstart i, if_pos ⟨rfl, by omega⟩, hsh, hSt]
          unfold toUnsigned
          omega
        · rw [hspaces i, if_pos ⟨ht, rfl, by omega⟩, hsh, hSp]
      · have hne : ¬ (i = j ∧ i < t.Changes.length) := fun hh => hji hh.1
        rw [hspaces j, hstart j, if_neg hne, if_neg (fun hh => hne hh.2)]
        exact h.taken j hj1 (by omega) hmj haj
    · intro j hj1 hj2 hnot
      by_cases hji : i = j
      · subst hji
        exact absurd ⟨hm, ha⟩ hnot
      · have hne : ¬ (i = j ∧ i < t.Changes.length) := fun hh => hji hh.1
        rw [hspaces j, hstart j, if_neg hne, if_neg (fun hh => hne hh.2)]
        exact h.passed j hj1 (by omega) hnot
  · -- the record is not taken
    have hnot : ¬ (M a i = true ∧ Tally.matchAllowed T a i = true) := fun hh => ht (htake.mpr hh)
    have hsh : (Tally.sequenceStep T M ig Start Column t i).Shift =
        if (Changes.at a i).NewlinesBefore > 0 then 0 else t.Shift := by
      rw [hshift, if_neg ht, hNL]
    have hsh0 : 0 ≤ (Tally.sequenceStep T M ig Start Column t i).Shift := by
      rw [hsh]
      split
      · exact Int.le_refl _
      · exact h.shift
    have hfd : (Tally.sequenceStep T M ig Start Column t i).FoundMatchOnLine =
        if (Changes.at a i).NewlinesBefore > 0 then false else t.FoundMatchOnLine := by
      rw [hfound, hNL]
      simp [ht]
    refine ⟨SameFrame.trans (tally_sequenceStep_sameFrame T M ig Start Column t i) h.frame,
      ?_, hnext, hsh0, ?_, ?_, ?_, ?_, ?_⟩
    · rw [tally_step_asserts_eq, h.asserts]
      simpa using hsh0
    · intro hf
      rw [hfd] at hf
      rw [hms]
      split at hf
      · exact absurd hf (by simp)
      · rename_i hn
        have := h.found hf
        rw [if_neg (by omega)]
        omega
    · intro hmv
      rw [hsh] at hmv
      rw [hms]
      split at hmv
      · exact absurd rfl hmv
      · rename_i hn
        have := h.moving hmv
        rw [if_neg (by omega)]
        omega
    · intro j hj
      have hne : ¬ (i = j ∧ i < t.Changes.length) := by omega
      rw [hspaces j, hstart j, if_neg hne, if_neg (fun hh => hne hh.2)]
      exact h.ahead j (by omega)
    · intro j hj1 hj2 hmj haj
      by_cases hji : i = j
      · subst hji
        exact absurd ⟨hmj, haj⟩ hnot
      · have hne : ¬ (i = j ∧ i < t.Changes.length) := fun hh => hji hh.1
        rw [hspaces j, hstart j, if_neg hne, if_neg (fun hh => hne hh.2)]
        exact h.taken j hj1 (by omega) hmj haj
    · intro j hj1 hj2 hnj
      by_cases hji : i = j
      · subst hji
        rw [hspaces i, if_neg (fun hh => ht hh.1), hstart i, if_pos ⟨rfl, by omega⟩]
        refine ⟨hSp, fun hm => ?_⟩
        have hz : (Tally.sequenceStep T M ig Start Column t i).Shift = 0 := by
          rw [hsh]
          split
          · rfl
          · rename_i hn
            by_contra hne
            have := h.moving hne
            have := hfirst i hi hm (by omega)
            omega
        rw [hz, hSt]
        unfold toUnsigned
        omega
      · have hne : ¬ (i = j ∧ i < t.Changes.length) := fun hh => hji hh.1
        rw [hspaces j, hstart j, if_neg hne, if_neg (fun hh => hne hh.2)]
        exact h.passed j hj1 (by omega) hnj

theorem sequenceUpTo_init (T : TokenTable) (M : Predicate) (ig : Bool) (a : Changes) (Start Column : Nat) :
    SequenceUpTo T M ig a Start Column { Changes := a } Start :=
  ⟨SameFrame.refl a, rfl, by cases ig <;> simp [scopeStackBefore], Int.le_refl 0, fun h => absurd h (by simp),
   fun h => absurd rfl h, fun _ _ => ⟨rfl, rfl⟩, fun _ h1 h2 => by omega,
   fun _ h1 h2 => by omega⟩

theorem sequenceUpTo_fold (T : TokenTable) (M : Predicate) (ig : Bool) (a : Changes)
    (Start Column : Nat)
    (hclose : ig = true ∨ ∀ k, Start ≤ k → k < a.length →
      ((Changes.at a k).NewlinesBefore ≠ 0 ∨ M a k = true) → scopeStackOf T a Start k = [])
    (hst : Predicate.Stable M)
    (hfirst : ∀ k, k < a.length → M a k = true → (Changes.at a k).NewlinesBefore = 0 →
      matchesSeen M a k = 0)
    (hsm : ∀ j, Start ≤ j → (Changes.at a j).StartOfTokenColumn < 2147483648) (hC : Column < 2147483648) :
    ∀ k, Start + k ≤ a.length →
      (∀ i, Start ≤ i → i < Start + k → M a i = true → Tally.matchAllowed T a i = true →
        (Changes.at a i).StartOfTokenColumn ≤ Column) →
      SequenceUpTo T M ig a Start Column
        ((List.range' Start k).foldl (Tally.sequenceStep T M ig Start Column) { Changes := a })
        (Start + k) := by
  intro k
  induction k with
  | zero =>
    intro _ _
    exact sequenceUpTo_init T M ig a Start Column
  | succ k ih =>
    intro hk hcol
    rw [List.range'_concat, List.foldl_append]
    simp only [one_mul, List.foldl_cons, List.foldl_nil]
    exact sequenceUpTo_step T M ig a Start Column _ (Start + k) hclose hst hfirst hsm hC (by omega)
      (by omega) (hcol (Start + k) (by omega) (by omega))
      (ih (by omega) (fun i h1 h2 => hcol i h1 (by omega)))

end ClangFormat

namespace ClangFormat

/-! ## A recursive call over records that neither match nor start a line -/

theorem scanHead_inLine (O : Overload) (s : AlignState) (i : Nat)
    (hn : (Changes.at s.Changes i).NewlinesBefore = 0) : scanHead O s i = s := by
  unfold scanHead
  rw [if_neg (by omega)]

theorem scanTail_unmatched (T : TokenTable) (O : Overload) (s : AlignState) (i : Nat)
    (hm : O.Matches s.Changes i = false) : scanTail T O s i = countComma T s i := by
  unfold scanTail
  rw [countComma_changes, hm]
  simp

theorem countComma_startOfSequence (T : TokenTable) (s : AlignState) (i : Nat) :
    (countComma T s i).StartOfSequence = s.StartOfSequence := by
  unfold countComma
  split <;> rfl

theorem countComma_assertsHeld (T : TokenTable) (s : AlignState) (i : Nat) :
    (countComma T s i).AssertsHeld = s.AssertsHeld := by
  unfold countComma
  split <;> rfl

/-- A call of the Tally AlignTokens from a record d, up to whose scope end
no record matches or starts a line, returns the ledger as it was and stops
at the end of the scope of d: at the end of the ledger or at the first
record below the level of d. -/
theorem tally_alignTokensAux_idle (T : TokenTable) (Style : FormatStyle) (P : Tally.Policy)
    (M : Predicate) :
    ∀ (depth : Nat) (cs : Changes) (d : Nat) (r : AlignResult),
      alignTokensAux T (Tally.overload T Style P M) depth cs d = some r →
      d < cs.length →
      (∀ j, d ≤ j → j < cs.length →
        (∀ k, d ≤ k → k ≤ j →
          Level.lt (indentAndNestingLevel T (Changes.at cs k))
            (indentAndNestingLevel T (Changes.at cs d)) = false) →
        M cs j = false ∧ (Changes.at cs j).NewlinesBefore = 0) →
      r.Changes = cs ∧ r.AssertsHeld = true ∧ d < r.StoppedAt ∧ r.StoppedAt ≤ cs.length ∧
        (r.StoppedAt = cs.length ∨
          Level.lt (indentAndNestingLevel T (Changes.at cs r.StoppedAt))
            (indentAndNestingLevel T (Changes.at cs d)) = true) ∧
        ∀ k, d ≤ k → k < r.StoppedAt →
          Level.lt (indentAndNestingLevel T (Changes.at cs k))
            (indentAndNestingLevel T (Changes.at cs d)) = false := by
  apply alignTokensAux_inv_at T (Tally.overload T Style P M)
    (fun cs d s i => d < cs.length →
      (∀ j, d ≤ j → j < cs.length →
        (∀ k, d ≤ k → k ≤ j →
          Level.lt (indentAndNestingLevel T (Changes.at cs k))
            (indentAndNestingLevel T (Changes.at cs d)) = false) →
        M cs j = false ∧ (Changes.at cs j).NewlinesBefore = 0) →
      s.Changes = cs ∧ s.AssertsHeld = true ∧ s.StartOfSequence = 0 ∧ d ≤ i ∧ i ≤ cs.length ∧
        ∀ k, d ≤ k → k < i →
          Level.lt (indentAndNestingLevel T (Changes.at cs k))
            (indentAndNestingLevel T (Changes.at cs d)) = false)
    (fun cs d r => d < cs.length →
      (∀ j, d ≤ j → j < cs.length →
        (∀ k, d ≤ k → k ≤ j →
          Level.lt (indentAndNestingLevel T (Changes.at cs k))
            (indentAndNestingLevel T (Changes.at cs d)) = false) →
        M cs j = false ∧ (Changes.at cs j).NewlinesBefore = 0) →
      r.Changes = cs ∧ r.AssertsHeld = true ∧ d < r.StoppedAt ∧ r.StoppedAt ≤ cs.length ∧
        (r.StoppedAt = cs.length ∨
          Level.lt (indentAndNestingLevel T (Changes.at cs r.StoppedAt))
            (indentAndNestingLevel T (Changes.at cs d)) = true) ∧
        ∀ k, d ≤ k → k < r.StoppedAt →
          Level.lt (indentAndNestingLevel T (Changes.at cs k))
            (indentAndNestingLevel T (Changes.at cs d)) = false)
  · intro cs d hd _
    exact ⟨rfl, rfl, rfl, Nat.le_refl _, Nat.le_of_lt hd, fun k h1 h2 => by omega⟩
  · intro cs d s i hI hlen hlt _ hd hH
    obtain ⟨h1, h2, h3, h4, h5, h6⟩ := hI hd hH
    rw [h1] at hlen hlt
    rw [if_pos hd] at hlt
    have hi : i < cs.length := by omega
    have hlt' : Level.lt (indentAndNestingLevel T (Changes.at cs i))
        (indentAndNestingLevel T (Changes.at cs d)) = false := by simpa using hlt
    have hscope : ∀ k, d ≤ k → k ≤ i →
        Level.lt (indentAndNestingLevel T (Changes.at cs k))
          (indentAndNestingLevel T (Changes.at cs d)) = false := by
      intro k k1 k2
      by_cases hk : k = i
      · rw [hk]
        exact hlt'
      · exact h6 k k1 (by omega)
    obtain ⟨hm, hn⟩ := hH i h4 hi hscope
    rw [scanHead_inLine _ s i (by rw [h1]; exact hn),
      scanTail_unmatched T _ s i (by rw [h1]; exact hm)]
    refine ⟨by rw [countComma_changes]; exact h1, by rw [countComma_assertsHeld]; exact h2,
      by rw [countComma_startOfSequence]; exact h3, by omega, by omega, ?_⟩
    intro k k1 k2
    exact hscope k k1 (by omega)
  · intro cs d s i r hI hlen hlt hdel hpost hd hH
    obtain ⟨h1, h2, h3, h4, h5, h6⟩ := hI hd hH
    rw [h1] at hlen hlt
    rw [if_pos hd] at hlt hdel
    have hi : i < cs.length := by omega
    have hlt' : Level.lt (indentAndNestingLevel T (Changes.at cs i))
        (indentAndNestingLevel T (Changes.at cs d)) = false := by simpa using hlt
    have hscope : ∀ k, d ≤ k → k ≤ i →
        Level.lt (indentAndNestingLevel T (Changes.at cs k))
          (indentAndNestingLevel T (Changes.at cs d)) = false := by
      intro k k1 k2
      by_cases hk : k = i
      · rw [hk]
        exact hlt'
      · exact h6 k k1 (by omega)
    obtain ⟨hm, hn⟩ := hH i h4 hi hscope
    have hhead : scanHead (Tally.overload T Style P M) s i = s :=
      scanHead_inLine _ s i (by rw [h1]; exact hn)
    rw [hhead] at hdel hpost ⊢
    rw [h1] at hdel hpost
    have hdeep : Level.lt (indentAndNestingLevel T (Changes.at cs d))
        (indentAndNestingLevel T (Changes.at cs i)) = true := by
      unfold delegated at hdel
      simp only [Bool.and_eq_true] at hdel
      exact hdel.2
    have hbelow : ∀ k, Level.lt (indentAndNestingLevel T (Changes.at cs k))
          (indentAndNestingLevel T (Changes.at cs i)) = false →
        Level.lt (indentAndNestingLevel T (Changes.at cs k))
          (indentAndNestingLevel T (Changes.at cs d)) = false := by
      intro k hk
      cases hc : Level.lt (indentAndNestingLevel T (Changes.at cs k))
          (indentAndNestingLevel T (Changes.at cs d))
      · rfl
      · rw [Level.lt_trans hc hdeep] at hk
        exact absurd hk (by simp)
    obtain ⟨p1, p2, p3, p4, p5, p6⟩ := hpost hi (by
      intro j j1 j2 hj
      apply hH j (by omega) j2
      intro k k1 k2
      by_cases hki : k < i
      · exact h6 k k1 hki
      · exact hbelow k (hj k (by omega) k2))
    refine ⟨p1, ?_, h3, by omega, p4, ?_⟩
    · show (s.AssertsHeld && r.AssertsHeld) = true
      rw [h2, p2]
      rfl
    · intro k k1 k2
      by_cases hki : k < i
      · exact h6 k k1 hki
      · exact hbelow k (p6 k (by omega) k2)
  · intro cs d s i hI hstop hd hH
    obtain ⟨h1, h2, h3, h4, h5, h6⟩ := hI hd hH
    rw [h1] at hstop
    rw [if_pos hd] at hstop
    have hidle := tally_flush_idle T P M { s with EndOfSequence := i } (Or.inl h3)
    have hdi : d < i := by
      rcases hstop with hstop | hstop
      · omega
      · by_contra hne
        have : i = d := by omega
        rw [this, Level.lt_irrefl] at hstop
        exact absurd hstop (by simp)
    refine ⟨hidle.1.trans h1, hidle.2.trans h2, hdi, h5, ?_, h6⟩
    rcases hstop with hstop | hstop
    · exact Or.inl hstop
    · exact Or.inr hstop

end ClangFormat

namespace ClangFormat

/-! ## Ledgers whose lines start at the anchor level -/

theorem Level.lt_of_lt_of_not_lt {a b c : Level} (h1 : Level.lt a b = true)
    (h2 : Level.lt c b = false) : Level.lt a c = true := by
  unfold Level.lt at *
  simp only [Bool.or_eq_true, Bool.and_eq_true, decide_eq_true_eq, Bool.or_eq_false_iff,
    Bool.and_eq_false_iff, decide_eq_false_iff_not] at *
  omega

theorem Level.not_lt_of_deeper {a d k : Level} (h1 : Level.lt a d = true)
    (h2 : Level.lt k d = false) : Level.lt k a = false := by
  unfold Level.lt at *
  simp only [Bool.or_eq_true, Bool.and_eq_true, decide_eq_true_eq, Bool.or_eq_false_iff,
    Bool.and_eq_false_iff, decide_eq_false_iff_not] at *
  omega

theorem loopReaches_le (T : TokenTable) (cs : Changes) (a : Nat) :
    ∀ b, a ≤ b → loopReaches T cs b = true → loopReaches T cs a = true := by
  intro b
  induction b with
  | zero =>
    intro h hb
    have : a = 0 := by omega
    rw [this]
    rfl
  | succ b ih =>
    intro h hb
    by_cases hab : a = b + 1
    · rw [hab]
      exact hb
    · have hb' : (loopReaches T cs b &&
          !Level.lt (indentAndNestingLevel T (Changes.at cs b))
            (indentAndNestingLevel T (Changes.at cs 0))) = true := hb
      rw [Bool.and_eq_true] at hb'
      exact ih (by omega) hb'.1

theorem loopReaches_not_below (T : TokenTable) (cs : Changes) (i : Nat)
    (h : loopReaches T cs (i + 1) = true) :
    Level.lt (indentAndNestingLevel T (Changes.at cs i))
      (indentAndNestingLevel T (Changes.at cs 0)) = false := by
  have h' : (loopReaches T cs i &&
      !Level.lt (indentAndNestingLevel T (Changes.at cs i))
        (indentAndNestingLevel T (Changes.at cs 0))) = true := h
  rw [Bool.and_eq_true] at h'
  simpa using h'.2

theorem loopReaches_succ (T : TokenTable) (cs : Changes) (i : Nat)
    (h : loopReaches T cs i = true)
    (hb : Level.lt (indentAndNestingLevel T (Changes.at cs i))
      (indentAndNestingLevel T (Changes.at cs 0)) = false) :
    loopReaches T cs (i + 1) = true := by
  show (loopReaches T cs i &&
      !Level.lt (indentAndNestingLevel T (Changes.at cs i))
        (indentAndNestingLevel T (Changes.at cs 0))) = true
  rw [h, hb]
  rfl

theorem loopReaches_range (T : TokenTable) (cs : Changes) (d : Nat)
    (h : loopReaches T cs d = true) :
    ∀ n, (∀ k, d ≤ k → k < d + n →
        Level.lt (indentAndNestingLevel T (Changes.at cs k))
          (indentAndNestingLevel T (Changes.at cs 0)) = false) →
      loopReaches T cs (d + n) = true := by
  intro n
  induction n with
  | zero =>
    intro _
    exact h
  | succ n ih =>
    intro hk
    exact loopReaches_succ T cs (d + n) (ih (fun k k1 k2 => hk k k1 (by omega)))
      (hk (d + n) (by omega) (by omega))

/-- A record that is deeper than the first record neither starts a line nor
matches. -/
theorem anchoredLedger_at (T : TokenTable) (P : Tally.Policy) (M : Predicate) (cs : Changes)
    (h : anchoredLedger T P M cs = true) (i : Nat) (hi : i < cs.length)
    (hr : loopReaches T cs (i + 1) = true) (hP : P.IgnoreScope = false)
    (hd : Level.lt (indentAndNestingLevel T (Changes.at cs 0))
        (indentAndNestingLevel T (Changes.at cs i)) = true) :
    (Changes.at cs i).NewlinesBefore = 0 ∧ M cs i = false := by
  unfold anchoredLedger at h
  rw [hP, Bool.false_or, List.all_eq_true] at h
  have h1 := h i (List.mem_range.mpr hi)
  rw [hr, hd] at h1
  simp only [Bool.not_true, Bool.false_or, Bool.or_false, Bool.not_eq_true',
    Bool.or_eq_false_iff, decide_eq_false_iff_not, ne_eq, not_not] at h1
  exact h1

theorem scopesClose_at (T : TokenTable) (P : Tally.Policy) (M : Predicate) (cs : Changes)
    (h : scopesClose T P M cs = true) (Start : Nat) (hS : Start < cs.length)
    (hm : M cs Start = true) :
    P.IgnoreScope = true ∨ ∀ k, Start ≤ k → k < cs.length →
      ((Changes.at cs k).NewlinesBefore ≠ 0 ∨ M cs k = true) → scopeStackOf T cs Start k = [] := by
  unfold scopesClose at h
  rw [Bool.or_eq_true] at h
  rcases h with h | h
  · exact Or.inl h
  · right
    intro k k1 k2 hk
    by_cases hkS : k = Start
    · rw [hkS]
      exact scopeStackOf_start T cs Start
    · rw [List.all_eq_true] at h
      have h1 := h Start (List.mem_range.mpr hS)
      rw [hm] at h1
      simp only [Bool.not_true, Bool.false_or, List.all_eq_true] at h1
      have h2 := h1 k (by
        rw [List.mem_range'_1]
        omega)
      have h3 : (decide ((Changes.at cs k).NewlinesBefore ≠ 0) || M cs k) = true := by
        rcases hk with hk | hk
        · simp [hk]
        · simp [hk]
      rw [h3] at h2
      simp only [Bool.not_true, Bool.false_or, List.isEmpty_iff] at h2
      exact h2

theorem scopeStackBefore_frame (T : TokenTable) {a b : Changes} (h : SameFrame a b)
    (Start i : Nat) : scopeStackBefore T a Start i = scopeStackBefore T b Start i := by
  unfold scopeStackBefore
  simp only [scopeStackAt_frame T h]

theorem scopeStackOf_frame (T : TokenTable) {a b : Changes} (h : SameFrame a b)
    (Start i : Nat) : scopeStackOf T a Start i = scopeStackOf T b Start i := by
  unfold scopeStackOf
  rw [scopeStackAt_frame T h, scopeStackBefore_frame T h]

theorem columnsSmallFor_at (P : Tally.Policy) (cs : Changes) (h : columnsSmallFor P cs = true)
    (i : Nat) :
    (Changes.at cs i).StartOfTokenColumn <
      (if P.ForceAlignToFourSpaces then 2147483644 else 2147483648) := by
  by_cases hi : i < cs.length
  · rw [Changes.at_eq_getElem cs i hi]
    unfold columnsSmallFor at h
    rw [List.all_eq_true] at h
    have := h cs[i] (List.getElem_mem hi)
    simpa using this
  · rw [Changes.at_of_le cs i (by omega)]
    split <;> decide

theorem columnsSmallFor_small (P : Tally.Policy) (cs : Changes)
    (h : columnsSmallFor P cs = true) (i : Nat) :
    (Changes.at cs i).StartOfTokenColumn < 2147483648 := by
  have := columnsSmallFor_at P cs h i
  split at this <;> omega

/-! ## The records that the loop leaves to a recursive call -/

theorem coveredAt_of (T : TokenTable) (cs : Changes) (d j : Nat) (hdj : d < j)
    (hc : (T.at (Changes.at cs d).Tok).is TokenKind.comma = false)
    (hd : Level.lt (indentAndNestingLevel T (Changes.at cs 0))
      (indentAndNestingLevel T (Changes.at cs d)) = true)
    (hs : ∀ k, d < k → k ≤ j →
      Level.lt (indentAndNestingLevel T (Changes.at cs k))
        (indentAndNestingLevel T (Changes.at cs d)) = false) :
    coveredAt T cs j = true := by
  unfold coveredAt
  rw [List.any_eq_true]
  refine ⟨d, List.mem_range.mpr hdj, ?_⟩
  rw [hc, hd]
  simp only [Bool.not_false, Bool.and_self, Bool.true_and, List.all_eq_true, Bool.not_eq_true']
  intro k hk
  rw [List.mem_range'_1] at hk
  exact hs k (by omega) (by omega)

theorem coveredAt_witness (T : TokenTable) (cs : Changes) (j : Nat)
    (h : coveredAt T cs j = true) :
    ∃ d, d < j ∧ (T.at (Changes.at cs d).Tok).is TokenKind.comma = false ∧
      Level.lt (indentAndNestingLevel T (Changes.at cs 0))
        (indentAndNestingLevel T (Changes.at cs d)) = true ∧
      ∀ k, d < k → k ≤ j →
        Level.lt (indentAndNestingLevel T (Changes.at cs k))
          (indentAndNestingLevel T (Changes.at cs d)) = false := by
  unfold coveredAt at h
  rw [List.any_eq_true] at h
  obtain ⟨d, hd, hh⟩ := h
  simp only [Bool.and_eq_true, Bool.not_eq_true', List.all_eq_true] at hh
  refine ⟨d, List.mem_range.mp hd, hh.1.1, hh.1.2, ?_⟩
  intro k k1 k2
  exact hh.2 k (by
    rw [List.mem_range'_1]
    omega)

/-- After a record that the loop treats itself, the loop comes to a record
that is not covered. -/
theorem coveredAt_succ (T : TokenTable) (cs : Changes) (i : Nat)
    (h : coveredAt T cs i = false)
    (ht : (T.at (Changes.at cs i).Tok).is TokenKind.comma = true ∨
      Level.lt (indentAndNestingLevel T (Changes.at cs 0))
        (indentAndNestingLevel T (Changes.at cs i)) = false) :
    coveredAt T cs (i + 1) = false := by
  cases hc : coveredAt T cs (i + 1)
  · rfl
  · obtain ⟨d, d1, d2, d3, d4⟩ := coveredAt_witness T cs (i + 1) hc
    by_cases hdi : d = i
    · subst hdi
      rcases ht with ht | ht
      · rw [ht] at d2
        exact absurd d2 (by simp)
      · rw [ht] at d3
        exact absurd d3 (by simp)
    · rw [coveredAt_of T cs d i (by omega) d2 d3 (fun k k1 k2 => d4 k k1 (by omega))] at h
      exact absurd h (by simp)

/-- After a recursive call from a record that is not covered, the loop comes
to a record that is not covered. -/
theorem coveredAt_stop (T : TokenTable) (cs : Changes) (d e : Nat) (hde : d < e)
    (h : coveredAt T cs d = false)
    (hstop : Level.lt (indentAndNestingLevel T (Changes.at cs e))
      (indentAndNestingLevel T (Changes.at cs d)) = true)
    (hs : ∀ k, d ≤ k → k < e →
      Level.lt (indentAndNestingLevel T (Changes.at cs k))
        (indentAndNestingLevel T (Changes.at cs d)) = false) :
    coveredAt T cs e = false := by
  cases hc : coveredAt T cs e
  · rfl
  · obtain ⟨w, w1, w2, w3, w4⟩ := coveredAt_witness T cs e hc
    by_cases hwd : w < d
    · rw [coveredAt_of T cs w d hwd w2 w3 (fun k k1 k2 => w4 k k1 (by omega))] at h
      exact absurd h (by simp)
    · have h1 := hs w (by omega) w1
      have h2 := w4 e w1 (Nat.le_refl e)
      rw [Level.lt_of_lt_of_not_lt hstop h1] at h2
      exact absurd h2 (by simp)

end ClangFormat

namespace ClangFormat

/-! ## The local variables of the loop as the ledger determines them -/

theorem pendingAt_succ (T : TokenTable) (Style : FormatStyle) (P : Tally.Policy) (M : Predicate)
    (cs : Changes) (i : Nat) :
    pendingAt T Style P M cs (i + 1) = (pendingAt T Style P M cs i).step T Style P M cs i := rfl

theorem pending_head_fields (P : Tally.Policy) (cs : Changes) (q : Pending) (i : Nat) :
    (q.head P cs i).StartOfSequence =
      (if (decide ((Changes.at cs i).NewlinesBefore ≠ 0) && q.breaksLine P cs i) = true then 0
       else q.StartOfSequence) ∧
    (q.head P cs i).MinColumn =
      (if (decide ((Changes.at cs i).NewlinesBefore ≠ 0) && q.breaksLine P cs i) = true then 0
       else q.MinColumn) ∧
    (q.head P cs i).MaxColumn =
      (if (decide ((Changes.at cs i).NewlinesBefore ≠ 0) && q.breaksLine P cs i) = true
       then UINT_MAX else q.MaxColumn) ∧
    (q.head P cs i).EndOfSequence =
      (if (decide ((Changes.at cs i).NewlinesBefore ≠ 0) && q.breaksLine P cs i) = true then 0
       else if (Changes.at cs i).NewlinesBefore ≠ 0 then i else q.EndOfSequence) ∧
    (q.head P cs i).FoundMatchOnLine =
      (if (Changes.at cs i).NewlinesBefore ≠ 0 then false else q.FoundMatchOnLine) ∧
    (q.head P cs i).CommasBeforeMatch =
      (if (Changes.at cs i).NewlinesBefore ≠ 0 then 0 else q.CommasBeforeMatch) ∧
    (q.head P cs i).CommasBeforeLastMatch = q.CommasBeforeLastMatch := by
  unfold Pending.head Pending.atLineStart Pending.reset
  by_cases hn : (Changes.at cs i).NewlinesBefore ≠ 0
  · by_cases hb : q.breaksLine P cs i = true
    · simp [hn, hb]
    · simp [hn, hb]
  · simp [hn]

theorem pending_comma_fields (T : TokenTable) (P : Tally.Policy) (cs : Changes) (q : Pending)
    (i : Nat) :
    (q.comma T P cs i).StartOfSequence = q.StartOfSequence ∧
    (q.comma T P cs i).MinColumn = q.MinColumn ∧
    (q.comma T P cs i).MaxColumn = q.MaxColumn ∧
    (q.comma T P cs i).EndOfSequence = q.EndOfSequence ∧
    (q.comma T P cs i).FoundMatchOnLine = q.FoundMatchOnLine ∧
    (q.comma T P cs i).CommasBeforeMatch =
      q.CommasBeforeMatch + (if countedComma T P cs i then 1 else 0) ∧
    (q.comma T P cs i).CommasBeforeLastMatch = q.CommasBeforeLastMatch := by
  unfold Pending.comma
  split <;> simp

theorem pending_forceFour_fields (P : Tally.Policy) (q : Pending) :
    (Pending.forceFour P q).StartOfSequence = q.StartOfSequence ∧
    (Pending.forceFour P q).EndOfSequence = q.EndOfSequence ∧
    (Pending.forceFour P q).FoundMatchOnLine = q.FoundMatchOnLine ∧
    (Pending.forceFour P q).CommasBeforeMatch = q.CommasBeforeMatch ∧
    (Pending.forceFour P q).CommasBeforeLastMatch = q.CommasBeforeLastMatch ∧
    (Pending.forceFour P q).MinColumn =
      (Pending.forceFour P { MinColumn := q.MinColumn, MaxColumn := q.MaxColumn }).MinColumn ∧
    (Pending.forceFour P q).MaxColumn =
      (Pending.forceFour P { MinColumn := q.MinColumn, MaxColumn := q.MaxColumn }).MaxColumn := by
  unfold Pending.forceFour
  split <;> simp

theorem pending_atMatch_fields (Style : FormatStyle) (P : Tally.Policy) (cs : Changes)
    (q : Pending) (i : Nat) :
    (q.atMatch Style P cs i).StartOfSequence =
      (if (q.breaksAtMatch P || (q.noted P i).leavesWindow Style P cs i) = true then i
       else if q.StartOfSequence = 0 then i else q.StartOfSequence) ∧
    (q.atMatch Style P cs i).EndOfSequence =
      (if (q.breaksAtMatch P || (q.noted P i).leavesWindow Style P cs i) = true then 0
       else q.EndOfSequence) ∧
    (q.atMatch Style P cs i).FoundMatchOnLine = true ∧
    (q.atMatch Style P cs i).CommasBeforeMatch = q.CommasBeforeMatch ∧
    (q.atMatch Style P cs i).CommasBeforeLastMatch = q.CommasBeforeMatch ∧
    (q.atMatch Style P cs i).MinColumn =
      (Pending.forceFour P
        { MinColumn := max (if (q.breaksAtMatch P || (q.noted P i).leavesWindow Style P cs i) = true
            then 0 else q.MinColumn) (Changes.at cs i).StartOfTokenColumn,
          MaxColumn := min (if (q.breaksAtMatch P || (q.noted P i).leavesWindow Style P cs i) = true
            then UINT_MAX else q.MaxColumn) (Tally.ChangeMaxColumn Style P cs i) }).MinColumn ∧
    (q.atMatch Style P cs i).MaxColumn =
      (Pending.forceFour P
        { MinColumn := max (if (q.breaksAtMatch P || (q.noted P i).leavesWindow Style P cs i) = true
            then 0 else q.MinColumn) (Changes.at cs i).StartOfTokenColumn,
          MaxColumn := min (if (q.breaksAtMatch P || (q.noted P i).leavesWindow Style P cs i) = true
            then UINT_MAX else q.MaxColumn) (Tally.ChangeMaxColumn Style P cs i) }).MaxColumn := by
  unfold Pending.atMatch
  have hf := pending_forceFour_fields P
    (Pending.widen Style P cs
      (if (q.noted P i).leavesWindow Style P cs i then
        { (q.noted P i).reset with StartOfSequence := i }
       else q.noted P i) i)
  obtain ⟨f1, f2, f3, f4, f5, f6, f7⟩ := hf
  rw [f1, f2, f3, f4, f5, f6, f7]
  by_cases hw : (q.noted P i).leavesWindow Style P cs i = true
  · rw [if_pos hw]
    simp only [hw, Bool.or_true, if_true]
    unfold Pending.widen Pending.reset Pending.noted Pending.note
    by_cases hb : q.breaksAtMatch P = true
    · simp [hb, Pending.reset]
    · simp [hb]
  · rw [if_neg hw]
    have hw' : (q.noted P i).leavesWindow Style P cs i = false := by simpa using hw
    simp only [hw', Bool.or_false]
    unfold Pending.widen Pending.noted Pending.note
    by_cases hb : q.breaksAtMatch P = true
    · simp [hb, Pending.reset]
    · simp [hb]

theorem pendingAt_succ_fields (T : TokenTable) (Style : FormatStyle) (P : Tally.Policy)
    (M : Predicate) (cs : Changes) (i : Nat) :
    (pendingAt T Style P M cs (i + 1)).StartOfSequence =
      (if flushesAt T Style P M cs i = true then (if M cs i = true then i else 0)
       else if M cs i = true ∧ (pendingAt T Style P M cs i).StartOfSequence = 0 then i
       else (pendingAt T Style P M cs i).StartOfSequence) ∧
    (pendingAt T Style P M cs (i + 1)).EndOfSequence =
      (if flushesAt T Style P M cs i = true then 0
       else if (Changes.at cs i).NewlinesBefore ≠ 0 then i
       else (pendingAt T Style P M cs i).EndOfSequence) ∧
    (pendingAt T Style P M cs (i + 1)).FoundMatchOnLine =
      (M cs i || (if (Changes.at cs i).NewlinesBefore ≠ 0 then false
        else (pendingAt T Style P M cs i).FoundMatchOnLine)) ∧
    (pendingAt T Style P M cs (i + 1)).CommasBeforeMatch =
      (if (Changes.at cs i).NewlinesBefore ≠ 0 then 0
        else (pendingAt T Style P M cs i).CommasBeforeMatch) +
        (if countedComma T P cs i then 1 else 0) ∧
    (pendingAt T Style P M cs (i + 1)).CommasBeforeLastMatch =
      (if M cs i = true then (pendingAt T Style P M cs (i + 1)).CommasBeforeMatch
       else (pendingAt T Style P M cs i).CommasBeforeLastMatch) ∧
    (pendingAt T Style P M cs (i + 1)).MinColumn =
      (if M cs i = true then
        (Pending.forceFour P
          { MinColumn := max (if flushesAt T Style P M cs i = true then 0
              else (pendingAt T Style P M cs i).MinColumn) (Changes.at cs i).StartOfTokenColumn,
            MaxColumn := min (if flushesAt T Style P M cs i = true then UINT_MAX
              else (pendingAt T Style P M cs i).MaxColumn)
              (Tally.ChangeMaxColumn Style P cs i) }).MinColumn
       else if flushesAt T Style P M cs i = true then 0
       else (pendingAt T Style P M cs i).MinColumn) ∧
    (pendingAt T Style P M cs (i + 1)).MaxColumn =
      (if M cs i = true then
        (Pending.forceFour P
          { MinColumn := max (if flushesAt T Style P M cs i = true then 0
              else (pendingAt T Style P M cs i).MinColumn) (Changes.at cs i).StartOfTokenColumn,
            MaxColumn := min (if flushesAt T Style P M cs i = true then UINT_MAX
              else (pendingAt T Style P M cs i).MaxColumn)
              (Tally.ChangeMaxColumn Style P cs i) }).MaxColumn
       else if flushesAt T Style P M cs i = true then UINT_MAX
       else (pendingAt T Style P M cs i).MaxColumn) := by
  rw [pendingAt_succ]
  unfold flushesAt
  generalize pendingAt T Style P M cs i = q
  obtain ⟨h1, h2, h3, h4, h5, h6, h7⟩ := pending_head_fields P cs q i
  obtain ⟨c1, c2, c3, c4, c5, c6, c7⟩ := pending_comma_fields T P cs (q.head P cs i) i
  unfold Pending.step
  by_cases hm : M cs i = true
  · obtain ⟨a1, a2, a3, a4, a5, a6, a7⟩ :=
      pending_atMatch_fields Style P cs ((q.head P cs i).comma T P cs i) i
    simp only [hm, if_true, Bool.true_and, Bool.true_or, true_and]
    rw [a1, a2, a3, a4, a5, a6, a7, c1, c2, c3, c4, c6, h1, h2, h3, h4, h6]
    generalize (((q.head P cs i).comma T P cs i).breaksAtMatch P ||
      ((((q.head P cs i).comma T P cs i).noted P i).leavesWindow Style P cs i)) = mb
    generalize (decide ((Changes.at cs i).NewlinesBefore ≠ 0) && q.breaksLine P cs i) = lb
    cases mb <;> cases lb <;> simp
  · have hm' : M cs i = false := by simpa using hm
    simp only [hm', Bool.false_eq_true, if_false, Bool.false_and, Bool.or_false, false_and,
      Bool.false_or]
    rw [c1, c2, c3, c4, c5, c6, c7, h1, h2, h3, h4, h5, h6, h7]
    generalize (decide ((Changes.at cs i).NewlinesBefore ≠ 0) && q.breaksLine P cs i) = lb
    cases lb <;> simp

theorem pending_forceFour_min (P : Tally.Policy) (m x : Nat) (hm : m < 4294967292) :
    (Pending.forceFour P { MinColumn := m, MaxColumn := x }).MinColumn =
      if P.ForceAlignToFourSpaces = true then roundUpTo 4 m else m := by
  unfold Pending.forceFour roundUpTo
  by_cases hF : P.ForceAlignToFourSpaces = true
  · by_cases h4 : m % 4 ≠ 0
    · simp only [hF, h4, Bool.true_and, decide_True, if_true, ne_eq, not_false_eq_true]
      unfold toUnsigned
      omega
    · simp [hF, h4]
  · simp [hF]

theorem pendingAt_end_le (T : TokenTable) (Style : FormatStyle) (P : Tally.Policy)
    (M : Predicate) (cs : Changes) :
    ∀ i, (pendingAt T Style P M cs i).EndOfSequence ≤ i := by
  intro i
  induction i with
  | zero => exact Nat.le_refl _
  | succ i ih =>
    rw [(pendingAt_succ_fields T Style P M cs i).2.1]
    split
    · omega
    · split
      · omega
      · omega

theorem pendingAt_found (T : TokenTable) (Style : FormatStyle) (P : Tally.Policy)
    (M : Predicate) (cs : Changes) :
    ∀ i, (pendingAt T Style P M cs i).FoundMatchOnLine = decide (1 ≤ matchesSeen M cs i) := by
  intro i
  induction i with
  | zero => rfl
  | succ i ih =>
    rw [(pendingAt_succ_fields T Style P M cs i).2.2.1, matchesSeen_succ, ih]
    by_cases hm : M cs i = true
    · simp [hm]
    · have hm' : M cs i = false := by simpa using hm
      by_cases hn : (Changes.at cs i).NewlinesBefore ≠ 0
      · simp [hm', hn]
      · simp [hm', hn]

theorem pendingAt_min_small (T : TokenTable) (Style : FormatStyle) (P : Tally.Policy)
    (M : Predicate) (cs : Changes) (hsmall : columnsSmallFor P cs = true) :
    ∀ i, (P.ForceAlignToFourSpaces = true →
        (pendingAt T Style P M cs i).MinColumn ≤ 2147483644 ∧
        (pendingAt T Style P M cs i).MinColumn % 4 = 0) ∧
      (P.ForceAlignToFourSpaces = false →
        (pendingAt T Style P M cs i).MinColumn < 2147483648) := by
  intro i
  induction i with
  | zero =>
    constructor
    · intro _
      exact ⟨by show (0 : Nat) ≤ 2147483644; omega, rfl⟩
    · intro _
      show (0 : Nat) < 2147483648
      omega
  | succ i ih =>
    have hcol := columnsSmallFor_at P cs hsmall i
    rw [(pendingAt_succ_fields T Style P M cs i).2.2.2.2.2.1]
    have hbase : (P.ForceAlignToFourSpaces = true →
        (if flushesAt T Style P M cs i = true then 0
          else (pendingAt T Style P M cs i).MinColumn) ≤ 2147483644 ∧
        (if flushesAt T Style P M cs i = true then 0
          else (pendingAt T Style P M cs i).MinColumn) % 4 = 0) ∧
      (P.ForceAlignToFourSpaces = false →
        (if flushesAt T Style P M cs i = true then 0
          else (pendingAt T Style P M cs i).MinColumn) < 2147483648) := by
      split
      · exact ⟨fun _ => ⟨by omega, rfl⟩, fun _ => by omega⟩
      · exact ih
    generalize (if flushesAt T Style P M cs i = true then 0
      else (pendingAt T Style P M cs i).MinColumn) = b at hbase
    by_cases hm : M cs i = true
    · rw [if_pos hm]
      by_cases hF : P.ForceAlignToFourSpaces = true
      · rw [hF] at hcol
        simp only [if_true] at hcol
        have hb := hbase.1 hF
        rw [pending_forceFour_min P _ _ (by
          have := Nat.max_le.mpr ⟨hb.1, Nat.le_of_lt hcol⟩
          omega), if_pos hF]
        have hr := roundUpTo_four (max b (Changes.at cs i).StartOfTokenColumn)
        refine ⟨fun _ => ⟨?_, hr.1⟩, fun h => by rw [hF] at h; exact absurd h (by simp)⟩
        have hmax : max b (Changes.at cs i).StartOfTokenColumn ≤ 2147483644 :=
          Nat.max_le.mpr ⟨hb.1, Nat.le_of_lt hcol⟩
        omega
      · have hF' : P.ForceAlignToFourSpaces = false := by simpa using hF
        rw [hF'] at hcol
        simp only [Bool.false_eq_true, if_false] at hcol
        have hb := hbase.2 hF'
        rw [pending_forceFour_min P _ _ (by
          have := Nat.max_lt.mpr ⟨hb, hcol⟩
          omega), if_neg hF]
        exact ⟨fun h => absurd h hF, fun _ => Nat.max_lt.mpr ⟨hb, hcol⟩⟩
    · rw [if_neg hm]
      exact hbase

theorem pendingAt_min_lt (T : TokenTable) (Style : FormatStyle) (P : Tally.Policy)
    (M : Predicate) (cs : Changes) (hsmall : columnsSmallFor P cs = true) (i : Nat) :
    (pendingAt T Style P M cs i).MinColumn < 2147483648 := by
  have h := pendingAt_min_small T Style P M cs hsmall i
  cases hF : P.ForceAlignToFourSpaces
  · exact h.2 hF
  · have := (h.1 hF).1
    omega

/-- The first record of the pending sequence matches, and the loop has not
ended a sequence since. -/
theorem pendingAt_start (T : TokenTable) (Style : FormatStyle) (P : Tally.Policy)
    (M : Predicate) (cs : Changes) :
    ∀ i, (pendingAt T Style P M cs i).StartOfSequence ≠ 0 →
      M cs (pendingAt T Style P M cs i).StartOfSequence = true ∧
      (pendingAt T Style P M cs i).StartOfSequence < i ∧
      ∀ k, (pendingAt T Style P M cs i).StartOfSequence < k → k < i →
        flushesAt T Style P M cs k = false := by
  intro i
  induction i with
  | zero =>
    intro h
    exact absurd rfl h
  | succ i ih =>
    rw [(pendingAt_succ_fields T Style P M cs i).1]
    intro h
    by_cases hf : flushesAt T Style P M cs i = true
    · rw [if_pos hf] at h ⊢
      by_cases hm : M cs i = true
      · rw [if_pos hm]
        exact ⟨hm, Nat.lt_succ_self i, fun k k1 k2 => by omega⟩
      · rw [if_neg hm] at h
        exact absurd rfl h
    · rw [if_neg hf] at h ⊢
      by_cases hc : M cs i = true ∧ (pendingAt T Style P M cs i).StartOfSequence = 0
      · rw [if_pos hc]
        exact ⟨hc.1, Nat.lt_succ_self i, fun k k1 k2 => by omega⟩
      · rw [if_neg hc] at h ⊢
        obtain ⟨h1, h2, h3⟩ := ih h
        refine ⟨h1, by omega, ?_⟩
        intro k k1 k2
        by_cases hk : k = i
        · rw [hk]
          simpa using hf
        · exact h3 k k1 (by omega)

/-- A matching record after which the loop has not ended a sequence is part
of the pending sequence, and the pending column is not left of it. -/
theorem pendingAt_member (T : TokenTable) (Style : FormatStyle) (P : Tally.Policy)
    (M : Predicate) (cs : Changes) (hsmall : columnsSmallFor P cs = true) (j : Nat)
    (hj : M cs j = true) (h1 : 1 ≤ j) :
    ∀ i, j < i → (∀ k, j < k → k < i → flushesAt T Style P M cs k = false) →
      (pendingAt T Style P M cs i).StartOfSequence ≠ 0 ∧
      (pendingAt T Style P M cs i).StartOfSequence ≤ j ∧
      (Changes.at cs j).StartOfTokenColumn ≤ (pendingAt T Style P M cs i).MinColumn ∧
      (j < (pendingAt T Style P M cs i).EndOfSequence ∨ 1 ≤ matchesSeen M cs i) := by
  intro i
  induction i with
  | zero =>
    intro h
    omega
  | succ i ih =>
    intro hji hno
    obtain ⟨f1, f2, _, _, _, f6, _⟩ := pendingAt_succ_fields T Style P M cs i
    have hmin := pendingAt_min_lt T Style P M cs hsmall i
    have hcol := columnsSmallFor_small P cs hsmall i
    -- the rounding does not move the column to the left
    have hround : ∀ b : Nat, b < 2147483648 → ∀ x : Nat,
        max b (Changes.at cs i).StartOfTokenColumn ≤
          (Pending.forceFour P
            { MinColumn := max b (Changes.at cs i).StartOfTokenColumn,
              MaxColumn := x }).MinColumn := by
      intro b hb x
      rw [pending_forceFour_min P _ _ (by
        have := Nat.max_lt.mpr ⟨hb, hcol⟩
        omega)]
      split
      · exact (roundUpTo_four _).2.1
      · exact Nat.le_refl _
    by_cases hji' : j = i
    · subst hji'
      have hseen : 1 ≤ matchesSeen M cs (j + 1) := by
        rw [matchesSeen_succ, if_pos hj]
        omega
      rw [f1, f2, f6]
      simp only [hj, if_true, true_and]
      refine ⟨?_, ?_, ?_, Or.inr hseen⟩
      · split
        · omega
        · split
          · omega
          · rename_i hc
            exact hc
      · split
        · exact Nat.le_refl _
        · split
          · exact Nat.le_refl _
          · rename_i hf hc
            exact Nat.le_of_lt (pendingAt_start T Style P M cs j hc).2.1
      · split
        · exact Nat.le_trans (Nat.le_max_right _ _)
            (hround 0 (by omega) _)
        · exact Nat.le_trans (Nat.le_max_right _ _) (hround _ hmin _)
    · have hf : flushesAt T Style P M cs i = false := hno i (by omega) (by omega)
      obtain ⟨a1, a2, a3, a4⟩ := ih (by omega) (fun k k1 k2 => hno k k1 (by omega))
      rw [f1, f2, f6, hf]
      simp only [Bool.false_eq_true, if_false]
      refine ⟨?_, ?_, ?_, ?_⟩
      · rw [if_neg (fun hc => a1 hc.2)]
        exact a1
      · rw [if_neg (fun hc => a1 hc.2)]
        exact a2
      · split
        · exact Nat.le_trans (Nat.le_trans a3 (Nat.le_max_left _ _)) (hround _ hmin _)
        · exact a3
      · by_cases hn : (Changes.at cs i).NewlinesBefore ≠ 0
        · left
          rw [if_pos hn]
          omega
        · rw [if_neg hn, matchesSeen_succ, if_neg hn]
          rcases a4 with a4 | a4
          · exact Or.inl a4
          · right
            omega

/-- A matching record after which the loop has not ended a sequence is part
of the pending sequence. -/
theorem pendingAt_member_start (T : TokenTable) (Style : FormatStyle) (P : Tally.Policy)
    (M : Predicate) (cs : Changes) (j : Nat) (hj : M cs j = true) (h1 : 1 ≤ j) :
    ∀ i, j < i → (∀ k, j < k → k < i → flushesAt T Style P M cs k = false) →
      (pendingAt T Style P M cs i).StartOfSequence ≠ 0 ∧
      (pendingAt T Style P M cs i).StartOfSequence ≤ j ∧
      (j < (pendingAt T Style P M cs i).EndOfSequence ∨ 1 ≤ matchesSeen M cs i) := by
  intro i
  induction i with
  | zero =>
    intro h
    omega
  | succ i ih =>
    intro hji hno
    obtain ⟨f1, f2, _, _, _, _, _⟩ := pendingAt_succ_fields T Style P M cs i
    by_cases hji' : j = i
    · subst hji'
      have hseen : 1 ≤ matchesSeen M cs (j + 1) := by
        rw [matchesSeen_succ, if_pos hj]
        omega
      rw [f1, f2]
      simp only [hj, if_true, true_and]
      refine ⟨?_, ?_, Or.inr hseen⟩
      · split
        · omega
        · split
          · omega
          · rename_i hc
            exact hc
      · split
        · exact Nat.le_refl _
        · split
          · exact Nat.le_refl _
          · rename_i hf hc
            exact Nat.le_of_lt (pendingAt_start T Style P M cs j hc).2.1
    · have hf : flushesAt T Style P M cs i = false := hno i (by omega) (by omega)
      obtain ⟨a1, a2, a4⟩ := ih (by omega) (fun k k1 k2 => hno k k1 (by omega))
      rw [f1, f2, hf]
      simp only [Bool.false_eq_true, if_false]
      refine ⟨?_, ?_, ?_⟩
      · rw [if_neg (fun hc => a1 hc.2)]
        exact a1
      · rw [if_neg (fun hc => a1 hc.2)]
        exact a2
      · by_cases hn : (Changes.at cs i).NewlinesBefore ≠ 0
        · left
          rw [if_pos hn]
          omega
        · rw [if_neg hn, matchesSeen_succ, if_neg hn]
          rcases a4 with a4 | a4
          · exact Or.inl a4
          · right
            omega

/-- A record that neither starts a line nor matches and is no comma that the
loop counts leaves the local variables as they are. -/
theorem pendingAt_skip (T : TokenTable) (Style : FormatStyle) (P : Tally.Policy) (M : Predicate)
    (cs : Changes) (k : Nat) (hn : (Changes.at cs k).NewlinesBefore = 0) (hm : M cs k = false)
    (hc : countedComma T P cs k = false) :
    pendingAt T Style P M cs (k + 1) = pendingAt T Style P M cs k := by
  rw [pendingAt_succ]
  unfold Pending.step Pending.head Pending.comma
  rw [hm, hc]
  simp [hn]

theorem pendingAt_skip_range (T : TokenTable) (Style : FormatStyle) (P : Tally.Policy)
    (M : Predicate) (cs : Changes) (d : Nat) :
    ∀ n, (∀ k, d ≤ k → k < d + n → (Changes.at cs k).NewlinesBefore = 0 ∧ M cs k = false ∧
        countedComma T P cs k = false) →
      pendingAt T Style P M cs (d + n) = pendingAt T Style P M cs d := by
  intro n
  induction n with
  | zero =>
    intro _
    rfl
  | succ n ih =>
    intro h
    obtain ⟨h1, h2, h3⟩ := h (d + n) (by omega) (by omega)
    have e : d + (n + 1) = (d + n) + 1 := by omega
    rw [e, pendingAt_skip T Style P M cs (d + n) h1 h2 h3]
    exact ih (fun k k1 k2 => h k k1 (by omega))

end ClangFormat

namespace ClangFormat

/-! ## The end of a sequence on a ledger with nested scopes -/

/-- What AlignCurrentSequence writes when the records from the start of the
pending sequence on are as before the call and no matching record of the
range stands right of the pending column: every allowed matching record of
the range is moved to the pending column, and no other Spaces changes. -/
theorem tally_AlignCurrentSequence_scoped (T : TokenTable) (P : Tally.Policy) (M : Predicate)
    (cs : Changes) (s : AlignState) (hst : Predicate.Stable M)
    (hfirst : matchesFirstOnLine M cs = true) (hclose : scopesClose T P M cs = true)
    (hfr : SameFrame s.Changes cs) (has : s.AssertsHeld = true)
    (hact : 0 < s.StartOfSequence → s.StartOfSequence < s.EndOfSequence →
      M cs s.StartOfSequence = true ∧ s.EndOfSequence ≤ cs.length ∧
      s.MinColumn < 2147483648 ∧
      (∀ j, s.StartOfSequence ≤ j →
        (Changes.at s.Changes j).Spaces = (Changes.at cs j).Spaces ∧
        (Changes.at s.Changes j).StartOfTokenColumn = (Changes.at cs j).StartOfTokenColumn ∧
        (Changes.at cs j).StartOfTokenColumn < 2147483648) ∧
      (∀ j, s.StartOfSequence ≤ j → j < s.EndOfSequence → M cs j = true →
        (Changes.at cs j).StartOfTokenColumn ≤ s.MinColumn)) :
    SameFrame (Tally.AlignCurrentSequence T P M s).Changes cs ∧
    (Tally.AlignCurrentSequence T P M s).AssertsHeld = true ∧
    (∀ j, ¬ (0 < s.StartOfSequence ∧ s.StartOfSequence ≤ j ∧ j < s.EndOfSequence) →
      (Changes.at (Tally.AlignCurrentSequence T P M s).Changes j).Spaces =
        (Changes.at s.Changes j).Spaces ∧
      (Changes.at (Tally.AlignCurrentSequence T P M s).Changes j).StartOfTokenColumn =
        (Changes.at s.Changes j).StartOfTokenColumn) ∧
    (∀ j, M cs j = false →
      (Changes.at (Tally.AlignCurrentSequence T P M s).Changes j).Spaces =
        (Changes.at s.Changes j).Spaces) ∧
    (∀ j, 0 < s.StartOfSequence → s.StartOfSequence ≤ j → j < s.EndOfSequence →
      M cs j = true →
      (Tally.matchAllowed T cs j = true →
        (Changes.at (Tally.AlignCurrentSequence T P M s).Changes j).StartOfTokenColumn =
          s.MinColumn ∧
        (Changes.at (Tally.AlignCurrentSequence T P M s).Changes j).Spaces =
          (Changes.at cs j).Spaces +
            ((s.MinColumn : Int) - (Changes.at cs j).StartOfTokenColumn)) ∧
      (Tally.matchAllowed T cs j = false →
        (Changes.at (Tally.AlignCurrentSequence T P M s).Changes j).StartOfTokenColumn =
          (Changes.at cs j).StartOfTokenColumn ∧
        (Changes.at (Tally.AlignCurrentSequence T P M s).Changes j).Spaces =
          (Changes.at cs j).Spaces)) := by
  unfold Tally.AlignCurrentSequence
  simp only []
  by_cases hc : (decide (s.StartOfSequence > 0) && decide (s.StartOfSequence < s.EndOfSequence)) = true
  · rw [if_pos hc]
    simp only [Bool.and_eq_true, decide_eq_true_eq] at hc
    obtain ⟨hS, hE, hMin, hahead, hcol⟩ := hact hc.1 hc.2
    have hMa : ∀ k, M s.Changes k = M cs k := fun k => hst _ _ k hfr
    have hlen : s.Changes.length = cs.length := hfr.length_eq
    unfold Tally.AlignTokenSequence
    have hfold := sequenceUpTo_fold T M P.IgnoreScope s.Changes s.StartOfSequence s.MinColumn
      (by
        rcases scopesClose_at T P M cs hclose s.StartOfSequence (by omega) hS with h | h
        · exact Or.inl h
        · right
          intro k k1 k2 hk
          rw [scopeStackOf_frame T hfr]
          apply h k k1 (by omega)
          rw [← hfr.newlinesBefore k, ← hMa k]
          exact hk)
      hst
      (fun k hk hm hn => by
        rw [matchesSeen_frame M hst hfr k]
        exact matchesFirstOnLine_at M cs hfirst k (by omega) (by rw [← hMa k]; exact hm)
          (by rw [← hfr.newlinesBefore k]; exact hn))
      (fun j hj => by
        rw [(hahead j hj).2.1]
        exact (hahead j hj).2.2)
      hMin (s.EndOfSequence - s.StartOfSequence) (by omega)
      (fun i i1 _ hm _ => by
        rw [(hahead i i1).2.1]
        exact hcol i i1 (by omega) (by rw [← hMa i]; exact hm))
    have hEq : s.StartOfSequence + (s.EndOfSequence - s.StartOfSequence) = s.EndOfSequence := by
      omega
    rw [hEq] at hfold
    generalize (List.range' s.StartOfSequence (s.EndOfSequence - s.StartOfSequence)).foldl
      (Tally.sequenceStep T M P.IgnoreScope s.StartOfSequence s.MinColumn)
      { Changes := s.Changes } = t at hfold
    refine ⟨SameFrame.trans hfold.frame hfr, ?_, ?_, ?_, ?_⟩
    · show (s.AssertsHeld && t.AssertsHeld) = true
      rw [has, hfold.asserts]
      rfl
    · intro j hj
      exact hfold.ahead j (by omega)
    · intro j hj
      by_cases hr : s.StartOfSequence ≤ j ∧ j < s.EndOfSequence
      · exact (hfold.passed j hr.1 hr.2 (fun hh => by
          rw [hMa j, hj] at hh
          exact absurd hh.1 (by simp))).1
      · exact (hfold.ahead j (by omega)).1
    · intro j _ j1 j2 hm
      have hA : Tally.matchAllowed T s.Changes j = Tally.matchAllowed T cs j :=
        matchAllowed_frame T hfr j
      constructor
      · intro ha
        have h := hfold.taken j j1 j2 (by rw [hMa j]; exact hm) (by rw [hA]; exact ha)
        rw [(hahead j j1).1, (hahead j j1).2.1] at h
        exact h
      · intro ha
        have h := hfold.passed j j1 j2 (fun hh => by
          rw [hA, ha] at hh
          exact absurd hh.2 (by simp))
        rw [(hahead j j1).1, (hahead j j1).2.1] at h
        exact ⟨h.2 (by rw [hMa j]; exact hm), h.1⟩
  · rw [if_neg hc]
    simp only [Bool.and_eq_true, decide_eq_true_eq] at hc
    refine ⟨hfr, ?_, fun j _ => ⟨rfl, rfl⟩, fun j _ => rfl, ?_⟩
    · show (s.AssertsHeld && true) = true
      rw [has]
      rfl
    · intro j h0 j1 j2
      exact absurd ⟨h0, by omega⟩ hc

end ClangFormat

namespace ClangFormat

/-! ## A flush that finds its matching records in its column -/

theorem tally_sequenceStep_still (T : TokenTable) (M : Predicate) (ig : Bool)
    (Start Column : Nat) (s : SeqState) (i : Nat) (hr : columnsInRange s.Changes = true)
    (hz : s.Shift = 0)
    (hm : M s.Changes i = true → Tally.matchAllowed T s.Changes i = true →
      (Changes.at s.Changes i).StartOfTokenColumn = Column) :
    (Tally.sequenceStep T M ig Start Column s i).Changes = s.Changes ∧
    (Tally.sequenceStep T M ig Start Column s i).Shift = 0 ∧
    (Tally.sequenceStep T M ig Start Column s i).AssertsHeld = s.AssertsHeld := by
  have hshift : (Tally.sequenceStep T M ig Start Column s i).Shift = 0 := by
    have e : (Tally.sequenceStep T M ig Start Column s i).Shift =
        if Tally.takesMatch T M ig s i (Tally.sequenceStep T M ig Start Column s i).ScopeStack
        then toInt (toUnsigned ((Column : Int) - (Changes.at s.Changes i).StartOfTokenColumn))
        else if lineReset s.Changes i (Tally.sequenceStep T M ig Start Column s i).ScopeStack ig
        then 0 else s.Shift := rfl
    rw [e]
    split
    · rename_i ht
      rw [hm (tally_takesMatch_matches T M ig s i _ ht) (tally_takesMatch_allowed T M ig s i _ ht)]
      exact toInt_toUnsigned_self Column
    · split
      · rfl
      · exact hz
  refine ⟨?_, hshift, ?_⟩
  · have e : (Tally.sequenceStep T M ig Start Column s i).Changes =
        shiftColumns
          (if Tally.continuation T Start
              (if Tally.takesMatch T M ig s i (Tally.sequenceStep T M ig Start Column s i).ScopeStack
                then addSpaces s.Changes i (Tally.sequenceStep T M ig Start Column s i).Shift
                else s.Changes) i (Tally.sequenceStep T M ig Start Column s i).ScopeStack
            then addSpaces
              (if Tally.takesMatch T M ig s i (Tally.sequenceStep T M ig Start Column s i).ScopeStack
                then addSpaces s.Changes i (Tally.sequenceStep T M ig Start Column s i).Shift
                else s.Changes) i (Tally.sequenceStep T M ig Start Column s i).Shift
            else (if Tally.takesMatch T M ig s i (Tally.sequenceStep T M ig Start Column s i).ScopeStack
                then addSpaces s.Changes i (Tally.sequenceStep T M ig Start Column s i).Shift
                else s.Changes)) i (Tally.sequenceStep T M ig Start Column s i).Shift := rfl
    rw [e, hshift]
    simp only [addSpaces_zero, ite_self]
    exact shiftColumns_zero _ _ hr
  · have e : (Tally.sequenceStep T M ig Start Column s i).AssertsHeld =
        (s.AssertsHeld && decide ((Tally.sequenceStep T M ig Start Column s i).Shift ≥ 0)) := rfl
    rw [e, hshift]
    simp

theorem tally_foldl_still (T : TokenTable) (M : Predicate) (ig : Bool) (Start Column : Nat)
    (l : List Nat) (s : SeqState) (hr : columnsInRange s.Changes = true) (hz : s.Shift = 0)
    (hm : ∀ i, i ∈ l → M s.Changes i = true → Tally.matchAllowed T s.Changes i = true →
      (Changes.at s.Changes i).StartOfTokenColumn = Column) :
    (l.foldl (Tally.sequenceStep T M ig Start Column) s).Changes = s.Changes ∧
    (l.foldl (Tally.sequenceStep T M ig Start Column) s).AssertsHeld = s.AssertsHeld := by
  induction l generalizing s with
  | nil => exact ⟨rfl, rfl⟩
  | cons a l ih =>
    obtain ⟨h1, h2, h3⟩ := tally_sequenceStep_still T M ig Start Column s a hr hz
      (hm a (List.mem_cons_self a l))
    have h4 := ih (Tally.sequenceStep T M ig Start Column s a) (by rw [h1]; exact hr) h2 (by
      intro i hi
      rw [h1]
      exact hm i (List.mem_cons_of_mem a hi))
    simp only [List.foldl_cons]
    exact ⟨h4.1.trans h1, h4.2.trans h3⟩

/-- A call of AlignCurrentSequence whose sequence, if there is one, has
every matching record that passes the test of AlignTokenSequence in the
pending column already leaves the ledger as it is. -/
theorem tally_AlignCurrentSequence_still (T : TokenTable) (P : Tally.Policy) (M : Predicate)
    (s : AlignState) (hr : columnsInRange s.Changes = true)
    (hq : 0 < s.StartOfSequence → s.StartOfSequence < s.EndOfSequence →
      ∀ j, s.StartOfSequence ≤ j → j < s.EndOfSequence → M s.Changes j = true →
        Tally.matchAllowed T s.Changes j = true →
        (Changes.at s.Changes j).StartOfTokenColumn = s.MinColumn) :
    (Tally.AlignCurrentSequence T P M s).Changes = s.Changes ∧
    (Tally.AlignCurrentSequence T P M s).AssertsHeld = s.AssertsHeld := by
  unfold Tally.AlignCurrentSequence
  simp only []
  split
  · rename_i hc
    simp only [Bool.and_eq_true, decide_eq_true_eq] at hc
    have h := tally_foldl_still T M P.IgnoreScope s.StartOfSequence s.MinColumn
      (List.range' s.StartOfSequence (s.EndOfSequence - s.StartOfSequence))
      { Changes := s.Changes } hr rfl (by
        intro i hi hmi ha
        rw [List.mem_range'_1] at hi
        exact hq hc.1 hc.2 i hi.1 (by omega) hmi ha)
    unfold Tally.AlignTokenSequence
    rw [h.1, h.2]
    simp
  · simp

/-! ## What a flush leaves as it is, whatever the scopes -/

theorem tally_sequenceStep_start_ne (T : TokenTable) (M : Predicate) (ig : Bool)
    (Start Column : Nat) (s : SeqState) (i j : Nat) (h : i ≠ j) :
    (Changes.at (Tally.sequenceStep T M ig Start Column s i).Changes j).StartOfTokenColumn =
      (Changes.at s.Changes j).StartOfTokenColumn := by
  unfold Tally.sequenceStep
  simp only []
  rw [shiftColumns_start, if_neg (fun hh => h hh.1)]
  repeat' split
  all_goals first
    | rfl
    | simp only [addSpaces_start]

theorem tally_foldl_outside (T : TokenTable) (M : Predicate) (ig : Bool) (Start Column : Nat)
    (j : Nat) (l : List Nat) (hj : j ∉ l) (s : SeqState) :
    (Changes.at (l.foldl (Tally.sequenceStep T M ig Start Column) s).Changes j).Spaces =
      (Changes.at s.Changes j).Spaces ∧
    (Changes.at (l.foldl (Tally.sequenceStep T M ig Start Column) s).Changes j).StartOfTokenColumn =
      (Changes.at s.Changes j).StartOfTokenColumn := by
  induction l generalizing s with
  | nil => exact ⟨rfl, rfl⟩
  | cons a l ih =>
    simp only [List.foldl_cons]
    have ha : a ≠ j := fun h => hj (h ▸ List.mem_cons_self a l)
    have h1 := ih (fun h => hj (List.mem_cons_of_mem a h))
      (Tally.sequenceStep T M ig Start Column s a)
    rw [tally_sequenceStep_spaces_ne T M ig Start Column s a j ha,
      tally_sequenceStep_start_ne T M ig Start Column s a j ha] at h1
    exact h1

/-- A call of AlignCurrentSequence writes Spaces and StartOfTokenColumn of
the records of its range only. -/
theorem tally_AlignCurrentSequence_outside (T : TokenTable) (P : Tally.Policy) (M : Predicate)
    (s : AlignState) (j : Nat)
    (h : ¬ (0 < s.StartOfSequence ∧ s.StartOfSequence ≤ j ∧ j < s.EndOfSequence)) :
    (Changes.at (Tally.AlignCurrentSequence T P M s).Changes j).Spaces =
      (Changes.at s.Changes j).Spaces ∧
    (Changes.at (Tally.AlignCurrentSequence T P M s).Changes j).StartOfTokenColumn =
      (Changes.at s.Changes j).StartOfTokenColumn := by
  unfold Tally.AlignCurrentSequence
  simp only []
  split
  · rename_i hc
    simp only [Bool.and_eq_true, decide_eq_true_eq] at hc
    unfold Tally.AlignTokenSequence
    exact tally_foldl_outside T M P.IgnoreScope s.StartOfSequence s.MinColumn j _ (by
      rw [List.mem_range'_1]
      omega) { Changes := s.Changes }
  · exact ⟨rfl, rfl⟩

theorem columnsInRange_of_at (cs : Changes)
    (h : ∀ j, (Changes.at cs j).StartOfTokenColumn < 4294967296 ∧
      (Changes.at cs j).PreviousEndOfTokenColumn < 4294967296) :
    columnsInRange cs = true := by
  unfold columnsInRange
  rw [List.all_eq_true]
  intro c hc
  obtain ⟨n, hn, e⟩ := List.getElem_of_mem hc
  have := h n
  rw [Changes.at_eq_getElem cs n hn, e] at this
  simp [this.1, this.2]

theorem shiftColumns_inRange_at (cs : Changes) (i : Nat) (z : Int)
    (h : ∀ j, (Changes.at cs j).StartOfTokenColumn < 4294967296 ∧
      (Changes.at cs j).PreviousEndOfTokenColumn < 4294967296) (j : Nat) :
    (Changes.at (shiftColumns cs i z) j).StartOfTokenColumn < 4294967296 ∧
      (Changes.at (shiftColumns cs i z) j).PreviousEndOfTokenColumn < 4294967296 := by
  rw [shiftColumns_start, shiftColumns_prevEnd]
  constructor
  · by_cases hc : i = j ∧ i < cs.length
    · rw [if_pos hc]
      exact toUnsigned_lt _
    · rw [if_neg hc]
      exact (h j).1
  · by_cases hc : i + 1 = j ∧ i + 1 < cs.length
    · rw [if_pos hc]
      exact toUnsigned_lt _
    · rw [if_neg hc]
      exact (h j).2

theorem addSpaces_inRange_at (cs : Changes) (i : Nat) (z : Int)
    (h : ∀ j, (Changes.at cs j).StartOfTokenColumn < 4294967296 ∧
      (Changes.at cs j).PreviousEndOfTokenColumn < 4294967296) (j : Nat) :
    (Changes.at (addSpaces cs i z) j).StartOfTokenColumn < 4294967296 ∧
      (Changes.at (addSpaces cs i z) j).PreviousEndOfTokenColumn < 4294967296 := by
  rw [addSpaces_start, addSpaces_prevEnd]
  exact h j

theorem tally_sequenceStep_inRange (T : TokenTable) (M : Predicate) (ig : Bool)
    (Start Column : Nat) (s : SeqState) (i : Nat) (h : columnsInRange s.Changes = true) :
    columnsInRange (Tally.sequenceStep T M ig Start Column s i).Changes = true := by
  apply columnsInRange_of_at
  have hat := columnsInRange_at s.Changes h
  have key : ∀ (c : Bool) (a b : Changes),
      (∀ j, (Changes.at a j).StartOfTokenColumn < 4294967296 ∧
        (Changes.at a j).PreviousEndOfTokenColumn < 4294967296) →
      (∀ j, (Changes.at b j).StartOfTokenColumn < 4294967296 ∧
        (Changes.at b j).PreviousEndOfTokenColumn < 4294967296) →
      ∀ j, (Changes.at (if c = true then a else b) j).StartOfTokenColumn < 4294967296 ∧
        (Changes.at (if c = true then a else b) j).PreviousEndOfTokenColumn < 4294967296 := by
    intro c a b ha hb
    cases c
    · exact hb
    · exact ha
  unfold Tally.sequenceStep
  simp only []
  refine shiftColumns_inRange_at _ _ _ ?_
  have h1 : ∀ (z : Int) (c : Bool) (j : Nat),
      (Changes.at (if c = true then addSpaces s.Changes i z else s.Changes) j).StartOfTokenColumn
          < 4294967296 ∧
        (Changes.at (if c = true then addSpaces s.Changes i z else s.Changes)
          j).PreviousEndOfTokenColumn < 4294967296 :=
    fun z c => key c _ _ (addSpaces_inRange_at s.Changes i z hat) hat
  exact key _ _ _ (addSpaces_inRange_at _ _ _ (h1 _ _)) (h1 _ _)

theorem tally_foldl_inRange (T : TokenTable) (M : Predicate) (ig : Bool) (Start Column : Nat)
    (l : List Nat) (s : SeqState) (h : columnsInRange s.Changes = true) :
    columnsInRange (l.foldl (Tally.sequenceStep T M ig Start Column) s).Changes = true := by
  induction l generalizing s with
  | nil => exact h
  | cons a l ih =>
    simp only [List.foldl_cons]
    exact ih _ (tally_sequenceStep_inRange T M ig Start Column s a h)

theorem tally_AlignCurrentSequence_inRange (T : TokenTable) (P : Tally.Policy) (M : Predicate)
    (s : AlignState) (h : columnsInRange s.Changes = true) :
    columnsInRange (Tally.AlignCurrentSequence T P M s).Changes = true := by
  unfold Tally.AlignCurrentSequence
  simp only []
  split
  · unfold Tally.AlignTokenSequence
    exact tally_foldl_inRange T M P.IgnoreScope s.StartOfSequence s.MinColumn _
      { Changes := s.Changes } h
  · exact h

end ClangFormat

namespace ClangFormat

/-! ## The ledger of the loop between two sequences -/

theorem flushesAt_skip (T : TokenTable) (Style : FormatStyle) (P : Tally.Policy) (M : Predicate)
    (cs : Changes) (k : Nat) (hn : (Changes.at cs k).NewlinesBefore = 0) (hm : M cs k = false) :
    flushesAt T Style P M cs k = false := by
  unfold flushesAt
  rw [hm]
  simp [hn]

/-- The value ChangeMaxColumn at a record reads Spaces of the records from
that record on only. -/
theorem tally_ChangeMaxColumn_ahead (Style : FormatStyle) (P : Tally.Policy) (a cs : Changes)
    (hfr : SameFrame a cs) (i : Nat)
    (h : ∀ j, i ≤ j → (Changes.at a j).Spaces = (Changes.at cs j).Spaces) :
    Tally.ChangeMaxColumn Style P a i = Tally.ChangeMaxColumn Style P cs i := by
  unfold Tally.ChangeMaxColumn Tally.lineLengthAfter
  rw [h i (Nat.le_refl i), restOfLine_sum_congr a cs hfr (a.length - i) i (Nat.le_refl _)
    (fun j j1 _ _ => h j j1)]

theorem settled_mono (T : TokenTable) (Style : FormatStyle) (P : Tally.Policy) (M : Predicate)
    (cs a : Changes) (u u1 b : Nat) (hu : u ≤ u1) (h : Settled T Style P M cs a u b) :
    Settled T Style P M cs a u1 b :=
  ⟨h.frame, fun j hj => h.ahead j (by omega), h.kept, h.zero, h.done⟩

/-- No sequence has ended between the start of the pending sequence and the
index of the loop. -/
theorem pendingAt_flush_le (T : TokenTable) (Style : FormatStyle) (P : Tally.Policy)
    (M : Predicate) (cs : Changes) (i f : Nat) (hf : f < i)
    (hfl : flushesAt T Style P M cs f = true)
    (h0 : (pendingAt T Style P M cs i).StartOfSequence ≠ 0) :
    f ≤ (pendingAt T Style P M cs i).StartOfSequence := by
  by_contra hlt
  have := (pendingAt_start T Style P M cs i h0).2.2 f (by omega) hf
  rw [hfl] at this
  exact absurd this (by simp)

/-- The end of the pending sequence at index i: the ledger stays settled,
the records from i on stay as they were, and the matching records after which
no sequence has ended are written. -/
theorem settled_flush (T : TokenTable) (Style : FormatStyle) (P : Tally.Policy) (M : Predicate)
    (cs : Changes) (hR : Sequenced T P M cs) (s : AlignState) (i : Nat) (hi : i ≤ cs.length)
    (hset : Settled T Style P M cs s.Changes
      (if (pendingAt T Style P M cs i).StartOfSequence = 0 then i
       else (pendingAt T Style P M cs i).StartOfSequence) i)
    (has : s.AssertsHeld = true)
    (hS : s.StartOfSequence = (pendingAt T Style P M cs i).StartOfSequence)
    (hMin : s.MinColumn = (pendingAt T Style P M cs i).MinColumn)
    (hE : s.EndOfSequence ≤ i)
    (hcover : ∀ j, M cs j = true → 1 ≤ j → j < i →
      (∀ k, j < k → k < i → flushesAt T Style P M cs k = false) → j < s.EndOfSequence) :
    (Tally.AlignCurrentSequence T P M s).AssertsHeld = true ∧
    Settled T Style P M cs (Tally.AlignCurrentSequence T P M s).Changes i i ∧
    ∀ j, M cs j = true → 1 ≤ j → j < i →
      (∀ k, j < k → k < i → flushesAt T Style P M cs k = false) →
      FlushedAt T Style P M cs (Tally.AlignCurrentSequence T P M s).Changes j i := by
  have hmin := pendingAt_min_lt T Style P M cs hR.small i
  have hflush := tally_AlignCurrentSequence_scoped T P M cs s hR.stable hR.first hR.closes
    hset.frame has (by
      intro h0 hlt
      rw [hS] at h0 hlt
      have h0' : (pendingAt T Style P M cs i).StartOfSequence ≠ 0 := by omega
      obtain ⟨b1, b2, b3⟩ := pendingAt_start T Style P M cs i h0'
      rw [hS, hMin]
      refine ⟨b1, by omega, hmin, ?_, ?_⟩
      · intro j hj
        have := hset.ahead j (by rw [if_neg h0']; exact hj)
        exact ⟨this.1, this.2, columnsSmallFor_small P cs hR.small j⟩
      · intro j j1 j2 hm
        exact (pendingAt_member T Style P M cs hR.small j hm (by omega) i (by omega)
          (fun k k1 k2 => b3 k (by omega) k2)).2.2.1)
  obtain ⟨g1, g2, g3, g4, g5⟩ := hflush
  rw [hS] at g3 g5
  rw [hMin] at g5
  refine ⟨g2, ⟨g1, ?_, ?_, ?_, ?_⟩, ?_⟩
  · intro j hj
    have h1 := g3 j (by omega)
    have h2 := hset.ahead j (by
      split
      · exact hj
      · rename_i h0
        have := (pendingAt_start T Style P M cs i h0).2.1
        omega)
    exact ⟨h1.1.trans h2.1, h1.2.trans h2.2⟩
  · intro j hj
    exact (g4 j hj).trans (hset.kept j hj)
  · have h1 := g3 0 (by omega)
    exact ⟨h1.1.trans hset.zero.1, h1.2.trans hset.zero.2⟩
  · intro j f hm j1 j2 j3 hfl hno
    have hold := hset.done j f hm j1 j2 j3 hfl hno
    have hout : ¬ (0 < (pendingAt T Style P M cs i).StartOfSequence ∧
        (pendingAt T Style P M cs i).StartOfSequence ≤ j ∧ j < s.EndOfSequence) := by
      intro hh
      have := pendingAt_flush_le T Style P M cs i f j3 hfl (by omega)
      omega
    have h1 := g3 j hout
    unfold FlushedAt at hold ⊢
    rw [h1.1, h1.2]
    exact hold
  · intro j hm j1 j2 hno
    obtain ⟨a1, a2, a3, a4⟩ := pendingAt_member T Style P M cs hR.small j hm j1 i j2 hno
    have hlt := hcover j hm j1 j2 hno
    exact g5 j (by omega) a2 hlt hm

theorem unmoved_mono (T : TokenTable) (Style : FormatStyle) (P : Tally.Policy) (M : Predicate)
    (cs a : Changes) (held : Bool) (b b1 : Nat) (hb : b ≤ b1)
    (h : Unmoved T Style P M cs a held b) : Unmoved T Style P M cs a held b1 :=
  fun hr hp => h hr (fun f hf => hp f (by omega))

theorem kept_extend (T : TokenTable) (Style : FormatStyle) (P : Tally.Policy) (M : Predicate)
    (cs a : Changes) (i : Nat) (hf : flushesAt T Style P M cs i = false)
    (h : Kept T Style P M cs a i) : Kept T Style P M cs a (i + 1) := by
  intro hr j f hm j1 j2 j3 hfl hno hset
  by_cases hfi : f = i
  · rw [hfi, hf] at hfl
    exact absurd hfl (by simp)
  · exact h hr j f hm j1 j2 (by omega) hfl hno hset

theorem core_mono (cs a : Changes) (u u1 : Nat) (hu : u ≤ u1) (h : Core cs a u) :
    Core cs a u1 :=
  ⟨h.frame, h.range, fun j hj => h.ahead j (by omega), h.zero⟩

/-- The end of the pending sequence at index i: the frame and the range of
the columns stay, and record 0 and the records from i on stay as they were. -/
theorem core_flush (T : TokenTable) (P : Tally.Policy) (M : Predicate) (cs : Changes)
    (s : AlignState) (u i : Nat) (h : Core cs s.Changes u) (hu : u ≤ i)
    (hE : s.EndOfSequence ≤ i) :
    Core cs (Tally.AlignCurrentSequence T P M s).Changes i := by
  refine ⟨(tally_AlignCurrentSequence_sameFrame T P M s).trans h.frame,
    fun hr => tally_AlignCurrentSequence_inRange T P M s (h.range hr), ?_, ?_⟩
  · intro j hj
    have h1 := tally_AlignCurrentSequence_outside T P M s j (by omega)
    have h2 := h.ahead j (by omega)
    exact ⟨h1.1.trans h2.1, h1.2.trans h2.2⟩
  · have h1 := tally_AlignCurrentSequence_outside T P M s 0 (by omega)
    exact ⟨h1.1.trans h.zero.1, h1.2.trans h.zero.2⟩

/-- The end of the pending sequence at index i when the sequence is settled:
the call writes nothing. -/
theorem settledSequence_flush (T : TokenTable) (Style : FormatStyle) (P : Tally.Policy)
    (M : Predicate) (cs : Changes) (hst : Predicate.Stable M) (s : AlignState) (i : Nat)
    (hcore : Core cs s.Changes
      (if (pendingAt T Style P M cs i).StartOfSequence = 0 then i
       else (pendingAt T Style P M cs i).StartOfSequence))
    (hS : s.StartOfSequence = (pendingAt T Style P M cs i).StartOfSequence)
    (hMin : s.MinColumn = (pendingAt T Style P M cs i).MinColumn)
    (hE : s.EndOfSequence ≤ i)
    (hr : columnsInRange cs = true)
    (hset : SettledSequence T Style P M cs i) :
    (Tally.AlignCurrentSequence T P M s).Changes = s.Changes ∧
    (Tally.AlignCurrentSequence T P M s).AssertsHeld = s.AssertsHeld := by
  refine tally_AlignCurrentSequence_still T P M s (hcore.range hr) ?_
  intro h0 hlt j j1 j2 hm ha
  rw [hS] at h0 j1
  have h0' : (pendingAt T Style P M cs i).StartOfSequence ≠ 0 := by omega
  rw [hst s.Changes cs j hcore.frame] at hm
  rw [matchAllowed_frame T hcore.frame j] at ha
  rw [(hcore.ahead j (by rw [if_neg h0']; exact j1)).2, hMin]
  exact hset j hm (by omega) (by omega)
    (fun k k1 k2 => (pendingAt_start T Style P M cs i h0').2.2 k (by omega) k2) ha

/-- The end of the pending sequence at index i: the matching records of the
settled sequences that have ended stay as they were. -/
theorem kept_flush (T : TokenTable) (Style : FormatStyle) (P : Tally.Policy) (M : Predicate)
    (cs : Changes) (hst : Predicate.Stable M) (s : AlignState) (i : Nat)
    (hcore : Core cs s.Changes
      (if (pendingAt T Style P M cs i).StartOfSequence = 0 then i
       else (pendingAt T Style P M cs i).StartOfSequence))
    (hk : Kept T Style P M cs s.Changes i)
    (hS : s.StartOfSequence = (pendingAt T Style P M cs i).StartOfSequence)
    (hMin : s.MinColumn = (pendingAt T Style P M cs i).MinColumn)
    (hE : s.EndOfSequence ≤ i) (hr : columnsInRange cs = true)
    (j f : Nat) (hm : M cs j = true) (j1 : 1 ≤ j) (j2 : j < f) (j3 : f ≤ i)
    (hfl : f < i → flushesAt T Style P M cs f = true)
    (hno : ∀ k, j < k → k < f → flushesAt T Style P M cs k = false)
    (hset : SettledSequence T Style P M cs f) :
    (Changes.at (Tally.AlignCurrentSequence T P M s).Changes j).Spaces =
      (Changes.at cs j).Spaces ∧
    (Changes.at (Tally.AlignCurrentSequence T P M s).Changes j).StartOfTokenColumn =
      (Changes.at cs j).StartOfTokenColumn := by
  by_cases hf : f < i
  · have hold := hk hr j f hm j1 j2 hf (hfl hf) hno hset
    have hout : ¬ (0 < s.StartOfSequence ∧ s.StartOfSequence ≤ j ∧ j < s.EndOfSequence) := by
      intro hh
      rw [hS] at hh
      have := pendingAt_flush_le T Style P M cs i f hf (hfl hf) (by omega)
      omega
    have h1 := tally_AlignCurrentSequence_outside T P M s j hout
    exact ⟨h1.1.trans hold.1, h1.2.trans hold.2⟩
  · have hfi : f = i := by omega
    subst hfi
    rw [(settledSequence_flush T Style P M cs hst s f hcore hS hMin hE hr hset).1]
    obtain ⟨a1, a2, _⟩ := pendingAt_member_start T Style P M cs j hm j1 f j2 hno
    have := hcore.ahead j (by rw [if_neg a1]; exact a2)
    exact this

/-- The end of the pending sequence at index i on a ledger that is still the
ledger before the call: it stays so if the sequence is settled. -/
theorem unmoved_flush (T : TokenTable) (Style : FormatStyle) (P : Tally.Policy) (M : Predicate)
    (cs : Changes) (hst : Predicate.Stable M) (s : AlignState) (i : Nat)
    (hcore : Core cs s.Changes
      (if (pendingAt T Style P M cs i).StartOfSequence = 0 then i
       else (pendingAt T Style P M cs i).StartOfSequence))
    (hun : Unmoved T Style P M cs s.Changes s.AssertsHeld i)
    (hS : s.StartOfSequence = (pendingAt T Style P M cs i).StartOfSequence)
    (hMin : s.MinColumn = (pendingAt T Style P M cs i).MinColumn)
    (hE : s.EndOfSequence ≤ i) (hr : columnsInRange cs = true)
    (hp : ∀ f, f < i → flushesAt T Style P M cs f = true → SettledSequence T Style P M cs f)
    (hset : SettledSequence T Style P M cs i) :
    (Tally.AlignCurrentSequence T P M s).Changes = cs ∧
    (Tally.AlignCurrentSequence T P M s).AssertsHeld = true := by
  obtain ⟨hc, ha⟩ := hun hr hp
  obtain ⟨e1, e2⟩ := settledSequence_flush T Style P M cs hst s i hcore hS hMin hE hr hset
  rw [e1, e2]
  exact ⟨hc, ha⟩

/-- A call of AlignCurrentSequence while no sequence is pending leaves the
ledger settled as it was. -/
theorem settled_idle (T : TokenTable) (Style : FormatStyle) (P : Tally.Policy) (M : Predicate)
    (cs : Changes) (s : AlignState) (u b : Nat)
    (hset : Settled T Style P M cs s.Changes u b) (has : s.AssertsHeld = true)
    (h : s.StartOfSequence = 0 ∨ s.EndOfSequence ≤ s.StartOfSequence) :
    (Tally.AlignCurrentSequence T P M s).AssertsHeld = true ∧
    Settled T Style P M cs (Tally.AlignCurrentSequence T P M s).Changes u b := by
  have hidle := tally_flush_idle T P M s h
  rw [hidle.1, hidle.2]
  exact ⟨has, hset⟩

end ClangFormat

namespace ClangFormat

/-! ## The local variables of the loop and their simulation -/

theorem tally_lineStart_locals (T : TokenTable) (P : Tally.Policy) (M : Predicate) (cs : Changes)
    (s : AlignState) (i : Nat)
    (hn : (Changes.at s.Changes i).NewlinesBefore = (Changes.at cs i).NewlinesBefore) :
    (Tally.lineStart T P M s i).locals = s.locals.atLineStart P cs i := by
  by_cases h : (decide ((Changes.at cs i).NewlinesBefore > P.MaxNewlinesBeforeSectionBreak) ||
      (P.NonMatchingLineBreaksSection && !s.FoundMatchOnLine)) = true
  · have h1 : s.locals.breaksLine P cs i = true := h
    unfold Pending.atLineStart Tally.lineStart
    simp only [hn]
    rw [if_pos h1, if_pos h]
    rfl
  · have h1 : ¬ s.locals.breaksLine P cs i = true := h
    unfold Pending.atLineStart Tally.lineStart
    simp only [hn]
    rw [if_neg h1, if_neg h]
    rfl

theorem tally_scanHead_locals (T : TokenTable) (Style : FormatStyle) (P : Tally.Policy)
    (M : Predicate) (cs : Changes) (s : AlignState) (i : Nat)
    (hn : (Changes.at s.Changes i).NewlinesBefore = (Changes.at cs i).NewlinesBefore) :
    (scanHead (Tally.overload T Style P M) s i).locals = s.locals.head P cs i := by
  unfold scanHead Pending.head
  rw [hn]
  split
  · exact tally_lineStart_locals T P M cs s i hn
  · rfl

theorem countComma_locals (T : TokenTable) (P : Tally.Policy) (cs : Changes) (s : AlignState)
    (i : Nat) (ht : (Changes.at s.Changes i).Tok = (Changes.at cs i).Tok)
    (hr : P.IgnoreScope = false → coveredAt T cs i = false) :
    (countComma T s i).locals = s.locals.comma T P cs i := by
  unfold countComma Pending.comma countedComma
  rw [ht]
  have hc : (P.IgnoreScope || !coveredAt T cs i) = true := by
    cases hP : P.IgnoreScope
    · rw [hr hP]
      rfl
    · rfl
  rw [hc, Bool.and_true]
  split <;> rfl

theorem tally_matchFlush_locals (T : TokenTable) (P : Tally.Policy) (M : Predicate)
    (s : AlignState) :
    (Tally.matchFlush T P M s).locals =
      if s.locals.breaksAtMatch P then s.locals.reset else s.locals := by
  by_cases h : (s.FoundMatchOnLine ||
      (!P.IgnoreCommas && decide (s.CommasBeforeMatch ≠ s.CommasBeforeLastMatch))) = true
  · have h1 : s.locals.breaksAtMatch P = true := h
    unfold Tally.matchFlush
    rw [if_pos h1, if_pos h]
    rfl
  · have h1 : ¬ s.locals.breaksAtMatch P = true := h
    unfold Tally.matchFlush
    rw [if_neg h1, if_neg h]

theorem noteMatch_locals (s : AlignState) (i : Nat) :
    (noteMatch s i).locals = s.locals.note i := rfl

theorem tally_restrict_locals (T : TokenTable) (Style : FormatStyle) (P : Tally.Policy)
    (M : Predicate) (cs : Changes) (s : AlignState) (i : Nat)
    (hc : (Changes.at s.Changes i).StartOfTokenColumn = (Changes.at cs i).StartOfTokenColumn)
    (hm : Tally.ChangeMaxColumn Style P s.Changes i = Tally.ChangeMaxColumn Style P cs i) :
    (Tally.restrict T Style P M s i).locals =
      if s.locals.leavesWindow Style P cs i then { s.locals.reset with StartOfSequence := i }
      else s.locals := by
  by_cases h : (decide (toUnsigned (Tally.leadingSpacesReqd (Changes.at cs i).StartOfTokenColumn
        s.MinColumn) > P.MaxLeadingSpacesForAlignment) ||
      decide ((Changes.at cs i).StartOfTokenColumn > s.MaxColumn) ||
      decide (Tally.ChangeMaxColumn Style P cs i < s.MinColumn) ||
      (!P.IgnoreCommas && decide (s.CommasBeforeLastMatch ≠ s.CommasBeforeMatch))) = true
  · have h1 : s.locals.leavesWindow Style P cs i = true := h
    unfold Tally.restrict
    rw [hc, hm, if_pos h1, if_pos h]
    rfl
  · have h1 : ¬ s.locals.leavesWindow Style P cs i = true := h
    unfold Tally.restrict
    rw [hc, hm, if_neg h1, if_neg h]

theorem tally_forceFour_locals (Style : FormatStyle) (P : Tally.Policy) (cs : Changes)
    (s : AlignState) (i : Nat) :
    (Tally.forceFour P (widen s (Changes.at cs i).StartOfTokenColumn
      (Tally.ChangeMaxColumn Style P cs i))).locals =
      Pending.forceFour P (Pending.widen Style P cs s.locals i) := by
  by_cases h : (P.ForceAlignToFourSpaces &&
      decide (max s.MinColumn (Changes.at cs i).StartOfTokenColumn % 4 ≠ 0)) = true
  · have h1 : (P.ForceAlignToFourSpaces &&
        decide ((Pending.widen Style P cs s.locals i).MinColumn % 4 ≠ 0)) = true := h
    have h2 : (P.ForceAlignToFourSpaces &&
        decide ((widen s (Changes.at cs i).StartOfTokenColumn
          (Tally.ChangeMaxColumn Style P cs i)).MinColumn % 4 ≠ 0)) = true := h
    unfold Tally.forceFour Pending.forceFour
    rw [if_pos h1, if_pos h2]
    rfl
  · have h1 : ¬ (P.ForceAlignToFourSpaces &&
        decide ((Pending.widen Style P cs s.locals i).MinColumn % 4 ≠ 0)) = true := h
    have h2 : ¬ (P.ForceAlignToFourSpaces &&
        decide ((widen s (Changes.at cs i).StartOfTokenColumn
          (Tally.ChangeMaxColumn Style P cs i)).MinColumn % 4 ≠ 0)) = true := h
    unfold Tally.forceFour Pending.forceFour
    rw [if_neg h1, if_neg h2]
    rfl

end ClangFormat

namespace ClangFormat

/-! ## The loop body of the Tally AlignTokens on a scanned ledger -/

theorem midAt_congr (T : TokenTable) (Style : FormatStyle) (P : Tally.Policy) (M : Predicate)
    (cs : Changes) (s s1 : AlignState) (i : Nat) (fl : Bool)
    (hc : s1.Changes = s.Changes) (ha : s1.AssertsHeld = s.AssertsHeld)
    (h : MidAt T Style P M cs s i fl) : MidAt T Style P M cs s1 i fl := by
  refine ⟨?_, ?_, ?_, ?_⟩
  · rw [hc]
    exact h.core
  · rw [hc, ha]
    exact h.settled
  · rw [hc, ha]
    exact h.unmoved
  · rw [hc]
    exact h.kept

theorem kept_idle (T : TokenTable) (Style : FormatStyle) (P : Tally.Policy) (M : Predicate)
    (cs a : Changes) (i : Nat) (h0 : (pendingAt T Style P M cs i).StartOfSequence = 0)
    (h : Kept T Style P M cs a i) : Kept T Style P M cs a (i + 1) := by
  intro hr j f hm j1 j2 j3 hfl hno hset
  by_cases hf : f < i
  · exact h hr j f hm j1 j2 hf hfl hno hset
  · have hfi : f = i := by omega
    subst hfi
    exact absurd h0 (pendingAt_member_start T Style P M cs j hm j1 f j2 hno).1

/-- The end of the pending sequence inside the loop body at index i. -/
theorem midAt_flush (T : TokenTable) (Style : FormatStyle) (P : Tally.Policy) (M : Predicate)
    (cs : Changes) (hR : Scanned T P M cs) (s : AlignState) (i : Nat) (hi : i < cs.length)
    (fl : Bool) (hmid : MidAt T Style P M cs s i fl)
    (hm : (Changes.at cs i).NewlinesBefore ≠ 0 ∨ M cs i = true)
    (hfl : flushesAt T Style P M cs i = true)
    (h1 : fl = true → s.StartOfSequence = 0 ∨ s.EndOfSequence ≤ s.StartOfSequence)
    (h2 : fl = false → s.MinColumn = (pendingAt T Style P M cs i).MinColumn ∧
      s.EndOfSequence = (if (Changes.at cs i).NewlinesBefore ≠ 0 then i
        else (pendingAt T Style P M cs i).EndOfSequence) ∧
      (s.StartOfSequence = (pendingAt T Style P M cs i).StartOfSequence ∨
        ((pendingAt T Style P M cs i).StartOfSequence = 0 ∧
          s.EndOfSequence ≤ s.StartOfSequence))) :
    MidAt T Style P M cs (Tally.AlignCurrentSequence T P M s) i true := by
  cases fl with
  | true =>
    have hidle := tally_flush_idle T P M s (h1 rfl)
    exact midAt_congr T Style P M cs s _ i true hidle.1 hidle.2 hmid
  | false =>
    have hcore := hmid.core
    have hset := hmid.settled
    have hun := hmid.unmoved
    have hk := hmid.kept
    simp only [Bool.false_eq_true, if_false] at hcore hset hun hk
    obtain ⟨b1, b2, b3⟩ := h2 rfl
    have hEnd : s.EndOfSequence ≤ i := by
      rw [b2]
      split
      · exact Nat.le_refl i
      · exact pendingAt_end_le T Style P M cs i
    have hu : (if (pendingAt T Style P M cs i).StartOfSequence = 0 then i
        else (pendingAt T Style P M cs i).StartOfSequence) ≤ i := by
      split
      · exact Nat.le_refl i
      · rename_i h0
        exact Nat.le_of_lt (pendingAt_start T Style P M cs i h0).2.1
    rcases b3 with b3 | ⟨b3, b4⟩
    · refine ⟨?_, ?_, ?_, ?_⟩
      · simp only [if_true]
        exact core_flush T P M cs s _ i hcore hu hEnd
      · intro hSeq
        obtain ⟨hs, has⟩ := hset hSeq
        obtain ⟨c1, c2, c3⟩ := settled_flush T Style P M cs hSeq s i (Nat.le_of_lt hi) hs
          has b3 b1 hEnd (by
            intro j hmj j1 j2 hno
            rw [b2]
            by_cases hn : (Changes.at cs i).NewlinesBefore ≠ 0
            · rw [if_pos hn]
              exact j2
            · rw [if_neg hn]
              have hmi : M cs i = true := by
                rcases hm with hm | hm
                · exact absurd hm hn
                · exact hm
              have hn0 : (Changes.at cs i).NewlinesBefore = 0 := by omega
              have hseen := matchesFirstOnLine_at M cs hSeq.first i hi hmi hn0
              rcases (pendingAt_member T Style P M cs hSeq.small j hmj j1 i j2 hno).2.2.2 with h | h
              · exact h
              · omega)
        refine ⟨?_, c1⟩
        simp only [if_true]
        refine ⟨c2.frame, c2.ahead, c2.kept, c2.zero, ?_⟩
        intro j f hmj j1 j2 j3 hfl' hno
        by_cases hf : f < i
        · exact c2.done j f hmj j1 j2 hf hfl' hno
        · have hfi : f = i := by omega
          subst hfi
          exact c3 j hmj j1 j2 hno
      · simp only [if_true]
        intro hr hp
        exact unmoved_flush T Style P M cs hR.stable s i hcore hun b3 b1 hEnd hr
          (fun f hf => hp f (by omega)) (hp i (Nat.lt_succ_self i) hfl)
      · simp only [if_true]
        intro hr j f hmj j1 j2 j3 hfl' hno hset'
        exact kept_flush T Style P M cs hR.stable s i hcore hk b3 b1 hEnd hr j f hmj j1 j2
          (by omega) (fun _ => hfl') hno hset'
    · have hidle := tally_flush_idle T P M s (Or.inr b4)
      rw [if_pos b3] at hcore
      refine ⟨?_, ?_, ?_, ?_⟩
      · simp only [if_true]
        rw [hidle.1]
        exact hcore
      · intro hSeq
        obtain ⟨hs, has⟩ := hset hSeq
        obtain ⟨a1, a2⟩ := settled_idle T Style P M cs s _ _ hs has (Or.inr b4)
        rw [if_pos b3] at a2
        refine ⟨?_, a1⟩
        simp only [if_true]
        refine ⟨a2.frame, a2.ahead, a2.kept, a2.zero, ?_⟩
        intro j f hmj j1 j2 j3 hfl' hno
        by_cases hf : f < i
        · exact a2.done j f hmj j1 j2 hf hfl' hno
        · have hfi : f = i := by omega
          subst hfi
          exact absurd b3 (pendingAt_member T Style P M cs hSeq.small j hmj j1 f j2 hno).1
      · simp only [if_true]
        rw [hidle.1, hidle.2]
        exact unmoved_mono T Style P M cs _ _ _ _ (Nat.le_succ i) hun
      · simp only [if_true]
        rw [hidle.1]
        exact kept_idle T Style P M cs _ i b3 hk

end ClangFormat

namespace ClangFormat

theorem midAt_of_sequencedAt (T : TokenTable) (Style : FormatStyle) (P : Tally.Policy)
    (M : Predicate) (cs : Changes) (s : AlignState) (i : Nat)
    (h : SequencedAt T Style P M cs s i) : MidAt T Style P M cs s i false := by
  have hS : s.StartOfSequence = (pendingAt T Style P M cs i).StartOfSequence :=
    congrArg Pending.StartOfSequence h.locals
  refine ⟨?_, ?_, ?_, ?_⟩
  · simp only [Bool.false_eq_true, if_false]
    rw [← hS]
    exact h.core
  · simp only [Bool.false_eq_true, if_false]
    rw [← hS]
    exact h.settled
  · simp only [Bool.false_eq_true, if_false]
    exact h.unmoved
  · simp only [Bool.false_eq_true, if_false]
    exact h.kept

/-- The head of the loop body. -/
theorem sequenced_head (T : TokenTable) (Style : FormatStyle) (P : Tally.Policy) (M : Predicate)
    (cs : Changes) (hR : Scanned T P M cs) (s : AlignState) (i : Nat) (hi : i < cs.length)
    (h : SequencedAt T Style P M cs s i) :
    MidAt T Style P M cs (scanHead (Tally.overload T Style P M) s i) i
      (decide ((Changes.at cs i).NewlinesBefore ≠ 0) &&
        (pendingAt T Style P M cs i).breaksLine P cs i) ∧
    (scanHead (Tally.overload T Style P M) s i).locals =
      (pendingAt T Style P M cs i).head P cs i := by
  have hn := h.core.frame.newlinesBefore i
  have hmid := midAt_of_sequencedAt T Style P M cs s i h
  have hloc := tally_scanHead_locals T Style P M cs s i hn
  rw [h.locals] at hloc
  refine ⟨?_, hloc⟩
  by_cases hnl : (Changes.at cs i).NewlinesBefore ≠ 0
  · have hsc : scanHead (Tally.overload T Style P M) s i = Tally.lineStart T P M s i := by
      unfold scanHead
      rw [hn, if_pos hnl]
      rfl
    rw [hsc]
    have hF : s.FoundMatchOnLine = (pendingAt T Style P M cs i).FoundMatchOnLine :=
      congrArg Pending.FoundMatchOnLine h.locals
    by_cases hb : (pendingAt T Style P M cs i).breaksLine P cs i = true
    · have hb1 : (decide ((Changes.at s.Changes i).NewlinesBefore >
            P.MaxNewlinesBeforeSectionBreak) ||
          (P.NonMatchingLineBreaksSection && !s.FoundMatchOnLine)) = true := by
        rw [hn, hF]
        exact hb
      have hfl := midAt_flush T Style P M cs hR
        { s with CommasBeforeMatch := 0, EndOfSequence := i } i hi false
        (midAt_congr T Style P M cs s _ i false rfl rfl hmid) (Or.inl hnl)
        (by
          unfold flushesAt
          simp [hnl, hb])
        (fun hh => absurd hh (by simp))
        (fun _ => ⟨congrArg Pending.MinColumn h.locals, by rw [if_pos hnl],
          Or.inl (congrArg Pending.StartOfSequence h.locals)⟩)
      have hd : (decide ((Changes.at cs i).NewlinesBefore ≠ 0) &&
          (pendingAt T Style P M cs i).breaksLine P cs i) = true := by
        simp [hnl, hb]
      rw [hd]
      refine midAt_congr T Style P M cs _ _ i true ?_ ?_ hfl
      · unfold Tally.lineStart
        simp only []
        rw [if_pos hb1]
      · unfold Tally.lineStart
        simp only []
        rw [if_pos hb1]
    · have hb1 : ¬ (decide ((Changes.at s.Changes i).NewlinesBefore >
            P.MaxNewlinesBeforeSectionBreak) ||
          (P.NonMatchingLineBreaksSection && !s.FoundMatchOnLine)) = true := by
        rw [hn, hF]
        exact hb
      have hd : (decide ((Changes.at cs i).NewlinesBefore ≠ 0) &&
          (pendingAt T Style P M cs i).breaksLine P cs i) = false := by
        simp [hb]
      rw [hd]
      refine midAt_congr T Style P M cs s _ i false ?_ ?_ hmid
      · unfold Tally.lineStart
        simp only []
        rw [if_neg hb1]
      · unfold Tally.lineStart
        simp only []
        rw [if_neg hb1]
  · have hsc : scanHead (Tally.overload T Style P M) s i = s := by
      unfold scanHead
      rw [hn, if_neg hnl]
    rw [hsc]
    have hd : (decide ((Changes.at cs i).NewlinesBefore ≠ 0) &&
        (pendingAt T Style P M cs i).breaksLine P cs i) = false := by
      simp [hnl]
    rw [hd]
    exact hmid

end ClangFormat

namespace ClangFormat

theorem tally_forceFour_assertsHeld (P : Tally.Policy) (s : AlignState) :
    (Tally.forceFour P s).AssertsHeld = s.AssertsHeld := by
  unfold Tally.forceFour
  split <;> rfl

theorem pending_noted_fields (P : Tally.Policy) (q : Pending) (i : Nat) :
    (q.noted P i).StartOfSequence =
      (if q.breaksAtMatch P = true then i
       else if q.StartOfSequence = 0 then i else q.StartOfSequence) ∧
    (q.noted P i).EndOfSequence = (if q.breaksAtMatch P = true then 0 else q.EndOfSequence) ∧
    (q.noted P i).MinColumn = (if q.breaksAtMatch P = true then 0 else q.MinColumn) := by
  unfold Pending.noted Pending.note Pending.reset
  split <;> simp

/-- Inside the loop body at index i the record i and the rest of its line are
as before the call. -/
theorem midAt_reads (T : TokenTable) (Style : FormatStyle) (P : Tally.Policy) (M : Predicate)
    (cs : Changes) (s : AlignState) (i : Nat) (fl : Bool) (h : MidAt T Style P M cs s i fl) :
    (Changes.at s.Changes i).StartOfTokenColumn = (Changes.at cs i).StartOfTokenColumn ∧
    Tally.ChangeMaxColumn Style P s.Changes i = Tally.ChangeMaxColumn Style P cs i := by
  have hu : ∀ j, i ≤ j →
      (Changes.at s.Changes j).Spaces = (Changes.at cs j).Spaces ∧
      (Changes.at s.Changes j).StartOfTokenColumn = (Changes.at cs j).StartOfTokenColumn := by
    intro j hj
    apply h.core.ahead j
    split
    · exact hj
    · split
      · exact hj
      · rename_i h0
        have := (pendingAt_start T Style P M cs i h0).2.1
        omega
  exact ⟨(hu i (Nat.le_refl i)).2,
    tally_ChangeMaxColumn_ahead Style P s.Changes cs h.core.frame i (fun j hj => (hu j hj).1)⟩

/-- The first check at a matching record (lines 737 to 739). -/
theorem sequenced_matchFlush (T : TokenTable) (Style : FormatStyle) (P : Tally.Policy)
    (M : Predicate) (cs : Changes) (hR : Scanned T P M cs) (s : AlignState) (i : Nat)
    (hi : i < cs.length) (hm : M cs i = true)
    (hmid : MidAt T Style P M cs s i (decide ((Changes.at cs i).NewlinesBefore ≠ 0) &&
        (pendingAt T Style P M cs i).breaksLine P cs i))
    (hloc : s.locals = ((pendingAt T Style P M cs i).head P cs i).comma T P cs i) :
    MidAt T Style P M cs (Tally.matchFlush T P M s) i
      ((decide ((Changes.at cs i).NewlinesBefore ≠ 0) &&
        (pendingAt T Style P M cs i).breaksLine P cs i) ||
        (((pendingAt T Style P M cs i).head P cs i).comma T P cs i).breaksAtMatch P) := by
  obtain ⟨c1, c2, _, c4, _, _, _⟩ :=
    pending_comma_fields T P cs ((pendingAt T Style P M cs i).head P cs i) i
  obtain ⟨d1, d2, _, d4, _, _, _⟩ := pending_head_fields P cs (pendingAt T Style P M cs i) i
  rw [d1] at c1
  rw [d2] at c2
  rw [d4] at c4
  have hS : s.StartOfSequence = _ := (congrArg Pending.StartOfSequence hloc).trans c1
  have hMin : s.MinColumn = _ := (congrArg Pending.MinColumn hloc).trans c2
  have hE : s.EndOfSequence = _ := (congrArg Pending.EndOfSequence hloc).trans c4
  have hcond : (s.FoundMatchOnLine ||
      (!P.IgnoreCommas && decide (s.CommasBeforeMatch ≠ s.CommasBeforeLastMatch))) =
      (((pendingAt T Style P M cs i).head P cs i).comma T P cs i).breaksAtMatch P :=
    congrArg (Pending.breaksAtMatch P) hloc
  by_cases hbm : (((pendingAt T Style P M cs i).head P cs i).comma T P cs i).breaksAtMatch P = true
  · have e : Tally.matchFlush T P M s = Tally.AlignCurrentSequence T P M s := by
      unfold Tally.matchFlush
      rw [hcond, if_pos hbm]
    rw [e, hbm, Bool.or_true]
    refine midAt_flush T Style P M cs hR s i hi _ hmid (Or.inr hm) ?_ ?_ ?_
    · unfold flushesAt
      rw [hm, hbm]
      simp
    · intro hh
      rw [hS, if_pos hh]
      exact Or.inl rfl
    · intro hh
      have hh' : ¬ (decide ((Changes.at cs i).NewlinesBefore ≠ 0) &&
          (pendingAt T Style P M cs i).breaksLine P cs i) = true := by
        rw [hh]
        simp
      rw [hS, hMin, hE, if_neg hh', if_neg hh', if_neg hh']
      exact ⟨rfl, rfl, Or.inl rfl⟩
  · have hbm' : (((pendingAt T Style P M cs i).head P cs i).comma T P cs i).breaksAtMatch P =
        false := by simpa using hbm
    have e : Tally.matchFlush T P M s = s := by
      unfold Tally.matchFlush
      rw [hcond, if_neg hbm]
    rw [e, hbm', Bool.or_false]
    exact hmid

theorem tally_restrict_eq (T : TokenTable) (Style : FormatStyle) (P : Tally.Policy)
    (M : Predicate) (cs : Changes) (s : AlignState) (i : Nat)
    (hc : (Changes.at s.Changes i).StartOfTokenColumn = (Changes.at cs i).StartOfTokenColumn)
    (hm : Tally.ChangeMaxColumn Style P s.Changes i = Tally.ChangeMaxColumn Style P cs i) :
    Tally.restrict T Style P M s i =
      if s.locals.leavesWindow Style P cs i = true then
        { Tally.AlignCurrentSequence T P M s with StartOfSequence := i }
      else s := by
  by_cases h : (decide (toUnsigned (Tally.leadingSpacesReqd (Changes.at cs i).StartOfTokenColumn
        s.MinColumn) > P.MaxLeadingSpacesForAlignment) ||
      decide ((Changes.at cs i).StartOfTokenColumn > s.MaxColumn) ||
      decide (Tally.ChangeMaxColumn Style P cs i < s.MinColumn) ||
      (!P.IgnoreCommas && decide (s.CommasBeforeLastMatch ≠ s.CommasBeforeMatch))) = true
  · have h1 : s.locals.leavesWindow Style P cs i = true := h
    unfold Tally.restrict
    rw [hc, hm, if_pos h1, if_pos h]
  · have h1 : ¬ s.locals.leavesWindow Style P cs i = true := h
    unfold Tally.restrict
    rw [hc, hm, if_neg h1, if_neg h]

/-- The second check at a matching record (lines 757 to 766). -/
theorem sequenced_restrict (T : TokenTable) (Style : FormatStyle) (P : Tally.Policy)
    (M : Predicate) (cs : Changes) (hR : Scanned T P M cs) (s : AlignState) (i : Nat)
    (hi : i < cs.length) (hm : M cs i = true)
    (hmid : MidAt T Style P M cs s i ((decide ((Changes.at cs i).NewlinesBefore ≠ 0) &&
        (pendingAt T Style P M cs i).breaksLine P cs i) ||
        (((pendingAt T Style P M cs i).head P cs i).comma T P cs i).breaksAtMatch P))
    (hloc : s.locals = (((pendingAt T Style P M cs i).head P cs i).comma T P cs i).noted P i) :
    MidAt T Style P M cs (Tally.restrict T Style P M s i) i (flushesAt T Style P M cs i) := by
  obtain ⟨c1, c2, _, c4, _, _, _⟩ :=
    pending_comma_fields T P cs ((pendingAt T Style P M cs i).head P cs i) i
  obtain ⟨d1, d2, _, d4, _, _, _⟩ := pending_head_fields P cs (pendingAt T Style P M cs i) i
  obtain ⟨n1, n2, n3⟩ :=
    pending_noted_fields P (((pendingAt T Style P M cs i).head P cs i).comma T P cs i) i
  rw [c1, d1] at n1
  rw [c4, d4] at n2
  rw [c2, d2] at n3
  have hS : s.StartOfSequence = _ := (congrArg Pending.StartOfSequence hloc).trans n1
  have hMin : s.MinColumn = _ := (congrArg Pending.MinColumn hloc).trans n3
  have hE : s.EndOfSequence = _ := (congrArg Pending.EndOfSequence hloc).trans n2
  have hEi := pendingAt_end_le T Style P M cs i
  obtain ⟨hcol, hmax⟩ := midAt_reads T Style P M cs s i _ hmid
  have hflag : flushesAt T Style P M cs i =
      ((decide ((Changes.at cs i).NewlinesBefore ≠ 0) &&
        (pendingAt T Style P M cs i).breaksLine P cs i) ||
        (((pendingAt T Style P M cs i).head P cs i).comma T P cs i).breaksAtMatch P ||
        ((((pendingAt T Style P M cs i).head P cs i).comma T P cs i).noted P i).leavesWindow
          Style P cs i) := by
    unfold flushesAt
    rw [hm, Bool.true_and, Bool.or_assoc]
  rw [hflag]
  have hcond := tally_restrict_eq T Style P M cs s i hcol hmax
  rw [hloc] at hcond
  by_cases hlw : ((((pendingAt T Style P M cs i).head P cs i).comma T P cs i).noted P
      i).leavesWindow Style P cs i = true
  · rw [hlw, Bool.or_true]
    have hfl := midAt_flush T Style P M cs hR s i hi _ hmid (Or.inr hm) (by
        unfold flushesAt
        rw [hm, hlw]
        simp) (by
        intro hh
        right
        have hEnd : s.EndOfSequence = 0 := by
          rw [hE]
          by_cases hbm : (((pendingAt T Style P M cs i).head P cs i).comma T P cs
              i).breaksAtMatch P = true
          · rw [if_pos hbm]
          · rw [if_neg hbm]
            have hbm' : (((pendingAt T Style P M cs i).head P cs i).comma T P cs
                i).breaksAtMatch P = false := by simpa using hbm
            rw [hbm', Bool.or_false] at hh
            rw [if_pos hh]
        rw [hEnd]
        exact Nat.zero_le _) (by
        intro hh
        rw [Bool.or_eq_false_iff] at hh
        obtain ⟨hh1, hh2⟩ := hh
        have hh1' : ¬ (decide ((Changes.at cs i).NewlinesBefore ≠ 0) &&
            (pendingAt T Style P M cs i).breaksLine P cs i) = true := by
          rw [hh1]
          simp
        have hh2' : ¬ (((pendingAt T Style P M cs i).head P cs i).comma T P cs
            i).breaksAtMatch P = true := by
          rw [hh2]
          simp
        rw [if_neg hh2', if_neg hh1'] at hS hMin hE
        refine ⟨hMin, hE, ?_⟩
        by_cases h0 : (pendingAt T Style P M cs i).StartOfSequence = 0
        · right
          rw [hE, hS, if_pos h0]
          refine ⟨h0, ?_⟩
          split
          · exact Nat.le_refl i
          · exact hEi
        · left
          rw [hS, if_neg h0])
    rw [hcond, if_pos hlw]
    exact midAt_congr T Style P M cs (Tally.AlignCurrentSequence T P M s) _ i true rfl rfl hfl
  · have hlw' : ((((pendingAt T Style P M cs i).head P cs i).comma T P cs i).noted P
        i).leavesWindow Style P cs i = false := by simpa using hlw
    rw [hlw', Bool.or_false]
    rw [hcond, if_neg hlw]
    exact hmid

/-- The statements for a matching record. -/
theorem sequenced_match (T : TokenTable) (Style : FormatStyle) (P : Tally.Policy) (M : Predicate)
    (cs : Changes) (hR : Scanned T P M cs) (s : AlignState) (i : Nat) (hi : i < cs.length)
    (hm : M cs i = true)
    (hmid : MidAt T Style P M cs s i (decide ((Changes.at cs i).NewlinesBefore ≠ 0) &&
        (pendingAt T Style P M cs i).breaksLine P cs i))
    (hloc : s.locals = ((pendingAt T Style P M cs i).head P cs i).comma T P cs i) :
    MidAt T Style P M cs (Tally.matchStep T Style P M s i) i (flushesAt T Style P M cs i) ∧
    (Tally.matchStep T Style P M s i).locals = pendingAt T Style P M cs (i + 1) := by
  have hA := sequenced_matchFlush T Style P M cs hR s i hi hm hmid hloc
  have hAloc := tally_matchFlush_locals T P M s
  rw [hloc] at hAloc
  have hB : MidAt T Style P M cs (noteMatch (Tally.matchFlush T P M s) i) i
      ((decide ((Changes.at cs i).NewlinesBefore ≠ 0) &&
        (pendingAt T Style P M cs i).breaksLine P cs i) ||
        (((pendingAt T Style P M cs i).head P cs i).comma T P cs i).breaksAtMatch P) :=
    midAt_congr T Style P M cs (Tally.matchFlush T P M s) _ i _ rfl rfl hA
  have hBloc : (noteMatch (Tally.matchFlush T P M s) i).locals =
      (((pendingAt T Style P M cs i).head P cs i).comma T P cs i).noted P i := by
    rw [noteMatch_locals, hAloc]
    rfl
  obtain ⟨hcol, hmax⟩ := midAt_reads T Style P M cs _ i _ hB
  have hC := sequenced_restrict T Style P M cs hR _ i hi hm hB hBloc
  have hCloc := tally_restrict_locals T Style P M cs (noteMatch (Tally.matchFlush T P M s) i) i
    hcol hmax
  rw [hBloc] at hCloc
  have hstep : Tally.matchStep T Style P M s i =
      Tally.forceFour P (widen (Tally.restrict T Style P M (noteMatch (Tally.matchFlush T P M s) i) i)
        (Changes.at cs i).StartOfTokenColumn (Tally.ChangeMaxColumn Style P cs i)) := by
    rw [← hcol, ← hmax]
    rfl
  rw [hstep]
  constructor
  · exact midAt_congr T Style P M cs _ _ i _ (tally_forceFour_changes P _)
      (tally_forceFour_assertsHeld P _)
      (midAt_congr T Style P M cs
        (Tally.restrict T Style P M (noteMatch (Tally.matchFlush T P M s) i) i) _ i _ rfl rfl hC)
  · rw [tally_forceFour_locals, hCloc, pendingAt_succ]
    unfold Pending.step Pending.atMatch
    rw [if_pos hm]

end ClangFormat

namespace ClangFormat

/-! ## The loop of the Tally AlignTokens on a sequenced ledger -/

theorem settled_extend (T : TokenTable) (Style : FormatStyle) (P : Tally.Policy) (M : Predicate)
    (cs a : Changes) (u u1 b b1 : Nat) (hu : u ≤ u1)
    (hb : ∀ f, b ≤ f → f < b1 → flushesAt T Style P M cs f = false)
    (h : Settled T Style P M cs a u b) : Settled T Style P M cs a u1 b1 := by
  refine ⟨h.frame, fun j hj => h.ahead j (by omega), h.kept, h.zero, ?_⟩
  intro j f hm j1 j2 j3 hfl hno
  by_cases hf : f < b
  · exact h.done j f hm j1 j2 hf hfl hno
  · rw [hb f (by omega) j3] at hfl
    exact absurd hfl (by simp)

/-- The state after the loop body at index i. -/
theorem sequencedAt_next (T : TokenTable) (Style : FormatStyle) (P : Tally.Policy) (M : Predicate)
    (cs : Changes) (s : AlignState) (i : Nat) (hi : i < cs.length)
    (hmid : MidAt T Style P M cs s i (flushesAt T Style P M cs i))
    (hloc : s.locals = pendingAt T Style P M cs (i + 1))
    (hreaches : loopReaches T cs (i + 1) = true)
    (hreach : P.IgnoreScope = false → i + 1 < cs.length → coveredAt T cs (i + 1) = false) :
    SequencedAt T Style P M cs s (i + 1) := by
  have hS : s.StartOfSequence = _ :=
    (congrArg Pending.StartOfSequence hloc).trans (pendingAt_succ_fields T Style P M cs i).1
  refine ⟨?_, ?_, ?_, ?_, hloc, hi, hreaches, hreach⟩
  · have hcore := hmid.core
    rw [hS]
    refine core_mono cs _ _ _ ?_ hcore
    split_ifs <;> omega
  · intro hSeq
    obtain ⟨hset, has⟩ := hmid.settled hSeq
    refine ⟨?_, has⟩
    rw [hS]
    by_cases hf : flushesAt T Style P M cs i = true
    · rw [if_pos hf, if_pos hf] at hset
      rw [if_pos hf]
      refine settled_mono T Style P M cs _ _ _ _ ?_ hset
      split_ifs <;> omega
    · rw [if_neg hf, if_neg hf] at hset
      rw [if_neg hf]
      have hf' : flushesAt T Style P M cs i = false := by simpa using hf
      refine settled_extend T Style P M cs _ _ _ _ _ ?_ ?_ hset
      · split_ifs <;> omega
      · intro f f1 f2
        have : f = i := by omega
        rw [this]
        exact hf'
  · refine unmoved_mono T Style P M cs _ _ _ _ ?_ hmid.unmoved
    split <;> omega
  · have hk := hmid.kept
    by_cases hf : flushesAt T Style P M cs i = true
    · rw [if_pos hf] at hk
      exact hk
    · rw [if_neg hf] at hk
      exact kept_extend T Style P M cs _ i (by simpa using hf) hk

/-- The loop body at a record that the loop treats itself. -/
theorem sequenced_step (T : TokenTable) (Style : FormatStyle) (P : Tally.Policy) (M : Predicate)
    (cs : Changes) (hR : Scanned T P M cs) (s : AlignState) (i : Nat)
    (h : SequencedAt T Style P M cs s i) (hi : i < cs.length)
    (hb : Level.lt (indentAndNestingLevel T (Changes.at cs i))
      (indentAndNestingLevel T (Changes.at cs 0)) = false)
    (hd : delegated T (Tally.overload T Style P M) (indentAndNestingLevel T (Changes.at cs 0))
      (scanHead (Tally.overload T Style P M) s i).Changes i = false) :
    SequencedAt T Style P M cs
      (scanTail T (Tally.overload T Style P M) (scanHead (Tally.overload T Style P M) s i) i)
      (i + 1) := by
  obtain ⟨hH, hHloc⟩ := sequenced_head T Style P M cs hR s i hi h
  have hfr := hH.core.frame
  have hreaches := loopReaches_succ T cs i h.reaches hb
  have htok := hfr.tok i
  have hlvl := SameFrame.level T hfr i
  have hreach : P.IgnoreScope = false → i + 1 < cs.length → coveredAt T cs (i + 1) = false := by
    intro hP _
    apply coveredAt_succ T cs i (h.reached hP hi)
    unfold delegated at hd
    rw [htok, hlvl] at hd
    have hds : (Tally.overload T Style P M).descend = true := by
      show (!P.IgnoreScope) = true
      rw [hP]
      rfl
    rw [hds] at hd
    cases hc : (T.at (Changes.at cs i).Tok).is TokenKind.comma
    · right
      rw [hc] at hd
      simpa using hd
    · exact Or.inl rfl
  have hC : MidAt T Style P M cs (countComma T (scanHead (Tally.overload T Style P M) s i) i) i
      (decide ((Changes.at cs i).NewlinesBefore ≠ 0) &&
        (pendingAt T Style P M cs i).breaksLine P cs i) :=
    midAt_congr T Style P M cs _ _ i _ (countComma_changes T _ i) (countComma_assertsHeld T _ i) hH
  have hCloc := countComma_locals T P cs (scanHead (Tally.overload T Style P M) s i) i htok
    (fun hP => h.reached hP hi)
  rw [hHloc] at hCloc
  have hM : (Tally.overload T Style P M).Matches
      (countComma T (scanHead (Tally.overload T Style P M) s i) i).Changes i = M cs i := by
    show M _ i = M cs i
    rw [countComma_changes]
    exact hR.stable _ _ i hfr
  unfold scanTail
  rw [hM]
  by_cases hm : M cs i = true
  · rw [if_pos hm]
    obtain ⟨g1, g2⟩ := sequenced_match T Style P M cs hR _ i hi hm hC hCloc
    exact sequencedAt_next T Style P M cs _ i hi g1 g2 hreaches hreach
  · rw [if_neg hm]
    have hm' : M cs i = false := by simpa using hm
    refine sequencedAt_next T Style P M cs _ i hi ?_ ?_ hreaches hreach
    · have hfl : flushesAt T Style P M cs i =
          (decide ((Changes.at cs i).NewlinesBefore ≠ 0) &&
            (pendingAt T Style P M cs i).breaksLine P cs i) := by
        unfold flushesAt
        rw [hm']
        simp
      rw [hfl]
      exact hC
    · rw [hCloc, pendingAt_succ]
      unfold Pending.step
      rw [if_neg hm]

end ClangFormat

namespace ClangFormat

/-- The loop at a record that it leaves to a recursive call: the call
changes nothing, and the loop resumes where the call stopped. -/
theorem sequenced_skip (T : TokenTable) (Style : FormatStyle) (P : Tally.Policy) (M : Predicate)
    (cs : Changes) (hR : Scanned T P M cs) (s : AlignState) (i : Nat) (r : AlignResult)
    (h : SequencedAt T Style P M cs s i) (hi : i < cs.length)
    (hd : delegated T (Tally.overload T Style P M) (indentAndNestingLevel T (Changes.at cs 0))
      (scanHead (Tally.overload T Style P M) s i).Changes i = true)
    (hpost : i < (scanHead (Tally.overload T Style P M) s i).Changes.length →
      (∀ j, i ≤ j → j < (scanHead (Tally.overload T Style P M) s i).Changes.length →
        (∀ k, i ≤ k → k ≤ j →
          Level.lt (indentAndNestingLevel T
              (Changes.at (scanHead (Tally.overload T Style P M) s i).Changes k))
            (indentAndNestingLevel T
              (Changes.at (scanHead (Tally.overload T Style P M) s i).Changes i)) = false) →
        M (scanHead (Tally.overload T Style P M) s i).Changes j = false ∧
          (Changes.at (scanHead (Tally.overload T Style P M) s i).Changes j).NewlinesBefore = 0) →
      r.Changes = (scanHead (Tally.overload T Style P M) s i).Changes ∧ r.AssertsHeld = true ∧
        i < r.StoppedAt ∧
        r.StoppedAt ≤ (scanHead (Tally.overload T Style P M) s i).Changes.length ∧
        (r.StoppedAt = (scanHead (Tally.overload T Style P M) s i).Changes.length ∨
          Level.lt (indentAndNestingLevel T
              (Changes.at (scanHead (Tally.overload T Style P M) s i).Changes r.StoppedAt))
            (indentAndNestingLevel T
              (Changes.at (scanHead (Tally.overload T Style P M) s i).Changes i)) = true) ∧
        ∀ k, i ≤ k → k < r.StoppedAt →
          Level.lt (indentAndNestingLevel T
              (Changes.at (scanHead (Tally.overload T Style P M) s i).Changes k))
            (indentAndNestingLevel T
              (Changes.at (scanHead (Tally.overload T Style P M) s i).Changes i)) = false) :
    SequencedAt T Style P M cs
      { scanHead (Tally.overload T Style P M) s i with
        Changes := r.Changes
        AssertsHeld := (scanHead (Tally.overload T Style P M) s i).AssertsHeld && r.AssertsHeld }
      r.StoppedAt := by
  have hfr0 := (sequenced_head T Style P M cs hR s i hi h).1.core.frame
  unfold delegated at hd
  rw [hfr0.tok i, SameFrame.level T hfr0 i] at hd
  simp only [Bool.and_eq_true, Bool.not_eq_true'] at hd
  obtain ⟨⟨hc, hds⟩, hdeep⟩ := hd
  have hP : P.IgnoreScope = false := by
    have : (!P.IgnoreScope) = true := hds
    simpa using this
  have hup : ∀ j, i ≤ j →
      (∀ k, i ≤ k → k ≤ j →
        Level.lt (indentAndNestingLevel T (Changes.at cs k))
          (indentAndNestingLevel T (Changes.at cs i)) = false) →
      loopReaches T cs (j + 1) = true := by
    intro j j1 hk
    have := loopReaches_range T cs i h.reaches (j + 1 - i) (fun k k1 k2 =>
      Level.not_lt_of_deeper hdeep (hk k k1 (by omega)))
    have e : i + (j + 1 - i) = j + 1 := by omega
    rw [e] at this
    exact this
  obtain ⟨hn, hm⟩ := anchoredLedger_at T P M cs hR.anchored i hi
    (hup i (Nat.le_refl i) (fun k k1 k2 => by
      have : k = i := by omega
      rw [this]
      unfold Level.lt
      simp)) hP hdeep
  have hfr := h.core.frame
  have hsc : scanHead (Tally.overload T Style P M) s i = s :=
    scanHead_inLine _ s i (by rw [hfr.newlinesBefore i]; exact hn)
  rw [hsc] at hpost ⊢
  have hlev : ∀ k, indentAndNestingLevel T (Changes.at s.Changes k) =
      indentAndNestingLevel T (Changes.at cs k) := fun k => SameFrame.level T hfr k
  simp only [hlev, hfr.length_eq] at hpost
  obtain ⟨p1, p2, p3, p4, p5, p6⟩ := hpost hi (by
    intro j j1 j2 hk
    have hdj := Level.lt_of_lt_of_not_lt hdeep (hk j j1 (Nat.le_refl j))
    obtain ⟨a1, a2⟩ := anchoredLedger_at T P M cs hR.anchored j j2 (hup j j1 hk) hP hdj
    rw [hR.stable _ _ j hfr, hfr.newlinesBefore j]
    exact ⟨a2, a1⟩)
  have hin : ∀ k, i ≤ k → k < r.StoppedAt →
      (Changes.at cs k).NewlinesBefore = 0 ∧ M cs k = false ∧ countedComma T P cs k = false := by
    intro k k1 k2
    have hdk := Level.lt_of_lt_of_not_lt hdeep (p6 k k1 k2)
    obtain ⟨a1, a2⟩ := anchoredLedger_at T P M cs hR.anchored k (by omega)
      (hup k k1 (fun m m1 m2 => p6 m m1 (by omega))) hP hdk
    refine ⟨a1, a2, ?_⟩
    unfold countedComma
    by_cases hki : k = i
    · rw [hki, hc]
      rfl
    · rw [coveredAt_of T cs i k (by omega) hc hdeep (fun m m1 m2 => p6 m (by omega) (by omega)), hP]
      simp
  have hskip := pendingAt_skip_range T Style P M cs i (r.StoppedAt - i) (by
    intro k k1 k2
    exact hin k k1 (by omega))
  have he : i + (r.StoppedAt - i) = r.StoppedAt := by omega
  rw [he] at hskip
  have hnofl : ∀ f, i ≤ f → f < r.StoppedAt → flushesAt T Style P M cs f = false :=
    fun f f1 f2 => flushesAt_skip T Style P M cs f (hin f f1 f2).1 (hin f f1 f2).2.1
  have hkext : ∀ n, Kept T Style P M cs s.Changes (i + n) →
      i + n < r.StoppedAt → Kept T Style P M cs s.Changes (i + n + 1) :=
    fun n hk hlt => kept_extend T Style P M cs _ (i + n) (hnofl (i + n) (by omega) hlt) hk
  have hkall : ∀ n, i + n ≤ r.StoppedAt → Kept T Style P M cs s.Changes (i + n) := by
    intro n
    induction n with
    | zero =>
      intro _
      exact h.kept
    | succ n ih =>
      intro hle
      exact hkext n (ih (by omega)) (by omega)
  refine ⟨?_, ?_, ?_, ?_, ?_, p4, ?_, ?_⟩
  · show Core cs r.Changes
      (if s.StartOfSequence = 0 then r.StoppedAt else s.StartOfSequence)
    rw [p1]
    refine core_mono cs _ _ _ ?_ h.core
    split_ifs <;> omega
  · intro hSeq
    obtain ⟨hset, has⟩ := h.settled hSeq
    constructor
    · show Settled T Style P M cs r.Changes
        (if s.StartOfSequence = 0 then r.StoppedAt else s.StartOfSequence) r.StoppedAt
      rw [p1]
      refine settled_extend T Style P M cs _ _ _ _ _ ?_ hnofl hset
      split_ifs <;> omega
    · show (s.AssertsHeld && r.AssertsHeld) = true
      rw [has, p2]
      rfl
  · show Unmoved T Style P M cs r.Changes (s.AssertsHeld && r.AssertsHeld) r.StoppedAt
    rw [p1, p2, Bool.and_true]
    exact unmoved_mono T Style P M cs _ _ _ _ (Nat.le_of_lt p3) h.unmoved
  · show Kept T Style P M cs r.Changes r.StoppedAt
    rw [p1]
    have := hkall (r.StoppedAt - i) (by omega)
    rw [he] at this
    exact this
  · show s.locals = _
    rw [hskip]
    exact h.locals
  · have := loopReaches_range T cs i h.reaches (r.StoppedAt - i) (fun k k1 k2 =>
      Level.not_lt_of_deeper hdeep (p6 k k1 (by omega)))
    rw [he] at this
    exact this
  · intro _ he2
    rcases p5 with p5 | p5
    · omega
    · exact coveredAt_stop T cs i r.StoppedAt p3 (h.reached hP hi) p5 p6

theorem sequencedAt_init (T : TokenTable) (Style : FormatStyle) (P : Tally.Policy) (M : Predicate)
    (cs : Changes) : SequencedAt T Style P M cs { Changes := cs } 0 := by
  refine ⟨⟨SameFrame.refl cs, fun h => h, fun _ _ => ⟨rfl, rfl⟩, ⟨rfl, rfl⟩⟩, ?_,
    fun _ _ => ⟨rfl, rfl⟩, ?_, rfl, Nat.zero_le _, rfl, ?_⟩
  · intro _
    refine ⟨⟨SameFrame.refl cs, fun _ _ => ⟨rfl, rfl⟩, fun _ _ => rfl, ⟨rfl, rfl⟩, ?_⟩, rfl⟩
    intro j f _ _ _ hf
    omega
  · intro _ j f _ _ _ hf
    omega
  · intro _ _
    rfl

/-- The call of the Tally AlignTokens from record 0 on a scanned ledger: it
returns at the index at which the loop ends, the frame stays, record 0 and
the records from that index on stay as they were; on a sequenced ledger every
assertion holds, the ledger is settled, and the matching records after which
no sequence has ended are written by the last call of AlignCurrentSequence;
the matching records of a settled sequence stay as they were, and if every
sequence is settled the ledger stays as it was and every assertion holds. -/
theorem tally_AlignTokens_settled (T : TokenTable) (Style : FormatStyle) (P : Tally.Policy)
    (M : Predicate) (cs : Changes) (hR : Scanned T P M cs) :
    ∃ r, Tally.AlignTokens T Style M cs P 0 = some r ∧
      loopEndsAt T cs r.StoppedAt = true ∧
      Core cs r.Changes r.StoppedAt ∧
      (Sequenced T P M cs →
        r.AssertsHeld = true ∧
        Settled T Style P M cs r.Changes r.StoppedAt r.StoppedAt ∧
        ∀ j, M cs j = true → 1 ≤ j → j < r.StoppedAt →
          (∀ k, j < k → k < r.StoppedAt → flushesAt T Style P M cs k = false) →
          FlushedAt T Style P M cs r.Changes j r.StoppedAt) ∧
      (columnsInRange cs = true →
        (∀ f, f < r.StoppedAt → flushesAt T Style P M cs f = true →
          SettledSequence T Style P M cs f) →
        SettledSequence T Style P M cs r.StoppedAt →
        r.Changes = cs ∧ r.AssertsHeld = true) ∧
      (columnsInRange cs = true →
        ∀ j f, M cs j = true → 1 ≤ j → j < f → f ≤ r.StoppedAt →
          (f < r.StoppedAt → flushesAt T Style P M cs f = true) →
          (∀ k, j < k → k < f → flushesAt T Style P M cs k = false) →
          SettledSequence T Style P M cs f →
          (Changes.at r.Changes j).Spaces = (Changes.at cs j).Spaces ∧
          (Changes.at r.Changes j).StartOfTokenColumn =
            (Changes.at cs j).StartOfTokenColumn) := by
  obtain ⟨r, e, _⟩ := tally_AlignTokens_returns T Style M cs P 0 (Nat.zero_le _)
  refine ⟨r, e, ?_⟩
  unfold Tally.AlignTokens at e
  rw [alignTokensAux] at e
  simp only [] at e
  split at e
  · exact absurd e (by simp)
  · rename_i s' n hloop
    have hinv := scanLoop_inv_at T (Tally.overload T Style P M)
      (alignTokensAux T (Tally.overload T Style P M) cs.length)
      (if 0 < cs.length then indentAndNestingLevel T (Changes.at cs 0) else (0, 0, 0))
      (fun s i => SequencedAt T Style P M cs s i)
      (fun a d r => d < a.length →
        (∀ j, d ≤ j → j < a.length →
          (∀ k, d ≤ k → k ≤ j →
            Level.lt (indentAndNestingLevel T (Changes.at a k))
              (indentAndNestingLevel T (Changes.at a d)) = false) →
          M a j = false ∧ (Changes.at a j).NewlinesBefore = 0) →
        r.Changes = a ∧ r.AssertsHeld = true ∧ d < r.StoppedAt ∧ r.StoppedAt ≤ a.length ∧
          (r.StoppedAt = a.length ∨
            Level.lt (indentAndNestingLevel T (Changes.at a r.StoppedAt))
              (indentAndNestingLevel T (Changes.at a d)) = true) ∧
          ∀ k, d ≤ k → k < r.StoppedAt →
            Level.lt (indentAndNestingLevel T (Changes.at a k))
              (indentAndNestingLevel T (Changes.at a d)) = false)
      (fun a d r h => tally_alignTokensAux_idle T Style P M cs.length a d r h)
      (by
        intro s i hs hne hb hd
        have hi : i < cs.length := by
          have := hs.bound
          have := hs.core.frame.length_eq
          omega
        rw [if_pos (by omega)] at hd hb
        rw [SameFrame.level T hs.core.frame i] at hb
        exact sequenced_step T Style P M cs hR s i hs hi (by simpa using hb) hd)
      (by
        intro s i r hs hne _ hd hpost
        have hi : i < cs.length := by
          have := hs.bound
          have := hs.core.frame.length_eq
          omega
        rw [if_pos (by omega)] at hd
        exact sequenced_skip T Style P M cs hR s i r hs hi hd hpost)
      (cs.length + 1) { Changes := cs } 0 s' n (sequencedAt_init T Style P M cs) hloop
    obtain ⟨hs, hstop⟩ := hinv
    have hfr := hs.core.frame
    have hend : loopEndsAt T cs n = true := by
      unfold loopEndsAt
      rw [hs.reaches, decide_eq_true hs.bound]
      rcases hstop with hstop | hstop
      · rw [hfr.length_eq] at hstop
        simp [hstop]
      · by_cases hlen : n = cs.length
        · simp [hlen]
        · have hlt : n < cs.length := by
            have := hs.bound
            omega
          rw [if_pos (by omega), SameFrame.level T hfr n] at hstop
          rw [hstop]
          simp
    simp only [Option.some.injEq] at e
    subst e
    have hS : s'.StartOfSequence = (pendingAt T Style P M cs n).StartOfSequence :=
      congrArg Pending.StartOfSequence hs.locals
    have hMin : s'.MinColumn = (pendingAt T Style P M cs n).MinColumn :=
      congrArg Pending.MinColumn hs.locals
    have hcore := hs.core
    rw [hS] at hcore
    have hu : (if (pendingAt T Style P M cs n).StartOfSequence = 0 then n
        else (pendingAt T Style P M cs n).StartOfSequence) ≤ n := by
      split
      · exact Nat.le_refl n
      · rename_i h0
        exact Nat.le_of_lt (pendingAt_start T Style P M cs n h0).2.1
    refine ⟨hend, ?_, ?_, ?_, ?_⟩
    · exact core_flush T P M cs { s' with EndOfSequence := n } _ n hcore hu (Nat.le_refl n)
    · intro hSeq
      obtain ⟨hset, has⟩ := hs.settled hSeq
      rw [hS] at hset
      obtain ⟨f1, f2, f3⟩ := settled_flush T Style P M cs hSeq { s' with EndOfSequence := n }
        n hs.bound hset has hS hMin (Nat.le_refl _) (fun j _ _ j2 _ => j2)
      exact ⟨f1, f2, f3⟩
    · intro hr hp hlast
      exact unmoved_flush T Style P M cs hR.stable { s' with EndOfSequence := n } n
        hcore hs.unmoved hS hMin (Nat.le_refl _) hr hp hlast
    · intro hr j f hm j1 j2 j3 hfl hno hset
      exact kept_flush T Style P M cs hR.stable { s' with EndOfSequence := n } n
        hcore hs.kept hS hMin (Nat.le_refl _) hr j f hm j1 j2 j3 hfl hno hset

end ClangFormat

namespace ClangFormat

/-! ## The sequences of a sequenced ledger -/

theorem sequenceEndsAt_iff (T : TokenTable) (Style : FormatStyle) (P : Tally.Policy)
    (M : Predicate) (cs : Changes) (j f : Nat) :
    sequenceEndsAt T Style P M cs j f = true ↔
      j < f ∧ loopReaches T cs f = true ∧ f ≤ cs.length ∧
      (loopEndsAt T cs f = true ∨ flushesAt T Style P M cs f = true) ∧
      ∀ k, j < k → k < f → flushesAt T Style P M cs k = false := by
  unfold sequenceEndsAt
  simp only [Bool.and_eq_true, decide_eq_true_eq, Bool.or_eq_true, List.all_eq_true,
    Bool.not_eq_true', List.mem_range'_1]
  constructor
  · rintro ⟨⟨⟨⟨h1, h2⟩, h3⟩, h4⟩, h5⟩
    exact ⟨h1, h2, h3, h4, fun k k1 k2 => h5 k ⟨by omega, by omega⟩⟩
  · rintro ⟨h1, h2, h3, h4, h5⟩
    exact ⟨⟨⟨⟨h1, h2⟩, h3⟩, h4⟩, fun k hk => h5 k (by omega) (by omega)⟩

theorem loopEndsAt_iff (T : TokenTable) (cs : Changes) (f : Nat) :
    loopEndsAt T cs f = true ↔
      f ≤ cs.length ∧ loopReaches T cs f = true ∧
      (f = cs.length ∨ Level.lt (indentAndNestingLevel T (Changes.at cs f))
        (indentAndNestingLevel T (Changes.at cs 0)) = true) := by
  unfold loopEndsAt
  simp only [Bool.and_eq_true, decide_eq_true_eq, Bool.or_eq_true]
  constructor
  · rintro ⟨⟨h1, h2⟩, h3⟩
    exact ⟨h1, h2, h3⟩
  · rintro ⟨h1, h2, h3⟩
    exact ⟨⟨h1, h2⟩, h3⟩

/-- The loop comes to no index after the one at which it ends. -/
theorem loopEndsAt_le (T : TokenTable) (cs : Changes) (n f : Nat)
    (hn : loopEndsAt T cs n = true) (hf : loopReaches T cs f = true) (hl : f ≤ cs.length) :
    f ≤ n := by
  rw [loopEndsAt_iff] at hn
  obtain ⟨n1, n2, n3⟩ := hn
  by_contra hlt
  have h1 := loopReaches_le T cs (n + 1) f (by omega) hf
  have h2 := loopReaches_not_below T cs n h1
  rcases n3 with n3 | n3
  · omega
  · rw [h2] at n3
    exact absurd n3 (by simp)

theorem loopEndsAt_unique (T : TokenTable) (cs : Changes) (n f : Nat)
    (hn : loopEndsAt T cs n = true) (hf : loopEndsAt T cs f = true) : f = n := by
  have h1 := loopEndsAt_le T cs n f hn ((loopEndsAt_iff T cs f).mp hf).2.1
    ((loopEndsAt_iff T cs f).mp hf).1
  have h2 := loopEndsAt_le T cs f n hf ((loopEndsAt_iff T cs n).mp hn).2.1
    ((loopEndsAt_iff T cs n).mp hn).1
  omega

/-- The loop ends at some index. -/
theorem loopEndsAt_exists (T : TokenTable) (cs : Changes) : ∃ n, loopEndsAt T cs n = true := by
  by_cases h : loopReaches T cs cs.length = true
  · exact ⟨cs.length, (loopEndsAt_iff T cs _).mpr ⟨Nat.le_refl _, h, Or.inl rfl⟩⟩
  · have hex : ∃ k, loopReaches T cs (k + 1) = false := by
      cases hl : cs.length with
      | zero =>
        rw [hl] at h
        exact absurd rfl h
      | succ m =>
        rw [hl] at h
        exact ⟨m, by simpa using h⟩
    classical
    have hspec := Nat.find_spec hex
    have hmin : loopReaches T cs (Nat.find hex) = true := by
      cases hk : Nat.find hex with
      | zero => rfl
      | succ m =>
        have := Nat.find_min hex (by omega : m < Nat.find hex)
        simpa using this
    refine ⟨Nat.find hex, (loopEndsAt_iff T cs _).mpr ⟨?_, hmin, Or.inr ?_⟩⟩
    · by_contra hgt
      exact h (loopReaches_le T cs cs.length (Nat.find hex) (by omega) hmin)
    · cases hb : Level.lt (indentAndNestingLevel T (Changes.at cs (Nat.find hex)))
        (indentAndNestingLevel T (Changes.at cs 0))
      · rw [loopReaches_succ T cs _ hmin hb] at hspec
        exact absurd hspec (by simp)
      · rfl

/-- Every record that the loop comes to has an index at which its sequence
ends. -/
theorem sequenceEndsAt_exists (T : TokenTable) (Style : FormatStyle) (P : Tally.Policy)
    (M : Predicate) (cs : Changes) (j : Nat) (hj : j < cs.length)
    (hr : loopReaches T cs (j + 1) = true) :
    ∃ f, sequenceEndsAt T Style P M cs j f = true := by
  obtain ⟨n, hn⟩ := loopEndsAt_exists T cs
  have hjn : j + 1 ≤ n := loopEndsAt_le T cs n (j + 1) hn hr (by omega)
  have hex : ∃ k, j < k ∧ (loopEndsAt T cs k = true ∨ flushesAt T Style P M cs k = true) :=
    ⟨n, by omega, Or.inl hn⟩
  classical
  refine ⟨Nat.find hex, ?_⟩
  rw [sequenceEndsAt_iff]
  obtain ⟨h1, h2⟩ := Nat.find_spec hex
  have hle : Nat.find hex ≤ n := Nat.find_min' hex ⟨by omega, Or.inl hn⟩
  have hn' := (loopEndsAt_iff T cs n).mp hn
  refine ⟨h1, loopReaches_le T cs _ n hle hn'.2.1, by omega, h2, ?_⟩
  intro k k1 k2
  have := Nat.find_min hex k2
  cases hf : flushesAt T Style P M cs k
  · rfl
  · exact absurd ⟨k1, Or.inr hf⟩ this

theorem maxMatchColumnIn_succ (M : Predicate) (cs : Changes) (a i : Nat) (h : a ≤ i) :
    maxMatchColumnIn M cs a (i + 1) =
      if M cs i = true then max (maxMatchColumnIn M cs a i) (Changes.at cs i).StartOfTokenColumn
      else maxMatchColumnIn M cs a i := by
  unfold maxMatchColumnIn
  have e : i + 1 - a = (i - a) + 1 := by omega
  rw [e, List.range'_concat, List.foldl_append]
  have e2 : a + 1 * (i - a) = i := by omega
  rw [e2]
  rfl

theorem maxMatchColumnIn_self (M : Predicate) (cs : Changes) (a : Nat) :
    maxMatchColumnIn M cs a a = 0 := by
  unfold maxMatchColumnIn
  rw [Nat.sub_self]
  rfl

/-- The pending column is the maximum of the columns of the matching records
of the pending sequence, rounded up to a multiple of four where the policy
asks for it, once the column of a matching record 0 is out of the way: the
first record does not match, or the loop has ended a sequence after it. -/
theorem pendingAt_min_column (T : TokenTable) (Style : FormatStyle) (P : Tally.Policy)
    (M : Predicate) (cs : Changes)
    (hsmall : P.ForceAlignToFourSpaces = true → columnsSmallFor P cs = true) :
    ∀ i, (M cs 0 = false ∨ ∃ g, 1 ≤ g ∧ g < i ∧ flushesAt T Style P M cs g = true) →
      ((pendingAt T Style P M cs i).StartOfSequence = 0 →
        (pendingAt T Style P M cs i).MinColumn = 0) ∧
      ((pendingAt T Style P M cs i).StartOfSequence ≠ 0 →
        (pendingAt T Style P M cs i).MinColumn =
          if P.ForceAlignToFourSpaces = true then
            roundUpTo 4 (maxMatchColumnIn M cs (pendingAt T Style P M cs i).StartOfSequence i)
          else maxMatchColumnIn M cs (pendingAt T Style P M cs i).StartOfSequence i) := by
  intro i
  induction i with
  | zero =>
    intro _
    exact ⟨fun _ => rfl, fun h => absurd rfl h⟩
  | succ i ih =>
    intro h0
    obtain ⟨f1, _, _, _, _, f6, _⟩ := pendingAt_succ_fields T Style P M cs i
    have hprev : ¬ flushesAt T Style P M cs i = true →
        (M cs 0 = false ∨ ∃ g, 1 ≤ g ∧ g < i ∧ flushesAt T Style P M cs g = true) := by
      intro hf
      rcases h0 with h0 | ⟨g, g1, g2, g3⟩
      · exact Or.inl h0
      · right
        refine ⟨g, g1, ?_, g3⟩
        by_contra hge
        have : g = i := by omega
        rw [this] at g3
        exact hf g3
    have hff : ∀ b : Nat, (b = 0 ∨ b = (pendingAt T Style P M cs i).MinColumn) → ∀ x : Nat,
        (Pending.forceFour P
          { MinColumn := max b (Changes.at cs i).StartOfTokenColumn, MaxColumn := x }).MinColumn =
        if P.ForceAlignToFourSpaces = true then
          roundUpTo 4 (max b (Changes.at cs i).StartOfTokenColumn)
        else max b (Changes.at cs i).StartOfTokenColumn := by
      intro b hb x
      by_cases hF : P.ForceAlignToFourSpaces = true
      · have hs := hsmall hF
        have hmin := pendingAt_min_lt T Style P M cs hs i
        have hcol := columnsSmallFor_small P cs hs i
        refine pending_forceFour_min P _ _ ?_
        have hb' : b < 2147483648 := by
          rcases hb with hb | hb
          · omega
          · omega
        have := Nat.max_lt.mpr ⟨hb', hcol⟩
        omega
      · unfold Pending.forceFour
        simp [hF]
    by_cases hm : M cs i = true
    · have hi : i ≠ 0 := by
        intro hi
        rcases h0 with h0 | ⟨g, g1, g2, _⟩
        · rw [hi, h0] at hm
          exact absurd hm (by simp)
        · omega
      by_cases hs : flushesAt T Style P M cs i = true ∨
          (pendingAt T Style P M cs i).StartOfSequence = 0
      · have hS : (pendingAt T Style P M cs (i + 1)).StartOfSequence = i := by
          rw [f1]
          by_cases hf : flushesAt T Style P M cs i = true
          · rw [if_pos hf, if_pos hm]
          · rcases hs with hs | hs
            · exact absurd hs hf
            · rw [if_neg hf, if_pos ⟨hm, hs⟩]
        have hB : (if flushesAt T Style P M cs i = true then 0
            else (pendingAt T Style P M cs i).MinColumn) = 0 := by
          by_cases hf : flushesAt T Style P M cs i = true
          · rw [if_pos hf]
          · rw [if_neg hf]
            rcases hs with hs | hs
            · exact absurd hs hf
            · exact (ih (hprev hf)).1 hs
        rw [hS, f6, if_pos hm, hB, hff 0 (Or.inl rfl)]
        refine ⟨fun h => absurd h hi, fun _ => ?_⟩
        rw [maxMatchColumnIn_succ M cs i i (Nat.le_refl i), if_pos hm, maxMatchColumnIn_self]
      · have hf : ¬ flushesAt T Style P M cs i = true := fun h => hs (Or.inl h)
        have hs0 : ¬ (pendingAt T Style P M cs i).StartOfSequence = 0 := fun h => hs (Or.inr h)
        have hS : (pendingAt T Style P M cs (i + 1)).StartOfSequence =
            (pendingAt T Style P M cs i).StartOfSequence := by
          rw [f1, if_neg hf, if_neg (fun h => hs0 h.2)]
        have hB : (if flushesAt T Style P M cs i = true then 0
            else (pendingAt T Style P M cs i).MinColumn) = (pendingAt T Style P M cs i).MinColumn :=
          if_neg hf
        rw [hS, f6, if_pos hm, hB, hff _ (Or.inr rfl)]
        refine ⟨fun h => absurd h hs0, fun _ => ?_⟩
        have hle := Nat.le_of_lt (pendingAt_start T Style P M cs i hs0).2.1
        rw [maxMatchColumnIn_succ M cs _ i hle, if_pos hm, (ih (hprev hf)).2 hs0]
        split
        · rw [roundUpTo_four_max]
        · rfl
    · by_cases hf : flushesAt T Style P M cs i = true
      · have hS : (pendingAt T Style P M cs (i + 1)).StartOfSequence = 0 := by
          rw [f1, if_pos hf, if_neg hm]
        rw [hS, f6, if_neg hm, if_pos hf]
        exact ⟨fun _ => rfl, fun h => absurd rfl h⟩
      · have hS : (pendingAt T Style P M cs (i + 1)).StartOfSequence =
            (pendingAt T Style P M cs i).StartOfSequence := by
          rw [f1, if_neg hf, if_neg (fun h => hm h.1)]
        rw [hS, f6, if_neg hm, if_neg hf]
        refine ⟨(ih (hprev hf)).1, fun hs0 => ?_⟩
        have hle := Nat.le_of_lt (pendingAt_start T Style P M cs i hs0).2.1
        rw [maxMatchColumnIn_succ M cs _ i hle, if_neg hm]
        exact (ih (hprev hf)).2 hs0

/-- The index at which a sequence ends is not after the index at which the
loop ends; it is below that index exactly if the loop ends the sequence. -/
theorem sequenceEndsAt_cases (T : TokenTable) (Style : FormatStyle) (P : Tally.Policy)
    (M : Predicate) (cs : Changes) (n j f : Nat) (hn : loopEndsAt T cs n = true)
    (h : sequenceEndsAt T Style P M cs j f = true) :
    j < f ∧ f ≤ n ∧ (f < n → flushesAt T Style P M cs f = true) ∧
    ∀ k, j < k → k < f → flushesAt T Style P M cs k = false := by
  rw [sequenceEndsAt_iff] at h
  obtain ⟨e1, e2, e3, e4, e5⟩ := h
  refine ⟨e1, loopEndsAt_le T cs n f hn e2 e3, ?_, e5⟩
  intro hlt
  rcases e4 with e4 | e4
  · have := loopEndsAt_unique T cs n f hn e4
    omega
  · exact e4

/-- The call of the Tally AlignTokens from record 0 on a sequenced ledger:
it returns, no assertion fails, the frame and the Spaces of the records that
do not match are kept, record 0 is kept, and every matching record is written
by the flush that ends its sequence. -/
theorem tally_AlignTokens_sequenced (T : TokenTable) (Style : FormatStyle) (P : Tally.Policy)
    (M : Predicate) (cs : Changes) (hR : Sequenced T P M cs) :
    ∃ r, Tally.AlignTokens T Style M cs P 0 = some r ∧ r.AssertsHeld = true ∧
      SameFrame r.Changes cs ∧
      (∀ j, M cs j = false → (Changes.at r.Changes j).Spaces = (Changes.at cs j).Spaces) ∧
      ((Changes.at r.Changes 0).Spaces = (Changes.at cs 0).Spaces ∧
        (Changes.at r.Changes 0).StartOfTokenColumn = (Changes.at cs 0).StartOfTokenColumn) ∧
      (∀ j f, M cs j = true → 1 ≤ j → sequenceEndsAt T Style P M cs j f = true →
        FlushedAt T Style P M cs r.Changes j f) := by
  obtain ⟨r, h1, h2, h3, h4, _, _⟩ :=
    tally_AlignTokens_settled T Style P M cs ⟨hR.stable, hR.anchored⟩
  obtain ⟨g1, g2, g3⟩ := h4 hR
  refine ⟨r, h1, g1, h3.frame, g2.kept, h3.zero, ?_⟩
  intro j f hm j1 hend
  obtain ⟨e1, e2, e3, e4⟩ := sequenceEndsAt_cases T Style P M cs _ j f h2 hend
  by_cases hf : f = r.StoppedAt
  · subst hf
    exact g3 j hm j1 e1 e4
  · exact g2.done j f hm j1 e1 (by omega) (e3 (by omega)) e4

/-- The call of the Tally AlignTokens from record 0 on a scanned ledger whose
columns are values of `unsigned`: it returns, the matching records of a
settled sequence are as before the call, and if every sequence is settled the
whole ledger is as before the call and every assertion holds. -/
theorem tally_AlignTokens_kept (T : TokenTable) (Style : FormatStyle) (P : Tally.Policy)
    (M : Predicate) (cs : Changes) (hR : Scanned T P M cs) (hr : columnsInRange cs = true) :
    ∃ r, Tally.AlignTokens T Style M cs P 0 = some r ∧
      SameFrame r.Changes cs ∧
      ((Changes.at r.Changes 0).Spaces = (Changes.at cs 0).Spaces ∧
        (Changes.at r.Changes 0).StartOfTokenColumn = (Changes.at cs 0).StartOfTokenColumn) ∧
      (∀ j f, M cs j = true → 1 ≤ j → sequenceEndsAt T Style P M cs j f = true →
        SettledSequence T Style P M cs f →
        (Changes.at r.Changes j).Spaces = (Changes.at cs j).Spaces ∧
        (Changes.at r.Changes j).StartOfTokenColumn = (Changes.at cs j).StartOfTokenColumn) ∧
      ((∀ f, f ≤ cs.length → loopReaches T cs f = true →
          (loopEndsAt T cs f = true ∨ flushesAt T Style P M cs f = true) →
          SettledSequence T Style P M cs f) →
        r.Changes = cs ∧ r.AssertsHeld = true) := by
  obtain ⟨r, h1, h2, h3, _, h5, h6⟩ := tally_AlignTokens_settled T Style P M cs hR
  have hn := (loopEndsAt_iff T cs _).mp h2
  refine ⟨r, h1, h3.frame, h3.zero, ?_, ?_⟩
  · intro j f hm j1 hend hset
    obtain ⟨e1, e2, e3, e4⟩ := sequenceEndsAt_cases T Style P M cs _ j f h2 hend
    exact h6 hr j f hm j1 e1 e2 e3 e4 hset
  · intro hp
    exact h5 hr
      (fun f hf hfl => hp f (by omega)
        (loopReaches_le T cs f _ (Nat.le_of_lt hf) hn.2.1) (Or.inr hfl))
      (hp _ hn.1 hn.2.1 (Or.inl h2))

/-- The maximum over a range whose only matching record is j is the column
of j, or 0 if j is not in the range. -/
theorem maxMatchColumnIn_single (M : Predicate) (cs : Changes) (a j : Nat) :
    ∀ b, a ≤ b → (∀ k, a ≤ k → k < b → M cs k = true → k = j) →
      maxMatchColumnIn M cs a b =
        if a ≤ j ∧ j < b ∧ M cs j = true then (Changes.at cs j).StartOfTokenColumn else 0 := by
  intro b
  induction b with
  | zero =>
    intro hab _
    have : a = 0 := by omega
    rw [this, maxMatchColumnIn_self, if_neg (by omega)]
  | succ b ih =>
    intro hab hk
    by_cases hb : a = b + 1
    · rw [hb, maxMatchColumnIn_self, if_neg (by omega)]
    · have hle : a ≤ b := by omega
      rw [maxMatchColumnIn_succ M cs a b hle, ih hle (fun k k1 k2 => hk k k1 (by omega))]
      by_cases hm : M cs b = true
      · have hbj : b = j := hk b hle (Nat.lt_succ_self b) hm
        rw [if_pos hm, if_neg (by omega), hbj, if_pos ⟨by omega, by omega, by rw [← hbj]; exact hm⟩]
        exact Nat.max_eq_right (Nat.zero_le _)
      · rw [if_neg hm]
        by_cases hc : a ≤ j ∧ j < b ∧ M cs j = true
        · rw [if_pos hc, if_pos ⟨hc.1, by omega, hc.2.2⟩]
        · rw [if_neg hc, if_neg]
          intro hc2
          apply hc
          refine ⟨hc2.1, ?_, hc2.2.2⟩
          by_contra hlt
          have : j = b := by omega
          rw [this] at hc2
          exact hm hc2.2.2

/-- A sequence whose only matching record is j, with ForceAlignToFourSpaces
off, is settled. -/
theorem settledSequence_single (T : TokenTable) (Style : FormatStyle) (P : Tally.Policy)
    (M : Predicate) (cs : Changes) (j f : Nat)
    (hforce : P.ForceAlignToFourSpaces = false) (j1 : 1 ≤ j)
    (hm : M cs j = true) (hend : sequenceEndsAt T Style P M cs j f = true)
    (hsingle : ∀ k, M cs k = true → sequenceEndsAt T Style P M cs k f = true → k = j) :
    SettledSequence T Style P M cs f := by
  obtain ⟨e1, e2, e3, e4, e5⟩ := (sequenceEndsAt_iff T Style P M cs j f).mp hend
  obtain ⟨a1, a2, _⟩ := pendingAt_member_start T Style P M cs j hm j1 f e1 e5
  obtain ⟨s1, s2, s3⟩ := pendingAt_start T Style P M cs f a1
  have hzero : M cs 0 = false ∨ ∃ g, 1 ≤ g ∧ g < f ∧ flushesAt T Style P M cs g = true := by
    cases h0 : M cs 0
    · exact Or.inl rfl
    · right
      by_contra hno
      have hall : ∀ k, 0 < k → k < f → flushesAt T Style P M cs k = false := by
        intro k k1 k2
        cases hk : flushesAt T Style P M cs k
        · rfl
        · exact absurd ⟨k, k1, k2, hk⟩ hno
      have := hsingle 0 h0 ((sequenceEndsAt_iff T Style P M cs 0 f).mpr
        ⟨by omega, e2, e3, e4, hall⟩)
      omega
  have hmin := (pendingAt_min_column T Style P M cs
    (fun h => by rw [hforce] at h; exact absurd h (by simp)) f hzero).2 a1
  rw [if_neg (by rw [hforce]; simp)] at hmin
  have hone : ∀ k, (pendingAt T Style P M cs f).StartOfSequence ≤ k → k < f →
      M cs k = true → k = j := by
    intro k k1 k2 hk
    exact hsingle k hk ((sequenceEndsAt_iff T Style P M cs k f).mpr
      ⟨k2, e2, e3, e4, fun m m1 m2 => s3 m (by omega) m2⟩)
  rw [maxMatchColumnIn_single M cs _ j f (Nat.le_of_lt s2) hone, if_pos ⟨a2, e1, hm⟩] at hmin
  intro m hmm m1 m2 hno _
  have := hsingle m hmm ((sequenceEndsAt_iff T Style P M cs m f).mpr ⟨m2, e2, e3, e4, hno⟩)
  rw [this, hmin]

end ClangFormat

namespace ClangFormat

/-! ## Ledgers whose sequences are settled -/

theorem sequencesSettled_at (T : TokenTable) (Style : FormatStyle) (P : Tally.Policy)
    (M : Predicate) (cs : Changes) (h : sequencesSettled T Style P M cs = true) (f : Nat)
    (hf : f ≤ cs.length) (hr : loopReaches T cs f = true)
    (he : loopEndsAt T cs f = true ∨ flushesAt T Style P M cs f = true) :
    SettledSequence T Style P M cs f := by
  intro m hm m1 m2 hno ha
  unfold sequencesSettled at h
  rw [List.all_eq_true] at h
  have h1 := h m (List.mem_range.mpr (by omega))
  rw [hm, ha] at h1
  simp only [Bool.not_true, Bool.false_or, Bool.or_eq_true, decide_eq_true_eq,
    List.all_eq_true, List.mem_range, Bool.not_eq_true'] at h1
  rcases h1 with (h1 | h1) | h1
  · omega
  · exact absurd h1 (by simp)
  · rcases h1 f (by omega) with h2 | h2
    · rw [(sequenceEndsAt_iff T Style P M cs m f).mpr ⟨m2, hr, hf, he, hno⟩] at h2
      exact absurd h2 (by simp)
    · exact h2


/-! ## The comma counts of the loop -/

theorem pendingAt_commas (T : TokenTable) (Style : FormatStyle) (P : Tally.Policy)
    (M : Predicate) (cs : Changes) :
    ∀ i, (pendingAt T Style P M cs i).CommasBeforeMatch = countedCommasSeen T P cs i := by
  intro i
  induction i with
  | zero => rfl
  | succ i ih =>
    rw [(pendingAt_succ_fields T Style P M cs i).2.2.2.1, ih]
    rfl

/-- When the loop comes to a record after the matching record p, with no
matching record between, CommasBeforeLastMatch is the number of commas
counted up to p. -/
theorem pendingAt_lastCommas (T : TokenTable) (Style : FormatStyle) (P : Tally.Policy)
    (M : Predicate) (cs : Changes) (p : Nat) (hp : M cs p = true) :
    ∀ m, p < m → (∀ k, p < k → k < m → M cs k = false) →
      (pendingAt T Style P M cs m).CommasBeforeLastMatch = countedCommasSeen T P cs (p + 1) := by
  intro m
  induction m with
  | zero =>
    intro h
    omega
  | succ m ih =>
    intro hpm hno
    rw [(pendingAt_succ_fields T Style P M cs m).2.2.2.2.1]
    by_cases hmp : m = p
    · rw [hmp, if_pos hp, pendingAt_commas]
    · have hm : M cs m = false := hno m (by omega) (by omega)
      rw [if_neg (by rw [hm]; simp)]
      exact ih (by omega) (fun k k1 k2 => hno k k1 (by omega))

/-- The comma counts that the test of lines 737 and 738 compares at the
matching record m. -/
theorem pending_check_commas (T : TokenTable) (Style : FormatStyle) (P : Tally.Policy)
    (M : Predicate) (cs : Changes) (p m : Nat) (hp : M cs p = true) (hpm : p < m)
    (hno : ∀ k, p < k → k < m → M cs k = false) :
    (((pendingAt T Style P M cs m).head P cs m).comma T P cs m).CommasBeforeMatch =
      countedCommasSeen T P cs (m + 1) ∧
    (((pendingAt T Style P M cs m).head P cs m).comma T P cs m).CommasBeforeLastMatch =
      countedCommasSeen T P cs (p + 1) := by
  obtain ⟨_, _, _, _, _, c6, c7⟩ :=
    pending_comma_fields T P cs ((pendingAt T Style P M cs m).head P cs m) m
  obtain ⟨_, _, _, _, _, d6, d7⟩ := pending_head_fields P cs (pendingAt T Style P M cs m) m
  rw [c6, c7, d6, d7, pendingAt_commas, pendingAt_lastCommas T Style P M cs p hp m hpm hno]
  exact ⟨rfl, rfl⟩

/-- A changed number of commas ends the sequence at a matching record unless
IgnoreCommas is set. -/
theorem flushesAt_of_commas (T : TokenTable) (Style : FormatStyle) (P : Tally.Policy)
    (M : Predicate) (cs : Changes) (p m : Nat) (hp : M cs p = true) (hm : M cs m = true)
    (hpm : p < m) (hno : ∀ k, p < k → k < m → M cs k = false)
    (hI : P.IgnoreCommas = false)
    (hne : countedCommasSeen T P cs (m + 1) ≠ countedCommasSeen T P cs (p + 1)) :
    flushesAt T Style P M cs m = true := by
  obtain ⟨h1, h2⟩ := pending_check_commas T Style P M cs p m hp hpm hno
  unfold flushesAt Pending.breaksAtMatch
  rw [hm, h1, h2, hI]
  simp [hne]

/-- With IgnoreCommas set, a matching record that is the first one of its
line, at which the head of the loop body does not end the sequence, and that
is within the limit of leading spaces and the column window of the pending
sequence, does not end the sequence. -/
theorem flushesAt_blind (T : TokenTable) (Style : FormatStyle) (P : Tally.Policy)
    (M : Predicate) (cs : Changes) (m : Nat) (hI : P.IgnoreCommas = true)
    (hline : lineEndsSequenceAt T Style P M cs m = false)
    (hseen : (Changes.at cs m).NewlinesBefore = 0 → matchesSeen M cs m = 0)
    (hw : withinPendingWindow T Style P M cs m = true) :
    flushesAt T Style P M cs m = false := by
  obtain ⟨c1, c2, c3, c4, c5, c6, c7⟩ :=
    pending_comma_fields T P cs ((pendingAt T Style P M cs m).head P cs m) m
  obtain ⟨d1, d2, d3, d4, d5, d6, d7⟩ := pending_head_fields P cs (pendingAt T Style P M cs m) m
  have hl : ¬ (decide ((Changes.at cs m).NewlinesBefore ≠ 0) &&
      (pendingAt T Style P M cs m).breaksLine P cs m) = true := by
    have : (decide ((Changes.at cs m).NewlinesBefore ≠ 0) &&
      (pendingAt T Style P M cs m).breaksLine P cs m) = false := hline
    rw [this]
    simp
  rw [if_neg hl] at d2 d3
  have hfound : (((pendingAt T Style P M cs m).head P cs m).comma T P cs m).FoundMatchOnLine =
      false := by
    rw [c5, d5]
    by_cases hn : (Changes.at cs m).NewlinesBefore ≠ 0
    · rw [if_pos hn]
    · rw [if_neg hn, pendingAt_found, hseen (by omega)]
      rfl
  have hb : (((pendingAt T Style P M cs m).head P cs m).comma T P cs m).breaksAtMatch P =
      false := by
    unfold Pending.breaksAtMatch
    rw [hfound, hI]
    rfl
  have hnoted : ((((pendingAt T Style P M cs m).head P cs m).comma T P cs m).noted P m) =
      ((((pendingAt T Style P M cs m).head P cs m).comma T P cs m).note m) := by
    unfold Pending.noted
    rw [hb]
    rfl
  have hmin : (((((pendingAt T Style P M cs m).head P cs m).comma T P cs m).noted P m)).MinColumn
      = (pendingAt T Style P M cs m).MinColumn := by
    rw [hnoted]
    show (((pendingAt T Style P M cs m).head P cs m).comma T P cs m).MinColumn = _
    rw [c2, d2]
  have hmax : (((((pendingAt T Style P M cs m).head P cs m).comma T P cs m).noted P m)).MaxColumn
      = (pendingAt T Style P M cs m).MaxColumn := by
    rw [hnoted]
    show (((pendingAt T Style P M cs m).head P cs m).comma T P cs m).MaxColumn = _
    rw [c3, d3]
  unfold withinPendingWindow at hw
  simp only [Bool.and_eq_true, decide_eq_true_eq] at hw
  obtain ⟨⟨w1, w2⟩, w3⟩ := hw
  have e : flushesAt T Style P M cs m =
      (lineEndsSequenceAt T Style P M cs m || matchEndsSequenceAt T Style P M cs m) := rfl
  rw [e, hline, Bool.false_or]
  unfold matchEndsSequenceAt
  rw [hb, Bool.false_or]
  unfold Pending.leavesWindow
  rw [hmin, hmax, hI]
  simp only [Bool.not_true, Bool.false_and, Bool.or_false, Bool.and_eq_false_iff,
    Bool.or_eq_false_iff, decide_eq_false_iff_not]
  right
  exact ⟨⟨by omega, by omega⟩, by omega⟩


/-! ## The column window of the pending sequence -/

theorem columnsSmallFor_of_small (P : Tally.Policy) (cs : Changes)
    (hforce : P.ForceAlignToFourSpaces = false) (h : columnsSmall cs = true) :
    columnsSmallFor P cs = true := by
  unfold columnsSmallFor
  unfold columnsSmall at h
  rw [hforce]
  exact h

theorem matchesFirstOnLine_of_apart (M : Predicate) (cs : Changes)
    (h : matchesApart M cs = true) : matchesFirstOnLine M cs = true := by
  unfold matchesFirstOnLine
  rw [List.all_eq_true]
  intro i hi
  rw [List.mem_range] at hi
  cases hm : M cs i
  · rfl
  · have := (matchesApart_at M cs h i hi hm).2
    simp [this]

/-- The value ChangeMaxColumn at a matching record of a ledger whose lines
fit is the column limit in effect minus the remaining length of the line. -/
theorem tally_ChangeMaxColumn_fit (Style : FormatStyle) (P : Tally.Policy) (M : Predicate)
    (cs : Changes) (hap : matchesApart M cs = true) (hfit : linesFit Style P M cs = true)
    (hnn : spacesNonneg cs = true) (hlim : Tally.ColumnLimitInEffect Style P < 2147483648)
    (m : Nat) (hm : m < cs.length) (hM : M cs m = true) :
    (Tally.ChangeMaxColumn Style P cs m : Int) =
      (Tally.ColumnLimitInEffect Style P : Int) - remainingLength cs m := by
  have hn := (matchesApart_at M cs hap m hm hM).1
  have hf := linesFit_at Style P M cs hfit m hm hM
  have hpos := remainingLength_nonneg cs hnn m
  unfold Tally.ChangeMaxColumn
  rw [tally_lineLengthAfter_eq cs m hm hn]
  exact toUnsigned_of_range _ (by omega) (by omega)

/-- A matching record at which the loop does not end the sequence is within
the column window of the pending sequence. -/
theorem flushesAt_false_window (T : TokenTable) (Style : FormatStyle) (P : Tally.Policy)
    (M : Predicate) (cs : Changes) (m : Nat) (hm : M cs m = true)
    (hf : flushesAt T Style P M cs m = false) :
    (Changes.at cs m).StartOfTokenColumn ≤ (pendingAt T Style P M cs m).MaxColumn ∧
    (pendingAt T Style P M cs m).MinColumn ≤ Tally.ChangeMaxColumn Style P cs m := by
  obtain ⟨c1, c2, c3, c4, c5, c6, c7⟩ :=
    pending_comma_fields T P cs ((pendingAt T Style P M cs m).head P cs m) m
  obtain ⟨d1, d2, d3, d4, d5, d6, d7⟩ := pending_head_fields P cs (pendingAt T Style P M cs m) m
  unfold flushesAt at hf
  rw [hm, Bool.true_and, Bool.or_eq_false_iff, Bool.or_eq_false_iff] at hf
  obtain ⟨hline, hb, hw⟩ := hf
  have hl : ¬ (decide ((Changes.at cs m).NewlinesBefore ≠ 0) &&
      (pendingAt T Style P M cs m).breaksLine P cs m) = true := by
    rw [hline]
    simp
  rw [if_neg hl] at d2 d3
  have hnoted : ((((pendingAt T Style P M cs m).head P cs m).comma T P cs m).noted P m) =
      ((((pendingAt T Style P M cs m).head P cs m).comma T P cs m).note m) := by
    unfold Pending.noted
    rw [hb]
    rfl
  have hmin : (((((pendingAt T Style P M cs m).head P cs m).comma T P cs m).noted P m)).MinColumn
      = (pendingAt T Style P M cs m).MinColumn := by
    rw [hnoted]
    show (((pendingAt T Style P M cs m).head P cs m).comma T P cs m).MinColumn = _
    rw [c2, d2]
  have hmax : (((((pendingAt T Style P M cs m).head P cs m).comma T P cs m).noted P m)).MaxColumn
      = (pendingAt T Style P M cs m).MaxColumn := by
    rw [hnoted]
    show (((pendingAt T Style P M cs m).head P cs m).comma T P cs m).MaxColumn = _
    rw [c3, d3]
  unfold Pending.leavesWindow at hw
  rw [hmin, hmax] at hw
  simp only [Bool.or_eq_false_iff, decide_eq_false_iff_not] at hw
  obtain ⟨⟨⟨_, w2⟩, w3⟩, _⟩ := hw
  exact ⟨by omega, by omega⟩

/-- With ForceAlignToFourSpaces off, on a ledger whose lines with a matching
record fit the column limit in effect: the pending column is within the
pending window, and the window is within the reach of every matching record
of the pending sequence. -/
theorem pendingAt_window (T : TokenTable) (Style : FormatStyle) (P : Tally.Policy)
    (M : Predicate) (cs : Changes) (hforce : P.ForceAlignToFourSpaces = false)
    (hap : matchesApart M cs = true) (hfit : linesFit Style P M cs = true)
    (hnn : spacesNonneg cs = true) (hlim : Tally.ColumnLimitInEffect Style P < 2147483648) :
    ∀ i, i ≤ cs.length →
      (pendingAt T Style P M cs i).MinColumn ≤ (pendingAt T Style P M cs i).MaxColumn ∧
      ∀ k, M cs k = true → k < i →
        (∀ g, k < g → g < i → flushesAt T Style P M cs g = false) →
        (pendingAt T Style P M cs i).MaxColumn ≤ Tally.ChangeMaxColumn Style P cs k := by
  intro i
  induction i with
  | zero =>
    intro _
    refine ⟨?_, fun k _ hk => by omega⟩
    show (0 : Nat) ≤ UINT_MAX
    exact Nat.zero_le _
  | succ i ih =>
    intro hi
    obtain ⟨ih1, ih2⟩ := ih (by omega)
    obtain ⟨_, _, _, _, _, f6, f7⟩ := pendingAt_succ_fields T Style P M cs i
    have hff : ∀ q : Pending, Pending.forceFour P q = q := by
      intro q
      unfold Pending.forceFour
      simp [hforce]
    rw [f6, f7]
    by_cases hm : M cs i = true
    · rw [if_pos hm, if_pos hm, hff]
      have hcm := tally_ChangeMaxColumn_fit Style P M cs hap hfit hnn hlim i (by omega) hm
      have hf := linesFit_at Style P M cs hfit i (by omega) hm
      have hcol : (Changes.at cs i).StartOfTokenColumn ≤ Tally.ChangeMaxColumn Style P cs i := by
        omega
      have hpos := remainingLength_nonneg cs hnn i
      have hcmlt : Tally.ChangeMaxColumn Style P cs i < 2147483648 := by omega
      show max _ _ ≤ min _ _ ∧ ∀ k, M cs k = true → k < i + 1 → _ → min _ _ ≤ _
      by_cases hfl : flushesAt T Style P M cs i = true
      · rw [if_pos hfl, if_pos hfl]
        constructor
        · have hu : (Changes.at cs i).StartOfTokenColumn ≤ UINT_MAX := by
            have : UINT_MAX = 4294967295 := rfl
            omega
          exact Nat.max_le.mpr ⟨Nat.zero_le _, Nat.le_min.mpr ⟨hu, hcol⟩⟩
        · intro k hk k1 hno
          by_cases hki : k = i
          · rw [hki]
            exact Nat.min_le_right _ _
          · have := hno i (by omega) (by omega)
            rw [hfl] at this
            exact absurd this (by simp)
      · rw [if_neg hfl, if_neg hfl]
        have hfl' : flushesAt T Style P M cs i = false := by simpa using hfl
        obtain ⟨w1, w2⟩ := flushesAt_false_window T Style P M cs i hm hfl'
        constructor
        · exact Nat.max_le.mpr ⟨Nat.le_min.mpr ⟨ih1, w2⟩, Nat.le_min.mpr ⟨w1, hcol⟩⟩
        · intro k hk k1 hno
          by_cases hki : k = i
          · rw [hki]
            exact Nat.min_le_right _ _
          · exact Nat.le_trans (Nat.min_le_left _ _)
              (ih2 k hk (by omega) (fun g g1 g2 => hno g g1 (by omega)))
    · rw [if_neg hm, if_neg hm]
      by_cases hfl : flushesAt T Style P M cs i = true
      · rw [if_pos hfl, if_pos hfl]
        refine ⟨Nat.zero_le _, ?_⟩
        intro k hk k1 hno
        have hki : k ≠ i := by
          intro h
          rw [h] at hk
          exact hm hk
        have := hno i (by omega) (by omega)
        rw [hfl] at this
        exact absurd this (by simp)
      · rw [if_neg hfl, if_neg hfl]
        refine ⟨ih1, ?_⟩
        intro k hk k1 hno
        have hki : k ≠ i := by
          intro h
          rw [h] at hk
          exact hm hk
        exact ih2 k hk (by omega) (fun g g1 g2 => hno g g1 (by omega))

/-- The call of the Tally AlignTokens from record 0 on a sequenced ledger:
every matching record is as before the call or is written by the flush that
ends its sequence. -/
theorem tally_AlignTokens_placed (T : TokenTable) (Style : FormatStyle) (P : Tally.Policy)
    (M : Predicate) (cs : Changes) (hR : Sequenced T P M cs) :
    ∃ r, Tally.AlignTokens T Style M cs P 0 = some r ∧ r.AssertsHeld = true ∧
      SameFrame r.Changes cs ∧
      (∀ j, M cs j = false → (Changes.at r.Changes j).Spaces = (Changes.at cs j).Spaces) ∧
      ∀ m, m < cs.length → M cs m = true →
        (Changes.at r.Changes m).StartOfTokenColumn = (Changes.at cs m).StartOfTokenColumn ∨
        ∃ f, sequenceEndsAt T Style P M cs m f = true ∧
          (Changes.at r.Changes m).StartOfTokenColumn = (pendingAt T Style P M cs f).MinColumn := by
  obtain ⟨r, h1, h2, h3, h4, _, _⟩ :=
    tally_AlignTokens_settled T Style P M cs ⟨hR.stable, hR.anchored⟩
  obtain ⟨g1, g2, g3⟩ := h4 hR
  refine ⟨r, h1, g1, h3.frame, g2.kept, ?_⟩
  intro m hm hM
  by_cases hm0 : m = 0
  · left
    rw [hm0]
    exact h3.zero.2
  by_cases hmn : r.StoppedAt ≤ m
  · left
    exact (h3.ahead m hmn).2
  · have hn := (loopEndsAt_iff T cs _).mp h2
    obtain ⟨f, hf⟩ := sequenceEndsAt_exists T Style P M cs m hm
      (loopReaches_le T cs (m + 1) _ (by omega) hn.2.1)
    obtain ⟨e1, e2, e3, e4⟩ := sequenceEndsAt_cases T Style P M cs _ m f h2 hf
    have hfl : FlushedAt T Style P M cs r.Changes m f := by
      by_cases hfn : f = r.StoppedAt
      · subst hfn
        exact g3 m hM (by omega) e1 e4
      · exact g2.done m f hM (by omega) e1 (by omega) (e3 (by omega)) e4
    cases ha : Tally.matchAllowed T cs m
    · left
      exact (hfl.2 ha).1
    · right
      exact ⟨f, hf, (hfl.1 ha).1⟩

end ClangFormat

namespace ClangFormat

/-! ## The pass pipeline on a ledger that is settled for every campaign -/

theorem bitFieldMatches_stable (T : TokenTable) : Predicate.Stable (bitFieldMatches T) := by
  intro a b i h
  unfold bitFieldMatches
  rw [h.newlinesBefore i, lastOnLine_frame h i, h.tok i]

theorem scopedVarNameMatches_stable (T : TokenTable) :
    Predicate.Stable (scopedVarNameMatches T) := by
  intro a b i h
  unfold scopedVarNameMatches
  rw [h.tok i]

theorem lbraceMatches_stable (T : TokenTable) : Predicate.Stable (lbraceMatches T) := by
  intro a b i h
  unfold lbraceMatches
  rw [h.tok i]

theorem varNameAcrossSectionsMatches_stable (T : TokenTable) :
    Predicate.Stable (varNameAcrossSectionsMatches T) := by
  intro a b i h
  unfold varNameAcrossSectionsMatches
  rw [h.tok i]

theorem varNameWithinSectionMatches_stable (T : TokenTable) :
    Predicate.Stable (varNameWithinSectionMatches T) := by
  intro a b i h
  unfold varNameWithinSectionMatches
  rw [h.tok i]

/-- The call of the Tally AlignTokens from record 0 on a ledger that is
anchored at its first record and whose sequences are all settled returns the
ledger as it is, with no assertion failed. -/
theorem tally_AlignTokens_fixed (T : TokenTable) (Style : FormatStyle) (P : Tally.Policy)
    (M : Predicate) (cs : Changes) (hstable : Predicate.Stable M)
    (hanchored : anchoredLedger T P M cs = true) (hrange : columnsInRange cs = true)
    (hsettled : sequencesSettled T Style P M cs = true) :
    ∃ r, Tally.AlignTokens T Style M cs P 0 = some r ∧ r.Changes = cs ∧
      r.AssertsHeld = true := by
  obtain ⟨r, h1, _, _, _, h4⟩ := tally_AlignTokens_kept T Style P M cs
    ⟨hstable, hanchored⟩ hrange
  exact ⟨r, h1,
    h4 (fun f hf hr he => sequencesSettled_at T Style P M cs hsettled f hf hr he)⟩

/-- A Tally campaign leaves a manager as it is if the ledger is settled for
its predicate and policy. -/
theorem tally_campaign_fixed (W : WhitespaceManager) (M : Predicate) (P : Tally.Policy)
    (hstable : Predicate.Stable M) (hrange : columnsInRange W.Changes = true)
    (hanchored : anchoredLedger W.Toks P M W.Changes = true)
    (hsettled : sequencesSettled W.Toks W.Style P M W.Changes = true) :
    Tally.campaign W M P = W := by
  obtain ⟨r, h1, h2, h3⟩ := tally_AlignTokens_fixed W.Toks W.Style P M W.Changes hstable
    hanchored hrange hsettled
  unfold Tally.campaign
  rw [h1]
  simp only [h2, h3, Bool.and_true]

theorem tally_campaign_settledFor (W : WhitespaceManager) (M : Predicate) (P : Tally.Policy)
    (hstable : Predicate.Stable M) (hrange : columnsInRange W.Changes = true)
    (h : settledFor W M P = true) : Tally.campaign W M P = W := by
  unfold settledFor at h
  rw [Bool.and_eq_true] at h
  exact tally_campaign_fixed W M P hstable hrange h.1 h.2

/-- The eight Tally campaigns leave a manager as it is if the ledger is
settled for each of them that runs. -/
theorem tallyCampaigns_fixed (W : WhitespaceManager) (hrange : columnsInRange W.Changes = true)
    (h : campaignsSettled W = true) : tallyCampaigns W = W := by
  unfold campaignsSettled at h
  rw [Bool.and_eq_true] at h
  obtain ⟨hb, hrest⟩ := h
  have e4 : alignConsecutiveVarBitFields W = W :=
    tally_campaign_settledFor W _ _ (bitFieldMatches_stable W.Toks) hrange hb
  unfold tallyCampaigns
  cases hs : W.Style.AlignConsecutiveAssignments
  · have e1 : alignConsecutiveAssignmentsOnScopedVarName W = W := by
      unfold alignConsecutiveAssignmentsOnScopedVarName
      rw [hs]
      rfl
    have e2 : alignConsecutiveAssignmentsOnVarNameAcrossSections W = W := by
      unfold alignConsecutiveAssignmentsOnVarNameAcrossSections
      rw [hs]
      rfl
    have e3 : alignConsecutiveAssignmentsOnVarNameWithinSection W = W := by
      unfold alignConsecutiveAssignmentsOnVarNameWithinSection
      rw [hs]
      rfl
    have e5 : alignConsecutiveAssignmentsOnEqualsAcrossSections W = W := by
      unfold alignConsecutiveAssignmentsOnEqualsAcrossSections
      rw [hs]
      rfl
    have e6 : alignConsecutiveAssignmentsOnEqualsWithinSection W = W := by
      unfold alignConsecutiveAssignmentsOnEqualsWithinSection
      rw [hs]
      rfl
    have e7 : alignConsecutiveLBraceOfVarDeclOrDef W = W := by
      unfold alignConsecutiveLBraceOfVarDeclOrDef
      rw [hs]
      rfl
    have e8 : alignConsecutiveAssignementsOnUsing W = W := by
      unfold alignConsecutiveAssignementsOnUsing
      rw [hs]
      rfl
    rw [e1, e2, e3, e4, e5, e6, e7, e8]
  · rw [hs] at hrest
    simp only [Bool.not_true, Bool.false_or, Bool.and_eq_true] at hrest
    obtain ⟨⟨⟨⟨⟨⟨h1, h2⟩, h3⟩, h5⟩, h6⟩, h7⟩, h8⟩ := hrest
    have e1 : alignConsecutiveAssignmentsOnScopedVarName W = W := by
      unfold alignConsecutiveAssignmentsOnScopedVarName
      rw [hs]
      exact tally_campaign_settledFor W _ _ (scopedVarNameMatches_stable W.Toks) hrange h1
    have e2 : alignConsecutiveAssignmentsOnVarNameAcrossSections W = W := by
      unfold alignConsecutiveAssignmentsOnVarNameAcrossSections
      rw [hs]
      exact tally_campaign_settledFor W _ _ (varNameAcrossSectionsMatches_stable W.Toks)
        hrange h2
    have e3 : alignConsecutiveAssignmentsOnVarNameWithinSection W = W := by
      unfold alignConsecutiveAssignmentsOnVarNameWithinSection
      rw [hs]
      exact tally_campaign_settledFor W _ _ (varNameWithinSectionMatches_stable W.Toks)
        hrange h3
    have e5 : alignConsecutiveAssignmentsOnEqualsAcrossSections W = W := by
      unfold alignConsecutiveAssignmentsOnEqualsAcrossSections
      rw [hs]
      exact tally_campaign_settledFor W _ _ (equalsAcrossSectionsMatches_stable W.Toks)
        hrange h5
    have e6 : alignConsecutiveAssignmentsOnEqualsWithinSection W = W := by
      unfold alignConsecutiveAssignmentsOnEqualsWithinSection
      rw [hs]
      exact tally_campaign_settledFor W _ _ (equalsWithinSectionMatches_stable W.Toks)
        hrange h6
    have e7 : alignConsecutiveLBraceOfVarDeclOrDef W = W := by
      unfold alignConsecutiveLBraceOfVarDeclOrDef
      rw [hs]
      exact tally_campaign_settledFor W _ _ (lbraceMatches_stable W.Toks) hrange h7
    have e8 : alignConsecutiveAssignementsOnUsing W = W := by
      unfold alignConsecutiveAssignementsOnUsing
      rw [hs]
      exact tally_campaign_settledFor W _ _ (usingMatches_stable W.Toks W.Lines) hrange h8
    rw [e1, e2, e3, e4, e5, e6, e7, e8]

/-- The pass pipeline is the passes before the campaigns, the campaigns and
the passes after them. -/
theorem passPipeline_eq (W : WhitespaceManager) :
    passPipeline W = if W.Changes.isEmpty then W
      else passesAfterCampaigns (tallyCampaigns (passesBeforeCampaigns W)) := rfl

end ClangFormat

namespace ClangFormat

/-! ## C2: the assertion on Shift -/

set_option maxRecDepth 1000000 in
/-- C2 (the code breaks its own assertion): on the ledger of
`a = {c ? 1 : 2, / bbbbbbbb = 3}; / d = 4;` the assertion `Shift >= 0` of
AlignTokenSequence fails in both overloads.  The sequence of the two outer
`=` is flushed at column 2; inside it the scope stack of AlignTokenSequence
is empty again at the comma (one pop for the conditional), so the `=` of the
second line, standing in column 14, is taken as the match of its line and
Shift is 2 - 14.  The campaign on `=` across sections ends with the assertion
flag cleared and with Spaces = 1 - 12 on that record; the stock AlignTokens
with the same predicate fails in the same way. -/
theorem shift_assertion_fails :
    (alignConsecutiveAssignmentsOnEqualsAcrossSections nestedManager).AssertsHeld = false ∧
    ((alignConsecutiveAssignmentsOnEqualsAcrossSections nestedManager).Changes.at 10).Spaces = -11 ∧
    (Stock.AlignTokens nestedTokens nestedManager.Style (equalsAcrossSectionsMatches nestedTokens)
      nestedChanges 0).map (fun r => (r.AssertsHeld, (r.Changes.at 10).Spaces)) =
        some (false, -11) := by
  decide

end ClangFormat

namespace ClangFormat

/-! ## C6: the campaigns write four fields only -/

/-- C6: every alignment campaign keeps the frame of the ledger.  Both
overloads of AlignTokens, started at index 0 with any predicate and policy,
return a ledger with the same frame; so do both overloads of
AlignTokenSequence on any range, alignTrailingComments and
alignEscapedNewlines.  Two ledgers have the same frame when they have the
same number of records, in the same order, equal in every field (token,
original whitespace range, NewlinesBefore, TokenLength and the others) except
Spaces, StartOfTokenColumn, PreviousEndOfTokenColumn and
EscapedNewlineColumn. -/
theorem campaigns_keep_frame (T : TokenTable) (Style : FormatStyle) (Matches : Predicate)
    (P : Tally.Policy) (src : List Char) (cs : Changes) (Start End Column : Nat) :
    (∃ r, Tally.AlignTokens T Style Matches cs P 0 = some r ∧ SameFrame r.Changes cs) ∧
    (∃ r, Stock.AlignTokens T Style Matches cs 0 = some r ∧ SameFrame r.Changes cs) ∧
    SameFrame (Tally.AlignTokenSequence T Start End Column Matches cs P.IgnoreScope
      P.IgnoreCommas).Changes cs ∧
    SameFrame (Stock.AlignTokenSequence T Start End Column Matches cs).Changes cs ∧
    SameFrame (alignTrailingCommentsOn T Style src cs).1 cs ∧
    SameFrame (alignTrailingCommentsRange cs Start End Column).1 cs ∧
    SameFrame (alignEscapedNewlinesOn Style cs).1 cs ∧
    SameFrame (alignEscapedNewlinesRange (cs, true) Start End Column).1 cs := by
  refine ⟨?_, ?_, tally_AlignTokenSequence_sameFrame _ _ _ _ _ _ _ _,
    stock_AlignTokenSequence_sameFrame _ _ _ _ _ _, alignTrailingCommentsOn_sameFrame _ _ _ _,
    alignTrailingCommentsRange_sameFrame _ _ _ _, alignEscapedNewlinesOn_sameFrame _ _,
    alignEscapedNewlinesRange_sameFrame _ _ _ _⟩
  · obtain ⟨r, e, f, _⟩ := tally_AlignTokens_returns T Style Matches cs P 0 (Nat.zero_le _)
    exact ⟨r, e, f⟩
  · obtain ⟨r, e, f, _⟩ := stock_AlignTokens_returns T Style Matches cs 0 (Nat.zero_le _)
    exact ⟨r, e, f⟩

end ClangFormat

namespace ClangFormat

/-! ## C8: stale columns after a nested sequence -/

set_option maxRecDepth 1000000 in
/-- C8 (the code leaves a stale column): the ledger of
`S a = {xxx = 1, / y = 2};` has no stale column before the campaign on `=`
across sections.  The recursive call for the braces aligns the `=` of the
second line from column 9 to column 11 and ends its range at the `;` after
`}`: the records up to `}` move by 2 and PreviousEndOfTokenColumn of `;`
becomes 15, but StartOfTokenColumn of `;` stays 13.  After the call the `;`,
which does not start a line and has Spaces = 0, no longer stands at its
PreviousEndOfTokenColumn, while no assertion failed. -/
theorem stale_column_after_nested_scope :
    freshColumns initChanges = true ∧
    (Tally.AlignTokens initTokens {} (equalsAcrossSectionsMatches initTokens) initChanges
      equalsAcrossSectionsPolicy 0).map (fun r => (r.AssertsHeld, freshColumns r.Changes)) =
      some (true, false) ∧
    (Tally.AlignTokens initTokens {} (equalsAcrossSectionsMatches initTokens) initChanges
      equalsAcrossSectionsPolicy 0).map
      (fun r => ((r.Changes.at 12).NewlinesBefore, (r.Changes.at 12).StartOfTokenColumn,
        (r.Changes.at 12).PreviousEndOfTokenColumn, (r.Changes.at 12).Spaces)) =
      some (0, 13, 15, 0) ∧
    (Tally.AlignTokens initTokens {} (equalsAcrossSectionsMatches initTokens) initChanges
      equalsAcrossSectionsPolicy 0).map (fun r => (r.Changes.at 9).StartOfTokenColumn) =
      some 11 := by
  decide

end ClangFormat

namespace ClangFormat

/-! ## C9: what ends a sequence at a line break -/

end ClangFormat

namespace ClangFormat

/-! ## C10: a changed number of commas -/

end ClangFormat

namespace ClangFormat

/-! ## C7: scope containment in AlignTokenSequence -/

/-- C7 (scope containment): in the Tally AlignTokenSequence with
IgnoreScope = false, a record i that is treated with a non-empty scope stack
(it lies in a nested scope) has its Spaces changed only if it begins a line
(NewlinesBefore > 0) and the record one position before the start of its
scope is a function-declaration name, or the record two positions before it
is one and the scope starts after Start + 1.  Every other record in a nested
scope keeps its Spaces.  The statement covers every index i: records outside
the range from Start to End are not written at all. -/
theorem scope_containment (T : TokenTable) (Matches : Predicate) (Start End Column : Nat)
    (cs : Changes) (IgnoreCommas : Bool) (i : Nat)
    (hnested : scopeStackOf T cs Start i ≠ []) :
    (Changes.at (Tally.AlignTokenSequence T Start End Column Matches cs false IgnoreCommas).Changes
        i).Spaces ≠ (Changes.at cs i).Spaces →
      (Changes.at cs i).NewlinesBefore > 0 ∧
      ((T.at (Changes.at cs ((scopeStackOf T cs Start i).headI - 1)).Tok).isType
          TokenType.TT_FunctionDeclarationName = true ∨
        ((scopeStackOf T cs Start i).headI > Start + 1 ∧
          (T.at (Changes.at cs ((scopeStackOf T cs Start i).headI - 2)).Tok).isType
            TokenType.TT_FunctionDeclarationName = true)) := by
  intro hc
  have h := (tally_sequence_scope_inv T Matches Start Column cs (End - Start)).2.2 i hnested hc
  refine ⟨h.1, ?_⟩
  have h2 := h.2
  unfold afterFunctionDeclarationName at h2
  simp only [Bool.or_eq_true, Bool.and_eq_true, decide_eq_true_eq] at h2
  exact h2

set_option maxRecDepth 1000000 in
/-- C7, witness: in the ledger of `int x;` / `void foo(int a,` / `int b);`
the sequence from record 3 moves `foo` from column 5 to column 9.  Record 9,
the `int` that starts the third line, lies in the scope of the parameter list
that starts at record 6, two positions after `foo`: its Spaces grows from 9
to 13, it begins a line, and the record two positions before the start of
its scope is a function-declaration name. -/
theorem scope_containment_witness :
    scopeStackOf declTokens declChanges 3 9 = [6] ∧
    (Changes.at (Tally.AlignTokenSequence declTokens 3 13 9 declNameMatches declChanges false
      false).Changes 9).Spaces = 13 ∧
    (Changes.at declChanges 9).Spaces = 9 ∧
    (Changes.at declChanges 9).NewlinesBefore > 0 ∧
    ((declTokens.at (Changes.at declChanges
        ((scopeStackOf declTokens declChanges 3 9).headI - 1)).Tok).isType
          TokenType.TT_FunctionDeclarationName = true ∨
      ((scopeStackOf declTokens declChanges 3 9).headI > 3 + 1 ∧
        (declTokens.at (Changes.at declChanges
          ((scopeStackOf declTokens declChanges 3 9).headI - 2)).Tok).isType
            TokenType.TT_FunctionDeclarationName = true)) :=
  ⟨by decide, by decide, by decide,
   scope_containment declTokens declNameMatches 3 13 9 declChanges false 9 (by decide)
     (by decide)⟩

end ClangFormat

namespace ClangFormat

/-! ## C3: the sign of Spaces -/

set_option maxRecDepth 1000000 in
/-- C3 as stated fails: the ledger of
`int a[] = {` / `aaa, // c1` / `bbb, // c2` / `};` is created with Spaces >= 0
in every record.  calculateLineBreakInformation takes the Spaces of `aaa`, the
identifier after `{`, as PrevIdentifierTknSpacesValue = 4 and subtracts it
from the Spaces of the second comment: 1 - 4 = -3.  No later pass changes
that record, no assertion fails, and after all the passes its Spaces is
-3. -/
theorem negative_spaces_after_passes :
    commentedChanges.all (fun c => decide (0 ≤ c.Spaces)) = true ∧
    (Changes.at (calculateLineBreakInformation commentedManager).Changes 11).Spaces = -3 ∧
    (Changes.at (passPipeline commentedManager).Changes 11).Spaces = -3 ∧
    (passPipeline commentedManager).AssertsHeld = true ∧
    (passPipeline commentedManager).Faulted = false := by
  decide

/-- C3 as amended: the passes do not keep Spaces >= 0 in general, but every
call of AlignTokens does, in both overloads, as long as no assertion
Shift >= 0 fails.  On a ledger in which every record has Spaces >= 0 the call
returns, and if every assertion held, Spaces of no record is smaller than
before, so that every record still has Spaces >= 0. -/
theorem spaces_nonnegative_through_AlignTokens (T : TokenTable) (Style : FormatStyle)
    (Matches : Predicate) (cs : Changes) (P : Tally.Policy) (StartAt : Nat)
    (hs : StartAt ≤ cs.length) (h0 : ∀ j, 0 ≤ (Changes.at cs j).Spaces) :
    (∃ r, Tally.AlignTokens T Style Matches cs P StartAt = some r ∧
      (r.AssertsHeld = true → ∀ j, (Changes.at cs j).Spaces ≤ (Changes.at r.Changes j).Spaces ∧
        0 ≤ (Changes.at r.Changes j).Spaces)) ∧
    (∃ r, Stock.AlignTokens T Style Matches cs StartAt = some r ∧
      (r.AssertsHeld = true → ∀ j, (Changes.at cs j).Spaces ≤ (Changes.at r.Changes j).Spaces ∧
        0 ≤ (Changes.at r.Changes j).Spaces)) := by
  constructor
  · obtain ⟨r, hr, _⟩ := tally_AlignTokens_returns T Style Matches cs P StartAt hs
    refine ⟨r, hr, fun ha j => ?_⟩
    have hg := alignTokensAux_grows T _ (tally_overload_grows T Style P Matches) _ cs StartAt r hr ha j
    exact ⟨hg, Int.le_trans (h0 j) hg⟩
  · obtain ⟨r, hr, _⟩ := stock_AlignTokens_returns T Style Matches cs StartAt hs
    refine ⟨r, hr, fun ha j => ?_⟩
    have hg := alignTokensAux_grows T _ (stock_overload_grows T Style Matches) _ cs StartAt r hr ha j
    exact ⟨hg, Int.le_trans (h0 j) hg⟩

set_option maxRecDepth 1000000 in
/-- C3, witness: the amended statement at the ledger of `a = 1;`, an empty
line, `bbb = 2;`, whose records have Spaces >= 0, with the predicate and the
policy of the campaign on `=` across sections, from index 0. -/
theorem spaces_nonnegative_through_AlignTokens_witness :
    0 ≤ blankLineChanges.length ∧
    blankLineChanges.all (fun c => decide (0 ≤ c.Spaces)) = true ∧
    ((∃ r, Tally.AlignTokens blankLineTokens {} (equalsAcrossSectionsMatches blankLineTokens)
        blankLineChanges equalsAcrossSectionsPolicy 0 = some r ∧
      (r.AssertsHeld = true → ∀ j,
        (Changes.at blankLineChanges j).Spaces ≤ (Changes.at r.Changes j).Spaces ∧
        0 ≤ (Changes.at r.Changes j).Spaces)) ∧
    (∃ r, Stock.AlignTokens blankLineTokens {} (equalsAcrossSectionsMatches blankLineTokens)
        blankLineChanges 0 = some r ∧
      (r.AssertsHeld = true → ∀ j,
        (Changes.at blankLineChanges j).Spaces ≤ (Changes.at r.Changes j).Spaces ∧
        0 ≤ (Changes.at r.Changes j).Spaces))) :=
  ⟨by decide, by decide,
   spaces_nonnegative_through_AlignTokens blankLineTokens {}
     (equalsAcrossSectionsMatches blankLineTokens) blankLineChanges equalsAcrossSectionsPolicy 0
     (by decide) (spaces_nonneg_of_all blankLineChanges (by decide))⟩

end ClangFormat

namespace ClangFormat

/-! ## C5: a second run of the passes -/

end ClangFormat

namespace ClangFormat

/-! ## C1: the matching records of a sequence are aligned on the maximum column -/

end ClangFormat

namespace ClangFormat

/-! ## C4: the column limit in effect -/

end ClangFormat

namespace ClangFormat

/-! ## C11: a sequence with a single matching record -/

end ClangFormat

namespace ClangFormat

/-! ## C12: the snapping rule -/

end ClangFormat

namespace ClangFormat

/-! ## C13: the index that AlignTokens returns -/

/-- C13: AlignTokens, in either overload, called with StartAt on a ledger of
at least StartAt records, returns an index r with StartAt <= r <= size of the
ledger, and r > StartAt when StartAt is below the size, such that r is the
size or the record r has an indent-and-nesting level strictly below that of
the record StartAt, and no record in [StartAt, r) has a level below that of
the record StartAt.  The returned ledger is as long as the given one and has
the same levels. -/
theorem returned_index_stops_below_anchor (T : TokenTable) (Style : FormatStyle)
    (Matches : Predicate) (cs : Changes) (P : Tally.Policy) (StartAt : Nat)
    (h : StartAt ≤ cs.length) :
    (∃ r, Tally.AlignTokens T Style Matches cs P StartAt = some r ∧
      r.Changes.length = cs.length ∧
      (∀ k, indentAndNestingLevel T (Changes.at r.Changes k) =
        indentAndNestingLevel T (Changes.at cs k)) ∧
      StartAt ≤ r.StoppedAt ∧ r.StoppedAt ≤ cs.length ∧
      (StartAt < cs.length → StartAt < r.StoppedAt) ∧
      (r.StoppedAt = cs.length ∨
        Level.lt (indentAndNestingLevel T (Changes.at r.Changes r.StoppedAt))
          (indentAndNestingLevel T (Changes.at r.Changes StartAt)) = true) ∧
      ∀ k, StartAt ≤ k → k < r.StoppedAt →
        Level.lt (indentAndNestingLevel T (Changes.at r.Changes k))
          (indentAndNestingLevel T (Changes.at r.Changes StartAt)) = false) ∧
    (∃ r, Stock.AlignTokens T Style Matches cs StartAt = some r ∧
      r.Changes.length = cs.length ∧
      (∀ k, indentAndNestingLevel T (Changes.at r.Changes k) =
        indentAndNestingLevel T (Changes.at cs k)) ∧
      StartAt ≤ r.StoppedAt ∧ r.StoppedAt ≤ cs.length ∧
      (StartAt < cs.length → StartAt < r.StoppedAt) ∧
      (r.StoppedAt = cs.length ∨
        Level.lt (indentAndNestingLevel T (Changes.at r.Changes r.StoppedAt))
          (indentAndNestingLevel T (Changes.at r.Changes StartAt)) = true) ∧
      ∀ k, StartAt ≤ k → k < r.StoppedAt →
        Level.lt (indentAndNestingLevel T (Changes.at r.Changes k))
          (indentAndNestingLevel T (Changes.at r.Changes StartAt)) = false) :=
  ⟨alignTokensAux_contract T (Tally.overload T Style P Matches)
      (tally_overload_keepsFrame T Style P Matches) cs StartAt h,
   alignTokensAux_contract T (Stock.overload T Style Matches)
      (stock_overload_keepsFrame T Style Matches) cs StartAt h⟩

set_option maxRecDepth 1000000 in
/-- C13, witness: the call started at the record of `c`, the first record
between the braces of `a = {c ? 1 : 2, bbbbbbbb = 3};`, whose level is above
that of the records outside the braces. -/
theorem returned_index_stops_below_anchor_witness :
    3 ≤ nestedChanges.length ∧
    ((∃ r, Tally.AlignTokens nestedTokens {} (equalsAcrossSectionsMatches nestedTokens)
        nestedChanges equalsAcrossSectionsPolicy 3 = some r ∧
      r.Changes.length = nestedChanges.length ∧
      (∀ k, indentAndNestingLevel nestedTokens (Changes.at r.Changes k) =
        indentAndNestingLevel nestedTokens (Changes.at nestedChanges k)) ∧
      3 ≤ r.StoppedAt ∧ r.StoppedAt ≤ nestedChanges.length ∧
      (3 < nestedChanges.length → 3 < r.StoppedAt) ∧
      (r.StoppedAt = nestedChanges.length ∨
        Level.lt (indentAndNestingLevel nestedTokens (Changes.at r.Changes r.StoppedAt))
          (indentAndNestingLevel nestedTokens (Changes.at r.Changes 3)) = true) ∧
      ∀ k, 3 ≤ k → k < r.StoppedAt →
        Level.lt (indentAndNestingLevel nestedTokens (Changes.at r.Changes k))
          (indentAndNestingLevel nestedTokens (Changes.at r.Changes 3)) = false) ∧
    (∃ r, Stock.AlignTokens nestedTokens {} (equalsAcrossSectionsMatches nestedTokens)
        nestedChanges 3 = some r ∧
      r.Changes.length = nestedChanges.length ∧
      (∀ k, indentAndNestingLevel nestedTokens (Changes.at r.Changes k) =
        indentAndNestingLevel nestedTokens (Changes.at nestedChanges k)) ∧
      3 ≤ r.StoppedAt ∧ r.StoppedAt ≤ nestedChanges.length ∧
      (3 < nestedChanges.length → 3 < r.StoppedAt) ∧
      (r.StoppedAt = nestedChanges.length ∨
        Level.lt (indentAndNestingLevel nestedTokens (Changes.at r.Changes r.StoppedAt))
          (indentAndNestingLevel nestedTokens (Changes.at r.Changes 3)) = true) ∧
      ∀ k, 3 ≤ k → k < r.StoppedAt →
        Level.lt (indentAndNestingLevel nestedTokens (Changes.at r.Changes k))
          (indentAndNestingLevel nestedTokens (Changes.at r.Changes 3)) = false)) :=
  ⟨by decide,
   returned_index_stops_below_anchor nestedTokens {} (equalsAcrossSectionsMatches nestedTokens)
     nestedChanges equalsAcrossSectionsPolicy 3 (by decide)⟩

end ClangFormat

namespace ClangFormat

/-! ## C14: AlignTokens terminates -/

/-- C14: AlignTokens, in either overload, returns on every ledger and every
start index up to the size of the ledger.  The bound on the depth of the
recursion is never reached once it exceeds the number of records from
StartAt on: every such bound gives the same result, the one of AlignTokens.
A call started below the size of the ledger, as every recursive call is,
returns an index strictly greater than the one it was started at, so the scan
index of the caller strictly increases at `i = StoppedAt - 1; continue`. -/
theorem AlignTokens_terminates (T : TokenTable) (Style : FormatStyle) (Matches : Predicate)
    (cs : Changes) (P : Tally.Policy) (StartAt : Nat) (h : StartAt ≤ cs.length) :
    (∃ r, Tally.AlignTokens T Style Matches cs P StartAt = some r ∧
      (∀ depth, cs.length - StartAt ≤ depth →
        alignTokensAux T (Tally.overload T Style P Matches) (depth + 1) cs StartAt = some r) ∧
      (StartAt < cs.length → StartAt < r.StoppedAt) ∧ r.StoppedAt ≤ cs.length) ∧
    (∃ r, Stock.AlignTokens T Style Matches cs StartAt = some r ∧
      (∀ depth, cs.length - StartAt ≤ depth →
        alignTokensAux T (Stock.overload T Style Matches) (depth + 1) cs StartAt = some r) ∧
      (StartAt < cs.length → StartAt < r.StoppedAt) ∧ r.StoppedAt ≤ cs.length) := by
  constructor
  · obtain ⟨r, e, g⟩ := alignTokensAux_enough T (Tally.overload T Style P Matches)
      (tally_overload_keepsFrame T Style P Matches) cs StartAt h
    exact ⟨r, e cs.length (by omega), e, g⟩
  · obtain ⟨r, e, g⟩ := alignTokensAux_enough T (Stock.overload T Style Matches)
      (stock_overload_keepsFrame T Style Matches) cs StartAt h
    exact ⟨r, e cs.length (by omega), e, g⟩

set_option maxRecDepth 1000000 in
/-- C14, witness: the call from the start of the ledger of
`int z, a = f(1,` / `2), b = 3;` / `int q, ccc = 4;`, which descends into the
parentheses. -/
theorem AlignTokens_terminates_witness :
    0 ≤ wrappedChanges.length ∧
    ((∃ r, Tally.AlignTokens wrappedTokens {} (equalsAcrossSectionsMatches wrappedTokens)
        wrappedChanges equalsAcrossSectionsPolicy 0 = some r ∧
      (∀ depth, wrappedChanges.length - 0 ≤ depth →
        alignTokensAux wrappedTokens
          (Tally.overload wrappedTokens {} equalsAcrossSectionsPolicy
            (equalsAcrossSectionsMatches wrappedTokens)) (depth + 1) wrappedChanges 0 = some r) ∧
      (0 < wrappedChanges.length → 0 < r.StoppedAt) ∧ r.StoppedAt ≤ wrappedChanges.length) ∧
    (∃ r, Stock.AlignTokens wrappedTokens {} (equalsAcrossSectionsMatches wrappedTokens)
        wrappedChanges 0 = some r ∧
      (∀ depth, wrappedChanges.length - 0 ≤ depth →
        alignTokensAux wrappedTokens
          (Stock.overload wrappedTokens {} (equalsAcrossSectionsMatches wrappedTokens))
          (depth + 1) wrappedChanges 0 = some r) ∧
      (0 < wrappedChanges.length → 0 < r.StoppedAt) ∧ r.StoppedAt ≤ wrappedChanges.length)) :=
  ⟨by decide,
   AlignTokens_terminates wrappedTokens {} (equalsAcrossSectionsMatches wrappedTokens)
     wrappedChanges equalsAcrossSectionsPolicy 0 (by decide)⟩

end ClangFormat

namespace ClangFormat

/-! ## C15: the token length -/

/-- C15: for every record i that is not the last and whose next record is
not an inside-token change on the line, calculateLineBreakInformation sets
TokenLength to the file offset of the whitespace start of record i + 1 minus
the file offset of the whitespace end of record i, plus the length of the
PreviousLinePostfix of record i + 1 plus the length of the CurrentLinePrefix
of record i, when the source text between the two holds no line feed, and
otherwise to the position of the first line feed in that text plus the length
of the CurrentLinePrefix of record i (the value `tokenLengthTo`); the last
record gets TokenLength 0.  The ledger is sorted, as the function asserts,
the value is a value of `unsigned`, and the first record of the ledger is not
an inside-token change. -/
theorem token_length_is_distance_to_next (W : WhitespaceManager) (i : Nat)
    (hi : i + 1 < W.Changes.length)
    (hnext : insideLine (Changes.at W.Changes (i + 1)) = false)
    (hfirst : i = 0 → insideLine (Changes.at W.Changes 0) = false)
    (hsorted : (Changes.at W.Changes i).OriginalWhitespaceEnd ≤
      (Changes.at W.Changes (i + 1)).OriginalWhitespaceBegin)
    (hsmall : tokenLengthTo W.SourceText (Changes.at W.Changes i)
      (Changes.at W.Changes (i + 1)) < 4294967296) :
    ((Changes.at (calculateLineBreakInformation W).Changes i).TokenLength : Int) =
      tokenLengthTo W.SourceText (Changes.at W.Changes i) (Changes.at W.Changes (i + 1)) ∧
    (Changes.at (calculateLineBreakInformation W).Changes (W.Changes.length - 1)).TokenLength =
      0 := by
  constructor
  · rw [calculateLineBreakInformation_tokenLength W i hi hnext hfirst]
    exact toUnsigned_of_range _ (tokenLengthTo_nonneg _ _ _ hsorted) hsmall
  · exact calculateLineBreakInformation_tokenLength_last W (by omega)

set_option maxRecDepth 1000000 in
/-- C15, witness: the record of the first comment in
`int a[] = {` / `aaa, // c1` / `bbb, // c2` / `};`: the comment is 5
characters long and the next record starts the next line. -/
theorem token_length_is_distance_to_next_witness :
    tokenLengthTo commentedManager.SourceText (Changes.at commentedManager.Changes 8)
      (Changes.at commentedManager.Changes 9) = 5 ∧
    ((Changes.at (calculateLineBreakInformation commentedManager).Changes 8).TokenLength : Int) =
      tokenLengthTo commentedManager.SourceText (Changes.at commentedManager.Changes 8)
        (Changes.at commentedManager.Changes 9) ∧
    (Changes.at (calculateLineBreakInformation commentedManager).Changes
      (commentedManager.Changes.length - 1)).TokenLength = 0 :=
  ⟨by decide,
   token_length_is_distance_to_next commentedManager 8 (by decide) (by decide) (by decide)
     (by decide) (by decide)⟩

end ClangFormat

namespace ClangFormat

/-! ## C16: the classification of trailing comments -/

set_option maxRecDepth 1000000 in
/-- C16 as stated fails: in the ledger of `// line 1` / `// line 2` after the
second comment was reflowed up, the tokens of records 1 and 2 are comments;
record 1 is followed by an inside-token change of a comment, record 2 by the
record of the end of the file, which starts a line.  As stated both are
trailing comments.  calculateLineBreakInformation leaves IsTrailingComment
false in both: the whitespace of record 2 starts where that of record 1 ends,
and record 2 is an inside-token change that does not start a line. -/
theorem trailing_flag_has_two_more_conditions :
    trailingAsStated reflowTokens reflowChanges 1 = true ∧
    trailingAsStated reflowTokens reflowChanges 2 = true ∧
    (Changes.at (calculateLineBreakInformation reflowManager).Changes 1).IsTrailingComment =
      false ∧
    (Changes.at (calculateLineBreakInformation reflowManager).Changes 2).IsTrailingComment =
      false ∧
    nextStartsAtEnd reflowChanges 1 = true ∧
    insideLine (Changes.at reflowChanges 2) = true := by
  decide

/-- C16 as amended: after calculateLineBreakInformation, IsTrailingComment of
a record is true if and only if the token of the record is a comment, and the
following record starts a new line or is the end of the stream or is an
inside-token change of a comment or there is no following record, and the
whitespace of the following record does not start at the file offset at which
the whitespace of the record ends, and the record is not an inside-token
change that does not start a line. -/
theorem trailing_comment_classification (W : WhitespaceManager) (i : Nat)
    (hi : i < W.Changes.length) :
    (Changes.at (calculateLineBreakInformation W).Changes i).IsTrailingComment =
      (trailingAsStated W.Toks W.Changes i && !nextStartsAtEnd W.Changes i &&
        !insideLine (Changes.at W.Changes i)) :=
  calculateLineBreakInformation_trailing W i hi

set_option maxRecDepth 1000000 in
/-- C16, witness: the record of the first comment in
`int a[] = {` / `aaa, // c1` / `bbb, // c2` / `};` is a trailing comment. -/
theorem trailing_comment_classification_witness :
    8 < commentedManager.Changes.length ∧
    (trailingAsStated commentedManager.Toks commentedManager.Changes 8 &&
      !nextStartsAtEnd commentedManager.Changes 8 &&
      !insideLine (Changes.at commentedManager.Changes 8)) = true ∧
    (Changes.at (calculateLineBreakInformation commentedManager).Changes 8).IsTrailingComment =
      (trailingAsStated commentedManager.Toks commentedManager.Changes 8 &&
        !nextStartsAtEnd commentedManager.Changes 8 &&
        !insideLine (Changes.at commentedManager.Changes 8)) :=
  ⟨by decide, by decide, trailing_comment_classification commentedManager 8 (by decide)⟩

end ClangFormat

namespace ClangFormat

/-! ## C17: inside-token changes are no trailing comments -/

/-- C17: after calculateLineBreakInformation, every record that is an
inside-token change not starting a line (IsInsideToken and NewlinesBefore =
0) has IsTrailingComment = false, whatever follows it. -/
theorem inside_token_change_is_no_trailing_comment (W : WhitespaceManager) (i : Nat)
    (hi : i < W.Changes.length) (h : insideLine (Changes.at W.Changes i) = true) :
    (Changes.at (calculateLineBreakInformation W).Changes i).IsTrailingComment = false := by
  rw [calculateLineBreakInformation_trailing W i hi]
  unfold trailingAsComputed
  rw [h]
  simp

set_option maxRecDepth 1000000 in
/-- C17, witness: the inside-token record produced by reflowing the second
line of the two-line comment run `// line 1` / `// line 2`; the record after
it starts a line. -/
theorem inside_token_change_is_no_trailing_comment_witness :
    insideLine (Changes.at reflowManager.Changes 2) = true ∧
    (reflowManager.Toks.at (Changes.at reflowManager.Changes 2).Tok).is TokenKind.comment = true ∧
    (Changes.at reflowManager.Changes 3).NewlinesBefore > 0 ∧
    (Changes.at (calculateLineBreakInformation reflowManager).Changes 2).IsTrailingComment =
      false :=
  ⟨by decide, by decide, by decide,
   inside_token_change_is_no_trailing_comment reflowManager 2 (by decide) (by decide)⟩

end ClangFormat

namespace ClangFormat

/-! ## C18: the conditional nesting level -/

/-- C18: calculateLineBreakInformation assigns each record a
ConditionalsLevel equal to the number of conditional-precedence fake
parentheses that are open at that record (opened by this or an earlier record
and not yet closed by the FakeRParens of an earlier record), not counting a
conditional fake parenthesis that is the outermost one of a token directly
preceded by the colon of a conditional expression; the number is reduced
modulo 2^32 by the conversion to `unsigned`.  The running level of the loop
is, after any number of records of any ledger, the number of such fake
parentheses still open; it is never negative, neither after a record nor
while the fake parentheses of a record are closed, and it is 0 when no fake
parenthesis is left open. -/
theorem conditionals_level_counts_open_conditionals (W : WhitespaceManager) :
    (∀ i, i < W.Changes.length →
      (Changes.at (calculateLineBreakInformation W).Changes i).ConditionalsLevel =
        conditionalsOpenAt W.Toks W.Changes i % 4294967296) ∧
    (∀ (cs : Changes) (n : Nat),
      ((List.range n).foldl (conditionalStep W.Toks) (cs, [], 0)).2.2 =
        (conditionalsOpenAfter W.Toks cs n : Int) ∧
      0 ≤ ((List.range n).foldl (conditionalStep W.Toks) (cs, [], 0)).2.2 ∧
      (fakeParensOpenAfter W.Toks cs n = [] →
        ((List.range n).foldl (conditionalStep W.Toks) (cs, [], 0)).2.2 = 0) ∧
      ∀ m, 0 ≤ (closeFakeParens m
        (openFakeParens (afterConditionalColon W.Toks (W.Toks.at (Changes.at cs n).Tok))
          (W.Toks.at (Changes.at cs n).Tok).FakeLParens.reverse 0
          ((List.range n).foldl (conditionalStep W.Toks) (cs, [], 0)).2)).2) := by
  refine ⟨fun i hi => calculateLineBreakInformation_conditionalsLevel W i hi, ?_⟩
  intro cs n
  have h := (conditional_fold_spec W.Toks cs cs (fun _ => rfl) n).1
  have h2 : ((List.range n).foldl (conditionalStep W.Toks) (cs, [], 0)).2.2 =
      (conditionalsOpenAfter W.Toks cs n : Int) := by
    rw [h]
  refine ⟨h2, ?_, ?_, ?_⟩
  · rw [h2]
    exact Int.ofNat_nonneg _
  · intro he
    rw [h2]
    unfold conditionalsOpenAfter
    rw [he]
    rfl
  · intro m
    rw [conditional_closing_spec]
    exact Int.ofNat_nonneg _

set_option maxRecDepth 1000000 in
/-- C18, witness: in `a = c ? 1 : d ? 2 : 3;` the conditional fake
parenthesis opened at `c` is open at `d`, and the one opened at `d`, directly
after the colon, does not count: the level of `d` is 1.  After the line no
fake parenthesis is open. -/
theorem conditionals_level_counts_open_conditionals_witness :
    6 < chainedManager.Changes.length ∧
    conditionalsOpenAt chainedManager.Toks chainedManager.Changes 6 = 1 ∧
    fakeParensOpenAfter chainedManager.Toks chainedManager.Changes 13 = [] ∧
    (Changes.at (calculateLineBreakInformation chainedManager).Changes 6).ConditionalsLevel =
      conditionalsOpenAt chainedManager.Toks chainedManager.Changes 6 % 4294967296 ∧
    ((List.range 13).foldl (conditionalStep chainedManager.Toks)
      (chainedManager.Changes, [], 0)).2.2 = 0 :=
  ⟨by decide, by decide, by decide,
   (conditionals_level_counts_open_conditionals chainedManager).1 6 (by decide),
   ((conditionals_level_counts_open_conditionals chainedManager).2 chainedManager.Changes
     13).2.2.1 (by decide)⟩

end ClangFormat

namespace ClangFormat

/-! ## C19: the replacement text -/

set_option maxRecDepth 1000000 in
/-- C19 as stated fails for a record that continues a line continuation: in
the ledger of `#define F \` / `    x` the records of `F` and of `x` have
CreateReplacement set and continue the directive.  As stated their texts are
the escaped line breaks alone: nothing for `F`, and two blanks, a backslash
and a line feed for `x`.  generateChanges appends the indentation text in
this case too: the text of `F` is one blank, and the text of `x`, which is
registered as a replacement, ends with the four blanks of its indentation. -/
theorem continuation_record_gets_indentation :
    (Changes.at macroManager.Changes 2).CreateReplacement = true ∧
    (Changes.at macroManager.Changes 2).ContinuesPPDirective = true ∧
    (Changes.at macroManager.Changes 3).CreateReplacement = true ∧
    (Changes.at macroManager.Changes 3).ContinuesPPDirective = true ∧
    replacementTextAsStated macroManager (Changes.at macroManager.Changes 2) = [] ∧
    replacementText macroManager (Changes.at macroManager.Changes 2) = [' '] ∧
    replacementTextAsStated macroManager (Changes.at macroManager.Changes 3) =
      [' ', ' ', '\\', '\n'] ∧
    replacementText macroManager (Changes.at macroManager.Changes 3) =
      [' ', ' ', '\\', '\n', ' ', ' ', ' ', ' '] ∧
    (generateChanges macroManager).Replaces =
      [⟨9, 7, [' ', ' ', '\\', '\n', ' ', ' ', ' ', ' ']⟩] := by
  decide

/-- C19 as amended: the replacement text that generateChanges builds for a
record is PreviousLinePostfix, then the escaped line breaks if the record
continues a line continuation and otherwise the NewlinesBefore line breaks,
then in both cases the indentation text for the indent level and the Spaces
of the record under the configured UseTab style, then CurrentLinePrefix.  On
a ledger whose whitespace ranges are in order, with no replacement registered
before, generateChanges registers exactly the replacements of the records
that have CreateReplacement set and whose text differs from the source text
of their range, in the order of the ledger; a record without
CreateReplacement produces no replacement. -/
theorem replacement_text_in_parts (W : WhitespaceManager)
    (hr : rangesInOrder W.Changes = true) (h0 : W.Replaces = []) :
    (∀ C : Change, replacementText W C =
      C.PreviousLinePostfixText ++
        (if C.ContinuesPPDirective then escapedNewlineText W C
         else newlineText W C.NewlinesBefore) ++
        indentText W C ++ C.CurrentLinePrefixText) ∧
    generateChanges W = { W with Replaces := expectedReplacements W } ∧
    (∀ r : Replacement, r ∈ (generateChanges W).Replaces ↔
      ∃ C, C ∈ W.Changes ∧ C.CreateReplacement = true ∧
        replacementText W C ≠ originalText W.SourceText C.OriginalWhitespaceBegin
          (C.OriginalWhitespaceEnd - C.OriginalWhitespaceBegin) ∧
        r = ⟨C.OriginalWhitespaceBegin, C.OriginalWhitespaceEnd - C.OriginalWhitespaceBegin,
          replacementText W C⟩) := by
  refine ⟨fun C => replacementText_eq W C, generateChanges_spec W hr h0, ?_⟩
  intro r
  rw [generateChanges_spec W hr h0]
  show r ∈ expectedReplacements W ↔ _
  unfold expectedReplacements
  rw [List.mem_filterMap]
  constructor
  · rintro ⟨C, hC, h⟩
    unfold expectedReplacement at h
    split at h
    · rename_i hc
      simp only [Option.some.injEq] at h
      refine ⟨C, hC, hc.1, ?_, ?_⟩
      · rw [replacementText_eq]
        exact hc.2
      · rw [replacementText_eq, ← h]
    · exact absurd h (by simp)
  · rintro ⟨C, hC, h1, h2, h3⟩
    refine ⟨C, hC, ?_⟩
    unfold expectedReplacement
    rw [replacementText_eq] at h2 h3
    rw [if_pos ⟨h1, h2⟩, h3]

set_option maxRecDepth 1000000 in
/-- C19, witness: the ledger of `#define F \` / `    x`, of which only the
record of `x` gets a text that differs from the source. -/
theorem replacement_text_in_parts_witness :
    rangesInOrder macroManager.Changes = true ∧ macroManager.Replaces = [] ∧
    expectedReplacements macroManager = [⟨9, 7, [' ', ' ', '\\', '\n', ' ', ' ', ' ', ' ']⟩] ∧
    generateChanges macroManager =
      { macroManager with Replaces := expectedReplacements macroManager } :=
  ⟨by decide, rfl, by decide,
   (replacement_text_in_parts macroManager (by decide) rfl).2.1⟩

end ClangFormat

namespace ClangFormat

/-! ## C20: storeReplacement -/

/-- C20: storeReplacement, called with a range that overlaps no registered
replacement (otherwise Replaces.add reports an error and `assert(false)` is
reached), registers no replacement exactly when the replacement text is equal
to the source text of the range, and otherwise registers exactly one
replacement, covering that range with that text: the registered replacements
are the former ones and the new one.  No assertion fails. -/
theorem storeReplacement_registers_changed_text (W : WhitespaceManager) (b e : Nat)
    (Text : List Char)
    (hfree : W.Replaces.any (fun q => q.overlaps ⟨b, toUnsigned ((e : Int) - b), Text⟩) = false) :
    ((storeReplacement W b e Text).Replaces = W.Replaces ↔
      Text = originalText W.SourceText b (toUnsigned ((e : Int) - b))) ∧
    (Text ≠ originalText W.SourceText b (toUnsigned ((e : Int) - b)) →
      (storeReplacement W b e Text).Replaces =
        insertReplacement ⟨b, toUnsigned ((e : Int) - b), Text⟩ W.Replaces ∧
      (storeReplacement W b e Text).Replaces.length = W.Replaces.length + 1 ∧
      ∀ q, q ∈ (storeReplacement W b e Text).Replaces ↔
        q = ⟨b, toUnsigned ((e : Int) - b), Text⟩ ∨ q ∈ W.Replaces) ∧
    (storeReplacement W b e Text).AssertsHeld = W.AssertsHeld ∧
    (storeReplacement W b e Text).Changes = W.Changes := by
  by_cases h : Text = originalText W.SourceText b (toUnsigned ((e : Int) - b))
  · rw [storeReplacement_same W b e Text h]
    exact ⟨⟨fun _ => h, fun _ => rfl⟩, fun h' => absurd h h', rfl, rfl⟩
  · rw [storeReplacement_new W b e Text h hfree]
    refine ⟨⟨?_, fun h' => absurd h' h⟩, fun _ => ⟨rfl, insertReplacement_length _ _, ?_⟩, rfl, rfl⟩
    · intro h'
      have h1 := congrArg List.length h'
      have h2 := insertReplacement_length ⟨b, toUnsigned ((e : Int) - b), Text⟩ W.Replaces
      have h3 : (insertReplacement ⟨b, toUnsigned ((e : Int) - b), Text⟩ W.Replaces).length =
          W.Replaces.length := h1
      omega
    · intro q
      exact insertReplacement_mem _ _ q

set_option maxRecDepth 1000000 in
/-- C20, witness: in `#define F \` / `    x` the whitespace before `x`, from
offset 9 to offset 16, is a blank, a backslash, a line feed and four blanks;
a text with two blanks before the backslash is registered, the text of the
source is not. -/
theorem storeReplacement_registers_changed_text_witness :
    originalText macroManager.SourceText 9 (toUnsigned ((16 : Int) - 9)) =
      [' ', '\\', '\n', ' ', ' ', ' ', ' '] ∧
    (storeReplacement macroManager 9 16 [' ', '\\', '\n', ' ', ' ', ' ', ' ']).Replaces = [] ∧
    (storeReplacement macroManager 9 16 [' ', ' ', '\\', '\n', ' ', ' ', ' ', ' ']).Replaces =
      [⟨9, 7, [' ', ' ', '\\', '\n', ' ', ' ', ' ', ' ']⟩] ∧
    ((storeReplacement macroManager 9 16 [' ', ' ', '\\', '\n', ' ', ' ', ' ', ' ']).Replaces =
        macroManager.Replaces ↔
      [' ', ' ', '\\', '\n', ' ', ' ', ' ', ' '] =
        originalText macroManager.SourceText 9 (toUnsigned ((16 : Int) - 9))) :=
  ⟨by decide, by decide, by decide,
   (storeReplacement_registers_changed_text macroManager 9 16
     [' ', ' ', '\\', '\n', ' ', ' ', ' ', ' '] (by decide)).1⟩

end ClangFormat

namespace ClangFormat

/-! ## C21: the column of the escaped newlines of a macro -/

/-- In the example ledger the records 1 to 5 are one macro. -/
theorem escapedManager_isMacro : IsMacro escapedChanges 0 6 :=
  ⟨by decide, by decide, Or.inl rfl, Or.inr (by decide), by
    intro j j1 j2
    have hj : j = 1 ∨ j = 2 ∨ j = 3 ∨ j = 4 ∨ j = 5 := by omega
    rcases hj with h | h | h | h | h <;> subst h <;> decide⟩

/-- C21: alignEscapedNewlines, when it is not disabled, on a ledger whose
end columns are values of the type unsigned.  No assertion fails.  In every
macro, that is in every maximal run of records between two line-starting
records that continue no directive (or the ends of the ledger), each
line-starting record continues the directive and gets the same
EscapedNewlineColumn, the column of the macro: with left alignment the
largest PreviousEndOfTokenColumn + 2 among the line-starting records of the
macro, with right alignment the larger of that value and Style.ColumnLimit.
The column is not 0, it is at least the record's own
PreviousEndOfTokenColumn + 2, and the largest value is taken by a
line-starting record of the macro.  Every line-starting record after the
first record that continues a directive lies in a macro. -/
theorem escaped_newlines_share_macro_column (W : WhitespaceManager)
    (hon : W.Style.AlignEscapedNewlines ≠ EscapedNewlineAlignmentStyle.ENAS_DontAlign)
    (hs : endColumnsFit W.Changes = true) :
    (alignEscapedNewlines W).AssertsHeld = W.AssertsHeld ∧
    (∀ a e, IsMacro W.Changes a e → ∀ k, a < k → k < e →
      (Changes.at W.Changes k).NewlinesBefore > 0 →
      (Changes.at W.Changes k).ContinuesPPDirective = true ∧
      (Changes.at (alignEscapedNewlines W).Changes k).EscapedNewlineColumn =
        macroColumn W.Style W.Changes a e ∧
      (Changes.at (alignEscapedNewlines W).Changes k).EscapedNewlineColumn ≠ 0 ∧
      (Changes.at W.Changes k).PreviousEndOfTokenColumn + 2 ≤
        (Changes.at (alignEscapedNewlines W).Changes k).EscapedNewlineColumn ∧
      ∃ j, a < j ∧ j < e ∧ (Changes.at W.Changes j).NewlinesBefore > 0 ∧
        (Changes.at W.Changes j).ContinuesPPDirective = true ∧
        (Changes.at W.Changes j).PreviousEndOfTokenColumn + 2 =
          largestEndOfLine W.Changes a e) ∧
    (∀ k, 0 < k → k < W.Changes.length → (Changes.at W.Changes k).NewlinesBefore > 0 →
      (Changes.at W.Changes k).ContinuesPPDirective = true →
      ∃ a e, IsMacro W.Changes a e ∧ a < k ∧ k < e) := by
  have hspec := alignEscapedNewlinesOn_spec W.Style W.Changes hon hs
  refine ⟨?_, ?_, ?_⟩
  · show (W.AssertsHeld && (alignEscapedNewlinesOn W.Style W.Changes).2) = W.AssertsHeld
    rw [hspec.1]
    simp
  · intro a e hM k k1 k2 k3
    have hpp : (Changes.at W.Changes k).ContinuesPPDirective = true := by
      have hk := hM.inner k k1 k2
      unfold endsMacro at hk
      simp only [Bool.and_eq_false_iff, decide_eq_false_iff_not, Bool.not_eq_false'] at hk
      rcases hk with hk | hk
      · exact absurd k3 hk
      · exact hk
    have hcol : (Changes.at (alignEscapedNewlines W).Changes k).EscapedNewlineColumn =
        macroColumn W.Style W.Changes a e := hspec.2 a e hM k k1 k2 k3
    have hge := largestEndOfLine_ge W.Changes a (e - (a + 1)) e (by omega) k k1 k2 k3 hpp
    have hle : largestEndOfLine W.Changes a e ≤ macroColumn W.Style W.Changes a e := by
      rw [macroColumn_eq]
      exact Nat.le_max_left _ _
    refine ⟨hpp, hcol, by rw [hcol]; omega, by rw [hcol]; omega, ?_⟩
    rcases largestEndOfLine_attained W.Changes a (e - (a + 1)) e (by omega) with h0 | hj
    · omega
    · exact hj
  · intro k h0 hk hn hp
    exact isMacro_exists W.Changes k h0 hk (endsMacro_of_continues W.Changes k (Or.inr hp))

/-- C21, witness: in the ledger of `#define A x \`, `    yy \`, `    z`,
`int q;` with left alignment the records 1 to 5 are one macro, its
line-starting records 4 and 5 have PreviousEndOfTokenColumn 11 and 6, and
both get EscapedNewlineColumn 13. -/
theorem escaped_newlines_share_macro_column_witness :
    macroColumn escapedManager.Style escapedChanges 0 6 = 13 ∧
    (Changes.at (alignEscapedNewlines escapedManager).Changes 4).EscapedNewlineColumn = 13 ∧
    (Changes.at (alignEscapedNewlines escapedManager).Changes 5).EscapedNewlineColumn = 13 ∧
    (alignEscapedNewlines escapedManager).AssertsHeld = true := by
  have h := escaped_newlines_share_macro_column escapedManager (by decide) (by decide)
  have h4 := (h.2.1 0 6 escapedManager_isMacro 4 (by decide) (by decide) (by decide)).2.1
  have h5 := (h.2.1 0 6 escapedManager_isMacro 5 (by decide) (by decide) (by decide)).2.1
  have hc : macroColumn escapedManager.Style escapedChanges 0 6 = 13 := by decide
  exact ⟨hc, h4.trans hc, h5.trans hc, h.1⟩

end ClangFormat

namespace ClangFormat

/-! ## C22: passes behind a switch that is off -/

/-- C22: each pass behind an enable switch returns the manager it was given
when its switch is off.  With Style.AlignConsecutiveAssignments false the
seven assignment campaigns leave the whole state, and so every record of the
ledger, unchanged; with Style.AlignConsecutiveDeclarations false the six
columnarize passes leave the whole state unchanged: the ledger, the token
table and the accumulators MaxSpecifierTabs, MaxDatatypeLen, MaxMemberNameLen
and MaxGlobalVarNameLen. -/
theorem switched_off_passes_change_nothing (W : WhitespaceManager) :
    (W.Style.AlignConsecutiveAssignments = false →
      alignConsecutiveAssignmentsOnScopedVarName W = W ∧
      alignConsecutiveAssignmentsOnVarNameAcrossSections W = W ∧
      alignConsecutiveAssignmentsOnVarNameWithinSection W = W ∧
      alignConsecutiveAssignmentsOnEqualsAcrossSections W = W ∧
      alignConsecutiveAssignmentsOnEqualsWithinSection W = W ∧
      alignConsecutiveLBraceOfVarDeclOrDef W = W ∧
      alignConsecutiveAssignementsOnUsing W = W) ∧
    (W.Style.AlignConsecutiveDeclarations = false →
      columnarizeKeywords W = W ∧
      columnarizeDeclarationSpecifierTokens W = W ∧
      columnarizeDatatypeTokens W = W ∧
      columnarizeNoDiscardOrNoReturnOrTemplate W = W ∧
      columnarizeIdentifierTokens W = W ∧
      columnarizeLParenTokensAndSplitArgs W = W) := by
  constructor
  · intro h
    unfold alignConsecutiveAssignmentsOnScopedVarName
      alignConsecutiveAssignmentsOnVarNameAcrossSections
      alignConsecutiveAssignmentsOnVarNameWithinSection
      alignConsecutiveAssignmentsOnEqualsAcrossSections
      alignConsecutiveAssignmentsOnEqualsWithinSection
      alignConsecutiveLBraceOfVarDeclOrDef
      alignConsecutiveAssignementsOnUsing
    simp [h]
  · intro h
    unfold columnarizeKeywords columnarizeDeclarationSpecifierTokens columnarizeDatatypeTokens
      columnarizeNoDiscardOrNoReturnOrTemplate columnarizeIdentifierTokens
      columnarizeLParenTokensAndSplitArgs
    simp [h]

/-- C22, witness: in the manager of the ledger of `int a : 1;` and
`int bbb : 2;` every switch is off; the campaign on `=` across sections and
the pass over the identifiers return the ledger as it was, and
columnarizeDatatypeTokens leaves MaxSpecifierTabs at 0. -/
theorem switched_off_passes_change_nothing_witness :
    (alignConsecutiveAssignmentsOnEqualsAcrossSections bitFieldManager).Changes =
      bitFieldChanges ∧
    (columnarizeIdentifierTokens bitFieldManager).Changes = bitFieldChanges ∧
    (columnarizeDatatypeTokens bitFieldManager).MaxSpecifierTabs = 0 := by
  have h := switched_off_passes_change_nothing bitFieldManager
  refine ⟨?_, ?_, ?_⟩
  · rw [(h.1 rfl).2.2.2.1]
    rfl
  · rw [(h.2 rfl).2.2.2.2.1]
    rfl
  · rw [(h.2 rfl).2.2.1]
    rfl

end ClangFormat

namespace ClangFormat

/-! ## C23: the campaign on bit-field colons -/

set_option maxRecDepth 1000000 in
/-- C23, the divergence: in the manager of the ledger of `int a : 1;` and
`int bbb : 2;` the switches AlignConsecutiveBitFields and
AlignConsecutiveAssignments are off.  The stock campaign on bit-field colons,
alignConsecutiveBitFields, which tests the switch, returns the manager as it
was, and so does the sibling campaign on `=` across sections, which tests its
switch.  The campaign that generateReplacements runs,
alignConsecutiveVarBitFields, tests no switch: it moves the first colon from
column 6 to column 8, next to the second colon, its Spaces from 1 to 3, with
no assertion failed; the same is the outcome of the whole pass pipeline. -/
theorem bit_field_colons_aligned_with_switch_off :
    bitFieldManager.Style.AlignConsecutiveBitFields = false ∧
    bitFieldManager.Style.AlignConsecutiveAssignments = false ∧
    alignConsecutiveBitFields bitFieldManager = bitFieldManager ∧
    alignConsecutiveAssignmentsOnEqualsAcrossSections bitFieldManager = bitFieldManager ∧
    (bitFieldManager.Changes.at 2).Spaces = 1 ∧
    (bitFieldManager.Changes.at 2).StartOfTokenColumn = 6 ∧
    ((alignConsecutiveVarBitFields bitFieldManager).Changes.at 2).Spaces = 3 ∧
    ((alignConsecutiveVarBitFields bitFieldManager).Changes.at 2).StartOfTokenColumn = 8 ∧
    ((alignConsecutiveVarBitFields bitFieldManager).Changes.at 7).StartOfTokenColumn = 8 ∧
    (alignConsecutiveVarBitFields bitFieldManager).AssertsHeld = true ∧
    ((passPipeline bitFieldManager).Changes.at 2).Spaces = 3 ∧
    ((passPipeline bitFieldManager).Changes.at 2).StartOfTokenColumn = 8 := by
  refine ⟨rfl, rfl, rfl, rfl, ?_, ?_, ?_, ?_, ?_, ?_, ?_, ?_⟩ <;> decide

end ClangFormat

namespace ClangFormat

/-! ## C24: alignTrailingComments with the switch off -/

/-- C24: with Style.AlignTrailingComments false, alignTrailingComments
changes no record of a ledger in which no record has a block-comment start
and whose columns are values of the type unsigned: the manager is returned as
it was, no assertion fails, and so Spaces, StartOfTokenColumn and
PreviousEndOfTokenColumn of every record are the same after the call as
before. -/
theorem trailing_comments_untouched_when_off (W : WhitespaceManager)
    (hoff : W.Style.AlignTrailingComments = false)
    (hnone : noBlockCommentStart W.Changes = true)
    (hr : columnsInRange W.Changes = true) :
    alignTrailingComments W = W ∧
    ∀ i, (Changes.at (alignTrailingComments W).Changes i).Spaces = (Changes.at W.Changes i).Spaces ∧
      (Changes.at (alignTrailingComments W).Changes i).StartOfTokenColumn =
        (Changes.at W.Changes i).StartOfTokenColumn ∧
      (Changes.at (alignTrailingComments W).Changes i).PreviousEndOfTokenColumn =
        (Changes.at W.Changes i).PreviousEndOfTokenColumn := by
  have h : alignTrailingComments W = W := by
    unfold alignTrailingComments
    simp only []
    rw [alignTrailingCommentsOn_off W.Toks W.Style W.SourceText W.Changes hoff
      (noBlockCommentStart_at W.Changes hnone) hr]
    simp
  refine ⟨h, ?_⟩
  intro i
  rw [h]
  exact ⟨rfl, rfl, rfl⟩

set_option maxRecDepth 1000000 in
/-- C24, witness: the ledger of `a; // x` and `bbb; // y` has its trailing
comments in columns 3 and 5.  With AlignTrailingComments off the call returns
the manager as it was; with the switch on, the same call moves the first
comment to column 5. -/
theorem trailing_comments_untouched_when_off_witness :
    alignTrailingComments trailingManager = trailingManager ∧
    (Changes.at trailingManager.Changes 2).IsTrailingComment = true ∧
    (Changes.at trailingManager.Changes 2).StartOfTokenColumn = 3 ∧
    (Changes.at (alignTrailingComments
      { trailingManager with Style := { AlignTrailingComments := true } }).Changes
        2).StartOfTokenColumn = 5 :=
  ⟨(trailing_comments_untouched_when_off trailingManager rfl (by decide) (by decide)).1,
    by decide, by decide, by decide⟩

end ClangFormat

namespace ClangFormat

/-! ## C25: MissingNotBraces -/

set_option maxRecDepth 1000000 in
/-- C25: MissingNotBraces ends on every buffer, and on a buffer without
slashes, quotes and terminators inside it returns true exactly when the
brackets are balanced and properly nested.  With quotes and comments it does
not decide the property.  On the buffer of a blank, the character literal of
x and a closing parenthesis it returns true although the parenthesis has no
partner: the quote that closes the literal follows the letter x, which passes
the test meant for digits before a quote, so the quote is passed over and the
rest of the buffer counts as part of the literal.  On the buffer of a pair of
braces around the same literal, for the same reason, it returns false
although the braces are balanced.  On the buffer of the block comment of one
star followed by an opening parenthesis it returns true: the scan of the
comment steps over the star before the closing slash, misses the end of the
comment and takes the parenthesis for a part of it. -/
theorem MissingNotBraces_misjudges_brackets :
    (∀ BufStr : List Char, MissingNotBraces BufStr ≠ ScanResult.unfinished) ∧
    (∀ BufStr : List Char, BufStr.all plainChar = true →
      MissingNotBraces BufStr =
        ScanResult.returned (balancedOutsideCommentsAndLiterals BufStr)) ∧
    MissingNotBraces strayParenBuffer = ScanResult.returned true ∧
    balancedOutsideCommentsAndLiterals strayParenBuffer = false ∧
    MissingNotBraces bracedLiteralBuffer = ScanResult.returned false ∧
    balancedOutsideCommentsAndLiterals bracedLiteralBuffer = true ∧
    MissingNotBraces starCommentBuffer = ScanResult.returned true ∧
    balancedOutsideCommentsAndLiterals starCommentBuffer = false ∧
    MissingNotBraces balancedBuffer = ScanResult.returned true ∧
    balancedOutsideCommentsAndLiterals balancedBuffer = true :=
  ⟨MissingNotBraces_finishes, MissingNotBraces_plain, by decide, by decide, by decide,
    by decide, by decide, by decide, by decide, by decide⟩

set_option maxRecDepth 1000000 in
/-- C25, witness: the buffer of the nested brackets `{[()]}` has no slash and
no quote; its brackets are balanced and MissingNotBraces returns true. -/
theorem MissingNotBraces_misjudges_brackets_witness :
    nestedBuffer.all plainChar = true ∧
    balancedOutsideCommentsAndLiterals nestedBuffer = true ∧
    MissingNotBraces nestedBuffer = ScanResult.returned true :=
  ⟨by decide, by decide,
    (MissingNotBraces_misjudges_brackets.2.1 nestedBuffer (by decide)).trans (by decide)⟩

end ClangFormat

namespace ClangFormat

/-! ## C26: the upper column bound of a matching record -/

/-- C26: the value LineLengthAfter of the Tally AlignTokens at record i.  If
the record does not start a line, it is the remaining length of the line: the
TokenLength of the record plus Spaces and TokenLength of every later record
of the line, so ChangeMaxColumn is the column limit in effect minus that
length.  If the record starts a line (NewlinesBefore > 0), the loop that adds
the records of the line does not run: LineLengthAfter is minus the Spaces of
the record, whatever follows on the line, and ChangeMaxColumn is the column
limit in effect plus the Spaces of the record. -/
theorem line_start_match_bound_ignores_line (Style : FormatStyle) (P : Tally.Policy)
    (cs : Changes) (i : Nat) (hi : i < cs.length) :
    ((Changes.at cs i).NewlinesBefore = 0 →
      Tally.lineLengthAfter cs i = remainingLength cs i ∧
      Tally.ChangeMaxColumn Style P cs i =
        toUnsigned ((Tally.ColumnLimitInEffect Style P : Int) - remainingLength cs i)) ∧
    ((Changes.at cs i).NewlinesBefore ≠ 0 →
      Tally.lineLengthAfter cs i = -(Changes.at cs i).Spaces ∧
      Tally.ChangeMaxColumn Style P cs i =
        toUnsigned ((Tally.ColumnLimitInEffect Style P : Int) + (Changes.at cs i).Spaces)) := by
  constructor
  · intro hn
    have h := tally_lineLengthAfter_eq cs i hi hn
    refine ⟨h, ?_⟩
    unfold Tally.ChangeMaxColumn
    rw [h]
  · intro hn
    have h : Tally.lineLengthAfter cs i = -(Changes.at cs i).Spaces := by
      unfold Tally.lineLengthAfter
      rw [restOfLine_nil cs i (Or.inr hn)]
      simp
    refine ⟨h, ?_⟩
    unfold Tally.ChangeMaxColumn
    rw [h, Int.sub_neg]

set_option maxRecDepth 1000000 in
/-- C26, witness: in the ledger of `int x;` and `    yyy = 1;` the name `yyy`
(record 3) matches the predicate of the campaign on scoped variable names and
starts its line with 4 spaces; the remaining length of its line is 8 and the
column limit in effect is 80.  The Tally AlignTokens computes LineLengthAfter
= -4 and the upper bound 84, not 80 - 8 = 72, which is what the stock
AlignTokens computes for the same record. -/
theorem line_start_match_bound_ignores_line_witness :
    ((lineStartTokens.at (Changes.at lineStartChanges 3).Tok).isScopedVarNameInDecl &&
      (lineStartTokens.at (Changes.at lineStartChanges 3).Tok).HasSemiColonInLine) = true ∧
    (Changes.at lineStartChanges 3).NewlinesBefore = 1 ∧
    remainingLength lineStartChanges 3 = 8 ∧
    Tally.ColumnLimitInEffect {} {} = 80 ∧
    Tally.lineLengthAfter lineStartChanges 3 = -4 ∧
    Tally.ChangeMaxColumn {} {} lineStartChanges 3 = 84 ∧
    Stock.ChangeMaxColumn {} lineStartChanges 3 = 72 := by
  have h := (line_start_match_bound_ignores_line {} {} lineStartChanges 3 (by decide)).2
    (by decide)
  refine ⟨by decide, by decide, by decide, by decide, h.1.trans (by decide),
    h.2.trans (by decide), by decide⟩

end ClangFormat

namespace ClangFormat

/-! ## C27: the limit of leading spaces -/

end ClangFormat

namespace ClangFormat

/-! ## C28: lines without a matching record -/

end ClangFormat

namespace ClangFormat

/-! ## C29: the padding of member variable names -/

/-- C29: columnarizeIdentifierTokens with declaration alignment on and a
positive tab width, for MaxDatatypeLen + TabWidth below 2^31.  The value pad
that the loop before the pass computes lies in 1..TabWidth, MaxDatatypeLen +
pad is a multiple of TabWidth, and pad is the only value of 1..TabWidth with
that property.  Every record of a member variable name that the pass does not
pass over (its token is in a class or struct, or inside braces and outside
parentheses, and does not follow a bit-field colon) and that does not stand
directly after a left brace with a next token that is no comment leaves the
pass with Spaces = pad + MaxDatatypeLen - size, where size is the
PrevTokenSizeForColumnarization of its token when the loop reaches the
record, provided size is at most MaxDatatypeLen; so size + Spaces is
MaxDatatypeLen + pad, the same multiple of TabWidth for all such records. -/
theorem member_names_padded_to_tab_stop (W : WhitespaceManager)
    (hon : W.Style.AlignConsecutiveDeclarations = true) (htab : 0 < W.Style.TabWidth)
    (hfit : W.MaxDatatypeLen + W.Style.TabWidth < 2147483648) :
    ∃ pad : Nat, pad = 1 + padIncrements W.Style.TabWidth (W.MaxDatatypeLen + 1) ∧
      1 ≤ pad ∧ pad ≤ W.Style.TabWidth ∧ (W.MaxDatatypeLen + pad) % W.Style.TabWidth = 0 ∧
      (∀ q, 1 ≤ q → q ≤ W.Style.TabWidth → (W.MaxDatatypeLen + q) % W.Style.TabWidth = 0 →
        q = pad) ∧
      ∀ i, i < W.Changes.length →
        padsMemberName W.Toks (Changes.at W.Changes i).Tok = true →
        ((identifierStateAt W i).Toks.at
          (Changes.at W.Changes i).Tok).PrevTokenSizeForColumnarization ≤ W.MaxDatatypeLen →
        (Changes.at (columnarizeIdentifierTokens W).Changes i).Spaces =
          (pad : Int) + W.MaxDatatypeLen -
            ((identifierStateAt W i).Toks.at
              (Changes.at W.Changes i).Tok).PrevTokenSizeForColumnarization ∧
        (((identifierStateAt W i).Toks.at
            (Changes.at W.Changes i).Tok).PrevTokenSizeForColumnarization : Int) +
          (Changes.at (columnarizeIdentifierTokens W).Changes i).Spaces =
            ((W.MaxDatatypeLen + pad : Nat) : Int) := by
  have hp := pad_spec W.Style.TabWidth W.MaxDatatypeLen htab
  refine ⟨_, rfl, hp.1, hp.2.1, hp.2.2.1, hp.2.2.2, ?_⟩
  intro i hi hm hsize
  have hfr := identifierStateAt_frame W i
  have hsp : (Changes.at (columnarizeIdentifierTokens W).Changes i).Spaces =
      (Changes.at (identifierStateAt W (i + 1)).Changes i).Spaces := by
    rw [columnarizeIdentifierTokens_eq W hon]
    have e : W.Changes.length = i + 1 + (W.Changes.length - (i + 1)) := by omega
    rw [e]
    exact identifierStateAt_spaces W i _
  have hstep := identifierStep_member
    (1 + padIncrements W.Style.TabWidth (W.MaxDatatypeLen + 1)) (identifierStateAt W i) i
    (by rw [hfr.length]; exact hi)
    (by rw [hfr.tok i, padsMemberName_congr _ _ hfr.toks]; exact hm)
  rw [← identifierStateAt_succ, hfr.maxDatatypeLen, hfr.tok i] at hstep
  have hval : (Changes.at (columnarizeIdentifierTokens W).Changes i).Spaces =
      ((1 + padIncrements W.Style.TabWidth (W.MaxDatatypeLen + 1) : Nat) : Int) +
        W.MaxDatatypeLen -
        ((identifierStateAt W i).Toks.at
          (Changes.at W.Changes i).Tok).PrevTokenSizeForColumnarization := by
    rw [hsp, hstep, toInt_toUnsigned _ (by omega) (by omega)]
    omega
  refine ⟨hval, ?_⟩
  rw [hval]
  omega

set_option maxRecDepth 1000000 in
/-- C29, witness: the members `int a;` and `double bb;` of a class, with the
recorded datatype sizes 3 and 6, MaxDatatypeLen = 6 and tab width 4: pad is
2, the names get 5 and 2 spaces, and 3 + 5 = 6 + 2 = 8. -/
theorem member_names_padded_to_tab_stop_witness :
    1 + padIncrements memberManager.Style.TabWidth (memberManager.MaxDatatypeLen + 1) = 2 ∧
    (Changes.at (columnarizeIdentifierTokens memberManager).Changes 1).Spaces = 5 ∧
    (Changes.at (columnarizeIdentifierTokens memberManager).Changes 4).Spaces = 2 := by
  obtain ⟨pad, hpad, _, _, _, _, h⟩ :=
    member_names_padded_to_tab_stop memberManager rfl (by decide) (by decide)
  have hp : 1 + padIncrements memberManager.Style.TabWidth
      (memberManager.MaxDatatypeLen + 1) = 2 := by decide
  rw [hp] at hpad
  subst hpad
  exact ⟨hp, (h 1 (by decide) (by decide) (by decide)).1.trans (by decide),
    (h 4 (by decide) (by decide) (by decide)).1.trans (by decide)⟩

end ClangFormat

namespace ClangFormat

/-! ## C30: the text of escaped line breaks -/

/-- C30: for columns in the range of int, appendEscapedNewlineText appends to
Text exactly the text that the specification states: nothing when Newlines is
0, and otherwise max(1, EscapedNewlineColumn - PreviousEndOfTokenColumn - 1)
spaces, a backslash and a line break, followed for each further line break by
max(0, EscapedNewlineColumn - 1) spaces, a backslash and a line break.  So
when Newlines is positive the appended text begins with k >= 1 spaces and a
backslash, and k = EscapedNewlineColumn - 1 - PreviousEndOfTokenColumn
whenever EscapedNewlineColumn >= PreviousEndOfTokenColumn + 2: a text that
ended in column PreviousEndOfTokenColumn has its backslash in column
EscapedNewlineColumn - 1. -/
theorem appendEscapedNewlineText_appends_stated_text (W : WhitespaceManager) (Text : List Char)
    (Newlines PreviousEndOfTokenColumn EscapedNewlineColumn : Nat)
    (hp : PreviousEndOfTokenColumn < 2147483648) (he : EscapedNewlineColumn < 2147483648) :
    appendEscapedNewlineText W Text Newlines PreviousEndOfTokenColumn EscapedNewlineColumn =
      Text ++ escapedNewlinesAsStated W Newlines PreviousEndOfTokenColumn EscapedNewlineColumn ∧
    (Newlines = 0 →
      appendEscapedNewlineText W Text Newlines PreviousEndOfTokenColumn EscapedNewlineColumn =
        Text) ∧
    (Newlines > 0 → ∃ (k : Nat) (rest : List Char),
      appendEscapedNewlineText W Text Newlines PreviousEndOfTokenColumn EscapedNewlineColumn =
        Text ++ (List.replicate k ' ' ++ '\\' :: rest) ∧ 1 ≤ k ∧
      (EscapedNewlineColumn ≥ PreviousEndOfTokenColumn + 2 →
        PreviousEndOfTokenColumn + k = EscapedNewlineColumn - 1)) := by
  have hmain : appendEscapedNewlineText W Text Newlines PreviousEndOfTokenColumn
      EscapedNewlineColumn =
      Text ++ escapedNewlinesAsStated W Newlines PreviousEndOfTokenColumn
        EscapedNewlineColumn := by
    unfold appendEscapedNewlineText escapedNewlinesAsStated
    cases Newlines with
    | zero => simp
    | succ m =>
      have e1 : toUnsigned (max 1 (toInt (toUnsigned
          ((EscapedNewlineColumn : Int) - PreviousEndOfTokenColumn - 1)))) =
          (max 1 ((EscapedNewlineColumn : Int) - PreviousEndOfTokenColumn - 1)).toNat := by
        rw [toInt_toUnsigned _ (by omega) (by omega)]
        unfold toUnsigned
        omega
      have e2 : toUnsigned (max 0 (toInt (toUnsigned ((EscapedNewlineColumn : Int) - 1)))) =
          (max 0 ((EscapedNewlineColumn : Int) - 1)).toNat := by
        rw [toInt_toUnsigned _ (by omega) (by omega)]
        unfold toUnsigned
        omega
      rw [if_pos (Nat.succ_pos m), if_neg (Nat.succ_ne_zero m)]
      simp only []
      rw [e1, e2, List.range_succ_eq_map, foldl_escaped_first]
      simp
  refine ⟨hmain, ?_, ?_⟩
  · intro h0
    rw [hmain, h0]
    simp [escapedNewlinesAsStated]
  · intro hpos
    refine ⟨(max 1 ((EscapedNewlineColumn : Int) - PreviousEndOfTokenColumn - 1)).toNat,
      W.lineBreak ++ (List.replicate (Newlines - 1)
        (List.replicate (max 0 ((EscapedNewlineColumn : Int) - 1)).toNat ' ' ++
          ('\\' :: W.lineBreak))).flatten, ?_, by omega, by omega⟩
    rw [hmain]
    unfold escapedNewlinesAsStated
    rw [if_neg (by omega)]
    simp [List.append_assoc]

/-- C30, witness: two line breaks after a text that ends in column 2, with
EscapedNewlineColumn 6: three spaces, a backslash and a line break, then five
spaces, a backslash and a line break. -/
theorem appendEscapedNewlineText_appends_stated_text_witness :
    appendEscapedNewlineText {} ['a', 'b'] 2 2 6 =
      ['a', 'b', ' ', ' ', ' ', '\\', '\n', ' ', ' ', ' ', ' ', ' ', '\\', '\n'] ∧
    escapedNewlinesAsStated {} 2 2 6 =
      [' ', ' ', ' ', '\\', '\n', ' ', ' ', ' ', ' ', ' ', '\\', '\n'] := by
  have h := (appendEscapedNewlineText_appends_stated_text {} ['a', 'b'] 2 2 6
    (by decide) (by decide)).1
  constructor
  · rw [h]
    decide
  · decide

end ClangFormat

namespace ClangFormat

/-! ## C31: a trailing comment after a closing brace in column 0 -/

/-- C31: on a ledger without block-comment starts and with columns below
2^31, alignTrailingComments leaves Spaces and StartOfTokenColumn of a record
as they were if the record follows, on the same line, a closing brace that
stands in column 0; this holds for a trailing comment in particular, whatever
the state of the loop that earlier comments have left and whatever comments
follow.  Every ledger that the pass receives is without block-comment starts:
calculateLineBreakInformation leaves none. -/
theorem comment_after_brace_in_column_0_is_kept (W : WhitespaceManager) (k : Nat)
    (hnone : noBlockCommentStart W.Changes = true)
    (hsmall : columnsSmall W.Changes = true)
    (hbrace : followsRBraceInColumn0 W.Toks W.Changes k = true) :
    (Changes.at (alignTrailingComments W).Changes k).Spaces = (Changes.at W.Changes k).Spaces ∧
    (Changes.at (alignTrailingComments W).Changes k).StartOfTokenColumn =
      (Changes.at W.Changes k).StartOfTokenColumn ∧
    noBlockCommentStart (calculateLineBreakInformation W).Changes = true := by
  have h := alignTrailingCommentsOn_settled_all W.Toks W.Style W.SourceText W.Changes hnone
    hsmall k
  have hw : commentWindowEnd W.Toks W.Style W.Changes k ≤
      (Changes.at W.Changes k).StartOfTokenColumn := by
    unfold commentWindowEnd
    rw [hbrace, Bool.or_true, if_pos rfl]
  have hk := commentSettled_kept W.Toks W.Style W.Changes k _ h hw
  exact ⟨hk.1, hk.2, calculateLineBreakInformation_noBlockCommentStart W⟩

set_option maxRecDepth 1000000 in
/-- C31, witness: in the ledger of the lines `x;        // a`, `} // n` and
`y;// b` the comment of the second line, record 4, follows the closing brace
in column 0 and stays in column 2 with its one space, although the comment of
the first line stands in column 10; with a semicolon in the place of the
brace the same call moves it to column 10. -/
theorem comment_after_brace_in_column_0_is_kept_witness :
    (Changes.at braceCommentChanges 4).IsTrailingComment = true ∧
    (Changes.at (alignTrailingComments
      { Changes := braceCommentChanges, Toks := braceCommentTokens,
        Style := trailingOnStyle }).Changes 4).Spaces = 1 ∧
    (Changes.at (alignTrailingComments
      { Changes := braceCommentChanges, Toks := braceCommentTokens,
        Style := trailingOnStyle }).Changes 4).StartOfTokenColumn = 2 ∧
    (Changes.at (alignTrailingComments
      { Changes := braceCommentChanges,
        Toks := braceCommentTokens.set 3 (mkToken TokenKind.semi 0),
        Style := trailingOnStyle }).Changes 4).StartOfTokenColumn = 10 :=
  ⟨by decide,
    (comment_after_brace_in_column_0_is_kept
      { Changes := braceCommentChanges, Toks := braceCommentTokens, Style := trailingOnStyle }
      4 (by decide) (by decide) (by decide)).1,
    (comment_after_brace_in_column_0_is_kept
      { Changes := braceCommentChanges, Toks := braceCommentTokens, Style := trailingOnStyle }
      4 (by decide) (by decide) (by decide)).2.1,
    by decide⟩

end ClangFormat

namespace ClangFormat

/-! ## C32: a trailing comment for which no replacement is created -/

set_option maxRecDepth 1000000 in
/-- C32: a record with CreateReplacement false is not always left where it
is.  The window of such a comment ends at its own column, but when the next
record continues a preprocessor directive 2 is deducted from that end in the
type unsigned, and for a comment in column 0 or 1 the result wraps around to
a column near 2^32, so the comment can join a sequence that stands further to
the right.  In the ledger of the macro body `a    /* c1 */ \`, ` /* c2 */ \`,
`   b` the comment c2, record 2, has CreateReplacement false and stands in
column 1; its ChangeMaxColumn is 4294967295, and the call moves it to column
5, below c1, with 5 spaces instead of 1.  Apart from that wrap the comment is
immovable: on a ledger without block-comment starts and with columns below
2^31, a record with CreateReplacement false keeps its Spaces and its column,
provided its column is at least 2 if the next record continues a preprocessor
directive. -/
theorem immovable_comment_moves_before_directive_line :
    (∀ (T : TokenTable) (Style : FormatStyle) (src : List Char) (cs : Changes) (k : Nat),
      noBlockCommentStart cs = true → columnsSmall cs = true →
      (Changes.at cs k).CreateReplacement = false →
      (beforeDirectiveLine cs k = true → 2 ≤ (Changes.at cs k).StartOfTokenColumn) →
      (Changes.at (alignTrailingCommentsOn T Style src cs).1 k).Spaces =
        (Changes.at cs k).Spaces ∧
      (Changes.at (alignTrailingCommentsOn T Style src cs).1 k).StartOfTokenColumn =
        (Changes.at cs k).StartOfTokenColumn) ∧
    noBlockCommentStart immovableChanges = true ∧
    (Changes.at immovableChanges 2).IsTrailingComment = true ∧
    (Changes.at immovableChanges 2).CreateReplacement = false ∧
    (Changes.at immovableChanges 2).Spaces = 1 ∧
    (Changes.at immovableChanges 2).StartOfTokenColumn = 1 ∧
    beforeDirectiveLine immovableChanges 2 = true ∧
    commentMaxColumn trailingOnStyle immovableChanges 2 = 4294967295 ∧
    (alignTrailingCommentsOn immovableTokens trailingOnStyle immovableSource immovableChanges).2
      = true ∧
    (Changes.at (alignTrailingCommentsOn immovableTokens trailingOnStyle immovableSource
      immovableChanges).1 2).Spaces = 5 ∧
    (Changes.at (alignTrailingCommentsOn immovableTokens trailingOnStyle immovableSource
      immovableChanges).1 2).StartOfTokenColumn = 5 := by
  refine ⟨?_, by decide, by decide, by decide, by decide, by decide, by decide, by decide,
    by decide, by decide, by decide⟩
  intro T Style src cs k hnone hsmall hc hfit
  exact commentSettled_kept T Style cs k _
    (alignTrailingCommentsOn_settled_all T Style src cs hnone hsmall k)
    (commentWindowEnd_immovable T Style cs k hc hfit)

set_option maxRecDepth 1000000 in
/-- C32, witness: in the ledger of the same macro body with the comment c2
in column 2, where the deduction does not wrap, the comment keeps its column
and its spaces. -/
theorem immovable_comment_moves_before_directive_line_witness :
    (Changes.at (immovableChanges.set 2
      { Changes.at immovableChanges 2 with StartOfTokenColumn := 2, Spaces := 2 })
        2).CreateReplacement = false ∧
    (Changes.at (alignTrailingCommentsOn immovableTokens trailingOnStyle immovableSource
      (immovableChanges.set 2
        { Changes.at immovableChanges 2 with StartOfTokenColumn := 2, Spaces := 2 })).1
          2).StartOfTokenColumn = 2 :=
  ⟨by decide,
    ((immovable_comment_moves_before_directive_line.1 immovableTokens trailingOnStyle
      immovableSource
      (immovableChanges.set 2
        { Changes.at immovableChanges 2 with StartOfTokenColumn := 2, Spaces := 2 })
      2 (by decide) (by decide) (by decide) (by decide)).2).trans (by decide)⟩

end ClangFormat

namespace ClangFormat

/-! ## C33: the value that format returns on mismatched braces -/

/-- C33: format does not return true on every error it detects.  For a
buffer that is read without error, is not empty, has no unsupported byte
order mark and on which MissingNotBraces returns false, format writes `error:
file has mismatch braces` (line 582) and returns false (line 583), where the
comment above the function says `Returns true on error`; main takes false
for success.  So it does for the buffer that holds one closing parenthesis. -/
theorem format_returns_false_on_mismatched_braces (c : FormatCall) (BufStr : List Char)
    (hcode : c.Code = some BufStr) (hsize : BufStr ≠ []) (hbom : c.InvalidBOM = false)
    (hbraces : MissingNotBraces BufStr = ScanResult.returned false) :
    format c = some false ∧
    MissingNotBraces unopenedParenBuffer = ScanResult.returned false ∧
    format unopenedParenCall = some false := by
  refine ⟨?_, by decide, by decide⟩
  unfold format
  split
  · rfl
  · rw [hcode]
    simp only []
    rw [if_neg (by
      intro h
      exact hsize (List.length_eq_zero.mp h)), hbom, hbraces]
    rfl

/-- C33, witness: the call of format on the file that holds one closing
parenthesis. -/
theorem format_returns_false_on_mismatched_braces_witness :
    unopenedParenCall.Code = some unopenedParenBuffer ∧ unopenedParenBuffer ≠ [] ∧
    unopenedParenCall.InvalidBOM = false ∧
    MissingNotBraces unopenedParenBuffer = ScanResult.returned false ∧
    format unopenedParenCall = some false :=
  ⟨rfl, by decide, rfl, by decide,
    (format_returns_false_on_mismatched_braces unopenedParenCall unopenedParenBuffer rfl
      (by decide) rfl (by decide)).1⟩

end ClangFormat

namespace ClangFormat

/-! ## C34: the text written by outputReplacementXML -/

/-- C34: outputReplacementXML returns on every text, and the text it writes
is the given text with every line feed, carriage return, `<` and `&` replaced
by `&#10;`, `&#13;`, `&lt;` and `&amp;` and every other character kept, in
order; the text written holds no line feed, no carriage return and no `<`,
and decoding the four entities gives the given text back. -/
theorem outputReplacementXML_escapes_four_characters (Text : List Char) :
    outputReplacementXML Text = some (escapedText Text) ∧
    (∀ c, c ∈ escapedText Text → c ≠ '\n' ∧ c ≠ '\r' ∧ c ≠ '<') ∧
    decodedText (escapedText Text) = Text :=
  ⟨outputReplacementXML_eq Text, escapedText_raw Text, decodedText_escapedText Text⟩

end ClangFormat

namespace ClangFormat

/-! ## C35: records barred from being a match -/

set_option maxRecDepth 1000000 in
/-- C35: in the Tally AlignTokenSequence a record whose token has a
LparenCount other than 0, or that is an identifier directly after a `::`, a
`[` or a `<` in the ledger, is never taken as the match of its line, whatever
the predicate says: the loop body does at it what it does at a record that
the predicate does not match, so FoundMatchOnLine and Shift are not set by
it.  A later matching record of the line can then be the match: in the ledger
of the lines `int a;` and `N::v w;`, with the predicate of the campaign on
scoped variable names and the column 9, the name v after `::` (record 5)
matches the predicate and keeps its column 3 and its Spaces 0, and the name w
(record 6) is moved to column 9. -/
theorem barred_record_is_never_the_match (T : TokenTable) (Matches : Predicate)
    (IgnoreScope : Bool) (Start Column : Nat) (s : SeqState) (i : Nat) (stack : List Nat)
    (h : matchBarred T s.Changes i = true) :
    Tally.takesMatch T Matches IgnoreScope s i stack = false ∧
    Tally.sequenceStep T Matches IgnoreScope Start Column s i =
      Tally.sequenceStep T (fun _ _ => false) IgnoreScope Start Column s i ∧
    (scopedVarNameMatches scopedNameTokens scopedNameChanges 5 = true ∧
     scopedVarNameMatches scopedNameTokens scopedNameChanges 6 = true ∧
     matchBarred scopedNameTokens scopedNameChanges 5 = true ∧
     ((Tally.AlignTokenSequence scopedNameTokens 1 8 9 (scopedVarNameMatches scopedNameTokens)
        scopedNameChanges false false).Changes.map
          (fun c => (c.Spaces, c.StartOfTokenColumn))).drop 5 = [(0, 3), (5, 9), (0, 10)]) :=
  ⟨tally_takesMatch_barred T Matches IgnoreScope s i stack h,
    tally_sequenceStep_barred T Matches IgnoreScope Start Column s i h,
    by decide, by decide, by decide, by decide⟩

set_option maxRecDepth 1000000 in
/-- C35, witness: the name v after `::` at the start of the loop over the
second line of the ledger of `int a;` and `N::v w;`. -/
theorem barred_record_is_never_the_match_witness :
    matchBarred scopedNameTokens scopedNameChanges 5 = true ∧
    Tally.takesMatch scopedNameTokens (scopedVarNameMatches scopedNameTokens) false
      { Changes := scopedNameChanges } 5 [] = false :=
  ⟨by decide,
    (barred_record_is_never_the_match scopedNameTokens (scopedVarNameMatches scopedNameTokens)
      false 1 9 { Changes := scopedNameChanges } 5 [] (by decide)).1⟩

end ClangFormat

namespace ClangFormat

/-! ## C36: a matching record at index 0 -/

set_option maxRecDepth 1000000 in
/-- C36: the Tally AlignTokens, called from index 0, returns and leaves the
record at index 0 as it was, a matching record included: AlignTokenSequence
is entered only with StartOfSequence above 0 and writes no record below its
start.  A match at index 0 still counts for the column: after the loop body
at index 0 the sequence start is still 0 and MinColumn is the column of the
record (rounded up as ForceAlignToFourSpaces says), and the loop goes on from
that state at index 1.  In the ledger of the lines `v;`, `int a;` and `double
bb;` with the first line indented by 12, the campaign on scoped variable
names moves the names a and bb from columns 4 and 7 to column 12, the column
of v; with the first line indented by 2 it moves them to column 7 and leaves
v in column 2. -/
theorem first_record_is_never_shifted (T : TokenTable) (Style : FormatStyle) (P : Tally.Policy)
    (Matches : Predicate) (cs : Changes) :
    (∃ r, Tally.AlignTokens T Style Matches cs P 0 = some r ∧
      Changes.at r.Changes 0 = Changes.at cs 0) ∧
    (Matches cs 0 = true →
      (scanTail T (Tally.overload T Style P Matches)
        (scanHead (Tally.overload T Style P Matches) { Changes := cs } 0) 0).Changes = cs ∧
      (scanTail T (Tally.overload T Style P Matches)
        (scanHead (Tally.overload T Style P Matches) { Changes := cs } 0) 0).StartOfSequence = 0 ∧
      (scanTail T (Tally.overload T Style P Matches)
        (scanHead (Tally.overload T Style P Matches) { Changes := cs } 0) 0).MinColumn =
        (Tally.forceFour P
          { Changes := cs, MinColumn := (Changes.at cs 0).StartOfTokenColumn }).MinColumn) ∧
    (∀ (recCall : Changes → Nat → Option AlignResult) (fuel : Nat), 0 < cs.length →
      scanLoop T (Tally.overload T Style P Matches) recCall
          (indentAndNestingLevel T (Changes.at cs 0)) (fuel + 1) { Changes := cs } 0 =
        scanLoop T (Tally.overload T Style P Matches) recCall
          (indentAndNestingLevel T (Changes.at cs 0)) fuel
          (scanTail T (Tally.overload T Style P Matches)
            (scanHead (Tally.overload T Style P Matches) { Changes := cs } 0) 0) 1) ∧
    ((alignConsecutiveAssignmentsOnScopedVarName (firstRecordManager 12)).Changes.map
        (fun c => (c.Spaces, c.StartOfTokenColumn)) =
      [(12, 12), (0, 13), (0, 0), (9, 12), (0, 13), (0, 0), (6, 12), (0, 14)] ∧
     (alignConsecutiveAssignmentsOnScopedVarName (firstRecordManager 2)).Changes.map
        (fun c => (c.Spaces, c.StartOfTokenColumn)) =
      [(2, 2), (0, 3), (0, 0), (4, 7), (0, 8), (0, 0), (1, 7), (0, 9)]) := by
  refine ⟨?_, fun hm => tally_scanTail_first T Style P Matches cs hm,
    fun recCall fuel h0 => tally_scanLoop_first T Style P Matches recCall cs fuel h0,
    by decide, by decide⟩
  obtain ⟨r, hr, _⟩ := tally_AlignTokens_returns T Style Matches cs P 0 (Nat.zero_le _)
  exact ⟨r, hr, tally_alignTokensAux_first T Style P Matches _ cs 0 r hr⟩

set_option maxRecDepth 1000000 in
/-- C36, witness: the ledger of the lines `v;`, `int a;` and `double bb;`
with the first line indented by 12: the name v at index 0 matches the
predicate of the campaign on scoped variable names, and after the loop body
at index 0 the sequence start is 0 and MinColumn is 12. -/
theorem first_record_is_never_shifted_witness :
    scopedVarNameMatches firstRecordTokens (firstRecordChanges 12) 0 = true ∧
    (scanTail firstRecordTokens
      (Tally.overload firstRecordTokens {} {} (scopedVarNameMatches firstRecordTokens))
      (scanHead (Tally.overload firstRecordTokens {} {} (scopedVarNameMatches firstRecordTokens))
        { Changes := firstRecordChanges 12 } 0) 0).MinColumn = 12 :=
  ⟨by decide,
    (((first_record_is_never_shifted firstRecordTokens {} {}
      (scopedVarNameMatches firstRecordTokens) (firstRecordChanges 12)).2.1 (by decide)).2.2).trans
      (by decide)⟩

end ClangFormat

namespace ClangFormat

/-! ## C37: the text of appendIndentText -/

/-- C37: for every value of UseTab, every TabWidth above 0 and every number
of spaces (TabWidth and Spaces being values of the type unsigned),
appendIndentText appends to the text a run of tabs and spaces that, written
from the column WhitespaceStartColumn on with tab stops every TabWidth
columns, ends Spaces columns further; under UT_Never the run is Spaces
spaces. -/
theorem appendIndentText_advances_by_spaces (W : WhitespaceManager) (Text : List Char)
    (IndentLevel Spaces WhitespaceStartColumn : Nat) (IsAligned : Bool)
    (hw : 0 < W.Style.TabWidth) (hw2 : W.Style.TabWidth < 4294967296)
    (hs : Spaces < 4294967296) :
    appendIndentText W Text IndentLevel Spaces WhitespaceStartColumn IsAligned =
      Text ++ appendIndentText W [] IndentLevel Spaces WhitespaceStartColumn IsAligned ∧
    (∀ c, c ∈ appendIndentText W [] IndentLevel Spaces WhitespaceStartColumn IsAligned →
      c = '\t' ∨ c = ' ') ∧
    renderedColumn W.Style.TabWidth WhitespaceStartColumn
      (appendIndentText W [] IndentLevel Spaces WhitespaceStartColumn IsAligned) =
        WhitespaceStartColumn + Spaces ∧
    (W.Style.UseTab = UseTabStyle.UT_Never →
      appendIndentText W [] IndentLevel Spaces WhitespaceStartColumn IsAligned =
        List.replicate Spaces ' ') := by
  have h := appendIndentText_spec W IndentLevel Spaces WhitespaceStartColumn IsAligned hw hw2 hs
  refine ⟨appendIndentText_eq W Text IndentLevel Spaces WhitespaceStartColumn IsAligned,
    h.1, h.2, ?_⟩
  intro hn
  unfold appendIndentText
  rw [hn]
  rfl

set_option maxRecDepth 1000000 in
/-- C37, witness: with UT_Always and the tab width 4, eleven spaces from
column 2 on are written as three tabs and one space, which end in column
13. -/
theorem appendIndentText_advances_by_spaces_witness :
    appendIndentText { Style := { UseTab := UseTabStyle.UT_Always, TabWidth := 4 } } [] 0 11 2
      false = ['\t', '\t', '\t', ' '] ∧
    renderedColumn 4 2 ['\t', '\t', '\t', ' '] = 13 ∧
    renderedColumn 4 2
      (appendIndentText { Style := { UseTab := UseTabStyle.UT_Always, TabWidth := 4 } } [] 0 11 2
        false) = 2 + 11 :=
  ⟨by decide, by decide,
    (appendIndentText_advances_by_spaces
      { Style := { UseTab := UseTabStyle.UT_Always, TabWidth := 4 } } [] 0 11 2 false
      (by decide) (by decide) (by decide)).2.2.1⟩

end ClangFormat

namespace ClangFormat

/-! ## C38: the assertion of alignTrailingComments -/

/-- C38: on a ledger without block-comment starts and with columns below
2^31 no assertion `Shift >= 0` of alignTrailingComments fails.  Whenever the
loop stands at an index n, every trailing comment of the pending range, from
StartOfSequence up to n, stands at or left of MinColumn, the column at which
the range is flushed; so after the call no record stands left of where it
stood. -/
theorem trailing_comment_shift_is_never_negative (T : TokenTable) (Style : FormatStyle)
    (src : List Char) (cs : Changes)
    (hnone : noBlockCommentStart cs = true) (hsmall : columnsSmall cs = true) :
    (alignTrailingCommentsOn T Style src cs).2 = true ∧
    (∀ n k, n ≤ cs.length → (trailingStateAt T Style src cs n).StartOfSequence ≤ k → k < n →
      (Changes.at (trailingStateAt T Style src cs n).Changes k).IsTrailingComment = true →
      (Changes.at (trailingStateAt T Style src cs n).Changes k).StartOfTokenColumn ≤
        (trailingStateAt T Style src cs n).MinColumn) ∧
    (∀ k, (Changes.at cs k).StartOfTokenColumn ≤
      (Changes.at (alignTrailingCommentsOn T Style src cs).1 k).StartOfTokenColumn) :=
  ⟨(alignTrailingCommentsOn_settled T Style src cs (noBlockCommentStart_at cs hnone) hsmall).1,
    fun n k hn h1 h2 ht => trailingStateAt_member T Style src cs hnone hsmall n hn k h1 h2 ht,
    fun k => (alignTrailingCommentsOn_settled_all T Style src cs hnone hsmall k).grows⟩

set_option maxRecDepth 1000000 in
/-- C38, witness: in the ledger of the two lines `a; // x` and `bbb; // y`
with AlignTrailingComments on, the first comment is moved from column 3 to
column 5 and no assertion fails. -/
theorem trailing_comment_shift_is_never_negative_witness :
    noBlockCommentStart trailingChanges = true ∧ columnsSmall trailingChanges = true ∧
    (alignTrailingCommentsOn trailingTokens trailingOnStyle [] trailingChanges).2 = true ∧
    (Changes.at (alignTrailingCommentsOn trailingTokens trailingOnStyle [] trailingChanges).1
      2).StartOfTokenColumn = 5 :=
  ⟨by decide, by decide,
    (trailing_comment_shift_is_never_negative trailingTokens trailingOnStyle [] trailingChanges
      (by decide) (by decide)).1,
    by decide⟩

end ClangFormat

namespace ClangFormat

/-! ## C39: moved trailing comments and the column limit -/

set_option maxRecDepth 1000000 in
/-- C39: a trailing comment that alignTrailingComments moves does not always
end within the column limit.  When the next record continues a preprocessor
directive, 2 is deducted from ChangeMaxColumn in the type unsigned; for a
comment that leaves less than 2 columns below the limit the result wraps
around to a column near 2^32 and the comment fits every sequence.  With the
column limit 20, in the ledger of the macro body `a   /* c1 */ \`,
`/* 0123456789abc */\`, `   b` the long comment, record 2, is 19 columns
long and stands in column 0; its ChangeMaxColumn is 4294967295, the call
moves it to column 4, below c1, and it ends in column 23.  Apart from that
wrap the limit is kept: on a ledger without block-comment starts and with
columns below 2^31, with a column limit above 0, a record that the call has
moved to the right ends within the limit, and 2 columns earlier if the next
record continues a preprocessor directive, provided ChangeMaxColumn before
the deduction is at least 2 in that case. -/
theorem moved_comment_passes_limit_before_directive_line :
    (∀ (T : TokenTable) (Style : FormatStyle) (src : List Char) (cs : Changes) (k : Nat),
      0 < Style.ColumnLimit → noBlockCommentStart cs = true → columnsSmall cs = true →
      (beforeDirectiveLine cs k = true → 2 ≤ commentMaxBeforeDirective Style cs k) →
      (Changes.at cs k).StartOfTokenColumn <
        (Changes.at (alignTrailingCommentsOn T Style src cs).1 k).StartOfTokenColumn →
      (Changes.at (alignTrailingCommentsOn T Style src cs).1 k).IsTrailingComment = true ∧
      (Changes.at (alignTrailingCommentsOn T Style src cs).1 k).TokenLength =
        (Changes.at cs k).TokenLength ∧
      (Changes.at (alignTrailingCommentsOn T Style src cs).1 k).StartOfTokenColumn +
        (Changes.at cs k).TokenLength ≤ Style.ColumnLimit ∧
      (beforeDirectiveLine cs k = true →
        (Changes.at (alignTrailingCommentsOn T Style src cs).1 k).StartOfTokenColumn +
          (Changes.at cs k).TokenLength + 2 ≤ Style.ColumnLimit)) ∧
    noBlockCommentStart longCommentChanges = true ∧
    narrowStyle.ColumnLimit = 20 ∧
    (Changes.at longCommentChanges 2).IsTrailingComment = true ∧
    (Changes.at longCommentChanges 2).StartOfTokenColumn = 0 ∧
    (Changes.at longCommentChanges 2).TokenLength = 19 ∧
    beforeDirectiveLine longCommentChanges 2 = true ∧
    commentMaxBeforeDirective narrowStyle longCommentChanges 2 = 1 ∧
    commentMaxColumn narrowStyle longCommentChanges 2 = 4294967295 ∧
    (alignTrailingCommentsOn longCommentTokens narrowStyle longCommentSource
      longCommentChanges).2 = true ∧
    (Changes.at (alignTrailingCommentsOn longCommentTokens narrowStyle longCommentSource
      longCommentChanges).1 2).StartOfTokenColumn = 4 ∧
    (Changes.at (alignTrailingCommentsOn longCommentTokens narrowStyle longCommentSource
      longCommentChanges).1 2).TokenLength = 19 := by
  refine ⟨?_, by decide, by decide, by decide, by decide, by decide, by decide, by decide,
    by decide, by decide, by decide, by decide⟩
  intro T Style src cs k hlimit hnone hsmall hfit hmoved
  have hs := alignTrailingCommentsOn_settled_all T Style src cs hnone hsmall k
  have hf := alignTrailingCommentsOn_sameFrame T Style src cs
  have ht : (Changes.at cs k).IsTrailingComment = true := by
    by_cases h : (Changes.at cs k).IsTrailingComment = true
    · exact h
    · have := hs.plain (by simpa using h)
      omega
  have hw := commentSettled_within T Style cs k _ hs hlimit hfit hmoved
  exact ⟨by rw [hf.isTrailingComment k]; exact ht, hf.tokenLength k, hw.1, hw.2⟩

set_option maxRecDepth 1000000 in
/-- C39, witness: in the ledger of the two lines `a; // x` and `bbb; // y`
with AlignTrailingComments on and the column limit 80, the first comment is
moved from column 3 to column 5 and ends in column 9. -/
theorem moved_comment_passes_limit_before_directive_line_witness :
    (Changes.at trailingChanges 2).StartOfTokenColumn = 3 ∧
    (Changes.at (alignTrailingCommentsOn trailingTokens trailingOnStyle [] trailingChanges).1
      2).StartOfTokenColumn = 5 ∧
    (Changes.at trailingChanges 2).TokenLength = 4 ∧
    (Changes.at (alignTrailingCommentsOn trailingTokens trailingOnStyle [] trailingChanges).1
      2).StartOfTokenColumn + (Changes.at trailingChanges 2).TokenLength ≤ 80 :=
  ⟨by decide, by decide, by decide,
    (moved_comment_passes_limit_before_directive_line.1 trailingTokens trailingOnStyle []
      trailingChanges 2 (by decide) (by decide) (by decide) (by decide) (by decide)).2.2.1⟩

end ClangFormat

namespace ClangFormat

/-! ## C40: reads of MissingNotBraces outside the buffer -/

set_option maxRecDepth 1000000 in
/-- C40: MissingNotBraces reads outside its buffer.  On every buffer that
starts with a single quote it reads the character before the buffer: pidx is
-1, which counts as true in the test of line 478, so `data[pidx]` is read.
On the buffer of an assignment followed by a slash it reads the character
after the terminator: the terminator is read as the character after the
slash and is stepped over at the end of the loop body.  On the buffer of an
open block comment that ends in a star it does the same: the terminator is
read as the character after the star and is stepped over.  A read outside
the buffer happens on no buffer without slashes, quotes and terminators
inside. -/
theorem MissingNotBraces_reads_outside_buffer :
    (∀ rest : List Char, MissingNotBraces (sinstr :: rest) = ScanResult.outside) ∧
    MissingNotBraces quotedBuffer = ScanResult.outside ∧
    MissingNotBraces trailingSlashBuffer = ScanResult.outside ∧
    MissingNotBraces openCommentBuffer = ScanResult.outside ∧
    (∀ BufStr : List Char, BufStr.all plainChar = true →
      MissingNotBraces BufStr ≠ ScanResult.outside) := by
  refine ⟨MissingNotBraces_quote_first, by decide, by decide, by decide, ?_⟩
  intro BufStr h
  rw [MissingNotBraces_plain BufStr h]
  exact fun e => ScanResult.noConfusion e

set_option maxRecDepth 1000000 in
/-- C40, witness: the buffer of a pair of parentheses has no slash and no
quote, and the scan stays inside it. -/
theorem MissingNotBraces_reads_outside_buffer_witness :
    ['(', ')'].all plainChar = true ∧ MissingNotBraces ['(', ')'] ≠ ScanResult.outside :=
  ⟨by decide, MissingNotBraces_reads_outside_buffer.2.2.2.2 ['(', ')'] (by decide)⟩

end ClangFormat

